import Mathlib

/-! B+ tree index (CMU 15-445, 2020): shallow embedding

Sources embedded here:

* `src/storage/page/b_plus_tree_internal_page.cpp` (internal node layer),
* `src/storage/index/b_plus_tree.cpp` (tree engine, crabbing, rebalancing),
* `src/storage/index/index_iterator.cpp` (forward iterator).

The leaf node layer, the common page header, the buffer pool, the transaction
context and the header page are not among the sources; each is modelled from
the specification and marked as such.

Conventions.  C++ `int` values (sizes, slot indexes), `page_id_t`, the keys (`KeyType`, set from
integers) and the record ids (`ValueType`) are `Int`.  A
pointer to a page is the page id under which the frame is stored in the buffer
pool, so every read through a pointer reads the current frame contents and
aliasing behaves as in the source.  Exceptions, failed assertions, null
dereferences and self-deadlock of a single thread are values of `Err`.  Loops
whose trip count depends on page contents carry a fuel argument.
-/

namespace bustub

/-- A slot: a key with a record id (leaf) or with a child page id (internal page). -/
abbrev MappingType := Int × Int

/-- Modelled from the spec: the reserved page id that denotes "absent" (`common/config.h` is not
among the sources). -/
def INVALID_PAGE_ID : Int := -1

def NODE_IS_LEFT : Int := 0

def NODE_IS_RIGHT : Int := 1

inductive OP_TYPE where
  | READ
  | INSERT
  | DELETE
deriving DecidableEq, Repr

inductive IndexPageType where
  | INVALID_INDEX_PAGE
  | LEAF_PAGE
  | INTERNAL_PAGE
deriving DecidableEq, Repr

/-- Abnormal outcomes of the source: `oom` is `THROW_OOM`, `assertion` a failed `assert`,
`nullptr` a dereferenced null pointer, `bounds` a write below slot 0, `latch` a latch request the
single running thread can never be granted, `pinned` the pin-count exception of `FreeAllPages`,
`fuel` an exhausted loop budget. -/
inductive Err where
  | oom
  | assertion
  | nullptr
  | bounds
  | latch
  | pinned
  | fuel
deriving DecidableEq, Repr

/-- The comparator of the source on integer keys: negative, zero or positive. -/
def comparator (a b : Int) : Int :=
  if a < b then -1 else if a = b then 0 else 1

/-- A tree page: the common header (`BPlusTreePage`), the leaf's next pointer and the slot array.
The source reaches leaf and internal pages through `reinterpret_cast` over this common layout.
`array` is the physical slot array: slots at or beyond `size` keep whatever was last written
there.  Modelled from the spec: the header fields (`b_plus_tree_page.h` is not among the
sources). -/
structure Node where
  page_type : IndexPageType
  size : Int
  max_size : Int
  parent_page_id : Int
  page_id : Int
  next_page_id : Int
  array : List MappingType
deriving DecidableEq, Repr

/-- Read of `array_[i]`; a slot never written reads as zero bytes. -/
def slotAt (a : List MappingType) (i : Int) : MappingType :=
  a.getD i.toNat (0, 0)

/-- Write of `array_[i] = x`. -/
def slotSet (a : List MappingType) (i : Int) (x : MappingType) : List MappingType :=
  if i.toNat < a.length then a.set i.toNat x
  else a ++ List.replicate (i.toNat - a.length) (0, 0) ++ [x]

namespace Node

/-- Modelled from the spec: header accessor of `BPlusTreePage`. -/
def IsLeafPage (n : Node) : Bool := n.page_type == IndexPageType.LEAF_PAGE

/-- Modelled from the spec: the root is the page whose parent id is absent. -/
def IsRootPage (n : Node) : Bool := n.parent_page_id == INVALID_PAGE_ID

def GetSize (n : Node) : Int := n.size

def GetMaxSize (n : Node) : Int := n.max_size

/-- Modelled from the spec: the minimum size of a node is `⌈max/2⌉` (`b_plus_tree_page.cpp` is not
among the sources). -/
def GetMinSize (n : Node) : Int := (n.max_size + 1) / 2

def KeyAt (n : Node) (index : Int) : Int := (slotAt n.array index).1

def ValueAt (n : Node) (index : Int) : Int := (slotAt n.array index).2

def SetKeyAt (n : Node) (index : Int) (key : Int) : Node :=
  { n with array := slotSet n.array index (key, (slotAt n.array index).2) }

def SetValueAt (n : Node) (index : Int) (value : Int) : Node :=
  { n with array := slotSet n.array index ((slotAt n.array index).1, value) }

/-- `BPlusTreeInternalPage::Init`: the stored max size is `max_size + 1`. -/
def InitInternal (n : Node) (page_id parent_id : Int) (max_size : Int) : Node :=
  { n with page_type := IndexPageType.INTERNAL_PAGE, page_id := page_id,
           parent_page_id := parent_id, size := 0, max_size := max_size + 1 }

/-- `BPlusTreeInternalPage::ValueIndex`: first slot below `size` holding `value`; `none` is the
failed assertion at the end of the source loop. -/
def ValueIndex (n : Node) (value : Int) : Option Int :=
  ((List.range n.size.toNat).find? (fun (i : Nat) => (slotAt n.array (Int.ofNat i)).2 == value)).map
    Int.ofNat

/-- The loop of `BPlusTreeInternalPage::LowerBound` on `(lo, len)`; `none` when the fuel runs out
before `len` reaches zero. -/
def LowerBoundLoop (n : Node) (key : Int) : Nat → Int → Int → Option Int
  | 0, lo, len => if len > 0 then none else some lo
  | fuel + 1, lo, len =>
    if len > 0 then
      let half := len / 2
      let mid := lo + half
      if comparator (n.KeyAt mid) key < 0 then
        LowerBoundLoop n key fuel (mid + 1) (len - (half + 1))
      else
        LowerBoundLoop n key fuel lo half
    else some lo

/-- `BPlusTreeInternalPage::LowerBound`, the loop budget being the node size. -/
def LowerBound (n : Node) (key : Int) : Option Int :=
  LowerBoundLoop n key n.size.toNat 1 (n.GetSize - 1)

/-- The slot index `BPlusTreeInternalPage::Lookup` reads its result from. -/
def LookupIndex (n : Node) (key : Int) : Option Int :=
  (n.LowerBound key).map fun index =>
    if index ≥ n.GetSize ∨ comparator (n.KeyAt index) key > 0 then index - 1 else index

/-- `BPlusTreeInternalPage::Lookup`. -/
def Lookup (n : Node) (key : Int) : Option Int :=
  (n.LookupIndex key).map n.ValueAt

/-- `BPlusTreeInternalPage::PopulateNewRoot`. -/
def PopulateNewRoot (n : Node) (old_value : Int) (new_key : Int)
    (new_value : Int) : Node :=
  let n := n.SetValueAt 0 old_value
  let n := n.SetKeyAt 1 new_key
  let n := n.SetValueAt 1 new_value
  { n with size := 2 }

/-- The loop `for (i = hi; i > lo; --i) array_[i] = array_[i - 1]`, `count` being `hi - lo`. -/
def shiftUp : Nat → Int → List MappingType → List MappingType
  | 0, _, a => a
  | count + 1, i, a => shiftUp count (i - 1) (slotSet a i (slotAt a (i - 1)))

/-- The loop `for (i = lo; i < hi; ++i) array_[i] = array_[i + 1]`, `count` being `hi - lo`. -/
def shiftDown : Nat → Int → List MappingType → List MappingType
  | 0, _, a => a
  | count + 1, i, a => shiftDown count (i + 1) (slotSet a i (slotAt a (i + 1)))

/-- `BPlusTreeInternalPage::InsertNodeAfter`; returns the node and its new size. -/
def InsertNodeAfter (n : Node) (old_value : Int) (new_key : Int)
    (new_value : Int) : Option (Node × Int) :=
  (n.ValueIndex old_value).map fun pos =>
    let a := shiftUp (n.GetSize - (pos + 1)).toNat n.GetSize n.array
    let a := slotSet a (pos + 1) (new_key, new_value)
    ({ n with array := a, size := n.size + 1 }, n.size + 1)

/-- `BPlusTreeInternalPage::Remove`. -/
def Remove (n : Node) (index : Int) : Node :=
  { n with array := shiftDown (n.GetSize - 1 - index).toNat index n.array, size := n.size - 1 }

/-- `BPlusTreeInternalPage::RemoveAndReturnOnlyChild`. -/
def RemoveAndReturnOnlyChild (n : Node) : Node × Int :=
  (n.Remove 0, n.ValueAt 0)

/-- Modelled from the spec: `BPlusTreeLeafPage::Init` (the leaf page source is not among the
sources); a leaf stores the configured max size as it is and has no next leaf. -/
def InitLeaf (n : Node) (page_id parent_id : Int) (max_size : Int) : Node :=
  { n with page_type := IndexPageType.LEAF_PAGE, page_id := page_id,
           parent_page_id := parent_id, size := 0, max_size := max_size,
           next_page_id := INVALID_PAGE_ID, array := [] }

/-- Modelled from the spec: leaf `key_index(k,cmp)`, the first slot with key `≥ k` (the leaf size
when there is none). -/
def LeafKeyIndex (n : Node) (key : Int) : Int :=
  Int.ofNat (n.array.findIdx fun s => decide (comparator s.1 key ≥ 0))

/-- Modelled from the spec: leaf `lookup(k,cmp) -> option<v>`. -/
def LeafLookup (n : Node) (key : Int) : Option Int :=
  (n.array.find? fun s => comparator s.1 key == 0).map Prod.snd

/-- Modelled from the spec: leaf `insert(k,v,cmp) -> new_size`, an ordered insert that is a no-op
on a duplicate key. -/
def LeafInsert (n : Node) (key : Int) (value : Int) : Node × Int :=
  match n.LeafLookup key with
  | some _ => (n, n.size)
  | none =>
    let i := (n.LeafKeyIndex key).toNat
    ({ n with array := n.array.take i ++ [(key, value)] ++ n.array.drop i, size := n.size + 1 },
      n.size + 1)

/-- Modelled from the spec: leaf `remove(k,cmp) -> new_size`; an absent key leaves the leaf as it
is. -/
def RemoveAndDeleteRecord (n : Node) (key : Int) : Node × Int :=
  match n.LeafLookup key with
  | none => (n, n.size)
  | some _ =>
    ({ n with array := n.array.eraseIdx (n.LeafKeyIndex key).toNat, size := n.size - 1 },
      n.size - 1)

/-- Modelled from the spec: leaf `move_half_to(sibling)` (upper half); as in the internal page
source the upper `⌊size/2⌋` slots move.  Returns the donor and the recipient. -/
def LeafMoveHalfTo (n recipient : Node) : Node × Node :=
  let half_size := (n.size / 2).toNat
  let keep := n.array.length - half_size
  ({ n with array := n.array.take keep, size := n.size - Int.ofNat half_size },
   { recipient with array := recipient.array ++ n.array.drop keep,
                    size := recipient.size + Int.ofNat half_size })

/-- Modelled from the spec: leaf `move_all_to(sibling)` (append); the recipient takes over the
donor's next pointer so that the leaf chain skips the emptied page.  Returns the donor and the
recipient. -/
def LeafMoveAllTo (n recipient : Node) : Node × Node :=
  ({ n with array := [], size := 0 },
   { recipient with array := recipient.array ++ n.array, size := recipient.size + n.size,
                    next_page_id := n.next_page_id })

/-- Modelled from the spec: leaf `move_first_to_end_of(sibling)`.  Returns the donor and the
recipient. -/
def LeafMoveFirstToEndOf (n recipient : Node) : Node × Node :=
  match n.array with
  | [] => (n, recipient)
  | x :: rest =>
    ({ n with array := rest, size := n.size - 1 },
     { recipient with array := recipient.array ++ [x], size := recipient.size + 1 })

/-- Modelled from the spec: leaf `move_last_to_front_of(sibling)`.  Returns the donor and the
recipient. -/
def LeafMoveLastToFrontOf (n recipient : Node) : Node × Node :=
  match n.array.getLast? with
  | none => (n, recipient)
  | some x =>
    ({ n with array := n.array.dropLast, size := n.size - 1 },
     { recipient with array := x :: recipient.array, size := recipient.size + 1 })

/-- Modelled from the spec: leaf `GetItem`, the pair stored in a slot. -/
def GetItem (n : Node) (index : Int) : MappingType := slotAt n.array index

end Node

/-- `IsNodeSafe` of `b_plus_tree.cpp`. -/
def IsNodeSafe (node : Node) (op_type : OP_TYPE) : Bool :=
  if op_type = OP_TYPE.INSERT then decide (node.GetSize < node.GetMaxSize - 1)
  else if op_type = OP_TYPE.DELETE then decide (node.GetSize > node.GetMinSize)
  else true

/-- Modelled from the spec: a buffer frame, with its pin count, its reader/writer latch (`0`
free, `n > 0` held by `n` readers, `-1` held by a writer) and its payload. -/
structure Page where
  pin_count : Int
  latch : Int
  data : Node
deriving DecidableEq, Repr

/-- The index together with the collaborators its operations act on.  `pages` is the buffer
pool's page table, indexed by page id (`none`: never allocated, or deleted; page 0 is the header
page and holds no tree node).  `header_calls` records the calls made to the header page
(`true` for `InsertRecord`, `false` for `UpdateRecord`) with the root id passed, and
`header_pin_count` is the pin count of the frame of the header page.  `page_set` and
`deleted_page_set` are the two sets of the transaction.  Modelled from the spec: the buffer pool,
the transaction and the header page are external collaborators. -/
structure BPlusTree where
  root_page_id : Int
  leaf_max_size : Int
  internal_max_size : Int
  pages : List (Option Page)
  root_latch : Int
  root_latch_cnt : Nat
  header_calls : List (Bool × Int)
  header_pin_count : Int
  page_set : List Int
  deleted_page_set : List Int
deriving DecidableEq, Repr

/-- The constructor of `BPlusTree`: an empty index over a pool holding only the header page. -/
def BPlusTree.new (leaf_max_size internal_max_size : Int) : BPlusTree :=
  { root_page_id := INVALID_PAGE_ID, leaf_max_size := leaf_max_size,
    internal_max_size := internal_max_size, pages := [none], root_latch := 0,
    root_latch_cnt := 0, header_calls := [], header_pin_count := 0, page_set := [],
    deleted_page_set := [] }

/-- A freshly allocated frame payload: zero bytes. -/
def zeroNode : Node :=
  { page_type := IndexPageType.INVALID_INDEX_PAGE, size := 0, max_size := 0, parent_page_id := 0,
    page_id := 0, next_page_id := 0, array := [] }

def getPage (t : BPlusTree) (id : Int) : Option Page :=
  if id < 0 then none else (t.pages.getD id.toNat none)

def setPage (t : BPlusTree) (id : Int) (p : Page) : BPlusTree :=
  { t with pages := t.pages.set id.toNat (some p) }

/-- Read through a pointer to the payload of a frame. -/
def getNode (t : BPlusTree) (id : Int) : Except Err Node :=
  match getPage t id with
  | some p => pure p.data
  | none => throw Err.nullptr

/-- Write through a pointer to the payload of a frame. -/
def setNode (t : BPlusTree) (id : Int) (n : Node) : BPlusTree :=
  match getPage t id with
  | some p => setPage t id { p with data := n }
  | none => t

/-- Modelled from the spec: `fetch_page(id) -> frame | none`; pins the frame.  The pool is taken
large enough, so the only failure is a page id that names no page. -/
def FetchPage (t : BPlusTree) (id : Int) : Option BPlusTree :=
  (getPage t id).map fun p => setPage t id { p with pin_count := p.pin_count + 1 }

/-- Modelled from the spec: `new_page() -> (id, frame)`; the frame is zeroed and pinned once. -/
def NewPage (t : BPlusTree) : BPlusTree × Int :=
  ({ t with pages := t.pages ++ [some { pin_count := 1, latch := 0, data := zeroNode }] },
    Int.ofNat t.pages.length)

/-- Modelled from the spec: `unpin(id, dirty)`. -/
def UnpinPage (t : BPlusTree) (id : Int) (_is_dirty : Bool) : BPlusTree :=
  match getPage t id with
  | some p => if p.pin_count > 0 then setPage t id { p with pin_count := p.pin_count - 1 } else t
  | none => t

/-- Modelled from the spec: `delete_page(id)`; a pinned page is not deleted. -/
def DeletePage (t : BPlusTree) (id : Int) : BPlusTree :=
  match getPage t id with
  | some p => if p.pin_count > 0 then t else { t with pages := t.pages.set id.toNat none }
  | none => t

/-- `LatchPage` of `b_plus_tree.cpp`; over the frame latch modelled from the spec. -/
def LatchPage (t : BPlusTree) (page : Int) (op_type : OP_TYPE) : Except Err BPlusTree :=
  match getPage t page with
  | none => throw Err.nullptr
  | some p =>
    if op_type = OP_TYPE.READ then
      if p.latch < 0 then throw Err.latch else pure (setPage t page { p with latch := p.latch + 1 })
    else
      if p.latch ≠ 0 then throw Err.latch else pure (setPage t page { p with latch := -1 })

/-- `UnlatchPage` of `b_plus_tree.cpp`. -/
def UnlatchPage (t : BPlusTree) (page : Int) (op_type : OP_TYPE) : Except Err BPlusTree :=
  match getPage t page with
  | none => throw Err.nullptr
  | some p =>
    if op_type = OP_TYPE.READ then
      if p.latch ≤ 0 then throw Err.latch else pure (setPage t page { p with latch := p.latch - 1 })
    else
      if p.latch ≠ -1 then throw Err.latch else pure (setPage t page { p with latch := 0 })

def AddIntoPageSet (t : BPlusTree) (page : Int) : BPlusTree :=
  { t with page_set := t.page_set ++ [page] }

def AddIntoDeletedPageSet (t : BPlusTree) (page_id : Int) : BPlusTree :=
  if page_id ∈ t.deleted_page_set then t
  else { t with deleted_page_set := t.deleted_page_set ++ [page_id] }

def IsEmpty (t : BPlusTree) : Bool := t.root_page_id == INVALID_PAGE_ID

/-- `BPlusTree::LatchRoot`. -/
def LatchRoot (t : BPlusTree) (op_type : OP_TYPE) : Except Err BPlusTree :=
  if op_type = OP_TYPE.READ then
    if t.root_latch < 0 then throw Err.latch
    else pure { t with root_latch := t.root_latch + 1, root_latch_cnt := t.root_latch_cnt + 1 }
  else
    if t.root_latch ≠ 0 then throw Err.latch
    else pure { t with root_latch := -1, root_latch_cnt := t.root_latch_cnt + 1 }

/-- `BPlusTree::TryUnlatchRoot`. -/
def TryUnlatchRoot (t : BPlusTree) (op_type : OP_TYPE) : BPlusTree :=
  if t.root_latch_cnt > 0 then
    if op_type = OP_TYPE.READ then
      { t with root_latch := t.root_latch - 1, root_latch_cnt := t.root_latch_cnt - 1 }
    else
      { t with root_latch := 0, root_latch_cnt := t.root_latch_cnt - 1 }
  else t

/-- `BPlusTree::UpdateRootPageId`: the header page is fetched (its pin count goes up by one),
the record is written, and the header page is unpinned (a positive pin count goes down by
one, as in `UnpinPage`). -/
def UpdateRootPageId (t : BPlusTree) (insert_record : Bool) : BPlusTree :=
  { t with header_calls := t.header_calls ++ [(insert_record, t.root_page_id)],
           header_pin_count :=
             if t.header_pin_count + 1 > 0 then t.header_pin_count + 1 - 1
             else t.header_pin_count + 1 }

/-- The body of the loop of `BPlusTree::ReleaseAllPages`. -/
def releasePage (t : BPlusTree) (page : Int) : Except Err BPlusTree := do
  let t ← UnlatchPage t page OP_TYPE.INSERT
  pure (UnpinPage t page true)

/-- `BPlusTree::ReleaseAllPages`. -/
def ReleaseAllPages (t : BPlusTree) : Except Err BPlusTree := do
  let t ← t.page_set.foldlM releasePage t
  pure { t with page_set := [] }

/-- The body of the loop of `BPlusTree::FreeAllPages`. -/
def freePage (t : BPlusTree) (page : Int) : Except Err BPlusTree := do
  let t ← UnlatchPage t page OP_TYPE.DELETE
  let t := UnpinPage t page true
  if page ∈ t.deleted_page_set then
    match getPage t page with
    | none => throw Err.nullptr
    | some p =>
      if p.pin_count > 0 then throw Err.pinned
      else
        let t := DeletePage t page
        pure { t with deleted_page_set := t.deleted_page_set.erase page }
  else pure t

/-- `BPlusTree::FreeAllPages`. -/
def FreeAllPages (t : BPlusTree) : Except Err BPlusTree := do
  let t ← t.page_set.foldlM freePage t
  let t := { t with page_set := [] }
  if t.deleted_page_set = [] then pure t else throw Err.assertion

/-- The loop of `BPlusTree::FindLeafPageCrabbing`. -/
def FindLeafPageCrabbingLoop (key : Int) (op_type : OP_TYPE) :
    Nat → BPlusTree → Int → Except Err (BPlusTree × Int)
  | 0, _, _ => throw Err.fuel
  | fuel + 1, t, page => do
    let node ← getNode t page
    if node.IsLeafPage then pure (t, page)
    else
      match node.Lookup key with
      | none => throw Err.fuel
      | some child_page_id =>
        match FetchPage t child_page_id with
        | none => throw Err.oom
        | some t =>
          let t ← LatchPage t child_page_id op_type
          let child ← getNode t child_page_id
          if op_type = OP_TYPE.READ then
            let t := TryUnlatchRoot t op_type
            let t ← UnlatchPage t page op_type
            let t := UnpinPage t page false
            FindLeafPageCrabbingLoop key op_type fuel t child_page_id
          else
            if IsNodeSafe child op_type then
              let t := TryUnlatchRoot t op_type
              let t ← ReleaseAllPages t
              FindLeafPageCrabbingLoop key op_type fuel (AddIntoPageSet t child_page_id)
                child_page_id
            else
              FindLeafPageCrabbingLoop key op_type fuel (AddIntoPageSet t child_page_id)
                child_page_id

/-- `BPlusTree::FindLeafPageCrabbing`; the descent may visit each page of the pool once. -/
def FindLeafPageCrabbing (t : BPlusTree) (key : Int) (op_type : OP_TYPE) :
    Except Err (BPlusTree × Int) := do
  let t ← LatchRoot t op_type
  match FetchPage t t.root_page_id with
  | none => throw Err.oom
  | some t =>
    let page := t.root_page_id
    let t ← LatchPage t page op_type
    let t := if op_type ≠ OP_TYPE.READ then AddIntoPageSet t page else t
    FindLeafPageCrabbingLoop key op_type t.pages.length t page

/-- `BPlusTree::GetValue`; returns the flag and the result vector. -/
def GetValue (t : BPlusTree) (key : Int) (result : List Int) :
    Except Err (BPlusTree × Bool × List Int) := do
  let t ← LatchRoot t OP_TYPE.READ
  if IsEmpty t then pure (TryUnlatchRoot t OP_TYPE.READ, false, result)
  else
    let t := TryUnlatchRoot t OP_TYPE.READ
    let (t, page) ← FindLeafPageCrabbing t key OP_TYPE.READ
    let leaf_page ← getNode t page
    let value := leaf_page.LeafLookup key
    let t := TryUnlatchRoot t OP_TYPE.READ
    let t ← UnlatchPage t page OP_TYPE.READ
    let t := UnpinPage t page false
    match value with
    | some v => pure (t, true, [v])
    | none => pure (t, false, result)

/-- `BPlusTreeInternalPage::CopyNFrom`, the loop over `items`; `i` is the next slot written. -/
def CopyNFromLoop (self : Int) : List MappingType → Int → BPlusTree → Except Err BPlusTree
  | [], _, t => pure t
  | item :: items, i, t =>
    match FetchPage t item.2 with
    | none => throw Err.oom
    | some t => do
      let me ← getNode t self
      let child ← getNode t item.2
      let t := setNode t item.2 { child with parent_page_id := me.page_id }
      let t := UnpinPage t item.2 true
      let me ← getNode t self
      let t := setNode t self { me with array := slotSet me.array i item }
      CopyNFromLoop self items (i + 1) t

/-- `BPlusTreeInternalPage::CopyNFrom`: `items` are the `size` slots read from the donor. -/
def CopyNFrom (t : BPlusTree) (self : Int) (items : List MappingType) (size : Int) :
    Except Err BPlusTree := do
  let t ← CopyNFromLoop self items 0 t
  let me ← getNode t self
  pure (setNode t self { me with size := size })

/-- The `count` slots of `a` starting at slot `start`. -/
def slotsFrom (a : List MappingType) (start : Int) (count : Int) : List MappingType :=
  (List.range count.toNat).map fun (j : Nat) => slotAt a (start + Int.ofNat j)

/-- `BPlusTreeInternalPage::MoveHalfTo`. -/
def MoveHalfTo (t : BPlusTree) (self recipient : Int) : Except Err BPlusTree := do
  let me ← getNode t self
  let half_size := me.GetSize / 2
  let items := slotsFrom me.array (me.GetSize - half_size) half_size
  let t ← CopyNFrom t recipient items half_size
  let me ← getNode t self
  pure (setNode t self { me with size := me.GetSize - half_size })

/-- `BPlusTreeInternalPage::MoveAllTo`. -/
def MoveAllTo (t : BPlusTree) (self recipient : Int) (middle_key : Int) :
    Except Err BPlusTree := do
  let r ← getNode t recipient
  let old_size := r.GetSize
  let me ← getNode t self
  let items := slotsFrom me.array 0 me.GetSize
  let t ← CopyNFrom t recipient items me.GetSize
  if old_size - 1 < 0 then throw Err.bounds
  else
    let r ← getNode t recipient
    let t := setNode t recipient (r.SetKeyAt (old_size - 1) middle_key)
    let me ← getNode t self
    pure (setNode t self { me with size := 0 })

/-- `BPlusTreeInternalPage::CopyLastFrom`. -/
def CopyLastFrom (t : BPlusTree) (self : Int) (item : MappingType) :
    Except Err BPlusTree := do
  let me ← getNode t self
  if me.GetSize - 1 < 0 then throw Err.bounds
  else
    let t := setNode t self
      { me with array := slotSet me.array (me.GetSize - 1) item, size := me.GetSize + 1 }
    match FetchPage t item.2 with
    | none => throw Err.oom
    | some t =>
      let me ← getNode t self
      let child ← getNode t item.2
      let t := setNode t item.2 { child with parent_page_id := me.page_id }
      pure (UnpinPage t item.2 true)

/-- `BPlusTreeInternalPage::MoveFirstToEndOf`. -/
def MoveFirstToEndOf (t : BPlusTree) (self recipient : Int) (middle_key : Int) :
    Except Err BPlusTree := do
  let me ← getNode t self
  let item : MappingType := (middle_key, me.ValueAt 0)
  let t := setNode t self (me.Remove 0)
  CopyLastFrom t recipient item

/-- `BPlusTreeInternalPage::CopyFirstFrom`. -/
def CopyFirstFrom (t : BPlusTree) (self : Int) (item : MappingType) :
    Except Err BPlusTree := do
  let me ← getNode t self
  let a := Node.shiftUp (me.GetSize - 1).toNat me.GetSize me.array
  let a := slotSet a 0 (item.1, (slotAt a 0).2)
  let a := slotSet a 1 ((slotAt a 1).1, item.2)
  let t := setNode t self { me with array := a, size := me.GetSize + 1 }
  match FetchPage t item.2 with
  | none => throw Err.oom
  | some t =>
    let me ← getNode t self
    let child ← getNode t item.2
    let t := setNode t item.2 { child with parent_page_id := me.page_id }
    pure (UnpinPage t item.2 true)

/-- `BPlusTreeInternalPage::MoveLastToFrontOf`. -/
def MoveLastToFrontOf (t : BPlusTree) (self recipient : Int) (middle_key : Int) :
    Except Err BPlusTree := do
  let me ← getNode t self
  let item : MappingType := (middle_key, me.ValueAt (me.GetSize - 1))
  let t := setNode t self (me.Remove (me.GetSize - 1))
  CopyFirstFrom t recipient item

/-- `BPlusTree::StartNewTree`. -/
def StartNewTree (t : BPlusTree) (key : Int) (value : Int) : Except Err BPlusTree := do
  let (t, page_id) := NewPage t
  let t := { t with root_page_id := page_id }
  let t := UpdateRootPageId t true
  let leaf_page ← getNode t page_id
  let leaf_page := leaf_page.InitLeaf page_id INVALID_PAGE_ID t.leaf_max_size
  let t := setNode t page_id (leaf_page.LeafInsert key value).1
  pure (UnpinPage t page_id true)

/-- `BPlusTree::Split`; `N` is the page kind the template is instantiated with.  Returns the id
of the new page. -/
def Split (t : BPlusTree) (N : IndexPageType) (node : Int) :
    Except Err (BPlusTree × Int) := do
  let (t, page_id) := NewPage t
  let n ← getNode t node
  let split_node ← getNode t page_id
  let max_size := if n.IsLeafPage then t.leaf_max_size else t.internal_max_size
  let split_node :=
    if N = IndexPageType.LEAF_PAGE then split_node.InitLeaf page_id n.parent_page_id max_size
    else split_node.InitInternal page_id n.parent_page_id max_size
  let t := setNode t page_id split_node
  if n.IsLeafPage then
    let (leaf_node, split_leaf_node) := n.LeafMoveHalfTo split_node
    let split_leaf_node := { split_leaf_node with next_page_id := leaf_node.next_page_id }
    let leaf_node := { leaf_node with next_page_id := page_id }
    let t := setNode t page_id split_leaf_node
    pure (setNode t node leaf_node, page_id)
  else
    let t ← MoveHalfTo t node page_id
    pure (t, page_id)

/-- `BPlusTree::InsertIntoParent`. -/
def InsertIntoParent :
    Nat → BPlusTree → Int → Int → Int → Except Err BPlusTree
  | 0, _, _, _, _ => throw Err.fuel
  | fuel + 1, t, old_node, key, new_node => do
    let old ← getNode t old_node
    if old.IsRootPage then
      let (t, page_id) := NewPage t
      let t := { t with root_page_id := page_id }
      let t := UpdateRootPageId t false
      let new_root_node ← getNode t page_id
      let new_root_node := new_root_node.InitInternal page_id INVALID_PAGE_ID t.internal_max_size
      let old ← getNode t old_node
      let new ← getNode t new_node
      let new_root_node := new_root_node.PopulateNewRoot old.page_id key new.page_id
      let t := setNode t page_id new_root_node
      let old ← getNode t old_node
      let t := setNode t old_node { old with parent_page_id := page_id }
      let new ← getNode t new_node
      let t := setNode t new_node { new with parent_page_id := page_id }
      let t := UnpinPage t new.page_id true
      pure (UnpinPage t page_id true)
    else
      let parent := old.parent_page_id
      match FetchPage t parent with
      | none => throw Err.oom
      | some t =>
        let parent_page ← getNode t parent
        let new ← getNode t new_node
        match parent_page.InsertNodeAfter old.page_id key new.page_id with
        | none => throw Err.assertion
        | some (parent_page, size) =>
          let t := setNode t parent parent_page
          let t := UnpinPage t new.page_id true
          if size = parent_page.GetMaxSize then
            let (t, split_page) ← Split t IndexPageType.INTERNAL_PAGE parent
            let split ← getNode t split_page
            let mid_key := split.KeyAt 0
            let t ← InsertIntoParent fuel t parent mid_key split_page
            let parent_page ← getNode t parent
            pure (UnpinPage t parent_page.page_id true)
          else
            pure (UnpinPage t parent_page.page_id true)

/-- `BPlusTree::InsertIntoLeaf`. -/
def InsertIntoLeaf (t : BPlusTree) (key : Int) (value : Int) :
    Except Err (BPlusTree × Bool) := do
  let (t, page) ← FindLeafPageCrabbing t key OP_TYPE.INSERT
  let leaf_page ← getNode t page
  let old_size := leaf_page.GetSize
  let (leaf_page, size) := leaf_page.LeafInsert key value
  let t := setNode t page leaf_page
  let is_dirty := decide (size > old_size)
  if size = leaf_page.GetMaxSize then
    let (t, split_leaf_page) ← Split t IndexPageType.LEAF_PAGE page
    let split ← getNode t split_leaf_page
    let mid_key := split.KeyAt 0
    let t ← InsertIntoParent t.pages.length t page mid_key split_leaf_page
    let t := TryUnlatchRoot t OP_TYPE.INSERT
    let t ← ReleaseAllPages t
    pure (t, is_dirty)
  else
    let t := TryUnlatchRoot t OP_TYPE.INSERT
    let t ← ReleaseAllPages t
    pure (t, is_dirty)

/-- `BPlusTree::Insert`. -/
def Insert (t : BPlusTree) (key : Int) (value : Int) :
    Except Err (BPlusTree × Bool) := do
  let t ← LatchRoot t OP_TYPE.INSERT
  if IsEmpty t then
    let t ← StartNewTree t key value
    pure (TryUnlatchRoot t OP_TYPE.INSERT, true)
  else
    let t := TryUnlatchRoot t OP_TYPE.INSERT
    InsertIntoLeaf t key value

/-- `BPlusTree::AdjustRoot`. -/
def AdjustRoot (t : BPlusTree) (old_root_node : Int) : Except Err (BPlusTree × Bool) := do
  let old_root ← getNode t old_root_node
  if !old_root.IsLeafPage ∧ old_root.GetSize = 1 then
    let (old_root, child_page_id) := old_root.RemoveAndReturnOnlyChild
    let t := setNode t old_root_node old_root
    let t := { t with root_page_id := child_page_id }
    let t := UpdateRootPageId t false
    match FetchPage t child_page_id with
    | none => throw Err.oom
    | some t =>
      let child ← getNode t child_page_id
      let t := setNode t child_page_id { child with parent_page_id := INVALID_PAGE_ID }
      pure (UnpinPage t child_page_id true, true)
  else if old_root.IsLeafPage ∧ old_root.GetSize = 0 then
    let t := { t with root_page_id := INVALID_PAGE_ID }
    pure (UpdateRootPageId t false, true)
  else pure (t, false)

/-- `BPlusTree::Redistribute`; `neighbor_node` is `none` for a null sibling pointer. -/
def Redistribute (t : BPlusTree) (neighbor_node : Option Int) (node : Int)
    (index : Int) : Except Err BPlusTree := do
  let n ← getNode t node
  match FetchPage t n.parent_page_id with
  | none => throw Err.oom
  | some t =>
    let parent := n.parent_page_id
    let parent_node ← getNode t parent
    match parent_node.ValueIndex n.page_id with
    | none => throw Err.assertion
    | some node_index =>
      match neighbor_node with
      | none => throw Err.nullptr
      | some neighbor =>
        let nb ← getNode t neighbor
        if n.IsLeafPage then
          if index = NODE_IS_LEFT then
            let (nb, n) := nb.LeafMoveFirstToEndOf n
            let t := setNode t neighbor nb
            let t := setNode t node n
            let parent_node ← getNode t parent
            let nb ← getNode t neighbor
            let t := setNode t parent (parent_node.SetKeyAt (node_index + 1) (nb.KeyAt 0))
            pure (UnpinPage t parent_node.page_id true)
          else
            let (nb, n) := nb.LeafMoveLastToFrontOf n
            let t := setNode t neighbor nb
            let t := setNode t node n
            let parent_node ← getNode t parent
            let n ← getNode t node
            let t := setNode t parent (parent_node.SetKeyAt node_index (n.KeyAt 0))
            pure (UnpinPage t parent_node.page_id true)
        else
          let mid_key := parent_node.KeyAt (node_index + (if index = NODE_IS_LEFT then 1 else 0))
          if index = NODE_IS_LEFT then
            let t := setNode t parent (parent_node.SetKeyAt (node_index + 1) (nb.KeyAt 1))
            let t ← MoveFirstToEndOf t neighbor node mid_key
            let parent_node ← getNode t parent
            pure (UnpinPage t parent_node.page_id true)
          else
            let t := setNode t parent
              (parent_node.SetKeyAt node_index (nb.KeyAt (nb.GetSize - 1)))
            let t ← MoveLastToFrontOf t neighbor node mid_key
            let parent_node ← getNode t parent
            pure (UnpinPage t parent_node.page_id true)

/-- `BPlusTree::Coalesce`; `recurse` is the recursive call of `CoalesceOrRedistribute` on the
parent. -/
def Coalesce (recurse : BPlusTree → Int → Except Err (BPlusTree × Bool)) (t : BPlusTree)
    (neighbor_node_ node_ parent : Int) (index : Int) : Except Err (BPlusTree × Bool) := do
  let (node, neighbor_node) :=
    if index = NODE_IS_LEFT then (neighbor_node_, node_) else (node_, neighbor_node_)
  let n ← getNode t node
  let parent_node ← getNode t parent
  match parent_node.ValueIndex n.page_id with
  | none => throw Err.assertion
  | some node_index =>
    let t ←
      if n.IsLeafPage then do
        let nb ← getNode t neighbor_node
        let (n, nb) := n.LeafMoveAllTo nb
        let t := setNode t neighbor_node nb
        pure (setNode t node n)
      else
        MoveAllTo t node neighbor_node (parent_node.KeyAt node_index)
    let n ← getNode t node
    let t := AddIntoDeletedPageSet t n.page_id
    let parent_node ← getNode t parent
    let parent_node := parent_node.Remove node_index
    let t := setNode t parent parent_node
    let size := parent_node.GetSize
    if size < parent_node.GetMinSize then
      let (t, shall_delete_parent) ← recurse t parent
      if shall_delete_parent then
        let parent_node ← getNode t parent
        pure (AddIntoDeletedPageSet t parent_node.page_id, false)
      else pure (t, false)
    else pure (t, false)

/-- The sibling fetch of `BPlusTree::CoalesceOrRedistribute`: fetch, write-latch, add to the page
set. -/
def fetchSibling (t : BPlusTree) (sibling_page_id : Int) : Except Err BPlusTree :=
  match FetchPage t sibling_page_id with
  | none => throw Err.oom
  | some t => do
    let t ← LatchPage t sibling_page_id OP_TYPE.DELETE
    pure (AddIntoPageSet t sibling_page_id)

/-- `BPlusTree::CoalesceOrRedistribute`. -/
def CoalesceOrRedistribute : Nat → BPlusTree → Int → Except Err (BPlusTree × Bool)
  | 0, _, _ => throw Err.fuel
  | fuel + 1, t, node => do
    let n ← getNode t node
    if n.IsRootPage then
      let (t, shall_delete_root) ← AdjustRoot t node
      let n ← getNode t node
      if shall_delete_root ∧ !n.IsLeafPage then
        pure (AddIntoDeletedPageSet t n.page_id, shall_delete_root && n.IsLeafPage)
      else pure (t, shall_delete_root && n.IsLeafPage)
    else
      let parent := n.parent_page_id
      match FetchPage t parent with
      | none => throw Err.oom
      | some t =>
        let parent_page ← getNode t parent
        match parent_page.ValueIndex n.page_id with
        | none => throw Err.assertion
        | some node_index =>
          let left_sibling_index := node_index - 1
          let right_sibling_index := node_index + 1
          let (t, left_sibling_node) ←
            if left_sibling_index ≥ 0 then do
              let id := parent_page.ValueAt left_sibling_index
              let t ← fetchSibling t id
              pure (t, some id)
            else pure (t, none)
          let parent_page ← getNode t parent
          let (t, right_sibling_node) ←
            if right_sibling_index < parent_page.GetSize then do
              let id := parent_page.ValueAt right_sibling_index
              let t ← fetchSibling t id
              pure (t, some id)
            else pure (t, none)
          let n ← getNode t node
          let left_size ← match left_sibling_node with
            | some id => (getNode t id).map fun l => some l.GetSize
            | none => pure none
          let right_size ← match right_sibling_node with
            | some id => (getNode t id).map fun r => some r.GetSize
            | none => pure none
          match left_sibling_node, left_size.map fun l => decide (n.GetSize + l < n.GetMaxSize) with
          | some lid, some true =>
            let (t, _) ← Coalesce (CoalesceOrRedistribute fuel) t lid node parent NODE_IS_RIGHT
            let parent_page ← getNode t parent
            let n ← getNode t node
            pure (UnpinPage t parent_page.page_id true, n.IsLeafPage)
          | _, _ =>
            match right_sibling_node,
              right_size.map fun r => decide (n.GetSize + r < n.GetMaxSize) with
            | some rid, some true =>
              let (t, _) ← Coalesce (CoalesceOrRedistribute fuel) t rid node parent NODE_IS_LEFT
              let parent_page ← getNode t parent
              pure (UnpinPage t parent_page.page_id true, false)
            | _, _ =>
              let parent_page ← getNode t parent
              let t := UnpinPage t parent_page.page_id false
              match left_size.map fun l => decide (n.GetSize + l ≥ n.GetMaxSize) with
              | some true =>
                let t ← Redistribute t left_sibling_node node NODE_IS_RIGHT
                pure (t, false)
              | _ =>
                let t ← Redistribute t right_sibling_node node NODE_IS_LEFT
                pure (t, false)

/-- `BPlusTree::Remove`. -/
def Remove (t : BPlusTree) (key : Int) : Except Err BPlusTree := do
  let t ← LatchRoot t OP_TYPE.DELETE
  if IsEmpty t then pure (TryUnlatchRoot t OP_TYPE.DELETE)
  else
    let t := TryUnlatchRoot t OP_TYPE.DELETE
    let (t, page) ← FindLeafPageCrabbing t key OP_TYPE.DELETE
    let leaf_page ← getNode t page
    let (leaf_page, size) := leaf_page.RemoveAndDeleteRecord key
    let t := setNode t page leaf_page
    if size < leaf_page.GetMinSize then
      let (t, shall_delete_leaf) ← CoalesceOrRedistribute t.pages.length t page
      let t := if shall_delete_leaf then AddIntoDeletedPageSet t page else t
      let t := TryUnlatchRoot t OP_TYPE.DELETE
      FreeAllPages t
    else
      let t := TryUnlatchRoot t OP_TYPE.DELETE
      FreeAllPages t

/-- The loop of `BPlusTree::FindLeafPage`. -/
def FindLeafPageLoop (key : Int) (left_most : Bool) :
    Nat → BPlusTree → Int → Except Err (BPlusTree × Int)
  | 0, _, _ => throw Err.fuel
  | fuel + 1, t, page => do
    let node ← getNode t page
    if node.IsLeafPage then pure (t, page)
    else
      let child ←
        if !left_most then
          match node.Lookup key with
          | some c => pure c
          | none => throw Err.fuel
        else pure (node.ValueAt 0)
      match FetchPage t child with
      | none => throw Err.nullptr
      | some t =>
        let t := UnpinPage t node.page_id false
        FindLeafPageLoop key left_most fuel t child

/-- `BPlusTree::FindLeafPage`. -/
def FindLeafPage (t : BPlusTree) (key : Int) (left_most : Bool) :
    Except Err (BPlusTree × Int) :=
  match FetchPage t t.root_page_id with
  | none => throw Err.oom
  | some t => FindLeafPageLoop key left_most t.pages.length t t.root_page_id

/-- The fields of `IndexIterator`: `leaf_page_` (`none` for a null pointer), `index_`, whether
`bpm_` is non-null, and `is_end_`. -/
structure IndexIterator where
  leaf_page_ : Option Int
  index_ : Int
  bpm_ : Bool
  is_end_ : Bool
deriving DecidableEq, Repr

namespace IndexIterator

def isEnd (it : IndexIterator) : Bool := it.is_end_

/-- `IndexIterator::operator*`. -/
def deref (t : BPlusTree) (it : IndexIterator) : Except Err MappingType :=
  match it.leaf_page_ with
  | none => throw Err.nullptr
  | some leaf => do
    let n ← getNode t leaf
    pure (n.GetItem it.index_)

/-- `IndexIterator::operator++`. -/
def next (t : BPlusTree) (it : IndexIterator) : Except Err (BPlusTree × IndexIterator) :=
  if it.isEnd then pure (t, it)
  else
    match it.leaf_page_ with
    | none => throw Err.nullptr
    | some leaf => do
      let n ← getNode t leaf
      if it.index_ < n.GetSize - 1 then pure (t, { it with index_ := it.index_ + 1 })
      else if n.next_page_id = INVALID_PAGE_ID then pure (t, { it with is_end_ := true })
      else
        match FetchPage t n.next_page_id with
        | none => throw Err.oom
        | some t =>
          let t := UnpinPage t n.page_id false
          pure (t, { it with leaf_page_ := some n.next_page_id, index_ := 0 })

/-- `IndexIterator::operator==`. -/
def eq (it other : IndexIterator) : Bool :=
  if it.isEnd then other.isEnd
  else if other.isEnd then it.isEnd
  else it.leaf_page_ == other.leaf_page_ && it.index_ == other.index_

/-- `IndexIterator::~IndexIterator`. -/
def drop (t : BPlusTree) (it : IndexIterator) : Except Err BPlusTree :=
  if it.bpm_ then
    match it.leaf_page_ with
    | none => throw Err.assertion
    | some leaf => do
      let n ← getNode t leaf
      pure (UnpinPage t n.page_id false)
  else pure t

end IndexIterator

/-- `BPlusTree::begin`. -/
def begin (t : BPlusTree) : Except Err (BPlusTree × IndexIterator) := do
  let (t, page) ← FindLeafPage t 0 true
  pure (t, { leaf_page_ := some page, index_ := 0, bpm_ := true, is_end_ := false })

/-- `BPlusTree::Begin`. -/
def Begin (t : BPlusTree) (key : Int) : Except Err (BPlusTree × IndexIterator) := do
  let (t, page) ← FindLeafPage t key false
  let leaf_page ← getNode t page
  let key_index := leaf_page.LeafKeyIndex key
  pure (t, { leaf_page_ := some page, index_ := key_index, bpm_ := true, is_end_ := false })

/-- `BPlusTree::end`. -/
def endIterator : IndexIterator :=
  { leaf_page_ := none, index_ := 0, bpm_ := false, is_end_ := true }

/-- The scan `for (it = start; it != end(); ++it) out.push_back(*it)` followed by the iterator's
destruction; at most `fuel` entries are read. -/
def scanFrom : Nat → BPlusTree → IndexIterator → List MappingType →
    Except Err (BPlusTree × List MappingType)
  | 0, _, _, _ => throw Err.fuel
  | fuel + 1, t, it, out =>
    if it.eq endIterator then do
      let t ← it.drop t
      pure (t, out)
    else do
      let x ← it.deref t
      let (t, it) ← it.next t
      scanFrom fuel t it (out ++ [x])

deriving instance DecidableEq for Except

/-- One call of the public interface by the single running thread. -/
inductive Call where
  | insert (key : Int) (value : Int)
  | remove (key : Int)
deriving DecidableEq, Repr

def applyCall (t : BPlusTree) : Call → Except Err BPlusTree
  | Call.insert key value => (Insert t key value).map Prod.fst
  | Call.remove key => Remove t key

/-- A single-threaded sequence of `Insert`/`Remove` calls. -/
def run (t : BPlusTree) (calls : List Call) : Except Err BPlusTree :=
  calls.foldlM applyCall t

/-- What `GetValue` reports for a key, called with an empty result vector. -/
def getResult (t : BPlusTree) (key : Int) : Except Err (Bool × List Int) :=
  (GetValue t key []).map Prod.snd

/-- The live pairs after a sequence of calls on an initially empty index, in ascending key
order: an insert of a live key adds nothing, a remove drops the key. -/
def liveAfter (calls : List Call) : List MappingType :=
  calls.foldl
    (fun (m : List MappingType) c =>
      match c with
      | Call.insert key value =>
        if m.any (fun s => s.1 == key) then m
        else m.takeWhile (fun s => decide (s.1 < key)) ++ [(key, value)] ++
          m.dropWhile (fun s => decide (s.1 < key))
      | Call.remove key => m.filter (fun s => s.1 != key))
    []

/-- The full scan `for (it = begin(); it != end(); ++it)`. -/
def scan (fuel : Nat) (t : BPlusTree) : Except Err (List MappingType) := do
  let (t, it) ← begin t
  let (_, out) ← scanFrom fuel t it []
  pure out

/-- The keys in slots `1 .. size - 1` of an internal page are strictly increasing. -/
def Node.KeysIncreasing (n : Node) : Prop :=
  ∀ i j : Int, 1 ≤ i → i < j → j < n.size → n.KeyAt i < n.KeyAt j

/-- The internal root of the second concrete scenario of the specification: `[ ,15,25]` over
the pages 1, 2 and 4. -/
def exampleRoot : Node :=
  { page_type := IndexPageType.INTERNAL_PAGE, size := 3, max_size := 5, parent_page_id := -1,
    page_id := 3, next_page_id := 0, array := [(0, 1), (15, 2), (25, 4)] }

/-- The index of the first concrete scenario of the specification: leaf max 4, internal max 4,
keys 10, 20, 5, 15, 25 inserted (root page 3 `[ ,15]` over the leaves `[5,10]` on page 1 and
`[15,20,25]` on page 2). -/
def scenarioTree : BPlusTree :=
  match run (BPlusTree.new 4 4)
      [Call.insert 10 10, Call.insert 20 20, Call.insert 5 5, Call.insert 15 15,
       Call.insert 25 25] with
  | Except.ok t => t
  | Except.error _ => BPlusTree.new 4 4

/-- The frame of the root page of `scenarioTree`. -/
def scenarioRootPage : Page :=
  { pin_count := 0, latch := 0,
    data :=
      { page_type := IndexPageType.INTERNAL_PAGE, size := 2, max_size := 5, parent_page_id := -1,
        page_id := 3, next_page_id := 0, array := [(0, 1), (15, 2)] } }

/-- The entries a page holds: whether it is a leaf, and its slots `0 .. size - 1`. -/
def nodeView (t : BPlusTree) (id : Int) : Except Err (Bool × List MappingType) :=
  (getNode t id).map fun n => (n.IsLeafPage, slotsFrom n.array 0 n.size)

/-- The parent id stored in each of the pages `ids` (`none` for a page that does not exist). -/
def parentIds (t : BPlusTree) (ids : List Int) : List (Option Int) :=
  ids.map fun id => (getPage t id).map fun p => p.data.parent_page_id

/-- An unpinned, unlatched leaf frame of max size 4. -/
def leafFrame (id parent next : Int) (a : List MappingType) : Option Page :=
  some { pin_count := 0, latch := 0,
         data := { page_type := IndexPageType.LEAF_PAGE, size := Int.ofNat a.length,
                   max_size := 4, parent_page_id := parent, page_id := id,
                   next_page_id := next, array := a } }

/-- An unpinned, unlatched internal frame as `Init` leaves it for internal max 4. -/
def internalFrame (id parent : Int) (a : List MappingType) : Option Page :=
  some { pin_count := 0, latch := 0,
         data := { page_type := IndexPageType.INTERNAL_PAGE, size := Int.ofNat a.length,
                   max_size := 5, parent_page_id := parent, page_id := id, next_page_id := 0,
                   array := a } }

/-- A three-level index (leaf max 4, internal max 4) with two internal siblings: page 5
`[ ,10]` over the leaves 1 and 2, page 6 `[ ,30]` over the leaves 3 and 4, and the root page 7
`[ ,20]` over 5 and 6. -/
def siblingTree : BPlusTree :=
  { root_page_id := 7, leaf_max_size := 4, internal_max_size := 4,
    pages := [none, leafFrame 1 5 2 [(1, 1), (5, 5)], leafFrame 2 5 3 [(10, 10), (15, 15)],
              leafFrame 3 6 4 [(20, 20), (25, 25)], leafFrame 4 6 (-1) [(30, 30), (35, 35)],
              internalFrame 5 7 [(0, 1), (10, 2)], internalFrame 6 7 [(0, 3), (30, 4)],
              internalFrame 7 (-1) [(0, 5), (20, 6)]],
    root_latch := 0, root_latch_cnt := 0, header_calls := [], header_pin_count := 0,
    page_set := [], deleted_page_set := [] }

/-- The calls of the occupancy example of the specification: the keys 1 to 8 inserted in
ascending order. -/
def ascendingCalls : List Call :=
  [Call.insert 1 1, Call.insert 2 2, Call.insert 3 3, Call.insert 4 4, Call.insert 5 5,
   Call.insert 6 6, Call.insert 7 7, Call.insert 8 8]

/-- The index after `ascendingCalls` with leaf max 4 and internal max 4. -/
def ascendingTree : BPlusTree :=
  match run (BPlusTree.new 4 4) ascendingCalls with
  | Except.ok t => t
  | Except.error _ => BPlusTree.new 4 4

/-- The frame of the root page of `ascendingTree`: an internal page with four children. -/
def ascendingRootPage : Page :=
  { pin_count := 0, latch := 0,
    data :=
      { page_type := IndexPageType.INTERNAL_PAGE, size := 4, max_size := 5, parent_page_id := -1,
        page_id := 3, next_page_id := 0, array := [(0, 1), (3, 2), (5, 4), (7, 5)] } }

/-- Calls that grow a third level and then shrink the leftmost leaves: the keys 1 to 10
inserted in ascending order, then the keys 1 and 2 removed. -/
def threeLevelCalls : List Call :=
  [Call.insert 1 1, Call.insert 2 2, Call.insert 3 3, Call.insert 4 4, Call.insert 5 5,
   Call.insert 6 6, Call.insert 7 7, Call.insert 8 8, Call.insert 9 9, Call.insert 10 10,
   Call.remove 1, Call.remove 2]

/-- The index after `threeLevelCalls` with leaf max 3 and internal max 3. -/
def threeLevelTree : BPlusTree :=
  match run (BPlusTree.new 3 3) threeLevelCalls with
  | Except.ok t => t
  | Except.error _ => BPlusTree.new 3 3
/-- Between two operations of the single running thread: the root latch is free, no page is
pinned or latched and both transaction sets are empty. -/
def quiescent (t : BPlusTree) : Bool :=
  t.root_latch == 0 && t.root_latch_cnt == 0 && t.page_set.isEmpty &&
    t.deleted_page_set.isEmpty &&
    t.pages.all fun p =>
      match p with
      | none => true
      | some pg => pg.pin_count == 0 && pg.latch == 0

/-- The path `FindLeafPageCrabbing` follows from `page`, without latches and pins: the leaf it
ends in and the number of internal pages passed on the way. -/
def descend (t : BPlusTree) (key : Int) : Nat → Int → Option (Int × Nat)
  | 0, _ => none
  | fuel + 1, page =>
    match getPage t page with
    | none => none
    | some pg =>
      if pg.data.IsLeafPage then some (page, 0)
      else
        match pg.data.Lookup key with
        | none => none
        | some child =>
          match getPage t child with
          | none => none
          | some _ => (descend t key fuel child).map fun r => (r.1, r.2 + 1)

/-- The state `t` of a writer that has taken nothing but latches and pins since the quiescent
state `t0`: the pages of its page set are pinned once and write-latched, every other frame is as
in `t0`, and the root latch is either still held by the writer or already released. -/
structure HeldState (t0 t : BPlusTree) : Prop where
  root : t.root_page_id = t0.root_page_id
  leaf_max : t.leaf_max_size = t0.leaf_max_size
  internal_max : t.internal_max_size = t0.internal_max_size
  header : t.header_calls = t0.header_calls
  header_pin : t.header_pin_count = t0.header_pin_count
  deleted : t.deleted_page_set = []
  length : t.pages.length = t0.pages.length
  nodup : t.page_set.Nodup
  valid : ∀ id ∈ t.page_set, ∃ pg, getPage t0 id = some pg
  latch : (t.root_latch = -1 ∧ t.root_latch_cnt = 1) ∨ (t.root_latch = 0 ∧ t.root_latch_cnt = 0)
  frames : ∀ id, getPage t id =
    (getPage t0 id).map fun pg =>
      if id ∈ t.page_set then { pg with pin_count := 1, latch := -1 } else pg

/-- The state `t` differs from `t0` at most in pins and latches: same root, same number of
frames, same payload in every frame. -/
def sameData (t0 t : BPlusTree) : Prop :=
  t.root_page_id = t0.root_page_id ∧ t.pages.length = t0.pages.length ∧
    ∀ id, (getPage t id).map Page.data = (getPage t0 id).map Page.data

/-- The size stored in the frame of a page, if the page exists. -/
def sizeAt (t : BPlusTree) (id : Int) : Option Int :=
  (getPage t id).map fun p => p.data.size

/-- The payload stored under a page id, if the page exists. -/
def dataAt (t : BPlusTree) (id : Int) : Option Node :=
  (getPage t id).map Page.data

/-- The state `t'` holds no payload that `t` does not hold: same configuration, same number of
frames, and every page of `t'` is a page of `t` with the same payload.  Pins, latches, the root
id and the bookkeeping sets may differ, and pages may have been deleted. -/
def Keeps (t t' : BPlusTree) : Prop :=
  t'.leaf_max_size = t.leaf_max_size ∧ t'.internal_max_size = t.internal_max_size ∧
    t'.pages.length = t.pages.length ∧ ∀ id n, dataAt t' id = some n → dataAt t id = some n

/-- A slot of an internal page of height `k`: either it was never written (zero bytes, naming the
header page) or it names a page id handed out by the pool, of height `k - 1`. -/
def slotOK (h : Int → Nat) (len : Nat) (k : Nat) (s : MappingType) : Prop :=
  s.2 = 0 ∨ (0 < s.2 ∧ s.2 < len ∧ h s.2 + 1 = k)

/-- The parent id stored in a page of height `k`: absent, or a page id handed out by the pool,
of height `k + 1`. -/
def parentOK (h : Int → Nat) (len : Nat) (k : Nat) (p : Int) : Prop :=
  p = INVALID_PAGE_ID ∨ (0 < p ∧ p < len ∧ h p = k + 1)

/-- The shape of one page under a height assignment `h` (leaves have height 0): the page stores
its own id, it is a leaf exactly at height 0, its max size is the one `Init` stores for its kind,
every physical slot of an internal page and the stored parent id respect the heights. -/
structure GoodNode (h : Int → Nat) (len : Nat) (L M : Int) (id : Int) (n : Node) : Prop where
  page_id : n.page_id = id
  leaf_iff : n.IsLeafPage = true ↔ h id = 0
  leaf_max : n.IsLeafPage = true → n.max_size = L
  internal_max : n.IsLeafPage = false → n.max_size = M + 1
  slots : n.IsLeafPage = false → ∀ s ∈ n.array, slotOK h len (h id) s
  parent : parentOK h len (h id) n.parent_page_id

/-- Every page of the pool has the shape `GoodNode`, and page id 0 (the header page, the first
frame of the pool) holds no tree page. -/
def Str (h : Int → Nat) (t : BPlusTree) : Prop :=
  (0 < t.pages.length ∧ dataAt t 0 = none) ∧
    ∀ id n, dataAt t id = some n →
      GoodNode h t.pages.length t.leaf_max_size t.internal_max_size id n

/-- Every page is below its max size, except that page `x` may be exactly at its max size. -/
def BndX (x : Int) (t : BPlusTree) : Prop :=
  ∀ id n, dataAt t id = some n → n.size < n.max_size ∨ (id = x ∧ n.size ≤ n.max_size)

/-- The structural invariant of the pool under the heights `h`, with the occupancy bound when
both max sizes are at least 2. -/
def Inv (h : Int → Nat) (x : Int) (t : BPlusTree) : Prop :=
  Str h t ∧ (2 ≤ t.leaf_max_size → 2 ≤ t.internal_max_size → BndX x t)

/-- The depths, counted from `page`, of the leaves reached from `page` through the child slots
`0 .. size - 1` of internal pages, following at most `fuel` levels. -/
def leafDepths (t : BPlusTree) : Nat → Int → List Nat
  | 0, _ => []
  | fuel + 1, page =>
    match getPage t page with
    | none => []
    | some pg =>
      if pg.data.IsLeafPage then [0]
      else (slotsFrom pg.data.array 0 pg.data.size).flatMap fun s =>
        (leafDepths t fuel s.2).map fun d => d + 1

/-- The size and the max size stored in a page, if the page exists. -/
def szAt (t : BPlusTree) (id : Int) : Option (Int × Int) :=
  (dataAt t id).map fun n => (n.size, n.max_size)

/-- The configuration of the pool that no operation of the index changes but allocation: the
number of frames and the two max sizes. -/
def cfg (t : BPlusTree) : Nat × Int × Int :=
  (t.pages.length, t.leaf_max_size, t.internal_max_size)

/-- From `t` to `t'` no page is created, no max size changes and no page grows, except that
page `x` may grow by one entry. -/
def GrowsAt (x : Int) (t t' : BPlusTree) : Prop :=
  ∀ id n', dataAt t' id = some n' →
    ∃ n, dataAt t id = some n ∧ n'.max_size = n.max_size ∧
      n'.size ≤ n.size + (if id = x then 1 else 0)

/-- Two node values with the same header fields (id, type, max size, parent). -/
def SameHead (n' n : Node) : Prop :=
  n'.page_id = n.page_id ∧ n'.page_type = n.page_type ∧ n'.max_size = n.max_size ∧
    n'.parent_page_id = n.parent_page_id

/-- The pin count of a page; a page id that names no page of the pool counts as unpinned. -/
def pinAt (t : BPlusTree) (id : Int) : Int :=
  match getPage t id with
  | some p => p.pin_count
  | none => 0

/-- The pins of a page beyond those that its entries in the page set of the transaction stand
for. -/
def freePin (t : BPlusTree) (id : Int) : Int := pinAt t id - (t.page_set.count id : Int)

/-- Every page stores its own page id. -/
def IdOK (t : BPlusTree) : Prop := ∀ id n, dataAt t id = some n → n.page_id = id

/-- The header page and every page carry at least the pins that the page set stands for. -/
def PinOK (t : BPlusTree) : Prop := 0 ≤ t.header_pin_count ∧ ∀ id, 0 ≤ freePin t id

/-- The pin count and the payload of a frame. -/
def pinData (p : Page) : Int × Node := (p.pin_count, p.data)

/-- The state `t'` differs from `t` at most in latches and in fields that hold no pin: same pin
count of the header page, same page set, same pin count and payload in every frame. -/
def PinSame (t t' : BPlusTree) : Prop :=
  t'.header_pin_count = t.header_pin_count ∧ t'.page_set = t.page_set ∧
    ∀ id, (getPage t' id).map pinData = (getPage t id).map pinData

/-- The state `t` of an operation that started in `t0` and holds one pin on every page of `xs`
(with multiplicity) beyond the pins of its page set: every page stores its own id, the header
page is pinned as in `t0`, and the pins of every page beyond those of the page set are those of
`t0` plus its entries in `xs`. -/
structure Acc (xs : List Int) (t0 t : BPlusTree) : Prop where
  ids : IdOK t
  header : t.header_pin_count = t0.header_pin_count
  pins : ∀ id, freePin t id = freePin t0 id + (xs.count id : Int)

/-- An internal page holding five children, the stored maximum for internal max 4. -/
def fullInternal : Node :=
  { page_type := IndexPageType.INTERNAL_PAGE, size := 5, max_size := 5, parent_page_id := -1,
    page_id := 6, next_page_id := 0,
    array := [(0, 1), (10, 2), (20, 3), (30, 4), (40, 5)] }

/-- An internal page as `Init` leaves it: page 7, no entry. -/
def freshInternal : Node :=
  { page_type := IndexPageType.INTERNAL_PAGE, size := 0, max_size := 5, parent_page_id := -1,
    page_id := 7, next_page_id := 0, array := [] }

/-- A pool in which the full internal page 6 (the root, over the leaves 1 to 5) is about to be
split into the fresh page 7. -/
def splitTree : BPlusTree :=
  { root_page_id := 6, leaf_max_size := 4, internal_max_size := 4,
    pages := [none, leafFrame 1 6 2 [(1, 1), (5, 5)], leafFrame 2 6 3 [(10, 10), (15, 15)],
              leafFrame 3 6 4 [(20, 20), (25, 25)], leafFrame 4 6 5 [(30, 30), (35, 35)],
              leafFrame 5 6 (-1) [(40, 40), (45, 45)],
              some { pin_count := 1, latch := -1, data := fullInternal },
              some { pin_count := 1, latch := 0, data := freshInternal }],
    root_latch := -1, root_latch_cnt := 1, header_calls := [], header_pin_count := 0,
    page_set := [6], deleted_page_set := [] }

/-- A pool in which the leaf 4 has just been split into the leaf 5 and the separator 40 is to
be inserted into their parent, the root page 6, which then reaches its stored maximum. -/
def pushUpTree : BPlusTree :=
  { root_page_id := 6, leaf_max_size := 4, internal_max_size := 4,
    pages := [none, leafFrame 1 6 2 [(1, 1), (5, 5)], leafFrame 2 6 3 [(10, 10), (15, 15)],
              leafFrame 3 6 4 [(20, 20), (25, 25)],
              some { pin_count := 1, latch := -1,
                     data := { page_type := IndexPageType.LEAF_PAGE, size := 2, max_size := 4,
                               parent_page_id := 6, page_id := 4, next_page_id := 5,
                               array := [(30, 30), (35, 35), (40, 40), (45, 45)] } },
              some { pin_count := 1, latch := 0,
                     data := { page_type := IndexPageType.LEAF_PAGE, size := 2, max_size := 4,
                               parent_page_id := 6, page_id := 5, next_page_id := -1,
                               array := [(40, 40), (45, 45)] } },
              some { pin_count := 1, latch := -1,
                     data := { page_type := IndexPageType.INTERNAL_PAGE, size := 4, max_size := 5,
                               parent_page_id := -1, page_id := 6, next_page_id := 0,
                               array := [(0, 1), (10, 2), (20, 3), (30, 4)] } }],
    root_latch := -1, root_latch_cnt := 1, header_calls := [], header_pin_count := 0,
    page_set := [6, 4], deleted_page_set := [] }

/-- The state `t'` differs from `t` in the page table only: the root id, the root latch and its
counter, the header record and the bookkeeping sets are those of `t`. -/
def OnlyPages (t t' : BPlusTree) : Prop :=
  t' = { t with pages := t'.pages }

/-- The root latch word and the per-thread root-latch counter of `t'` are those of `t`. -/
def RootLatchSame (t t' : BPlusTree) : Prop :=
  t'.root_latch = t.root_latch ∧ t'.root_latch_cnt = t.root_latch_cnt

/-- An internal root left with a single child. -/
def loneChildRoot : Node :=
  { page_type := IndexPageType.INTERNAL_PAGE, size := 1, max_size := 5, parent_page_id := -1,
    page_id := 3, next_page_id := 0, array := [(0, 1), (15, 2)] }

/-- A pool whose root, page 3, is an internal page with the single child page 1; page 2 has
been merged away. -/
def collapseTree : BPlusTree :=
  { root_page_id := 3, leaf_max_size := 4, internal_max_size := 4,
    pages := [none, leafFrame 1 3 (-1) [(5, 5), (15, 15), (20, 20)], none,
              some { pin_count := 1, latch := -1, data := loneChildRoot }],
    root_latch := -1, root_latch_cnt := 1, header_calls := [], header_pin_count := 0,
    page_set := [3], deleted_page_set := [] }

/-- A root leaf whose last record has been removed. -/
def emptiedLeaf : Node :=
  { page_type := IndexPageType.LEAF_PAGE, size := 0, max_size := 4, parent_page_id := -1,
    page_id := 1, next_page_id := -1, array := [(5, 5)] }

/-- A pool whose root is the emptied leaf page 1. -/
def emptiedTree : BPlusTree :=
  { root_page_id := 1, leaf_max_size := 4, internal_max_size := 4,
    pages := [none, some { pin_count := 1, latch := -1, data := emptiedLeaf }],
    root_latch := -1, root_latch_cnt := 1, header_calls := [], header_pin_count := 0,
    page_set := [1], deleted_page_set := [] }

/-- The four things `CoalesceOrRedistribute` can do to an underflowed node that is not the
root. -/
inductive Action where
  | mergeLeft
  | mergeRight
  | redistributeLeft
  | redistributeRight
deriving DecidableEq, Repr

/-- Modelled from the spec: a merge with a sibling is possible when the sibling exists and the
two sizes together are below the node's max size; `sibling` is the sibling's size, `none` for an
absent sibling. -/
def canMerge (size max : Int) (sibling : Option Int) : Bool :=
  match sibling with
  | some s => decide (size + s < max)
  | none => false

/-- Modelled from the spec: the choice rule in the words of the specification.  Merge with the
left sibling if possible, otherwise merge with the right sibling if possible, otherwise
redistribute with the left sibling if it exists, else with the right one; `none` when there is
no sibling at all. -/
def chooseAction (size max : Int) (left right : Option Int) : Option Action :=
  if canMerge size max left then some Action.mergeLeft
  else if canMerge size max right then some Action.mergeRight
  else if left.isSome then some Action.redistributeLeft
  else if right.isSome then some Action.redistributeRight
  else none

/-- What `CoalesceOrRedistribute` has in hand when it chooses: the state, the parent id, the
sibling pointers (`none` for a null pointer), the node as read, and the sizes of the siblings. -/
structure Siblings where
  t : BPlusTree
  parent : Int
  left : Option Int
  right : Option Int
  n : Node
  left_size : Option Int
  right_size : Option Int
deriving DecidableEq

/-- The non-root branch of `BPlusTree::CoalesceOrRedistribute` up to its first size test: the
parent is fetched, the node's index is found, the existing siblings are fetched, latched and
added to the page set, and the sizes are read. -/
def readSiblings (t : BPlusTree) (node : Int) : Except Err Siblings := do
  let n ← getNode t node
  let parent := n.parent_page_id
  match FetchPage t parent with
  | none => throw Err.oom
  | some t =>
    let parent_page ← getNode t parent
    match parent_page.ValueIndex n.page_id with
    | none => throw Err.assertion
    | some node_index =>
      let left_sibling_index := node_index - 1
      let right_sibling_index := node_index + 1
      let (t, left_sibling_node) ←
        if left_sibling_index ≥ 0 then do
          let id := parent_page.ValueAt left_sibling_index
          let t ← fetchSibling t id
          pure (t, some id)
        else pure (t, none)
      let parent_page ← getNode t parent
      let (t, right_sibling_node) ←
        if right_sibling_index < parent_page.GetSize then do
          let id := parent_page.ValueAt right_sibling_index
          let t ← fetchSibling t id
          pure (t, some id)
        else pure (t, none)
      let n ← getNode t node
      let left_size ← match left_sibling_node with
        | some id => (getNode t id).map fun l => some l.GetSize
        | none => pure none
      let right_size ← match right_sibling_node with
        | some id => (getNode t id).map fun r => some r.GetSize
        | none => pure none
      pure { t := t, parent := parent, left := left_sibling_node, right := right_sibling_node,
             n := n, left_size := left_size, right_size := right_size }

/-- The bodies of the four branches of `BPlusTree::CoalesceOrRedistribute` that follow the size
tests; a merge through a null sibling pointer is the null dereference of the source. -/
def performAction (fuel : Nat) (s : Siblings) (node : Int) :
    Action → Except Err (BPlusTree × Bool)
  | Action.mergeLeft =>
    match s.left with
    | none => throw Err.nullptr
    | some lid => do
      let (t, _) ← Coalesce (CoalesceOrRedistribute fuel) s.t lid node s.parent NODE_IS_RIGHT
      let parent_page ← getNode t s.parent
      let n ← getNode t node
      pure (UnpinPage t parent_page.page_id true, n.IsLeafPage)
  | Action.mergeRight =>
    match s.right with
    | none => throw Err.nullptr
    | some rid => do
      let (t, _) ← Coalesce (CoalesceOrRedistribute fuel) s.t rid node s.parent NODE_IS_LEFT
      let parent_page ← getNode t s.parent
      pure (UnpinPage t parent_page.page_id true, false)
  | Action.redistributeLeft => do
    let parent_page ← getNode s.t s.parent
    let t := UnpinPage s.t parent_page.page_id false
    let t ← Redistribute t s.left node NODE_IS_RIGHT
    pure (t, false)
  | Action.redistributeRight => do
    let parent_page ← getNode s.t s.parent
    let t := UnpinPage s.t parent_page.page_id false
    let t ← Redistribute t s.right node NODE_IS_LEFT
    pure (t, false)

/-- The sibling an action works on. -/
def Action.sibling (s : Siblings) : Action → Option Int
  | Action.mergeLeft => s.left
  | Action.mergeRight => s.right
  | Action.redistributeLeft => s.left
  | Action.redistributeRight => s.right

/-- The size tests of `BPlusTree::CoalesceOrRedistribute` and the branch each one selects, on
what `readSiblings` has read. -/
def sizeTests (fuel : Nat) (s : Siblings) (node : Int) : Except Err (BPlusTree × Bool) :=
  match s.left, s.left_size.map fun l => decide (s.n.GetSize + l < s.n.GetMaxSize) with
  | some lid, some true => do
    let (t, _) ← Coalesce (CoalesceOrRedistribute fuel) s.t lid node s.parent NODE_IS_RIGHT
    let parent_page ← getNode t s.parent
    let n ← getNode t node
    pure (UnpinPage t parent_page.page_id true, n.IsLeafPage)
  | _, _ =>
    match s.right, s.right_size.map fun r => decide (s.n.GetSize + r < s.n.GetMaxSize) with
    | some rid, some true => do
      let (t, _) ← Coalesce (CoalesceOrRedistribute fuel) s.t rid node s.parent NODE_IS_LEFT
      let parent_page ← getNode t s.parent
      pure (UnpinPage t parent_page.page_id true, false)
    | _, _ => do
      let parent_page ← getNode s.t s.parent
      let t := UnpinPage s.t parent_page.page_id false
      match s.left_size.map fun l => decide (s.n.GetSize + l ≥ s.n.GetMaxSize) with
      | some true =>
        let t ← Redistribute t s.left node NODE_IS_RIGHT
        pure (t, false)
      | _ =>
        let t ← Redistribute t s.right node NODE_IS_LEFT
        pure (t, false)

/-- What `readSiblings` returns for a node, the entry state without siblings standing in when
the read fails. -/
def siblingsIn (t : BPlusTree) (node : Int) : Siblings :=
  match readSiblings t node with
  | Except.ok s => s
  | Except.error _ =>
    { t := t, parent := -1, left := none, right := none, n := zeroNode, left_size := none,
      right_size := none }

/-- The heights of the pages of `siblingTree`: the leaves 1 to 4, the internal pages 5 and 6, the
root 7. -/
def siblingHeights (id : Int) : Nat :=
  if id ≤ 4 then 0 else if id ≤ 6 then 1 else 2

/-- The internal page 6 of `siblingTree`. -/
def siblingRight : Node :=
  { page_type := IndexPageType.INTERNAL_PAGE, size := 2, max_size := 5, parent_page_id := 7,
    page_id := 6, next_page_id := 0, array := [(0, 3), (30, 4)] }

/-- A pool whose leaf page 2 holds one record, below the minimum of two for leaf max 4, next to
its left sibling page 1 with two records. -/
def underflowTree : BPlusTree :=
  { root_page_id := 3, leaf_max_size := 4, internal_max_size := 4,
    pages := [none, leafFrame 1 3 2 [(5, 5), (10, 10)],
              some { pin_count := 1, latch := -1,
                     data := { page_type := IndexPageType.LEAF_PAGE, size := 1, max_size := 4,
                               parent_page_id := 3, page_id := 2, next_page_id := -1,
                               array := [(15, 15), (20, 20)] } },
              some { pin_count := 1, latch := -1,
                     data := { page_type := IndexPageType.INTERNAL_PAGE, size := 2, max_size := 5,
                               parent_page_id := -1, page_id := 3, next_page_id := 0,
                               array := [(0, 1), (15, 2)] } }],
    root_latch := -1, root_latch_cnt := 1, header_calls := [], header_pin_count := 0,
    page_set := [3, 2], deleted_page_set := [] }

/-- `BPlusTree::Remove` on a non-empty index up to, and not including, its closing call of
`FreeAllPages`. -/
def RemoveHeld (t : BPlusTree) (key : Int) : Except Err BPlusTree := do
  let t ← LatchRoot t OP_TYPE.DELETE
  let t := TryUnlatchRoot t OP_TYPE.DELETE
  let (t, page) ← FindLeafPageCrabbing t key OP_TYPE.DELETE
  let leaf_page ← getNode t page
  let (leaf_page, size) := leaf_page.RemoveAndDeleteRecord key
  let t := setNode t page leaf_page
  if size < leaf_page.GetMinSize then
    let (t, shall_delete_leaf) ← CoalesceOrRedistribute t.pages.length t page
    let t := if shall_delete_leaf then AddIntoDeletedPageSet t page else t
    pure (TryUnlatchRoot t OP_TYPE.DELETE)
  else
    pure (TryUnlatchRoot t OP_TYPE.DELETE)

/-- The latch words of the pages `ids` (`none` for a page that does not exist). -/
def latchesOf (t : BPlusTree) (ids : List Int) : List (Option Int) :=
  ids.map fun id => (getPage t id).map fun p => p.latch

/-- The pin counts of the pages `ids` (`none` for a page that does not exist). -/
def pinsOf (t : BPlusTree) (ids : List Int) : List (Option Int) :=
  ids.map fun id => (getPage t id).map fun p => p.pin_count

/-- The index with leaf max 4 and internal max 4 after the keys 5, 10, 15, 20: the root page 3
over the leaves `[5,10]` (page 1) and `[15,20]` (page 2). -/
def twoLeafTree : BPlusTree :=
  match run (BPlusTree.new 4 4)
      [Call.insert 5 5, Call.insert 10 10, Call.insert 15 15, Call.insert 20 20] with
  | Except.ok t => t
  | Except.error _ => BPlusTree.new 4 4

/-- The state in which `Remove(20)` on `twoLeafTree` calls `FreeAllPages`: the leaf page 2 has
been merged into its left sibling page 1 and the root page 3 has collapsed. -/
def twoLeafHeld : BPlusTree :=
  match RemoveHeld twoLeafTree 20 with
  | Except.ok t => t
  | Except.error _ => twoLeafTree

/-- The step from `t` to `t'` takes and releases no latch: the root latch word and its counter
are unchanged, the held set and the deletion set are unchanged, and every page of `t` is still
there with the same latch word. -/
def NoLatch (t t' : BPlusTree) : Prop :=
  RootLatchSame t t' ∧ t'.page_set = t.page_set ∧
    t'.deleted_page_set = t.deleted_page_set ∧
    ∀ id p, getPage t id = some p → ∃ p', getPage t' id = some p' ∧ p'.latch = p.latch

/-- The step from `t` to `t'` releases no latch and takes page latches only on pages it puts in
the held set: the root latch word and its counter are unchanged, the held set and the deletion
set only grow, and every page of `t` is still there, with the same latch word or, having been
unlatched, write-latched and in the held set. -/
def Grab (t t' : BPlusTree) : Prop :=
  RootLatchSame t t' ∧ (∀ x, x ∈ t.page_set → x ∈ t'.page_set) ∧
    (∀ x, x ∈ t.deleted_page_set → x ∈ t'.deleted_page_set) ∧
    ∀ id p, getPage t id = some p → ∃ p', getPage t' id = some p' ∧
      (p'.latch = p.latch ∨ (p.latch = 0 ∧ p'.latch = -1 ∧ id ∈ t'.page_set))

/-- The root latch in the hands of one operation of mode `op` that found the latch word `r0`
when it started: either the operation does not hold the latch (counter 0, word `r0`), or it
holds it once in its mode (counter 1; the word is `r0 + 1` for a reader, who found no writer,
and `-1` for a writer, who found the latch free). -/
def Balanced (r0 : Int) (op : OP_TYPE) (t : BPlusTree) : Prop :=
  (t.root_latch_cnt = 0 ∧ t.root_latch = r0) ∨
    (t.root_latch_cnt = 1 ∧
      ((op = OP_TYPE.READ ∧ 0 ≤ r0 ∧ t.root_latch = r0 + 1) ∨
        (op ≠ OP_TYPE.READ ∧ r0 = 0 ∧ t.root_latch = -1)))

/-- The pages `FindLeafPageCrabbing` visits from `page` down to the leaf, in top-down order,
without latches and pins. -/
def descentPath (t : BPlusTree) (key : Int) : Nat → Int → Option (List Int)
  | 0, _ => none
  | fuel + 1, page =>
    match getPage t page with
    | none => none
    | some pg =>
      if pg.data.IsLeafPage then some [page]
      else
        match pg.data.Lookup key with
        | none => none
        | some child =>
          match getPage t child with
          | none => none
          | some _ => (descentPath t key fuel child).map fun r => page :: r

/-- Whether the node stored in page `id` passes `IsNodeSafe` for `op`. -/
def safeAt (t : BPlusTree) (op : OP_TYPE) (id : Int) : Bool :=
  match getPage t id with
  | some pg => IsNodeSafe pg.data op
  | none => false

/-- Modelled from the spec: the suffix of `below` that starts at the last (deepest) element of
`below` that is safe; `none` when no element of `below` is safe. -/
def lastSafeSuffix (safe : Int → Bool) : List Int → Option (List Int)
  | [] => none
  | x :: xs =>
    match lastSafeSuffix safe xs with
    | some s => some s
    | none => if safe x then some (x :: xs) else none

/-- Modelled from the spec: the held set of a write descent along `path` (root first): the
suffix of the path that starts at the deepest safe node below the root, or the whole path when
no node below the root is safe. -/
def heldSuffix (safe : Int → Bool) (path : List Int) : List Int :=
  match lastSafeSuffix safe path.tail with
  | some s => s
  | none => path

/-- The ids of the pages whose latch is held, by readers or by a writer. -/
def latchedPages (t : BPlusTree) : List Int :=
  ((List.range t.pages.length).map fun (i : Nat) => Int.ofNat i).filter fun id =>
    match getPage t id with
    | some pg => pg.latch != 0
    | none => false

/-- The loop of `BPlusTree::FindLeafPageCrabbing` in READ mode, keeping the state after each
call it makes: the fetch of the child, the latch of the child, the release of the root latch,
the unlatch of the parent and the unpin of the parent.  The state after the unpin, which ends a
step down, is recorded with the id of the child. -/
def readTraceLoop (key : Int) :
    Nat → BPlusTree → Int → Except Err (List (BPlusTree × Option Int) × Int)
  | 0, _, _ => throw Err.fuel
  | fuel + 1, t, page => do
    let node ← getNode t page
    if node.IsLeafPage then pure ([], page)
    else
      match node.Lookup key with
      | none => throw Err.fuel
      | some child_page_id =>
        match FetchPage t child_page_id with
        | none => throw Err.oom
        | some t1 =>
          let t2 ← LatchPage t1 child_page_id OP_TYPE.READ
          let _ ← getNode t2 child_page_id
          let t3 := TryUnlatchRoot t2 OP_TYPE.READ
          let t4 ← UnlatchPage t3 page OP_TYPE.READ
          let t5 := UnpinPage t4 page false
          let (rest, leaf) ← readTraceLoop key fuel t5 child_page_id
          pure ((t1, none) :: (t2, none) :: (t3, none) :: (t4, none) ::
            (t5, some child_page_id) :: rest, leaf)

/-- `BPlusTree::FindLeafPageCrabbing` in READ mode, keeping the state after each call it
makes, from the latch of the root on. -/
def readTrace (t : BPlusTree) (key : Int) :
    Except Err (List (BPlusTree × Option Int) × Int) := do
  let t1 ← LatchRoot t OP_TYPE.READ
  match FetchPage t1 t1.root_page_id with
  | none => throw Err.oom
  | some t2 =>
    let page := t2.root_page_id
    let t3 ← LatchPage t2 page OP_TYPE.READ
    let (rest, leaf) ← readTraceLoop key t3.pages.length t3 page
    pure ((t1, none) :: (t2, none) :: (t3, none) :: rest, leaf)

/-- The last state of a trace, `t` for an empty trace. -/
def lastState (t : BPlusTree) (tr : List (BPlusTree × Option Int)) : BPlusTree :=
  (tr.getLast?.map Prod.fst).getD t

/-- The state of a reader positioned on `page`, having started in `t0`: the page is pinned once
and read-latched once, every other frame is as in `t0`. -/
def ReadAt (t0 t : BPlusTree) (page : Int) : Prop :=
  t.pages.length = t0.pages.length ∧ t.root_page_id = t0.root_page_id ∧
    ∀ id, getPage t id =
      (getPage t0 id).map fun pg =>
        if id = page then { pg with pin_count := 1, latch := 1 } else pg

/-! ## Definitions for the header and iterator claims -/

/-- The node stored in page `id`, the zeroed node for a page id that names no page. -/
def nodeOf (t : BPlusTree) (id : Int) : Node :=
  match getPage t id with
  | some pg => pg.data
  | none => zeroNode

/-- The iterator after `n` applications of `operator++`. -/
def advance : Nat → BPlusTree → IndexIterator → Except Err (BPlusTree × IndexIterator)
  | 0, t, it => pure (t, it)
  | n + 1, t, it => do
    let (t, it) ← it.next t
    advance n t it

/-- The next-leaf id stored in every leaf page is absent or names a leaf page of the pool. -/
def leafChainOK (t : BPlusTree) : Bool :=
  t.pages.all fun f =>
    match f with
    | none => true
    | some pg =>
      !pg.data.IsLeafPage || pg.data.next_page_id == INVALID_PAGE_ID ||
        (match getPage t pg.data.next_page_id with
          | some q => q.data.IsLeafPage
          | none => false)

/-- The state and the iterator after `begin()` and `n` applications of `operator++` (the state
itself and `end()` when one of the calls fails). -/
def iterState (t : BPlusTree) (n : Nat) : BPlusTree × IndexIterator :=
  match (begin t).bind fun r => advance n r.1 r.2 with
  | Except.ok r => r
  | Except.error _ => (t, endIterator)

/-- The two sets of the transaction as `FreeAllPages` needs them: neither holds a page id
twice, every page of the held set exists and is write-latched, and every page id of the deletion
set is in the held set. -/
def Committable (t : BPlusTree) : Prop :=
  t.page_set.Nodup ∧ t.deleted_page_set.Nodup ∧
    (∀ id ∈ t.page_set, ∃ pg, getPage t id = some pg ∧ pg.latch = -1) ∧
    ∀ id ∈ t.deleted_page_set, id ∈ t.page_set

/-- From `t` to `t'` no page above height `k` changes its payload. -/
def Above (h : Int → Nat) (k : Nat) (t t' : BPlusTree) : Prop :=
  ∀ id n, k < h id → dataAt t id = some n → dataAt t' id = some n

/-- The pages above `y`, listed bottom-up in `ups` by their stored parent ids up to the root,
are held as far as an underflow can propagate: when `y` is at or below its min size (so that it
underflows when it loses an entry), its parent is in the held set, and so on upwards. -/
def HeldAbove (t : BPlusTree) : Int → List Int → Prop
  | y, [] => ∃ n, dataAt t y = some n ∧ n.IsRootPage = true
  | y, z :: rest => ∃ n, dataAt t y = some n ∧ n.IsRootPage = false ∧ n.parent_page_id = z ∧
      (n.size ≤ n.GetMinSize → z ∈ t.page_set ∧ HeldAbove t z rest)

/-- The parent of the underflowed page `x` is in the held set, and the pages above it are held
as far as an underflow can propagate. -/
def HeldParent (t : BPlusTree) : Int → List Int → Prop
  | x, [] => ∃ n, dataAt t x = some n ∧ n.IsRootPage = true
  | x, y :: rest => ∃ n, dataAt t x = some n ∧ n.IsRootPage = false ∧ n.parent_page_id = y ∧
      y ∈ t.page_set ∧ HeldAbove t y rest

/-- Along the top-down path `path` every page stores the page before it as its parent id; the
first page stores `p`. -/
def parentLinked (t : BPlusTree) : Int → List Int → Bool
  | _, [] => true
  | p, x :: rest => (nodeOf t x).parent_page_id == p && parentLinked t x rest

/-- From `t` to `t'` every page of `t` is still there, and a page outside `P` has kept its
contents, except possibly its parent id. -/
def Touch (P : Int → Prop) (t t' : BPlusTree) : Prop :=
  ∀ id n, dataAt t id = some n → ∃ n', dataAt t' id = some n' ∧
    (P id ∨ n' = { n with parent_page_id := n'.parent_page_id })

/-- The pages above page `y` that an insert holds, listed bottom-up in `ups`: the page right
above `y` is its stored parent, and it is in the held set, with the pages above it held in the
same way, whenever `y` is not safe for an insert (`size ≥ max_size - 1`). -/
def HeldAboveI (t : BPlusTree) : Int → List Int → Prop
  | y, [] => ∃ n, dataAt t y = some n ∧ n.IsRootPage = true
  | y, z :: rest => ∃ n, dataAt t y = some n ∧ n.IsRootPage = false ∧ n.parent_page_id = z ∧
      (n.max_size - 1 ≤ n.size → z ∈ t.page_set ∧ HeldAboveI t z rest)

/-- The parent of a page `x` that has been split is in the held set, with the pages above it
held as far as the splits can go. -/
def HeldParentI (t : BPlusTree) : Int → List Int → Prop
  | x, [] => ∃ n, dataAt t x = some n ∧ n.IsRootPage = true
  | x, y :: rest => ∃ n, dataAt t x = some n ∧ n.IsRootPage = false ∧ n.parent_page_id = y ∧
      y ∈ t.page_set ∧ HeldAboveI t y rest

/-- `BPlusTree::Insert` on a non-empty index up to, and not including, its closing call of
`ReleaseAllPages`. -/
def InsertHeld (t : BPlusTree) (key : Int) (value : Int) : Except Err (BPlusTree × Bool) := do
  let t ← LatchRoot t OP_TYPE.INSERT
  let t := TryUnlatchRoot t OP_TYPE.INSERT
  let (t, page) ← FindLeafPageCrabbing t key OP_TYPE.INSERT
  let leaf_page ← getNode t page
  let old_size := leaf_page.GetSize
  let (leaf_page, size) := leaf_page.LeafInsert key value
  let t := setNode t page leaf_page
  let is_dirty := decide (size > old_size)
  if size = leaf_page.GetMaxSize then
    let (t, split_leaf_page) ← Split t IndexPageType.LEAF_PAGE page
    let split ← getNode t split_leaf_page
    let mid_key := split.KeyAt 0
    let t ← InsertIntoParent t.pages.length t page mid_key split_leaf_page
    pure (TryUnlatchRoot t OP_TYPE.INSERT, is_dirty)
  else
    pure (TryUnlatchRoot t OP_TYPE.INSERT, is_dirty)

/-- Every page of `t0` is, in `u`, either in the held set and write-latched, or as it was in
`t0` except possibly for its parent id. -/
def WritesHeld (t0 u : BPlusTree) : Prop :=
  ∀ id n, dataAt t0 id = some n → ∃ pg, getPage u id = some pg ∧
    ((id ∈ u.page_set ∧ pg.latch = -1) ∨
      pg.data = { n with parent_page_id := pg.data.parent_page_id })

/-- The calls that build `sixKeyTree`. -/
def sixKeyCalls : List Call :=
  [Call.insert 10 10, Call.insert 20 20, Call.insert 30 30, Call.insert 40 40,
   Call.insert 50 50, Call.insert 60 60]

/-- The index with leaf max 3 and internal max 3 after the keys 10, 20, 30, 40, 50, 60: the
root page 3 over the leaves 1, 2 and 4. -/
def sixKeyTree : BPlusTree :=
  match run (BPlusTree.new 3 3) sixKeyCalls with
  | Except.ok t => t
  | Except.error _ => BPlusTree.new 3 3

/-- The keys 1 to 16 inserted in ascending order. -/
def sixteenCalls : List Call :=
  [Call.insert 1 1, Call.insert 2 2, Call.insert 3 3, Call.insert 4 4, Call.insert 5 5,
   Call.insert 6 6, Call.insert 7 7, Call.insert 8 8, Call.insert 9 9, Call.insert 10 10,
   Call.insert 11 11, Call.insert 12 12, Call.insert 13 13, Call.insert 14 14,
   Call.insert 15 15, Call.insert 16 16]
/-! ## Node layer: slot array and binary search -/

theorem comparator_neg_iff (a b : Int) : comparator a b < 0 ↔ a < b := by
  unfold comparator
  split_ifs <;> constructor <;> intro _ <;> omega

theorem comparator_pos_iff (a b : Int) : comparator a b > 0 ↔ b < a := by
  unfold comparator
  split_ifs <;> constructor <;> intro _ <;> omega

theorem slotAt_slotSet (a : List MappingType) (i j : Int) (x : MappingType) (hi : 0 ≤ i)
    (hj : 0 ≤ j) : slotAt (slotSet a i x) j = if j = i then x else slotAt a j := by
  have hij : j = i ↔ j.toNat = i.toNat := by omega
  unfold slotAt slotSet
  by_cases hlt : i.toNat < a.length
  · simp only [hlt, if_true, List.getD_eq_getElem?_getD, List.getElem?_set]
    by_cases h : j = i
    · subst h
      simp [hlt]
    · have : ¬ i.toNat = j.toNat := by omega
      simp [h, this]
  · simp only [hlt, if_false, List.getD_eq_getElem?_getD]
    by_cases h : j = i
    · subst h
      simp only [if_true]
      rw [List.getElem?_append_right (by simp; omega)]
      simp
      have : j.toNat - (a.length + (j.toNat - a.length)) = 0 := by omega
      simp [this]
    · simp only [h, if_false]
      by_cases hjl : j.toNat < a.length
      · rw [List.append_assoc, List.getElem?_append_left hjl]
      · rw [List.getElem?_eq_none (by omega : a.length ≤ j.toNat)]
        by_cases hji : j.toNat < i.toNat
        · rw [List.getElem?_append_left (by simp; omega)]
          rw [List.getElem?_append_right (by omega)]
          simp only [List.getElem?_replicate]
          split_ifs <;> rfl
        · rw [List.getElem?_eq_none (by simp; omega)]

theorem LowerBoundLoop_spec (n : Node) (key : Int) (hs : n.KeysIncreasing) :
    ∀ (fuel : Nat) (lo len : Int), len ≤ fuel → 1 ≤ lo → 0 ≤ len → lo + len ≤ n.size →
      (∀ j, 1 ≤ j → j < lo → n.KeyAt j < key) →
      (∀ j, lo + len ≤ j → j < n.size → key ≤ n.KeyAt j) →
      ∃ r, n.LowerBoundLoop key fuel lo len = some r ∧ 1 ≤ r ∧ r ≤ n.size ∧
        (∀ j, 1 ≤ j → j < r → n.KeyAt j < key) ∧
        (∀ j, r ≤ j → j < n.size → key ≤ n.KeyAt j) := by
  intro fuel
  induction fuel with
  | zero =>
    intro lo len hf hlo hlen hhi hbelow habove
    have h0 : len = 0 := by omega
    subst h0
    refine ⟨lo, by simp [Node.LowerBoundLoop], hlo, by omega, hbelow, ?_⟩
    intro j h1 h2
    exact habove j (by omega) h2
  | succ fuel ih =>
    intro lo len hf hlo hlen hhi hbelow habove
    unfold Node.LowerBoundLoop
    by_cases hpos : len > 0
    · simp only [hpos, if_true]
      have hhalf : 0 ≤ len / 2 ∧ len / 2 < len := by omega
      by_cases hc : comparator (n.KeyAt (lo + len / 2)) key < 0
      · simp only [hc, if_true]
        have hk : n.KeyAt (lo + len / 2) < key := (comparator_neg_iff _ _).1 hc
        apply ih (lo + len / 2 + 1) (len - (len / 2 + 1))
        · push_cast at hf
          omega
        · omega
        · omega
        · omega
        · intro j h1 h2
          by_cases hj : j < lo + len / 2
          · by_cases hj2 : j < lo
            · exact hbelow j h1 hj2
            · have := hs j (lo + len / 2) h1 hj (by omega)
              omega
          · have : j = lo + len / 2 := by omega
            rw [this]
            exact hk
        · intro j h1 h2
          exact habove j (by omega) h2
      · simp only [hc, if_false]
        have hk : key ≤ n.KeyAt (lo + len / 2) := by
          have := (comparator_neg_iff (n.KeyAt (lo + len / 2)) key).not.1 hc
          omega
        apply ih lo (len / 2)
        · push_cast at hf
          omega
        · omega
        · omega
        · omega
        · exact hbelow
        · intro j h1 h2
          by_cases hj : j = lo + len / 2
          · rw [hj]
            exact hk
          · have := hs (lo + len / 2) j (by omega) (by omega) h2
            omega
    · have h0 : len = 0 := by omega
      subst h0
      simp only [hpos, if_false]
      refine ⟨lo, rfl, hlo, by omega, hbelow, ?_⟩
      intro j h1 h2
      exact habove j (by omega) h2

theorem KeyAt_SetKeyAt_zero (n : Node) (key0 : Int) (j : Int) (hj : 1 ≤ j) :
    (n.SetKeyAt 0 key0).KeyAt j = n.KeyAt j := by
  unfold Node.SetKeyAt Node.KeyAt
  simp only
  rw [slotAt_slotSet _ _ _ _ (le_refl 0) (by omega)]
  simp [show ¬ j = 0 by omega]

theorem ValueAt_SetKeyAt_zero (n : Node) (key0 : Int) (j : Int) (hj : 0 ≤ j) :
    (n.SetKeyAt 0 key0).ValueAt j = n.ValueAt j := by
  unfold Node.SetKeyAt Node.ValueAt
  simp only
  rw [slotAt_slotSet _ _ _ _ (le_refl 0) hj]
  by_cases h : j = 0
  · simp [h]
  · simp [h]

theorem LowerBoundLoop_congr (n m : Node) (key : Int)
    (h : ∀ j : Int, 1 ≤ j → m.KeyAt j = n.KeyAt j) :
    ∀ (fuel : Nat) (lo len : Int), 1 ≤ lo →
      m.LowerBoundLoop key fuel lo len = n.LowerBoundLoop key fuel lo len := by
  intro fuel
  induction fuel with
  | zero => intro lo len _; simp [Node.LowerBoundLoop]
  | succ fuel ih =>
    intro lo len hlo
    unfold Node.LowerBoundLoop
    by_cases hpos : len > 0
    · simp only [hpos, if_true]
      rw [h (lo + len / 2) (by omega), ih _ _ (by omega), ih _ _ hlo]
    · simp [hpos]

/-- C8: for an internal page of size `n ≥ 1` whose keys in slots `1 .. n-1` are strictly
increasing, the binary search of `Lookup` terminates within its loop budget and returns the child
stored at a slot `idx` with `0 ≤ idx ≤ n - 1` such that every key in slots `1 .. idx` is `≤ key`
and every key in slots `idx+1 .. n-1` is `> key` (so `idx + 1` is the first slot whose key is
greater, or `idx = n - 1` when there is none); the result does not depend on the key stored in
slot 0. -/
theorem Lookup_spec (n : Node) (key : Int) (hsize : 1 ≤ n.size) (hs : n.KeysIncreasing) :
    ∃ idx : Int, n.LookupIndex key = some idx ∧ n.Lookup key = some (n.ValueAt idx) ∧
      0 ≤ idx ∧ idx ≤ n.size - 1 ∧
      (∀ j, 1 ≤ j → j ≤ idx → n.KeyAt j ≤ key) ∧
      (∀ j, idx < j → j < n.size → key < n.KeyAt j) ∧
      (∀ key0, (n.SetKeyAt 0 key0).Lookup key = n.Lookup key) := by
  obtain ⟨r, hr, hr1, hr2, hlt, hge⟩ :=
    LowerBoundLoop_spec n key hs n.size.toNat 1 (n.size - 1) (by omega) (le_refl 1) (by omega)
      (by omega) (fun j h1 h2 => by omega) (fun j h1 h2 => by omega)
  have hLB : n.LowerBound key = some r := hr
  have hind : ∀ key0, (n.SetKeyAt 0 key0).Lookup key = n.Lookup key := by
    intro key0
    have hsz : (n.SetKeyAt 0 key0).size = n.size := rfl
    have hLB0 : (n.SetKeyAt 0 key0).LowerBound key = some r := by
      unfold Node.LowerBound Node.GetSize
      rw [hsz, LowerBoundLoop_congr n _ key (fun j hj => KeyAt_SetKeyAt_zero n key0 j hj) _ _ _
        (le_refl 1)]
      exact hr
    unfold Node.Lookup Node.LookupIndex
    rw [hLB0, hLB]
    simp only [Option.map_some', Node.GetSize, hsz, KeyAt_SetKeyAt_zero n key0 r hr1]
    congr 1
    apply ValueAt_SetKeyAt_zero
    split_ifs <;> omega
  by_cases hcase : r ≥ n.GetSize ∨ comparator (n.KeyAt r) key > 0
  · refine ⟨r - 1, ?_, ?_, by omega, by unfold Node.GetSize at hcase; omega, ?_, ?_, hind⟩
    · simp [Node.LookupIndex, hLB, hcase]
    · simp [Node.Lookup, Node.LookupIndex, hLB, hcase]
    · intro j h1 h2
      have := hlt j h1 (by omega)
      omega
    · intro j h1 h2
      rcases hcase with hc | hc
      · unfold Node.GetSize at hc
        omega
      · have hk := (comparator_pos_iff _ _).1 hc
        by_cases hj : j = r
        · rw [hj]; exact hk
        · have := hs r j hr1 (by omega) h2
          omega
  · have hc1 : r < n.size := by
      unfold Node.GetSize at hcase
      omega
    have hc2 : n.KeyAt r ≤ key := by
      have : ¬ comparator (n.KeyAt r) key > 0 := fun h => hcase (Or.inr h)
      have := (comparator_pos_iff (n.KeyAt r) key).not.1 this
      omega
    refine ⟨r, ?_, ?_, by omega, by omega, ?_, ?_, hind⟩
    · simp [Node.LookupIndex, hLB, hcase]
    · simp [Node.Lookup, Node.LookupIndex, hLB, hcase]
    · intro j h1 h2
      by_cases hj : j = r
      · rw [hj]; exact hc2
      · have := hlt j h1 (by omega)
        omega
    · intro j h1 h2
      have h3 := hge r (le_refl r) hc1
      have := hs r j hr1 h1 h2
      omega

theorem exampleRoot_KeysIncreasing : exampleRoot.KeysIncreasing := by
  intro i j h1 h2 h3
  have hsz : exampleRoot.size = 3 := rfl
  have hi : i = 1 := by omega
  have hj : j = 2 := by omega
  subst hi hj
  decide

theorem Lookup_spec_witness :
    ∃ idx : Int, exampleRoot.LookupIndex 20 = some idx ∧
      exampleRoot.Lookup 20 = some (exampleRoot.ValueAt idx) ∧
      0 ≤ idx ∧ idx ≤ exampleRoot.size - 1 ∧
      (∀ j, 1 ≤ j → j ≤ idx → exampleRoot.KeyAt j ≤ 20) ∧
      (∀ j, idx < j → j < exampleRoot.size → 20 < exampleRoot.KeyAt j) ∧
      (∀ key0, (exampleRoot.SetKeyAt 0 key0).Lookup 20 = exampleRoot.Lookup 20) :=
  Lookup_spec exampleRoot 20 (by decide) exampleRoot_KeysIncreasing

/-! ## Buffer pool: reads and writes of frames -/

theorem getPage_eq_some (t : BPlusTree) (id : Int) (pg : Page) (h : getPage t id = some pg) :
    0 ≤ id ∧ id.toNat < t.pages.length ∧ t.pages[id.toNat]? = some (some pg) := by
  unfold getPage at h
  by_cases hneg : id < 0
  · simp [hneg] at h
  · simp only [hneg, if_false, List.getD_eq_getElem?_getD] at h
    refine ⟨by omega, ?_⟩
    cases hget : t.pages[id.toNat]? with
    | none => simp [hget] at h
    | some x =>
      simp only [hget, Option.getD_some] at h
      subst h
      exact ⟨(List.getElem?_eq_some_iff.1 hget).1, rfl⟩

theorem getPage_mem (t : BPlusTree) (id : Int) (pg : Page) (h : getPage t id = some pg) :
    some pg ∈ t.pages := by
  obtain ⟨_, _, h3⟩ := getPage_eq_some t id pg h
  exact List.getElem?_mem h3

theorem getPage_setPage (t : BPlusTree) (id id' : Int) (pg p : Page)
    (h : getPage t id = some pg) :
    getPage (setPage t id p) id' = if id' = id then some p else getPage t id' := by
  obtain ⟨h1, h2, _⟩ := getPage_eq_some t id pg h
  unfold getPage setPage
  by_cases hneg : id' < 0
  · have : ¬ id' = id := by omega
    simp [hneg, this]
  · simp only [hneg, if_false, List.getD_eq_getElem?_getD, List.getElem?_set]
    by_cases he : id' = id
    · subst he
      simp [h2]
    · have : ¬ id.toNat = id'.toNat := by omega
      simp [he, this]

theorem setPage_pages_length (t : BPlusTree) (id : Int) (p : Page) :
    (setPage t id p).pages.length = t.pages.length := by
  simp [setPage]

/-- Two states with the same scalar fields, the same number of frames and the same frame under
every page id are equal. -/
theorem BPlusTree.ext_getPage (t t' : BPlusTree)
    (h1 : t.root_page_id = t'.root_page_id) (h2 : t.leaf_max_size = t'.leaf_max_size)
    (h3 : t.internal_max_size = t'.internal_max_size) (h4 : t.root_latch = t'.root_latch)
    (h5 : t.root_latch_cnt = t'.root_latch_cnt) (h6 : t.header_calls = t'.header_calls)
    (h6p : t.header_pin_count = t'.header_pin_count)
    (h7 : t.page_set = t'.page_set) (h8 : t.deleted_page_set = t'.deleted_page_set)
    (hlen : t.pages.length = t'.pages.length)
    (hp : ∀ id : Int, getPage t id = getPage t' id) : t = t' := by
  have hpages : t.pages = t'.pages := by
    apply List.ext_getElem?
    intro i
    by_cases hi : i < t.pages.length
    · have hi' : i < t'.pages.length := by omega
      have := hp (Int.ofNat i)
      unfold getPage at this
      simp only [Int.ofNat_eq_coe, Int.toNat_ofNat, List.getD_eq_getElem?_getD] at this
      have hneg : ¬ ((i : Int) < 0) := by omega
      simp only [hneg, if_false] at this
      rw [List.getElem?_eq_getElem hi, List.getElem?_eq_getElem hi'] at this ⊢
      simpa using this
    · rw [List.getElem?_eq_none (by omega), List.getElem?_eq_none (by omega)]
  cases t
  cases t'
  simp_all

theorem FetchPage_eq (t : BPlusTree) (id : Int) (pg : Page) (h : getPage t id = some pg) :
    FetchPage t id = some (setPage t id { pg with pin_count := pg.pin_count + 1 }) := by
  simp [FetchPage, h]

theorem FetchPage_eq_some (t t' : BPlusTree) (id : Int) (h : FetchPage t id = some t') :
    ∃ pg, getPage t id = some pg ∧ t' = setPage t id { pg with pin_count := pg.pin_count + 1 } := by
  unfold FetchPage at h
  cases hg : getPage t id with
  | none => simp [hg] at h
  | some pg =>
    simp only [hg, Option.map_some', Option.some.injEq] at h
    exact ⟨pg, rfl, h.symm⟩

theorem LatchPage_write (t : BPlusTree) (id : Int) (pg : Page) (op : OP_TYPE)
    (hop : op ≠ OP_TYPE.READ) (h : getPage t id = some pg) (hl : pg.latch = 0) :
    LatchPage t id op = Except.ok (setPage t id { pg with latch := -1 }) := by
  simp [LatchPage, h, hop, hl]
  rfl

theorem UnlatchPage_write (t : BPlusTree) (id : Int) (pg : Page) (op : OP_TYPE)
    (hop : op ≠ OP_TYPE.READ) (h : getPage t id = some pg) (hl : pg.latch = -1) :
    UnlatchPage t id op = Except.ok (setPage t id { pg with latch := 0 }) := by
  simp [UnlatchPage, h, hop, hl]
  rfl

theorem UnpinPage_pos (t : BPlusTree) (id : Int) (pg : Page) (d : Bool)
    (h : getPage t id = some pg) (hp : pg.pin_count > 0) :
    UnpinPage t id d = setPage t id { pg with pin_count := pg.pin_count - 1 } := by
  simp [UnpinPage, h, hp]

theorem setPage_setPage (t : BPlusTree) (id : Int) (p q : Page) :
    setPage (setPage t id p) id q = setPage t id q := by
  simp [setPage]

/-- Releasing a page that is write-latched and pinned: the latch is freed and one pin taken
off. -/
theorem releasePage_eq (t : BPlusTree) (id : Int) (pg : Page) (h : getPage t id = some pg)
    (hl : pg.latch = -1) (hp : pg.pin_count > 0) :
    releasePage t id =
      Except.ok (setPage t id { pg with latch := 0, pin_count := pg.pin_count - 1 }) := by
  unfold releasePage
  rw [UnlatchPage_write t id pg OP_TYPE.INSERT (by decide) h hl]
  have h' : getPage (setPage t id { pg with latch := 0 }) id = some { pg with latch := 0 } := by
    rw [getPage_setPage t id id pg _ h]
    simp
  simp only [bind, Except.bind, pure, Except.pure]
  rw [UnpinPage_pos _ id _ true h' hp, setPage_setPage]

/-- The state reached by releasing the pages of `l` one after the other: every page of `l`, held
once by the writer, ends unlatched and unpinned, every other frame and field is untouched. -/
theorem foldlM_release (step : BPlusTree → Int → Except Err BPlusTree)
    (hstep : ∀ (t : BPlusTree) (id : Int) (pg : Page), t.deleted_page_set = [] →
      getPage t id = some pg → pg.latch = -1 → pg.pin_count = 1 →
      step t id = Except.ok (setPage t id { pg with latch := 0, pin_count := 0 })) :
    ∀ (l : List Int) (t : BPlusTree), l.Nodup → t.deleted_page_set = [] →
      (∀ id ∈ l, ∃ pg, getPage t id = some pg ∧ pg.latch = -1 ∧ pg.pin_count = 1) →
      ∃ t', l.foldlM step t = Except.ok t' ∧
        t'.root_page_id = t.root_page_id ∧ t'.leaf_max_size = t.leaf_max_size ∧
        t'.internal_max_size = t.internal_max_size ∧ t'.root_latch = t.root_latch ∧
        t'.root_latch_cnt = t.root_latch_cnt ∧ t'.header_calls = t.header_calls ∧
        t'.header_pin_count = t.header_pin_count ∧
        t'.page_set = t.page_set ∧ t'.deleted_page_set = [] ∧
        t'.pages.length = t.pages.length ∧
        ∀ id, getPage t' id =
          (getPage t id).map fun pg =>
            if id ∈ l then { pg with latch := 0, pin_count := 0 } else pg := by
  intro l
  induction l with
  | nil =>
    intro t _ hd _
    exact ⟨t, rfl, rfl, rfl, rfl, rfl, rfl, rfl, rfl, rfl, hd, rfl, fun id => by simp⟩
  | cons a l ih =>
    intro t hnd hd hall
    obtain ⟨pg, hpg, hl, hp⟩ := hall a (List.mem_cons_self a l)
    have hnd' := List.nodup_cons.1 hnd
    have hs := hstep t a pg hd hpg hl hp
    have hall' : ∀ id ∈ l, ∃ pg', getPage (setPage t a { pg with latch := 0, pin_count := 0 }) id
        = some pg' ∧ pg'.latch = -1 ∧ pg'.pin_count = 1 := by
      intro id hid
      obtain ⟨pg', h1, h2, h3⟩ := hall id (List.mem_cons_of_mem a hid)
      have hne : id ≠ a := fun h => hnd'.1 (h ▸ hid)
      exact ⟨pg', by rw [getPage_setPage t a id pg _ hpg]; simp [hne, h1], h2, h3⟩
    obtain ⟨t', h0, h1, h2, h3, h4, h5, h6, h6p, h7, h8, h9, h10⟩ :=
      ih (setPage t a { pg with latch := 0, pin_count := 0 }) hnd'.2 hd hall'
    refine ⟨t', ?_, h1, h2, h3, h4, h5, h6, h6p, h7, h8, by rw [h9, setPage_pages_length], ?_⟩
    · rw [List.foldlM_cons, hs]
      exact h0
    · intro id
      rw [h10 id, getPage_setPage t a id pg _ hpg]
      by_cases hia : id = a
      · subst hia
        simp [hpg, hnd'.1]
      · simp [hia]

/-! ## Quiescent states, the pure descent, and the writer's held state -/

theorem quiescent_fields (t : BPlusTree) (hq : quiescent t = true) :
    t.root_latch = 0 ∧ t.root_latch_cnt = 0 ∧ t.page_set = [] ∧ t.deleted_page_set = [] := by
  unfold quiescent at hq
  simp only [Bool.and_eq_true, beq_iff_eq, List.isEmpty_iff] at hq
  exact ⟨hq.1.1.1.1, hq.1.1.1.2, hq.1.1.2, hq.1.2⟩

theorem quiescent_page (t : BPlusTree) (hq : quiescent t = true) (id : Int) (pg : Page)
    (h : getPage t id = some pg) : pg.pin_count = 0 ∧ pg.latch = 0 := by
  unfold quiescent at hq
  simp only [Bool.and_eq_true, List.all_eq_true] at hq
  have := hq.2 (some pg) (getPage_mem t id pg h)
  simpa using this

theorem descend_fuel (t : BPlusTree) (key : Int) :
    ∀ (fuel : Nat) (page leaf : Int) (k : Nat), descend t key fuel page = some (leaf, k) →
      k < fuel ∧ ∀ fuel', k < fuel' → descend t key fuel' page = some (leaf, k) := by
  intro fuel
  induction fuel with
  | zero => intro page leaf k h; simp [descend] at h
  | succ fuel ih =>
    intro page leaf k h
    unfold descend at h
    cases hp : getPage t page with
    | none => simp [hp] at h
    | some pg =>
      simp only [hp] at h
      by_cases hleaf : pg.data.IsLeafPage = true
      · simp only [hleaf, if_true, Option.some.injEq, Prod.mk.injEq] at h
        obtain ⟨h1, h2⟩ := h
        subst h1 h2
        refine ⟨by omega, ?_⟩
        intro fuel' hf
        obtain ⟨f, rfl⟩ : ∃ f, fuel' = f + 1 := ⟨fuel' - 1, by omega⟩
        simp [descend, hp, hleaf]
      · simp only [hleaf, Bool.false_eq_true, if_false] at h
        cases hl : pg.data.Lookup key with
        | none => simp [hl] at h
        | some child =>
          simp only [hl] at h
          cases hc : getPage t child with
          | none => simp [hc] at h
          | some pc =>
            simp only [hc] at h
            cases hd : descend t key fuel child with
            | none => simp [hd] at h
            | some r =>
              obtain ⟨l', k'⟩ := r
              simp only [hd, Option.map_some', Option.some.injEq, Prod.mk.injEq] at h
              obtain ⟨h1, h2⟩ := h
              subst h1 h2
              obtain ⟨ih1, ih2⟩ := ih child l' k' hd
              refine ⟨by omega, ?_⟩
              intro fuel' hf
              obtain ⟨f, rfl⟩ : ∃ f, fuel' = f + 1 := ⟨fuel' - 1, by omega⟩
              simp [descend, hp, hleaf, hl, hc, ih2 f (by omega)]

/-- The descent is a function of the page: two runs from the same page agree. -/
theorem descend_unique (t : BPlusTree) (key : Int) (f1 f2 : Nat) (page l1 l2 : Int)
    (k1 k2 : Nat) (h1 : descend t key f1 page = some (l1, k1))
    (h2 : descend t key f2 page = some (l2, k2)) : l1 = l2 ∧ k1 = k2 := by
  have a := (descend_fuel t key f1 page l1 k1 h1).2 (k1 + k2 + 1) (by omega)
  have b := (descend_fuel t key f2 page l2 k2 h2).2 (k1 + k2 + 1) (by omega)
  rw [a] at b
  simpa using b

/-- One step of the descent from an internal page. -/
theorem descend_step (t : BPlusTree) (key : Int) (fuel : Nat) (page leaf : Int) (k : Nat)
    (pg : Page) (hp : getPage t page = some pg) (hleaf : pg.data.IsLeafPage = false)
    (h : descend t key (fuel + 1) page = some (leaf, k)) :
    ∃ child pc k', pg.data.Lookup key = some child ∧ getPage t child = some pc ∧
      descend t key fuel child = some (leaf, k') ∧ k = k' + 1 := by
  unfold descend at h
  simp only [hp, hleaf, Bool.false_eq_true, if_false] at h
  cases hl : pg.data.Lookup key with
  | none => simp [hl] at h
  | some child =>
    simp only [hl] at h
    cases hc : getPage t child with
    | none => simp [hc] at h
    | some pc =>
      simp only [hc] at h
      cases hd : descend t key fuel child with
      | none => simp [hd] at h
      | some r =>
        obtain ⟨l', k'⟩ := r
        simp only [hd, Option.map_some', Option.some.injEq, Prod.mk.injEq] at h
        exact ⟨child, pc, k', rfl, hc, by rw [hd, h.1], h.2.symm⟩

theorem getPage_congr (t t' : BPlusTree) (h : t'.pages = t.pages) (id : Int) :
    getPage t' id = getPage t id := by
  simp [getPage, h]

theorem HeldState.getPage_not_mem (t0 t : BPlusTree) (h : HeldState t0 t) (c : Int)
    (hnot : c ∉ t.page_set) : getPage t c = getPage t0 c := by
  rw [h.frames c]
  cases getPage t0 c <;> simp [hnot]

theorem HeldState.getPage_held (t0 t : BPlusTree) (h : HeldState t0 t) (c : Int) (pc : Page)
    (hc : getPage t0 c = some pc) (hmem : c ∈ t.page_set) :
    getPage t c = some { pc with pin_count := 1, latch := -1 } := by
  rw [h.frames c, hc]
  simp [hmem]

/-- Taking one more page: fetched, write-latched and appended to the page set. -/
theorem HeldState.add (t0 t : BPlusTree) (hq : quiescent t0 = true) (h : HeldState t0 t)
    (c : Int) (pc : Page) (hc : getPage t0 c = some pc) (hnot : c ∉ t.page_set) :
    HeldState t0
      (AddIntoPageSet (setPage t c { pc with pin_count := pc.pin_count + 1, latch := -1 }) c) := by
  have hpc := quiescent_page t0 hq c pc hc
  have htc : getPage t c = some pc := by rw [h.getPage_not_mem t0 t c hnot, hc]
  constructor
  · exact h.root
  · exact h.leaf_max
  · exact h.internal_max
  · exact h.header
  · exact h.header_pin
  · exact h.deleted
  · simp [AddIntoPageSet, setPage, h.length]
  · show (t.page_set ++ [c]).Nodup
    rw [List.nodup_append]
    refine ⟨h.nodup, List.nodup_singleton c, ?_⟩
    intro a ha hb
    simp at hb
    subst hb
    exact hnot ha
  · intro id hid
    have : id ∈ t.page_set ++ [c] := hid
    rcases List.mem_append.1 this with h1 | h1
    · exact h.valid id h1
    · simp at h1
      exact ⟨pc, h1 ▸ hc⟩
  · exact h.latch
  · intro id
    rw [getPage_congr (setPage t c _) (AddIntoPageSet (setPage t c _) c) rfl,
      getPage_setPage t c id pc _ htc]
    show _ = (getPage t0 id).map fun pg =>
      if id ∈ t.page_set ++ [c] then { pg with pin_count := 1, latch := -1 } else pg
    by_cases hic : id = c
    · subst hic
      simp [hc, hpc.1]
    · rw [h.frames id]
      simp [hic]

theorem releasePage_step (t : BPlusTree) (id : Int) (pg : Page) (_hd : t.deleted_page_set = [])
    (h : getPage t id = some pg) (hl : pg.latch = -1) (hp : pg.pin_count = 1) :
    releasePage t id = Except.ok (setPage t id { pg with latch := 0, pin_count := 0 }) := by
  rw [releasePage_eq t id pg h hl (by omega), hp]
  rfl

theorem TryUnlatchRoot_held (t : BPlusTree) (op : OP_TYPE) (hop : op ≠ OP_TYPE.READ)
    (hl : (t.root_latch = -1 ∧ t.root_latch_cnt = 1) ∨ (t.root_latch = 0 ∧ t.root_latch_cnt = 0)) :
    TryUnlatchRoot t op = { t with root_latch := 0, root_latch_cnt := 0 } := by
  unfold TryUnlatchRoot
  rcases hl with ⟨h1, h2⟩ | ⟨h1, h2⟩
  · simp [h2, hop]
  · cases t
    simp_all

/-- A writer that finds its child safe: the root latch and every held page are released, then
the child (already fetched and latched) becomes the only held page. -/
theorem HeldState.release_add (t0 t : BPlusTree) (hq : quiescent t0 = true) (h : HeldState t0 t)
    (c : Int) (pc : Page) (hc : getPage t0 c = some pc) (hnot : c ∉ t.page_set) (op : OP_TYPE)
    (hop : op ≠ OP_TYPE.READ) :
    ∃ t4, ReleaseAllPages
        (TryUnlatchRoot (setPage t c { pc with pin_count := pc.pin_count + 1, latch := -1 }) op)
          = Except.ok t4 ∧
      HeldState t0 (AddIntoPageSet t4 c) ∧ (AddIntoPageSet t4 c).page_set = [c] := by
  have hpc := quiescent_page t0 hq c pc hc
  have htc : getPage t c = some pc := by rw [h.getPage_not_mem t0 t c hnot, hc]
  rw [TryUnlatchRoot_held (setPage t c { pc with pin_count := pc.pin_count + 1, latch := -1 }) op
    hop (show _ from h.latch)]
  set t3 : BPlusTree :=
    { setPage t c { pc with pin_count := pc.pin_count + 1, latch := -1 } with
      root_latch := 0, root_latch_cnt := 0 } with ht3
  have hg3 : ∀ id, getPage t3 id =
      if id = c then some { pc with pin_count := pc.pin_count + 1, latch := -1 }
      else getPage t id := by
    intro id
    rw [getPage_congr (setPage t c _) t3 rfl, getPage_setPage t c id pc _ htc]
  have hall : ∀ id ∈ t.page_set, ∃ pg, getPage t3 id = some pg ∧ pg.latch = -1 ∧
      pg.pin_count = 1 := by
    intro id hid
    obtain ⟨pg0, hpg0⟩ := h.valid id hid
    have hne : id ≠ c := fun he => hnot (he ▸ hid)
    refine ⟨{ pg0 with pin_count := 1, latch := -1 }, ?_, rfl, rfl⟩
    rw [hg3 id, if_neg hne, h.getPage_held t0 t id pg0 hpg0 hid]
  obtain ⟨t', h0, h1, h2, h3, h4, h5, h6, h6p, h7, h8, h9, h10⟩ :=
    foldlM_release releasePage releasePage_step t.page_set t3 h.nodup h.deleted hall
  refine ⟨{ t' with page_set := [] }, ?_, ?_, rfl⟩
  · unfold ReleaseAllPages
    have : t3.page_set = t.page_set := rfl
    rw [this, h0]
    rfl
  · constructor
    · exact h1.trans h.root
    · exact h2.trans h.leaf_max
    · exact h3.trans h.internal_max
    · exact h6.trans h.header
    · exact h6p.trans h.header_pin
    · exact h8
    · show t'.pages.length = _
      rw [h9]
      simp [ht3, setPage, h.length]
    · exact List.nodup_singleton c
    · intro id hid
      have : id = c := by simpa [AddIntoPageSet] using hid
      exact ⟨pc, this ▸ hc⟩
    · right
      exact ⟨h4, h5⟩
    · intro id
      rw [getPage_congr t' (AddIntoPageSet { t' with page_set := [] } c) rfl, h10 id, hg3 id]
      show _ = (getPage t0 id).map fun pg =>
        if id ∈ [c] then { pg with pin_count := 1, latch := -1 } else pg
      by_cases hic : id = c
      · subst hic
        simp [hc, hnot, hpc.1]
      · simp only [hic, if_false, List.mem_singleton]
        rw [h.frames id]
        cases hg0 : getPage t0 id with
        | none => simp
        | some pg0 =>
          have hq0 := quiescent_page t0 hq id pg0 hg0
          by_cases hm : id ∈ t.page_set
          · simp only [Option.map_some', hm, if_true, Option.some.injEq]
            cases pg0
            simp_all
          · simp [hm]

theorem getNode_of_getPage (t : BPlusTree) (id : Int) (pg : Page) (h : getPage t id = some pg) :
    getNode t id = Except.ok pg.data := by
  simp [getNode, h]
  rfl

/-- The write descent from a held state follows the pure descent, takes only latches and pins,
and ends with the leaf in the page set. -/
theorem crabbing_write_loop (t0 : BPlusTree) (hq : quiescent t0 = true) (key : Int)
    (op : OP_TYPE) (hop : op ≠ OP_TYPE.READ) :
    ∀ (fuel : Nat) (t : BPlusTree) (page leaf : Int) (k : Nat), HeldState t0 t →
      page ∈ t.page_set → descend t0 key fuel page = some (leaf, k) →
      (∀ h ∈ t.page_set, h ≠ page →
        ∃ lf kh f, descend t0 key f h = some (lf, kh) ∧ k < kh) →
      ∃ t', FindLeafPageCrabbingLoop key op fuel t page = Except.ok (t', leaf) ∧
        HeldState t0 t' ∧ leaf ∈ t'.page_set := by
  intro fuel
  induction fuel with
  | zero => intro t page leaf k _ _ hd; simp [descend] at hd
  | succ fuel ih =>
    intro t page leaf k hheld hmem hd hothers
    cases hp0 : getPage t0 page with
    | none => simp [descend, hp0] at hd
    | some pg =>
      have hpt := hheld.getPage_held t0 t page pg hp0 hmem
      have hnode := getNode_of_getPage t page _ hpt
      unfold FindLeafPageCrabbingLoop
      simp only [hnode, bind, Except.bind]
      by_cases hleaf : pg.data.IsLeafPage = true
      · simp only [hleaf, if_true]
        have : leaf = page := by
          simp [descend, hp0, hleaf] at hd
          exact hd.1.symm
        subst this
        exact ⟨t, rfl, hheld, hmem⟩
      · have hleaf' : pg.data.IsLeafPage = false := by simpa using hleaf
        obtain ⟨c, pc, k', hl, hc0, hdc, hk⟩ := descend_step t0 key fuel page leaf k pg hp0 hleaf' hd
        simp only [hleaf', Bool.false_eq_true, if_false, hl]
        have hnot : c ∉ t.page_set := by
          intro hin
          by_cases hcp : c = page
          · subst hcp
            have := descend_unique t0 key _ _ c _ _ _ _ hd hdc
            omega
          · obtain ⟨lf, kh, f, hdh, hlt⟩ := hothers c hin hcp
            have := descend_unique t0 key _ _ c _ _ _ _ hdh hdc
            omega
        have hpc := quiescent_page t0 hq c pc hc0
        have htc : getPage t c = some pc := by rw [hheld.getPage_not_mem t0 t c hnot, hc0]
        rw [FetchPage_eq t c pc htc]
        simp only
        have hg1 : getPage (setPage t c { pc with pin_count := pc.pin_count + 1 }) c
            = some { pc with pin_count := pc.pin_count + 1 } := by
          rw [getPage_setPage t c c pc _ htc]; simp
        rw [LatchPage_write _ c _ op hop hg1 hpc.2, setPage_setPage]
        have hg2 : getPage (setPage t c { pc with pin_count := pc.pin_count + 1, latch := -1 }) c
            = some { pc with pin_count := pc.pin_count + 1, latch := -1 } := by
          rw [getPage_setPage t c c pc _ htc]; simp
        simp only [getNode_of_getPage _ c _ hg2, hop, if_false]
        have hnext : ∀ t2 : BPlusTree, HeldState t0 t2 → c ∈ t2.page_set →
            (∀ h ∈ t2.page_set, h ≠ c → h ∈ t.page_set) →
            ∃ t', FindLeafPageCrabbingLoop key op fuel t2 c = Except.ok (t', leaf) ∧
              HeldState t0 t' ∧ leaf ∈ t'.page_set := by
          intro t2 h2 hc2 hsub
          apply ih t2 c leaf k' h2 hc2 hdc
          intro h hh hne
          have hin := hsub h hh hne
          by_cases hhp : h = page
          · subst hhp
            exact ⟨leaf, k, fuel + 1, hd, by omega⟩
          · obtain ⟨lf, kh, f, hdh, hlt⟩ := hothers h hin hhp
            exact ⟨lf, kh, f, hdh, by omega⟩
        by_cases hsafe : IsNodeSafe pc.data op = true
        · simp only [hsafe, if_true]
          obtain ⟨t4, hrel, hheld4, hps4⟩ := hheld.release_add t0 t hq c pc hc0 hnot op hop
          rw [hrel]
          simp only
          apply hnext _ hheld4 (by rw [hps4]; simp)
          intro h hh hne
          rw [hps4] at hh
          simp at hh
          exact absurd hh hne
        · simp only [hsafe, Bool.false_eq_true, if_false]
          apply hnext _ (hheld.add t0 t hq c pc hc0 hnot)
          · show c ∈ t.page_set ++ [c]
            simp
          · intro h hh hne
            have : h ∈ t.page_set ++ [c] := hh
            rcases List.mem_append.1 this with h1 | h1
            · exact h1
            · simp at h1
              exact absurd h1 hne

@[simp] theorem setPage_root_page_id (t : BPlusTree) (id : Int) (p : Page) :
    (setPage t id p).root_page_id = t.root_page_id := rfl

@[simp] theorem setPage_page_set (t : BPlusTree) (id : Int) (p : Page) :
    (setPage t id p).page_set = t.page_set := rfl

@[simp] theorem AddIntoPageSet_page_set (t : BPlusTree) (id : Int) :
    (AddIntoPageSet t id).page_set = t.page_set ++ [id] := rfl

theorem LatchRoot_quiescent (t0 : BPlusTree) (hq : quiescent t0 = true) (op : OP_TYPE)
    (hop : op ≠ OP_TYPE.READ) :
    ∃ t1, LatchRoot t0 op = Except.ok t1 ∧ HeldState t0 t1 ∧ t1.page_set = [] ∧
      t1.root_page_id = t0.root_page_id ∧ TryUnlatchRoot t1 op = t0 := by
  obtain ⟨q1, q2, q3, q4⟩ := quiescent_fields t0 hq
  refine ⟨{ t0 with root_latch := -1, root_latch_cnt := t0.root_latch_cnt + 1 }, ?_, ?_, q3, rfl,
    ?_⟩
  · simp [LatchRoot, hop, q1]
    rfl
  · constructor
    · rfl
    · rfl
    · rfl
    · rfl
    · rfl
    · exact q4
    · rfl
    · show t0.page_set.Nodup
      rw [q3]; exact List.nodup_nil
    · intro id hid
      have : id ∈ t0.page_set := hid
      rw [q3] at this
      simp at this
    · left
      exact ⟨rfl, by show t0.root_latch_cnt + 1 = 1; omega⟩
    · intro id
      have hg : getPage { t0 with root_latch := -1, root_latch_cnt := t0.root_latch_cnt + 1 } id
          = getPage t0 id := getPage_congr t0 _ rfl id
      rw [hg]
      show _ = (getPage t0 id).map fun pg =>
        if id ∈ t0.page_set then { pg with pin_count := 1, latch := -1 } else pg
      cases getPage t0 id <;> simp [q3]
  · unfold TryUnlatchRoot
    simp only [hop, if_false]
    cases t0
    simp_all

/-- From a quiescent state the write descent succeeds wherever the pure descent does. -/
theorem crabbing_write (t0 : BPlusTree) (hq : quiescent t0 = true) (key : Int) (op : OP_TYPE)
    (hop : op ≠ OP_TYPE.READ) (leaf : Int) (k : Nat)
    (hd : descend t0 key t0.pages.length t0.root_page_id = some (leaf, k)) :
    ∃ t', FindLeafPageCrabbing t0 key op = Except.ok (t', leaf) ∧ HeldState t0 t' ∧
      leaf ∈ t'.page_set := by
  obtain ⟨t1, hlr, hheld1, hps1, hroot1, _⟩ := LatchRoot_quiescent t0 hq op hop
  cases hp0 : getPage t0 t0.root_page_id with
  | none =>
    cases hfuel : t0.pages.length with
    | zero => rw [hfuel] at hd; simp [descend] at hd
    | succ n => rw [hfuel] at hd; simp [descend, hp0] at hd
  | some pg =>
    have hpg := quiescent_page t0 hq _ pg hp0
    have hnot : t0.root_page_id ∉ t1.page_set := by simp [hps1]
    have hheld2 := hheld1.add t0 t1 hq t0.root_page_id pg hp0 hnot
    have hp1 : getPage t1 t0.root_page_id = some pg := by
      rw [hheld1.getPage_not_mem t0 t1 _ hnot, hp0]
    unfold FindLeafPageCrabbing
    rw [hlr]
    simp only [bind, Except.bind, hroot1]
    rw [FetchPage_eq t1 _ pg hp1]
    have hg1 : getPage (setPage t1 t0.root_page_id { pg with pin_count := pg.pin_count + 1 })
        t0.root_page_id = some { pg with pin_count := pg.pin_count + 1 } := by
      rw [getPage_setPage t1 _ _ pg _ hp1]; simp
    simp only [setPage_root_page_id, hroot1]
    rw [LatchPage_write _ _ _ op hop hg1 hpg.2, setPage_setPage]
    simp only [hop, ne_eq, not_false_eq_true, if_true]
    rw [hheld2.length]
    apply crabbing_write_loop t0 hq key op hop _ _ _ leaf k hheld2
    · simp
    · exact hd
    · intro h hh hne
      simp [hps1] at hh
      exact absurd hh hne

/-! ## The read descent and `GetValue` -/

theorem sameData_refl (t : BPlusTree) : sameData t t := ⟨rfl, rfl, fun _ => rfl⟩

theorem sameData_setPage (t0 t : BPlusTree) (h : sameData t0 t) (id : Int) (pg p : Page)
    (hg : getPage t id = some pg) (hd : p.data = pg.data) : sameData t0 (setPage t id p) := by
  refine ⟨h.1, by rw [setPage_pages_length]; exact h.2.1, ?_⟩
  intro id'
  rw [getPage_setPage t id id' pg p hg, ← h.2.2 id']
  by_cases he : id' = id
  · subst he
    simp [hg, hd]
  · simp [he]

theorem sameData_of_pages (t0 t t' : BPlusTree) (h : sameData t0 t) (hp : t'.pages = t.pages)
    (hr : t'.root_page_id = t.root_page_id) : sameData t0 t' := by
  refine ⟨hr.trans h.1, by rw [hp]; exact h.2.1, ?_⟩
  intro id
  rw [getPage_congr t t' hp, h.2.2 id]

theorem sameData_FetchPage (t0 t t' : BPlusTree) (h : sameData t0 t) (id : Int)
    (hf : FetchPage t id = some t') : sameData t0 t' := by
  obtain ⟨pg, hg, rfl⟩ := FetchPage_eq_some t t' id hf
  exact sameData_setPage t0 t h id pg _ hg rfl

theorem sameData_LatchPage (t0 t t' : BPlusTree) (h : sameData t0 t) (id : Int) (op : OP_TYPE)
    (hf : LatchPage t id op = Except.ok t') : sameData t0 t' := by
  unfold LatchPage at hf
  cases hg : getPage t id with
  | none => simp [hg] at hf
  | some pg =>
    simp only [hg] at hf
    split_ifs at hf <;> (cases hf; exact sameData_setPage t0 t h id pg _ hg rfl)

theorem sameData_UnlatchPage (t0 t t' : BPlusTree) (h : sameData t0 t) (id : Int)
    (op : OP_TYPE) (hf : UnlatchPage t id op = Except.ok t') : sameData t0 t' := by
  unfold UnlatchPage at hf
  cases hg : getPage t id with
  | none => simp [hg] at hf
  | some pg =>
    simp only [hg] at hf
    split_ifs at hf <;> (cases hf; exact sameData_setPage t0 t h id pg _ hg rfl)

theorem sameData_UnpinPage (t0 t : BPlusTree) (h : sameData t0 t) (id : Int) (d : Bool) :
    sameData t0 (UnpinPage t id d) := by
  unfold UnpinPage
  cases hg : getPage t id with
  | none => exact h
  | some pg =>
    simp only
    split_ifs
    · exact sameData_setPage t0 t h id pg _ hg rfl
    · exact h

theorem sameData_TryUnlatchRoot (t0 t : BPlusTree) (h : sameData t0 t) (op : OP_TYPE) :
    sameData t0 (TryUnlatchRoot t op) := by
  unfold TryUnlatchRoot
  split_ifs
  · exact sameData_of_pages t0 t _ h rfl rfl
  · exact sameData_of_pages t0 t _ h rfl rfl
  · exact h

theorem sameData_LatchRoot (t0 t t' : BPlusTree) (h : sameData t0 t) (op : OP_TYPE)
    (hf : LatchRoot t op = Except.ok t') : sameData t0 t' := by
  unfold LatchRoot at hf
  split_ifs at hf <;> (cases hf; exact sameData_of_pages t0 t _ h rfl rfl)

theorem sameData_getPage (t0 t : BPlusTree) (h : sameData t0 t) (id : Int) (pg : Page)
    (hg : getPage t id = some pg) : ∃ pg0, getPage t0 id = some pg0 ∧ pg0.data = pg.data := by
  have := h.2.2 id
  rw [hg] at this
  cases hg0 : getPage t0 id with
  | none => simp [hg0] at this
  | some pg0 =>
    simp only [hg0, Option.map_some', Option.some.injEq] at this
    exact ⟨pg0, rfl, this.symm⟩

theorem getNode_eq_ok (t : BPlusTree) (id : Int) (n : Node) (h : getNode t id = Except.ok n) :
    ∃ pg, getPage t id = some pg ∧ pg.data = n := by
  unfold getNode at h
  cases hg : getPage t id with
  | none => simp [hg] at h
  | some pg =>
    simp only [hg] at h
    cases h
    exact ⟨pg, rfl, rfl⟩

theorem descend_leaf (t : BPlusTree) (key : Int) :
    ∀ (fuel : Nat) (page leaf : Int) (k : Nat), descend t key fuel page = some (leaf, k) →
      ∃ pg, getPage t leaf = some pg ∧ pg.data.IsLeafPage = true := by
  intro fuel
  induction fuel with
  | zero => intro page leaf k h; simp [descend] at h
  | succ fuel ih =>
    intro page leaf k h
    cases hp : getPage t page with
    | none => simp [descend, hp] at h
    | some pg =>
      by_cases hleaf : pg.data.IsLeafPage = true
      · simp [descend, hp, hleaf] at h
        exact ⟨pg, h.1 ▸ hp, hleaf⟩
      · have hleaf' : pg.data.IsLeafPage = false := by simpa using hleaf
        obtain ⟨c, pc, k', _, _, hdc, _⟩ := descend_step t key fuel page leaf k pg hp hleaf' h
        exact ih c leaf k' hdc

theorem getNode_setNode (t : BPlusTree) (id id' : Int) (pg : Page) (n : Node)
    (h : getPage t id = some pg) :
    getNode (setNode t id n) id' = if id' = id then Except.ok n else getNode t id' := by
  unfold setNode getNode
  simp only [h]
  rw [getPage_setPage t id id' pg _ h]
  by_cases he : id' = id
  · simp [he]; rfl
  · simp [he]

theorem getPage_setNode (t : BPlusTree) (id id' : Int) (pg : Page) (n : Node)
    (h : getPage t id = some pg) :
    getPage (setNode t id n) id' =
      if id' = id then some { pg with data := n } else getPage t id' := by
  unfold setNode
  simp only [h]
  rw [getPage_setPage t id id' pg _ h]

theorem sizeAt_setNode (t : BPlusTree) (id : Int) (pg : Page) (n : Node)
    (h : getPage t id = some pg) (hs : n.size = pg.data.size) (id' : Int) :
    sizeAt (setNode t id n) id' = sizeAt t id' := by
  unfold sizeAt
  rw [getPage_setNode t id id' pg n h]
  by_cases he : id' = id
  · subst he; simp [h, hs]
  · simp [he]

theorem sizeAt_setNode_self (t : BPlusTree) (id : Int) (pg : Page) (n : Node)
    (h : getPage t id = some pg) : sizeAt (setNode t id n) id = some n.size := by
  unfold sizeAt
  rw [getPage_setNode t id id pg n h]
  simp

theorem sizeAt_setNode_ne (t : BPlusTree) (id id' : Int) (n : Node) (hne : id' ≠ id) :
    sizeAt (setNode t id n) id' = sizeAt t id' := by
  unfold sizeAt setNode
  cases h : getPage t id with
  | none => rfl
  | some pg =>
    simp only
    rw [getPage_setPage t id id' pg _ h]
    simp [hne]

theorem sizeAt_FetchPage (t t' : BPlusTree) (id : Int) (hf : FetchPage t id = some t')
    (id' : Int) : sizeAt t' id' = sizeAt t id' := by
  obtain ⟨pg, hg, rfl⟩ := FetchPage_eq_some t t' id hf
  unfold sizeAt
  rw [getPage_setPage t id id' pg _ hg]
  by_cases he : id' = id
  · subst he; simp [hg]
  · simp [he]

theorem sizeAt_UnpinPage (t : BPlusTree) (id : Int) (d : Bool) (id' : Int) :
    sizeAt (UnpinPage t id d) id' = sizeAt t id' := by
  unfold UnpinPage
  cases hg : getPage t id with
  | none => rfl
  | some pg =>
    simp only
    split_ifs
    · unfold sizeAt
      rw [getPage_setPage t id id' pg _ hg]
      by_cases he : id' = id
      · subst he; simp [hg]
      · simp [he]
    · rfl

theorem sizeAt_some_getPage (t : BPlusTree) (id : Int) (s : Int) (h : sizeAt t id = some s) :
    ∃ pg, getPage t id = some pg ∧ pg.data.size = s := by
  unfold sizeAt at h
  cases hg : getPage t id with
  | none => simp [hg] at h
  | some pg => exact ⟨pg, rfl, by simpa [hg] using h⟩

/-- `CopyNFrom`'s loop succeeds when every moved child exists, and changes no stored size. -/
theorem CopyNFromLoop_sizes (self : Int) :
    ∀ (items : List MappingType) (i : Int) (t : BPlusTree),
      (∀ item ∈ items, (sizeAt t item.2).isSome) → (sizeAt t self).isSome →
      ∃ t', CopyNFromLoop self items i t = Except.ok t' ∧ ∀ id, sizeAt t' id = sizeAt t id := by
  intro items
  induction items with
  | nil => intro i t _ _; exact ⟨t, rfl, fun _ => rfl⟩
  | cons item items ih =>
    intro i t hall hself
    have hitem := hall item (List.mem_cons_self _ _)
    obtain ⟨sc, hsc⟩ := Option.isSome_iff_exists.1 hitem
    obtain ⟨pc, hpc, _⟩ := sizeAt_some_getPage t item.2 sc hsc
    unfold CopyNFromLoop
    rw [FetchPage_eq t item.2 pc hpc]
    simp only
    set t1 := setPage t item.2 { pc with pin_count := pc.pin_count + 1 } with ht1
    have hf : FetchPage t item.2 = some t1 := FetchPage_eq t item.2 pc hpc
    have hs1 : ∀ id, sizeAt t1 id = sizeAt t id := sizeAt_FetchPage t t1 item.2 hf
    obtain ⟨ss, hss⟩ := Option.isSome_iff_exists.1 hself
    obtain ⟨pme, hpme, _⟩ := sizeAt_some_getPage t1 self ss (by rw [hs1]; exact hss)
    obtain ⟨pc1, hpc1, _⟩ := sizeAt_some_getPage t1 item.2 sc (by rw [hs1]; exact hsc)
    simp only [getNode_of_getPage t1 self pme hpme, getNode_of_getPage t1 item.2 pc1 hpc1, bind,
      Except.bind]
    set t2 := setNode t1 item.2 { pc1.data with parent_page_id := pme.data.page_id } with ht2
    have hs2 : ∀ id, sizeAt t2 id = sizeAt t1 id :=
      sizeAt_setNode t1 item.2 pc1 _ hpc1 rfl
    set t3 := UnpinPage t2 item.2 true with ht3
    have hs3 : ∀ id, sizeAt t3 id = sizeAt t id := by
      intro id
      rw [ht3, sizeAt_UnpinPage, hs2, hs1]
    obtain ⟨pme3, hpme3, _⟩ := sizeAt_some_getPage t3 self ss (by rw [hs3]; exact hss)
    simp only [getNode_of_getPage t3 self pme3 hpme3]
    set t4 := setNode t3 self { pme3.data with array := slotSet pme3.data.array i item } with ht4
    have hs4 : ∀ id, sizeAt t4 id = sizeAt t id := fun id =>
      (sizeAt_setNode t3 self pme3 _ hpme3 (by rfl) id).trans (hs3 id)
    obtain ⟨t', h1, h2⟩ := ih (i + 1) t4
      (fun it hit => by rw [hs4]; exact hall it (List.mem_cons_of_mem _ hit))
      (by rw [hs4]; exact hself)
    exact ⟨t', h1, fun id => by rw [h2, hs4]⟩

/-- `CopyNFrom` sets the recipient's size to the count moved and changes no other size. -/
theorem CopyNFrom_sizes (t : BPlusTree) (self : Int) (items : List MappingType) (size : Int)
    (hall : ∀ item ∈ items, (sizeAt t item.2).isSome) (hself : (sizeAt t self).isSome) :
    ∃ t', CopyNFrom t self items size = Except.ok t' ∧
      ∀ id, sizeAt t' id = if id = self then some size else sizeAt t id := by
  obtain ⟨t1, h1, hs1⟩ := CopyNFromLoop_sizes self items 0 t hall hself
  obtain ⟨ss, hss⟩ := Option.isSome_iff_exists.1 hself
  obtain ⟨pme, hpme, _⟩ := sizeAt_some_getPage t1 self ss (by rw [hs1]; exact hss)
  unfold CopyNFrom
  simp only [h1, bind, Except.bind, getNode_of_getPage t1 self pme hpme, pure, Except.pure]
  refine ⟨_, rfl, ?_⟩
  intro id
  by_cases he : id = self
  · subst he
    simp [sizeAt_setNode_self t1 id pme _ hpme]
  · simp only [he, if_false]
    rw [sizeAt_setNode_ne _ _ _ _ he, hs1]

/-- `MoveHalfTo` of the internal page: the upper `⌊n/2⌋` slots go to the recipient. -/
theorem MoveHalfTo_sizes (t : BPlusTree) (self recipient : Int) (pg : Page)
    (hself : getPage t self = some pg) (hrec : (sizeAt t recipient).isSome)
    (hne : self ≠ recipient)
    (hall : ∀ item ∈ slotsFrom pg.data.array (pg.data.size - pg.data.size / 2)
      (pg.data.size / 2), (sizeAt t item.2).isSome) :
    ∃ t', MoveHalfTo t self recipient = Except.ok t' ∧
      ∀ id, sizeAt t' id =
        if id = self then some (pg.data.size - pg.data.size / 2)
        else if id = recipient then some (pg.data.size / 2) else sizeAt t id := by
  obtain ⟨t1, h1, hs1⟩ := CopyNFrom_sizes t recipient _ (pg.data.size / 2) hall hrec
  have hsz : sizeAt t1 self = some pg.data.size := by
    rw [hs1, if_neg hne]
    simp [sizeAt, hself]
  obtain ⟨pme, hpme, hpsz⟩ := sizeAt_some_getPage t1 self _ hsz
  unfold MoveHalfTo
  simp only [getNode_of_getPage t self pg hself, bind, Except.bind, Node.GetSize, h1,
    getNode_of_getPage t1 self pme hpme, pure, Except.pure]
  refine ⟨_, rfl, ?_⟩
  intro id
  by_cases he : id = self
  · subst he
    simp [sizeAt_setNode_self t1 id pme _ hpme, hpsz]
  · simp only [he, if_false]
    rw [sizeAt_setNode_ne _ _ _ _ he, hs1]

theorem getPage_NewPage (t : BPlusTree) (id : Int) :
    getPage (NewPage t).1 id =
      if id = (t.pages.length : Int) then
        some { pin_count := 1, latch := 0, data := zeroNode }
      else getPage t id := by
  unfold getPage NewPage
  by_cases hneg : id < 0
  · have : ¬ id = (t.pages.length : Int) := by omega
    simp [hneg, this]
  · simp only [hneg, if_false, List.getD_eq_getElem?_getD]
    by_cases he : id = (t.pages.length : Int)
    · subst he
      simp
    · simp only [he, if_false]
      have hne : id.toNat ≠ t.pages.length := by omega
      by_cases hlt : id.toNat < t.pages.length
      · rw [List.getElem?_append_left hlt]
      · rw [List.getElem?_eq_none (by simp; omega), List.getElem?_eq_none (by omega)]

theorem getPage_lt_length (t : BPlusTree) (id : Int) (pg : Page) (h : getPage t id = some pg) :
    id ≠ (t.pages.length : Int) := by
  obtain ⟨h1, h2, _⟩ := getPage_eq_some t id pg h
  omega

/-- The sizes a split produces: `Split` of a node holding `n ≥ 0` entries (for an internal page: whose moved
children exist) succeeds, allocates the next page id, leaves `n - ⌊n/2⌋` entries in the node and
gives `⌊n/2⌋` to the new sibling; when `n` is the node's max size, the node keeps exactly its
minimum size `⌈max/2⌉` and the sibling gets `⌊max/2⌋`, which is the minimum size exactly when the
max size is even and one less otherwise. -/
theorem Split_sizes (t : BPlusTree) (N : IndexPageType) (node : Int) (pg : Page)
    (hnode : getPage t node = some pg) (hsize : 0 ≤ pg.data.size)
    (hchildren : pg.data.IsLeafPage = false →
      ∀ item ∈ slotsFrom pg.data.array (pg.data.size - pg.data.size / 2) (pg.data.size / 2),
        (sizeAt t item.2).isSome) :
    ∃ t', Split t N node = Except.ok (t', (t.pages.length : Int)) ∧
      sizeAt t' node = some (pg.data.size - pg.data.size / 2) ∧
      sizeAt t' ((t.pages.length : Int)) = some (pg.data.size / 2) ∧
      (pg.data.size = pg.data.max_size →
        pg.data.size - pg.data.size / 2 = pg.data.GetMinSize ∧
        pg.data.GetMinSize - 1 ≤ pg.data.size / 2 ∧
        (pg.data.size / 2 = pg.data.GetMinSize ↔ pg.data.max_size % 2 = 0)) := by
  have harith : pg.data.size = pg.data.max_size →
      pg.data.size - pg.data.size / 2 = pg.data.GetMinSize ∧
      pg.data.GetMinSize - 1 ≤ pg.data.size / 2 ∧
      (pg.data.size / 2 = pg.data.GetMinSize ↔ pg.data.max_size % 2 = 0) := by
    intro h
    have hmin : pg.data.GetMinSize = (pg.data.max_size + 1) / 2 := rfl
    refine ⟨by omega, by omega, ?_⟩
    constructor <;> intro _ <;> omega
  have hne : node ≠ (t.pages.length : Int) := getPage_lt_length t node pg hnode
  have hne' : (t.pages.length : Int) ≠ node := fun h => hne h.symm
  have hg1 : getPage (NewPage t).1 node = some pg := by
    rw [getPage_NewPage, if_neg hne, hnode]
  have hg2 : getPage (NewPage t).1 ((t.pages.length : Int))
      = some { pin_count := 1, latch := 0, data := zeroNode } := by
    rw [getPage_NewPage, if_pos rfl]
  have hnp : (NewPage t).2 = (t.pages.length : Int) := rfl
  unfold Split
  simp only [hnp, getNode_of_getPage _ node pg hg1, getNode_of_getPage _ _ _ hg2, bind,
    Except.bind]
  generalize hinit : (if N = IndexPageType.LEAF_PAGE then
      zeroNode.InitLeaf ((t.pages.length : Int)) pg.data.parent_page_id
        (if pg.data.IsLeafPage = true then (NewPage t).1.leaf_max_size
          else (NewPage t).1.internal_max_size)
    else zeroNode.InitInternal ((t.pages.length : Int)) pg.data.parent_page_id
        (if pg.data.IsLeafPage = true then (NewPage t).1.leaf_max_size
          else (NewPage t).1.internal_max_size)) = split_node
  have hinit0 : split_node.size = 0 := by
    subst hinit
    split_ifs <;> rfl
  set t2 := setNode (NewPage t).1 ((t.pages.length : Int)) split_node with ht2
  have hg3 : getPage t2 node = some pg := by
    rw [ht2, getPage_setNode _ _ _ _ _ hg2, if_neg hne, hg1]
  have hg4 : getPage t2 ((t.pages.length : Int))
      = some { pin_count := 1, latch := 0, data := split_node } := by
    rw [ht2, getPage_setNode _ _ _ _ _ hg2, if_pos rfl]
  by_cases hleaf : pg.data.IsLeafPage = true
  · simp only [hleaf, if_true, pure, Except.pure]
    refine ⟨_, rfl, ?_, ?_, harith⟩
    · rw [sizeAt_setNode_self _ node pg _ (by
        rw [getPage_setNode _ _ _ _ _ hg4, if_neg hne, hg3])]
      simp only [Node.LeafMoveHalfTo]
      congr 1
      simp only [Int.ofNat_eq_coe]
      omega
    · rw [sizeAt_setNode_ne _ _ _ _ hne', sizeAt_setNode_self _ _ _ _ hg4]
      simp only [Node.LeafMoveHalfTo, hinit0]
      congr 1
      simp only [Int.ofNat_eq_coe]
      omega
  · have hleaf' : pg.data.IsLeafPage = false := by simpa using hleaf
    simp only [hleaf', Bool.false_eq_true, if_false]
    have hrec : (sizeAt t2 ((t.pages.length : Int))).isSome := by
      simp [sizeAt, hg4]
    have hall : ∀ item ∈ slotsFrom pg.data.array (pg.data.size - pg.data.size / 2)
        (pg.data.size / 2), (sizeAt t2 item.2).isSome := by
      intro item hitem
      have h0 := hchildren hleaf' item hitem
      obtain ⟨s, hs⟩ := Option.isSome_iff_exists.1 h0
      obtain ⟨pc, hpc, _⟩ := sizeAt_some_getPage t item.2 s hs
      have hnc := getPage_lt_length t item.2 pc hpc
      unfold sizeAt
      rw [ht2, getPage_setNode _ _ _ _ _ hg2, if_neg hnc, getPage_NewPage, if_neg hnc, hpc]
      rfl
    obtain ⟨t', h1, hs1⟩ := MoveHalfTo_sizes t2 node _ pg hg3 hrec hne hall
    simp only [h1, pure, Except.pure]
    refine ⟨t', rfl, ?_, ?_, harith⟩
    · rw [hs1, if_pos rfl]
    · rw [hs1, if_neg hne', if_pos rfl]

/-! ## Payloads: what the pin, latch and bookkeeping steps keep -/

theorem bind_ok {α β : Type} (x : Except Err α) (f : α → Except Err β) (b : β)
    (h : x.bind f = Except.ok b) : ∃ a, x = Except.ok a ∧ f a = Except.ok b := by
  cases x with
  | error e => simp [Except.bind] at h
  | ok a => exact ⟨a, rfl, h⟩

theorem dataAt_eq_some (t : BPlusTree) (id : Int) (n : Node) (h : dataAt t id = some n) :
    ∃ pg, getPage t id = some pg ∧ pg.data = n := by
  unfold dataAt at h
  cases hg : getPage t id with
  | none => simp [hg] at h
  | some pg => exact ⟨pg, rfl, by simpa [hg] using h⟩

theorem dataAt_of_getPage (t : BPlusTree) (id : Int) (pg : Page) (h : getPage t id = some pg) :
    dataAt t id = some pg.data := by
  simp [dataAt, h]

theorem getNode_ok_iff (t : BPlusTree) (id : Int) (n : Node) :
    getNode t id = Except.ok n ↔ dataAt t id = some n := by
  unfold getNode dataAt
  cases hg : getPage t id with
  | none =>
    simp only [Option.map_none']
    constructor
    · intro h; cases h
    · intro h; cases h
  | some pg =>
    simp only [Option.map_some', Option.some.injEq, pure, Except.pure]
    constructor
    · intro h; cases h; rfl
    · intro h; rw [h]

theorem dataAt_range (t : BPlusTree) (id : Int) (n : Node) (h : dataAt t id = some n) :
    0 ≤ id ∧ id < t.pages.length := by
  obtain ⟨pg, hg, _⟩ := dataAt_eq_some t id n h
  obtain ⟨h1, h2, _⟩ := getPage_eq_some t id pg hg
  omega

theorem dataAt_setPage (t : BPlusTree) (id id' : Int) (pg p : Page)
    (h : getPage t id = some pg) :
    dataAt (setPage t id p) id' = if id' = id then some p.data else dataAt t id' := by
  unfold dataAt
  rw [getPage_setPage t id id' pg p h]
  by_cases he : id' = id <;> simp [he]

theorem dataAt_setPage_same (t : BPlusTree) (id id' : Int) (pg p : Page)
    (h : getPage t id = some pg) (hd : p.data = pg.data) :
    dataAt (setPage t id p) id' = dataAt t id' := by
  rw [dataAt_setPage t id id' pg p h]
  by_cases he : id' = id
  · subst he; simp [dataAt, h, hd]
  · simp [he]

theorem dataAt_setNode (t : BPlusTree) (id id' : Int) (n : Node) :
    dataAt (setNode t id n) id' =
      if id' = id then (dataAt t id).map (fun _ => n) else dataAt t id' := by
  unfold setNode
  cases hg : getPage t id with
  | none =>
    by_cases he : id' = id
    · subst he; simp [dataAt, hg]
    · simp [he]
  | some pg =>
    simp only
    rw [dataAt_setPage t id id' pg _ hg]
    by_cases he : id' = id
    · simp [he, dataAt, hg]
    · simp [he]

theorem setNode_length (t : BPlusTree) (id : Int) (n : Node) :
    (setNode t id n).pages.length = t.pages.length := by
  unfold setNode
  cases getPage t id <;> simp [setPage]

theorem setNode_leaf_max (t : BPlusTree) (id : Int) (n : Node) :
    (setNode t id n).leaf_max_size = t.leaf_max_size := by
  unfold setNode
  cases getPage t id <;> simp [setPage]

theorem setNode_internal_max (t : BPlusTree) (id : Int) (n : Node) :
    (setNode t id n).internal_max_size = t.internal_max_size := by
  unfold setNode
  cases getPage t id <;> simp [setPage]

theorem Keeps_refl (t : BPlusTree) : Keeps t t := ⟨rfl, rfl, rfl, fun _ _ h => h⟩

theorem Keeps_trans (t1 t2 t3 : BPlusTree) (h12 : Keeps t1 t2) (h23 : Keeps t2 t3) :
    Keeps t1 t3 :=
  ⟨h23.1.trans h12.1, h23.2.1.trans h12.2.1, h23.2.2.1.trans h12.2.2.1,
    fun id n h => h12.2.2.2 id n (h23.2.2.2 id n h)⟩

/-- A state with the same frames and configuration keeps the payloads. -/
theorem Keeps_of_pages (t t' : BPlusTree) (hp : t'.pages = t.pages)
    (hl : t'.leaf_max_size = t.leaf_max_size) (hm : t'.internal_max_size = t.internal_max_size) :
    Keeps t t' := by
  refine ⟨hl, hm, by rw [hp], fun id n h => ?_⟩
  unfold dataAt getPage at *
  rw [hp] at h
  exact h

theorem Keeps_setPage (t : BPlusTree) (id : Int) (pg p : Page) (h : getPage t id = some pg)
    (hd : p.data = pg.data) : Keeps t (setPage t id p) :=
  ⟨rfl, rfl, setPage_pages_length t id p, fun id' n hn => by
    rwa [dataAt_setPage_same t id id' pg p h hd] at hn⟩

theorem Keeps_FetchPage (t t' : BPlusTree) (id : Int) (h : FetchPage t id = some t') :
    Keeps t t' := by
  obtain ⟨pg, hg, rfl⟩ := FetchPage_eq_some t t' id h
  exact Keeps_setPage t id pg _ hg rfl

theorem Keeps_UnpinPage (t : BPlusTree) (id : Int) (d : Bool) : Keeps t (UnpinPage t id d) := by
  unfold UnpinPage
  cases hg : getPage t id with
  | none => exact Keeps_refl t
  | some pg =>
    simp only
    split_ifs
    · exact Keeps_setPage t id pg _ hg rfl
    · exact Keeps_refl t

theorem Keeps_LatchPage (t t' : BPlusTree) (id : Int) (op : OP_TYPE)
    (h : LatchPage t id op = Except.ok t') : Keeps t t' := by
  unfold LatchPage at h
  cases hg : getPage t id with
  | none => simp [hg] at h
  | some pg =>
    simp only [hg] at h
    split_ifs at h <;> (cases h; exact Keeps_setPage t id pg _ hg rfl)

theorem Keeps_UnlatchPage (t t' : BPlusTree) (id : Int) (op : OP_TYPE)
    (h : UnlatchPage t id op = Except.ok t') : Keeps t t' := by
  unfold UnlatchPage at h
  cases hg : getPage t id with
  | none => simp [hg] at h
  | some pg =>
    simp only [hg] at h
    split_ifs at h <;> (cases h; exact Keeps_setPage t id pg _ hg rfl)

theorem Keeps_DeletePage (t : BPlusTree) (id : Int) : Keeps t (DeletePage t id) := by
  unfold DeletePage
  cases hg : getPage t id with
  | none => exact Keeps_refl t
  | some pg =>
    simp only
    split_ifs
    · exact Keeps_refl t
    · refine ⟨rfl, rfl, by simp, fun id' n hn => ?_⟩
      obtain ⟨h1, h2, _⟩ := getPage_eq_some t id pg hg
      unfold dataAt getPage at hn ⊢
      by_cases hneg : id' < 0
      · simp [hneg] at hn
      · simp only [hneg, if_false, List.getD_eq_getElem?_getD, List.getElem?_set] at hn ⊢
        by_cases he : id.toNat = id'.toNat
        · simp [he] at hn
          split_ifs at hn <;> simp at hn
        · simpa [he] using hn

theorem Keeps_releasePage (t t' : BPlusTree) (id : Int) (h : releasePage t id = Except.ok t') :
    Keeps t t' := by
  unfold releasePage at h
  obtain ⟨t1, h1, h2⟩ := bind_ok _ _ _ h
  cases h2
  exact Keeps_trans _ _ _ (Keeps_UnlatchPage t t1 id _ h1) (Keeps_UnpinPage t1 id true)

theorem Keeps_foldlM (step : BPlusTree → Int → Except Err BPlusTree)
    (hstep : ∀ t t' id, step t id = Except.ok t' → Keeps t t') :
    ∀ (l : List Int) (t t' : BPlusTree), l.foldlM step t = Except.ok t' → Keeps t t' := by
  intro l
  induction l with
  | nil => intro t t' h; cases h; exact Keeps_refl t
  | cons a l ih =>
    intro t t' h
    simp only [List.foldlM] at h
    obtain ⟨t1, h1, h2⟩ := bind_ok _ _ _ h
    exact Keeps_trans _ _ _ (hstep t t1 a h1) (ih t1 t' h2)

theorem Keeps_ReleaseAllPages (t t' : BPlusTree) (h : ReleaseAllPages t = Except.ok t') :
    Keeps t t' := by
  unfold ReleaseAllPages at h
  obtain ⟨t1, h1, h2⟩ := bind_ok _ _ _ h
  cases h2
  exact Keeps_trans _ _ _ (Keeps_foldlM releasePage Keeps_releasePage _ t t1 h1)
    (Keeps_of_pages _ _ rfl rfl rfl)

theorem Keeps_freePage (t t' : BPlusTree) (id : Int) (h : freePage t id = Except.ok t') :
    Keeps t t' := by
  unfold freePage at h
  obtain ⟨t1, h1, h2⟩ := bind_ok _ _ _ h
  have k1 : Keeps t (UnpinPage t1 id true) :=
    Keeps_trans _ _ _ (Keeps_UnlatchPage t t1 id _ h1) (Keeps_UnpinPage t1 id true)
  simp only at h2
  split_ifs at h2
  · cases hg : getPage (UnpinPage t1 id true) id with
    | none => simp [hg] at h2
    | some p =>
      simp only [hg] at h2
      split_ifs at h2
      cases h2
      exact Keeps_trans _ _ _ k1 (Keeps_trans _ _ _ (Keeps_DeletePage _ id)
        (Keeps_of_pages _ _ rfl rfl rfl))
  · cases h2
    exact k1

theorem Keeps_FreeAllPages (t t' : BPlusTree) (h : FreeAllPages t = Except.ok t') :
    Keeps t t' := by
  unfold FreeAllPages at h
  obtain ⟨t1, h1, h2⟩ := bind_ok _ _ _ h
  simp only at h2
  split_ifs at h2
  cases h2
  exact Keeps_trans _ _ _ (Keeps_foldlM freePage Keeps_freePage _ t t1 h1)
    (Keeps_of_pages _ _ rfl rfl rfl)

theorem Keeps_LatchRoot (t t' : BPlusTree) (op : OP_TYPE) (h : LatchRoot t op = Except.ok t') :
    Keeps t t' := by
  unfold LatchRoot at h
  split_ifs at h <;> (cases h; exact Keeps_of_pages _ _ rfl rfl rfl)

theorem Keeps_TryUnlatchRoot (t : BPlusTree) (op : OP_TYPE) : Keeps t (TryUnlatchRoot t op) := by
  unfold TryUnlatchRoot
  split_ifs <;> exact Keeps_of_pages _ _ rfl rfl rfl

theorem Keeps_AddIntoPageSet (t : BPlusTree) (id : Int) : Keeps t (AddIntoPageSet t id) :=
  Keeps_of_pages _ _ rfl rfl rfl

theorem Keeps_AddIntoDeletedPageSet (t : BPlusTree) (id : Int) :
    Keeps t (AddIntoDeletedPageSet t id) := by
  unfold AddIntoDeletedPageSet
  split_ifs
  · exact Keeps_refl t
  · exact Keeps_of_pages _ _ rfl rfl rfl

theorem Keeps_UpdateRootPageId (t : BPlusTree) (b : Bool) : Keeps t (UpdateRootPageId t b) :=
  Keeps_of_pages _ _ rfl rfl rfl

theorem Keeps_fetchSibling (t t' : BPlusTree) (id : Int) (h : fetchSibling t id = Except.ok t') :
    Keeps t t' := by
  unfold fetchSibling at h
  cases hf : FetchPage t id with
  | none => simp [hf] at h
  | some t1 =>
    simp only [hf] at h
    obtain ⟨t2, h2, h3⟩ := bind_ok _ _ _ h
    cases h3
    exact Keeps_trans _ _ _ (Keeps_FetchPage t t1 id hf)
      (Keeps_trans _ _ _ (Keeps_LatchPage t1 t2 id _ h2) (Keeps_AddIntoPageSet t2 id))

/-- The descent of `FindLeafPageCrabbing` changes no payload and ends on a leaf page. -/
theorem Keeps_crabbing_loop (key : Int) (op : OP_TYPE) :
    ∀ (fuel : Nat) (t t' : BPlusTree) (page leaf : Int),
      FindLeafPageCrabbingLoop key op fuel t page = Except.ok (t', leaf) →
      Keeps t t' ∧ ∃ n, dataAt t' leaf = some n ∧ n.IsLeafPage = true := by
  intro fuel
  induction fuel with
  | zero => intro t t' page leaf h; simp [FindLeafPageCrabbingLoop] at h
  | succ fuel ih =>
    intro t t' page leaf h
    unfold FindLeafPageCrabbingLoop at h
    obtain ⟨node, hnode, h⟩ := bind_ok _ _ _ h
    by_cases hleaf : node.IsLeafPage = true
    · simp only [hleaf, if_true] at h
      cases h
      exact ⟨Keeps_refl t, node, (getNode_ok_iff t page node).1 hnode, hleaf⟩
    · simp only [hleaf, Bool.false_eq_true, if_false] at h
      cases hl : node.Lookup key with
      | none => simp [hl] at h
      | some child =>
        simp only [hl] at h
        cases hf : FetchPage t child with
        | none => simp [hf] at h
        | some t1 =>
          simp only [hf] at h
          obtain ⟨t2, h2, h⟩ := bind_ok _ _ _ h
          obtain ⟨cn, hcn, h⟩ := bind_ok _ _ _ h
          have k2 : Keeps t t2 :=
            Keeps_trans _ _ _ (Keeps_FetchPage t t1 child hf) (Keeps_LatchPage t1 t2 child _ h2)
          by_cases hop : op = OP_TYPE.READ
          · rw [if_pos hop] at h
            obtain ⟨t3, h3, h⟩ := bind_ok _ _ _ h
            obtain ⟨k4, hl4⟩ := ih _ _ _ _ h
            refine ⟨Keeps_trans _ _ _ k2 (Keeps_trans _ _ _ (Keeps_TryUnlatchRoot t2 _)
              (Keeps_trans _ _ _ (Keeps_UnlatchPage _ t3 page _ h3)
                (Keeps_trans _ _ _ (Keeps_UnpinPage t3 page false) k4))), hl4⟩
          · rw [if_neg hop] at h
            split_ifs at h
            · obtain ⟨t3, h3, h⟩ := bind_ok _ _ _ h
              obtain ⟨k4, hl4⟩ := ih _ _ _ _ h
              exact ⟨Keeps_trans _ _ _ k2 (Keeps_trans _ _ _ (Keeps_TryUnlatchRoot t2 _)
                (Keeps_trans _ _ _ (Keeps_ReleaseAllPages _ t3 h3)
                  (Keeps_trans _ _ _ (Keeps_AddIntoPageSet t3 child) k4))), hl4⟩
            · obtain ⟨k4, hl4⟩ := ih _ _ _ _ h
              exact ⟨Keeps_trans _ _ _ k2
                (Keeps_trans _ _ _ (Keeps_AddIntoPageSet t2 child) k4), hl4⟩

theorem Keeps_crabbing (t t' : BPlusTree) (key : Int) (op : OP_TYPE) (leaf : Int)
    (h : FindLeafPageCrabbing t key op = Except.ok (t', leaf)) :
    Keeps t t' ∧ ∃ n, dataAt t' leaf = some n ∧ n.IsLeafPage = true := by
  unfold FindLeafPageCrabbing at h
  obtain ⟨t1, h1, h⟩ := bind_ok _ _ _ h
  cases hf : FetchPage t1 t1.root_page_id with
  | none => simp [hf] at h
  | some t2 =>
    simp only [hf] at h
    obtain ⟨t3, h3, h⟩ := bind_ok _ _ _ h
    have k3 : Keeps t t3 := Keeps_trans _ _ _ (Keeps_LatchRoot t t1 op h1)
      (Keeps_trans _ _ _ (Keeps_FetchPage t1 t2 _ hf) (Keeps_LatchPage t2 t3 _ _ h3))
    obtain ⟨k4, hl4⟩ := Keeps_crabbing_loop key op _ _ _ _ _ h
    refine ⟨Keeps_trans _ _ _ k3 (Keeps_trans _ _ _ ?_ k4), hl4⟩
    split_ifs
    · exact Keeps_AddIntoPageSet t3 _
    · exact Keeps_refl t3

theorem Str_of_Keeps (h : Int → Nat) (t t' : BPlusTree) (hs : Str h t) (hk : Keeps t t') :
    Str h t' := by
  obtain ⟨kl, km, klen, kd⟩ := hk
  refine ⟨⟨by rw [klen]; exact hs.1.1, ?_⟩, fun id n hn => ?_⟩
  · cases h0 : dataAt t' 0 with
    | none => rfl
    | some n =>
      have := hs.1.2
      rw [kd 0 n h0] at this
      cases this
  · rw [kl, km, klen]
    exact hs.2 id n (kd id n hn)

theorem BndX_of_Keeps (x : Int) (t t' : BPlusTree) (hb : BndX x t) (hk : Keeps t t') :
    BndX x t' :=
  fun id n hn => hb id n (hk.2.2.2 id n hn)

theorem Inv_of_Keeps (h : Int → Nat) (x : Int) (t t' : BPlusTree) (hi : Inv h x t)
    (hk : Keeps t t') : Inv h x t' :=
  ⟨Str_of_Keeps h t t' hi.1 hk, fun hL hM =>
    BndX_of_Keeps x t t' (hi.2 (hk.1 ▸ hL) (hk.2.1 ▸ hM)) hk⟩

theorem GoodNode_mono (h h' : Int → Nat) (len len' : Nat) (L M : Int) (id : Int) (n : Node)
    (hg : GoodNode h len L M id n) (hid : id < len) (hlen : len ≤ len')
    (hh : ∀ i : Int, i < len → h' i = h i) : GoodNode h' len' L M id n := by
  have hid' : h' id = h id := hh id hid
  refine ⟨hg.page_id, by rw [hid']; exact hg.leaf_iff, hg.leaf_max, hg.internal_max, ?_, ?_⟩
  · intro hl s hs
    rcases hg.slots hl s hs with h0 | ⟨h1, h2, h3⟩
    · exact Or.inl h0
    · exact Or.inr ⟨h1, by omega, by rw [hid', hh s.2 h2]; exact h3⟩
  · rcases hg.parent with h0 | ⟨h1, h2, h3⟩
    · exact Or.inl h0
    · exact Or.inr ⟨h1, by omega, by rw [hid', hh _ h2]; exact h3⟩

theorem Str_setNode (h : Int → Nat) (t : BPlusTree) (id : Int) (n : Node) (hs : Str h t)
    (hn : ∀ n0, dataAt t id = some n0 →
      GoodNode h t.pages.length t.leaf_max_size t.internal_max_size id n) :
    Str h (setNode t id n) := by
  refine ⟨⟨by rw [setNode_length]; exact hs.1.1, ?_⟩, fun id' n' hn' => ?_⟩
  · rw [dataAt_setNode]
    by_cases he : (0 : Int) = id
    · subst he; simp [hs.1.2]
    · simp [he, hs.1.2]
  · rw [setNode_length, setNode_leaf_max, setNode_internal_max]
    rw [dataAt_setNode] at hn'
    by_cases he : id' = id
    · subst he
      simp only [if_true] at hn'
      cases h0 : dataAt t id' with
      | none => simp [h0] at hn'
      | some n0 =>
        simp only [h0, Option.map_some', Option.some.injEq] at hn'
        subst hn'
        exact hn n0 h0
    · simp only [he, if_false] at hn'
      exact hs.2 id' n' hn'

theorem BndX_setNode (x : Int) (t : BPlusTree) (id : Int) (n : Node) (hb : BndX x t)
    (hn : ∀ n0, dataAt t id = some n0 → n.size < n.max_size ∨ (id = x ∧ n.size ≤ n.max_size)) :
    BndX x (setNode t id n) := by
  intro id' n' hn'
  rw [dataAt_setNode] at hn'
  by_cases he : id' = id
  · subst he
    simp only [if_true] at hn'
    cases h0 : dataAt t id' with
    | none => simp [h0] at hn'
    | some n0 =>
      simp only [h0, Option.map_some', Option.some.injEq] at hn'
      subst hn'
      exact hn n0 h0
  · simp only [he, if_false] at hn'
    exact hb id' n' hn'

theorem BndX_weaken (x : Int) (t : BPlusTree) (hb : BndX (-1) t) : BndX x t := by
  intro id n hn
  rcases hb id n hn with h | ⟨h1, _⟩
  · exact Or.inl h
  · have := (dataAt_range t id n hn).1
    omega

theorem BndX_strengthen (x : Int) (t : BPlusTree) (hb : BndX x t)
    (hx : ∀ n, dataAt t x = some n → n.size < n.max_size) : BndX (-1) t := by
  intro id n hn
  rcases hb id n hn with h | ⟨h1, _⟩
  · exact Or.inl h
  · subst h1; exact Or.inl (hx n hn)

theorem dataAt_NewPage (t : BPlusTree) (id : Int) :
    dataAt (NewPage t).1 id =
      if id = (t.pages.length : Int) then some zeroNode else dataAt t id := by
  unfold dataAt
  rw [getPage_NewPage]
  by_cases he : id = (t.pages.length : Int) <;> simp [he]

/-- Allocation: a state that adds one well-shaped page under the next page id to the pages of
`t`, at the height `v`. -/
theorem Str_alloc (h : Int → Nat) (t t' : BPlusTree) (v : Nat) (n : Node) (hs : Str h t)
    (hlen : t'.pages.length = t.pages.length + 1)
    (hL : t'.leaf_max_size = t.leaf_max_size)
    (hM : t'.internal_max_size = t.internal_max_size)
    (hd : ∀ id, dataAt t' id = if id = (t.pages.length : Int) then some n else dataAt t id)
    (hn : GoodNode (Function.update h (t.pages.length : Int) v) (t.pages.length + 1)
      t.leaf_max_size t.internal_max_size (t.pages.length : Int) n) :
    Str (Function.update h (t.pages.length : Int) v) t' := by
  refine ⟨⟨by omega, ?_⟩, fun id n' hn' => ?_⟩
  · rw [hd]
    have hpos := hs.1.1
    have he : ¬ (0 : Int) = (t.pages.length : Int) := by omega
    simp [he, hs.1.2]
  · rw [hlen, hL, hM]
    rw [hd] at hn'
    by_cases he : id = (t.pages.length : Int)
    · subst he
      simp only [if_true, Option.some.injEq] at hn'
      subst hn'
      exact hn
    · simp only [he, if_false] at hn'
      have hr := dataAt_range t id n' hn'
      refine GoodNode_mono h _ _ _ _ _ id n' (hs.2 id n' hn') hr.2 (by omega) ?_
      intro i hi
      rw [Function.update_noteq (by omega)]

/-! ## Slots, shapes and sizes under node updates -/

theorem slotAt_mem (a : List MappingType) (i : Int) : slotAt a i ∈ a ∨ slotAt a i = (0, 0) := by
  unfold slotAt
  rw [List.getD_eq_getElem?_getD]
  cases hg : a[i.toNat]? with
  | none => right; rfl
  | some s => left; exact List.getElem?_mem hg

theorem mem_slotSet (a : List MappingType) (i : Int) (x s : MappingType)
    (hs : s ∈ slotSet a i x) : s ∈ a ∨ s = x ∨ s = (0, 0) := by
  unfold slotSet at hs
  split_ifs at hs
  · rcases List.mem_or_eq_of_mem_set hs with h | h
    · exact Or.inl h
    · exact Or.inr (Or.inl h)
  · simp only [List.mem_append, List.mem_replicate, List.mem_singleton] at hs
    rcases hs with (h | h) | h
    · exact Or.inl h
    · exact Or.inr (Or.inr h.2)
    · exact Or.inr (Or.inl h)

/-- A property of slots that holds of the zero slot is kept by slot writes of slots having it. -/
theorem all_slotSet (P : MappingType → Prop) (h0 : P (0, 0)) (a : List MappingType) (i : Int)
    (x : MappingType) (ha : ∀ s ∈ a, P s) (hx : P x) : ∀ s ∈ slotSet a i x, P s := by
  intro s hs
  rcases mem_slotSet a i x s hs with h | h | h
  · exact ha s h
  · rw [h]; exact hx
  · rw [h]; exact h0

theorem all_slotAt (P : MappingType → Prop) (h0 : P (0, 0)) (a : List MappingType) (i : Int)
    (ha : ∀ s ∈ a, P s) : P (slotAt a i) := by
  rcases slotAt_mem a i with h | h
  · exact ha _ h
  · rw [h]; exact h0

theorem all_shiftUp (P : MappingType → Prop) (h0 : P (0, 0)) :
    ∀ (c : Nat) (i : Int) (a : List MappingType), (∀ s ∈ a, P s) →
      ∀ s ∈ Node.shiftUp c i a, P s := by
  intro c
  induction c with
  | zero => intro i a ha; exact ha
  | succ c ih =>
    intro i a ha
    unfold Node.shiftUp
    exact ih _ _ (all_slotSet P h0 a i _ ha (all_slotAt P h0 a _ ha))

theorem all_shiftDown (P : MappingType → Prop) (h0 : P (0, 0)) :
    ∀ (c : Nat) (i : Int) (a : List MappingType), (∀ s ∈ a, P s) →
      ∀ s ∈ Node.shiftDown c i a, P s := by
  intro c
  induction c with
  | zero => intro i a ha; exact ha
  | succ c ih =>
    intro i a ha
    unfold Node.shiftDown
    exact ih _ _ (all_slotSet P h0 a i _ ha (all_slotAt P h0 a _ ha))

theorem all_slotsFrom (P : MappingType → Prop) (h0 : P (0, 0)) (a : List MappingType)
    (st c : Int) (ha : ∀ s ∈ a, P s) : ∀ s ∈ slotsFrom a st c, P s := by
  intro s hs
  unfold slotsFrom at hs
  simp only [List.mem_map, List.mem_range] at hs
  obtain ⟨j, _, rfl⟩ := hs
  exact all_slotAt P h0 a _ ha

theorem slotOK_zero (h : Int → Nat) (len k : Nat) : slotOK h len k (0, 0) := Or.inl rfl

/-- The value of a slot is a property of the slot that the key does not touch. -/
theorem slotOK_key (h : Int → Nat) (len k : Nat) (s : MappingType) (key : Int)
    (hs : slotOK h len k s) : slotOK h len k (key, s.2) := hs

/-- A node that differs from a well-shaped one in slots, size or next pointer only. -/
theorem GoodNode_of_eq (h : Int → Nat) (len : Nat) (L M : Int) (id : Int) (n n' : Node)
    (hg : GoodNode h len L M id n) (h1 : n'.page_id = n.page_id)
    (h2 : n'.page_type = n.page_type) (h3 : n'.max_size = n.max_size)
    (h4 : n'.parent_page_id = n.parent_page_id)
    (h5 : n.IsLeafPage = false → ∀ s ∈ n'.array, slotOK h len (h id) s) :
    GoodNode h len L M id n' := by
  have hl : n'.IsLeafPage = n.IsLeafPage := by simp [Node.IsLeafPage, h2]
  exact ⟨h1.trans hg.page_id, by rw [hl]; exact hg.leaf_iff, by rw [hl, h3]; exact hg.leaf_max,
    by rw [hl, h3]; exact hg.internal_max, by rw [hl]; exact h5, by rw [h4]; exact hg.parent⟩

theorem GoodNode_parent (h : Int → Nat) (len : Nat) (L M : Int) (id : Int) (n : Node) (p : Int)
    (hg : GoodNode h len L M id n) (hp : parentOK h len (h id) p) :
    GoodNode h len L M id { n with parent_page_id := p } :=
  ⟨hg.page_id, hg.leaf_iff, hg.leaf_max, hg.internal_max, hg.slots, hp⟩

theorem szAt_setNode (t : BPlusTree) (id id' : Int) (n : Node) :
    szAt (setNode t id n) id' =
      if id' = id then (szAt t id).map (fun _ => (n.size, n.max_size)) else szAt t id' := by
  unfold szAt
  rw [dataAt_setNode]
  by_cases he : id' = id
  · simp only [he, if_true]
    cases dataAt t id <;> rfl
  · simp [he]

theorem szAt_of_Keeps_eq (t t' : BPlusTree) (hd : ∀ id, dataAt t' id = dataAt t id) (id : Int) :
    szAt t' id = szAt t id := by
  unfold szAt; rw [hd]

theorem dataAt_FetchPage (t t' : BPlusTree) (id : Int) (h : FetchPage t id = some t')
    (id' : Int) : dataAt t' id' = dataAt t id' := by
  obtain ⟨pg, hg, rfl⟩ := FetchPage_eq_some t t' id h
  exact dataAt_setPage_same t id id' pg _ hg rfl

theorem dataAt_UnpinPage (t : BPlusTree) (id : Int) (d : Bool) (id' : Int) :
    dataAt (UnpinPage t id d) id' = dataAt t id' := by
  unfold UnpinPage
  cases hg : getPage t id with
  | none => rfl
  | some pg =>
    simp only
    split_ifs
    · exact dataAt_setPage_same t id id' pg _ hg rfl
    · rfl

theorem FetchPage_exists (t t' : BPlusTree) (id : Int) (h : FetchPage t id = some t') :
    ∃ n, dataAt t id = some n := by
  obtain ⟨pg, hg, _⟩ := FetchPage_eq_some t t' id h
  exact ⟨pg.data, dataAt_of_getPage t id pg hg⟩

theorem FetchPage_fields (t t' : BPlusTree) (id : Int) (h : FetchPage t id = some t') :
    t'.pages.length = t.pages.length ∧ t'.leaf_max_size = t.leaf_max_size ∧
      t'.internal_max_size = t.internal_max_size := by
  have k := Keeps_FetchPage t t' id h
  exact ⟨k.2.2.1, k.1, k.2.1⟩

theorem UnpinPage_fields (t : BPlusTree) (id : Int) (d : Bool) :
    (UnpinPage t id d).pages.length = t.pages.length ∧
      (UnpinPage t id d).leaf_max_size = t.leaf_max_size ∧
      (UnpinPage t id d).internal_max_size = t.internal_max_size := by
  have k := Keeps_UnpinPage t id d
  exact ⟨k.2.2.1, k.1, k.2.1⟩

theorem BndX_of_szAt (x : Int) (t t' : BPlusTree) (hb : BndX x t)
    (hsz : ∀ id, szAt t' id = szAt t id) : BndX x t' := by
  intro id n' hn'
  have h1 : szAt t' id = some (n'.size, n'.max_size) := by simp [szAt, hn']
  rw [hsz] at h1
  unfold szAt at h1
  cases hd : dataAt t id with
  | none => simp [hd] at h1
  | some n =>
    simp only [hd, Option.map_some', Option.some.injEq, Prod.mk.injEq] at h1
    have := hb id n hd
    rw [h1.1, h1.2] at this
    exact this

theorem cfg_setNode (t : BPlusTree) (id : Int) (n : Node) : cfg (setNode t id n) = cfg t := by
  simp [cfg, setNode_length, setNode_leaf_max, setNode_internal_max]

theorem cfg_of_Keeps (t t' : BPlusTree) (k : Keeps t t') : cfg t' = cfg t := by
  simp [cfg, k.1, k.2.1, k.2.2.1]

theorem cfg_FetchPage (t t' : BPlusTree) (id : Int) (h : FetchPage t id = some t') :
    cfg t' = cfg t := cfg_of_Keeps t t' (Keeps_FetchPage t t' id h)

theorem cfg_UnpinPage (t : BPlusTree) (id : Int) (d : Bool) : cfg (UnpinPage t id d) = cfg t :=
  cfg_of_Keeps _ _ (Keeps_UnpinPage t id d)

theorem cfg_length (t t' : BPlusTree) (h : cfg t' = cfg t) : t'.pages.length = t.pages.length :=
  congrArg Prod.fst h

theorem cfg_leaf_max (t t' : BPlusTree) (h : cfg t' = cfg t) :
    t'.leaf_max_size = t.leaf_max_size := congrArg (fun c => c.2.1) h

theorem cfg_internal_max (t t' : BPlusTree) (h : cfg t' = cfg t) :
    t'.internal_max_size = t.internal_max_size := congrArg (fun c => c.2.2) h

theorem Str_dataAt_ne_zero (h : Int → Nat) (t : BPlusTree) (hs : Str h t) (id : Int) (n : Node)
    (hn : dataAt t id = some n) : 0 < id ∧ id < t.pages.length := by
  have hr := dataAt_range t id n hn
  refine ⟨?_, hr.2⟩
  by_contra hne
  have : id = 0 := by omega
  subst this
  rw [hs.1.2] at hn
  cases hn

/-- A slot of the right shape that names an existing page names a page one level down. -/
theorem slotOK_exists (h : Int → Nat) (t : BPlusTree) (hs : Str h t) (k : Nat)
    (s : MappingType) (hok : slotOK h t.pages.length k s) (n : Node)
    (hn : dataAt t s.2 = some n) : 0 < s.2 ∧ s.2 < t.pages.length ∧ h s.2 + 1 = k := by
  rcases hok with h0 | h1
  · rw [h0, hs.1.2] at hn; cases hn
  · exact h1

theorem szAt_setNode_same (t : BPlusTree) (id : Int) (n n0 : Node)
    (hd : dataAt t id = some n0) (h1 : n.size = n0.size) (h2 : n.max_size = n0.max_size)
    (id' : Int) : szAt (setNode t id n) id' = szAt t id' := by
  rw [szAt_setNode]
  by_cases he : id' = id
  · subst he
    simp [szAt, hd, h1, h2]
  · simp [he]

theorem szAt_FetchPage (t t' : BPlusTree) (id : Int) (h : FetchPage t id = some t') (id' : Int) :
    szAt t' id' = szAt t id' := by
  unfold szAt; rw [dataAt_FetchPage t t' id h]

theorem szAt_UnpinPage (t : BPlusTree) (id : Int) (d : Bool) (id' : Int) :
    szAt (UnpinPage t id d) id' = szAt t id' := by
  unfold szAt; rw [dataAt_UnpinPage]

/-- The loop of `CopyNFrom` keeps the shape of the pool and every stored size, when the slots
it writes name pages one level below the recipient. -/
theorem CopyNFromLoop_inv (h : Int → Nat) (self : Int) :
    ∀ (items : List MappingType) (i : Int) (t t' : BPlusTree), Str h t →
      (∀ item ∈ items, slotOK h t.pages.length (h self) item) →
      CopyNFromLoop self items i t = Except.ok t' →
      Str h t' ∧ (∀ id, szAt t' id = szAt t id) ∧ cfg t' = cfg t := by
  intro items
  induction items with
  | nil =>
    intro i t t' hs _ hok
    simp only [CopyNFromLoop, pure, Except.pure] at hok
    cases hok
    exact ⟨hs, fun _ => rfl, rfl⟩
  | cons item items ih =>
    intro i t t' hs hitems hok
    unfold CopyNFromLoop at hok
    cases hf : FetchPage t item.2 with
    | none => simp [hf] at hok
    | some t1 =>
      simp only [hf] at hok
      obtain ⟨me, hme, hok⟩ := bind_ok _ _ _ hok
      obtain ⟨child, hchild, hok⟩ := bind_ok _ _ _ hok
      obtain ⟨me3, hme3, hok⟩ := bind_ok _ _ _ hok
      have hs1 : Str h t1 := Str_of_Keeps h t t1 hs (Keeps_FetchPage t t1 _ hf)
      have hc1 : cfg t1 = cfg t := cfg_FetchPage t t1 _ hf
      have hlen1 := cfg_length _ _ hc1
      have hme' := (getNode_ok_iff _ _ _).1 hme
      have hchild' := (getNode_ok_iff _ _ _).1 hchild
      have hitem := hitems item (List.mem_cons_self _ _)
      rw [← hlen1] at hitem
      obtain ⟨hi1, hi2, hi3⟩ := slotOK_exists h t1 hs1 _ item hitem child hchild'
      have hgme := hs1.2 self me hme'
      have hself := Str_dataAt_ne_zero h t1 hs1 self me hme'
      -- the child adopts the recipient
      have hs2 : Str h (setNode t1 item.2 { child with parent_page_id := me.page_id }) := by
        apply Str_setNode h t1 _ _ hs1
        intro n0 hn0
        rw [hchild'] at hn0
        cases hn0
        apply GoodNode_parent _ _ _ _ _ _ _ (hs1.2 _ _ hchild')
        rw [hgme.page_id]
        exact Or.inr ⟨hself.1, hself.2, by omega⟩
      set t2 := setNode t1 item.2 { child with parent_page_id := me.page_id } with ht2
      have hs3 : Str h (UnpinPage t2 item.2 true) :=
        Str_of_Keeps h _ _ hs2 (Keeps_UnpinPage t2 _ _)
      set t3 := UnpinPage t2 item.2 true with ht3
      have hc3 : cfg t3 = cfg t := by
        rw [ht3, cfg_UnpinPage, ht2, cfg_setNode, hc1]
      have hme3' := (getNode_ok_iff _ _ _).1 hme3
      have hs4 : Str h (setNode t3 self { me3 with array := slotSet me3.array i item }) := by
        apply Str_setNode h t3 _ _ hs3
        intro n0 hn0
        rw [hme3'] at hn0
        cases hn0
        have hg3 := hs3.2 self me3 hme3'
        refine GoodNode_of_eq _ _ _ _ _ me3 _ hg3 ?_ ?_ ?_ ?_ ?_
        · rfl
        · rfl
        · rfl
        · rfl
        · intro hl
          apply all_slotSet _ (slotOK_zero _ _ _) _ _ _ (hg3.slots hl)
          rw [cfg_length _ _ hc3, ← hlen1]
          exact hitem
      set t4 := setNode t3 self { me3 with array := slotSet me3.array i item } with ht4
      have hc4 : cfg t4 = cfg t := by rw [ht4, cfg_setNode, hc3]
      have hsz4 : ∀ id, szAt t4 id = szAt t id := by
        intro id
        exact (szAt_setNode_same t3 self _ me3 hme3' (by rfl) (by rfl) id).trans
          ((szAt_UnpinPage t2 _ _ id).trans
            ((szAt_setNode_same t1 item.2 _ child hchild' (by rfl) (by rfl) id).trans
              (szAt_FetchPage t t1 _ hf id)))
      obtain ⟨r1, r2, r3⟩ := ih (i + 1) t4 t' hs4
        (fun it hit => by
          rw [cfg_length _ _ hc4]
          exact hitems it (List.mem_cons_of_mem _ hit)) hok
      exact ⟨r1, fun id => (r2 id).trans (hsz4 id), r3.trans hc4⟩

/-- `CopyNFrom` keeps the shape of the pool; the recipient's size becomes the count copied and
no other stored size changes. -/
theorem CopyNFrom_inv (h : Int → Nat) (self : Int) (items : List MappingType) (size : Int)
    (t t' : BPlusTree) (hs : Str h t)
    (hitems : ∀ item ∈ items, slotOK h t.pages.length (h self) item)
    (hok : CopyNFrom t self items size = Except.ok t') :
    Str h t' ∧
      (∀ id, szAt t' id =
        if id = self then (szAt t self).map (fun p => (size, p.2)) else szAt t id) ∧
      cfg t' = cfg t := by
  unfold CopyNFrom at hok
  obtain ⟨t1, h1, hok⟩ := bind_ok _ _ _ hok
  obtain ⟨me, hme, hok⟩ := bind_ok _ _ _ hok
  cases hok
  obtain ⟨hs1, hsz1, hc1⟩ := CopyNFromLoop_inv h self items 0 t t1 hs hitems h1
  have hme' := (getNode_ok_iff _ _ _).1 hme
  refine ⟨?_, ?_, ?_⟩
  · apply Str_setNode h t1 _ _ hs1
    intro n0 hn0
    rw [hme'] at hn0
    cases hn0
    have hg := hs1.2 self me hme'
    refine GoodNode_of_eq _ _ _ _ _ me _ hg ?_ ?_ ?_ ?_ ?_
    · rfl
    · rfl
    · rfl
    · rfl
    · exact hg.slots
  · intro id
    rw [szAt_setNode]
    by_cases he : id = self
    · subst he
      simp only [if_true]
      rw [← hsz1 id]
      simp [szAt, hme']
    · simp only [he, if_false, hsz1]
  · rw [cfg_setNode, hc1]

/-- The internal `MoveHalfTo` keeps the shape of the pool when donor and recipient are on the
same level; the donor keeps `n - ⌊n/2⌋` entries and the recipient's size becomes `⌊n/2⌋`. -/
theorem MoveHalfTo_inv (h : Int → Nat) (self recipient : Int) (t t' : BPlusTree) (me : Node)
    (hs : Str h t) (hme : dataAt t self = some me) (hleaf : me.IsLeafPage = false)
    (hh : h recipient = h self) (hne : self ≠ recipient)
    (hok : MoveHalfTo t self recipient = Except.ok t') :
    Str h t' ∧
      (∀ id, szAt t' id =
        if id = self then some (me.size - me.size / 2, me.max_size)
        else if id = recipient then (szAt t recipient).map (fun p => (me.size / 2, p.2))
        else szAt t id) ∧
      cfg t' = cfg t := by
  unfold MoveHalfTo at hok
  obtain ⟨me0, hme0, hok⟩ := bind_ok _ _ _ hok
  rw [(getNode_ok_iff _ _ _).2 hme] at hme0
  cases hme0
  obtain ⟨t1, h1, hok⟩ := bind_ok _ _ _ hok
  obtain ⟨me1, hme1, hok⟩ := bind_ok _ _ _ hok
  cases hok
  have hg := hs.2 self me hme
  obtain ⟨hs1, hsz1, hc1⟩ := CopyNFrom_inv h recipient _ _ t t1 hs
    (by
      rw [hh]
      exact all_slotsFrom _ (slotOK_zero _ _ _) _ _ _ (hg.slots hleaf)) h1
  have hme1' := (getNode_ok_iff _ _ _).1 hme1
  have hsz_self : szAt t1 self = szAt t self := by
    rw [hsz1, if_neg hne]
  have hsize1 : me1.size = me.size ∧ me1.max_size = me.max_size := by
    have e1 : szAt t1 self = some (me1.size, me1.max_size) := by simp [szAt, hme1']
    have e2 : szAt t self = some (me.size, me.max_size) := by simp [szAt, hme]
    rw [hsz_self, e2] at e1
    simp only [Option.some.injEq, Prod.mk.injEq] at e1
    exact ⟨e1.1.symm, e1.2.symm⟩
  refine ⟨?_, ?_, ?_⟩
  · apply Str_setNode h t1 _ _ hs1
    intro n0 hn0
    rw [hme1'] at hn0
    cases hn0
    have hg1 := hs1.2 self me1 hme1'
    refine GoodNode_of_eq _ _ _ _ _ me1 _ hg1 ?_ ?_ ?_ ?_ ?_
    · rfl
    · rfl
    · rfl
    · rfl
    · exact hg1.slots
  · intro id
    rw [szAt_setNode]
    by_cases he : id = self
    · subst he
      simp only [if_true, szAt, hme1', Option.map_some', Node.GetSize, hsize1.1, hsize1.2]
    · simp only [he, if_false, hsz1, Node.GetSize]
  · rw [cfg_setNode, hc1]

theorem BndX_size_le (x : Int) (t : BPlusTree) (hb : BndX x t) (id : Int) (n : Node)
    (hn : dataAt t id = some n) : n.size ≤ n.max_size := by
  rcases hb id n hn with h | ⟨_, h⟩ <;> omega

theorem BndX_size_lt (x : Int) (t : BPlusTree) (hb : BndX x t) (id : Int) (n : Node)
    (hn : dataAt t id = some n) (hne : id ≠ x) : n.size < n.max_size := by
  rcases hb id n hn with h | ⟨h, _⟩
  · exact h
  · exact absurd h hne

theorem szAt_some (t : BPlusTree) (id : Int) (n : Node) (hn : dataAt t id = some n) :
    szAt t id = some (n.size, n.max_size) := by
  simp [szAt, hn]

theorem szAt_eq_some (t : BPlusTree) (id : Int) (s m : Int) (h : szAt t id = some (s, m)) :
    ∃ n, dataAt t id = some n ∧ n.size = s ∧ n.max_size = m := by
  unfold szAt at h
  cases hd : dataAt t id with
  | none => simp [hd] at h
  | some n =>
    simp only [hd, Option.map_some', Option.some.injEq, Prod.mk.injEq] at h
    exact ⟨n, rfl, h.1, h.2⟩

/-- `Split` keeps the shape of the pool, the new page taking the level of the split one, and
restores the occupancy bound when the split page was at most at its max size. -/
theorem Split_inv (h : Int → Nat) (t t' : BPlusTree) (N : IndexPageType) (node new : Int)
    (n : Node) (hi : Inv h node t) (hn : dataAt t node = some n)
    (hN : N = IndexPageType.LEAF_PAGE ↔ n.IsLeafPage = true)
    (hok : Split t N node = Except.ok (t', new)) :
    new = (t.pages.length : Int) ∧
      Inv (Function.update h (t.pages.length : Int) (h node)) (-1) t' ∧
      cfg t' = (t.pages.length + 1, t.leaf_max_size, t.internal_max_size) ∧
      (dataAt t' new).isSome = true := by
  obtain ⟨hs, hb⟩ := hi
  have hg := hs.2 node n hn
  have hr := Str_dataAt_ne_zero h t hs node n hn
  have hne : node ≠ (t.pages.length : Int) := by omega
  have hne' : (t.pages.length : Int) ≠ node := fun e => hne e.symm
  have hnp : (NewPage t).2 = (t.pages.length : Int) := rfl
  have hn1 : dataAt (NewPage t).1 node = some n := by
    rw [dataAt_NewPage, if_neg hne]; exact hn
  have hz : dataAt (NewPage t).1 (t.pages.length : Int) = some zeroNode := by
    rw [dataAt_NewPage, if_pos rfl]
  have hc1 : cfg (NewPage t).1 = (t.pages.length + 1, t.leaf_max_size, t.internal_max_size) := by
    simp [cfg, NewPage]
  unfold Split at hok
  simp only [hnp, (getNode_ok_iff _ _ _).2 hn1, (getNode_ok_iff _ _ _).2 hz, bind,
    Except.bind] at hok
  generalize hinit : (if N = IndexPageType.LEAF_PAGE then
      zeroNode.InitLeaf ((t.pages.length : Int)) n.parent_page_id
        (if n.IsLeafPage = true then (NewPage t).1.leaf_max_size
          else (NewPage t).1.internal_max_size)
    else zeroNode.InitInternal ((t.pages.length : Int)) n.parent_page_id
        (if n.IsLeafPage = true then (NewPage t).1.leaf_max_size
          else (NewPage t).1.internal_max_size)) = init at hok
  set h' := Function.update h (t.pages.length : Int) (h node) with hh'
  have hh'node : h' node = h node := by rw [hh', Function.update_noteq hne]
  have hh'new : h' (t.pages.length : Int) = h node := by rw [hh', Function.update_same]
  have hL1 : (NewPage t).1.leaf_max_size = t.leaf_max_size := rfl
  have hM1 : (NewPage t).1.internal_max_size = t.internal_max_size := rfl
  -- the initialised sibling
  have hinit_facts : init.page_id = (t.pages.length : Int) ∧ init.size = 0 ∧
      init.parent_page_id = n.parent_page_id ∧ init.array = [] ∧
      init.IsLeafPage = n.IsLeafPage ∧ init.max_size = n.max_size := by
    subst hinit
    by_cases hleaf : n.IsLeafPage = true
    · have hN' := hN.2 hleaf
      rw [if_pos hN']
      refine ⟨rfl, rfl, rfl, rfl, ?_, ?_⟩
      · rw [hleaf]; rfl
      · simp only [Node.InitLeaf, hleaf, if_true, hL1]
        exact (hg.leaf_max hleaf).symm
    · have hN' : ¬ N = IndexPageType.LEAF_PAGE := fun e => hleaf (hN.1 e)
      have hleaf' : n.IsLeafPage = false := by simpa using hleaf
      rw [if_neg hN']
      refine ⟨rfl, rfl, rfl, rfl, ?_, ?_⟩
      · rw [hleaf']; rfl
      · simp only [Node.InitInternal, hleaf', Bool.false_eq_true, if_false, hM1]
        exact (hg.internal_max hleaf').symm
  obtain ⟨hi1, hi2, hi3, hi4, hi5, hi6⟩ := hinit_facts
  have hginit : GoodNode h' (t.pages.length + 1) t.leaf_max_size t.internal_max_size
      (t.pages.length : Int) init := by
    refine ⟨hi1, ?_, ?_, ?_, ?_, ?_⟩
    · rw [hi5, hh'new]; exact hg.leaf_iff
    · rw [hi5, hi6]; exact hg.leaf_max
    · rw [hi5, hi6]; exact hg.internal_max
    · intro _ s hs'; rw [hi4] at hs'; cases hs'
    · rw [hi3, hh'new]
      rcases hg.parent with h0 | ⟨h1, h2, h3⟩
      · exact Or.inl h0
      · refine Or.inr ⟨h1, by omega, ?_⟩
        rw [hh', Function.update_noteq (by omega)]
        exact h3
  set t2 := setNode (NewPage t).1 (t.pages.length : Int) init with ht2
  have hd2 : ∀ id, dataAt t2 id =
      if id = (t.pages.length : Int) then some init else dataAt t id := by
    intro id
    rw [ht2, dataAt_setNode]
    by_cases he : id = (t.pages.length : Int)
    · simp [he, hz]
    · rw [if_neg he, if_neg he, dataAt_NewPage, if_neg he]
  have hc2 : cfg t2 = (t.pages.length + 1, t.leaf_max_size, t.internal_max_size) := by
    rw [ht2, cfg_setNode, hc1]
  have hs2 : Str h' t2 := by
    apply Str_alloc h t t2 (h node) init hs
    · exact congrArg Prod.fst hc2
    · exact congrArg (fun c => c.2.1) hc2
    · exact congrArg (fun c => c.2.2) hc2
    · exact hd2
    · exact hginit
  have hlen2 : t2.pages.length = t.pages.length + 1 := congrArg Prod.fst hc2
  have hL2 : t2.leaf_max_size = t.leaf_max_size := congrArg (fun c => c.2.1) hc2
  have hM2 : t2.internal_max_size = t.internal_max_size := congrArg (fun c => c.2.2) hc2
  have hn2 : dataAt t2 node = some n := by rw [hd2, if_neg hne]; exact hn
  have hnew2 : dataAt t2 (t.pages.length : Int) = some init := by rw [hd2, if_pos rfl]
  have hgn2 := hs2.2 node n hn2
  have hgi2 := hs2.2 _ init hnew2
  by_cases hleaf : n.IsLeafPage = true
  · simp only [hleaf, if_true, pure, Except.pure, Except.ok.injEq, Prod.mk.injEq] at hok
    obtain ⟨hok, rfl⟩ := hok
    subst hok
    refine ⟨rfl, ?_, ?_, ?_⟩
    · have hileaf : init.IsLeafPage = true := by rw [hi5]; exact hleaf
      have hs3 : Str h' (setNode t2 (t.pages.length : Int)
          { (n.LeafMoveHalfTo init).2 with
            next_page_id := (n.LeafMoveHalfTo init).1.next_page_id }) := by
        apply Str_setNode h' t2 _ _ hs2
        intro n0 hn0
        rw [hnew2] at hn0
        cases hn0
        refine GoodNode_of_eq _ _ _ _ _ init _ hgi2 ?_ ?_ ?_ ?_ ?_
        · rfl
        · rfl
        · rfl
        · rfl
        · intro hc; rw [hileaf] at hc; cases hc
      set t3 := setNode t2 (t.pages.length : Int)
          { (n.LeafMoveHalfTo init).2 with
            next_page_id := (n.LeafMoveHalfTo init).1.next_page_id } with ht3
      have hn3 : dataAt t3 node = some n := by
        rw [ht3, dataAt_setNode, if_neg hne]; exact hn2
      have hc3 : cfg t3 = cfg t2 := by rw [ht3, cfg_setNode]
      refine ⟨?_, ?_⟩
      · apply Str_setNode h' t3 _ _ hs3
        intro n0 hn0
        rw [hn3] at hn0
        cases hn0
        have hgn3 := hs3.2 node n hn3
        refine GoodNode_of_eq _ _ _ _ _ n _ hgn3 ?_ ?_ ?_ ?_ ?_
        · rfl
        · rfl
        · rfl
        · rfl
        · intro hc; rw [hleaf] at hc; cases hc
      · intro hL hM
        rw [setNode_leaf_max, ht3, setNode_leaf_max, hL2] at hL
        rw [setNode_internal_max, ht3, setNode_internal_max, hM2] at hM
        have hb0 := hb hL hM
        have hsz_le := BndX_size_le node t hb0 node n hn
        have hmax : n.max_size = t.leaf_max_size := hg.leaf_max hleaf
        intro id n' hn'
        left
        rw [dataAt_setNode] at hn'
        by_cases he : id = node
        · subst he
          simp only [if_true, hn3, Option.map_some', Option.some.injEq] at hn'
          subst hn'
          simp only [Node.LeafMoveHalfTo, Int.ofNat_eq_coe]
          omega
        · simp only [he, if_false] at hn'
          rw [ht3, dataAt_setNode] at hn'
          by_cases he2 : id = (t.pages.length : Int)
          · subst he2
            simp only [if_true, hnew2, Option.map_some', Option.some.injEq] at hn'
            subst hn'
            simp only [Node.LeafMoveHalfTo, hi2, hi6, Int.ofNat_eq_coe]
            omega
          · simp only [he2, if_false, hd2] at hn'
            exact BndX_size_lt node t hb0 id n' hn' he
    · rw [cfg_setNode, cfg_setNode, hc2]
    · rw [dataAt_setNode, if_neg hne', dataAt_setNode, if_pos rfl, hnew2]
      rfl
  · have hleaf' : n.IsLeafPage = false := by simpa using hleaf
    simp only [hleaf', Bool.false_eq_true, if_false] at hok
    obtain ⟨t3, h3, hok⟩ := bind_ok _ _ _ hok
    simp only [pure, Except.pure, Except.ok.injEq, Prod.mk.injEq] at hok
    obtain ⟨rfl, rfl⟩ := hok
    obtain ⟨hs3, hsz3, hc3⟩ := MoveHalfTo_inv h' node (t.pages.length : Int) t2 t3 n hs2 hn2
      hleaf' (by rw [hh'new, hh'node]) hne h3
    have hex : (dataAt t3 (t.pages.length : Int)).isSome = true := by
      have e := hsz3 (t.pages.length : Int)
      rw [if_neg hne', if_pos rfl, szAt_some t2 _ init hnew2] at e
      obtain ⟨n3, hn3, _⟩ := szAt_eq_some t3 _ _ _ e
      rw [hn3]; rfl
    refine ⟨rfl, ⟨hs3, ?_⟩, by rw [hc3, hc2], hex⟩
    intro hL hM
    rw [cfg_leaf_max _ _ hc3, hL2] at hL
    rw [cfg_internal_max _ _ hc3, hM2] at hM
    have hb0 := hb hL hM
    have hsz_le := BndX_size_le node t hb0 node n hn
    have hmax : n.max_size = t.internal_max_size + 1 := hg.internal_max hleaf'
    intro id n' hn'
    left
    have e := szAt_some t3 id n' hn'
    rw [hsz3] at e
    by_cases he : id = node
    · simp only [he, if_true, Option.some.injEq, Prod.mk.injEq] at e
      omega
    · simp only [he, if_false] at e
      by_cases he2 : id = (t.pages.length : Int)
      · simp only [he2, if_true, szAt_some t2 _ init hnew2, Option.map_some', Option.some.injEq,
          Prod.mk.injEq] at e
        omega
      · simp only [he2, if_false] at e
        obtain ⟨n2, hn2', e1, e2⟩ := szAt_eq_some t2 id _ _ e
        rw [hd2, if_neg he2] at hn2'
        have := BndX_size_lt node t hb0 id n2 hn2' he
        omega

theorem all_PopulateNewRoot (P : MappingType → Prop) (h0 : P (0, 0))
    (hkey : ∀ (s : MappingType) (k : Int), P s → P (k, s.2)) (n : Node) (o k nw : Int)
    (ha : ∀ s ∈ n.array, P s) (ho : ∀ x : Int, P (x, o)) (hn : ∀ x : Int, P (x, nw)) :
    ∀ s ∈ (n.PopulateNewRoot o k nw).array, P s := by
  unfold Node.PopulateNewRoot Node.SetValueAt Node.SetKeyAt
  simp only
  apply all_slotSet P h0 _ _ _ _ (hn _)
  apply all_slotSet P h0 _ _ _ _ (hkey _ _ (all_slotAt P h0 _ _ _))
  · exact all_slotSet P h0 _ _ _ ha (ho _)
  · exact all_slotSet P h0 _ _ _ ha (ho _)

theorem LeafInsert_facts (n : Node) (key value : Int) :
    (n.LeafInsert key value).1.page_id = n.page_id ∧
    (n.LeafInsert key value).1.page_type = n.page_type ∧
    (n.LeafInsert key value).1.max_size = n.max_size ∧
    (n.LeafInsert key value).1.parent_page_id = n.parent_page_id ∧
    (n.LeafInsert key value).1.size = (n.LeafInsert key value).2 ∧
    (n.LeafInsert key value).2 ≤ n.size + 1 := by
  unfold Node.LeafInsert
  cases n.LeafLookup key with
  | none => simp
  | some v => simp

theorem InsertNodeAfter_facts (n n' : Node) (o k nw size : Int)
    (h : n.InsertNodeAfter o k nw = some (n', size)) :
    n'.page_id = n.page_id ∧ n'.page_type = n.page_type ∧ n'.max_size = n.max_size ∧
    n'.parent_page_id = n.parent_page_id ∧ n'.size = n.size + 1 ∧ size = n.size + 1 ∧
    ∀ (P : MappingType → Prop), P (0, 0) → (∀ s ∈ n.array, P s) → P (k, nw) →
      ∀ s ∈ n'.array, P s := by
  unfold Node.InsertNodeAfter at h
  cases hv : n.ValueIndex o with
  | none => simp [hv] at h
  | some pos =>
    simp only [hv, Option.map_some', Option.some.injEq, Prod.mk.injEq] at h
    obtain ⟨rfl, rfl⟩ := h
    refine ⟨rfl, rfl, rfl, rfl, rfl, rfl, ?_⟩
    intro P h0 ha hx
    exact all_slotSet P h0 _ _ _ (all_shiftUp P h0 _ _ _ ha) hx

/-- `StartNewTree` adds the root leaf at height 0. -/
theorem StartNewTree_inv (h : Int → Nat) (t t' : BPlusTree) (key value : Int)
    (hi : Inv h (-1) t) (hok : StartNewTree t key value = Except.ok t') :
    ∃ h', Inv h' (-1) t' ∧ t'.leaf_max_size = t.leaf_max_size ∧
      t'.internal_max_size = t.internal_max_size := by
  obtain ⟨hs, hb⟩ := hi
  have hz : dataAt (NewPage t).1 (t.pages.length : Int) = some zeroNode := by
    rw [dataAt_NewPage, if_pos rfl]
  unfold StartNewTree at hok
  have hz' : dataAt (UpdateRootPageId
      { (NewPage t).1 with root_page_id := (NewPage t).2 } true) (t.pages.length : Int)
      = some zeroNode := hz
  obtain ⟨lp, hlp, hok⟩ := bind_ok _ _ _ hok
  have elp : some lp = some zeroNode := ((getNode_ok_iff _ _ _).1 hlp).symm.trans hz'
  cases elp
  simp only [pure, Except.pure, Except.ok.injEq] at hok
  subst hok
  set leaf := ((zeroNode.InitLeaf (t.pages.length : Int) INVALID_PAGE_ID
    t.leaf_max_size).LeafInsert key value).1 with hleaf
  set t2 := setNode (UpdateRootPageId
      { (NewPage t).1 with root_page_id := (NewPage t).2 } true) (t.pages.length : Int) leaf
    with ht2
  have hc2 : cfg t2 = (t.pages.length + 1, t.leaf_max_size, t.internal_max_size) := by
    rw [ht2, cfg_setNode]
    simp [cfg, NewPage, UpdateRootPageId]
  have hd2 : ∀ id, dataAt t2 id =
      if id = (t.pages.length : Int) then some leaf else dataAt t id := by
    intro id
    rw [ht2, dataAt_setNode]
    by_cases he : id = (t.pages.length : Int)
    · simp [he, hz']
    · rw [if_neg he, if_neg he]
      exact (dataAt_NewPage t id).trans (if_neg he)
  have hf := LeafInsert_facts (zeroNode.InitLeaf (t.pages.length : Int) INVALID_PAGE_ID
    t.leaf_max_size) key value
  have hsz : leaf.size = 1 := by
    rw [hleaf]
    simp [Node.LeafInsert, Node.LeafLookup, Node.InitLeaf, zeroNode]
  have hgl : GoodNode (Function.update h (t.pages.length : Int) 0) (t.pages.length + 1)
      t.leaf_max_size t.internal_max_size (t.pages.length : Int) leaf := by
    have hlf : leaf.IsLeafPage = true := by
      unfold Node.IsLeafPage
      rw [hleaf, hf.2.1]
      rfl
    refine ⟨hf.1, ?_, ?_, ?_, ?_, ?_⟩
    · simp [hlf]
    · intro _; exact hf.2.2.1
    · intro hc; rw [hlf] at hc; cases hc
    · intro hc; rw [hlf] at hc; cases hc
    · rw [hleaf, hf.2.2.2.1]; exact Or.inl rfl
  have hs2 : Str (Function.update h (t.pages.length : Int) 0) t2 :=
    Str_alloc h t t2 0 leaf hs (congrArg Prod.fst hc2) (congrArg (fun c => c.2.1) hc2)
      (congrArg (fun c => c.2.2) hc2) hd2 hgl
  have k := Keeps_UnpinPage t2 (NewPage t).2 true
  have eL : t2.leaf_max_size = t.leaf_max_size := congrArg (fun c => c.2.1) hc2
  have eM : t2.internal_max_size = t.internal_max_size := congrArg (fun c => c.2.2) hc2
  refine ⟨_, Inv_of_Keeps _ _ t2 _ ⟨hs2, ?_⟩ k, k.1.trans eL, k.2.1.trans eM⟩
  · intro hL hM
    rw [eL] at hL
    rw [eM] at hM
    intro id n' hn'
    left
    rw [hd2] at hn'
    by_cases he : id = (t.pages.length : Int)
    · simp only [he, if_true, Option.some.injEq] at hn'
      subst hn'
      rw [hsz, hleaf, hf.2.2.1]
      simp only [Node.InitLeaf]
      omega
    · simp only [he, if_false] at hn'
      have := (dataAt_range t id n' hn').1
      exact BndX_size_lt (-1) t (hb hL hM) id n' hn' (by omega)

/-- The new-root step of `InsertIntoParent`: a fresh internal root over `old_node` and
`new_node`, one level above them. -/
theorem newRoot_inv (h : Int → Nat) (t t' : BPlusTree) (old_node key new_node : Int)
    (old : Node) (hi : Inv h (-1) t) (hh : h new_node = h old_node)
    (hold : dataAt t old_node = some old) (hnew : (dataAt t new_node).isSome = true)
    (hok : (do
      let tA := UpdateRootPageId { (NewPage t).1 with root_page_id := (NewPage t).2 } false
      let new_root_node ← getNode tA (NewPage t).2
      let new_root_node :=
        new_root_node.InitInternal (NewPage t).2 INVALID_PAGE_ID tA.internal_max_size
      let old ← getNode tA old_node
      let new ← getNode tA new_node
      let new_root_node := new_root_node.PopulateNewRoot old.page_id key new.page_id
      let tB := setNode tA (NewPage t).2 new_root_node
      let old ← getNode tB old_node
      let tC := setNode tB old_node { old with parent_page_id := (NewPage t).2 }
      let new ← getNode tC new_node
      let tD := setNode tC new_node { new with parent_page_id := (NewPage t).2 }
      let tE := UnpinPage tD new.page_id true
      (pure (UnpinPage tE (NewPage t).2 true) : Except Err BPlusTree)) = Except.ok t') :
    ∃ h', Inv h' (-1) t' ∧ t'.leaf_max_size = t.leaf_max_size ∧
      t'.internal_max_size = t.internal_max_size := by
  obtain ⟨hs, hb⟩ := hi
  obtain ⟨nn, hnn⟩ := Option.isSome_iff_exists.1 hnew
  have hro := Str_dataAt_ne_zero h t hs old_node old hold
  have hrn := Str_dataAt_ne_zero h t hs new_node nn hnn
  have hgo := hs.2 old_node old hold
  have hgn := hs.2 new_node nn hnn
  have hneo : old_node ≠ (t.pages.length : Int) := by omega
  have hnen : new_node ≠ (t.pages.length : Int) := by omega
  set tA := UpdateRootPageId { (NewPage t).1 with root_page_id := (NewPage t).2 } false with htA
  have hdA : ∀ id, dataAt tA id =
      if id = (t.pages.length : Int) then some zeroNode else dataAt t id :=
    fun id => dataAt_NewPage t id
  have hcA : cfg tA = (t.pages.length + 1, t.leaf_max_size, t.internal_max_size) := by
    simp [htA, cfg, NewPage, UpdateRootPageId]
  have hnp : (NewPage t).2 = (t.pages.length : Int) := rfl
  simp only [hnp] at hok
  obtain ⟨nr, hnr, hok⟩ := bind_ok _ _ _ hok
  have enr : some nr = some zeroNode := by
    rw [← (getNode_ok_iff _ _ _).1 hnr, hdA, if_pos rfl]
  cases enr
  obtain ⟨old1, hold1, hok⟩ := bind_ok _ _ _ hok
  have eo1 : some old1 = some old := by
    rw [← (getNode_ok_iff _ _ _).1 hold1, hdA, if_neg hneo, hold]
  cases eo1
  obtain ⟨new1, hnew1, hok⟩ := bind_ok _ _ _ hok
  have en1 : some new1 = some nn := by
    rw [← (getNode_ok_iff _ _ _).1 hnew1, hdA, if_neg hnen, hnn]
  cases en1
  set root := (zeroNode.InitInternal (t.pages.length : Int) INVALID_PAGE_ID
    tA.internal_max_size).PopulateNewRoot old.page_id key nn.page_id with hroot
  set tB := setNode tA (t.pages.length : Int) root with htB
  set h' := Function.update h (t.pages.length : Int) (h old_node + 1) with hh'
  have hh'o : h' old_node = h old_node := by rw [hh', Function.update_noteq hneo]
  have hh'n : h' new_node = h old_node := by rw [hh', Function.update_noteq hnen, hh]
  have hh'r : h' (t.pages.length : Int) = h old_node + 1 := by rw [hh', Function.update_same]
  have hdB : ∀ id, dataAt tB id =
      if id = (t.pages.length : Int) then some root else dataAt t id := by
    intro id
    rw [htB, dataAt_setNode]
    by_cases he : id = (t.pages.length : Int)
    · simp [he, hdA]
    · rw [if_neg he, if_neg he, hdA, if_neg he]
  have hcB : cfg tB = (t.pages.length + 1, t.leaf_max_size, t.internal_max_size) := by
    rw [htB, cfg_setNode, hcA]
  have hlenB : tB.pages.length = t.pages.length + 1 := congrArg Prod.fst hcB
  have eLB : tB.leaf_max_size = t.leaf_max_size := congrArg (fun c => c.2.1) hcB
  have eMB : tB.internal_max_size = t.internal_max_size := congrArg (fun c => c.2.2) hcB
  have hrleaf : root.IsLeafPage = false := rfl
  have hgr : GoodNode h' (t.pages.length + 1) t.leaf_max_size t.internal_max_size
      (t.pages.length : Int) root := by
    refine ⟨rfl, ?_, ?_, ?_, ?_, Or.inl rfl⟩
    · rw [hrleaf, hh'r]; simp
    · intro hc; rw [hrleaf] at hc; cases hc
    · intro _
      show tA.internal_max_size + 1 = t.internal_max_size + 1
      rfl
    · intro _
      apply all_PopulateNewRoot _ (slotOK_zero _ _ _) (fun s k hs' => hs')
      · intro s hs'; cases hs'
      · intro x
        rw [hgo.page_id]
        exact Or.inr ⟨hro.1, by show old_node < ((t.pages.length + 1 : Nat) : Int); omega,
          by rw [hh'o, hh'r]⟩
      · intro x
        rw [hgn.page_id]
        exact Or.inr ⟨hrn.1, by show new_node < ((t.pages.length + 1 : Nat) : Int); omega,
          by rw [hh'n, hh'r]⟩
  have hsB : Str h' tB := Str_alloc h t tB _ root hs hlenB eLB eMB hdB hgr
  obtain ⟨old2, hold2, hok⟩ := bind_ok _ _ _ hok
  have hold2' := (getNode_ok_iff _ _ _).1 hold2
  have hpar : ∀ x : Int, h' x = h old_node →
      parentOK h' tB.pages.length (h' x) (t.pages.length : Int) := by
    intro x hx
    refine Or.inr ⟨by have := hs.1.1; omega, by rw [hlenB]; push_cast; omega, ?_⟩
    rw [hh'r, hx]
  set tC := setNode tB old_node { old2 with parent_page_id := (t.pages.length : Int) } with htC
  have hsC : Str h' tC := by
    apply Str_setNode h' tB _ _ hsB
    intro n0 hn0
    rw [hold2'] at hn0
    cases hn0
    exact GoodNode_parent _ _ _ _ _ _ _ (hsB.2 _ _ hold2') (hpar _ hh'o)
  obtain ⟨new2, hnew2, hok⟩ := bind_ok _ _ _ hok
  have hnew2' := (getNode_ok_iff _ _ _).1 hnew2
  set tD := setNode tC new_node { new2 with parent_page_id := (t.pages.length : Int) } with htD
  have hcC : cfg tC = cfg tB := by rw [htC, cfg_setNode]
  have hsD : Str h' tD := by
    apply Str_setNode h' tC _ _ hsC
    intro n0 hn0
    rw [hnew2'] at hn0
    cases hn0
    have := hpar _ hh'n
    rw [← cfg_length _ _ hcC] at this
    exact GoodNode_parent _ _ _ _ _ _ _ (hsC.2 _ _ hnew2') this
  have hcD : cfg tD = cfg tB := by rw [htD, cfg_setNode, hcC]
  simp only [pure, Except.pure, Except.ok.injEq] at hok
  subst hok
  have k : Keeps tD (UnpinPage (UnpinPage tD new2.page_id true) (t.pages.length : Int) true) :=
    Keeps_trans _ _ _ (Keeps_UnpinPage tD _ _) (Keeps_UnpinPage _ _ _)
  have eLD : tD.leaf_max_size = t.leaf_max_size := (cfg_leaf_max _ _ hcD).trans eLB
  have eMD : tD.internal_max_size = t.internal_max_size := (cfg_internal_max _ _ hcD).trans eMB
  refine ⟨h', Inv_of_Keeps _ _ tD _ ⟨hsD, ?_⟩ k, k.1.trans eLD, k.2.1.trans eMD⟩
  intro hL hM
  rw [eLD] at hL
  rw [eMD] at hM
  have hb0 := hb hL hM
  have hszD : ∀ id, szAt tD id = szAt tB id := by
    intro id
    exact (szAt_setNode_same tC new_node _ new2 hnew2' (by rfl) (by rfl) id).trans
      (szAt_setNode_same tB old_node _ old2 hold2' (by rfl) (by rfl) id)
  intro id n' hn'
  left
  have e := szAt_some tD id n' hn'
  rw [hszD] at e
  obtain ⟨nB, hnB, e1, e2⟩ := szAt_eq_some tB id _ _ e
  rw [hdB] at hnB
  by_cases he : id = (t.pages.length : Int)
  · simp only [he, if_true, Option.some.injEq] at hnB
    subst hnB
    have hs2 : root.size = 2 := rfl
    have hm2 : root.max_size = t.internal_max_size + 1 := rfl
    omega
  · simp only [he, if_false] at hnB
    have := (dataAt_range t id nB hnB).1
    have := BndX_size_lt (-1) t hb0 id nB hnB (by omega)
    omega

theorem map_ok {α β : Type} (x : Except Err α) (f : α → β) (b : β)
    (h : f <$> x = Except.ok b) : ∃ a, x = Except.ok a ∧ f a = b := by
  cases x with
  | error e => cases h
  | ok a =>
    refine ⟨a, rfl, ?_⟩
    have : Except.ok (f a) = Except.ok b := h
    exact Except.ok.inj this

theorem IsRootPage_false (n : Node) (h : ¬ n.IsRootPage = true) :
    n.parent_page_id ≠ INVALID_PAGE_ID := by
  intro e
  apply h
  simp [Node.IsRootPage, e]

/-- The parent id stored in a page that is not the root names an internal level above. -/
theorem GoodNode_parent_of_not_root (h : Int → Nat) (len : Nat) (L M : Int) (id : Int)
    (n : Node) (hg : GoodNode h len L M id n) (hr : ¬ n.IsRootPage = true) :
    0 < n.parent_page_id ∧ n.parent_page_id < len ∧ h n.parent_page_id = h id + 1 := by
  rcases hg.parent with h0 | h1
  · exact absurd h0 (IsRootPage_false n hr)
  · exact h1

theorem GoodNode_not_leaf (h : Int → Nat) (len : Nat) (L M : Int) (id : Int) (n : Node)
    (hg : GoodNode h len L M id n) (hh : h id ≠ 0) : n.IsLeafPage = false := by
  cases hl : n.IsLeafPage with
  | false => rfl
  | true => exact absurd (hg.leaf_iff.1 hl) hh

/-- `InsertIntoParent` keeps the invariant: the new sibling is entered one level up, and a
parent that reaches its max size is split in turn. -/
theorem InsertIntoParent_inv :
    ∀ (fuel : Nat) (h : Int → Nat) (t t' : BPlusTree) (old_node key new_node : Int),
      Inv h (-1) t → h new_node = h old_node → (dataAt t new_node).isSome = true →
      InsertIntoParent fuel t old_node key new_node = Except.ok t' →
      ∃ h', Inv h' (-1) t' ∧ t'.leaf_max_size = t.leaf_max_size ∧
        t'.internal_max_size = t.internal_max_size := by
  intro fuel
  induction fuel with
  | zero => intro h t t' o k nw _ _ _ hok; simp [InsertIntoParent] at hok
  | succ fuel ih =>
    intro h t t' old_node key new_node hi hh hnew hok
    unfold InsertIntoParent at hok
    obtain ⟨old, hold, hok⟩ := bind_ok _ _ _ hok
    have hold' := (getNode_ok_iff _ _ _).1 hold
    by_cases hroot : old.IsRootPage = true
    · rw [if_pos hroot] at hok
      exact newRoot_inv h t t' old_node key new_node old hi hh hold' hnew hok
    · rw [if_neg hroot] at hok
      obtain ⟨hs, hb⟩ := hi
      obtain ⟨nn, hnn⟩ := Option.isSome_iff_exists.1 hnew
      have hgo := hs.2 old_node old hold'
      have hgn := hs.2 new_node nn hnn
      have hrn := Str_dataAt_ne_zero h t hs new_node nn hnn
      obtain ⟨hp1, hp2, hp3⟩ := GoodNode_parent_of_not_root _ _ _ _ _ _ hgo hroot
      cases hf : FetchPage t old.parent_page_id with
      | none => simp [hf] at hok
      | some t1 =>
        simp only [hf] at hok
        have k1 := Keeps_FetchPage t t1 _ hf
        have hd1 := dataAt_FetchPage t t1 _ hf
        have hc1 := cfg_FetchPage t t1 _ hf
        have hs1 : Str h t1 := Str_of_Keeps h t t1 hs k1
        obtain ⟨pp, hpp, hok⟩ := bind_ok _ _ _ hok
        have hpp' := (getNode_ok_iff _ _ _).1 hpp
        obtain ⟨new1, hnew1, hok⟩ := bind_ok _ _ _ hok
        have en1 : some new1 = some nn := by
          rw [← (getNode_ok_iff _ _ _).1 hnew1, hd1, hnn]
        cases en1
        have hgp := hs1.2 _ pp hpp'
        have hpleaf : pp.IsLeafPage = false :=
          GoodNode_not_leaf _ _ _ _ _ _ hgp (by omega)
        cases hins : pp.InsertNodeAfter old.page_id key nn.page_id with
        | none => simp [hins] at hok
        | some r =>
          obtain ⟨pp', size⟩ := r
          simp only [hins] at hok
          obtain ⟨f1, f2, f3, f4, f5, f6, f7⟩ := InsertNodeAfter_facts _ _ _ _ _ _ hins
          have hgp' : GoodNode h t1.pages.length t1.leaf_max_size t1.internal_max_size
              old.parent_page_id pp' := by
            refine GoodNode_of_eq _ _ _ _ _ pp _ hgp f1 f2 f3 f4 ?_
            intro hl
            apply f7 _ (slotOK_zero _ _ _) (hgp.slots hl)
            rw [hgn.page_id]
            exact Or.inr ⟨hrn.1, by rw [cfg_length _ _ hc1]; exact hrn.2,
              by show h new_node + 1 = _; omega⟩
          set t2 := setNode t1 old.parent_page_id pp' with ht2
          have hs2 : Str h t2 := by
            apply Str_setNode h t1 _ _ hs1
            intro n0 _
            exact hgp'
          have hc2 : cfg t2 = cfg t := by rw [ht2, cfg_setNode, hc1]
          have hd2p : dataAt t2 old.parent_page_id = some pp' := by
            rw [ht2, dataAt_setNode, if_pos rfl, hpp']; rfl
          set t3 := UnpinPage t2 nn.page_id true with ht3
          have k3 : Keeps t2 t3 := Keeps_UnpinPage t2 _ _
          have hs3 : Str h t3 := Str_of_Keeps h t2 t3 hs2 k3
          have hc3 : cfg t3 = cfg t := by rw [ht3, cfg_UnpinPage, hc2]
          have hd3 : ∀ id, dataAt t3 id = dataAt t2 id := fun id => dataAt_UnpinPage t2 _ _ id
          have hb3 : 2 ≤ t3.leaf_max_size → 2 ≤ t3.internal_max_size →
              BndX old.parent_page_id t3 := by
            intro hL hM
            rw [cfg_leaf_max _ _ hc3] at hL
            rw [cfg_internal_max _ _ hc3] at hM
            have hb0 := hb hL hM
            intro id n' hn'
            rw [hd3, ht2, dataAt_setNode] at hn'
            by_cases he : id = old.parent_page_id
            · simp only [he, if_true, hpp', Option.map_some', Option.some.injEq] at hn'
              subst hn'
              right
              refine ⟨he, ?_⟩
              have := BndX_size_lt (-1) t hb0 _ pp (by rw [← hd1]; exact hpp') (by omega)
              omega
            · simp only [he, if_false, hd1] at hn'
              have := (dataAt_range t id n' hn').1
              exact Or.inl (BndX_size_lt (-1) t hb0 id n' hn' (by omega))
          by_cases hfull : size = pp'.GetMaxSize
          · rw [if_pos hfull] at hok
            obtain ⟨r, hsplit, hok⟩ := bind_ok _ _ _ hok
            obtain ⟨t4, split_page⟩ := r
            simp only at hok
            obtain ⟨sp, hsp, hok⟩ := bind_ok _ _ _ hok
            obtain ⟨t5, h5, hok⟩ := bind_ok _ _ _ hok
            obtain ⟨pp5, hpp5, hok⟩ := map_ok _ _ _ hok
            subst hok
            have hd3p : dataAt t3 old.parent_page_id = some pp' := by rw [hd3]; exact hd2p
            have hp'leaf : pp'.IsLeafPage = false := by
              simp only [Node.IsLeafPage, f2]; exact hpleaf
            obtain ⟨e1, hi4, hc4, hex4⟩ := Split_inv h t3 t4 IndexPageType.INTERNAL_PAGE
              old.parent_page_id split_page pp' ⟨hs3, hb3⟩ hd3p
              (by simp [hp'leaf]) hsplit
            subst e1
            have hlt : old.parent_page_id ≠ (t3.pages.length : Int) := by
              rw [cfg_length _ _ hc3]; omega
            obtain ⟨h'', hi5, eL5, eM5⟩ := ih _ t4 t5 old.parent_page_id (sp.KeyAt 0)
              (t3.pages.length : Int) hi4
              (by rw [Function.update_same, Function.update_noteq hlt]) hex4 h5
            have k6 := Keeps_UnpinPage t5 pp5.page_id true
            refine ⟨h'', Inv_of_Keeps _ _ t5 _ hi5 k6, ?_, ?_⟩
            · rw [k6.1, eL5]
              exact (congrArg (fun c => c.2.1) hc4).trans (cfg_leaf_max _ _ hc3)
            · rw [k6.2.1, eM5]
              exact (congrArg (fun c => c.2.2) hc4).trans (cfg_internal_max _ _ hc3)
          · rw [if_neg hfull] at hok
            simp only [pure, Except.pure, Except.ok.injEq] at hok
            subst hok
            have k6 := Keeps_UnpinPage t3 pp'.page_id true
            refine ⟨h, Inv_of_Keeps _ _ t3 _ ⟨hs3, ?_⟩ k6, ?_, ?_⟩
            · intro hL hM
              apply BndX_strengthen _ _ (hb3 hL hM)
              intro n0 hn0
              rw [hd3, hd2p] at hn0
              cases hn0
              have := BndX_size_le _ _ (hb3 hL hM) _ pp' (by rw [hd3]; exact hd2p)
              simp only [Node.GetMaxSize] at hfull
              omega
            · rw [k6.1, cfg_leaf_max _ _ hc3]
            · rw [k6.2.1, cfg_internal_max _ _ hc3]

/-- `InsertIntoLeaf` keeps the invariant. -/
theorem InsertIntoLeaf_inv (h : Int → Nat) (t t' : BPlusTree) (key value : Int) (b : Bool)
    (hi : Inv h (-1) t) (hok : InsertIntoLeaf t key value = Except.ok (t', b)) :
    ∃ h', Inv h' (-1) t' ∧ t'.leaf_max_size = t.leaf_max_size ∧
      t'.internal_max_size = t.internal_max_size := by
  unfold InsertIntoLeaf at hok
  obtain ⟨r, hcrab, hok⟩ := bind_ok _ _ _ hok
  obtain ⟨t1, page⟩ := r
  simp only at hok
  obtain ⟨k1, nl, hnl, hleaf⟩ := Keeps_crabbing t t1 key _ page hcrab
  obtain ⟨lq, hlp, hok⟩ := bind_ok _ _ _ hok
  have elp : some lq = some nl := by rw [← (getNode_ok_iff _ _ _).1 hlp, hnl]
  cases elp
  obtain ⟨hs1, hb1⟩ := Inv_of_Keeps h (-1) t t1 hi k1
  have hg := hs1.2 page nl hnl
  obtain ⟨f1, f2, f3, f4, f5, f6⟩ := LeafInsert_facts nl key value
  have hlf' : (nl.LeafInsert key value).1.IsLeafPage = true := by
    simp only [Node.IsLeafPage, f2]; exact hleaf
  set t2 := setNode t1 page (nl.LeafInsert key value).1 with ht2
  have hs2 : Str h t2 := by
    apply Str_setNode h t1 _ _ hs1
    intro n0 _
    refine GoodNode_of_eq _ _ _ _ _ nl _ hg f1 f2 f3 f4 ?_
    intro hc; rw [hleaf] at hc; cases hc
  have hc2 : cfg t2 = cfg t1 := by rw [ht2, cfg_setNode]
  have hd2 : dataAt t2 page = some (nl.LeafInsert key value).1 := by
    rw [ht2, dataAt_setNode, if_pos rfl, hnl]; rfl
  have hb2 : 2 ≤ t2.leaf_max_size → 2 ≤ t2.internal_max_size → BndX page t2 := by
    intro hL hM
    rw [cfg_leaf_max _ _ hc2] at hL
    rw [cfg_internal_max _ _ hc2] at hM
    have hb0 := hb1 hL hM
    intro id n' hn'
    rw [ht2, dataAt_setNode] at hn'
    by_cases he : id = page
    · simp only [he, if_true, hnl, Option.map_some', Option.some.injEq] at hn'
      subst hn'
      right
      refine ⟨he, ?_⟩
      have := (dataAt_range t1 page nl hnl).1
      have := BndX_size_lt (-1) t1 hb0 page nl hnl (by omega)
      omega
    · simp only [he, if_false] at hn'
      have := (dataAt_range t1 id n' hn').1
      exact Or.inl (BndX_size_lt (-1) t1 hb0 id n' hn' (by omega))
  have eL2 : t2.leaf_max_size = t.leaf_max_size := (cfg_leaf_max _ _ hc2).trans k1.1
  have eM2 : t2.internal_max_size = t.internal_max_size :=
    (cfg_internal_max _ _ hc2).trans k1.2.1
  by_cases hfull : (nl.LeafInsert key value).2 = (nl.LeafInsert key value).1.GetMaxSize
  · rw [if_pos hfull] at hok
    obtain ⟨r, hsplit, hok⟩ := bind_ok _ _ _ hok
    obtain ⟨t3, split_page⟩ := r
    simp only at hok
    obtain ⟨sp, hsp, hok⟩ := bind_ok _ _ _ hok
    obtain ⟨t4, h4, hok⟩ := bind_ok _ _ _ hok
    obtain ⟨t5, h5, hok⟩ := bind_ok _ _ _ hok
    simp only [pure, Except.pure, Except.ok.injEq, Prod.mk.injEq] at hok
    obtain ⟨rfl, _⟩ := hok
    obtain ⟨e1, hi3, hc3, hex3⟩ := Split_inv h t2 t3 IndexPageType.LEAF_PAGE page split_page _
      ⟨hs2, hb2⟩ hd2 (by simp [hlf']) hsplit
    subst e1
    have hlt : page ≠ (t2.pages.length : Int) := by
      have := (dataAt_range t2 page _ hd2).2
      omega
    obtain ⟨h'', hi4, eL4, eM4⟩ := InsertIntoParent_inv _ _ t3 t4 page (sp.KeyAt 0)
      (t2.pages.length : Int) hi3
      (by rw [Function.update_same, Function.update_noteq hlt]) hex3 h4
    have k5 : Keeps t4 t5 := Keeps_trans _ _ _ (Keeps_TryUnlatchRoot t4 _)
      (Keeps_ReleaseAllPages _ t5 h5)
    refine ⟨h'', Inv_of_Keeps _ _ t4 _ hi4 k5, ?_, ?_⟩
    · rw [k5.1, eL4]
      exact (congrArg (fun c => c.2.1) hc3).trans eL2
    · rw [k5.2.1, eM4]
      exact (congrArg (fun c => c.2.2) hc3).trans eM2
  · rw [if_neg hfull] at hok
    obtain ⟨t5, h5, hok⟩ := bind_ok _ _ _ hok
    simp only [pure, Except.pure, Except.ok.injEq, Prod.mk.injEq] at hok
    obtain ⟨rfl, _⟩ := hok
    have k5 : Keeps t2 t5 := Keeps_trans _ _ _ (Keeps_TryUnlatchRoot t2 _)
      (Keeps_ReleaseAllPages _ t5 h5)
    refine ⟨h, Inv_of_Keeps _ _ t2 _ ⟨hs2, ?_⟩ k5, k5.1.trans eL2, k5.2.1.trans eM2⟩
    intro hL hM
    apply BndX_strengthen _ _ (hb2 hL hM)
    intro n0 hn0
    rw [hd2] at hn0
    cases hn0
    have := BndX_size_le _ _ (hb2 hL hM) _ _ hd2
    simp only [Node.GetMaxSize] at hfull
    omega

/-- `Insert` keeps the invariant. -/
theorem Insert_inv (h : Int → Nat) (t t' : BPlusTree) (key value : Int) (b : Bool)
    (hi : Inv h (-1) t) (hok : Insert t key value = Except.ok (t', b)) :
    ∃ h', Inv h' (-1) t' ∧ t'.leaf_max_size = t.leaf_max_size ∧
      t'.internal_max_size = t.internal_max_size := by
  unfold Insert at hok
  obtain ⟨t1, h1, hok⟩ := bind_ok _ _ _ hok
  have k1 := Keeps_LatchRoot t t1 _ h1
  have hi1 := Inv_of_Keeps h (-1) t t1 hi k1
  by_cases hemp : IsEmpty t1 = true
  · rw [if_pos hemp] at hok
    obtain ⟨t2, h2, hok⟩ := bind_ok _ _ _ hok
    simp only [pure, Except.pure, Except.ok.injEq, Prod.mk.injEq] at hok
    obtain ⟨rfl, _⟩ := hok
    obtain ⟨h', hi2, eL, eM⟩ := StartNewTree_inv h t1 t2 key value hi1 h2
    have k3 := Keeps_TryUnlatchRoot t2 OP_TYPE.INSERT
    exact ⟨h', Inv_of_Keeps _ _ t2 _ hi2 k3, k3.1.trans (eL.trans k1.1),
      k3.2.1.trans (eM.trans k1.2.1)⟩
  · rw [if_neg hemp] at hok
    have k2 := Keeps_TryUnlatchRoot t1 OP_TYPE.INSERT
    obtain ⟨h', hi3, eL, eM⟩ := InsertIntoLeaf_inv h _ t' key value b
      (Inv_of_Keeps _ _ t1 _ hi1 k2) hok
    exact ⟨h', hi3, eL.trans (k2.1.trans k1.1), eM.trans (k2.2.1.trans k1.2.1)⟩

theorem GoodNode_max_ge (h : Int → Nat) (len : Nat) (L M : Int) (id : Int) (n : Node)
    (hg : GoodNode h len L M id n) (hL : 2 ≤ L) (hM : 2 ≤ M) : 2 ≤ n.max_size := by
  cases hl : n.IsLeafPage with
  | true => rw [hg.leaf_max hl]; exact hL
  | false => rw [hg.internal_max hl]; omega

theorem size_succ_lt_max (n : Node) (h1 : n.size < n.GetMinSize) (h2 : 2 ≤ n.max_size) :
    n.size + 1 < n.max_size := by
  have : n.GetMinSize = (n.max_size + 1) / 2 := rfl
  omega

theorem GoodNode_SetKeyAt (h : Int → Nat) (len : Nat) (L M : Int) (id : Int) (n : Node)
    (i key : Int) (hg : GoodNode h len L M id n) :
    GoodNode h len L M id (n.SetKeyAt i key) := by
  refine GoodNode_of_eq _ _ _ _ _ n _ hg ?_ ?_ ?_ ?_ ?_
  · rfl
  · rfl
  · rfl
  · rfl
  · intro hl
    exact all_slotSet _ (slotOK_zero _ _ _) _ _ _ (hg.slots hl)
      (all_slotAt _ (slotOK_zero _ _ _) _ _ (hg.slots hl))

theorem GoodNode_Remove (h : Int → Nat) (len : Nat) (L M : Int) (id : Int) (n : Node)
    (i : Int) (hg : GoodNode h len L M id n) : GoodNode h len L M id (n.Remove i) := by
  refine GoodNode_of_eq _ _ _ _ _ n _ hg ?_ ?_ ?_ ?_ ?_
  · rfl
  · rfl
  · rfl
  · rfl
  · intro hl
    exact all_shiftDown _ (slotOK_zero _ _ _) _ _ _ (hg.slots hl)

theorem GoodNode_size (h : Int → Nat) (len : Nat) (L M : Int) (id : Int) (n : Node)
    (s : Int) (hg : GoodNode h len L M id n) : GoodNode h len L M id { n with size := s } :=
  ⟨hg.page_id, hg.leaf_iff, hg.leaf_max, hg.internal_max, hg.slots, hg.parent⟩

/-- Two pages on the same level have the same max size. -/
theorem same_level_max (h : Int → Nat) (t : BPlusTree) (hs : Str h t) (a b : Int)
    (na nb : Node) (ha : dataAt t a = some na) (hb : dataAt t b = some nb) (hh : h a = h b) :
    na.max_size = nb.max_size ∧ na.IsLeafPage = nb.IsLeafPage := by
  have ga := hs.2 a na ha
  have gb := hs.2 b nb hb
  cases hl : na.IsLeafPage with
  | true =>
    have : nb.IsLeafPage = true := gb.leaf_iff.2 (by rw [← hh]; exact ga.leaf_iff.1 hl)
    rw [this, ga.leaf_max hl, gb.leaf_max this]
    exact ⟨rfl, rfl⟩
  | false =>
    have hne : h a ≠ 0 := fun e => by
      have := ga.leaf_iff.2 e
      rw [hl] at this
      cases this
    have : nb.IsLeafPage = false := GoodNode_not_leaf _ _ _ _ _ _ gb (by rw [← hh]; exact hne)
    rw [this, ga.internal_max hl, gb.internal_max this]
    exact ⟨rfl, rfl⟩

/-- The internal `MoveAllTo` keeps the invariant when donor and recipient are internal pages of
one level. -/
theorem MoveAllTo_inv (h : Int → Nat) (self recipient middle_key : Int) (t t' : BPlusTree)
    (hi : Inv h (-1) t) (hme : ∀ me, dataAt t self = some me → me.IsLeafPage = false)
    (hh : h recipient = h self) (hok : MoveAllTo t self recipient middle_key = Except.ok t') :
    Inv h (-1) t' ∧ cfg t' = cfg t := by
  obtain ⟨hs, hb⟩ := hi
  unfold MoveAllTo at hok
  obtain ⟨r, hr, hok⟩ := bind_ok _ _ _ hok
  obtain ⟨me, hme0, hok⟩ := bind_ok _ _ _ hok
  obtain ⟨t1, h1, hok⟩ := bind_ok _ _ _ hok
  have hr' := (getNode_ok_iff _ _ _).1 hr
  have hme' := (getNode_ok_iff _ _ _).1 hme0
  have hleaf := hme me hme'
  have hg := hs.2 self me hme'
  obtain ⟨hs1, hsz1, hc1⟩ := CopyNFrom_inv h recipient _ _ t t1 hs
    (by
      rw [hh]
      exact all_slotsFrom _ (slotOK_zero _ _ _) _ _ _ (hg.slots hleaf)) h1
  split_ifs at hok
  obtain ⟨r1, hr1, hok⟩ := bind_ok _ _ _ hok
  obtain ⟨me2, hme2, hok⟩ := bind_ok _ _ _ hok
  simp only [pure, Except.pure, Except.ok.injEq] at hok
  subst hok
  have hr1' := (getNode_ok_iff _ _ _).1 hr1
  have hme2' := (getNode_ok_iff _ _ _).1 hme2
  set t2 := setNode t1 recipient (r1.SetKeyAt (r.GetSize - 1) middle_key) with ht2
  have hs2 : Str h t2 := by
    apply Str_setNode h t1 _ _ hs1
    intro n0 hn0
    rw [hr1'] at hn0
    cases hn0
    exact GoodNode_SetKeyAt _ _ _ _ _ _ _ _ (hs1.2 _ _ hr1')
  have hc2 : cfg t2 = cfg t := by rw [ht2, cfg_setNode, hc1]
  have hsz2 : ∀ id, szAt t2 id = szAt t1 id :=
    fun id => szAt_setNode_same t1 recipient _ r1 hr1' (by rfl) (by rfl) id
  refine ⟨⟨?_, ?_⟩, by rw [cfg_setNode, hc2]⟩
  · apply Str_setNode h t2 _ _ hs2
    intro n0 hn0
    rw [hme2'] at hn0
    cases hn0
    exact GoodNode_size _ _ _ _ _ _ _ (hs2.2 _ _ hme2')
  · intro hL hM
    rw [setNode_leaf_max, cfg_leaf_max _ _ hc2] at hL
    rw [setNode_internal_max, cfg_internal_max _ _ hc2] at hM
    have hb0 := hb hL hM
    intro id n' hn'
    left
    have e := szAt_some _ id n' hn'
    rw [szAt_setNode] at e
    by_cases he : id = self
    · subst he
      simp only [if_true, szAt_some t2 id me2 hme2', Option.map_some', Option.some.injEq,
        Prod.mk.injEq] at e
      have := GoodNode_max_ge _ _ _ _ _ _ (hs2.2 _ _ hme2')
        (by rw [cfg_leaf_max _ _ hc2]; exact hL) (by rw [cfg_internal_max _ _ hc2]; exact hM)
      omega
    · simp only [he, if_false, hsz2, hsz1] at e
      by_cases he2 : id = recipient
      · subst he2
        simp only [if_true, szAt_some t id r hr', Option.map_some', Option.some.injEq,
          Prod.mk.injEq] at e
        have hm := (same_level_max h t hs self id me r hme' hr' hh.symm).1
        have := (dataAt_range t self me hme').1
        have := BndX_size_lt (-1) t hb0 self me hme' (by omega)
        simp only [Node.GetSize] at e
        omega
      · simp only [he2, if_false] at e
        obtain ⟨n0, hn0, e1, e2⟩ := szAt_eq_some t id _ _ e
        have := (dataAt_range t id n0 hn0).1
        have := BndX_size_lt (-1) t hb0 id n0 hn0 (by omega)
        omega

theorem GrowsAt_of_szAt (x : Int) (t t' : BPlusTree)
    (hsz : ∀ id, szAt t' id = if id = x then (szAt t x).map (fun p => (p.1 + 1, p.2))
      else szAt t id) : GrowsAt x t t' := by
  intro id n' hn'
  have e := szAt_some t' id n' hn'
  rw [hsz] at e
  by_cases he : id = x
  · subst he
    simp only [if_true] at e
    cases hz : szAt t id with
    | none => simp [hz] at e
    | some p =>
      obtain ⟨s, m⟩ := p
      obtain ⟨n, hn, e1, e2⟩ := szAt_eq_some t id s m hz
      simp only [hz, Option.map_some', Option.some.injEq, Prod.mk.injEq] at e
      exact ⟨n, hn, by omega, by simp; omega⟩
  · simp only [he, if_false] at e
    obtain ⟨n, hn, e1, e2⟩ := szAt_eq_some t id _ _ e
    exact ⟨n, hn, by omega, by simp [he]; omega⟩

/-- A node update that does not raise the size, followed by a step in which only `x` grows. -/
theorem GrowsAt_setNode_le (x : Int) (t t' : BPlusTree) (id0 : Int) (n0 n1 : Node)
    (h0 : dataAt t id0 = some n0) (hm : n1.max_size = n0.max_size) (hle : n1.size ≤ n0.size)
    (hg : GrowsAt x (setNode t id0 n1) t') : GrowsAt x t t' := by
  intro id n' hn'
  obtain ⟨n, hn, e1, e2⟩ := hg id n' hn'
  rw [dataAt_setNode] at hn
  by_cases he : id = id0
  · subst he
    simp only [if_true, h0, Option.map_some', Option.some.injEq] at hn
    subst hn
    exact ⟨n0, h0, by omega, by omega⟩
  · simp only [he, if_false] at hn
    exact ⟨n, hn, e1, e2⟩

theorem GrowsAt_of_Keeps (x : Int) (t t' : BPlusTree) (k : Keeps t t') : GrowsAt x t t' := by
  intro id n' hn'
  refine ⟨n', k.2.2.2 id n' hn', rfl, ?_⟩
  split_ifs <;> omega

theorem GrowsAt_trans_keeps (x : Int) (t t1 t' : BPlusTree) (hg : GrowsAt x t t1)
    (k : Keeps t1 t') : GrowsAt x t t' := by
  intro id n' hn'
  exact hg id n' (k.2.2.2 id n' hn')

theorem GrowsAt_keeps_trans (x : Int) (t t1 t' : BPlusTree) (k : Keeps t t1)
    (hg : GrowsAt x t1 t') : GrowsAt x t t' := by
  intro id n' hn'
  obtain ⟨n, hn, e⟩ := hg id n' hn'
  exact ⟨n, k.2.2.2 id n hn, e⟩

/-- The occupancy bound after a step in which only `x` grows, when `x` had room for one more
entry. -/
theorem BndX_of_GrowsAt (x : Int) (t t' : BPlusTree) (hb : BndX (-1) t) (hg : GrowsAt x t t')
    (hx : ∀ n, dataAt t x = some n → n.size + 1 < n.max_size) : BndX (-1) t' := by
  intro id n' hn'
  left
  obtain ⟨n, hn, e1, e2⟩ := hg id n' hn'
  have h0 := (dataAt_range t id n hn).1
  have hlt := BndX_size_lt (-1) t hb id n hn (by omega)
  by_cases he : id = x
  · subst he
    have := hx n hn
    simp only [if_true] at e2
    omega
  · simp only [he, if_false] at e2
    omega

/-- `CopyLastFrom` keeps the shape of the pool; the recipient grows by one entry. -/
theorem CopyLastFrom_inv (h : Int → Nat) (self : Int) (item : MappingType) (t t' : BPlusTree)
    (hs : Str h t) (hitem : slotOK h t.pages.length (h self) item)
    (hok : CopyLastFrom t self item = Except.ok t') :
    Str h t' ∧ cfg t' = cfg t ∧ GrowsAt self t t' := by
  unfold CopyLastFrom at hok
  obtain ⟨me, hme, hok⟩ := bind_ok _ _ _ hok
  have hme' := (getNode_ok_iff _ _ _).1 hme
  split_ifs at hok
  have hg := hs.2 self me hme'
  set t1 := setNode t self
    { me with array := slotSet me.array (me.GetSize - 1) item, size := me.GetSize + 1 } with ht1
  have hs1 : Str h t1 := by
    apply Str_setNode h t _ _ hs
    intro n0 _
    refine GoodNode_of_eq _ _ _ _ _ me _ hg ?_ ?_ ?_ ?_ ?_
    · rfl
    · rfl
    · rfl
    · rfl
    · intro hl
      exact all_slotSet _ (slotOK_zero _ _ _) _ _ _ (hg.slots hl) hitem
  have hc1 : cfg t1 = cfg t := by rw [ht1, cfg_setNode]
  have hsz1 : ∀ id, szAt t1 id =
      if id = self then (szAt t self).map (fun p => (p.1 + 1, p.2)) else szAt t id := by
    intro id
    rw [ht1, szAt_setNode]
    by_cases he : id = self
    · simp [he, szAt_some t self me hme', Node.GetSize]
    · simp [he]
  cases hf : FetchPage t1 item.2 with
  | none => simp [hf] at hok
  | some t2 =>
    simp only [hf] at hok
    obtain ⟨me2, hme2, hok⟩ := bind_ok _ _ _ hok
    obtain ⟨child, hchild, hok⟩ := bind_ok _ _ _ hok
    simp only [pure, Except.pure, Except.ok.injEq] at hok
    subst hok
    have k2 := Keeps_FetchPage t1 t2 _ hf
    have hs2 : Str h t2 := Str_of_Keeps h t1 t2 hs1 k2
    have hc2 : cfg t2 = cfg t := (cfg_FetchPage t1 t2 _ hf).trans hc1
    have hme2' := (getNode_ok_iff _ _ _).1 hme2
    have hchild' := (getNode_ok_iff _ _ _).1 hchild
    have hitem2 : slotOK h t2.pages.length (h self) item := by
      rw [cfg_length _ _ hc2]; exact hitem
    obtain ⟨hi1, hi2, hi3⟩ := slotOK_exists h t2 hs2 _ item hitem2 child hchild'
    have hself := Str_dataAt_ne_zero h t2 hs2 self me2 hme2'
    have hgme2 := hs2.2 self me2 hme2'
    set t3 := setNode t2 item.2 { child with parent_page_id := me2.page_id } with ht3
    have hs3 : Str h t3 := by
      apply Str_setNode h t2 _ _ hs2
      intro n0 _
      apply GoodNode_parent _ _ _ _ _ _ _ (hs2.2 _ _ hchild')
      rw [hgme2.page_id]
      exact Or.inr ⟨hself.1, hself.2, by omega⟩
    have k4 := Keeps_UnpinPage t3 item.2 true
    refine ⟨Str_of_Keeps h t3 _ hs3 k4, ?_, ?_⟩
    · rw [cfg_of_Keeps _ _ k4, ht3, cfg_setNode, hc2]
    · apply GrowsAt_trans_keeps _ _ t3 _ _ k4
      apply GrowsAt_of_szAt
      intro id
      rw [ht3, szAt_setNode_same t2 item.2 _ child hchild' (by rfl) (by rfl),
        szAt_FetchPage t1 t2 _ hf, hsz1]

/-- `CopyFirstFrom` keeps the shape of the pool; the recipient grows by one entry. -/
theorem CopyFirstFrom_inv (h : Int → Nat) (self : Int) (item : MappingType) (t t' : BPlusTree)
    (hs : Str h t) (hitem : slotOK h t.pages.length (h self) item)
    (hok : CopyFirstFrom t self item = Except.ok t') :
    Str h t' ∧ cfg t' = cfg t ∧ GrowsAt self t t' := by
  unfold CopyFirstFrom at hok
  obtain ⟨me, hme, hok⟩ := bind_ok _ _ _ hok
  have hme' := (getNode_ok_iff _ _ _).1 hme
  have hg := hs.2 self me hme'
  simp only at hok
  generalize ha : slotSet
      (slotSet (Node.shiftUp (me.GetSize - 1).toNat me.GetSize me.array) 0
        (item.1, (slotAt (Node.shiftUp (me.GetSize - 1).toNat me.GetSize me.array) 0).2)) 1
      ((slotAt
            (slotSet (Node.shiftUp (me.GetSize - 1).toNat me.GetSize me.array) 0
              (item.1, (slotAt (Node.shiftUp (me.GetSize - 1).toNat me.GetSize me.array) 0).2))
            1).1,
        item.2) = a at hok
  have hall : me.IsLeafPage = false → ∀ s ∈ a, slotOK h t.pages.length (h self) s := by
    intro hl
    subst ha
    have h1 := all_shiftUp _ (slotOK_zero h t.pages.length (h self)) (me.GetSize - 1).toNat
      me.GetSize me.array (hg.slots hl)
    have h2 := all_slotSet _ (slotOK_zero h t.pages.length (h self)) _ 0
      (item.1, (slotAt (Node.shiftUp (me.GetSize - 1).toNat me.GetSize me.array) 0).2) h1
      (all_slotAt _ (slotOK_zero _ _ _) _ 0 h1)
    exact all_slotSet _ (slotOK_zero _ _ _) _ 1 _ h2 hitem
  set t1 := setNode t self { me with array := a, size := me.GetSize + 1 } with ht1
  have hs1 : Str h t1 := by
    apply Str_setNode h t _ _ hs
    intro n0 _
    refine GoodNode_of_eq _ _ _ _ _ me _ hg ?_ ?_ ?_ ?_ hall
    · rfl
    · rfl
    · rfl
    · rfl
  have hc1 : cfg t1 = cfg t := by rw [ht1, cfg_setNode]
  have hsz1 : ∀ id, szAt t1 id =
      if id = self then (szAt t self).map (fun p => (p.1 + 1, p.2)) else szAt t id := by
    intro id
    rw [ht1, szAt_setNode]
    by_cases he : id = self
    · simp [he, szAt_some t self me hme', Node.GetSize]
    · simp [he]
  cases hf : FetchPage t1 item.2 with
  | none => simp [hf] at hok
  | some t2 =>
    simp only [hf] at hok
    obtain ⟨me2, hme2, hok⟩ := bind_ok _ _ _ hok
    obtain ⟨child, hchild, hok⟩ := bind_ok _ _ _ hok
    simp only [pure, Except.pure, Except.ok.injEq] at hok
    subst hok
    have k2 := Keeps_FetchPage t1 t2 _ hf
    have hs2 : Str h t2 := Str_of_Keeps h t1 t2 hs1 k2
    have hc2 : cfg t2 = cfg t := (cfg_FetchPage t1 t2 _ hf).trans hc1
    have hme2' := (getNode_ok_iff _ _ _).1 hme2
    have hchild' := (getNode_ok_iff _ _ _).1 hchild
    have hitem2 : slotOK h t2.pages.length (h self) item := by
      rw [cfg_length _ _ hc2]; exact hitem
    obtain ⟨hi1, hi2, hi3⟩ := slotOK_exists h t2 hs2 _ item hitem2 child hchild'
    have hself := Str_dataAt_ne_zero h t2 hs2 self me2 hme2'
    have hgme2 := hs2.2 self me2 hme2'
    set t3 := setNode t2 item.2 { child with parent_page_id := me2.page_id } with ht3
    have hs3 : Str h t3 := by
      apply Str_setNode h t2 _ _ hs2
      intro n0 _
      apply GoodNode_parent _ _ _ _ _ _ _ (hs2.2 _ _ hchild')
      rw [hgme2.page_id]
      exact Or.inr ⟨hself.1, hself.2, by omega⟩
    have k4 := Keeps_UnpinPage t3 item.2 true
    refine ⟨Str_of_Keeps h t3 _ hs3 k4, ?_, ?_⟩
    · rw [cfg_of_Keeps _ _ k4, ht3, cfg_setNode, hc2]
    · apply GrowsAt_trans_keeps _ _ t3 _ _ k4
      apply GrowsAt_of_szAt
      intro id
      rw [ht3, szAt_setNode_same t2 item.2 _ child hchild' (by rfl) (by rfl),
        szAt_FetchPage t1 t2 _ hf, hsz1]

/-- The internal `MoveFirstToEndOf` keeps the shape of the pool when donor and recipient are
internal pages of one level; only the recipient grows, by one entry. -/
theorem MoveFirstToEndOf_inv (h : Int → Nat) (self recipient middle_key : Int)
    (t t' : BPlusTree) (hs : Str h t)
    (hme : ∀ me, dataAt t self = some me → me.IsLeafPage = false)
    (hh : h recipient = h self)
    (hok : MoveFirstToEndOf t self recipient middle_key = Except.ok t') :
    Str h t' ∧ cfg t' = cfg t ∧ GrowsAt recipient t t' := by
  unfold MoveFirstToEndOf at hok
  obtain ⟨me, hme0, hok⟩ := bind_ok _ _ _ hok
  have hme' := (getNode_ok_iff _ _ _).1 hme0
  have hg := hs.2 self me hme'
  have hleaf := hme me hme'
  simp only at hok
  have hs1 : Str h (setNode t self (me.Remove 0)) := by
    apply Str_setNode h t _ _ hs
    intro n0 _
    exact GoodNode_Remove _ _ _ _ _ _ _ hg
  obtain ⟨r1, r2, r3⟩ := CopyLastFrom_inv h recipient (middle_key, me.ValueAt 0) _ t' hs1
    (by
      rw [setNode_length, hh]
      exact all_slotAt _ (slotOK_zero h t.pages.length (h self)) _ 0 (hg.slots hleaf)) hok
  refine ⟨r1, by rw [r2, cfg_setNode], ?_⟩
  exact GrowsAt_setNode_le _ t t' self me _ hme' (by rfl)
    (by simp [Node.Remove]) r3

/-- The internal `MoveLastToFrontOf` keeps the shape of the pool when donor and recipient are
internal pages of one level; only the recipient grows, by one entry. -/
theorem MoveLastToFrontOf_inv (h : Int → Nat) (self recipient middle_key : Int)
    (t t' : BPlusTree) (hs : Str h t)
    (hme : ∀ me, dataAt t self = some me → me.IsLeafPage = false)
    (hh : h recipient = h self)
    (hok : MoveLastToFrontOf t self recipient middle_key = Except.ok t') :
    Str h t' ∧ cfg t' = cfg t ∧ GrowsAt recipient t t' := by
  unfold MoveLastToFrontOf at hok
  obtain ⟨me, hme0, hok⟩ := bind_ok _ _ _ hok
  have hme' := (getNode_ok_iff _ _ _).1 hme0
  have hg := hs.2 self me hme'
  have hleaf := hme me hme'
  simp only at hok
  have hs1 : Str h (setNode t self (me.Remove (me.GetSize - 1))) := by
    apply Str_setNode h t _ _ hs
    intro n0 _
    exact GoodNode_Remove _ _ _ _ _ _ _ hg
  obtain ⟨r1, r2, r3⟩ := CopyFirstFrom_inv h recipient
    (middle_key, me.ValueAt (me.GetSize - 1)) _ t' hs1
    (by
      rw [setNode_length, hh]
      exact all_slotAt _ (slotOK_zero h t.pages.length (h self)) _ _ (hg.slots hleaf)) hok
  refine ⟨r1, by rw [r2, cfg_setNode], ?_⟩
  exact GrowsAt_setNode_le _ t t' self me _ hme' (by rfl)
    (by simp [Node.Remove]) r3

/-- A node update that keeps the shape and stays below the max size keeps the invariant. -/
theorem Inv_setNode (h : Int → Nat) (t : BPlusTree) (id : Int) (n : Node) (hi : Inv h (-1) t)
    (hg : ∀ n0, dataAt t id = some n0 →
      GoodNode h t.pages.length t.leaf_max_size t.internal_max_size id n)
    (hsz : ∀ n0, dataAt t id = some n0 → 2 ≤ t.leaf_max_size → 2 ≤ t.internal_max_size →
      n.size < n.max_size) : Inv h (-1) (setNode t id n) := by
  refine ⟨Str_setNode h t id n hi.1 hg, ?_⟩
  intro hL hM
  rw [setNode_leaf_max] at hL
  rw [setNode_internal_max] at hM
  exact BndX_setNode (-1) t id n (hi.2 hL hM) (fun n0 hn0 => Or.inl (hsz n0 hn0 hL hM))

theorem Inv_size_lt (h : Int → Nat) (t : BPlusTree) (hi : Inv h (-1) t) (id : Int) (n : Node)
    (hn : dataAt t id = some n) (hL : 2 ≤ t.leaf_max_size) (hM : 2 ≤ t.internal_max_size) :
    n.size < n.max_size := by
  have := (dataAt_range t id n hn).1
  exact BndX_size_lt (-1) t (hi.2 hL hM) id n hn (by omega)

/-- `AdjustRoot` keeps the invariant. -/
theorem AdjustRoot_inv (h : Int → Nat) (t t' : BPlusTree) (root : Int) (b : Bool)
    (hi : Inv h (-1) t) (hok : AdjustRoot t root = Except.ok (t', b)) :
    Inv h (-1) t' ∧ cfg t' = cfg t := by
  unfold AdjustRoot at hok
  obtain ⟨old, hold, hok⟩ := bind_ok _ _ _ hok
  have hold' := (getNode_ok_iff _ _ _).1 hold
  have hg := hi.1.2 root old hold'
  split_ifs at hok with c1 c2
  · simp only [Node.RemoveAndReturnOnlyChild] at hok
    have hi1 : Inv h (-1) (setNode t root (old.Remove 0)) := by
      apply Inv_setNode h t _ _ hi
      · intro n0 _; exact GoodNode_Remove _ _ _ _ _ _ _ hg
      · intro n0 _ hL hM
        have := Inv_size_lt h t hi root old hold' hL hM
        simp only [Node.Remove]
        omega
    set t1 := setNode t root (old.Remove 0) with ht1
    have hc1 : cfg t1 = cfg t := by rw [ht1, cfg_setNode]
    set t2 := UpdateRootPageId { t1 with root_page_id := old.ValueAt 0 } false with ht2
    have k2 : Keeps t1 t2 := Keeps_of_pages _ _ rfl rfl rfl
    cases hf : FetchPage t2 (old.ValueAt 0) with
    | none => simp [hf] at hok
    | some t3 =>
      simp only [hf] at hok
      obtain ⟨child, hchild, hok⟩ := bind_ok _ _ _ hok
      simp only [pure, Except.pure, Except.ok.injEq, Prod.mk.injEq] at hok
      obtain ⟨rfl, _⟩ := hok
      have k3 : Keeps t1 t3 := Keeps_trans _ _ _ k2 (Keeps_FetchPage t2 t3 _ hf)
      have hi3 := Inv_of_Keeps h (-1) t1 t3 hi1 k3
      have hchild' := (getNode_ok_iff _ _ _).1 hchild
      have hi4 : Inv h (-1) (setNode t3 (old.ValueAt 0)
          { child with parent_page_id := INVALID_PAGE_ID }) := by
        apply Inv_setNode h t3 _ _ hi3
        · intro n0 _
          exact GoodNode_parent _ _ _ _ _ _ _ (hi3.1.2 _ _ hchild') (Or.inl rfl)
        · intro n0 _ hL hM
          exact Inv_size_lt h t3 hi3 _ child hchild' hL hM
      have k5 := Keeps_UnpinPage (setNode t3 (old.ValueAt 0)
          { child with parent_page_id := INVALID_PAGE_ID }) (old.ValueAt 0) true
      refine ⟨Inv_of_Keeps _ _ _ _ hi4 k5, ?_⟩
      rw [cfg_of_Keeps _ _ k5, cfg_setNode, cfg_of_Keeps _ _ k3, hc1]
  · simp only [pure, Except.pure, Except.ok.injEq, Prod.mk.injEq] at hok
    obtain ⟨rfl, _⟩ := hok
    have k : Keeps t (UpdateRootPageId { t with root_page_id := INVALID_PAGE_ID } false) :=
      Keeps_of_pages _ _ rfl rfl rfl
    exact ⟨Inv_of_Keeps _ _ _ _ hi k, cfg_of_Keeps _ _ k⟩
  · simp only [pure, Except.pure, Except.ok.injEq, Prod.mk.injEq] at hok
    obtain ⟨rfl, _⟩ := hok
    exact ⟨hi, rfl⟩

theorem GrowsAt_refl (x : Int) (t : BPlusTree) : GrowsAt x t t :=
  GrowsAt_of_Keeps x t t (Keeps_refl t)

/-- A further node update that does not raise the size of the page it writes. -/
theorem GrowsAt_step_le (x : Int) (t t1 : BPlusTree) (id0 : Int) (n1 : Node)
    (hg : GrowsAt x t t1)
    (hle : ∀ c, dataAt t1 id0 = some c → n1.max_size = c.max_size ∧ n1.size ≤ c.size) :
    GrowsAt x t (setNode t1 id0 n1) := by
  intro id n' hn'
  rw [dataAt_setNode] at hn'
  by_cases he : id = id0
  · subst he
    simp only [if_true] at hn'
    cases hc : dataAt t1 id with
    | none => simp [hc] at hn'
    | some c =>
      simp only [hc, Option.map_some', Option.some.injEq] at hn'
      subst hn'
      obtain ⟨n, hn, e1, e2⟩ := hg id c hc
      obtain ⟨f1, f2⟩ := hle c hc
      exact ⟨n, hn, by omega, by omega⟩
  · simp only [he, if_false] at hn'
    exact hg id n' hn'

/-- A further update of page `x` itself, by at most one entry over what `x` held at the start. -/
theorem GrowsAt_step_grow (x : Int) (t t1 : BPlusTree) (n1 : Node) (hg : GrowsAt x t t1)
    (hle : ∀ c, dataAt t x = some c → n1.max_size = c.max_size ∧ n1.size ≤ c.size + 1) :
    GrowsAt x t (setNode t1 x n1) := by
  intro id n' hn'
  rw [dataAt_setNode] at hn'
  by_cases he : id = x
  · subst he
    simp only [if_true] at hn'
    cases hc : dataAt t1 id with
    | none => simp [hc] at hn'
    | some c =>
      simp only [hc, Option.map_some', Option.some.injEq] at hn'
      subst hn'
      obtain ⟨n, hn, _, _⟩ := hg id c hc
      obtain ⟨f1, f2⟩ := hle n hn
      exact ⟨n, hn, f1, by simp; omega⟩
  · simp only [he, if_false] at hn'
    exact hg id n' hn'

theorem GrowsAt_none_trans (x : Int) (t t1 t2 : BPlusTree) (h1 : GrowsAt (-1) t t1)
    (h2 : GrowsAt x t1 t2) : GrowsAt x t t2 := by
  intro id n' hn'
  obtain ⟨n1, hn1, e1, e2⟩ := h2 id n' hn'
  obtain ⟨n, hn, f1, f2⟩ := h1 id n1 hn1
  have h0 := (dataAt_range t id n hn).1
  have hne : ¬ id = -1 := by omega
  simp only [hne, if_false] at f2
  exact ⟨n, hn, by omega, by omega⟩

theorem GrowsAt_trans_none (x : Int) (t t1 t2 : BPlusTree) (h1 : GrowsAt x t t1)
    (h2 : GrowsAt (-1) t1 t2) : GrowsAt x t t2 := by
  intro id n' hn'
  obtain ⟨n1, hn1, e1, e2⟩ := h2 id n' hn'
  obtain ⟨n, hn, f1, f2⟩ := h1 id n1 hn1
  have h0 := (dataAt_range t id n hn).1
  have hne : ¬ id = -1 := by omega
  simp only [hne, if_false] at e2
  exact ⟨n, hn, by omega, by omega⟩

/-- The invariant after a step that keeps the shape and lets only `x` grow, when `x` was below
its minimum size. -/
theorem Inv_of_GrowsAt (h : Int → Nat) (x : Int) (t t' : BPlusTree) (hi : Inv h (-1) t)
    (hs' : Str h t') (hc : cfg t' = cfg t) (hg : GrowsAt x t t')
    (hx : ∀ n, dataAt t x = some n → n.size < n.GetMinSize) : Inv h (-1) t' := by
  refine ⟨hs', ?_⟩
  intro hL hM
  rw [cfg_leaf_max _ _ hc] at hL
  rw [cfg_internal_max _ _ hc] at hM
  apply BndX_of_GrowsAt x t t' (hi.2 hL hM) hg
  intro n hn
  exact size_succ_lt_max n (hx n hn) (GoodNode_max_ge _ _ _ _ _ _ (hi.1.2 x n hn) hL hM)

theorem LeafMoveFirstToEndOf_facts (n r : Node) :
    (SameHead (n.LeafMoveFirstToEndOf r).1 n ∧ (n.LeafMoveFirstToEndOf r).1.size ≤ n.size) ∧
      SameHead (n.LeafMoveFirstToEndOf r).2 r ∧
      (n.LeafMoveFirstToEndOf r).2.size ≤ r.size + 1 := by
  unfold Node.LeafMoveFirstToEndOf SameHead
  cases n.array <;> simp

theorem LeafMoveLastToFrontOf_facts (n r : Node) :
    (SameHead (n.LeafMoveLastToFrontOf r).1 n ∧ (n.LeafMoveLastToFrontOf r).1.size ≤ n.size) ∧
      SameHead (n.LeafMoveLastToFrontOf r).2 r ∧
      (n.LeafMoveLastToFrontOf r).2.size ≤ r.size + 1 := by
  unfold Node.LeafMoveLastToFrontOf SameHead
  cases n.array.getLast? <;> simp

theorem GoodNode_leaf_of_SameHead (h : Int → Nat) (len : Nat) (L M : Int) (id : Int)
    (n n' : Node) (hg : GoodNode h len L M id n) (hl : n.IsLeafPage = true)
    (e : SameHead n' n) : GoodNode h len L M id n' :=
  GoodNode_of_eq h len L M id n n' hg e.1 e.2.1 e.2.2.1 e.2.2.2
    (fun hf => by rw [hl] at hf; cases hf)

/-- Writing back a leaf donor that did not grow and a leaf recipient that grew by at most one
entry. -/
theorem leaf_pair_inv (h : Int → Nat) (t : BPlusTree) (node neighbor : Int)
    (n nb n' nb' : Node) (hs : Str h t) (hn : dataAt t node = some n)
    (hnb : dataAt t neighbor = some nb) (hl : n.IsLeafPage = true)
    (hh : h neighbor = h node) (e1 : SameHead nb' nb) (e2 : SameHead n' n)
    (s1 : nb'.size ≤ nb.size) (s2 : n'.size ≤ n.size + 1) :
    Str h (setNode (setNode t neighbor nb') node n') ∧
      cfg (setNode (setNode t neighbor nb') node n') = cfg t ∧
      GrowsAt node t (setNode (setNode t neighbor nb') node n') := by
  have hlb : nb.IsLeafPage = true := by
    rw [← (same_level_max h t hs node neighbor n nb hn hnb hh.symm).2]; exact hl
  have hs2 : Str h (setNode t neighbor nb') :=
    Str_setNode h t neighbor nb' hs
      (fun _ _ => GoodNode_leaf_of_SameHead _ _ _ _ _ nb nb' (hs.2 neighbor nb hnb) hlb e1)
  refine ⟨Str_setNode h _ node n' hs2 (fun _ _ => ?_), by rw [cfg_setNode, cfg_setNode], ?_⟩
  · rw [setNode_length, setNode_leaf_max, setNode_internal_max]
    exact GoodNode_leaf_of_SameHead _ _ _ _ _ n n' (hs.2 node n hn) hl e2
  · apply GrowsAt_step_grow node t _ n'
    · apply GrowsAt_step_le node t t neighbor nb' (GrowsAt_refl node t)
      intro c hc
      rw [hnb] at hc
      cases hc
      exact ⟨e1.2.2.1, s1⟩
    · intro c hc
      rw [hn] at hc
      cases hc
      exact ⟨e2.2.2.1, s2⟩

/-- Overwriting a separator key in a page keeps the shape and all sizes. -/
theorem setKey_inv (h : Int → Nat) (t : BPlusTree) (p : Int) (pn : Node) (i k : Int)
    (hs : Str h t) (hp : dataAt t p = some pn) :
    Str h (setNode t p (pn.SetKeyAt i k)) ∧ cfg (setNode t p (pn.SetKeyAt i k)) = cfg t ∧
      GrowsAt (-1) t (setNode t p (pn.SetKeyAt i k)) := by
  refine ⟨Str_setNode h t p _ hs (fun _ _ => GoodNode_SetKeyAt _ _ _ _ _ _ _ _ (hs.2 p pn hp)),
    cfg_setNode _ _ _, ?_⟩
  apply GrowsAt_step_le (-1) t t p _ (GrowsAt_refl _ t)
  intro c hc
  rw [hp] at hc
  cases hc
  exact ⟨rfl, le_refl _⟩

/-- `Redistribute` keeps the invariant when the node is below its minimum size and the neighbor
is on the node's level. -/
theorem Redistribute_inv (h : Int → Nat) (t t' : BPlusTree) (neighbor_node : Option Int)
    (node index : Int) (hi : Inv h (-1) t)
    (hnb : ∀ nbid, neighbor_node = some nbid → h nbid = h node)
    (hsmall : ∀ n, dataAt t node = some n → n.size < n.GetMinSize)
    (hok : Redistribute t neighbor_node node index = Except.ok t') :
    Inv h (-1) t' ∧ cfg t' = cfg t := by
  unfold Redistribute at hok
  obtain ⟨n, hn0, hok⟩ := bind_ok _ _ _ hok
  have hn := (getNode_ok_iff _ _ _).1 hn0
  cases hf : FetchPage t n.parent_page_id with
  | none => simp [hf] at hok
  | some t1 =>
    simp only [hf] at hok
    have k1 := Keeps_FetchPage t t1 _ hf
    have hs1 : Str h t1 := Str_of_Keeps h t t1 hi.1 k1
    have hn1 : dataAt t1 node = some n := by
      rw [dataAt_FetchPage t t1 _ hf]; exact hn
    obtain ⟨pn, hpn0, hok⟩ := bind_ok _ _ _ hok
    have hpn := (getNode_ok_iff _ _ _).1 hpn0
    cases hv : pn.ValueIndex n.page_id with
    | none => simp [hv] at hok
    | some node_index =>
      simp only [hv] at hok
      cases neighbor_node with
      | none => simp at hok
      | some neighbor =>
        simp only at hok
        have hh := hnb neighbor rfl
        obtain ⟨nb, hnb0, hok⟩ := bind_ok _ _ _ hok
        have hnb1 := (getNode_ok_iff _ _ _).1 hnb0
        suffices hmain : Str h t' ∧ cfg t' = cfg t1 ∧ GrowsAt node t1 t' by
          have hc : cfg t' = cfg t := hmain.2.1.trans (cfg_of_Keeps _ _ k1)
          exact ⟨Inv_of_GrowsAt h node t t' hi hmain.1 hc
            (GrowsAt_keeps_trans node t t1 t' k1 hmain.2.2) hsmall, hc⟩
        by_cases hl : n.IsLeafPage = true
        · rw [if_pos hl] at hok
          by_cases hx : index = NODE_IS_LEFT
          · rw [if_pos hx] at hok
            obtain ⟨⟨e1, s1⟩, e2, s2⟩ := LeafMoveFirstToEndOf_facts nb n
            obtain ⟨hs3, hc3, hg3⟩ := leaf_pair_inv h t1 node neighbor n nb _ _ hs1 hn1 hnb1 hl hh
              e1 e2 s1 s2
            obtain ⟨pn2, hpn2, hok⟩ := bind_ok _ _ _ hok
            obtain ⟨nb2, _, hok⟩ := bind_ok _ _ _ hok
            simp only [pure, Except.pure, Except.ok.injEq] at hok
            subst hok
            obtain ⟨hs4, hc4, hg4⟩ := setKey_inv h _ n.parent_page_id pn2 (node_index + 1)
              (nb2.KeyAt 0) hs3 ((getNode_ok_iff _ _ _).1 hpn2)
            have k5 := Keeps_UnpinPage (setNode (setNode (setNode t1 neighbor
              (nb.LeafMoveFirstToEndOf n).1) node (nb.LeafMoveFirstToEndOf n).2)
              n.parent_page_id (pn2.SetKeyAt (node_index + 1) (nb2.KeyAt 0))) pn2.page_id true
            exact ⟨Str_of_Keeps h _ _ hs4 k5, by rw [cfg_of_Keeps _ _ k5, hc4, hc3],
              GrowsAt_trans_keeps node _ _ _ (GrowsAt_trans_none node _ _ _ hg3 hg4) k5⟩
          · rw [if_neg hx] at hok
            obtain ⟨⟨e1, s1⟩, e2, s2⟩ := LeafMoveLastToFrontOf_facts nb n
            obtain ⟨hs3, hc3, hg3⟩ := leaf_pair_inv h t1 node neighbor n nb _ _ hs1 hn1 hnb1 hl hh
              e1 e2 s1 s2
            obtain ⟨pn2, hpn2, hok⟩ := bind_ok _ _ _ hok
            obtain ⟨n2, _, hok⟩ := bind_ok _ _ _ hok
            simp only [pure, Except.pure, Except.ok.injEq] at hok
            subst hok
            obtain ⟨hs4, hc4, hg4⟩ := setKey_inv h _ n.parent_page_id pn2 node_index
              (n2.KeyAt 0) hs3 ((getNode_ok_iff _ _ _).1 hpn2)
            have k5 := Keeps_UnpinPage (setNode (setNode (setNode t1 neighbor
              (nb.LeafMoveLastToFrontOf n).1) node (nb.LeafMoveLastToFrontOf n).2)
              n.parent_page_id (pn2.SetKeyAt node_index (n2.KeyAt 0))) pn2.page_id true
            exact ⟨Str_of_Keeps h _ _ hs4 k5, by rw [cfg_of_Keeps _ _ k5, hc4, hc3],
              GrowsAt_trans_keeps node _ _ _ (GrowsAt_trans_none node _ _ _ hg3 hg4) k5⟩
        · rw [if_neg hl] at hok
          have hl' : n.IsLeafPage = false := by simpa using hl
          have hh0 : h node ≠ 0 := by
            intro e0
            have := (hs1.2 node n hn1).leaf_iff.2 e0
            rw [hl'] at this; cases this
          by_cases hx : index = NODE_IS_LEFT
          · rw [if_pos hx] at hok
            obtain ⟨t3, hmv, hok⟩ := bind_ok _ _ _ hok
            obtain ⟨pn2, hpn2, hok⟩ := bind_ok _ _ _ hok
            simp only [pure, Except.pure, Except.ok.injEq] at hok
            subst hok
            obtain ⟨hs2, hc2, hg2⟩ := setKey_inv h t1 n.parent_page_id pn (node_index + 1)
              (nb.KeyAt 1) hs1 hpn
            obtain ⟨hs3, hc3, hg3⟩ := MoveFirstToEndOf_inv h neighbor node _ _ t3 hs2
              (fun me hme => GoodNode_not_leaf _ _ _ _ _ _ (hs2.2 neighbor me hme)
                (by rw [hh]; exact hh0)) hh.symm hmv
            have k5 := Keeps_UnpinPage t3 pn2.page_id true
            exact ⟨Str_of_Keeps h _ _ hs3 k5, by rw [cfg_of_Keeps _ _ k5, hc3, hc2],
              GrowsAt_trans_keeps node _ _ _ (GrowsAt_none_trans node _ _ _ hg2 hg3) k5⟩
          · rw [if_neg hx] at hok
            obtain ⟨t3, hmv, hok⟩ := bind_ok _ _ _ hok
            obtain ⟨pn2, hpn2, hok⟩ := bind_ok _ _ _ hok
            simp only [pure, Except.pure, Except.ok.injEq] at hok
            subst hok
            obtain ⟨hs2, hc2, hg2⟩ := setKey_inv h t1 n.parent_page_id pn node_index
              (nb.KeyAt (nb.GetSize - 1)) hs1 hpn
            obtain ⟨hs3, hc3, hg3⟩ := MoveLastToFrontOf_inv h neighbor node _ _ t3 hs2
              (fun me hme => GoodNode_not_leaf _ _ _ _ _ _ (hs2.2 neighbor me hme)
                (by rw [hh]; exact hh0)) hh.symm hmv
            have k5 := Keeps_UnpinPage t3 pn2.page_id true
            exact ⟨Str_of_Keeps h _ _ hs3 k5, by rw [cfg_of_Keeps _ _ k5, hc3, hc2],
              GrowsAt_trans_keeps node _ _ _ (GrowsAt_none_trans node _ _ _ hg2 hg3) k5⟩

theorem LeafMoveAllTo_facts (n r : Node) :
    (SameHead (n.LeafMoveAllTo r).1 n ∧ (n.LeafMoveAllTo r).1.size = 0) ∧
      SameHead (n.LeafMoveAllTo r).2 r ∧ (n.LeafMoveAllTo r).2.size = r.size + n.size := by
  unfold Node.LeafMoveAllTo SameHead
  simp

/-- With the left index the roles of the two pages are swapped. -/
theorem Coalesce_left (recurse : BPlusTree → Int → Except Err (BPlusTree × Bool))
    (t : BPlusTree) (a b parent : Int) :
    Coalesce recurse t a b parent NODE_IS_LEFT = Coalesce recurse t b a parent NODE_IS_RIGHT := by
  unfold Coalesce
  rfl

/-- `Coalesce` with the node as the donor keeps the invariant when the two pages together fit in
one page. -/
theorem Coalesce_inv_right (h : Int → Nat)
    (recurse : BPlusTree → Int → Except Err (BPlusTree × Bool)) (t t' : BPlusTree)
    (neighbor_node_ node_ parent index : Int) (b : Bool) (hx : ¬ index = NODE_IS_LEFT)
    (hi : Inv h (-1) t) (hh : h neighbor_node_ = h node_)
    (hsum : ∀ a c, dataAt t node_ = some a → dataAt t neighbor_node_ = some c →
      a.size + c.size < a.max_size)
    (hrec : ∀ t1 t2 b2, Inv h (-1) t1 →
      (∀ p, dataAt t1 parent = some p → p.size < p.GetMinSize) →
      recurse t1 parent = Except.ok (t2, b2) → Inv h (-1) t2 ∧ cfg t2 = cfg t1)
    (hok : Coalesce recurse t neighbor_node_ node_ parent index = Except.ok (t', b)) :
    Inv h (-1) t' ∧ cfg t' = cfg t := by
  unfold Coalesce at hok
  simp only [if_neg hx] at hok
  obtain ⟨n, hn0, hok⟩ := bind_ok _ _ _ hok
  have hn := (getNode_ok_iff _ _ _).1 hn0
  obtain ⟨pn, hpn0, hok⟩ := bind_ok _ _ _ hok
  cases hv : pn.ValueIndex n.page_id with
  | none => simp [hv] at hok
  | some node_index =>
    simp only [hv] at hok
    by_cases hl : n.IsLeafPage = true
    on_goal 1 =>
      rw [if_pos hl] at hok
      obtain ⟨nb, hnb0, hok⟩ := bind_ok _ _ _ hok
      have hnb := (getNode_ok_iff _ _ _).1 hnb0
      obtain ⟨y, hy, hok⟩ := bind_ok _ _ _ hok
      simp only [pure, Except.pure, Except.ok.injEq] at hy
      have hiy : Inv h (-1) y ∧ cfg y = cfg t := by
        subst hy
        obtain ⟨⟨e1, s1⟩, e2, s2⟩ := LeafMoveAllTo_facts n nb
        have hsl := same_level_max h t hi.1 node_ neighbor_node_ n nb hn hnb hh.symm
        have hi2 : Inv h (-1) (setNode t neighbor_node_ (n.LeafMoveAllTo nb).2) := by
          apply Inv_setNode h t _ _ hi
          · intro _ _
            exact GoodNode_leaf_of_SameHead _ _ _ _ _ nb _ (hi.1.2 _ nb hnb)
              (by rw [← hsl.2]; exact hl) e2
          · intro _ _ _ _
            have := hsum n nb hn hnb
            rw [s2, e2.2.2.1, ← hsl.1]
            omega
        refine ⟨?_, by rw [cfg_setNode, cfg_setNode]⟩
        apply Inv_setNode h _ _ _ hi2
        · intro _ _
          rw [setNode_length, setNode_leaf_max, setNode_internal_max]
          exact GoodNode_leaf_of_SameHead _ _ _ _ _ n _ (hi.1.2 _ n hn) hl e1
        · intro _ _ hL hM
          rw [setNode_leaf_max] at hL
          rw [setNode_internal_max] at hM
          have := GoodNode_max_ge _ _ _ _ _ _ (hi.1.2 _ n hn) hL hM
          rw [s1, e1.2.2.1]
          omega
    on_goal 2 =>
      rw [if_neg hl] at hok
      obtain ⟨y, hy, hok⟩ := bind_ok _ _ _ hok
      have hiy : Inv h (-1) y ∧ cfg y = cfg t :=
        MoveAllTo_inv h node_ neighbor_node_ _ t y hi
          (fun me hme => by rw [hn] at hme; cases hme; simpa using hl) hh hy
    all_goals
      obtain ⟨n2, _, hok⟩ := bind_ok _ _ _ hok
      obtain ⟨pn2, hpn2, hok⟩ := bind_ok _ _ _ hok
      have hpn2' := (getNode_ok_iff _ _ _).1 hpn2
      have k3 := Keeps_AddIntoDeletedPageSet y n2.page_id
      have hi3 := Inv_of_Keeps h (-1) _ _ hiy.1 k3
      have hc3 : cfg (AddIntoDeletedPageSet y n2.page_id) = cfg t :=
        (cfg_of_Keeps _ _ k3).trans hiy.2
      have hi4 : Inv h (-1) (setNode (AddIntoDeletedPageSet y n2.page_id) parent
          (pn2.Remove node_index)) := by
        apply Inv_setNode h _ _ _ hi3
        · intro _ _
          exact GoodNode_Remove _ _ _ _ _ _ _ (hi3.1.2 _ pn2 hpn2')
        · intro _ _ hL hM
          have := Inv_size_lt h _ hi3 parent pn2 hpn2' hL hM
          simp only [Node.Remove]
          omega
      have hc4 : cfg (setNode (AddIntoDeletedPageSet y n2.page_id) parent
          (pn2.Remove node_index)) = cfg t := (cfg_setNode _ _ _).trans hc3
      split_ifs at hok with hlt
      · obtain ⟨d, hd, hok⟩ := bind_ok _ _ _ hok
        obtain ⟨hi5, hc5⟩ := hrec _ d.1 d.2 hi4 (by
          intro p hp
          rw [dataAt_setNode, if_pos rfl, hpn2'] at hp
          simp only [Option.map_some', Option.some.injEq] at hp
          subst hp
          exact hlt) hd
        split_ifs at hok
        · obtain ⟨pn3, _, hok⟩ := bind_ok _ _ _ hok
          simp only [pure, Except.pure, Except.ok.injEq, Prod.mk.injEq] at hok
          obtain ⟨rfl, _⟩ := hok
          have k6 := Keeps_AddIntoDeletedPageSet d.1 pn3.page_id
          exact ⟨Inv_of_Keeps h (-1) _ _ hi5 k6, by rw [cfg_of_Keeps _ _ k6, hc5, hc4]⟩
        · simp only [pure, Except.pure, Except.ok.injEq, Prod.mk.injEq] at hok
          obtain ⟨rfl, _⟩ := hok
          exact ⟨hi5, by rw [hc5, hc4]⟩
      · simp only [pure, Except.pure, Except.ok.injEq, Prod.mk.injEq] at hok
        obtain ⟨rfl, _⟩ := hok
        exact ⟨hi4, hc4⟩

/-- `Coalesce` keeps the invariant when the two pages are on one level and together fit in one
page. -/
theorem Coalesce_inv (h : Int → Nat)
    (recurse : BPlusTree → Int → Except Err (BPlusTree × Bool)) (t t' : BPlusTree)
    (neighbor_node_ node_ parent index : Int) (b : Bool)
    (hi : Inv h (-1) t) (hh : h neighbor_node_ = h node_)
    (hsum : ∀ a c, dataAt t node_ = some a → dataAt t neighbor_node_ = some c →
      a.size + c.size < a.max_size)
    (hrec : ∀ t1 t2 b2, Inv h (-1) t1 →
      (∀ p, dataAt t1 parent = some p → p.size < p.GetMinSize) →
      recurse t1 parent = Except.ok (t2, b2) → Inv h (-1) t2 ∧ cfg t2 = cfg t1)
    (hok : Coalesce recurse t neighbor_node_ node_ parent index = Except.ok (t', b)) :
    Inv h (-1) t' ∧ cfg t' = cfg t := by
  by_cases hx : index = NODE_IS_LEFT
  · subst hx
    rw [Coalesce_left] at hok
    refine Coalesce_inv_right h recurse t t' node_ neighbor_node_ parent NODE_IS_RIGHT b
      (by decide) hi hh.symm ?_ hrec hok
    intro a c ha hc
    have := hsum c a hc ha
    have hsl := same_level_max h t hi.1 node_ neighbor_node_ c a hc ha hh.symm
    omega
  · exact Coalesce_inv_right h recurse t t' neighbor_node_ node_ parent index b hx hi hh hsum
      hrec hok

theorem map_decide_true (P : Int → Prop) [DecidablePred P] (ss : Option Int)
    (h : Option.map (fun l => decide (P l)) ss = some true) : ∃ l, ss = some l ∧ P l := by
  cases ss with
  | none => cases h
  | some l => exact ⟨l, rfl, by simpa using h⟩

theorem match_bind_ok {α β : Type} (o : Option Int) (f : Int → Except Err α)
    (g : Except Err α) (k : α → Except Err β) (r : β)
    (hok : (match o with
      | some id => f id >>= k
      | none => g >>= k) = Except.ok r) :
    ∃ y, (match o with
      | some id => f id
      | none => g) = Except.ok y ∧ k y = Except.ok r := by
  cases o with
  | none => exact bind_ok _ _ _ hok
  | some id => exact bind_ok _ _ _ hok

theorem fetchSibling_exists (t t' : BPlusTree) (id : Int)
    (h : fetchSibling t id = Except.ok t') : ∃ m, dataAt t id = some m := by
  unfold fetchSibling at h
  cases hf : FetchPage t id with
  | none => simp [hf] at h
  | some t1 => exact FetchPage_exists t t1 id hf

/-- A child slot of the parent that names an existing page names a page on the node's level. -/
theorem sibling_height (h : Int → Nat) (t : BPlusTree) (hs : Str h t) (node : Int)
    (n pp : Node) (hn : dataAt t node = some n) (hr : ¬ n.IsRootPage = true)
    (hpp : dataAt t n.parent_page_id = some pp) (i : Int) (m : Node)
    (hm : dataAt t (pp.ValueAt i) = some m) : h (pp.ValueAt i) = h node := by
  have hp := GoodNode_parent_of_not_root _ _ _ _ _ _ (hs.2 node n hn) hr
  have gp := hs.2 _ pp hpp
  have hnl := GoodNode_not_leaf _ _ _ _ _ _ gp (by omega)
  have hso := all_slotAt (slotOK h t.pages.length (h n.parent_page_id))
    (slotOK_zero _ _ _) pp.array i (gp.slots hnl)
  have := slotOK_exists h t hs _ _ hso m hm
  have e : (slotAt pp.array i).2 = pp.ValueAt i := rfl
  rw [e] at this
  omega

/-- The size read of a sibling in `CoalesceOrRedistribute`. -/
theorem sibling_size (t : BPlusTree) (s : Option Int) (ss : Option Int)
    (hss : (match s with
      | some id => Except.map (fun l => some l.GetSize) (getNode t id)
      | none => pure none) = Except.ok ss) (l : Int) (hl : ss = some l) :
    ∃ sid m, s = some sid ∧ dataAt t sid = some m ∧ l = m.size := by
  cases s with
  | none =>
    simp only [pure, Except.pure, Except.ok.injEq] at hss
    rw [← hss] at hl
    cases hl
  | some sid =>
    obtain ⟨m, hm, e⟩ := map_ok _ _ _ hss
    rw [hl] at e
    exact ⟨sid, m, rfl, (getNode_ok_iff _ _ _).1 hm, (Option.some.inj e).symm⟩

theorem CoalesceOrRedistribute_inv : ∀ (fuel : Nat) (h : Int → Nat) (t t' : BPlusTree)
    (node : Int) (b : Bool), Inv h (-1) t →
    (∀ n, dataAt t node = some n → n.size < n.GetMinSize) →
    CoalesceOrRedistribute fuel t node = Except.ok (t', b) →
    Inv h (-1) t' ∧ cfg t' = cfg t := by
  intro fuel
  induction fuel with
  | zero => intro h t t' node b _ _ hok; cases hok
  | succ fuel ih =>
    intro h t t' node b hi hsmall hok
    rw [CoalesceOrRedistribute] at hok
    obtain ⟨n, hn0, hok⟩ := bind_ok _ _ _ hok
    have hn := (getNode_ok_iff _ _ _).1 hn0
    by_cases hr : n.IsRootPage = true
    · rw [if_pos hr] at hok
      obtain ⟨d, hd, hok⟩ := bind_ok _ _ _ hok
      obtain ⟨t2, sdr⟩ := d
      obtain ⟨hi2, hc2⟩ := AdjustRoot_inv h t t2 node sdr hi hd
      dsimp only at hok
      obtain ⟨n2, _, hok⟩ := bind_ok _ _ _ hok
      split_ifs at hok
      · simp only [pure, Except.pure, Except.ok.injEq, Prod.mk.injEq] at hok
        obtain ⟨rfl, _⟩ := hok
        have k := Keeps_AddIntoDeletedPageSet t2 n2.page_id
        exact ⟨Inv_of_Keeps h (-1) _ _ hi2 k, by rw [cfg_of_Keeps _ _ k, hc2]⟩
      · simp only [pure, Except.pure, Except.ok.injEq, Prod.mk.injEq] at hok
        obtain ⟨rfl, _⟩ := hok
        exact ⟨hi2, hc2⟩
    · rw [if_neg hr] at hok
      cases hf : FetchPage t n.parent_page_id with
      | none => simp [hf] at hok
      | some t1 =>
        simp only [hf] at hok
        obtain ⟨pp, hpp0, hok⟩ := bind_ok _ _ _ hok
        have k1 := Keeps_FetchPage t t1 _ hf
        have hpp := k1.2.2.2 _ _ ((getNode_ok_iff _ _ _).1 hpp0)
        cases hv : pp.ValueIndex n.page_id with
        | none => simp [hv] at hok
        | some node_index =>
          simp only [hv] at hok
          by_cases hL : node_index - 1 ≥ 0
          on_goal 1 =>
            rw [if_pos hL] at hok
            obtain ⟨t2, hfs, hok⟩ := bind_ok _ _ _ hok
            obtain ⟨y, hy, hok⟩ := bind_ok _ _ _ hok
            obtain ⟨t2', left⟩ := y
            simp only [pure, Except.pure, Except.ok.injEq, Prod.mk.injEq] at hy
            have k2 : Keeps t t2' := by
              rw [← hy.1]; exact Keeps_trans _ _ _ k1 (Keeps_fetchSibling _ _ _ hfs)
            have hleft : ∀ sid, left = some sid → h sid = h node := by
              intro sid hsid
              rw [← hy.2] at hsid
              cases hsid
              obtain ⟨m, hm⟩ := fetchSibling_exists _ _ _ hfs
              exact sibling_height h t hi.1 node n pp hn hr hpp _ m (k1.2.2.2 _ _ hm)
          on_goal 2 =>
            rw [if_neg hL] at hok
            obtain ⟨y, hy, hok⟩ := bind_ok _ _ _ hok
            obtain ⟨t2', left⟩ := y
            simp only [pure, Except.pure, Except.ok.injEq, Prod.mk.injEq] at hy
            have k2 : Keeps t t2' := by rw [← hy.1]; exact k1
            have hleft : ∀ sid, left = some sid → h sid = h node := by
              intro sid hsid
              rw [← hy.2] at hsid
              cases hsid
          all_goals
            dsimp only at hok
            obtain ⟨pp2, hpp2, hok⟩ := bind_ok _ _ _ hok
            have hpp2' := (getNode_ok_iff _ _ _).1 hpp2
            by_cases hR : node_index + 1 < pp2.GetSize
            on_goal 1 =>
              rw [if_pos hR] at hok
              obtain ⟨t3, hfs3, hok⟩ := bind_ok _ _ _ hok
              obtain ⟨y3, hy3, hok⟩ := bind_ok _ _ _ hok
              obtain ⟨t3', right⟩ := y3
              simp only [pure, Except.pure, Except.ok.injEq, Prod.mk.injEq] at hy3
              have k3 : Keeps t t3' := by
                rw [← hy3.1]; exact Keeps_trans _ _ _ k2 (Keeps_fetchSibling _ _ _ hfs3)
              have hright : ∀ sid, right = some sid → h sid = h node := by
                intro sid hsid
                rw [← hy3.2] at hsid
                cases hsid
                obtain ⟨m, hm⟩ := fetchSibling_exists _ _ _ hfs3
                exact sibling_height h t hi.1 node n pp2 hn hr (k2.2.2.2 _ _ hpp2') _ m
                  (k2.2.2.2 _ _ hm)
            on_goal 2 =>
              rw [if_neg hR] at hok
              obtain ⟨y3, hy3, hok⟩ := bind_ok _ _ _ hok
              obtain ⟨t3', right⟩ := y3
              simp only [pure, Except.pure, Except.ok.injEq, Prod.mk.injEq] at hy3
              have k3 : Keeps t t3' := by rw [← hy3.1]; exact k2
              have hright : ∀ sid, right = some sid → h sid = h node := by
                intro sid hsid
                rw [← hy3.2] at hsid
                cases hsid
            all_goals
              dsimp only at hok
              obtain ⟨n3, hn3, hok⟩ := bind_ok _ _ _ hok
              have hn3' := (getNode_ok_iff _ _ _).1 hn3
              obtain ⟨ls, hls, hok⟩ := match_bind_ok _ _ _ _ _ hok
              obtain ⟨rs, hrs, hok⟩ := match_bind_ok _ _ _ _ _ hok
              have hi3 := Inv_of_Keeps h (-1) t t3' hi k3
              have hc3 := cfg_of_Keeps _ _ k3
              have hls' := sibling_size t3' _ ls hls
              have hrs' := sibling_size t3' _ rs hrs
              have hCo : ∀ (s ss : Option Int) sid idx (d : BPlusTree × Bool),
                  (∀ x, s = some x → h x = h node) →
                  (∀ l, ss = some l →
                    ∃ sid m, s = some sid ∧ dataAt t3' sid = some m ∧ l = m.size) →
                  s = some sid →
                  Option.map (fun l => decide (n3.GetSize + l < n3.GetMaxSize)) ss = some true →
                  Coalesce (CoalesceOrRedistribute fuel) t3' sid node n.parent_page_id idx =
                    Except.ok d → Inv h (-1) d.1 ∧ cfg d.1 = cfg t := by
                intro s ss sid idx d hs hss hsid hc hd
                obtain ⟨l, hl, hlt⟩ := map_decide_true
                  (fun l => n3.GetSize + l < n3.GetMaxSize) ss hc
                obtain ⟨sid', m, e1, hm, e2⟩ := hss l hl
                rw [hsid] at e1
                cases e1
                obtain ⟨a1, a2⟩ := Coalesce_inv h _ t3' d.1 sid node n.parent_page_id idx d.2
                  hi3 (hs sid hsid) (by
                    intro a c ha hc
                    rw [hn3'] at ha
                    rw [hm] at hc
                    cases ha
                    cases hc
                    rw [← e2]
                    exact hlt)
                  (fun u1 u2 b2 hu hs hk => ih h u1 u2 n.parent_page_id b2 hu hs hk) hd
                exact ⟨a1, a2.trans hc3⟩
              have hRe : ∀ (s : Option Int) idx pid d u,
                  (∀ sid, s = some sid → h sid = h node) →
                  Redistribute (UnpinPage t3' pid d) s node idx = Except.ok u →
                  Inv h (-1) u ∧ cfg u = cfg t := by
                intro s idx pid d u hs hu
                have k4 := Keeps_trans _ _ _ k3 (Keeps_UnpinPage t3' pid d)
                obtain ⟨a1, a2⟩ := Redistribute_inv h _ u s node idx
                  (Inv_of_Keeps h (-1) t _ hi k4) hs
                  (fun n' hn' => hsmall n' (k4.2.2.2 _ _ hn')) hu
                exact ⟨a1, a2.trans (cfg_of_Keeps _ _ k4)⟩
              split at hok
              · obtain ⟨d, hd, hok⟩ := bind_ok _ _ _ hok
                obtain ⟨a1, a2⟩ := hCo _ ls _ _ d hleft hls' rfl (by assumption) hd
                obtain ⟨pp3, _, hok⟩ := bind_ok _ _ _ hok
                obtain ⟨n4, _, hok⟩ := bind_ok _ _ _ hok
                simp only [pure, Except.pure, Except.ok.injEq, Prod.mk.injEq] at hok
                obtain ⟨rfl, _⟩ := hok
                have k5 := Keeps_UnpinPage d.1 pp3.page_id true
                exact ⟨Inv_of_Keeps h (-1) _ _ a1 k5, by rw [cfg_of_Keeps _ _ k5, a2]⟩
              · split at hok
                · obtain ⟨d, hd, hok⟩ := bind_ok _ _ _ hok
                  obtain ⟨a1, a2⟩ := hCo _ rs _ _ d hright hrs' rfl (by assumption) hd
                  obtain ⟨pp3, _, hok⟩ := bind_ok _ _ _ hok
                  simp only [pure, Except.pure, Except.ok.injEq, Prod.mk.injEq] at hok
                  obtain ⟨rfl, _⟩ := hok
                  have k5 := Keeps_UnpinPage d.1 pp3.page_id true
                  exact ⟨Inv_of_Keeps h (-1) _ _ a1 k5, by rw [cfg_of_Keeps _ _ k5, a2]⟩
                · obtain ⟨pp3, _, hok⟩ := bind_ok _ _ _ hok
                  split at hok
                  · obtain ⟨u, hu, hok⟩ := bind_ok _ _ _ hok
                    simp only [pure, Except.pure, Except.ok.injEq, Prod.mk.injEq] at hok
                    obtain ⟨rfl, _⟩ := hok
                    exact hRe _ _ _ _ _ hleft hu
                  · obtain ⟨u, hu, hok⟩ := bind_ok _ _ _ hok
                    simp only [pure, Except.pure, Except.ok.injEq, Prod.mk.injEq] at hok
                    obtain ⟨rfl, _⟩ := hok
                    exact hRe _ _ _ _ _ hright hu

theorem RemoveAndDeleteRecord_facts (n : Node) (key : Int) :
    SameHead (n.RemoveAndDeleteRecord key).1 n ∧ (n.RemoveAndDeleteRecord key).1.size ≤ n.size ∧
      (n.RemoveAndDeleteRecord key).2 = (n.RemoveAndDeleteRecord key).1.size := by
  unfold Node.RemoveAndDeleteRecord SameHead
  cases n.LeafLookup key <;> simp

/-- `Remove` keeps the invariant. -/
theorem Remove_inv (h : Int → Nat) (t t' : BPlusTree) (key : Int) (hi : Inv h (-1) t)
    (hok : Remove t key = Except.ok t') : Inv h (-1) t' ∧ cfg t' = cfg t := by
  unfold Remove at hok
  obtain ⟨t1, h1, hok⟩ := bind_ok _ _ _ hok
  have k1 := Keeps_LatchRoot t t1 _ h1
  by_cases hemp : IsEmpty t1 = true
  · rw [if_pos hemp] at hok
    simp only [pure, Except.pure, Except.ok.injEq] at hok
    subst hok
    have k2 := Keeps_trans _ _ _ k1 (Keeps_TryUnlatchRoot t1 OP_TYPE.DELETE)
    exact ⟨Inv_of_Keeps h (-1) _ _ hi k2, cfg_of_Keeps _ _ k2⟩
  · rw [if_neg hemp] at hok
    obtain ⟨r, hcrab, hok⟩ := bind_ok _ _ _ hok
    obtain ⟨t3, page⟩ := r
    dsimp only at hok
    obtain ⟨kc, nl, hnl, hleaf⟩ := Keeps_crabbing _ t3 key _ page hcrab
    have k3 : Keeps t t3 :=
      Keeps_trans _ _ _ (Keeps_trans _ _ _ k1 (Keeps_TryUnlatchRoot t1 OP_TYPE.DELETE)) kc
    obtain ⟨lq, hlq, hok⟩ := bind_ok _ _ _ hok
    have elp : some lq = some nl := by rw [← (getNode_ok_iff _ _ _).1 hlq, hnl]
    cases elp
    have hi3 := Inv_of_Keeps h (-1) t t3 hi k3
    obtain ⟨f1, f2, f3⟩ := RemoveAndDeleteRecord_facts nl key
    have hi4 : Inv h (-1) (setNode t3 page (nl.RemoveAndDeleteRecord key).1) := by
      apply Inv_setNode h t3 _ _ hi3
      · intro _ _
        exact GoodNode_leaf_of_SameHead _ _ _ _ _ nl _ (hi3.1.2 page nl hnl) hleaf f1
      · intro _ _ hL hM
        have := Inv_size_lt h t3 hi3 page nl hnl hL hM
        rw [f1.2.2.1]
        omega
    have hc4 : cfg (setNode t3 page (nl.RemoveAndDeleteRecord key).1) = cfg t :=
      (cfg_setNode _ _ _).trans (cfg_of_Keeps _ _ k3)
    split_ifs at hok with hlt
    · obtain ⟨d, hd, hok⟩ := bind_ok _ _ _ hok
      obtain ⟨t5, sd⟩ := d
      dsimp only at hok
      obtain ⟨hi5, hc5⟩ := CoalesceOrRedistribute_inv _ h _ t5 page sd hi4 (by
        intro n' hn'
        rw [dataAt_setNode, if_pos rfl, hnl] at hn'
        simp only [Option.map_some', Option.some.injEq] at hn'
        subst hn'
        rw [← f3]
        exact hlt) hd
      have k6 : Keeps t5 (TryUnlatchRoot (if sd = true then AddIntoDeletedPageSet t5 page
          else t5) OP_TYPE.DELETE) := by
        refine Keeps_trans _ _ _ ?_ (Keeps_TryUnlatchRoot _ _)
        split_ifs
        · exact Keeps_AddIntoDeletedPageSet _ _
        · exact Keeps_refl _
      have k7 := Keeps_trans _ _ _ k6 (Keeps_FreeAllPages _ _ hok)
      exact ⟨Inv_of_Keeps h (-1) _ _ hi5 k7, by rw [cfg_of_Keeps _ _ k7, hc5, hc4]⟩
    · have k7 := Keeps_trans _ _ _ (Keeps_TryUnlatchRoot _ OP_TYPE.DELETE)
        (Keeps_FreeAllPages _ _ hok)
      exact ⟨Inv_of_Keeps h (-1) _ _ hi4 k7, by rw [cfg_of_Keeps _ _ k7, hc4]⟩

/-- The empty index over a pool that holds only the header page satisfies the invariant. -/
theorem Inv_new (L M : Int) : Inv (fun _ => 0) (-1) (BPlusTree.new L M) := by
  have hd : ∀ id, dataAt (BPlusTree.new L M) id = none := by
    intro id
    cases hc : dataAt (BPlusTree.new L M) id with
    | none => rfl
    | some n =>
      obtain ⟨h0, h1⟩ := dataAt_range _ _ _ hc
      have e : (BPlusTree.new L M).pages.length = 1 := rfl
      rw [e] at h1
      have : id = 0 := by omega
      subst this
      cases hc
  refine ⟨⟨⟨Nat.one_pos, hd 0⟩, ?_⟩, ?_⟩
  · intro id n hn
    rw [hd id] at hn
    cases hn
  · intro _ _ id n hn
    rw [hd id] at hn
    cases hn

/-- Every call of the interface keeps the invariant and the configured max sizes. -/
theorem applyCall_inv (h : Int → Nat) (t t' : BPlusTree) (c : Call) (hi : Inv h (-1) t)
    (hok : applyCall t c = Except.ok t') :
    ∃ h', Inv h' (-1) t' ∧ t'.leaf_max_size = t.leaf_max_size ∧
      t'.internal_max_size = t.internal_max_size := by
  cases c with
  | insert key value =>
    obtain ⟨r, hr, e⟩ := map_ok _ _ _ hok
    obtain ⟨t2, b⟩ := r
    cases e
    exact Insert_inv h t t2 key value b hi hr
  | remove key =>
    obtain ⟨a1, a2⟩ := Remove_inv h t t' key hi hok
    exact ⟨h, a1, cfg_leaf_max _ _ a2, cfg_internal_max _ _ a2⟩

/-- A sequence of calls keeps the invariant and the configured max sizes. -/
theorem run_inv : ∀ (calls : List Call) (h : Int → Nat) (t t' : BPlusTree),
    Inv h (-1) t → run t calls = Except.ok t' →
    ∃ h', Inv h' (-1) t' ∧ t'.leaf_max_size = t.leaf_max_size ∧
      t'.internal_max_size = t.internal_max_size := by
  intro calls
  induction calls with
  | nil =>
    intro h t t' hi hok
    cases hok
    exact ⟨h, hi, rfl, rfl⟩
  | cons c cs ih =>
    intro h t t' hi hok
    unfold run at hok
    rw [List.foldlM_cons] at hok
    obtain ⟨t1, h1, hok⟩ := bind_ok _ _ _ hok
    obtain ⟨h1', hi1, e1, e2⟩ := applyCall_inv h t t1 c hi h1
    obtain ⟨h2, hi2, e3, e4⟩ := ih h1' t1 t' hi1 hok
    exact ⟨h2, hi2, e3.trans e1, e4.trans e2⟩

/-- Under the shape invariant every leaf found below a page lies as deep as the page is high. -/
theorem leafDepths_eq (h : Int → Nat) (t : BPlusTree) (hs : Str h t) :
    ∀ (fuel : Nat) (page : Int) (d : Nat), d ∈ leafDepths t fuel page → d = h page := by
  intro fuel
  induction fuel with
  | zero => intro page d hd; cases hd
  | succ fuel ih =>
    intro page d hd
    unfold leafDepths at hd
    cases hg : getPage t page with
    | none => rw [hg] at hd; cases hd
    | some pg =>
      rw [hg] at hd
      have hn := dataAt_of_getPage t page pg hg
      have g := hs.2 page pg.data hn
      by_cases hl : pg.data.IsLeafPage = true
      · simp only [hl, if_true, List.mem_singleton] at hd
        rw [hd, g.leaf_iff.1 hl]
      · have hl' : pg.data.IsLeafPage = false := by simpa using hl
        simp only [hl', Bool.false_eq_true, if_false, List.mem_flatMap, List.mem_map] at hd
        obtain ⟨s, hs1, d', hd', rfl⟩ := hd
        have hso := all_slotsFrom (slotOK h t.pages.length (h page)) (slotOK_zero _ _ _)
          pg.data.array 0 pg.data.size (g.slots hl') s hs1
        have e := ih s.2 d' hd'
        cases fuel with
        | zero => cases hd'
        | succ f =>
          unfold leafDepths at hd'
          cases hg2 : getPage t s.2 with
          | none => rw [hg2] at hd'; cases hd'
          | some pg2 =>
            have := slotOK_exists h t hs _ s hso pg2.data (dataAt_of_getPage t s.2 pg2 hg2)
            omega

/-! ## Pins: what every step of an operation does to the pin counts -/

theorem count_cons_int (xs : List Int) (x id : Int) :
    ((x :: xs).count id : Int) = (xs.count id : Int) + (if id = x then 1 else 0) := by
  rw [List.count_cons]
  by_cases h : id = x
  · subst h; simp
  · have : ¬ x = id := fun e => h e.symm
    simp [h, this]

theorem count_snoc_int (xs : List Int) (x id : Int) :
    ((xs ++ [x]).count id : Int) = (xs.count id : Int) + (if id = x then 1 else 0) := by
  rw [List.count_append, List.count_singleton]
  by_cases h : id = x
  · subst h; simp
  · have : ¬ x = id := fun e => h e.symm
    simp [h, this]

theorem pinAt_of_getPage (t : BPlusTree) (id : Int) (pg : Page) (h : getPage t id = some pg) :
    pinAt t id = pg.pin_count := by
  simp [pinAt, h]

theorem pinAt_none (t : BPlusTree) (id : Int) (h : getPage t id = none) : pinAt t id = 0 := by
  simp [pinAt, h]

theorem pinAt_setPage (t : BPlusTree) (a id : Int) (pg p : Page) (h : getPage t a = some pg) :
    pinAt (setPage t a p) id = if id = a then p.pin_count else pinAt t id := by
  unfold pinAt
  rw [getPage_setPage t a id pg p h]
  by_cases he : id = a
  · simp [he]
  · simp [he]

theorem pinAt_setNode (t : BPlusTree) (a id : Int) (n : Node) :
    pinAt (setNode t a n) id = pinAt t id := by
  unfold setNode
  cases hg : getPage t a with
  | none => rfl
  | some pg =>
    simp only
    rw [pinAt_setPage t a id pg _ hg]
    by_cases he : id = a
    · subst he; simp [pinAt, hg]
    · simp [he]

theorem setNode_page_set (t : BPlusTree) (a : Int) (n : Node) :
    (setNode t a n).page_set = t.page_set := by
  unfold setNode
  cases getPage t a <;> rfl

theorem setNode_header_pin (t : BPlusTree) (a : Int) (n : Node) :
    (setNode t a n).header_pin_count = t.header_pin_count := by
  unfold setNode
  cases getPage t a <;> rfl

theorem freePin_setNode (t : BPlusTree) (a id : Int) (n : Node) :
    freePin (setNode t a n) id = freePin t id := by
  unfold freePin
  rw [pinAt_setNode, setNode_page_set]

/-- What `PinSame` keeps in every frame. -/
theorem PinSame_frame (t t' : BPlusTree) (h : PinSame t t') (id : Int) :
    dataAt t' id = dataAt t id ∧ pinAt t' id = pinAt t id := by
  have := h.2.2 id
  unfold dataAt pinAt
  cases h1 : getPage t' id with
  | none =>
    cases h2 : getPage t id with
    | none => exact ⟨rfl, rfl⟩
    | some p2 => rw [h1, h2] at this; cases this
  | some p1 =>
    cases h2 : getPage t id with
    | none => rw [h1, h2] at this; cases this
    | some p2 =>
      rw [h1, h2] at this
      simp only [Option.map_some', Option.some.injEq, pinData, Prod.mk.injEq] at this
      simp [this.1, this.2]

theorem PinSame_freePin (t t' : BPlusTree) (h : PinSame t t') (id : Int) :
    freePin t' id = freePin t id := by
  unfold freePin
  rw [(PinSame_frame t t' h id).2, h.2.1]

theorem PinSame_refl (t : BPlusTree) : PinSame t t := ⟨rfl, rfl, fun _ => rfl⟩

theorem PinSame_trans (t1 t2 t3 : BPlusTree) (h12 : PinSame t1 t2) (h23 : PinSame t2 t3) :
    PinSame t1 t3 :=
  ⟨h23.1.trans h12.1, h23.2.1.trans h12.2.1, fun id => (h23.2.2 id).trans (h12.2.2 id)⟩

/-- A state with the same frames, the same page set and the same header pin count. -/
theorem PinSame_of_pages (t t' : BPlusTree) (hp : t'.pages = t.pages)
    (hs : t'.page_set = t.page_set) (hh : t'.header_pin_count = t.header_pin_count) :
    PinSame t t' := by
  refine ⟨hh, hs, fun id => ?_⟩
  unfold getPage
  rw [hp]

theorem PinSame_setLatch (t : BPlusTree) (id : Int) (pg : Page) (l : Int)
    (hg : getPage t id = some pg) : PinSame t (setPage t id { pg with latch := l }) := by
  refine ⟨rfl, rfl, fun id' => ?_⟩
  rw [getPage_setPage t id id' pg _ hg]
  by_cases he : id' = id
  · subst he; simp [hg, pinData]
  · simp [he]

theorem PinSame_LatchPage (t t' : BPlusTree) (id : Int) (op : OP_TYPE)
    (h : LatchPage t id op = Except.ok t') : PinSame t t' := by
  unfold LatchPage at h
  cases hg : getPage t id with
  | none => simp [hg] at h
  | some pg =>
    simp only [hg] at h
    split_ifs at h <;> (cases h; exact PinSame_setLatch t id pg _ hg)

theorem PinSame_UnlatchPage (t t' : BPlusTree) (id : Int) (op : OP_TYPE)
    (h : UnlatchPage t id op = Except.ok t') : PinSame t t' := by
  unfold UnlatchPage at h
  cases hg : getPage t id with
  | none => simp [hg] at h
  | some pg =>
    simp only [hg] at h
    split_ifs at h <;> (cases h; exact PinSame_setLatch t id pg _ hg)

theorem PinSame_LatchRoot (t t' : BPlusTree) (op : OP_TYPE)
    (h : LatchRoot t op = Except.ok t') : PinSame t t' := by
  unfold LatchRoot at h
  split_ifs at h <;> (cases h; exact PinSame_of_pages _ _ rfl rfl rfl)

theorem PinSame_TryUnlatchRoot (t : BPlusTree) (op : OP_TYPE) :
    PinSame t (TryUnlatchRoot t op) := by
  unfold TryUnlatchRoot
  split_ifs <;> exact PinSame_of_pages _ _ rfl rfl rfl

theorem PinSame_AddIntoDeletedPageSet (t : BPlusTree) (id : Int) :
    PinSame t (AddIntoDeletedPageSet t id) := by
  unfold AddIntoDeletedPageSet
  split_ifs
  · exact PinSame_refl t
  · exact PinSame_of_pages _ _ rfl rfl rfl

/-- `UpdateRootPageId` pins and unpins the header page: its pin count is as before when it was
not negative. -/
theorem PinSame_UpdateRootPageId (t : BPlusTree) (b : Bool) (h : 0 ≤ t.header_pin_count) :
    PinSame t (UpdateRootPageId t b) := by
  refine PinSame_of_pages _ _ rfl rfl ?_
  show (if t.header_pin_count + 1 > 0 then t.header_pin_count + 1 - 1
    else t.header_pin_count + 1) = t.header_pin_count
  rw [if_pos (by omega)]
  omega

theorem Acc_refl (t : BPlusTree) (hi : IdOK t) : Acc [] t t :=
  ⟨hi, rfl, fun id => by simp⟩

theorem Acc_same (xs : List Int) (t0 t t' : BPlusTree) (a : Acc xs t0 t) (h : PinSame t t') :
    Acc xs t0 t' :=
  ⟨fun id n hn => a.ids id n (by rw [← (PinSame_frame t t' h id).1]; exact hn), h.1.trans a.header,
    fun id => (PinSame_freePin t t' h id).trans (a.pins id)⟩

/-- Multisets of held pins are compared by their counts. -/
theorem Acc_congr (xs ys : List Int) (t0 t : BPlusTree) (a : Acc xs t0 t)
    (h : ∀ id, ys.count id = xs.count id) : Acc ys t0 t :=
  ⟨a.ids, a.header, fun id => by rw [h id]; exact a.pins id⟩

theorem Acc_swap (x y : Int) (xs : List Int) (t0 t : BPlusTree) (a : Acc (x :: y :: xs) t0 t) :
    Acc (y :: x :: xs) t0 t :=
  Acc_congr _ _ t0 t a (fun id => (List.Perm.swap x y xs).count_eq id)

/-- A write through a pointer of a payload that carries the id of the page. -/
theorem Acc_setNode (xs : List Int) (t0 t : BPlusTree) (a : Acc xs t0 t) (id : Int) (n : Node)
    (hn : ∀ n0, dataAt t id = some n0 → n.page_id = id) : Acc xs t0 (setNode t id n) := by
  refine ⟨fun id' n' hn' => ?_, (setNode_header_pin t id n).trans a.header, fun id' => ?_⟩
  · rw [dataAt_setNode] at hn'
    by_cases he : id' = id
    · subst he
      rw [if_pos rfl] at hn'
      cases h0 : dataAt t id' with
      | none => rw [h0] at hn'; cases hn'
      | some n0 =>
        rw [h0] at hn'
        cases hn'
        exact hn n0 h0
    · rw [if_neg he] at hn'
      exact a.ids id' n' hn'
  · rw [freePin_setNode]
    exact a.pins id'

/-- The payload read from a page carries the id of the page. -/
theorem Acc_page_id (xs : List Int) (t0 t : BPlusTree) (a : Acc xs t0 t) (id : Int) (n : Node)
    (h : getNode t id = Except.ok n) : n.page_id = id :=
  a.ids id n ((getNode_ok_iff _ _ _).1 h)

theorem Acc_fetch (xs : List Int) (t0 t t' : BPlusTree) (a : Acc xs t0 t) (x : Int)
    (h : FetchPage t x = some t') : Acc (x :: xs) t0 t' := by
  obtain ⟨pg, hg, rfl⟩ := FetchPage_eq_some t t' x h
  refine ⟨fun id n hn => a.ids id n ?_, a.header, fun id => ?_⟩
  · rw [← dataAt_FetchPage t _ x h id]
    exact hn
  · have := a.pins id
    unfold freePin at this ⊢
    rw [pinAt_setPage t x id pg _ hg, count_cons_int]
    show (if id = x then pg.pin_count + 1 else pinAt t id) - (t.page_set.count id : Int) = _
    by_cases he : id = x
    · subst he
      rw [pinAt_of_getPage t id pg hg] at this
      simp only [if_true]
      omega
    · simp only [he, if_false]
      omega

/-- A page held beyond the page set is pinned. -/
theorem Acc_pinned (x : Int) (xs : List Int) (t0 t : BPlusTree) (a : Acc (x :: xs) t0 t)
    (h0 : PinOK t0) : ∃ pg, getPage t x = some pg ∧ pg.pin_count > 0 := by
  have h1 := a.pins x
  have h2 := h0.2 x
  rw [count_cons_int, if_pos rfl] at h1
  unfold freePin at h1 h2
  have hpos : 0 < pinAt t x := by omega
  cases hg : getPage t x with
  | none => rw [pinAt_none t x hg] at hpos; omega
  | some pg =>
    rw [pinAt_of_getPage t x pg hg] at hpos
    exact ⟨pg, rfl, hpos⟩

theorem Acc_unpin (x : Int) (xs : List Int) (t0 t : BPlusTree) (a : Acc (x :: xs) t0 t)
    (h0 : PinOK t0) (d : Bool) : Acc xs t0 (UnpinPage t x d) := by
  obtain ⟨pg, hg, hp⟩ := Acc_pinned x xs t0 t a h0
  refine ⟨fun id n hn => a.ids id n ?_, ?_, fun id => ?_⟩
  · rw [← dataAt_UnpinPage t x d id]
    exact hn
  · rw [UnpinPage_pos t x pg d hg hp]
    exact a.header
  · rw [UnpinPage_pos t x pg d hg hp]
    have := a.pins id
    rw [count_cons_int] at this
    unfold freePin at this ⊢
    rw [pinAt_setPage t x id pg _ hg]
    show (if id = x then pg.pin_count - 1 else pinAt t id) - (t.page_set.count id : Int) = _
    by_cases he : id = x
    · subst he
      rw [pinAt_of_getPage t id pg hg] at this
      simp only [if_true] at this ⊢
      omega
    · simp only [he, if_false] at this ⊢
      omega

/-- A page that enters the page set: its pin is from now on one of the page set. -/
theorem Acc_toPageSet (x : Int) (xs : List Int) (t0 t : BPlusTree) (a : Acc (x :: xs) t0 t) :
    Acc xs t0 (AddIntoPageSet t x) := by
  refine ⟨a.ids, a.header, fun id => ?_⟩
  have := a.pins id
  rw [count_cons_int] at this
  unfold freePin at this ⊢
  show pinAt t id - ((t.page_set ++ [x]).count id : Int) = _
  rw [count_snoc_int]
  omega

/-- Allocation: the new page is pinned once, and the payload written into it carries its id. -/
theorem Acc_alloc (xs : List Int) (t0 t t1 : BPlusTree) (a : Acc xs t0 t) (n : Node)
    (hp : t1.pages = (NewPage t).1.pages) (hs : t1.page_set = t.page_set)
    (hh : t1.header_pin_count = t.header_pin_count)
    (hn : n.page_id = (t.pages.length : Int)) :
    Acc ((t.pages.length : Int) :: xs) t0 (setNode t1 (t.pages.length : Int) n) := by
  have hg : ∀ id, getPage t1 id = if id = (t.pages.length : Int) then
      some { pin_count := 1, latch := 0, data := zeroNode } else getPage t id := by
    intro id
    rw [getPage_congr (NewPage t).1 t1 hp id, getPage_NewPage]
  have hnone : getPage t (t.pages.length : Int) = none := by
    cases hc : getPage t (t.pages.length : Int) with
    | none => rfl
    | some pg => exact absurd rfl (getPage_lt_length t _ pg hc)
  refine ⟨fun id n' hn' => ?_, (setNode_header_pin _ _ _).trans (hh.trans a.header),
    fun id => ?_⟩
  · rw [dataAt_setNode] at hn'
    by_cases he : id = (t.pages.length : Int)
    · rw [if_pos he] at hn'
      have : dataAt t1 (t.pages.length : Int) = some zeroNode := by
        unfold dataAt; rw [hg, if_pos rfl]; rfl
      rw [this] at hn'
      cases hn'
      rw [he]; exact hn
    · rw [if_neg he] at hn'
      apply a.ids id n'
      unfold dataAt at hn' ⊢
      rw [hg, if_neg he] at hn'
      exact hn'
  · rw [freePin_setNode]
    have := a.pins id
    rw [count_cons_int]
    unfold freePin at this ⊢
    rw [hs]
    unfold pinAt at this ⊢
    rw [hg]
    by_cases he : id = (t.pages.length : Int)
    · rw [he, hnone] at this
      rw [if_pos he, if_pos he, he]
      simp only at this ⊢
      omega
    · rw [if_neg he, if_neg he]
      omega

/-- Taking one pin off a pinned page. -/
theorem UnpinPage_pins (t : BPlusTree) (a : Int) (d : Bool) (hp : 0 < pinAt t a) :
    (UnpinPage t a d).header_pin_count = t.header_pin_count ∧
      (UnpinPage t a d).page_set = t.page_set ∧
      ∀ id, pinAt (UnpinPage t a d) id = pinAt t id - (if id = a then 1 else 0) := by
  cases hg : getPage t a with
  | none => rw [pinAt_none t a hg] at hp; omega
  | some pg =>
    rw [pinAt_of_getPage t a pg hg] at hp
    rw [UnpinPage_pos t a pg d hg hp]
    refine ⟨rfl, rfl, fun id => ?_⟩
    rw [pinAt_setPage t a id pg _ hg]
    by_cases he : id = a
    · subst he
      rw [pinAt_of_getPage t id pg hg]
      simp
    · simp [he]

theorem PinSame_pinAt (t t' : BPlusTree) (h : PinSame t t') (id : Int) :
    pinAt t' id = pinAt t id := (PinSame_frame t t' h id).2

/-- The loop of `ReleaseAllPages` takes one pin off a page for each of its entries in the
list. -/
theorem release_loop_pins : ∀ (l : List Int) (t t' : BPlusTree),
    (∀ id, (l.count id : Int) ≤ pinAt t id) → l.foldlM releasePage t = Except.ok t' →
    t'.header_pin_count = t.header_pin_count ∧ t'.page_set = t.page_set ∧
      (∀ id, dataAt t' id = dataAt t id) ∧
      ∀ id, pinAt t' id = pinAt t id - (l.count id : Int) := by
  intro l
  induction l with
  | nil =>
    intro t t' _ h
    cases h
    exact ⟨rfl, rfl, fun _ => rfl, fun id => by simp⟩
  | cons a l ih =>
    intro t t' hc h
    rw [List.foldlM_cons] at h
    obtain ⟨t1, h1, h⟩ := bind_ok _ _ _ h
    unfold releasePage at h1
    obtain ⟨tu, hu, h1⟩ := bind_ok _ _ _ h1
    simp only [pure, Except.pure, Except.ok.injEq] at h1
    subst h1
    have su := PinSame_UnlatchPage t tu a _ hu
    have hpa : 0 < pinAt tu a := by
      have := hc a
      rw [count_cons_int, if_pos rfl] at this
      rw [PinSame_pinAt t tu su]
      omega
    obtain ⟨e1, e2, e3⟩ := UnpinPage_pins tu a true hpa
    obtain ⟨f1, f2, f3, f4⟩ := ih (UnpinPage tu a true) t' (by
      intro id
      have := hc id
      rw [count_cons_int] at this
      rw [e3, PinSame_pinAt t tu su]
      omega) h
    refine ⟨f1.trans (e1.trans su.1), f2.trans (e2.trans su.2.1), fun id => ?_, fun id => ?_⟩
    · rw [f3, dataAt_UnpinPage, (PinSame_frame t tu su id).1]
    · rw [f4, e3, PinSame_pinAt t tu su, count_cons_int]
      omega

/-- `ReleaseAllPages` gives back the pins of the page set and empties it. -/
theorem ReleaseAllPages_pins (xs : List Int) (t0 t t' : BPlusTree) (a : Acc xs t0 t)
    (h0 : PinOK t0) (h : ReleaseAllPages t = Except.ok t') :
    Acc xs t0 t' ∧ t'.page_set = [] := by
  unfold ReleaseAllPages at h
  obtain ⟨t1, h1, h⟩ := bind_ok _ _ _ h
  simp only [pure, Except.pure, Except.ok.injEq] at h
  subst h
  obtain ⟨e1, e2, e3, e4⟩ := release_loop_pins t.page_set t t1 (by
    intro id
    have h1 := a.pins id
    have h2 := h0.2 id
    unfold freePin at h1 h2
    omega) h1
  refine ⟨⟨fun id n hn => a.ids id n ?_, e1.trans a.header, fun id => ?_⟩, rfl⟩
  · rw [← e3 id]
    exact hn
  · have := a.pins id
    unfold freePin at this ⊢
    show pinAt t1 id - (([] : List Int).count id : Int) = _
    have e5 : pinAt { t1 with page_set := [] } id = pinAt t1 id := rfl
    rw [e4]
    simp only [List.count_nil, Nat.cast_zero]
    omega

theorem pinAt_DeletePage (t : BPlusTree) (a id : Int) (h : id ≠ a) :
    pinAt (DeletePage t a) id = pinAt t id := by
  unfold DeletePage
  cases hg : getPage t a with
  | none => rfl
  | some pg =>
    simp only
    split_ifs
    · rfl
    · obtain ⟨h1, h2, _⟩ := getPage_eq_some t a pg hg
      unfold pinAt getPage
      by_cases hneg : id < 0
      · simp [hneg]
      · have hne : a.toNat ≠ id.toNat := by omega
        simp only [hneg, if_false, List.getD_eq_getElem?_getD, List.getElem?_set_ne hne]

theorem DeletePage_header_pin (t : BPlusTree) (a : Int) :
    (DeletePage t a).header_pin_count = t.header_pin_count := by
  unfold DeletePage
  cases getPage t a with
  | none => rfl
  | some pg =>
    simp only
    split_ifs <;> rfl

/-- One round of the loop of `FreeAllPages`: the page loses one pin, or it had exactly one pin
and is deleted. -/
theorem freePage_pins (t t1 : BPlusTree) (a : Int) (hp : 0 < pinAt t a)
    (h : freePage t a = Except.ok t1) :
    t1.header_pin_count = t.header_pin_count ∧
      ∀ id, pinAt t1 id = pinAt t id - (if id = a then 1 else 0) ∨
        (id = a ∧ getPage t1 id = none ∧ pinAt t a = 1) := by
  unfold freePage at h
  obtain ⟨tu, hu, h⟩ := bind_ok _ _ _ h
  have su := PinSame_UnlatchPage t tu a _ hu
  have hpa : 0 < pinAt tu a := by rw [PinSame_pinAt t tu su]; exact hp
  obtain ⟨e1, e2, e3⟩ := UnpinPage_pins tu a true hpa
  simp only at h
  split_ifs at h with hdel
  · cases hg : getPage (UnpinPage tu a true) a with
    | none => simp [hg] at h
    | some p =>
      simp only [hg] at h
      split_ifs at h with hpin
      simp only [pure, Except.pure, Except.ok.injEq] at h
      subst h
      have hp0 : pinAt (UnpinPage tu a true) a = p.pin_count := pinAt_of_getPage _ _ _ hg
      refine ⟨(DeletePage_header_pin _ a).trans (e1.trans su.1), fun id => ?_⟩
      by_cases he : id = a
      · right
        subst he
        refine ⟨rfl, ?_, ?_⟩
        · show getPage (DeletePage (UnpinPage tu id true) id) id = none
          unfold DeletePage
          rw [hg]
          simp only [hpin, if_false]
          obtain ⟨h1, h2, _⟩ := getPage_eq_some _ id p hg
          unfold getPage
          have hneg : ¬ id < 0 := by omega
          simp only [hneg, if_false, List.getD_eq_getElem?_getD]
          rw [List.getElem?_set_self h2]
          rfl
        · have := e3 id
          rw [if_pos rfl, PinSame_pinAt t tu su] at this
          have h5 : 0 ≤ p.pin_count := by
            have := hpa
            omega
          omega
      · left
        show pinAt (DeletePage (UnpinPage tu a true) a) id = _
        rw [pinAt_DeletePage _ a id he, e3, PinSame_pinAt t tu su]
  · simp only [pure, Except.pure, Except.ok.injEq] at h
    subst h
    refine ⟨e1.trans su.1, fun id => Or.inl ?_⟩
    rw [e3, PinSame_pinAt t tu su]

/-- The loop of `FreeAllPages`: a page that is still in the pool afterwards has lost one pin for
each of its entries in the list. -/
theorem free_loop_pins : ∀ (l : List Int) (t t' : BPlusTree),
    (∀ id, (l.count id : Int) ≤ pinAt t id) → l.foldlM freePage t = Except.ok t' →
    t'.header_pin_count = t.header_pin_count ∧
      ∀ id pg, getPage t' id = some pg → pg.pin_count = pinAt t id - (l.count id : Int) := by
  intro l
  induction l with
  | nil =>
    intro t t' _ h
    cases h
    exact ⟨rfl, fun id pg hg => by rw [pinAt_of_getPage _ _ _ hg]; simp⟩
  | cons a l ih =>
    intro t t' hc h
    rw [List.foldlM_cons] at h
    obtain ⟨t1, h1, h⟩ := bind_ok _ _ _ h
    have hpa : 0 < pinAt t a := by
      have := hc a
      rw [count_cons_int, if_pos rfl] at this
      omega
    obtain ⟨e1, e2⟩ := freePage_pins t t1 a hpa h1
    obtain ⟨f1, f2⟩ := ih t1 t' (by
      intro id
      have := hc id
      rw [count_cons_int] at this
      rcases e2 id with e | ⟨e, hn, h1⟩
      · rw [e]; omega
      · subst e
        rw [pinAt_none _ _ hn]
        rw [if_pos rfl] at this
        omega) h
    refine ⟨f1.trans e1, fun id pg hg => ?_⟩
    rw [f2 id pg hg, count_cons_int]
    have := hc id
    rw [count_cons_int] at this
    rcases e2 id with e | ⟨e, hn, h1⟩
    · rw [e]; omega
    · subst e
      rw [pinAt_none _ _ hn, if_pos rfl]
      rw [if_pos rfl] at this
      omega

/-- `FreeAllPages` gives back the pins of the page set: a page that is still in the pool has
the pins it had beyond those of the page set. -/
theorem FreeAllPages_pins (t0 t t' : BPlusTree) (a : Acc [] t0 t) (h0 : PinOK t0)
    (h : FreeAllPages t = Except.ok t') :
    t'.header_pin_count = t0.header_pin_count ∧
      ∀ id pg, getPage t' id = some pg → pg.pin_count = freePin t0 id := by
  unfold FreeAllPages at h
  obtain ⟨t1, h1, h⟩ := bind_ok _ _ _ h
  simp only at h
  split_ifs at h
  simp only [pure, Except.pure, Except.ok.injEq] at h
  subst h
  obtain ⟨e1, e2⟩ := free_loop_pins t.page_set t t1 (by
    intro id
    have h1 := a.pins id
    have h2 := h0.2 id
    unfold freePin at h1 h2
    simp only [List.count_nil, Nat.cast_zero] at h1
    omega) h1
  refine ⟨e1.trans a.header, fun id pg hg => ?_⟩
  have hg1 : getPage t1 id = some pg := hg
  rw [e2 id pg hg1]
  have := a.pins id
  unfold freePin at this ⊢
  simp only [List.count_nil, Nat.cast_zero] at this
  omega

/-- The loop of `CopyNFrom` pins and unpins every child it adopts. -/
theorem CopyNFromLoop_pins (self : Int) : ∀ (items : List MappingType) (i : Int)
    (xs : List Int) (t0 t t' : BPlusTree), Acc xs t0 t → PinOK t0 →
    CopyNFromLoop self items i t = Except.ok t' → Acc xs t0 t' := by
  intro items
  induction items with
  | nil =>
    intro i xs t0 t t' a _ h
    cases h
    exact a
  | cons item items ih =>
    intro i xs t0 t t' a h0 h
    unfold CopyNFromLoop at h
    cases hf : FetchPage t item.2 with
    | none => simp [hf] at h
    | some t1 =>
      simp only [hf] at h
      have a1 := Acc_fetch xs t0 t t1 a item.2 hf
      obtain ⟨me, hme, h⟩ := bind_ok _ _ _ h
      obtain ⟨child, hchild, h⟩ := bind_ok _ _ _ h
      have a2 := Acc_setNode _ t0 t1 a1 item.2 { child with parent_page_id := me.page_id }
        (fun _ _ => Acc_page_id _ t0 t1 a1 item.2 child hchild)
      have a3 := Acc_unpin item.2 xs t0 _ a2 h0 true
      obtain ⟨me2, hme2, h⟩ := bind_ok _ _ _ h
      have a4 := Acc_setNode _ t0 _ a3 self { me2 with array := slotSet me2.array i item }
        (fun _ _ => Acc_page_id _ t0 _ a3 self me2 hme2)
      exact ih (i + 1) xs t0 _ t' a4 h0 h

theorem CopyNFrom_pins (xs : List Int) (t0 t t' : BPlusTree) (self : Int)
    (items : List MappingType) (size : Int) (a : Acc xs t0 t) (h0 : PinOK t0)
    (h : CopyNFrom t self items size = Except.ok t') : Acc xs t0 t' := by
  unfold CopyNFrom at h
  obtain ⟨t1, h1, h⟩ := bind_ok _ _ _ h
  have a1 := CopyNFromLoop_pins self items 0 xs t0 t t1 a h0 h1
  obtain ⟨me, hme, h⟩ := bind_ok _ _ _ h
  simp only [pure, Except.pure, Except.ok.injEq] at h
  subst h
  exact Acc_setNode _ t0 _ a1 self { me with size := size }
    (fun _ _ => Acc_page_id _ t0 _ a1 self me hme)

theorem MoveHalfTo_pins (xs : List Int) (t0 t t' : BPlusTree) (self recipient : Int)
    (a : Acc xs t0 t) (h0 : PinOK t0) (h : MoveHalfTo t self recipient = Except.ok t') :
    Acc xs t0 t' := by
  unfold MoveHalfTo at h
  obtain ⟨me, hme, h⟩ := bind_ok _ _ _ h
  obtain ⟨t1, h1, h⟩ := bind_ok _ _ _ h
  have a1 := CopyNFrom_pins xs t0 t t1 _ _ _ a h0 h1
  obtain ⟨me2, hme2, h⟩ := bind_ok _ _ _ h
  simp only [pure, Except.pure, Except.ok.injEq] at h
  subst h
  exact Acc_setNode _ t0 _ a1 self _ (fun _ _ => Acc_page_id _ t0 _ a1 self me2 hme2)

theorem MoveAllTo_pins (xs : List Int) (t0 t t' : BPlusTree) (self recipient key : Int)
    (a : Acc xs t0 t) (h0 : PinOK t0) (h : MoveAllTo t self recipient key = Except.ok t') :
    Acc xs t0 t' := by
  unfold MoveAllTo at h
  obtain ⟨r, hr, h⟩ := bind_ok _ _ _ h
  obtain ⟨me, hme, h⟩ := bind_ok _ _ _ h
  obtain ⟨t1, h1, h⟩ := bind_ok _ _ _ h
  have a1 := CopyNFrom_pins xs t0 t t1 _ _ _ a h0 h1
  split_ifs at h
  obtain ⟨r2, hr2, h⟩ := bind_ok _ _ _ h
  have a2 := Acc_setNode _ t0 _ a1 recipient (r2.SetKeyAt (r.GetSize - 1) key)
    (fun _ _ => Acc_page_id _ t0 _ a1 recipient r2 hr2)
  obtain ⟨me2, hme2, h⟩ := bind_ok _ _ _ h
  simp only [pure, Except.pure, Except.ok.injEq] at h
  subst h
  exact Acc_setNode _ t0 _ a2 self _ (fun _ _ => Acc_page_id _ t0 _ a2 self me2 hme2)

theorem CopyLastFrom_pins (xs : List Int) (t0 t t' : BPlusTree) (self : Int)
    (item : MappingType) (a : Acc xs t0 t) (h0 : PinOK t0)
    (h : CopyLastFrom t self item = Except.ok t') : Acc xs t0 t' := by
  unfold CopyLastFrom at h
  obtain ⟨me, hme, h⟩ := bind_ok _ _ _ h
  split_ifs at h
  have a1 := Acc_setNode _ t0 _ a self
    { me with array := slotSet me.array (me.GetSize - 1) item, size := me.GetSize + 1 }
    (fun _ _ => Acc_page_id _ t0 _ a self me hme)
  simp only at h
  cases hf : FetchPage (setNode t self
      { me with array := slotSet me.array (me.GetSize - 1) item, size := me.GetSize + 1 })
      item.2 with
  | none => simp [hf] at h
  | some t1 =>
    simp only [hf] at h
    have a2 := Acc_fetch xs t0 _ t1 a1 item.2 hf
    obtain ⟨me2, hme2, h⟩ := bind_ok _ _ _ h
    obtain ⟨child, hchild, h⟩ := bind_ok _ _ _ h
    simp only [pure, Except.pure, Except.ok.injEq] at h
    subst h
    exact Acc_unpin item.2 xs t0 _ (Acc_setNode _ t0 t1 a2 item.2
      { child with parent_page_id := me2.page_id }
      (fun _ _ => Acc_page_id _ t0 t1 a2 item.2 child hchild)) h0 true

theorem CopyFirstFrom_pins (xs : List Int) (t0 t t' : BPlusTree) (self : Int)
    (item : MappingType) (a : Acc xs t0 t) (h0 : PinOK t0)
    (h : CopyFirstFrom t self item = Except.ok t') : Acc xs t0 t' := by
  unfold CopyFirstFrom at h
  obtain ⟨me, hme, h⟩ := bind_ok _ _ _ h
  simp only at h
  generalize hn : ({ me with
      array := slotSet (slotSet (Node.shiftUp (me.GetSize - 1).toNat me.GetSize me.array) 0
        (item.1, (slotAt (Node.shiftUp (me.GetSize - 1).toNat me.GetSize me.array) 0).2)) 1
        ((slotAt (slotSet (Node.shiftUp (me.GetSize - 1).toNat me.GetSize me.array) 0
          (item.1, (slotAt (Node.shiftUp (me.GetSize - 1).toNat me.GetSize me.array) 0).2))
          1).1, item.2),
      size := me.GetSize + 1 } : Node) = n at h
  have hid : n.page_id = self := by
    rw [← hn]
    exact Acc_page_id _ t0 _ a self me hme
  have a1 := Acc_setNode _ t0 _ a self n (fun _ _ => hid)
  cases hf : FetchPage (setNode t self n) item.2 with
  | none => simp [hf] at h
  | some t1 =>
    simp only [hf] at h
    have a2 := Acc_fetch xs t0 _ t1 a1 item.2 hf
    obtain ⟨me2, hme2, h⟩ := bind_ok _ _ _ h
    obtain ⟨child, hchild, h⟩ := bind_ok _ _ _ h
    simp only [pure, Except.pure, Except.ok.injEq] at h
    subst h
    exact Acc_unpin item.2 xs t0 _ (Acc_setNode _ t0 t1 a2 item.2
      { child with parent_page_id := me2.page_id }
      (fun _ _ => Acc_page_id _ t0 t1 a2 item.2 child hchild)) h0 true

theorem MoveFirstToEndOf_pins (xs : List Int) (t0 t t' : BPlusTree)
    (self recipient key : Int) (a : Acc xs t0 t) (h0 : PinOK t0)
    (h : MoveFirstToEndOf t self recipient key = Except.ok t') : Acc xs t0 t' := by
  unfold MoveFirstToEndOf at h
  obtain ⟨me, hme, h⟩ := bind_ok _ _ _ h
  exact CopyLastFrom_pins xs t0 _ t' recipient _
    (Acc_setNode _ t0 _ a self (me.Remove 0) (fun _ _ => Acc_page_id _ t0 _ a self me hme))
    h0 h

theorem MoveLastToFrontOf_pins (xs : List Int) (t0 t t' : BPlusTree)
    (self recipient key : Int) (a : Acc xs t0 t) (h0 : PinOK t0)
    (h : MoveLastToFrontOf t self recipient key = Except.ok t') : Acc xs t0 t' := by
  unfold MoveLastToFrontOf at h
  obtain ⟨me, hme, h⟩ := bind_ok _ _ _ h
  exact CopyFirstFrom_pins xs t0 _ t' recipient _
    (Acc_setNode _ t0 _ a self (me.Remove (me.GetSize - 1))
      (fun _ _ => Acc_page_id _ t0 _ a self me hme)) h0 h

theorem dataAt_NewPage_of_some (t : BPlusTree) (id : Int) (n : Node)
    (h : dataAt t id = some n) : dataAt (NewPage t).1 id = some n := by
  rw [dataAt_NewPage, if_neg]
  · exact h
  · have := dataAt_range t id n h
    omega

/-- Unpinning a held page under the id stored in its payload. -/
theorem Acc_unpin_eq (x y : Int) (xs : List Int) (t0 t : BPlusTree) (a : Acc (x :: xs) t0 t)
    (h0 : PinOK t0) (d : Bool) (e : y = x) : Acc xs t0 (UnpinPage t y d) := by
  subst e
  exact Acc_unpin _ xs t0 t a h0 d

/-- `Split` leaves the new page pinned once. -/
theorem Split_pins (xs : List Int) (t0 t t' : BPlusTree) (N : IndexPageType)
    (node new : Int) (n0 : Node) (a : Acc xs t0 t) (h0 : PinOK t0)
    (hnode : dataAt t node = some n0) (h : Split t N node = Except.ok (t', new)) :
    new = (t.pages.length : Int) ∧ Acc ((t.pages.length : Int) :: xs) t0 t' := by
  unfold Split at h
  simp only at h
  obtain ⟨n, hn, h⟩ := bind_ok _ _ _ h
  have en : some n = some n0 :=
    ((getNode_ok_iff _ _ _).1 hn).symm.trans (dataAt_NewPage_of_some t node n0 hnode)
  have hid : n.page_id = node := by
    rw [Option.some.inj en]
    exact a.ids node n0 hnode
  obtain ⟨sn, hsn, h⟩ := bind_ok _ _ _ h
  generalize hs : (if N = IndexPageType.LEAF_PAGE then
      sn.InitLeaf (NewPage t).2 n.parent_page_id
        (if n.IsLeafPage = true then (NewPage t).1.leaf_max_size
          else (NewPage t).1.internal_max_size)
    else sn.InitInternal (NewPage t).2 n.parent_page_id
        (if n.IsLeafPage = true then (NewPage t).1.leaf_max_size
          else (NewPage t).1.internal_max_size)) = s at h
  have hsid : s.page_id = (t.pages.length : Int) := by
    rw [← hs]
    split_ifs <;> rfl
  have a1 := Acc_alloc xs t0 t (NewPage t).1 a s rfl rfl rfl hsid
  have e2 : (NewPage t).2 = (t.pages.length : Int) := rfl
  rw [e2] at h
  split_ifs at h with hl
  · simp only [pure, Except.pure, Except.ok.injEq, Prod.mk.injEq] at h
    obtain ⟨rfl, rfl⟩ := h
    refine ⟨rfl, ?_⟩
    refine Acc_setNode _ t0 _ (Acc_setNode _ t0 _ a1 _ _ (fun _ _ => ?_)) node _
      (fun _ _ => ?_)
    · exact hsid
    · exact hid
  · obtain ⟨t2, h2, h⟩ := bind_ok _ _ _ h
    simp only [pure, Except.pure, Except.ok.injEq, Prod.mk.injEq] at h
    obtain ⟨rfl, rfl⟩ := h
    exact ⟨rfl, MoveHalfTo_pins _ t0 _ _ node _ a1 h0 h2⟩

theorem Acc_header_nonneg (xs : List Int) (t0 t : BPlusTree) (a : Acc xs t0 t)
    (h0 : PinOK t0) : 0 ≤ t.header_pin_count := by
  rw [a.header]; exact h0.1

/-- `StartNewTree` pins the new root leaf and unpins it. -/
theorem StartNewTree_pins (xs : List Int) (t0 t t' : BPlusTree) (key value : Int)
    (a : Acc xs t0 t) (h0 : PinOK t0) (h : StartNewTree t key value = Except.ok t') :
    Acc xs t0 t' := by
  unfold StartNewTree at h
  simp only at h
  obtain ⟨lq, hlq, h⟩ := bind_ok _ _ _ h
  simp only [pure, Except.pure, Except.ok.injEq] at h
  subst h
  have e2 : (NewPage t).2 = (t.pages.length : Int) := rfl
  rw [e2]
  have hu := PinSame_UpdateRootPageId
    { (NewPage t).1 with root_page_id := (t.pages.length : Int) } true
    (Acc_header_nonneg xs t0 t a h0)
  have a1 := Acc_alloc xs t0 t
    (UpdateRootPageId { (NewPage t).1 with root_page_id := (t.pages.length : Int) } true) a
    ((lq.InitLeaf (t.pages.length : Int) INVALID_PAGE_ID
      (UpdateRootPageId { (NewPage t).1 with root_page_id := (t.pages.length : Int) }
        true).leaf_max_size).LeafInsert key value).1 rfl rfl hu.1
    ((LeafInsert_facts _ key value).1.trans rfl)
  exact Acc_unpin _ xs t0 _ a1 h0 true

/-- `InsertIntoParent` unpins the new sibling it is given; every page it pins itself it
unpins. -/
theorem InsertIntoParent_pins : ∀ (fuel : Nat) (xs : List Int) (t0 t t' : BPlusTree)
    (old_node key new_node : Int), Acc (new_node :: xs) t0 t → PinOK t0 →
    InsertIntoParent fuel t old_node key new_node = Except.ok t' → Acc xs t0 t' := by
  intro fuel
  induction fuel with
  | zero => intro xs t0 t t' o k nw _ _ h; cases h
  | succ fuel ih =>
    intro xs t0 t t' old_node key new_node a h0 h
    rw [InsertIntoParent] at h
    obtain ⟨old, hold, h⟩ := bind_ok _ _ _ h
    by_cases hr : old.IsRootPage = true
    · rw [if_pos hr] at h
      simp only at h
      have e2 : (NewPage t).2 = (t.pages.length : Int) := rfl
      rw [e2] at h
      obtain ⟨nr, hnr, h⟩ := bind_ok _ _ _ h
      obtain ⟨old1, hold1, h⟩ := bind_ok _ _ _ h
      obtain ⟨new1, hnew1, h⟩ := bind_ok _ _ _ h
      have hu := PinSame_UpdateRootPageId
        { (NewPage t).1 with root_page_id := (t.pages.length : Int) } false
        (Acc_header_nonneg _ t0 t a h0)
      have a1 := Acc_alloc _ t0 t
        (UpdateRootPageId { (NewPage t).1 with root_page_id := (t.pages.length : Int) } false)
        a ((nr.InitInternal (t.pages.length : Int) INVALID_PAGE_ID
          (UpdateRootPageId { (NewPage t).1 with root_page_id := (t.pages.length : Int) }
            false).internal_max_size).PopulateNewRoot old1.page_id key new1.page_id)
        rfl rfl hu.1 rfl
      obtain ⟨old2, hold2, h⟩ := bind_ok _ _ _ h
      have a2 := Acc_setNode _ t0 _ a1 old_node
        { old2 with parent_page_id := (t.pages.length : Int) }
        (fun _ _ => Acc_page_id _ t0 _ a1 old_node old2 hold2)
      obtain ⟨new2, hnew2, h⟩ := bind_ok _ _ _ h
      have hid := Acc_page_id _ t0 _ a2 new_node new2 hnew2
      have a3 := Acc_setNode _ t0 _ a2 new_node
        { new2 with parent_page_id := (t.pages.length : Int) } (fun _ _ => hid)
      simp only [pure, Except.pure, Except.ok.injEq] at h
      subst h
      exact Acc_unpin _ xs t0 _ (Acc_unpin_eq new_node _ _ t0 _ (Acc_swap _ _ _ t0 _ a3) h0
        true hid) h0 true
    · rw [if_neg hr] at h
      cases hf : FetchPage t old.parent_page_id with
      | none => simp [hf] at h
      | some t1 =>
        simp only [hf] at h
        have a1 := Acc_fetch _ t0 t t1 a _ hf
        obtain ⟨pp, hpp, h⟩ := bind_ok _ _ _ h
        obtain ⟨nw, hnw, h⟩ := bind_ok _ _ _ h
        have hnid := Acc_page_id _ t0 _ a1 new_node nw hnw
        have hpid := Acc_page_id _ t0 _ a1 _ pp hpp
        cases hins : pp.InsertNodeAfter old.page_id key nw.page_id with
        | none => simp [hins] at h
        | some r =>
          obtain ⟨pp', size⟩ := r
          simp only [hins] at h
          have hf1 := (InsertNodeAfter_facts pp pp' _ _ _ size hins).1
          have a2 := Acc_setNode _ t0 _ a1 old.parent_page_id pp'
            (fun _ _ => hf1.trans hpid)
          have a3 := Acc_unpin_eq new_node nw.page_id _ t0 _ (Acc_swap _ _ _ t0 _ a2) h0 true
            hnid
          split_ifs at h with hfull
          · obtain ⟨r2, hsp, h⟩ := bind_ok _ _ _ h
            obtain ⟨t4, sp⟩ := r2
            simp only at h
            have hex : dataAt (UnpinPage (setNode t1 old.parent_page_id pp') nw.page_id true)
                old.parent_page_id = some pp' := by
              rw [dataAt_UnpinPage, dataAt_setNode, if_pos rfl, (getNode_ok_iff _ _ _).1 hpp]
              rfl
            obtain ⟨rfl, a4⟩ := Split_pins _ t0 _ t4 _ _ sp pp' a3 h0 hex hsp
            obtain ⟨sn, _, h⟩ := bind_ok _ _ _ h
            obtain ⟨t5, h5, h⟩ := bind_ok _ _ _ h
            have a5 := ih _ t0 t4 t5 _ _ _ a4 h0 h5
            obtain ⟨pp5, hpp5, h⟩ := bind_ok _ _ _ h
            simp only [pure, Except.pure, Except.ok.injEq] at h
            subst h
            exact Acc_unpin_eq _ _ xs t0 _ a5 h0 true (Acc_page_id _ t0 _ a5 _ pp5 hpp5)
          · simp only [pure, Except.pure, Except.ok.injEq] at h
            subst h
            exact Acc_unpin_eq _ _ xs t0 _ a3 h0 true (hf1.trans hpid)

/-- The descent of a writer: every page it pins enters the page set, and the pages it releases
on the way give back the pins of the page set. -/
theorem crabbing_loop_write_pins (key : Int) (op : OP_TYPE) (hop : op ≠ OP_TYPE.READ) :
    ∀ (fuel : Nat) (xs : List Int) (t0 t t' : BPlusTree) (page leaf : Int),
    Acc xs t0 t → PinOK t0 →
    FindLeafPageCrabbingLoop key op fuel t page = Except.ok (t', leaf) → Acc xs t0 t' := by
  intro fuel
  induction fuel with
  | zero => intro xs t0 t t' page leaf _ _ h; cases h
  | succ fuel ih =>
    intro xs t0 t t' page leaf a h0 h
    rw [FindLeafPageCrabbingLoop] at h
    obtain ⟨node, hnode, h⟩ := bind_ok _ _ _ h
    split_ifs at h with hl
    · simp only [pure, Except.pure, Except.ok.injEq, Prod.mk.injEq] at h
      obtain ⟨rfl, _⟩ := h
      exact a
    · cases hlk : node.Lookup key with
      | none => simp [hlk] at h
      | some child =>
        simp only [hlk] at h
        cases hf : FetchPage t child with
        | none => simp [hf] at h
        | some t1 =>
          simp only [hf] at h
          have a1 := Acc_fetch xs t0 t t1 a child hf
          obtain ⟨t2, hlatch, h⟩ := bind_ok _ _ _ h
          have a2 := Acc_same _ t0 t1 t2 a1 (PinSame_LatchPage t1 t2 child op hlatch)
          obtain ⟨cn, _, h⟩ := bind_ok _ _ _ h
          split_ifs at h with hsafe
          · obtain ⟨t3, hrel, h⟩ := bind_ok _ _ _ h
            have a3 := (ReleaseAllPages_pins _ t0 _ t3
              (Acc_same _ t0 t2 _ a2 (PinSame_TryUnlatchRoot t2 op)) h0 hrel).1
            exact ih xs t0 _ t' child leaf (Acc_toPageSet child xs t0 t3 a3) h0 h
          · exact ih xs t0 _ t' child leaf (Acc_toPageSet child xs t0 t2 a2) h0 h

theorem FetchPage_root (t t' : BPlusTree) (id : Int) (h : FetchPage t id = some t') :
    t'.root_page_id = t.root_page_id := by
  obtain ⟨pg, _, rfl⟩ := FetchPage_eq_some t t' id h
  rfl

theorem crabbing_write_pins (key : Int) (op : OP_TYPE) (hop : op ≠ OP_TYPE.READ)
    (xs : List Int) (t0 t t' : BPlusTree) (leaf : Int) (a : Acc xs t0 t) (h0 : PinOK t0)
    (h : FindLeafPageCrabbing t key op = Except.ok (t', leaf)) : Acc xs t0 t' := by
  unfold FindLeafPageCrabbing at h
  obtain ⟨t1, h1, h⟩ := bind_ok _ _ _ h
  have a1 := Acc_same _ t0 t t1 a (PinSame_LatchRoot t t1 op h1)
  cases hf : FetchPage t1 t1.root_page_id with
  | none => simp [hf] at h
  | some t2 =>
    simp only [hf] at h
    have a2 := Acc_fetch xs t0 t1 t2 a1 _ hf
    obtain ⟨t3, hlatch, h⟩ := bind_ok _ _ _ h
    have a3 := Acc_same _ t0 t2 t3 a2 (PinSame_LatchPage t2 t3 _ op hlatch)
    rw [if_pos hop, FetchPage_root t1 t2 _ hf] at h
    exact crabbing_loop_write_pins key op hop _ xs t0 _ t' _ leaf
      (Acc_toPageSet _ xs t0 t3 a3) h0 h

theorem UnpinPage_page_set (t : BPlusTree) (id : Int) (d : Bool) :
    (UnpinPage t id d).page_set = t.page_set := by
  unfold UnpinPage
  cases getPage t id with
  | none => rfl
  | some p =>
    simp only
    split_ifs <;> rfl

theorem FetchPage_page_set (t t' : BPlusTree) (id : Int) (h : FetchPage t id = some t') :
    t'.page_set = t.page_set := by
  obtain ⟨pg, _, rfl⟩ := FetchPage_eq_some t t' id h
  rfl

/-- The descent of a reader: the page it is on is its only pin, and the page set is not
touched. -/
theorem crabbing_loop_read_pins (key : Int) :
    ∀ (fuel : Nat) (xs : List Int) (t0 t t' : BPlusTree) (page leaf : Int),
    Acc (page :: xs) t0 t → PinOK t0 →
    FindLeafPageCrabbingLoop key OP_TYPE.READ fuel t page = Except.ok (t', leaf) →
    Acc (leaf :: xs) t0 t' ∧ t'.page_set = t.page_set := by
  intro fuel
  induction fuel with
  | zero => intro xs t0 t t' page leaf _ _ h; cases h
  | succ fuel ih =>
    intro xs t0 t t' page leaf a h0 h
    rw [FindLeafPageCrabbingLoop] at h
    obtain ⟨node, hnode, h⟩ := bind_ok _ _ _ h
    split_ifs at h with hl hx
    · simp only [pure, Except.pure, Except.ok.injEq, Prod.mk.injEq] at h
      obtain ⟨rfl, rfl⟩ := h
      exact ⟨a, rfl⟩
    · cases hlk : node.Lookup key with
      | none => simp [hlk] at h
      | some child =>
        simp only [hlk] at h
        cases hf : FetchPage t child with
        | none => simp [hf] at h
        | some t1 =>
          simp only [hf] at h
          have a1 := Acc_fetch _ t0 t t1 a child hf
          obtain ⟨t2, hlatch, h⟩ := bind_ok _ _ _ h
          have s2 := PinSame_LatchPage t1 t2 child _ hlatch
          have a2 := Acc_same _ t0 t1 t2 a1 s2
          obtain ⟨cn, _, h⟩ := bind_ok _ _ _ h
          obtain ⟨t3, hun, h⟩ := bind_ok _ _ _ h
          have s3 := PinSame_trans _ _ _ (PinSame_TryUnlatchRoot t2 OP_TYPE.READ)
            (PinSame_UnlatchPage _ t3 page _ hun)
          have a3 := Acc_same _ t0 t2 t3 a2 s3
          have a4 := Acc_unpin page (child :: xs) t0 t3 (Acc_swap _ _ _ t0 t3 a3) h0 false
          obtain ⟨a5, e5⟩ := ih xs t0 _ t' child leaf a4 h0 h
          refine ⟨a5, ?_⟩
          rw [e5, UnpinPage_page_set, s3.2.1, s2.2.1, FetchPage_page_set t t1 child hf]
    · exact absurd rfl hx

theorem crabbing_read_pins (key : Int) (xs : List Int) (t0 t t' : BPlusTree) (leaf : Int)
    (a : Acc xs t0 t) (h0 : PinOK t0)
    (h : FindLeafPageCrabbing t key OP_TYPE.READ = Except.ok (t', leaf)) :
    Acc (leaf :: xs) t0 t' ∧ t'.page_set = t.page_set := by
  unfold FindLeafPageCrabbing at h
  obtain ⟨t1, h1, h⟩ := bind_ok _ _ _ h
  have s1 := PinSame_LatchRoot t t1 _ h1
  have a1 := Acc_same _ t0 t t1 a s1
  cases hf : FetchPage t1 t1.root_page_id with
  | none => simp [hf] at h
  | some t2 =>
    simp only [hf] at h
    have a2 := Acc_fetch xs t0 t1 t2 a1 _ hf
    obtain ⟨t3, hlatch, h⟩ := bind_ok _ _ _ h
    have s3 := PinSame_LatchPage t2 t3 _ _ hlatch
    have a3 := Acc_same _ t0 t2 t3 a2 s3
    rw [if_neg (by decide), FetchPage_root t1 t2 _ hf] at h
    obtain ⟨a4, e4⟩ := crabbing_loop_read_pins key _ xs t0 t3 t' _ leaf a3 h0 h
    refine ⟨a4, ?_⟩
    rw [e4, s3.2.1, FetchPage_page_set t1 t2 _ hf, s1.2.1]

/-- The pin counts after a step that ends with the page set empty, started with the page set
empty and nothing held. -/
theorem Acc_pinAt (t0 t : BPlusTree) (a : Acc [] t0 t) (h1 : t0.page_set = [])
    (h2 : t.page_set = []) (id : Int) : pinAt t id = pinAt t0 id := by
  have := a.pins id
  unfold freePin at this
  rw [h1, h2] at this
  simpa using this

/-- `GetValue` unpins the leaf it reached, the only page it still holds. -/
theorem GetValue_pins (t0 t t' : BPlusTree) (key : Int) (r : List Int) (b : Bool)
    (out : List Int) (a : Acc [] t0 t) (h0 : PinOK t0)
    (h : GetValue t key r = Except.ok (t', b, out)) :
    Acc [] t0 t' ∧ t'.page_set = t.page_set := by
  unfold GetValue at h
  obtain ⟨t1, h1, h⟩ := bind_ok _ _ _ h
  have s1 := PinSame_LatchRoot t t1 _ h1
  have a1 := Acc_same _ t0 t t1 a s1
  split_ifs at h with hemp
  · simp only [pure, Except.pure, Except.ok.injEq, Prod.mk.injEq] at h
    obtain ⟨rfl, _⟩ := h
    have s2 := PinSame_TryUnlatchRoot t1 OP_TYPE.READ
    exact ⟨Acc_same _ t0 t1 _ a1 s2, s2.2.1.trans s1.2.1⟩
  · obtain ⟨c, hc, h⟩ := bind_ok _ _ _ h
    obtain ⟨t3, page⟩ := c
    simp only at h
    have s2 := PinSame_TryUnlatchRoot t1 OP_TYPE.READ
    obtain ⟨a3, e3⟩ := crabbing_read_pins key [] t0 _ t3 page (Acc_same _ t0 t1 _ a1 s2) h0 hc
    obtain ⟨lq, _, h⟩ := bind_ok _ _ _ h
    obtain ⟨t4, hun, h⟩ := bind_ok _ _ _ h
    have s4 := PinSame_trans _ _ _ (PinSame_TryUnlatchRoot t3 OP_TYPE.READ)
      (PinSame_UnlatchPage _ t4 page _ hun)
    have a5 := Acc_unpin page [] t0 _ (Acc_same _ t0 t3 t4 a3 s4) h0 false
    have e5 : (UnpinPage t4 page false).page_set = t.page_set := by
      rw [UnpinPage_page_set, s4.2.1, e3, s2.2.1, s1.2.1]
    cases hv : lq.LeafLookup key with
    | none =>
      simp only [hv, pure, Except.pure, Except.ok.injEq, Prod.mk.injEq] at h
      obtain ⟨rfl, _⟩ := h
      exact ⟨a5, e5⟩
    | some v =>
      simp only [hv, pure, Except.pure, Except.ok.injEq, Prod.mk.injEq] at h
      obtain ⟨rfl, _⟩ := h
      exact ⟨a5, e5⟩

/-- `InsertIntoLeaf` ends with nothing held and the page set empty. -/
theorem InsertIntoLeaf_pins (t0 t t' : BPlusTree) (key value : Int) (b : Bool)
    (a : Acc [] t0 t) (h0 : PinOK t0) (h : InsertIntoLeaf t key value = Except.ok (t', b)) :
    Acc [] t0 t' ∧ t'.page_set = [] := by
  unfold InsertIntoLeaf at h
  obtain ⟨c, hc, h⟩ := bind_ok _ _ _ h
  obtain ⟨t1, page⟩ := c
  simp only at h
  have a1 := crabbing_write_pins key OP_TYPE.INSERT (by decide) [] t0 t t1 page a h0 hc
  obtain ⟨lq, hlq, h⟩ := bind_ok _ _ _ h
  have a2 := Acc_setNode _ t0 t1 a1 page (lq.LeafInsert key value).1
    (fun _ _ => (LeafInsert_facts lq key value).1.trans (Acc_page_id _ t0 t1 a1 page lq hlq))
  split_ifs at h with hfull
  · obtain ⟨r2, hsp, h⟩ := bind_ok _ _ _ h
    obtain ⟨t3, sp⟩ := r2
    simp only at h
    have hex : dataAt (setNode t1 page (lq.LeafInsert key value).1) page =
        some (lq.LeafInsert key value).1 := by
      rw [dataAt_setNode, if_pos rfl, (getNode_ok_iff _ _ _).1 hlq]
      rfl
    obtain ⟨rfl, a3⟩ := Split_pins _ t0 _ t3 _ _ sp _ a2 h0 hex hsp
    obtain ⟨sn, _, h⟩ := bind_ok _ _ _ h
    obtain ⟨t4, h4, h⟩ := bind_ok _ _ _ h
    have a4 := InsertIntoParent_pins _ [] t0 t3 t4 _ _ _ a3 h0 h4
    obtain ⟨t5, h5, h⟩ := bind_ok _ _ _ h
    simp only [pure, Except.pure, Except.ok.injEq, Prod.mk.injEq] at h
    obtain ⟨rfl, _⟩ := h
    exact ReleaseAllPages_pins _ t0 _ t5
      (Acc_same _ t0 t4 _ a4 (PinSame_TryUnlatchRoot t4 OP_TYPE.INSERT)) h0 h5
  · obtain ⟨t5, h5, h⟩ := bind_ok _ _ _ h
    simp only [pure, Except.pure, Except.ok.injEq, Prod.mk.injEq] at h
    obtain ⟨rfl, _⟩ := h
    exact ReleaseAllPages_pins _ t0 _ t5
      (Acc_same _ t0 _ _ a2 (PinSame_TryUnlatchRoot _ OP_TYPE.INSERT)) h0 h5

theorem StartNewTree_page_set (t t' : BPlusTree) (key value : Int)
    (h : StartNewTree t key value = Except.ok t') : t'.page_set = t.page_set := by
  unfold StartNewTree at h
  simp only at h
  obtain ⟨lq, _, h⟩ := bind_ok _ _ _ h
  simp only [pure, Except.pure, Except.ok.injEq] at h
  subst h
  rw [UnpinPage_page_set, setNode_page_set]
  rfl

/-- `Insert` ends with nothing held and the page set empty. -/
theorem Insert_pins (t t' : BPlusTree) (key value : Int) (b : Bool) (hi : IdOK t)
    (h0 : PinOK t) (hs : t.page_set = []) (h : Insert t key value = Except.ok (t', b)) :
    Acc [] t t' ∧ t'.page_set = [] := by
  unfold Insert at h
  obtain ⟨t1, h1, h⟩ := bind_ok _ _ _ h
  have s1 := PinSame_LatchRoot t t1 _ h1
  have a1 := Acc_same _ t t t1 (Acc_refl t hi) s1
  split_ifs at h with hemp
  · obtain ⟨t2, h2, h⟩ := bind_ok _ _ _ h
    simp only [pure, Except.pure, Except.ok.injEq, Prod.mk.injEq] at h
    obtain ⟨rfl, _⟩ := h
    have s3 := PinSame_TryUnlatchRoot t2 OP_TYPE.INSERT
    refine ⟨Acc_same _ t t2 _ (StartNewTree_pins [] t t1 t2 key value a1 h0 h2) s3, ?_⟩
    rw [s3.2.1, StartNewTree_page_set t1 t2 key value h2, s1.2.1, hs]
  · exact InsertIntoLeaf_pins t _ t' key value b
      (Acc_same _ t t1 _ a1 (PinSame_TryUnlatchRoot t1 OP_TYPE.INSERT)) h0 h

/-- `AdjustRoot` pins and unpins the child that becomes the root. -/
theorem AdjustRoot_pins (xs : List Int) (t0 t t' : BPlusTree) (root : Int) (b : Bool)
    (a : Acc xs t0 t) (h0 : PinOK t0) (h : AdjustRoot t root = Except.ok (t', b)) :
    Acc xs t0 t' := by
  unfold AdjustRoot at h
  obtain ⟨old, hold, h⟩ := bind_ok _ _ _ h
  split_ifs at h with c1 c2
  · simp only [Node.RemoveAndReturnOnlyChild] at h
    have a1 := Acc_setNode _ t0 t a root (old.Remove 0)
      (fun _ _ => Acc_page_id _ t0 t a root old hold)
    have a2 := Acc_same _ t0 _ { setNode t root (old.Remove 0) with
      root_page_id := old.ValueAt 0 } a1 (PinSame_of_pages _ _ rfl rfl rfl)
    have a3 := Acc_same _ t0 _ _ a2 (PinSame_UpdateRootPageId _ false
      (Acc_header_nonneg _ t0 _ a2 h0))
    cases hf : FetchPage (UpdateRootPageId { setNode t root (old.Remove 0) with
        root_page_id := old.ValueAt 0 } false) (old.ValueAt 0) with
    | none => simp [hf] at h
    | some t3 =>
      simp only [hf] at h
      have a4 := Acc_fetch _ t0 _ t3 a3 _ hf
      obtain ⟨child, hchild, h⟩ := bind_ok _ _ _ h
      simp only [pure, Except.pure, Except.ok.injEq, Prod.mk.injEq] at h
      obtain ⟨rfl, _⟩ := h
      exact Acc_unpin _ xs t0 _ (Acc_setNode _ t0 t3 a4 _
        { child with parent_page_id := INVALID_PAGE_ID }
        (fun _ _ => Acc_page_id _ t0 t3 a4 _ child hchild)) h0 true
  · simp only [pure, Except.pure, Except.ok.injEq, Prod.mk.injEq] at h
    obtain ⟨rfl, _⟩ := h
    have a2 := Acc_same _ t0 _ { t with root_page_id := INVALID_PAGE_ID } a
      (PinSame_of_pages _ _ rfl rfl rfl)
    exact Acc_same _ t0 _ _ a2 (PinSame_UpdateRootPageId _ false
      (Acc_header_nonneg _ t0 _ a2 h0))
  · simp only [pure, Except.pure, Except.ok.injEq, Prod.mk.injEq] at h
    obtain ⟨rfl, _⟩ := h
    exact a

/-- `Redistribute` pins the parent and unpins it. -/
theorem Redistribute_pins (xs : List Int) (t0 t t' : BPlusTree) (neighbor_node : Option Int)
    (node index : Int) (a : Acc xs t0 t) (h0 : PinOK t0)
    (h : Redistribute t neighbor_node node index = Except.ok t') : Acc xs t0 t' := by
  unfold Redistribute at h
  obtain ⟨n, hn, h⟩ := bind_ok _ _ _ h
  have hnid := Acc_page_id _ t0 t a node n hn
  cases hf : FetchPage t n.parent_page_id with
  | none => simp [hf] at h
  | some t1 =>
    simp only [hf] at h
    have a1 := Acc_fetch _ t0 t t1 a _ hf
    obtain ⟨pn, hpn, h⟩ := bind_ok _ _ _ h
    cases hv : pn.ValueIndex n.page_id with
    | none => simp [hv] at h
    | some node_index =>
      simp only [hv] at h
      cases neighbor_node with
      | none => simp at h
      | some neighbor =>
        simp only at h
        obtain ⟨nb, hnb, h⟩ := bind_ok _ _ _ h
        have hnbid := Acc_page_id _ t0 t1 a1 neighbor nb hnb
        by_cases hl : n.IsLeafPage = true
        · rw [if_pos hl] at h
          by_cases hx : index = NODE_IS_LEFT
          · rw [if_pos hx] at h
            obtain ⟨⟨e1, _⟩, e2, _⟩ := LeafMoveFirstToEndOf_facts nb n
            have a2 := Acc_setNode _ t0 _ (Acc_setNode _ t0 t1 a1 neighbor
              (nb.LeafMoveFirstToEndOf n).1 (fun _ _ => e1.1.trans hnbid)) node
              (nb.LeafMoveFirstToEndOf n).2 (fun _ _ => e2.1.trans hnid)
            obtain ⟨pn2, hpn2, h⟩ := bind_ok _ _ _ h
            obtain ⟨nb2, _, h⟩ := bind_ok _ _ _ h
            simp only [pure, Except.pure, Except.ok.injEq] at h
            subst h
            have hp2 := Acc_page_id _ t0 _ a2 _ pn2 hpn2
            exact Acc_unpin_eq _ _ xs t0 _ (Acc_setNode _ t0 _ a2 _
              (pn2.SetKeyAt (node_index + 1) (nb2.KeyAt 0)) (fun _ _ => hp2)) h0 true hp2
          · rw [if_neg hx] at h
            obtain ⟨⟨e1, _⟩, e2, _⟩ := LeafMoveLastToFrontOf_facts nb n
            have a2 := Acc_setNode _ t0 _ (Acc_setNode _ t0 t1 a1 neighbor
              (nb.LeafMoveLastToFrontOf n).1 (fun _ _ => e1.1.trans hnbid)) node
              (nb.LeafMoveLastToFrontOf n).2 (fun _ _ => e2.1.trans hnid)
            obtain ⟨pn2, hpn2, h⟩ := bind_ok _ _ _ h
            obtain ⟨n2, _, h⟩ := bind_ok _ _ _ h
            simp only [pure, Except.pure, Except.ok.injEq] at h
            subst h
            have hp2 := Acc_page_id _ t0 _ a2 _ pn2 hpn2
            exact Acc_unpin_eq _ _ xs t0 _ (Acc_setNode _ t0 _ a2 _
              (pn2.SetKeyAt node_index (n2.KeyAt 0)) (fun _ _ => hp2)) h0 true hp2
        · rw [if_neg hl] at h
          have hpid := Acc_page_id _ t0 t1 a1 _ pn hpn
          by_cases hx : index = NODE_IS_LEFT
          · rw [if_pos hx] at h
            obtain ⟨t3, hmv, h⟩ := bind_ok _ _ _ h
            obtain ⟨pn2, hpn2, h⟩ := bind_ok _ _ _ h
            simp only [pure, Except.pure, Except.ok.injEq] at h
            subst h
            have a3 := MoveFirstToEndOf_pins _ t0 _ t3 _ _ _ (Acc_setNode _ t0 t1 a1 _
              (pn.SetKeyAt (node_index + 1) (nb.KeyAt 1)) (fun _ _ => hpid)) h0 hmv
            exact Acc_unpin_eq _ _ xs t0 _ a3 h0 true (Acc_page_id _ t0 _ a3 _ pn2 hpn2)
          · rw [if_neg hx] at h
            obtain ⟨t3, hmv, h⟩ := bind_ok _ _ _ h
            obtain ⟨pn2, hpn2, h⟩ := bind_ok _ _ _ h
            simp only [pure, Except.pure, Except.ok.injEq] at h
            subst h
            have a3 := MoveLastToFrontOf_pins _ t0 _ t3 _ _ _ (Acc_setNode _ t0 t1 a1 _
              (pn.SetKeyAt node_index (nb.KeyAt (nb.GetSize - 1))) (fun _ _ => hpid)) h0 hmv
            exact Acc_unpin_eq _ _ xs t0 _ a3 h0 true (Acc_page_id _ t0 _ a3 _ pn2 hpn2)

/-- `Coalesce` with the node as the donor holds no pin of its own at its end when the recursive
call on the parent holds none. -/
theorem Coalesce_pins_right (recurse : BPlusTree → Int → Except Err (BPlusTree × Bool))
    (xs : List Int) (t0 t t' : BPlusTree) (neighbor_node_ node_ parent index : Int) (b : Bool)
    (hx : ¬ index = NODE_IS_LEFT) (a : Acc xs t0 t) (h0 : PinOK t0)
    (hrec : ∀ t1 t2 b2, Acc xs t0 t1 → recurse t1 parent = Except.ok (t2, b2) → Acc xs t0 t2)
    (h : Coalesce recurse t neighbor_node_ node_ parent index = Except.ok (t', b)) :
    Acc xs t0 t' := by
  unfold Coalesce at h
  simp only [if_neg hx] at h
  obtain ⟨n, hn, h⟩ := bind_ok _ _ _ h
  have hnid := Acc_page_id _ t0 t a node_ n hn
  obtain ⟨pn, hpn, h⟩ := bind_ok _ _ _ h
  cases hv : pn.ValueIndex n.page_id with
  | none => simp [hv] at h
  | some node_index =>
    simp only [hv] at h
    by_cases hl : n.IsLeafPage = true
    on_goal 1 =>
      rw [if_pos hl] at h
      obtain ⟨nb, hnb, h⟩ := bind_ok _ _ _ h
      obtain ⟨y, hy, h⟩ := bind_ok _ _ _ h
      simp only [pure, Except.pure, Except.ok.injEq] at hy
      have ay : Acc xs t0 y := by
        subst hy
        obtain ⟨⟨e1, _⟩, e2, _⟩ := LeafMoveAllTo_facts n nb
        exact Acc_setNode _ t0 _ (Acc_setNode _ t0 t a neighbor_node_ (n.LeafMoveAllTo nb).2
          (fun _ _ => e2.1.trans (Acc_page_id _ t0 t a _ nb hnb))) node_
          (n.LeafMoveAllTo nb).1 (fun _ _ => e1.1.trans hnid)
    on_goal 2 =>
      rw [if_neg hl] at h
      obtain ⟨y, hy, h⟩ := bind_ok _ _ _ h
      have ay : Acc xs t0 y := MoveAllTo_pins xs t0 t y _ _ _ a h0 hy
    all_goals
      obtain ⟨n2, _, h⟩ := bind_ok _ _ _ h
      obtain ⟨pn2, hpn2, h⟩ := bind_ok _ _ _ h
      have a3 := Acc_same _ t0 y _ ay (PinSame_AddIntoDeletedPageSet y n2.page_id)
      have a4 := Acc_setNode _ t0 _ a3 parent (pn2.Remove node_index)
        (fun _ _ => Acc_page_id _ t0 _ a3 parent pn2 hpn2)
      split_ifs at h with hlt
      · obtain ⟨d, hd, h⟩ := bind_ok _ _ _ h
        have a5 := hrec _ d.1 d.2 a4 hd
        split_ifs at h
        · obtain ⟨pn3, _, h⟩ := bind_ok _ _ _ h
          simp only [pure, Except.pure, Except.ok.injEq, Prod.mk.injEq] at h
          obtain ⟨rfl, _⟩ := h
          exact Acc_same _ t0 d.1 _ a5 (PinSame_AddIntoDeletedPageSet d.1 pn3.page_id)
        · simp only [pure, Except.pure, Except.ok.injEq, Prod.mk.injEq] at h
          obtain ⟨rfl, _⟩ := h
          exact a5
      · simp only [pure, Except.pure, Except.ok.injEq, Prod.mk.injEq] at h
        obtain ⟨rfl, _⟩ := h
        exact a4

theorem Coalesce_pins (recurse : BPlusTree → Int → Except Err (BPlusTree × Bool))
    (xs : List Int) (t0 t t' : BPlusTree) (neighbor_node_ node_ parent index : Int) (b : Bool)
    (a : Acc xs t0 t) (h0 : PinOK t0)
    (hrec : ∀ t1 t2 b2, Acc xs t0 t1 → recurse t1 parent = Except.ok (t2, b2) → Acc xs t0 t2)
    (h : Coalesce recurse t neighbor_node_ node_ parent index = Except.ok (t', b)) :
    Acc xs t0 t' := by
  by_cases hx : index = NODE_IS_LEFT
  · subst hx
    rw [Coalesce_left] at h
    exact Coalesce_pins_right recurse xs t0 t t' node_ neighbor_node_ parent NODE_IS_RIGHT b
      (by decide) a h0 hrec h
  · exact Coalesce_pins_right recurse xs t0 t t' neighbor_node_ node_ parent index b hx a h0
      hrec h

/-- The sibling fetch: the pin of the sibling is one of the page set. -/
theorem fetchSibling_pins (xs : List Int) (t0 t t' : BPlusTree) (id : Int) (a : Acc xs t0 t)
    (h : fetchSibling t id = Except.ok t') : Acc xs t0 t' := by
  unfold fetchSibling at h
  cases hf : FetchPage t id with
  | none => simp [hf] at h
  | some t1 =>
    simp only [hf] at h
    obtain ⟨t2, h2, h⟩ := bind_ok _ _ _ h
    simp only [pure, Except.pure, Except.ok.injEq] at h
    subst h
    exact Acc_toPageSet id xs t0 t2
      (Acc_same _ t0 t1 t2 (Acc_fetch xs t0 t t1 a id hf) (PinSame_LatchPage t1 t2 id _ h2))

/-- `CoalesceOrRedistribute` holds no pin of its own at its end: the parent is pinned and
unpinned, the pins of the siblings are pins of the page set. -/
theorem CoalesceOrRedistribute_pins : ∀ (fuel : Nat) (xs : List Int) (t0 t t' : BPlusTree)
    (node : Int) (b : Bool), Acc xs t0 t → PinOK t0 →
    CoalesceOrRedistribute fuel t node = Except.ok (t', b) → Acc xs t0 t' := by
  intro fuel
  induction fuel with
  | zero => intro xs t0 t t' node b _ _ h; cases h
  | succ fuel ih =>
    intro xs t0 t t' node b a h0 h
    rw [CoalesceOrRedistribute] at h
    obtain ⟨n, hn, h⟩ := bind_ok _ _ _ h
    by_cases hr : n.IsRootPage = true
    · rw [if_pos hr] at h
      obtain ⟨d, hd, h⟩ := bind_ok _ _ _ h
      obtain ⟨t2, sdr⟩ := d
      have a2 := AdjustRoot_pins xs t0 t t2 node sdr a h0 hd
      dsimp only at h
      obtain ⟨n2, _, h⟩ := bind_ok _ _ _ h
      split_ifs at h
      · simp only [pure, Except.pure, Except.ok.injEq, Prod.mk.injEq] at h
        obtain ⟨rfl, _⟩ := h
        exact Acc_same _ t0 t2 _ a2 (PinSame_AddIntoDeletedPageSet t2 n2.page_id)
      · simp only [pure, Except.pure, Except.ok.injEq, Prod.mk.injEq] at h
        obtain ⟨rfl, _⟩ := h
        exact a2
    · rw [if_neg hr] at h
      cases hf : FetchPage t n.parent_page_id with
      | none => simp [hf] at h
      | some t1 =>
        simp only [hf] at h
        have a1 := Acc_fetch xs t0 t t1 a _ hf
        obtain ⟨pp, hpp0, h⟩ := bind_ok _ _ _ h
        cases hv : pp.ValueIndex n.page_id with
        | none => simp [hv] at h
        | some node_index =>
          simp only [hv] at h
          by_cases hL : node_index - 1 ≥ 0
          on_goal 1 =>
            rw [if_pos hL] at h
            obtain ⟨t2, hfs, h⟩ := bind_ok _ _ _ h
            obtain ⟨y, hy, h⟩ := bind_ok _ _ _ h
            obtain ⟨t2', left⟩ := y
            simp only [pure, Except.pure, Except.ok.injEq, Prod.mk.injEq] at hy
            have a2 : Acc (n.parent_page_id :: xs) t0 t2' := by
              rw [← hy.1]; exact fetchSibling_pins _ t0 t1 t2 _ a1 hfs
          on_goal 2 =>
            rw [if_neg hL] at h
            obtain ⟨y, hy, h⟩ := bind_ok _ _ _ h
            obtain ⟨t2', left⟩ := y
            simp only [pure, Except.pure, Except.ok.injEq, Prod.mk.injEq] at hy
            have a2 : Acc (n.parent_page_id :: xs) t0 t2' := by rw [← hy.1]; exact a1
          all_goals
            dsimp only at h
            obtain ⟨pp2, hpp2, h⟩ := bind_ok _ _ _ h
            by_cases hR : node_index + 1 < pp2.GetSize
            on_goal 1 =>
              rw [if_pos hR] at h
              obtain ⟨t3, hfs3, h⟩ := bind_ok _ _ _ h
              obtain ⟨y3, hy3, h⟩ := bind_ok _ _ _ h
              obtain ⟨t3', right⟩ := y3
              simp only [pure, Except.pure, Except.ok.injEq, Prod.mk.injEq] at hy3
              have a3 : Acc (n.parent_page_id :: xs) t0 t3' := by
                rw [← hy3.1]; exact fetchSibling_pins _ t0 t2' t3 _ a2 hfs3
            on_goal 2 =>
              rw [if_neg hR] at h
              obtain ⟨y3, hy3, h⟩ := bind_ok _ _ _ h
              obtain ⟨t3', right⟩ := y3
              simp only [pure, Except.pure, Except.ok.injEq, Prod.mk.injEq] at hy3
              have a3 : Acc (n.parent_page_id :: xs) t0 t3' := by rw [← hy3.1]; exact a2
            all_goals
              dsimp only at h
              obtain ⟨n3, hn3, h⟩ := bind_ok _ _ _ h
              obtain ⟨ls, hls, h⟩ := match_bind_ok _ _ _ _ _ h
              obtain ⟨rs, hrs, h⟩ := match_bind_ok _ _ _ _ _ h
              have hCo : ∀ sid idx (d : BPlusTree × Bool),
                  Coalesce (CoalesceOrRedistribute fuel) t3' sid node n.parent_page_id idx =
                    Except.ok d → Acc (n.parent_page_id :: xs) t0 d.1 := by
                intro sid idx d hd
                exact Coalesce_pins _ _ t0 t3' d.1 sid node n.parent_page_id idx d.2 a3 h0
                  (fun u1 u2 b2 au hu => ih _ t0 u1 u2 n.parent_page_id b2 au h0 hu) hd
              split at h
              · obtain ⟨d, hd, h⟩ := bind_ok _ _ _ h
                have a4 := hCo _ _ d hd
                obtain ⟨pp3, hpp3, h⟩ := bind_ok _ _ _ h
                obtain ⟨n4, _, h⟩ := bind_ok _ _ _ h
                simp only [pure, Except.pure, Except.ok.injEq, Prod.mk.injEq] at h
                obtain ⟨rfl, _⟩ := h
                exact Acc_unpin_eq _ _ xs t0 _ a4 h0 true (Acc_page_id _ t0 _ a4 _ pp3 hpp3)
              · split at h
                · obtain ⟨d, hd, h⟩ := bind_ok _ _ _ h
                  have a4 := hCo _ _ d hd
                  obtain ⟨pp3, hpp3, h⟩ := bind_ok _ _ _ h
                  simp only [pure, Except.pure, Except.ok.injEq, Prod.mk.injEq] at h
                  obtain ⟨rfl, _⟩ := h
                  exact Acc_unpin_eq _ _ xs t0 _ a4 h0 true (Acc_page_id _ t0 _ a4 _ pp3 hpp3)
                · obtain ⟨pp3, hpp3, h⟩ := bind_ok _ _ _ h
                  have a4 := Acc_unpin_eq _ _ xs t0 _ a3 h0 false
                    (Acc_page_id _ t0 _ a3 _ pp3 hpp3)
                  split at h
                  · obtain ⟨u, hu, h⟩ := bind_ok _ _ _ h
                    simp only [pure, Except.pure, Except.ok.injEq, Prod.mk.injEq] at h
                    obtain ⟨rfl, _⟩ := h
                    exact Redistribute_pins xs t0 _ u _ node _ a4 h0 hu
                  · obtain ⟨u, hu, h⟩ := bind_ok _ _ _ h
                    simp only [pure, Except.pure, Except.ok.injEq, Prod.mk.injEq] at h
                    obtain ⟨rfl, _⟩ := h
                    exact Redistribute_pins xs t0 _ u _ node _ a4 h0 hu

theorem freePin_of_page_set (t : BPlusTree) (hs : t.page_set = []) (id : Int) :
    freePin t id = pinAt t id := by
  unfold freePin
  rw [hs]
  simp

/-- `Remove` leaves every page that is still in the pool with the pin count it had. -/
theorem Remove_pins (t t' : BPlusTree) (key : Int) (hi : IdOK t) (h0 : PinOK t)
    (hs : t.page_set = []) (h : Remove t key = Except.ok t') :
    t'.header_pin_count = t.header_pin_count ∧
      ∀ id pg, getPage t' id = some pg → pg.pin_count = pinAt t id := by
  unfold Remove at h
  obtain ⟨t1, h1, h⟩ := bind_ok _ _ _ h
  have s1 := PinSame_LatchRoot t t1 _ h1
  by_cases hemp : IsEmpty t1 = true
  · rw [if_pos hemp] at h
    simp only [pure, Except.pure, Except.ok.injEq] at h
    subst h
    have s2 := PinSame_trans _ _ _ s1 (PinSame_TryUnlatchRoot t1 OP_TYPE.DELETE)
    refine ⟨s2.1, fun id pg hg => ?_⟩
    rw [← pinAt_of_getPage _ id pg hg]
    exact PinSame_pinAt _ _ s2 id
  · rw [if_neg hemp] at h
    have a1 := Acc_same _ t t _ (Acc_refl t hi)
      (PinSame_trans _ _ _ s1 (PinSame_TryUnlatchRoot t1 OP_TYPE.DELETE))
    obtain ⟨r, hcrab, h⟩ := bind_ok _ _ _ h
    obtain ⟨t3, page⟩ := r
    dsimp only at h
    have a3 := crabbing_write_pins key OP_TYPE.DELETE (by decide) [] t _ t3 page a1 h0 hcrab
    obtain ⟨lq, hlq, h⟩ := bind_ok _ _ _ h
    have a4 := Acc_setNode _ t t3 a3 page (lq.RemoveAndDeleteRecord key).1
      (fun _ _ => (RemoveAndDeleteRecord_facts lq key).1.1.trans
        (Acc_page_id _ t t3 a3 page lq hlq))
    have hfin : ∀ u, Acc [] t u → FreeAllPages u = Except.ok t' →
        t'.header_pin_count = t.header_pin_count ∧
          ∀ id pg, getPage t' id = some pg → pg.pin_count = pinAt t id := by
      intro u au hu
      obtain ⟨e1, e2⟩ := FreeAllPages_pins t u t' au h0 hu
      refine ⟨e1, fun id pg hg => ?_⟩
      rw [e2 id pg hg, freePin_of_page_set t hs]
    split_ifs at h with hlt
    · obtain ⟨d, hd, h⟩ := bind_ok _ _ _ h
      obtain ⟨t5, sd⟩ := d
      dsimp only at h
      have a5 := CoalesceOrRedistribute_pins _ [] t _ t5 page sd a4 h0 hd
      refine hfin _ ?_ h
      apply Acc_same _ t _ _ _ (PinSame_TryUnlatchRoot _ OP_TYPE.DELETE)
      split_ifs
      · exact Acc_same _ t t5 _ a5 (PinSame_AddIntoDeletedPageSet t5 page)
      · exact a5
    · exact hfin _ (Acc_same _ t _ _ a4 (PinSame_TryUnlatchRoot _ OP_TYPE.DELETE)) h

/-- After any sequence of calls on the empty index every page stores its own page id. -/
theorem run_page_id (L M : Int) (calls : List Call) (t : BPlusTree)
    (hrun : run (BPlusTree.new L M) calls = Except.ok t) (id : Int) (pg : Page)
    (hg : getPage t id = some pg) : pg.data.page_id = id := by
  obtain ⟨h, hi, _, _⟩ := run_inv calls _ _ t (Inv_new L M) hrun
  exact (hi.1.2 id pg.data (dataAt_of_getPage t id pg hg)).page_id

theorem IdOK_of_pages (t : BPlusTree)
    (hids : ∀ id pg, getPage t id = some pg → pg.data.page_id = id) : IdOK t := by
  intro id n hn
  obtain ⟨pg, hg, rfl⟩ := dataAt_eq_some t id n hn
  exact hids id pg hg

theorem PinOK_of_pages (t : BPlusTree)
    (hpins : ∀ id pg, getPage t id = some pg → 0 ≤ pg.pin_count)
    (hhdr : 0 ≤ t.header_pin_count) (hset : t.page_set = []) : PinOK t := by
  refine ⟨hhdr, fun id => ?_⟩
  rw [freePin_of_page_set t hset]
  cases hg : getPage t id with
  | none => rw [pinAt_none t id hg]
  | some pg => rw [pinAt_of_getPage t id pg hg]; exact hpins id pg hg

theorem slotAt_shiftUp : ∀ (count : Nat) (i : Int) (a : List MappingType) (j : Int),
    (count : Int) ≤ i → 0 ≤ j →
    slotAt (Node.shiftUp count i a) j =
      if i - count < j ∧ j ≤ i then slotAt a (j - 1) else slotAt a j := by
  intro count
  induction count with
  | zero =>
    intro i a j _ _
    have : ¬ (i - ((0 : Nat) : Int) < j ∧ j ≤ i) := by omega
    simp only [Node.shiftUp, this, if_false]
  | succ c ih =>
    intro i a j hc hj
    unfold Node.shiftUp
    rw [ih (i - 1) _ j (by omega) hj]
    by_cases h1 : i - 1 - (c : Int) < j ∧ j ≤ i - 1
    · have h2 : i - ((c + 1 : Nat) : Int) < j ∧ j ≤ i := by omega
      rw [if_pos h1, if_pos h2, slotAt_slotSet _ _ _ _ (by omega) (by omega)]
      rw [if_neg (by omega)]
    · rw [if_neg h1, slotAt_slotSet _ _ _ _ (by omega) hj]
      by_cases h3 : j = i
      · subst h3
        rw [if_pos rfl, if_pos (by omega)]
      · rw [if_neg h3, if_neg (by omega)]

theorem find_range_first (P : Nat → Bool) : ∀ (n p : Nat), p < n → P p = true →
    (∀ j, j < p → P j = false) → (List.range n).find? P = some p := by
  intro n
  induction n with
  | zero => intro p hp; omega
  | succ n ih =>
    intro p hp hP hfirst
    rw [List.range_succ, List.find?_append]
    by_cases hpn : p < n
    · rw [ih p hpn hP hfirst]; rfl
    · have hpe : p = n := by omega
      subst hpe
      have : (List.range p).find? P = none := by
        rw [List.find?_eq_none]
        intro x hx
        have := hfirst x (List.mem_range.1 hx)
        simp [this]
      rw [this]
      simp [hP]

theorem ValueIndex_first (n : Node) (value p : Int) (h0 : 0 ≤ p) (hp : p < n.size)
    (hat : (slotAt n.array p).2 = value)
    (hfirst : ∀ j, 0 ≤ j → j < p → (slotAt n.array j).2 ≠ value) :
    n.ValueIndex value = some p := by
  unfold Node.ValueIndex
  rw [find_range_first _ n.size.toNat p.toNat (by omega)]
  · simp only [Option.map_some']
    congr 1
    exact Int.toNat_of_nonneg h0
  · simp only [Int.ofNat_eq_coe, Int.toNat_of_nonneg h0, hat, beq_self_eq_true]
  · intro j hj
    have := hfirst (Int.ofNat j) (by simp) (by simp only [Int.ofNat_eq_coe]; omega)
    simpa using this

/-- What the loop of `CopyNFrom` does to the stored payloads when it returns: every moved child
exists and gets the recipient's page id as parent id, the recipient's slots `i ..` receive the
items in order, and nothing else changes. -/
theorem CopyNFromLoop_data (self : Int) : ∀ (items : List MappingType) (i : Int)
    (t t' : BPlusTree) (me : Node), 0 ≤ i → dataAt t self = some me →
    CopyNFromLoop self items i t = Except.ok t' →
    (∀ item ∈ items, (dataAt t item.2).isSome) ∧
    ∀ id n, dataAt t id = some n → ∃ n', dataAt t' id = some n' ∧
      n'.size = n.size ∧ n'.page_id = n.page_id ∧ n'.page_type = n.page_type ∧
      n'.max_size = n.max_size ∧ n'.next_page_id = n.next_page_id ∧
      n'.parent_page_id =
        (if id ∈ items.map Prod.snd then me.page_id else n.parent_page_id) ∧
      (id ≠ self → n'.array = n.array) ∧
      ∀ j, 0 ≤ j → slotAt n'.array j =
        if id = self ∧ i ≤ j ∧ j < i + items.length then items.getD (j - i).toNat (0, 0)
        else slotAt n.array j := by
  intro items
  induction items with
  | nil =>
    intro i t t' me _ _ hok
    simp only [CopyNFromLoop, pure, Except.pure] at hok
    cases hok
    refine ⟨by simp, fun id n hn => ⟨n, hn, rfl, rfl, rfl, rfl, rfl, by simp, fun _ => rfl, ?_⟩⟩
    intro j hj
    rw [if_neg]
    simp only [List.length_nil, Nat.cast_zero, add_zero]
    omega
  | cons item items ih =>
    intro i t t' me hi hself hok
    unfold CopyNFromLoop at hok
    cases hf : FetchPage t item.2 with
    | none => simp [hf] at hok
    | some t1 =>
      simp only [hf] at hok
      obtain ⟨me1, hme1, hok⟩ := bind_ok _ _ _ hok
      obtain ⟨child, hchild, hok⟩ := bind_ok _ _ _ hok
      obtain ⟨me3, hme3, hok⟩ := bind_ok _ _ _ hok
      have hme1' := (getNode_ok_iff _ _ _).1 hme1
      have hchild' := (getNode_ok_iff _ _ _).1 hchild
      have hme3' := (getNode_ok_iff _ _ _).1 hme3
      have hd1 : ∀ id', dataAt t1 id' = dataAt t id' := dataAt_FetchPage t t1 _ hf
      rw [hd1] at hme1' hchild'
      rw [hself] at hme1'
      cases hme1'
      rw [dataAt_UnpinPage, dataAt_setNode] at hme3'
      simp only [hd1] at hme3'
      -- the payloads after one iteration
      have h4 : ∀ id n, dataAt t id = some n → ∃ n4,
          dataAt (setNode (UnpinPage (setNode t1 item.2 { child with parent_page_id := me.page_id })
            item.2 true) self { me3 with array := slotSet me3.array i item }) id = some n4 ∧
          n4.size = n.size ∧ n4.page_id = n.page_id ∧ n4.page_type = n.page_type ∧
          n4.max_size = n.max_size ∧ n4.next_page_id = n.next_page_id ∧
          n4.parent_page_id = (if id = item.2 then me.page_id else n.parent_page_id) ∧
          (id ≠ self → n4.array = n.array) ∧ (id = self → n4.array = slotSet n.array i item) := by
        intro id n hn
        rw [dataAt_setNode, dataAt_UnpinPage, dataAt_setNode,
          dataAt_UnpinPage, dataAt_setNode]
        simp only [hd1]
        by_cases e2 : id = item.2
        · have hcn : child = n := by
            rw [← e2, hn] at hchild'
            exact (Option.some.inj hchild').symm
          subst hcn
          by_cases e1 : id = self
          · have e3 : self = item.2 := e1 ▸ e2
            rw [if_pos e3, hchild'] at hme3'
            simp only [Option.map_some', Option.some.injEq] at hme3'
            subst hme3'
            rw [if_pos e1, if_pos e3, hchild']
            exact ⟨_, rfl, rfl, rfl, rfl, rfl, rfl, by simp [e2], fun h => absurd e1 h,
              fun _ => rfl⟩
          · rw [if_neg e1, if_pos e2, hchild']
            exact ⟨_, rfl, rfl, rfl, rfl, rfl, rfl, by simp [e2], fun _ => rfl,
              fun h => absurd h e1⟩
        · by_cases e1 : id = self
          · have e3 : ¬ self = item.2 := e1 ▸ e2
            rw [if_neg e3, hself] at hme3'
            cases hme3'
            rw [e1, hself] at hn
            cases hn
            rw [if_pos e1, if_neg e3, hself]
            exact ⟨_, rfl, rfl, rfl, rfl, rfl, rfl, by simp [e2], fun h => absurd e1 h,
              fun _ => rfl⟩
          · rw [if_neg e1, if_neg e2, hn]
            exact ⟨_, rfl, rfl, rfl, rfl, rfl, rfl, by simp [e2], fun _ => rfl,
              fun h => absurd h e1⟩
      obtain ⟨me4, hself4, m1, m2, m3, m4, m5, m6, m7, m8⟩ := h4 self me hself
      obtain ⟨r1, r2⟩ := ih (i + 1) _ t' _ (by omega) hself4 hok
      constructor
      · intro it hit
        rcases List.mem_cons.1 hit with e | hit
        · rw [e, hchild']; rfl
        · have := r1 it hit
          obtain ⟨x, hx⟩ := Option.isSome_iff_exists.1 this
          rw [dataAt_setNode, dataAt_UnpinPage, dataAt_setNode,
            dataAt_UnpinPage, dataAt_setNode] at hx
          simp only [hd1] at hx
          by_cases e1 : it.2 = self
          · rw [e1, hself]; rfl
          · rw [if_neg e1] at hx
            by_cases e2 : it.2 = item.2
            · rw [e2, hchild']; rfl
            · rw [if_neg e2] at hx
              rw [hx]; rfl
      · intro id n hn
        obtain ⟨n4, g0, g1, g2, g3, g4, g5, g6, g7, g8⟩ := h4 id n hn
        obtain ⟨n', q0, q1, q2, q3, q4, q5, q6, q7, q8⟩ := r2 id _ g0
        refine ⟨n', q0, q1.trans g1, q2.trans g2, q3.trans g3, q4.trans g4, q5.trans g5,
          ?_, fun hne => (q7 hne).trans (g7 hne), ?_⟩
        · rw [q6, m2, g6]
          simp only [List.map_cons, List.mem_cons]
          by_cases e3 : id ∈ items.map Prod.snd
          · simp [e3]
          · by_cases e2 : id = item.2
            · simp [e2]
            · simp [e2, e3]
        · intro j hj
          rw [q8 j hj]
          by_cases e1 : id = self
          · rw [g8 e1]
            simp only [e1, true_and, List.length_cons, Nat.cast_add, Nat.cast_one]
            by_cases c1 : i + 1 ≤ j ∧ j < i + 1 + (items.length : Int)
            · rw [if_pos c1, if_pos (by omega)]
              have : (j - i).toNat = (j - (i + 1)).toNat + 1 := by omega
              rw [this, List.getD_cons_succ]
            · rw [if_neg c1, slotAt_slotSet _ _ _ _ hi hj]
              by_cases c2 : j = i
              · subst c2
                rw [if_pos rfl, if_pos (by omega)]
                simp
              · rw [if_neg c2, if_neg (by omega)]
          · simp only [e1, false_and, if_false]
            rw [g7 e1]
theorem sizeAt_isSome_of_dataAt (t : BPlusTree) (id : Int) (h : (dataAt t id).isSome) :
    (sizeAt t id).isSome := by
  unfold dataAt at h
  unfold sizeAt
  cases hg : getPage t id with
  | none => simp [hg] at h
  | some pg => rfl

theorem slotsFrom_length (a : List MappingType) (start count : Int) :
    (slotsFrom a start count).length = count.toNat := by
  simp [slotsFrom]

theorem slotsFrom_getD (a : List MappingType) (start count : Int) (j : Nat)
    (hj : (j : Int) < count) :
    (slotsFrom a start count).getD j (0, 0) = slotAt a (start + j) := by
  unfold slotsFrom
  rw [List.getD_eq_getElem?_getD, List.getElem?_map, List.getElem?_range (by omega)]
  rfl

theorem slotsFrom_split (a b c : List MappingType) (n m : Int) (hn : 0 ≤ n) (hm : 0 ≤ m)
    (h1 : ∀ j, 0 ≤ j → j < n → slotAt b j = slotAt a j)
    (h2 : ∀ j, 0 ≤ j → j < m → slotAt c j = slotAt a (n + j)) :
    slotsFrom b 0 n ++ slotsFrom c 0 m = slotsFrom a 0 (n + m) := by
  apply List.ext_getElem
  · simp only [List.length_append, slotsFrom_length]
    omega
  · intro i hi1 hi2
    rw [slotsFrom_length] at hi2
    have e3 : (slotsFrom a 0 (n + m))[i] = slotAt a (0 + Int.ofNat i) := by
      simp [slotsFrom]
    rw [e3]
    by_cases hlt : i < (slotsFrom b 0 n).length
    · rw [List.getElem_append_left hlt]
      rw [slotsFrom_length] at hlt
      have : (slotsFrom b 0 n)[i] = slotAt b (0 + Int.ofNat i) := by simp [slotsFrom]
      rw [this]
      exact h1 _ (by simp) (by simp only [Int.ofNat_eq_coe]; omega)
    · rw [List.getElem_append_right (by omega)]
      have hl := slotsFrom_length b 0 n
      have : ∀ k (hk : k < (slotsFrom c 0 m).length),
          (slotsFrom c 0 m)[k] = slotAt c (0 + Int.ofNat k) := by
        intro k hk; simp [slotsFrom]
      rw [this]
      rw [h2 _ (by simp) (by simp only [Int.ofNat_eq_coe]; omega)]
      congr 1
      simp only [Int.ofNat_eq_coe, hl]
      omega

/-- What `CopyNFrom` does to the stored payloads when it returns. -/
theorem CopyNFrom_data (t t' : BPlusTree) (self : Int) (items : List MappingType) (size : Int)
    (me : Node) (hself : dataAt t self = some me)
    (hok : CopyNFrom t self items size = Except.ok t') :
    (∀ item ∈ items, (dataAt t item.2).isSome) ∧
    ∀ id n, dataAt t id = some n → ∃ n', dataAt t' id = some n' ∧
      n'.size = (if id = self then size else n.size) ∧ n'.page_id = n.page_id ∧
      n'.page_type = n.page_type ∧
      n'.max_size = n.max_size ∧ n'.next_page_id = n.next_page_id ∧
      n'.parent_page_id =
        (if id ∈ items.map Prod.snd then me.page_id else n.parent_page_id) ∧
      (id ≠ self → n'.array = n.array) ∧
      ∀ j, 0 ≤ j → slotAt n'.array j =
        if id = self ∧ j < items.length then items.getD j.toNat (0, 0)
        else slotAt n.array j := by
  unfold CopyNFrom at hok
  obtain ⟨t1, h1, hok⟩ := bind_ok _ _ _ hok
  obtain ⟨me1, hme1, hok⟩ := bind_ok _ _ _ hok
  simp only [pure, Except.pure, Except.ok.injEq] at hok
  subst hok
  obtain ⟨r1, r2⟩ := CopyNFromLoop_data self items 0 t t1 me (le_refl _) hself h1
  refine ⟨r1, ?_⟩
  intro id n hn
  obtain ⟨n1, q0, q1, q2, q3, q4, q5, q6, q7, q8⟩ := r2 id n hn
  have hme1' := (getNode_ok_iff _ _ _).1 hme1
  rw [dataAt_setNode]
  by_cases e1 : id = self
  · subst e1
    rw [q0] at hme1'
    cases hme1'
    rw [if_pos rfl, q0]
    refine ⟨_, rfl, by simp, q2, q3, q4, q5, q6, fun h => absurd rfl h, ?_⟩
    intro j hj
    have := q8 j hj
    simp only [true_and, zero_add, sub_zero] at this ⊢
    rw [this]
    by_cases c : j < (items.length : Int)
    · rw [if_pos ⟨hj, c⟩, if_pos c]
    · rw [if_neg (fun h => c h.2), if_neg c]
  · rw [if_neg e1, q0]
    refine ⟨_, rfl, by simp [e1, q1], q2, q3, q4, q5, q6, q7, ?_⟩
    intro j hj
    have := q8 j hj
    simp only [e1, false_and, if_false] at this ⊢
    exact this

/-- What the internal `MoveHalfTo` does to the stored payloads when it returns. -/
theorem MoveHalfTo_data (t t' : BPlusTree) (self recipient : Int) (me rec : Node)
    (hself : dataAt t self = some me) (hrec : dataAt t recipient = some rec)
    (hne : self ≠ recipient) (hsize : 0 ≤ me.size)
    (hok : MoveHalfTo t self recipient = Except.ok t') :
    ∃ me' rec', dataAt t' self = some me' ∧ dataAt t' recipient = some rec' ∧
      me'.size = me.size - me.size / 2 ∧ me'.array = me.array ∧
      rec'.size = me.size / 2 ∧ rec'.page_id = rec.page_id ∧
      (∀ j, 0 ≤ j → j < me.size / 2 →
        slotAt rec'.array j = slotAt me.array (me.size - me.size / 2 + j)) ∧
      (∀ item ∈ slotsFrom me.array (me.size - me.size / 2) (me.size / 2),
        ∃ c, dataAt t' item.2 = some c ∧ c.parent_page_id = rec.page_id) := by
  unfold MoveHalfTo at hok
  obtain ⟨me0, hme0, hok⟩ := bind_ok _ _ _ hok
  obtain ⟨t1, h1, hok⟩ := bind_ok _ _ _ hok
  obtain ⟨me1, hme1, hok⟩ := bind_ok _ _ _ hok
  simp only [pure, Except.pure, Except.ok.injEq] at hok
  subst hok
  have hme0' := (getNode_ok_iff _ _ _).1 hme0
  rw [hself] at hme0'
  cases hme0'
  have hme1' := (getNode_ok_iff _ _ _).1 hme1
  simp only [Node.GetSize] at h1 ⊢
  obtain ⟨r1, r2⟩ := CopyNFrom_data t t1 recipient _ _ rec hrec h1
  obtain ⟨n1, q0, q1, q2, q3, q4, q5, q6, q7, q8⟩ := r2 self me hself
  rw [q0] at hme1'
  cases hme1'
  obtain ⟨rec1, p0, p1, p2, p3, p4, p5, p6, p7, p8⟩ := r2 recipient rec hrec
  have hhalf : 0 ≤ me.size / 2 := Int.ediv_nonneg hsize (by decide)
  refine ⟨{ me1 with size := me1.size - me.size / 2 }, rec1, ?_, ?_, ?_, ?_, ?_, p2, ?_, ?_⟩
  · rw [dataAt_setNode, if_pos rfl, q0]; rfl
  · rw [dataAt_setNode, if_neg (Ne.symm hne), p0]
  · simp only [q1, if_neg hne]
  · exact q7 hne
  · rw [p1, if_pos rfl]
  · intro j hj0 hj
    rw [p8 j hj0, if_pos ⟨rfl, by rw [slotsFrom_length]; omega⟩]
    have := slotsFrom_getD me.array (me.size - me.size / 2) (me.size / 2) j.toNat (by omega)
    rw [this]
    congr 1
    omega
  · intro item hitem
    obtain ⟨c, hc⟩ := Option.isSome_iff_exists.1 (r1 item hitem)
    obtain ⟨c1, s0, _, _, _, _, _, s6, _, _⟩ := r2 item.2 c hc
    have hmem : item.2 ∈ (slotsFrom me.array (me.size - me.size / 2) (me.size / 2)).map
        Prod.snd := List.mem_map_of_mem _ hitem
    rw [if_pos hmem] at s6
    by_cases e1 : item.2 = self
    · rw [dataAt_setNode, if_pos e1, q0]
      rw [e1, q0] at s0
      cases s0
      exact ⟨_, rfl, s6⟩
    · rw [dataAt_setNode, if_neg e1]
      exact ⟨c1, s0, s6⟩
/-- What `Split` of an internal node does when it returns: the new page is the next page id, it
holds the node's upper half from slot 0, and the node keeps its slots and the lower-half size. -/
theorem Split_internal_data (t t' : BPlusTree) (node new : Int) (n : Node)
    (hn : dataAt t node = some n) (hleaf : n.IsLeafPage = false) (hsize : 0 ≤ n.size)
    (hok : Split t IndexPageType.INTERNAL_PAGE node = Except.ok (t', new)) :
    new = (t.pages.length : Int) ∧
    ∃ n' s, dataAt t' node = some n' ∧ dataAt t' new = some s ∧
      n'.size = n.size - n.size / 2 ∧ n'.array = n.array ∧ s.size = n.size / 2 ∧
      s.page_id = new ∧
      (∀ j, 0 ≤ j → j < n.size / 2 → slotAt s.array j = slotAt n.array (n.size - n.size / 2 + j)) ∧
      (∀ item ∈ slotsFrom n.array (n.size - n.size / 2) (n.size / 2),
        ∃ c, dataAt t' item.2 = some c ∧ c.parent_page_id = new) := by
  have hne : node ≠ (t.pages.length : Int) := by
    have := dataAt_range t node n hn
    omega
  have hnp : (NewPage t).2 = (t.pages.length : Int) := rfl
  have hn1 : dataAt (NewPage t).1 node = some n := by
    rw [dataAt_NewPage, if_neg hne]; exact hn
  have hz : dataAt (NewPage t).1 (t.pages.length : Int) = some zeroNode := by
    rw [dataAt_NewPage, if_pos rfl]
  unfold Split at hok
  simp only [hnp, (getNode_ok_iff _ _ _).2 hn1, (getNode_ok_iff _ _ _).2 hz, bind,
    Except.bind, hleaf, Bool.false_eq_true, if_false] at hok
  obtain ⟨t2, h2, hok⟩ := bind_ok _ _ _ hok
  simp only [pure, Except.pure, Except.ok.injEq, Prod.mk.injEq] at hok
  obtain ⟨rfl, rfl⟩ := hok
  refine ⟨rfl, ?_⟩
  have hself : dataAt (setNode (NewPage t).1 (t.pages.length : Int)
      (zeroNode.InitInternal (t.pages.length : Int) n.parent_page_id
        (NewPage t).1.internal_max_size)) node = some n := by
    rw [dataAt_setNode, if_neg hne, hn1]
  have hrec : dataAt (setNode (NewPage t).1 (t.pages.length : Int)
      (zeroNode.InitInternal (t.pages.length : Int) n.parent_page_id
        (NewPage t).1.internal_max_size)) (t.pages.length : Int) =
      some (zeroNode.InitInternal (t.pages.length : Int) n.parent_page_id
        (NewPage t).1.internal_max_size) := by
    rw [dataAt_setNode, if_pos rfl, hz]; rfl
  obtain ⟨me', rec', a1, a2, a3, a4, a5, a6, a7, a8⟩ :=
    MoveHalfTo_data _ _ node _ n _ hself hrec hne hsize h2
  exact ⟨me', rec', a1, a2, a3, a4, a5, a6, a7, a8⟩

/-- The branch of `InsertIntoParent` that splits the parent: the recursive call is made on the
parent, the new sibling and the key stored in the sibling's slot 0. -/
theorem InsertIntoParent_split_eq (fuel : Nat) (t t1 t3 : BPlusTree)
    (old_node key new_node size sp : Int) (old pp nw pp' split : Node)
    (hold : getNode t old_node = Except.ok old) (hroot : old.IsRootPage = false)
    (hf : FetchPage t old.parent_page_id = some t1)
    (hpp : getNode t1 old.parent_page_id = Except.ok pp)
    (hnw : getNode t1 new_node = Except.ok nw)
    (hins : pp.InsertNodeAfter old.page_id key nw.page_id = some (pp', size))
    (hmax : size = pp'.GetMaxSize)
    (hsplit : Split (UnpinPage (setNode t1 old.parent_page_id pp') nw.page_id true)
      IndexPageType.INTERNAL_PAGE old.parent_page_id = Except.ok (t3, sp))
    (hs : getNode t3 sp = Except.ok split) :
    InsertIntoParent (fuel + 1) t old_node key new_node =
      (InsertIntoParent fuel t3 old.parent_page_id (split.KeyAt 0) sp).bind fun t =>
        (getNode t old.parent_page_id).bind fun parent_page =>
          Except.ok (UnpinPage t parent_page.page_id true) := by
  rw [InsertIntoParent]
  simp only [hold, bind, Except.bind, hroot, Bool.false_eq_true, if_false, hf, hpp, hnw, hins,
    hmax, if_true, hsplit, hs, pure, Except.pure]
theorem OnlyPages_refl (t : BPlusTree) : OnlyPages t t := rfl

theorem OnlyPages_trans (t t1 t2 : BPlusTree) (h1 : OnlyPages t t1) (h2 : OnlyPages t1 t2) :
    OnlyPages t t2 := by
  unfold OnlyPages at *
  rw [h2, h1]

theorem OnlyPages_setPage (t : BPlusTree) (id : Int) (p : Page) : OnlyPages t (setPage t id p) :=
  rfl

theorem OnlyPages_setNode (t : BPlusTree) (id : Int) (n : Node) : OnlyPages t (setNode t id n) := by
  unfold setNode
  cases getPage t id with
  | none => rfl
  | some p => rfl

theorem OnlyPages_UnpinPage (t : BPlusTree) (id : Int) (d : Bool) :
    OnlyPages t (UnpinPage t id d) := by
  unfold UnpinPage
  cases getPage t id with
  | none => rfl
  | some p =>
    simp only
    split_ifs <;> rfl

theorem OnlyPages_FetchPage (t t' : BPlusTree) (id : Int) (h : FetchPage t id = some t') :
    OnlyPages t t' := by
  obtain ⟨pg, _, rfl⟩ := FetchPage_eq_some t t' id h
  rfl

theorem OnlyPages_NewPage (t : BPlusTree) : OnlyPages t (NewPage t).1 := rfl

theorem OnlyPages_DeletePage (t : BPlusTree) (id : Int) : OnlyPages t (DeletePage t id) := by
  unfold DeletePage
  cases getPage t id with
  | none => rfl
  | some p =>
    simp only
    split_ifs <;> rfl

theorem OnlyPages_LatchPage (t t' : BPlusTree) (id : Int) (op : OP_TYPE)
    (h : LatchPage t id op = Except.ok t') : OnlyPages t t' := by
  unfold LatchPage at h
  cases hg : getPage t id with
  | none => simp [hg] at h
  | some p =>
    simp only [hg] at h
    split_ifs at h <;> cases h <;> exact OnlyPages_setPage _ _ _

theorem OnlyPages_UnlatchPage (t t' : BPlusTree) (id : Int) (op : OP_TYPE)
    (h : UnlatchPage t id op = Except.ok t') : OnlyPages t t' := by
  unfold UnlatchPage at h
  cases hg : getPage t id with
  | none => simp [hg] at h
  | some p =>
    simp only [hg] at h
    split_ifs at h <;> cases h <;> exact OnlyPages_setPage _ _ _

theorem OnlyPages_root (t t' : BPlusTree) (h : OnlyPages t t') :
    t'.root_page_id = t.root_page_id := by
  unfold OnlyPages at h; rw [h]

theorem OnlyPages_header (t t' : BPlusTree) (h : OnlyPages t t') :
    t'.header_calls = t.header_calls := by
  unfold OnlyPages at h; rw [h]

theorem OnlyPages_deleted (t t' : BPlusTree) (h : OnlyPages t t') :
    t'.deleted_page_set = t.deleted_page_set := by
  unfold OnlyPages at h; rw [h]

theorem OnlyPages_held (t t' : BPlusTree) (h : OnlyPages t t') :
    t'.page_set = t.page_set := by
  unfold OnlyPages at h; rw [h]

theorem OnlyPages_latch (t t' : BPlusTree) (h : OnlyPages t t') : RootLatchSame t t' := by
  unfold OnlyPages at h
  constructor <;> rw [h]

theorem dataAt_congr_pages (t t' : BPlusTree) (h : t'.pages = t.pages) (id : Int) :
    dataAt t' id = dataAt t id := by
  unfold dataAt getPage
  rw [h]

theorem CoalesceOrRedistribute_eq (fuel : Nat) (t : BPlusTree) (node : Int) (n : Node)
    (hn : getNode t node = Except.ok n) (hroot : n.IsRootPage = false) :
    CoalesceOrRedistribute (fuel + 1) t node =
      (readSiblings t node).bind fun s => sizeTests fuel s node := by
  rw [CoalesceOrRedistribute]
  unfold readSiblings
  simp only [hn, bind, Except.bind, hroot, Bool.false_eq_true, if_false]
  cases hf : FetchPage t n.parent_page_id with
  | none => rfl
  | some t1 =>
    simp only
    cases hp : getNode t1 n.parent_page_id with
    | error e => rfl
    | ok pp =>
      simp only
      cases hv : pp.ValueIndex n.page_id with
      | none => rfl
      | some idx =>
        simp only
        by_cases hl : idx - 1 ≥ 0
        · simp only [hl, if_true]
          cases hfs : fetchSibling t1 (pp.ValueAt (idx - 1)) with
          | error e => rfl
          | ok t2 =>
            simp only [pure, Except.pure]
            cases hp2 : getNode t2 n.parent_page_id with
            | error e => rfl
            | ok pp2 =>
              simp only
              by_cases hr : idx + 1 < pp2.GetSize
              · simp only [hr, if_true]
                cases hfr : fetchSibling t2 (pp2.ValueAt (idx + 1)) with
                | error e => rfl
                | ok t3 =>
                  simp only
                  cases hn3 : getNode t3 node with
                  | error e => rfl
                  | ok n3 =>
                    simp only
                    cases hls : getNode t3 (pp.ValueAt (idx - 1)) with
                    | error e => rfl
                    | ok ln =>
                      simp only [Except.map]
                      cases hrs : getNode t3 (pp2.ValueAt (idx + 1)) with
                      | error e => rfl
                      | ok rn => simp only [sizeTests, Except.map, hp2, bind, Except.bind, pure, Except.pure]
              · simp only [hr, if_false]
                cases hn3 : getNode t2 node with
                | error e => rfl
                | ok n3 =>
                  simp only
                  cases hls : getNode t2 (pp.ValueAt (idx - 1)) with
                  | error e => rfl
                  | ok ln => simp only [sizeTests, Except.map, hp2, bind, Except.bind, pure, Except.pure]
        · simp only [hl, if_false, pure, Except.pure]
          cases hp2 : getNode t1 n.parent_page_id with
          | error e => rfl
          | ok pp2 =>
            simp only
            by_cases hr : idx + 1 < pp2.GetSize
            · simp only [hr, if_true]
              cases hfr : fetchSibling t1 (pp2.ValueAt (idx + 1)) with
              | error e => rfl
              | ok t3 =>
                simp only
                cases hn3 : getNode t3 node with
                | error e => rfl
                | ok n3 =>
                  simp only [Except.map]
                  cases hrs : getNode t3 (pp2.ValueAt (idx + 1)) with
                  | error e => rfl
                  | ok rn => simp only [sizeTests, Except.map, hp2, bind, Except.bind, pure, Except.pure]
            · simp only [hr, if_false]
              cases hn3 : getNode t1 node with
              | error e => rfl
              | ok n3 => simp only [sizeTests, Except.map, hp2, bind, Except.bind, pure, Except.pure]
/-- What `readSiblings` returns: the node and the sibling sizes are read in the returned state,
and a size is read exactly for the sibling pointers that are not null. -/
theorem readSiblings_facts (t : BPlusTree) (node : Int) (s : Siblings)
    (h : readSiblings t node = Except.ok s) :
    getNode s.t node = Except.ok s.n ∧
    (∀ n, getNode t node = Except.ok n → s.parent = n.parent_page_id) ∧
    (match s.left with
      | some lid => ∃ m, getNode s.t lid = Except.ok m ∧ s.left_size = some m.size
      | none => s.left_size = none) ∧
    (match s.right with
      | some rid => ∃ m, getNode s.t rid = Except.ok m ∧ s.right_size = some m.size
      | none => s.right_size = none) := by
  unfold readSiblings at h
  obtain ⟨n, hn, h⟩ := bind_ok _ _ _ h
  cases hf : FetchPage t n.parent_page_id with
  | none => simp [hf] at h
  | some t1 =>
    simp only [hf] at h
    obtain ⟨pp, hpp, h⟩ := bind_ok _ _ _ h
    cases hv : pp.ValueIndex n.page_id with
    | none => simp [hv] at h
    | some idx =>
      simp only [hv] at h
      by_cases hL : idx - 1 ≥ 0
      on_goal 1 =>
        rw [if_pos hL] at h
        obtain ⟨t2', _, h⟩ := bind_ok _ _ _ h
        obtain ⟨l, _, h⟩ := bind_ok _ _ _ h
      on_goal 2 =>
        rw [if_neg hL] at h
        obtain ⟨l, _, h⟩ := bind_ok _ _ _ h
      all_goals
        obtain ⟨t2, lid⟩ := l
        dsimp only at h
        obtain ⟨pp2, hpp2, h⟩ := bind_ok _ _ _ h
        by_cases hR : idx + 1 < pp2.GetSize
      on_goal 1 =>
        rw [if_pos hR] at h
        obtain ⟨t3', _, h⟩ := bind_ok _ _ _ h
        obtain ⟨r, _, h⟩ := bind_ok _ _ _ h
      on_goal 2 =>
        rw [if_neg hR] at h
        obtain ⟨r, _, h⟩ := bind_ok _ _ _ h
      on_goal 3 =>
        rw [if_pos hR] at h
        obtain ⟨t3', _, h⟩ := bind_ok _ _ _ h
        obtain ⟨r, _, h⟩ := bind_ok _ _ _ h
      on_goal 4 =>
        rw [if_neg hR] at h
        obtain ⟨r, _, h⟩ := bind_ok _ _ _ h
      all_goals
        obtain ⟨t3, rid⟩ := r
        dsimp only at h
        obtain ⟨n3, hn3, h⟩ := bind_ok _ _ _ h
        have hpar : ∀ n', getNode t node = Except.ok n' → n.parent_page_id = n'.parent_page_id := by
          intro n' hn'
          rw [hn] at hn'
          cases hn'
          rfl
        cases lid with
        | none =>
          cases rid with
          | none =>
            simp only [pure, Except.pure, bind, Except.bind, Except.ok.injEq] at h
            subst h
            exact ⟨hn3, hpar, rfl, rfl⟩
          | some rid =>
            simp only [pure, Except.pure, bind, Except.bind] at h
            cases hg : getNode t3 rid with
            | error e => simp [hg, Except.map] at h
            | ok m =>
              simp only [hg, Except.map, Except.ok.injEq] at h
              subst h
              exact ⟨hn3, hpar, rfl, m, hg, rfl⟩
        | some lid =>
          simp only [pure, Except.pure, bind, Except.bind] at h
          cases hgl : getNode t3 lid with
          | error e => simp [hgl, Except.map] at h
          | ok ml =>
            simp only [hgl, Except.map] at h
            cases rid with
            | none =>
              simp only [Except.ok.injEq] at h
              subst h
              exact ⟨hn3, hpar, ⟨ml, hgl, rfl⟩, rfl⟩
            | some rid =>
              simp only at h
              cases hg : getNode t3 rid with
              | error e => simp [hg] at h
              | ok m =>
                simp only [hg, Except.ok.injEq] at h
                subst h
                exact ⟨hn3, hpar, ⟨ml, hgl, rfl⟩, m, hg, rfl⟩

/-- The size tests of the source select the branch that the choice rule names. -/
theorem sizeTests_eq (fuel : Nat) (s : Siblings) (node : Int)
    (hl : match s.left with
      | some lid => ∃ m, getNode s.t lid = Except.ok m ∧ s.left_size = some m.size
      | none => s.left_size = none)
    (hr : match s.right with
      | some rid => ∃ m, getNode s.t rid = Except.ok m ∧ s.right_size = some m.size
      | none => s.right_size = none)
    (a : Action)
    (ha : chooseAction s.n.GetSize s.n.GetMaxSize s.left_size s.right_size = some a) :
    sizeTests fuel s node = performAction fuel s node a := by
  obtain ⟨t, parent, left, right, n, ls, rs⟩ := s
  simp only at hl hr ha
  unfold sizeTests
  simp only
  unfold chooseAction at ha
  cases left with
  | none =>
    simp only at hl
    subst hl
    simp only [canMerge, Bool.false_eq_true, if_false, Option.isSome_none, Option.map_none'] at ha ⊢
    cases right with
    | none =>
      simp only at hr
      subst hr
      simp [canMerge] at ha
    | some rid =>
      obtain ⟨m, hm, hr⟩ := hr
      subst hr
      simp only [canMerge, Option.isSome_some, if_true] at ha
      by_cases c : n.GetSize + m.size < n.GetMaxSize
      · simp only [c, decide_True, if_true, Option.some.injEq] at ha
        subst ha
        simp only [Option.map_some', c, decide_True, performAction]
      · simp only [c, decide_False, Bool.false_eq_true, if_false, Option.some.injEq] at ha
        subst ha
        simp only [Option.map_some', c, decide_False, performAction]
  | some lid =>
    obtain ⟨ml, hml, hl⟩ := hl
    subst hl
    simp only [canMerge, Option.isSome_some, if_true] at ha
    by_cases cl : n.GetSize + ml.size < n.GetMaxSize
    · simp only [cl, decide_True, if_true, Option.some.injEq] at ha
      subst ha
      simp only [Option.map_some', cl, decide_True, performAction]
    · simp only [cl, decide_False, Bool.false_eq_true, if_false] at ha
      have cge : n.GetSize + ml.size ≥ n.GetMaxSize := by omega
      cases right with
      | none =>
        simp only at hr
        subst hr
        simp only [canMerge, Bool.false_eq_true, if_false, Option.some.injEq] at ha
        subst ha
        simp only [Option.map_some', cl, decide_False, Option.map_none', cge, decide_True,
          performAction]
      | some rid =>
        obtain ⟨m, hm, hr⟩ := hr
        subst hr
        simp only [canMerge] at ha
        by_cases c : n.GetSize + m.size < n.GetMaxSize
        · simp only [c, decide_True, if_true, Option.some.injEq] at ha
          subst ha
          simp only [Option.map_some', cl, decide_False, c, decide_True, performAction]
        · simp only [c, decide_False, Bool.false_eq_true, if_false, Option.some.injEq] at ha
          subst ha
          simp only [Option.map_some', cl, decide_False, c, cge, decide_True, performAction]
theorem siblingTree_inv : Inv siblingHeights (-1) siblingTree := by
  have hlen : siblingTree.pages.length = 8 := rfl
  have hcases : ∀ id n, dataAt siblingTree id = some n →
      GoodNode siblingHeights 8 4 4 id n ∧ n.size < n.max_size := by
    intro id n hn
    obtain ⟨h0, h1⟩ := dataAt_range _ _ _ hn
    rw [hlen] at h1
    have h1' : id < 8 := by exact_mod_cast h1
    interval_cases id
    · cases hn
    all_goals
      have e : some n = dataAt siblingTree _ := hn.symm
      simp only [dataAt, getPage, siblingTree, leafFrame, internalFrame] at e
      have e' := Option.some.inj e
      subst e'
      refine ⟨⟨rfl, by decide, by decide, by decide, ?_, by unfold parentOK; decide⟩, by decide⟩
      intro hl s hs
      first
        | exact absurd hl (by decide)
        | (simp only [List.mem_cons, List.mem_singleton, List.not_mem_nil, or_false] at hs
           rcases hs with rfl | rfl <;> (unfold slotOK; decide))
  refine ⟨⟨⟨by decide, rfl⟩, fun id n hn => (hcases id n hn).1⟩, ?_⟩
  intro _ _ id n hn
  exact Or.inl (hcases id n hn).2
theorem getPage_UnpinPage_ne (t : BPlusTree) (id id' : Int) (d : Bool) (hne : id' ≠ id) :
    getPage (UnpinPage t id d) id' = getPage t id' := by
  unfold UnpinPage
  cases hg : getPage t id with
  | none => rfl
  | some p =>
    simp only
    split_ifs
    · rw [getPage_setPage t id id' p _ hg, if_neg hne]
    · rfl

theorem getPage_DeletePage_ne (t : BPlusTree) (id id' : Int) (hne : id' ≠ id) :
    getPage (DeletePage t id) id' = getPage t id' := by
  unfold DeletePage
  cases hg : getPage t id with
  | none => rfl
  | some p =>
    simp only
    split_ifs
    · rfl
    · obtain ⟨h1, h2, _⟩ := getPage_eq_some t id p hg
      unfold getPage
      by_cases hneg : id' < 0
      · simp [hneg]
      · simp only [hneg, if_false, List.getD_eq_getElem?_getD]
        rw [List.getElem?_set_ne (by omega)]

theorem getPage_DeletePage_self (t : BPlusTree) (id : Int) (p : Page)
    (hg : getPage t id = some p) (hpin : ¬ p.pin_count > 0) :
    getPage (DeletePage t id) id = none := by
  unfold DeletePage
  rw [hg]
  simp only [hpin, if_false]
  obtain ⟨h1, h2, _⟩ := getPage_eq_some _ id p hg
  unfold getPage
  have hneg : ¬ id < 0 := by omega
  simp only [hneg, if_false, List.getD_eq_getElem?_getD]
  rw [List.getElem?_set_self h2]
  rfl

/-- One round of the loop of `FreeAllPages`: the page was write-latched; it is unlatched and
unpinned, and when it is in the deletion set it is released to the pool in this same round.  No
other page is touched. -/
theorem freePage_spec (u v : BPlusTree) (x : Int) (h : freePage u x = Except.ok v) :
    ∃ p, getPage u x = some p ∧ p.latch = -1 ∧
      (∀ y, y ≠ x → getPage v y = getPage u y) ∧
      (x ∈ u.deleted_page_set → getPage v x = none ∧ p.pin_count ≤ 1 ∧
        v.deleted_page_set = u.deleted_page_set.erase x) ∧
      (x ∉ u.deleted_page_set → (∃ q, getPage v x = some q ∧ q.latch = 0) ∧
        v.deleted_page_set = u.deleted_page_set) := by
  unfold freePage at h
  obtain ⟨tu, hu, h⟩ := bind_ok _ _ _ h
  have hop := OnlyPages_trans _ _ _ (OnlyPages_UnlatchPage u tu x _ hu)
    (OnlyPages_UnpinPage tu x true)
  have hdel := OnlyPages_deleted _ _ hop
  unfold UnlatchPage at hu
  cases hg : getPage u x with
  | none => simp [hg] at hu
  | some p =>
    simp only [hg] at hu
    rw [if_neg (by decide)] at hu
    split_ifs at hu with hl
    simp only [pure, Except.pure, Except.ok.injEq] at hu
    have hl' : p.latch = -1 := by
      by_contra hc; exact hl hc
    have hgx : getPage tu x = some { p with latch := 0 } := by
      rw [← hu, getPage_setPage u x x p _ hg, if_pos rfl]
    have hgy : ∀ y, y ≠ x → getPage (UnpinPage tu x true) y = getPage u y := by
      intro y hy
      rw [getPage_UnpinPage_ne _ _ _ _ hy, ← hu, getPage_setPage u x y p _ hg, if_neg hy]
    have hgu : ∃ q, getPage (UnpinPage tu x true) x = some q ∧ q.latch = 0 ∧
        (¬ q.pin_count > 0 → p.pin_count ≤ 1) := by
      unfold UnpinPage
      rw [hgx]
      simp only
      split_ifs with hp
      · refine ⟨_, by rw [getPage_setPage tu x x _ _ hgx, if_pos rfl], rfl, ?_⟩
        intro hq
        simp only at hq hp
        omega
      · refine ⟨_, hgx, rfl, ?_⟩
        intro _
        simp only at hp
        omega
    obtain ⟨q, hq, hql, hqp⟩ := hgu
    refine ⟨p, rfl, hl', ?_, ?_, ?_⟩
    · intro y hy
      simp only at h
      split_ifs at h with hd
      · rw [hq] at h
        simp only at h
        split_ifs at h with hpin
        simp only [pure, Except.pure, Except.ok.injEq] at h
        subst h
        show getPage (DeletePage (UnpinPage tu x true) x) y = _
        rw [getPage_DeletePage_ne _ _ _ hy]
        exact hgy y hy
      · simp only [pure, Except.pure, Except.ok.injEq] at h
        subst h
        exact hgy y hy
    · intro hx
      simp only at h
      rw [if_pos (by rw [hdel]; exact hx), hq] at h
      simp only at h
      split_ifs at h with hpin
      simp only [pure, Except.pure, Except.ok.injEq] at h
      subst h
      refine ⟨getPage_DeletePage_self _ _ q hq hpin, hqp hpin, ?_⟩
      show (DeletePage (UnpinPage tu x true) x).deleted_page_set.erase x = _
      rw [OnlyPages_deleted _ _ (OnlyPages_DeletePage _ _), hdel]
    · intro hx
      simp only at h
      rw [if_neg (by rw [hdel]; exact hx)] at h
      simp only [pure, Except.pure, Except.ok.injEq] at h
      subst h
      exact ⟨⟨q, hq, hql⟩, hdel⟩

/-- The loop of `FreeAllPages` touches only the pages it is run on. -/
theorem free_loop_frame : ∀ (l : List Int) (t u : BPlusTree),
    l.foldlM freePage t = Except.ok u → ∀ y, y ∉ l → getPage u y = getPage t y := by
  intro l
  induction l with
  | nil =>
    intro t u h y _
    simp only [List.foldlM, pure, Except.pure, Except.ok.injEq] at h
    rw [h]
  | cons a l ih =>
    intro t u h y hy
    rw [List.foldlM_cons] at h
    obtain ⟨t1, h1, h⟩ := bind_ok _ _ _ h
    obtain ⟨_, _, _, hfr, _⟩ := freePage_spec t t1 a h1
    rw [ih t1 u h y (fun hm => hy (List.mem_cons_of_mem _ hm))]
    exact hfr y (fun e => hy (e ▸ List.mem_cons_self _ _))

/-- A page on which the loop of `FreeAllPages` is still to run is write-latched. -/
theorem free_loop_latched : ∀ (l : List Int) (t u : BPlusTree),
    l.foldlM freePage t = Except.ok u → ∀ y ∈ l, ∃ q, getPage t y = some q ∧ q.latch = -1 := by
  intro l
  induction l with
  | nil => intro t u _ y hy; cases hy
  | cons a l ih =>
    intro t u h y hy
    rw [List.foldlM_cons] at h
    obtain ⟨t1, h1, h⟩ := bind_ok _ _ _ h
    obtain ⟨p, hp, hpl, hfr, _⟩ := freePage_spec t t1 a h1
    by_cases e : y = a
    · subst e; exact ⟨p, hp, hpl⟩
    · rcases List.mem_cons.1 hy with e' | hm
      · exact absurd e' e
      · obtain ⟨q, hq, hql⟩ := ih t1 u h y hm
        exact ⟨q, by rw [← hfr y e]; exact hq, hql⟩

/-- A page on which the loop of `FreeAllPages` has run is deleted or unlatched. -/
theorem free_loop_released : ∀ (l : List Int) (t u : BPlusTree),
    l.foldlM freePage t = Except.ok u → ∀ y ∈ l,
      getPage u y = none ∨ ∃ q, getPage u y = some q ∧ q.latch = 0 := by
  intro l
  induction l with
  | nil => intro t u _ y hy; cases hy
  | cons a l ih =>
    intro t u h y hy
    rw [List.foldlM_cons] at h
    obtain ⟨t1, h1, h2⟩ := bind_ok _ _ _ h
    by_cases hm : y ∈ l
    · exact ih t1 u h2 y hm
    · have e : y = a := by
        rcases List.mem_cons.1 hy with e | hm'
        · exact e
        · exact absurd hm' hm
      subst e
      rw [free_loop_frame l t1 u h2 y hm]
      obtain ⟨p, _, _, _, hd, hnd⟩ := freePage_spec t t1 y h1
      by_cases hx : y ∈ t.deleted_page_set
      · exact Or.inl (hd hx).1
      · exact Or.inr (hnd hx).1

theorem Remove_eq_RemoveHeld (t t1 : BPlusTree) (key : Int)
    (h1 : LatchRoot t OP_TYPE.DELETE = Except.ok t1) (he : IsEmpty t1 = false) :
    Remove t key = (RemoveHeld t key).bind FreeAllPages := by
  unfold Remove RemoveHeld
  simp only [h1, bind, Except.bind, he, Bool.false_eq_true, if_false]
  cases hc : FindLeafPageCrabbing (TryUnlatchRoot t1 OP_TYPE.DELETE) key OP_TYPE.DELETE with
  | error e => rfl
  | ok r =>
    simp only
    cases hg : getNode r.1 r.2 with
    | error e => rfl
    | ok leaf =>
      simp only
      split_ifs with hlt
      · cases hcr : CoalesceOrRedistribute (setNode r.1 r.2
            (leaf.RemoveAndDeleteRecord key).1).pages.length
            (setNode r.1 r.2 (leaf.RemoveAndDeleteRecord key).1) r.2 with
        | error e => rfl
        | ok c => rfl
      · rfl
theorem RootLatchSame_refl (t : BPlusTree) : RootLatchSame t t := ⟨rfl, rfl⟩

theorem RootLatchSame_trans (t t1 t2 : BPlusTree) (h1 : RootLatchSame t t1)
    (h2 : RootLatchSame t1 t2) : RootLatchSame t t2 :=
  ⟨h2.1.trans h1.1, h2.2.trans h1.2⟩

theorem NoLatch_refl (t : BPlusTree) : NoLatch t t :=
  ⟨RootLatchSame_refl t, rfl, rfl, fun _ p h => ⟨p, h, rfl⟩⟩

theorem NoLatch_trans (t t1 t2 : BPlusTree) (h1 : NoLatch t t1) (h2 : NoLatch t1 t2) :
    NoLatch t t2 := by
  refine ⟨RootLatchSame_trans _ _ _ h1.1 h2.1, h2.2.1.trans h1.2.1,
    h2.2.2.1.trans h1.2.2.1, ?_⟩
  intro id p hp
  obtain ⟨p1, hp1, e1⟩ := h1.2.2.2 id p hp
  obtain ⟨p2, hp2, e2⟩ := h2.2.2.2 id p1 hp1
  exact ⟨p2, hp2, e2.trans e1⟩

/-- A step that rewrites bookkeeping fields other than the latches and the held set. -/
theorem NoLatch_of_eq (t t' : BPlusTree) (hp : t'.pages = t.pages)
    (h1 : t'.root_latch = t.root_latch) (h2 : t'.root_latch_cnt = t.root_latch_cnt)
    (h3 : t'.page_set = t.page_set) (h4 : t'.deleted_page_set = t.deleted_page_set) :
    NoLatch t t' :=
  ⟨⟨h1, h2⟩, h3, h4, fun id p h => ⟨p, by rw [getPage_congr t t' hp]; exact h, rfl⟩⟩

theorem NoLatch_setPage (t : BPlusTree) (id : Int) (pg p : Page) (hg : getPage t id = some pg)
    (hl : p.latch = pg.latch) : NoLatch t (setPage t id p) := by
  refine ⟨⟨rfl, rfl⟩, rfl, rfl, ?_⟩
  intro id' q hq
  rw [getPage_setPage t id id' pg p hg]
  by_cases e : id' = id
  · subst e
    rw [hg] at hq
    cases hq
    exact ⟨p, by simp, hl⟩
  · exact ⟨q, by simp [e, hq], rfl⟩

theorem NoLatch_setNode (t : BPlusTree) (id : Int) (n : Node) : NoLatch t (setNode t id n) := by
  unfold setNode
  cases hg : getPage t id with
  | none => exact NoLatch_refl t
  | some pg => exact NoLatch_setPage t id pg _ hg rfl

theorem NoLatch_UnpinPage (t : BPlusTree) (id : Int) (d : Bool) :
    NoLatch t (UnpinPage t id d) := by
  unfold UnpinPage
  cases hg : getPage t id with
  | none => exact NoLatch_refl t
  | some pg =>
    simp only
    split_ifs
    · exact NoLatch_setPage t id pg _ hg rfl
    · exact NoLatch_refl t

theorem NoLatch_FetchPage (t t' : BPlusTree) (id : Int) (h : FetchPage t id = some t') :
    NoLatch t t' := by
  obtain ⟨pg, hg, rfl⟩ := FetchPage_eq_some t t' id h
  exact NoLatch_setPage t id pg _ hg rfl

theorem NoLatch_NewPage (t : BPlusTree) : NoLatch t (NewPage t).1 := by
  refine ⟨⟨rfl, rfl⟩, rfl, rfl, ?_⟩
  intro id p hp
  refine ⟨p, ?_, rfl⟩
  rw [getPage_NewPage, if_neg (getPage_lt_length t id p hp)]
  exact hp

theorem NoLatch_CopyNFromLoop (self : Int) : ∀ (items : List MappingType) (i : Int)
    (t t' : BPlusTree), CopyNFromLoop self items i t = Except.ok t' → NoLatch t t' := by
  intro items
  induction items with
  | nil =>
    intro i t t' h
    cases h
    exact NoLatch_refl t
  | cons item items ih =>
    intro i t t' h
    unfold CopyNFromLoop at h
    cases hf : FetchPage t item.2 with
    | none => simp [hf] at h
    | some t1 =>
      simp only [hf] at h
      obtain ⟨me, _, h⟩ := bind_ok _ _ _ h
      obtain ⟨child, _, h⟩ := bind_ok _ _ _ h
      obtain ⟨me2, _, h⟩ := bind_ok _ _ _ h
      exact NoLatch_trans _ _ _ (NoLatch_FetchPage t t1 _ hf)
        (NoLatch_trans _ _ _ (NoLatch_setNode _ _ _)
          (NoLatch_trans _ _ _ (NoLatch_UnpinPage _ _ _)
            (NoLatch_trans _ _ _ (NoLatch_setNode _ _ _) (ih _ _ _ h))))

theorem NoLatch_CopyNFrom (t t' : BPlusTree) (self : Int) (items : List MappingType)
    (size : Int) (h : CopyNFrom t self items size = Except.ok t') : NoLatch t t' := by
  unfold CopyNFrom at h
  obtain ⟨t1, h1, h⟩ := bind_ok _ _ _ h
  obtain ⟨me, _, h⟩ := bind_ok _ _ _ h
  simp only [pure, Except.pure, Except.ok.injEq] at h
  subst h
  exact NoLatch_trans _ _ _ (NoLatch_CopyNFromLoop self items 0 t t1 h1) (NoLatch_setNode _ _ _)

theorem NoLatch_MoveHalfTo (t t' : BPlusTree) (self recipient : Int)
    (h : MoveHalfTo t self recipient = Except.ok t') : NoLatch t t' := by
  unfold MoveHalfTo at h
  obtain ⟨me, _, h⟩ := bind_ok _ _ _ h
  obtain ⟨t1, h1, h⟩ := bind_ok _ _ _ h
  obtain ⟨me2, _, h⟩ := bind_ok _ _ _ h
  simp only [pure, Except.pure, Except.ok.injEq] at h
  subst h
  exact NoLatch_trans _ _ _ (NoLatch_CopyNFrom _ _ _ _ _ h1) (NoLatch_setNode _ _ _)

theorem NoLatch_MoveAllTo (t t' : BPlusTree) (self recipient key : Int)
    (h : MoveAllTo t self recipient key = Except.ok t') : NoLatch t t' := by
  unfold MoveAllTo at h
  obtain ⟨r, _, h⟩ := bind_ok _ _ _ h
  obtain ⟨me, _, h⟩ := bind_ok _ _ _ h
  obtain ⟨t1, h1, h⟩ := bind_ok _ _ _ h
  split_ifs at h
  obtain ⟨r2, _, h⟩ := bind_ok _ _ _ h
  obtain ⟨me2, _, h⟩ := bind_ok _ _ _ h
  simp only [pure, Except.pure, Except.ok.injEq] at h
  subst h
  exact NoLatch_trans _ _ _ (NoLatch_CopyNFrom _ _ _ _ _ h1)
    (NoLatch_trans _ _ _ (NoLatch_setNode _ _ _) (NoLatch_setNode _ _ _))

theorem NoLatch_CopyLastFrom (t t' : BPlusTree) (self : Int) (item : MappingType)
    (h : CopyLastFrom t self item = Except.ok t') : NoLatch t t' := by
  unfold CopyLastFrom at h
  obtain ⟨me, _, h⟩ := bind_ok _ _ _ h
  split_ifs at h
  simp only at h
  cases hf : FetchPage (setNode t self
      { me with array := slotSet me.array (me.GetSize - 1) item, size := me.GetSize + 1 })
      item.2 with
  | none => simp [hf] at h
  | some t1 =>
    simp only [hf] at h
    obtain ⟨me2, _, h⟩ := bind_ok _ _ _ h
    obtain ⟨child, _, h⟩ := bind_ok _ _ _ h
    simp only [pure, Except.pure, Except.ok.injEq] at h
    subst h
    exact NoLatch_trans _ _ _ (NoLatch_setNode _ _ _)
      (NoLatch_trans _ _ _ (NoLatch_FetchPage _ t1 _ hf)
        (NoLatch_trans _ _ _ (NoLatch_setNode _ _ _) (NoLatch_UnpinPage _ _ _)))

theorem NoLatch_CopyFirstFrom (t t' : BPlusTree) (self : Int) (item : MappingType)
    (h : CopyFirstFrom t self item = Except.ok t') : NoLatch t t' := by
  unfold CopyFirstFrom at h
  obtain ⟨me, _, h⟩ := bind_ok _ _ _ h
  simp only at h
  generalize hn : ({ me with
      array := slotSet (slotSet (Node.shiftUp (me.GetSize - 1).toNat me.GetSize me.array) 0
        (item.1, (slotAt (Node.shiftUp (me.GetSize - 1).toNat me.GetSize me.array) 0).2)) 1
        ((slotAt (slotSet (Node.shiftUp (me.GetSize - 1).toNat me.GetSize me.array) 0
          (item.1, (slotAt (Node.shiftUp (me.GetSize - 1).toNat me.GetSize me.array) 0).2))
          1).1, item.2),
      size := me.GetSize + 1 } : Node) = n at h
  cases hf : FetchPage (setNode t self n) item.2 with
  | none => simp [hf] at h
  | some t1 =>
    simp only [hf] at h
    obtain ⟨me2, _, h⟩ := bind_ok _ _ _ h
    obtain ⟨child, _, h⟩ := bind_ok _ _ _ h
    simp only [pure, Except.pure, Except.ok.injEq] at h
    subst h
    exact NoLatch_trans _ _ _ (NoLatch_setNode _ _ _)
      (NoLatch_trans _ _ _ (NoLatch_FetchPage _ t1 _ hf)
        (NoLatch_trans _ _ _ (NoLatch_setNode _ _ _) (NoLatch_UnpinPage _ _ _)))

theorem NoLatch_MoveFirstToEndOf (t t' : BPlusTree) (self recipient key : Int)
    (h : MoveFirstToEndOf t self recipient key = Except.ok t') : NoLatch t t' := by
  unfold MoveFirstToEndOf at h
  obtain ⟨me, _, h⟩ := bind_ok _ _ _ h
  exact NoLatch_trans _ _ _ (NoLatch_setNode _ _ _) (NoLatch_CopyLastFrom _ _ _ _ h)

theorem NoLatch_MoveLastToFrontOf (t t' : BPlusTree) (self recipient key : Int)
    (h : MoveLastToFrontOf t self recipient key = Except.ok t') : NoLatch t t' := by
  unfold MoveLastToFrontOf at h
  obtain ⟨me, _, h⟩ := bind_ok _ _ _ h
  exact NoLatch_trans _ _ _ (NoLatch_setNode _ _ _) (NoLatch_CopyFirstFrom _ _ _ _ h)
theorem NoLatch_Split (t t' : BPlusTree) (N : IndexPageType) (node new : Int)
    (h : Split t N node = Except.ok (t', new)) : NoLatch t t' := by
  unfold Split at h
  simp only at h
  obtain ⟨n, _, h⟩ := bind_ok _ _ _ h
  obtain ⟨sn, _, h⟩ := bind_ok _ _ _ h
  generalize (if N = IndexPageType.LEAF_PAGE then
      sn.InitLeaf (NewPage t).2 n.parent_page_id
        (if n.IsLeafPage = true then (NewPage t).1.leaf_max_size
          else (NewPage t).1.internal_max_size)
    else sn.InitInternal (NewPage t).2 n.parent_page_id
        (if n.IsLeafPage = true then (NewPage t).1.leaf_max_size
          else (NewPage t).1.internal_max_size)) = s at h
  have a1 : NoLatch t (setNode (NewPage t).1 (NewPage t).2 s) :=
    NoLatch_trans _ _ _ (NoLatch_NewPage t) (NoLatch_setNode _ _ _)
  split_ifs at h with hl
  · simp only [pure, Except.pure, Except.ok.injEq, Prod.mk.injEq] at h
    obtain ⟨rfl, _⟩ := h
    exact NoLatch_trans _ _ _ a1
      (NoLatch_trans _ _ _ (NoLatch_setNode _ _ _) (NoLatch_setNode _ _ _))
  · obtain ⟨t2, h2, h⟩ := bind_ok _ _ _ h
    simp only [pure, Except.pure, Except.ok.injEq, Prod.mk.injEq] at h
    obtain ⟨rfl, _⟩ := h
    exact NoLatch_trans _ _ _ a1 (NoLatch_MoveHalfTo _ _ _ _ h2)

theorem NoLatch_UpdateRootPageId (t : BPlusTree) (r : Int) (b : Bool) :
    NoLatch t (UpdateRootPageId { t with root_page_id := r } b) :=
  NoLatch_of_eq _ _ rfl rfl rfl rfl rfl

theorem NoLatch_StartNewTree (t t' : BPlusTree) (key value : Int)
    (h : StartNewTree t key value = Except.ok t') : NoLatch t t' := by
  unfold StartNewTree at h
  simp only at h
  obtain ⟨lq, _, h⟩ := bind_ok _ _ _ h
  simp only [pure, Except.pure, Except.ok.injEq] at h
  subst h
  exact NoLatch_trans _ _ _ (NoLatch_NewPage t)
    (NoLatch_trans _ _ _ (NoLatch_UpdateRootPageId _ _ _)
      (NoLatch_trans _ _ _ (NoLatch_setNode _ _ _) (NoLatch_UnpinPage _ _ _)))

theorem NoLatch_InsertIntoParent : ∀ (fuel : Nat) (t t' : BPlusTree)
    (old_node key new_node : Int),
    InsertIntoParent fuel t old_node key new_node = Except.ok t' → NoLatch t t' := by
  intro fuel
  induction fuel with
  | zero => intro t t' o k nw h; cases h
  | succ fuel ih =>
    intro t t' old_node key new_node h
    rw [InsertIntoParent] at h
    obtain ⟨old, _, h⟩ := bind_ok _ _ _ h
    by_cases hr : old.IsRootPage = true
    · rw [if_pos hr] at h
      simp only at h
      obtain ⟨nr, _, h⟩ := bind_ok _ _ _ h
      obtain ⟨old1, _, h⟩ := bind_ok _ _ _ h
      obtain ⟨new1, _, h⟩ := bind_ok _ _ _ h
      obtain ⟨old2, _, h⟩ := bind_ok _ _ _ h
      obtain ⟨new2, _, h⟩ := bind_ok _ _ _ h
      simp only [pure, Except.pure, Except.ok.injEq] at h
      subst h
      exact NoLatch_trans _ _ _ (NoLatch_NewPage t)
        (NoLatch_trans _ _ _ (NoLatch_UpdateRootPageId _ _ _)
          (NoLatch_trans _ _ _ (NoLatch_setNode _ _ _)
            (NoLatch_trans _ _ _ (NoLatch_setNode _ _ _)
              (NoLatch_trans _ _ _ (NoLatch_setNode _ _ _)
                (NoLatch_trans _ _ _ (NoLatch_UnpinPage _ _ _) (NoLatch_UnpinPage _ _ _))))))
    · rw [if_neg hr] at h
      cases hf : FetchPage t old.parent_page_id with
      | none => simp [hf] at h
      | some t1 =>
        simp only [hf] at h
        obtain ⟨pp, _, h⟩ := bind_ok _ _ _ h
        obtain ⟨nw, _, h⟩ := bind_ok _ _ _ h
        cases hins : pp.InsertNodeAfter old.page_id key nw.page_id with
        | none => simp [hins] at h
        | some r =>
          obtain ⟨pp', size⟩ := r
          simp only [hins] at h
          have a3 : NoLatch t (UnpinPage (setNode t1 old.parent_page_id pp') nw.page_id true) :=
            NoLatch_trans _ _ _ (NoLatch_FetchPage t t1 _ hf)
              (NoLatch_trans _ _ _ (NoLatch_setNode _ _ _) (NoLatch_UnpinPage _ _ _))
          split_ifs at h with hfull
          · obtain ⟨r2, hsp, h⟩ := bind_ok _ _ _ h
            obtain ⟨t4, sp⟩ := r2
            simp only at h
            obtain ⟨sn, _, h⟩ := bind_ok _ _ _ h
            obtain ⟨t5, h5, h⟩ := bind_ok _ _ _ h
            obtain ⟨pp5, _, h⟩ := bind_ok _ _ _ h
            simp only [pure, Except.pure, Except.ok.injEq] at h
            subst h
            exact NoLatch_trans _ _ _ a3
              (NoLatch_trans _ _ _ (NoLatch_Split _ _ _ _ _ hsp)
                (NoLatch_trans _ _ _ (ih _ _ _ _ _ h5) (NoLatch_UnpinPage _ _ _)))
          · simp only [pure, Except.pure, Except.ok.injEq] at h
            subst h
            exact NoLatch_trans _ _ _ a3 (NoLatch_UnpinPage _ _ _)

theorem NoLatch_AdjustRoot (t t' : BPlusTree) (node : Int) (b : Bool)
    (h : AdjustRoot t node = Except.ok (t', b)) : NoLatch t t' := by
  unfold AdjustRoot at h
  obtain ⟨n, _, h⟩ := bind_ok _ _ _ h
  split_ifs at h with h1 h2
  · simp only [Node.RemoveAndReturnOnlyChild] at h
    cases hf : FetchPage (UpdateRootPageId
        { setNode t node (n.Remove 0) with root_page_id := n.ValueAt 0 } false)
        (n.ValueAt 0) with
    | none => simp [hf] at h
    | some t1 =>
      simp only [hf] at h
      obtain ⟨c, _, h⟩ := bind_ok _ _ _ h
      simp only [pure, Except.pure, Except.ok.injEq, Prod.mk.injEq] at h
      obtain ⟨rfl, _⟩ := h
      exact NoLatch_trans _ _ _ (NoLatch_setNode _ _ _)
        (NoLatch_trans _ _ _ (NoLatch_UpdateRootPageId _ _ _)
          (NoLatch_trans _ _ _ (NoLatch_FetchPage _ t1 _ hf)
            (NoLatch_trans _ _ _ (NoLatch_setNode _ _ _) (NoLatch_UnpinPage _ _ _))))
  · simp only [pure, Except.pure, Except.ok.injEq, Prod.mk.injEq] at h
    obtain ⟨rfl, _⟩ := h
    exact NoLatch_UpdateRootPageId _ _ _
  · simp only [pure, Except.pure, Except.ok.injEq, Prod.mk.injEq] at h
    obtain ⟨rfl, _⟩ := h
    exact NoLatch_refl _
theorem NoLatch_Redistribute (t t' : BPlusTree) (neighbor_node : Option Int)
    (node index : Int) (h : Redistribute t neighbor_node node index = Except.ok t') :
    NoLatch t t' := by
  unfold Redistribute at h
  obtain ⟨n, _, h⟩ := bind_ok _ _ _ h
  cases hf : FetchPage t n.parent_page_id with
  | none => simp [hf] at h
  | some t1 =>
    simp only [hf] at h
    have a1 := NoLatch_FetchPage t t1 _ hf
    obtain ⟨pn, _, h⟩ := bind_ok _ _ _ h
    cases hv : pn.ValueIndex n.page_id with
    | none => simp [hv] at h
    | some node_index =>
      simp only [hv] at h
      cases neighbor_node with
      | none => simp at h
      | some neighbor =>
        simp only at h
        obtain ⟨nb, _, h⟩ := bind_ok _ _ _ h
        by_cases hl : n.IsLeafPage = true
        · rw [if_pos hl] at h
          by_cases hx : index = NODE_IS_LEFT
          · rw [if_pos hx] at h
            obtain ⟨pn2, _, h⟩ := bind_ok _ _ _ h
            obtain ⟨nb2, _, h⟩ := bind_ok _ _ _ h
            simp only [pure, Except.pure, Except.ok.injEq] at h
            subst h
            exact NoLatch_trans _ _ _ a1 (NoLatch_trans _ _ _ (NoLatch_setNode _ _ _)
              (NoLatch_trans _ _ _ (NoLatch_setNode _ _ _)
                (NoLatch_trans _ _ _ (NoLatch_setNode _ _ _) (NoLatch_UnpinPage _ _ _))))
          · rw [if_neg hx] at h
            obtain ⟨pn2, _, h⟩ := bind_ok _ _ _ h
            obtain ⟨n2, _, h⟩ := bind_ok _ _ _ h
            simp only [pure, Except.pure, Except.ok.injEq] at h
            subst h
            exact NoLatch_trans _ _ _ a1 (NoLatch_trans _ _ _ (NoLatch_setNode _ _ _)
              (NoLatch_trans _ _ _ (NoLatch_setNode _ _ _)
                (NoLatch_trans _ _ _ (NoLatch_setNode _ _ _) (NoLatch_UnpinPage _ _ _))))
        · rw [if_neg hl] at h
          by_cases hx : index = NODE_IS_LEFT
          · rw [if_pos hx] at h
            obtain ⟨t3, hmv, h⟩ := bind_ok _ _ _ h
            obtain ⟨pn2, _, h⟩ := bind_ok _ _ _ h
            simp only [pure, Except.pure, Except.ok.injEq] at h
            subst h
            exact NoLatch_trans _ _ _ a1 (NoLatch_trans _ _ _ (NoLatch_setNode _ _ _)
              (NoLatch_trans _ _ _ (NoLatch_MoveFirstToEndOf _ _ _ _ _ hmv)
                (NoLatch_UnpinPage _ _ _)))
          · rw [if_neg hx] at h
            obtain ⟨t3, hmv, h⟩ := bind_ok _ _ _ h
            obtain ⟨pn2, _, h⟩ := bind_ok _ _ _ h
            simp only [pure, Except.pure, Except.ok.injEq] at h
            subst h
            exact NoLatch_trans _ _ _ a1 (NoLatch_trans _ _ _ (NoLatch_setNode _ _ _)
              (NoLatch_trans _ _ _ (NoLatch_MoveLastToFrontOf _ _ _ _ _ hmv)
                (NoLatch_UnpinPage _ _ _)))

theorem Grab_of_NoLatch (t t' : BPlusTree) (h : NoLatch t t') : Grab t t' := by
  refine ⟨h.1, fun x hx => by rw [h.2.1]; exact hx, fun x hx => by rw [h.2.2.1]; exact hx, ?_⟩
  intro id p hp
  obtain ⟨p', hp', e⟩ := h.2.2.2 id p hp
  exact ⟨p', hp', Or.inl e⟩

theorem Grab_refl (t : BPlusTree) : Grab t t := Grab_of_NoLatch t t (NoLatch_refl t)

theorem Grab_trans (t t1 t2 : BPlusTree) (h1 : Grab t t1) (h2 : Grab t1 t2) : Grab t t2 := by
  refine ⟨RootLatchSame_trans _ _ _ h1.1 h2.1, fun x hx => h2.2.1 x (h1.2.1 x hx),
    fun x hx => h2.2.2.1 x (h1.2.2.1 x hx), ?_⟩
  intro id p hp
  obtain ⟨p1, hp1, e1⟩ := h1.2.2.2 id p hp
  obtain ⟨p2, hp2, e2⟩ := h2.2.2.2 id p1 hp1
  refine ⟨p2, hp2, ?_⟩
  rcases e1 with e1 | ⟨a1, b1, c1⟩
  · rcases e2 with e2 | ⟨a2, b2, c2⟩
    · exact Or.inl (e2.trans e1)
    · exact Or.inr ⟨e1 ▸ a2, b2, c2⟩
  · rcases e2 with e2 | ⟨a2, b2, c2⟩
    · exact Or.inr ⟨a1, e2.trans b1, h2.2.1 id c1⟩
    · rw [b1] at a2; cases a2

theorem Grab_AddIntoDeletedPageSet (t : BPlusTree) (id : Int) :
    Grab t (AddIntoDeletedPageSet t id) := by
  unfold AddIntoDeletedPageSet
  split_ifs
  · exact Grab_refl t
  · exact ⟨⟨rfl, rfl⟩, fun x hx => hx, fun x hx => List.mem_append_left _ hx,
      fun id p hp => ⟨p, hp, Or.inl rfl⟩⟩

/-- The sibling fetch write-latches a page that was unlatched and puts it in the held set. -/
theorem Grab_fetchSibling (t t' : BPlusTree) (id : Int) (h : fetchSibling t id = Except.ok t') :
    Grab t t' ∧ id ∈ t'.page_set ∧ ∃ p, getPage t' id = some p ∧ p.latch = -1 := by
  unfold fetchSibling at h
  cases hf : FetchPage t id with
  | none => simp [hf] at h
  | some t1 =>
    simp only [hf] at h
    obtain ⟨t2, h2, h⟩ := bind_ok _ _ _ h
    simp only [pure, Except.pure, Except.ok.injEq] at h
    subst h
    have a1 := NoLatch_FetchPage t t1 _ hf
    unfold LatchPage at h2
    cases hg : getPage t1 id with
    | none => simp [hg] at h2
    | some pg =>
      simp only [hg] at h2
      rw [if_neg (by decide)] at h2
      split_ifs at h2 with hl
      simp only [pure, Except.pure, Except.ok.injEq] at h2
      subst h2
      have hl0 : pg.latch = 0 := by
        by_contra hc; exact hl hc
      have hmem : id ∈ (AddIntoPageSet (setPage t1 id { pg with latch := -1 }) id).page_set :=
        List.mem_append_right _ (List.mem_singleton_self _)
      have hget : ∀ id', getPage (AddIntoPageSet (setPage t1 id { pg with latch := -1 }) id) id'
          = if id' = id then some { pg with latch := -1 } else getPage t1 id' :=
        fun id' => getPage_setPage t1 id id' pg _ hg
      refine ⟨⟨RootLatchSame_trans _ _ _ a1.1 ⟨rfl, rfl⟩, ?_, ?_, ?_⟩, hmem, _,
        by rw [hget, if_pos rfl], rfl⟩
      · intro x hx
        apply List.mem_append_left
        show x ∈ t1.page_set
        rw [a1.2.1]; exact hx
      · intro x hx
        show x ∈ t1.deleted_page_set
        rw [a1.2.2.1]; exact hx
      · intro id' p hp
        obtain ⟨p1, hp1, e1⟩ := a1.2.2.2 id' p hp
        rw [hget]
        by_cases e : id' = id
        · subst e
          rw [hg] at hp1
          cases hp1
          exact ⟨_, by rw [if_pos rfl], Or.inr ⟨e1 ▸ hl0, rfl, hmem⟩⟩
        · exact ⟨p1, by rw [if_neg e]; exact hp1, Or.inl e1⟩
theorem Grab_Coalesce_right (recurse : BPlusTree → Int → Except Err (BPlusTree × Bool))
    (t t' : BPlusTree) (neighbor_node_ node_ parent index : Int) (b : Bool)
    (hx : ¬ index = NODE_IS_LEFT)
    (hrec : ∀ t1 t2 b2, recurse t1 parent = Except.ok (t2, b2) → Grab t1 t2)
    (h : Coalesce recurse t neighbor_node_ node_ parent index = Except.ok (t', b)) :
    Grab t t' := by
  unfold Coalesce at h
  simp only [if_neg hx] at h
  obtain ⟨n, _, h⟩ := bind_ok _ _ _ h
  obtain ⟨pn, _, h⟩ := bind_ok _ _ _ h
  cases hv : pn.ValueIndex n.page_id with
  | none => simp [hv] at h
  | some node_index =>
    simp only [hv] at h
    by_cases hl : n.IsLeafPage = true
    on_goal 1 =>
      rw [if_pos hl] at h
      obtain ⟨nb, _, h⟩ := bind_ok _ _ _ h
      obtain ⟨y, hy, h⟩ := bind_ok _ _ _ h
      simp only [pure, Except.pure, Except.ok.injEq] at hy
      have ay : NoLatch t y := by
        subst hy
        exact NoLatch_trans _ _ _ (NoLatch_setNode _ _ _) (NoLatch_setNode _ _ _)
    on_goal 2 =>
      rw [if_neg hl] at h
      obtain ⟨y, hy, h⟩ := bind_ok _ _ _ h
      have ay : NoLatch t y := NoLatch_MoveAllTo _ _ _ _ _ hy
    all_goals
      obtain ⟨n2, _, h⟩ := bind_ok _ _ _ h
      obtain ⟨pn2, _, h⟩ := bind_ok _ _ _ h
      have a4 : Grab t (setNode (AddIntoDeletedPageSet y n2.page_id) parent
          (pn2.Remove node_index)) :=
        Grab_trans _ _ _ (Grab_of_NoLatch _ _ ay)
          (Grab_trans _ _ _ (Grab_AddIntoDeletedPageSet _ _)
            (Grab_of_NoLatch _ _ (NoLatch_setNode _ _ _)))
      split_ifs at h with hlt
      · obtain ⟨d, hd, h⟩ := bind_ok _ _ _ h
        have a5 := Grab_trans _ _ _ a4 (hrec _ d.1 d.2 hd)
        split_ifs at h
        · obtain ⟨pn3, _, h⟩ := bind_ok _ _ _ h
          simp only [pure, Except.pure, Except.ok.injEq, Prod.mk.injEq] at h
          obtain ⟨rfl, _⟩ := h
          exact Grab_trans _ _ _ a5 (Grab_AddIntoDeletedPageSet _ _)
        · simp only [pure, Except.pure, Except.ok.injEq, Prod.mk.injEq] at h
          obtain ⟨rfl, _⟩ := h
          exact a5
      · simp only [pure, Except.pure, Except.ok.injEq, Prod.mk.injEq] at h
        obtain ⟨rfl, _⟩ := h
        exact a4

theorem Grab_Coalesce (recurse : BPlusTree → Int → Except Err (BPlusTree × Bool))
    (t t' : BPlusTree) (neighbor_node_ node_ parent index : Int) (b : Bool)
    (hrec : ∀ t1 t2 b2, recurse t1 parent = Except.ok (t2, b2) → Grab t1 t2)
    (h : Coalesce recurse t neighbor_node_ node_ parent index = Except.ok (t', b)) :
    Grab t t' := by
  by_cases hx : index = NODE_IS_LEFT
  · subst hx
    rw [Coalesce_left] at h
    exact Grab_Coalesce_right recurse t t' node_ neighbor_node_ parent NODE_IS_RIGHT b
      (by decide) hrec h
  · exact Grab_Coalesce_right recurse t t' neighbor_node_ node_ parent index b hx hrec h

/-- Reading the siblings latches no page but the siblings, which enter the held set. -/
theorem Grab_readSiblings (t : BPlusTree) (node : Int) (s : Siblings)
    (h : readSiblings t node = Except.ok s) :
    Grab t s.t ∧
    (∀ lid, s.left = some lid → lid ∈ s.t.page_set ∧
      ∃ p, getPage s.t lid = some p ∧ p.latch = -1) ∧
    (∀ rid, s.right = some rid → rid ∈ s.t.page_set ∧
      ∃ p, getPage s.t rid = some p ∧ p.latch = -1) := by
  unfold readSiblings at h
  obtain ⟨n, hn, h⟩ := bind_ok _ _ _ h
  cases hf : FetchPage t n.parent_page_id with
  | none => simp [hf] at h
  | some t1 =>
    simp only [hf] at h
    have a1 := Grab_of_NoLatch _ _ (NoLatch_FetchPage t t1 _ hf)
    obtain ⟨pp, hpp, h⟩ := bind_ok _ _ _ h
    cases hv : pp.ValueIndex n.page_id with
    | none => simp [hv] at h
    | some idx =>
      simp only [hv] at h
      by_cases hL : idx - 1 ≥ 0
      on_goal 1 =>
        rw [if_pos hL] at h
        obtain ⟨t2', hfs, h⟩ := bind_ok _ _ _ h
        obtain ⟨l, hl, h⟩ := bind_ok _ _ _ h
        obtain ⟨t2, lid⟩ := l
        simp only [pure, Except.pure, Except.ok.injEq, Prod.mk.injEq] at hl
        have a2 : Grab t t2 ∧ ∀ x, lid = some x → x ∈ t2.page_set ∧
            ∃ p, getPage t2 x = some p ∧ p.latch = -1 := by
          obtain ⟨g, m, q⟩ := Grab_fetchSibling _ _ _ hfs
          rw [← hl.1, ← hl.2]
          refine ⟨Grab_trans _ _ _ a1 g, ?_⟩
          intro x hx
          cases hx
          exact ⟨m, q⟩
      on_goal 2 =>
        rw [if_neg hL] at h
        obtain ⟨l, hl, h⟩ := bind_ok _ _ _ h
        obtain ⟨t2, lid⟩ := l
        simp only [pure, Except.pure, Except.ok.injEq, Prod.mk.injEq] at hl
        have a2 : Grab t t2 ∧ ∀ x, lid = some x → x ∈ t2.page_set ∧
            ∃ p, getPage t2 x = some p ∧ p.latch = -1 := by
          rw [← hl.1, ← hl.2]
          exact ⟨a1, fun x hx => by cases hx⟩
      all_goals
        dsimp only at h
        obtain ⟨pp2, hpp2, h⟩ := bind_ok _ _ _ h
        by_cases hR : idx + 1 < pp2.GetSize
      on_goal 1 =>
        rw [if_pos hR] at h
        obtain ⟨t3', hfs3, h⟩ := bind_ok _ _ _ h
        obtain ⟨r, hr, h⟩ := bind_ok _ _ _ h
        obtain ⟨t3, rid⟩ := r
        simp only [pure, Except.pure, Except.ok.injEq, Prod.mk.injEq] at hr
        have a3 : Grab t2 t3 ∧ ∀ x, rid = some x → x ∈ t3.page_set ∧
            ∃ p, getPage t3 x = some p ∧ p.latch = -1 := by
          obtain ⟨g, m, q⟩ := Grab_fetchSibling _ _ _ hfs3
          rw [← hr.1, ← hr.2]
          refine ⟨g, ?_⟩
          intro x hx
          cases hx
          exact ⟨m, q⟩
      on_goal 2 =>
        rw [if_neg hR] at h
        obtain ⟨r, hr, h⟩ := bind_ok _ _ _ h
        obtain ⟨t3, rid⟩ := r
        simp only [pure, Except.pure, Except.ok.injEq, Prod.mk.injEq] at hr
        have a3 : Grab t2 t3 ∧ ∀ x, rid = some x → x ∈ t3.page_set ∧
            ∃ p, getPage t3 x = some p ∧ p.latch = -1 := by
          rw [← hr.1, ← hr.2]
          exact ⟨Grab_refl _, fun x hx => by cases hx⟩
      on_goal 3 =>
        rw [if_pos hR] at h
        obtain ⟨t3', hfs3, h⟩ := bind_ok _ _ _ h
        obtain ⟨r, hr, h⟩ := bind_ok _ _ _ h
        obtain ⟨t3, rid⟩ := r
        simp only [pure, Except.pure, Except.ok.injEq, Prod.mk.injEq] at hr
        have a3 : Grab t2 t3 ∧ ∀ x, rid = some x → x ∈ t3.page_set ∧
            ∃ p, getPage t3 x = some p ∧ p.latch = -1 := by
          obtain ⟨g, m, q⟩ := Grab_fetchSibling _ _ _ hfs3
          rw [← hr.1, ← hr.2]
          refine ⟨g, ?_⟩
          intro x hx
          cases hx
          exact ⟨m, q⟩
      on_goal 4 =>
        rw [if_neg hR] at h
        obtain ⟨r, hr, h⟩ := bind_ok _ _ _ h
        obtain ⟨t3, rid⟩ := r
        simp only [pure, Except.pure, Except.ok.injEq, Prod.mk.injEq] at hr
        have a3 : Grab t2 t3 ∧ ∀ x, rid = some x → x ∈ t3.page_set ∧
            ∃ p, getPage t3 x = some p ∧ p.latch = -1 := by
          rw [← hr.1, ← hr.2]
          exact ⟨Grab_refl _, fun x hx => by cases hx⟩
      all_goals
        dsimp only at h
        obtain ⟨n3, hn3, h⟩ := bind_ok _ _ _ h
        have hfin : s.t = t3 ∧ s.left = lid ∧ s.right = rid := by
          cases lid <;> cases rid <;>
            simp only [pure, Except.pure, bind, Except.bind, Except.map] at h <;>
            (repeat' split at h) <;>
            first
              | (cases h; exact ⟨rfl, rfl, rfl⟩)
              | cases h
        obtain ⟨e1, e2, e3⟩ := hfin
        rw [e1, e2, e3]
        refine ⟨Grab_trans _ _ _ a2.1 a3.1, ?_, a3.2⟩
        intro x hx
        obtain ⟨m, p, hp, hpl⟩ := a2.2 x hx
        refine ⟨a3.1.2.1 x m, ?_⟩
        obtain ⟨p', hp', e⟩ := a3.1.2.2.2 x p hp
        rcases e with e | ⟨e, _, _⟩
        · exact ⟨p', hp', e.trans hpl⟩
        · rw [hpl] at e; cases e
theorem Grab_sizeTests (fuel : Nat) (s : Siblings) (node : Int) (t' : BPlusTree) (b : Bool)
    (ih : ∀ t1 t2 n2 b2, CoalesceOrRedistribute fuel t1 n2 = Except.ok (t2, b2) → Grab t1 t2)
    (h : sizeTests fuel s node = Except.ok (t', b)) : Grab s.t t' := by
  unfold sizeTests at h
  have hCo : ∀ sid idx (d : BPlusTree × Bool),
      Coalesce (CoalesceOrRedistribute fuel) s.t sid node s.parent idx = Except.ok d →
        Grab s.t d.1 := by
    intro sid idx d hd
    exact Grab_Coalesce _ s.t d.1 sid node s.parent idx d.2
      (fun u1 u2 b2 hu => ih u1 u2 s.parent b2 hu) hd
  split at h
  · obtain ⟨d, hd, h⟩ := bind_ok _ _ _ h
    obtain ⟨pp3, _, h⟩ := bind_ok _ _ _ h
    obtain ⟨n4, _, h⟩ := bind_ok _ _ _ h
    simp only [pure, Except.pure, Except.ok.injEq, Prod.mk.injEq] at h
    obtain ⟨rfl, _⟩ := h
    exact Grab_trans _ _ _ (hCo _ _ d hd) (Grab_of_NoLatch _ _ (NoLatch_UnpinPage _ _ _))
  · split at h
    · obtain ⟨d, hd, h⟩ := bind_ok _ _ _ h
      obtain ⟨pp3, _, h⟩ := bind_ok _ _ _ h
      simp only [pure, Except.pure, Except.ok.injEq, Prod.mk.injEq] at h
      obtain ⟨rfl, _⟩ := h
      exact Grab_trans _ _ _ (hCo _ _ d hd) (Grab_of_NoLatch _ _ (NoLatch_UnpinPage _ _ _))
    · obtain ⟨pp3, _, h⟩ := bind_ok _ _ _ h
      split at h
      · obtain ⟨u, hu, h⟩ := bind_ok _ _ _ h
        simp only [pure, Except.pure, Except.ok.injEq, Prod.mk.injEq] at h
        obtain ⟨rfl, _⟩ := h
        exact Grab_of_NoLatch _ _ (NoLatch_trans _ _ _ (NoLatch_UnpinPage _ _ _)
          (NoLatch_Redistribute _ _ _ _ _ hu))
      · obtain ⟨u, hu, h⟩ := bind_ok _ _ _ h
        simp only [pure, Except.pure, Except.ok.injEq, Prod.mk.injEq] at h
        obtain ⟨rfl, _⟩ := h
        exact Grab_of_NoLatch _ _ (NoLatch_trans _ _ _ (NoLatch_UnpinPage _ _ _)
          (NoLatch_Redistribute _ _ _ _ _ hu))

/-- `CoalesceOrRedistribute` releases no latch, leaves the root latch alone, and latches only
the siblings it puts in the held set. -/
theorem Grab_CoalesceOrRedistribute : ∀ (fuel : Nat) (t t' : BPlusTree) (node : Int) (b : Bool),
    CoalesceOrRedistribute fuel t node = Except.ok (t', b) → Grab t t' := by
  intro fuel
  induction fuel with
  | zero => intro t t' node b h; cases h
  | succ fuel ih =>
    intro t t' node b h
    cases hn : getNode t node with
    | error e =>
      rw [CoalesceOrRedistribute] at h
      simp [hn, bind, Except.bind] at h
    | ok n =>
      by_cases hr : n.IsRootPage = true
      · rw [CoalesceOrRedistribute] at h
        simp only [hn, bind, Except.bind] at h
        rw [if_pos hr] at h
        cases hd : AdjustRoot t node with
        | error e => simp [hd] at h
        | ok d =>
          obtain ⟨t2, sdr⟩ := d
          simp only [hd] at h
          have a2 := Grab_of_NoLatch _ _ (NoLatch_AdjustRoot t t2 node sdr hd)
          cases hn2 : getNode t2 node with
          | error e => simp [hn2] at h
          | ok n2 =>
            simp only [hn2] at h
            split_ifs at h
            · simp only [pure, Except.pure, Except.ok.injEq, Prod.mk.injEq] at h
              obtain ⟨rfl, _⟩ := h
              exact Grab_trans _ _ _ a2 (Grab_AddIntoDeletedPageSet _ _)
            · simp only [pure, Except.pure, Except.ok.injEq, Prod.mk.injEq] at h
              obtain ⟨rfl, _⟩ := h
              exact a2
      · have hr' : n.IsRootPage = false := by simpa using hr
        rw [CoalesceOrRedistribute_eq fuel t node n hn hr'] at h
        obtain ⟨s, hs, h⟩ := bind_ok _ _ _ h
        exact Grab_trans _ _ _ (Grab_readSiblings t node s hs).1
          (Grab_sizeTests fuel s node t' b (fun t1 t2 n2 b2 hu => ih t1 t2 n2 b2 hu) h)

theorem RootLatchSame_release_loop : ∀ (l : List Int) (t t' : BPlusTree),
    l.foldlM releasePage t = Except.ok t' → RootLatchSame t t' := by
  intro l
  induction l with
  | nil =>
    intro t t' h
    cases h
    exact RootLatchSame_refl t
  | cons a l ih =>
    intro t t' h
    rw [List.foldlM_cons] at h
    obtain ⟨t1, h1, h⟩ := bind_ok _ _ _ h
    unfold releasePage at h1
    obtain ⟨t2, h2, h1⟩ := bind_ok _ _ _ h1
    simp only [pure, Except.pure, Except.ok.injEq] at h1
    subst h1
    exact RootLatchSame_trans _ _ _ (OnlyPages_latch _ _ (OnlyPages_trans _ _ _
      (OnlyPages_UnlatchPage _ _ _ _ h2) (OnlyPages_UnpinPage _ _ _))) (ih _ _ h)

theorem RootLatchSame_ReleaseAllPages (t t' : BPlusTree) (h : ReleaseAllPages t = Except.ok t') :
    RootLatchSame t t' := by
  unfold ReleaseAllPages at h
  obtain ⟨t1, h1, h⟩ := bind_ok _ _ _ h
  simp only [pure, Except.pure, Except.ok.injEq] at h
  subst h
  exact RootLatchSame_trans _ _ _ (RootLatchSame_release_loop _ _ _ h1) ⟨rfl, rfl⟩

theorem RootLatchSame_freePage (t t' : BPlusTree) (a : Int) (h : freePage t a = Except.ok t') :
    RootLatchSame t t' := by
  unfold freePage at h
  obtain ⟨t2, h2, h⟩ := bind_ok _ _ _ h
  have a1 := OnlyPages_latch _ _ (OnlyPages_trans _ _ _
    (OnlyPages_UnlatchPage _ _ _ _ h2) (OnlyPages_UnpinPage t2 a true))
  simp only at h
  split_ifs at h
  · cases hg : getPage (UnpinPage t2 a true) a with
    | none => simp [hg] at h
    | some p =>
      simp only [hg] at h
      split_ifs at h
      simp only [pure, Except.pure, Except.ok.injEq] at h
      subst h
      exact RootLatchSame_trans _ _ _ a1 (RootLatchSame_trans _ _ _
        (OnlyPages_latch _ _ (OnlyPages_DeletePage _ a)) ⟨rfl, rfl⟩)
  · simp only [pure, Except.pure, Except.ok.injEq] at h
    subst h
    exact a1

theorem RootLatchSame_free_loop : ∀ (l : List Int) (t t' : BPlusTree),
    l.foldlM freePage t = Except.ok t' → RootLatchSame t t' := by
  intro l
  induction l with
  | nil =>
    intro t t' h
    cases h
    exact RootLatchSame_refl t
  | cons a l ih =>
    intro t t' h
    rw [List.foldlM_cons] at h
    obtain ⟨t1, h1, h⟩ := bind_ok _ _ _ h
    exact RootLatchSame_trans _ _ _ (RootLatchSame_freePage _ _ _ h1) (ih _ _ h)

theorem RootLatchSame_FreeAllPages (t t' : BPlusTree) (h : FreeAllPages t = Except.ok t') :
    RootLatchSame t t' := by
  unfold FreeAllPages at h
  obtain ⟨t1, h1, h⟩ := bind_ok _ _ _ h
  simp only at h
  split_ifs at h
  simp only [pure, Except.pure, Except.ok.injEq] at h
  subst h
  exact RootLatchSame_trans _ _ _ (RootLatchSame_free_loop _ _ _ h1) ⟨rfl, rfl⟩
theorem Balanced_same (r0 : Int) (op : OP_TYPE) (t t' : BPlusTree) (h : RootLatchSame t t')
    (b : Balanced r0 op t) : Balanced r0 op t' := by
  unfold Balanced at *
  rw [h.1, h.2]
  exact b

theorem Balanced_free (t : BPlusTree) (op : OP_TYPE) (h0 : t.root_latch_cnt = 0) :
    Balanced t.root_latch op t := Or.inl ⟨h0, rfl⟩

/-- A release by an operation in balance leaves the latch as the operation found it. -/
theorem Balanced_TryUnlatchRoot (r0 : Int) (op : OP_TYPE) (t : BPlusTree)
    (b : Balanced r0 op t) :
    (TryUnlatchRoot t op).root_latch_cnt = 0 ∧ (TryUnlatchRoot t op).root_latch = r0 := by
  unfold TryUnlatchRoot
  rcases b with ⟨c, l⟩ | ⟨c, ⟨ho, _, l⟩ | ⟨ho, hr, l⟩⟩
  · rw [if_neg (by omega)]
    exact ⟨c, l⟩
  · rw [if_pos (by omega), if_pos ho]
    exact ⟨by simp [c], by simp [l]⟩
  · rw [if_pos (by omega), if_neg ho]
    exact ⟨by simp [c], by simp [hr]⟩

theorem Balanced_TryUnlatchRoot_bal (r0 : Int) (op : OP_TYPE) (t : BPlusTree)
    (b : Balanced r0 op t) : Balanced r0 op (TryUnlatchRoot t op) :=
  Or.inl (Balanced_TryUnlatchRoot r0 op t b)

/-- An acquisition by an operation that does not hold the latch. -/
theorem Balanced_LatchRoot (r0 : Int) (op : OP_TYPE) (t t1 : BPlusTree)
    (hc : t.root_latch_cnt = 0) (hr : t.root_latch = r0)
    (h : LatchRoot t op = Except.ok t1) :
    t1.root_latch_cnt = 1 ∧ Balanced r0 op t1 := by
  unfold LatchRoot at h
  by_cases ho : op = OP_TYPE.READ
  · rw [if_pos ho] at h
    split_ifs at h with hl
    simp only [pure, Except.pure, Except.ok.injEq] at h
    subst h
    exact ⟨by simp [hc], Or.inr ⟨by simp [hc], Or.inl ⟨ho, by omega, by simp [hr]⟩⟩⟩
  · rw [if_neg ho] at h
    split_ifs at h with hl
    simp only [pure, Except.pure, Except.ok.injEq] at h
    subst h
    exact ⟨by simp [hc], Or.inr ⟨by simp [hc], Or.inr ⟨ho, by
      have : t.root_latch = 0 := by
        by_contra hne; exact hl hne
      omega, rfl⟩⟩⟩

theorem Balanced_loop (key : Int) (op : OP_TYPE) (r0 : Int) :
    ∀ (fuel : Nat) (t t' : BPlusTree) (page leaf : Int), Balanced r0 op t →
    FindLeafPageCrabbingLoop key op fuel t page = Except.ok (t', leaf) → Balanced r0 op t' := by
  intro fuel
  induction fuel with
  | zero => intro t t' page leaf _ h; cases h
  | succ fuel ih =>
    intro t t' page leaf b h
    rw [FindLeafPageCrabbingLoop] at h
    obtain ⟨node, _, h⟩ := bind_ok _ _ _ h
    by_cases hl : node.IsLeafPage = true
    · rw [if_pos hl] at h
      simp only [pure, Except.pure, Except.ok.injEq, Prod.mk.injEq] at h
      obtain ⟨rfl, _⟩ := h
      exact b
    · rw [if_neg hl] at h
      cases hlk : node.Lookup key with
      | none => simp [hlk] at h
      | some child =>
        simp only [hlk] at h
        cases hf : FetchPage t child with
        | none => simp [hf] at h
        | some t1 =>
          simp only [hf] at h
          obtain ⟨t2, hlatch, h⟩ := bind_ok _ _ _ h
          have b2 : Balanced r0 op t2 := Balanced_same r0 op t t2
            (OnlyPages_latch _ _ (OnlyPages_trans _ _ _ (OnlyPages_FetchPage _ _ _ hf)
              (OnlyPages_LatchPage _ _ _ _ hlatch))) b
          obtain ⟨cn, _, h⟩ := bind_ok _ _ _ h
          have b3 := Balanced_TryUnlatchRoot_bal r0 op t2 b2
          by_cases hop : op = OP_TYPE.READ
          · rw [if_pos hop] at h
            obtain ⟨t3, hu, h⟩ := bind_ok _ _ _ h
            exact ih _ t' child leaf (Balanced_same r0 op _ _
              (OnlyPages_latch _ _ (OnlyPages_trans _ _ _ (OnlyPages_UnlatchPage _ _ _ _ hu)
                (OnlyPages_UnpinPage _ _ _))) b3) h
          · rw [if_neg hop] at h
            by_cases hsafe : IsNodeSafe cn op = true
            · rw [if_pos hsafe] at h
              obtain ⟨t3, hrel, h⟩ := bind_ok _ _ _ h
              exact ih (AddIntoPageSet t3 child) t' child leaf (Balanced_same r0 op _ _
                (RootLatchSame_trans _ _ _ (RootLatchSame_ReleaseAllPages _ _ hrel) ⟨rfl, rfl⟩)
                b3) h
            · rw [if_neg hsafe] at h
              exact ih (AddIntoPageSet t2 child) t' child leaf
                (Balanced_same r0 op t2 _ ⟨rfl, rfl⟩ b2) h

theorem Balanced_crabbing (key : Int) (op : OP_TYPE) (t t' : BPlusTree) (leaf : Int)
    (hc : t.root_latch_cnt = 0)
    (h : FindLeafPageCrabbing t key op = Except.ok (t', leaf)) :
    Balanced t.root_latch op t' := by
  unfold FindLeafPageCrabbing at h
  obtain ⟨t1, h1, h⟩ := bind_ok _ _ _ h
  have b1 := (Balanced_LatchRoot t.root_latch op t t1 hc rfl h1).2
  cases hf : FetchPage t1 t1.root_page_id with
  | none => simp [hf] at h
  | some t2 =>
    simp only [hf] at h
    obtain ⟨t3, h3, h⟩ := bind_ok _ _ _ h
    have b3 : Balanced t.root_latch op t3 := Balanced_same _ op t1 t3
      (OnlyPages_latch _ _ (OnlyPages_trans _ _ _ (OnlyPages_FetchPage _ _ _ hf)
        (OnlyPages_LatchPage _ _ _ _ h3))) b1
    refine Balanced_loop key op _ _ _ t' _ leaf ?_ h
    split_ifs
    · exact Balanced_same _ op t3 _ ⟨rfl, rfl⟩ b3
    · exact b3
theorem GetValue_root_latch (t t' : BPlusTree) (key : Int) (result : List Int) (b : Bool)
    (l : List Int) (hc : t.root_latch_cnt = 0)
    (h : GetValue t key result = Except.ok (t', b, l)) :
    t'.root_latch_cnt = 0 ∧ t'.root_latch = t.root_latch := by
  unfold GetValue at h
  obtain ⟨t1, h1, h⟩ := bind_ok _ _ _ h
  obtain ⟨_, b1⟩ := Balanced_LatchRoot t.root_latch _ t t1 hc rfl h1
  have b2 := Balanced_TryUnlatchRoot _ _ t1 b1
  split_ifs at h with he
  · simp only [pure, Except.pure, Except.ok.injEq, Prod.mk.injEq] at h
    obtain ⟨rfl, _⟩ := h
    exact b2
  · obtain ⟨r, hr, h⟩ := bind_ok _ _ _ h
    obtain ⟨t3, page⟩ := r
    have b3 := Balanced_crabbing key _ _ t3 page b2.1 hr
    rw [b2.2] at b3
    dsimp only at h
    obtain ⟨leaf, _, h⟩ := bind_ok _ _ _ h
    obtain ⟨t4, h4, h⟩ := bind_ok _ _ _ h
    have b4 := Balanced_TryUnlatchRoot _ _ t3 b3
    have s5 : RootLatchSame (TryUnlatchRoot t3 OP_TYPE.READ) (UnpinPage t4 page false) :=
      OnlyPages_latch _ _ (OnlyPages_trans _ _ _ (OnlyPages_UnlatchPage _ _ _ _ h4)
        (OnlyPages_UnpinPage _ _ _))
    have e : t' = UnpinPage t4 page false := by
      split at h <;>
        (simp only [pure, Except.pure, Except.ok.injEq, Prod.mk.injEq] at h; exact h.1.symm)
    rw [e, s5.1, s5.2]
    exact b4

theorem Insert_root_latch (t t' : BPlusTree) (key value : Int) (b : Bool)
    (hc : t.root_latch_cnt = 0) (h : Insert t key value = Except.ok (t', b)) :
    t'.root_latch_cnt = 0 ∧ t'.root_latch = t.root_latch := by
  unfold Insert at h
  obtain ⟨t1, h1, h⟩ := bind_ok _ _ _ h
  obtain ⟨_, b1⟩ := Balanced_LatchRoot t.root_latch _ t t1 hc rfl h1
  split_ifs at h with he
  · obtain ⟨t2, h2, h⟩ := bind_ok _ _ _ h
    simp only [pure, Except.pure, Except.ok.injEq, Prod.mk.injEq] at h
    obtain ⟨rfl, _⟩ := h
    exact Balanced_TryUnlatchRoot _ _ t2
      (Balanced_same _ _ t1 t2 (NoLatch_StartNewTree _ _ _ _ h2).1 b1)
  · have b2 := Balanced_TryUnlatchRoot _ _ t1 b1
    unfold InsertIntoLeaf at h
    obtain ⟨r, hr, h⟩ := bind_ok _ _ _ h
    obtain ⟨t3, page⟩ := r
    have b3 := Balanced_crabbing key _ _ t3 page b2.1 hr
    rw [b2.2] at b3
    dsimp only at h
    obtain ⟨leaf, _, h⟩ := bind_ok _ _ _ h
    have b4 : Balanced t.root_latch OP_TYPE.INSERT (setNode t3 page (leaf.LeafInsert key value).1) :=
      Balanced_same _ _ t3 _ (NoLatch_setNode _ _ _).1 b3
    split_ifs at h with hfull
    · obtain ⟨r2, hsp, h⟩ := bind_ok _ _ _ h
      obtain ⟨t5, sp⟩ := r2
      dsimp only at h
      obtain ⟨sn, _, h⟩ := bind_ok _ _ _ h
      obtain ⟨t6, h6, h⟩ := bind_ok _ _ _ h
      obtain ⟨t7, h7, h⟩ := bind_ok _ _ _ h
      simp only [pure, Except.pure, Except.ok.injEq, Prod.mk.injEq] at h
      obtain ⟨rfl, _⟩ := h
      have b6 : Balanced t.root_latch OP_TYPE.INSERT t6 :=
        Balanced_same _ _ _ _ (NoLatch_InsertIntoParent _ _ _ _ _ _ h6).1
          (Balanced_same _ _ _ _ (NoLatch_Split _ _ _ _ _ hsp).1 b4)
      have s7 := RootLatchSame_ReleaseAllPages _ _ h7
      rw [s7.1, s7.2]
      exact Balanced_TryUnlatchRoot _ _ t6 b6
    · obtain ⟨t7, h7, h⟩ := bind_ok _ _ _ h
      simp only [pure, Except.pure, Except.ok.injEq, Prod.mk.injEq] at h
      obtain ⟨rfl, _⟩ := h
      have s7 := RootLatchSame_ReleaseAllPages _ _ h7
      rw [s7.1, s7.2]
      exact Balanced_TryUnlatchRoot _ _ _ b4

theorem Remove_root_latch (t t' : BPlusTree) (key : Int)
    (hc : t.root_latch_cnt = 0) (h : Remove t key = Except.ok t') :
    t'.root_latch_cnt = 0 ∧ t'.root_latch = t.root_latch := by
  unfold Remove at h
  obtain ⟨t1, h1, h⟩ := bind_ok _ _ _ h
  obtain ⟨_, b1⟩ := Balanced_LatchRoot t.root_latch _ t t1 hc rfl h1
  have b2 := Balanced_TryUnlatchRoot _ _ t1 b1
  split_ifs at h with he
  · simp only [pure, Except.pure, Except.ok.injEq] at h
    subst h
    exact b2
  · obtain ⟨r, hr, h⟩ := bind_ok _ _ _ h
    obtain ⟨t3, page⟩ := r
    have b3 := Balanced_crabbing key _ _ t3 page b2.1 hr
    rw [b2.2] at b3
    dsimp only at h
    obtain ⟨leaf, _, h⟩ := bind_ok _ _ _ h
    have b4 : Balanced t.root_latch OP_TYPE.DELETE
        (setNode t3 page (leaf.RemoveAndDeleteRecord key).1) :=
      Balanced_same _ _ t3 _ (NoLatch_setNode _ _ _).1 b3
    split_ifs at h with hlt
    · obtain ⟨r2, hco, h⟩ := bind_ok _ _ _ h
      obtain ⟨t5, sdl⟩ := r2
      dsimp only at h
      have b5 : Balanced t.root_latch OP_TYPE.DELETE t5 :=
        Balanced_same _ _ _ _ (Grab_CoalesceOrRedistribute _ _ _ _ _ hco).1 b4
      have b6 : Balanced t.root_latch OP_TYPE.DELETE
          (if sdl = true then AddIntoDeletedPageSet t5 page else t5) := by
        split_ifs
        · exact Balanced_same _ _ _ _ (Grab_AddIntoDeletedPageSet _ _).1 b5
        · exact b5
      have s7 := RootLatchSame_FreeAllPages _ _ h
      rw [s7.1, s7.2]
      exact Balanced_TryUnlatchRoot _ _ _ b6
    · have s7 := RootLatchSame_FreeAllPages _ _ h
      rw [s7.1, s7.2]
      exact Balanced_TryUnlatchRoot _ _ _ b4
/-- The recursive `lastSafeSuffix` is the suffix that starts at the last safe element. -/
theorem lastSafeSuffix_iff (safe : Int → Bool) : ∀ (xs s : List Int),
    lastSafeSuffix safe xs = some s ↔
      ∃ pre x post, xs = pre ++ x :: post ∧ s = x :: post ∧ safe x = true ∧
        ∀ y ∈ post, safe y = false := by
  have hnone : ∀ xs : List Int, lastSafeSuffix safe xs = none ↔ ∀ y ∈ xs, safe y = false := by
    intro xs
    induction xs with
    | nil => simp [lastSafeSuffix]
    | cons x xs ih =>
      unfold lastSafeSuffix
      cases hl : lastSafeSuffix safe xs with
      | some s =>
        simp only [reduceCtorEq, false_iff]
        intro hall
        have := ih.2 (fun y hy => hall y (List.mem_cons_of_mem _ hy))
        rw [hl] at this
        cases this
      | none =>
        have hxs := ih.1 hl
        by_cases hx : safe x = true
        · simp only [hx, if_true, reduceCtorEq, false_iff]
          intro hall
          have := hall x (List.mem_cons_self _ _)
          rw [hx] at this
          cases this
        · simp only [hx, Bool.false_eq_true, if_false, true_iff]
          intro y hy
          rcases List.mem_cons.1 hy with e | hm
          · rw [e]; simpa using hx
          · exact hxs y hm
  intro xs
  induction xs with
  | nil =>
    intro s
    simp [lastSafeSuffix]
  | cons x xs ih =>
    intro s
    unfold lastSafeSuffix
    cases hl : lastSafeSuffix safe xs with
    | some s' =>
      simp only [Option.some.injEq]
      obtain ⟨pre, a, post, e1, e2, e3, e4⟩ := (ih s').1 hl
      constructor
      · intro e
        subst e
        exact ⟨x :: pre, a, post, by rw [e1]; rfl, e2, e3, e4⟩
      · rintro ⟨pre2, a2, post2, f1, f2, f3, f4⟩
        -- the last safe element is unique
        cases pre2 with
        | nil =>
          simp only [List.nil_append, List.cons.injEq] at f1
          obtain ⟨rfl, rfl⟩ := f1
          have := f4 a (by rw [e1]; simp)
          rw [e3] at this
          cases this
        | cons b pre2 =>
          simp only [List.cons_append, List.cons.injEq] at f1
          obtain ⟨_, f1⟩ := f1
          have := (ih s).2 ⟨pre2, a2, post2, f1, f2, f3, f4⟩
          rw [hl] at this
          exact Option.some.inj this
    | none =>
      have hxs := (hnone xs).1 hl
      by_cases hx : safe x = true
      · simp only [hx, if_true, Option.some.injEq]
        constructor
        · intro e
          subst e
          exact ⟨[], x, xs, rfl, rfl, hx, hxs⟩
        · rintro ⟨pre2, a2, post2, f1, f2, f3, f4⟩
          cases pre2 with
          | nil =>
            simp only [List.nil_append, List.cons.injEq] at f1
            obtain ⟨rfl, rfl⟩ := f1
            exact f2.symm
          | cons b pre2 =>
            simp only [List.cons_append, List.cons.injEq] at f1
            obtain ⟨_, f1⟩ := f1
            have := hxs a2 (by rw [f1]; simp)
            rw [f3] at this
            cases this
      · simp only [hx, Bool.false_eq_true, if_false, reduceCtorEq, false_iff]
        rintro ⟨pre2, a2, post2, f1, f2, f3, f4⟩
        cases pre2 with
        | nil =>
          simp only [List.nil_append, List.cons.injEq] at f1
          obtain ⟨rfl, rfl⟩ := f1
          exact hx f3
        | cons b pre2 =>
          simp only [List.cons_append, List.cons.injEq] at f1
          obtain ⟨_, f1⟩ := f1
          have := hxs a2 (by rw [f1]; simp)
          rw [f3] at this
          cases this

theorem sameData_release_loop (t0 : BPlusTree) : ∀ (l : List Int) (t t' : BPlusTree),
    sameData t0 t → l.foldlM releasePage t = Except.ok t' → sameData t0 t' := by
  intro l
  induction l with
  | nil =>
    intro t t' h hf
    cases hf
    exact h
  | cons a l ih =>
    intro t t' h hf
    rw [List.foldlM_cons] at hf
    obtain ⟨t1, h1, hf⟩ := bind_ok _ _ _ hf
    unfold releasePage at h1
    obtain ⟨t2, h2, h1⟩ := bind_ok _ _ _ h1
    simp only [pure, Except.pure, Except.ok.injEq] at h1
    subst h1
    exact ih _ _ (sameData_UnpinPage t0 t2 (sameData_UnlatchPage t0 t t2 h a _ h2) a true) hf

theorem sameData_ReleaseAllPages (t0 t t' : BPlusTree) (h : sameData t0 t)
    (hf : ReleaseAllPages t = Except.ok t') : sameData t0 t' ∧ t'.page_set = [] := by
  unfold ReleaseAllPages at hf
  obtain ⟨t1, h1, hf⟩ := bind_ok _ _ _ hf
  simp only [pure, Except.pure, Except.ok.injEq] at hf
  subst hf
  exact ⟨sameData_of_pages t0 t1 _ (sameData_release_loop t0 _ _ _ h h1) rfl rfl, rfl⟩
theorem sameData_data (t0 t : BPlusTree) (h : sameData t0 t) (id : Int) (n : Node)
    (hg : getNode t id = Except.ok n) : ∃ pg0, getPage t0 id = some pg0 ∧ pg0.data = n := by
  obtain ⟨pg, hpg, e⟩ := getNode_eq_ok t id n hg
  obtain ⟨pg0, h0, e0⟩ := sameData_getPage t0 t h id pg hpg
  exact ⟨pg0, h0, e0.trans e⟩

/-- A write descent that returns has followed the pure path; its held set is computed from the
path by the rule of `lastSafeSuffix`, and it has released the root latch exactly when some page
below the start was safe. -/
theorem crabbing_loop_held (t0 : BPlusTree) (key : Int) (op : OP_TYPE)
    (hop : op ≠ OP_TYPE.READ) (r0 : Int) :
    ∀ (fuel : Nat) (t t' : BPlusTree) (page leaf : Int), sameData t0 t → Balanced r0 op t →
    FindLeafPageCrabbingLoop key op fuel t page = Except.ok (t', leaf) →
    ∃ rest, descentPath t0 key fuel page = some (page :: rest) ∧
      (page :: rest).getLast? = some leaf ∧
      t'.page_set = (match lastSafeSuffix (safeAt t0 op) rest with
        | some s => s
        | none => t.page_set ++ rest) ∧
      (lastSafeSuffix (safeAt t0 op) rest = none → RootLatchSame t t') ∧
      (lastSafeSuffix (safeAt t0 op) rest ≠ none →
        t'.root_latch_cnt = 0 ∧ t'.root_latch = r0) := by
  intro fuel
  induction fuel with
  | zero => intro t t' page leaf _ _ h; cases h
  | succ fuel ih =>
    intro t t' page leaf hs hb h
    rw [FindLeafPageCrabbingLoop] at h
    obtain ⟨node, hnode, h⟩ := bind_ok _ _ _ h
    obtain ⟨pg0, hpg0, hd0⟩ := sameData_data t0 t hs page node hnode
    by_cases hl : node.IsLeafPage = true
    · rw [if_pos hl] at h
      simp only [pure, Except.pure, Except.ok.injEq, Prod.mk.injEq] at h
      obtain ⟨rfl, rfl⟩ := h
      refine ⟨[], ?_, rfl, by simp [lastSafeSuffix], fun _ => RootLatchSame_refl _,
        fun hne => absurd rfl hne⟩
      unfold descentPath
      simp only [hpg0, hd0, hl, if_true]
    · rw [if_neg hl] at h
      cases hlk : node.Lookup key with
      | none => simp [hlk] at h
      | some child =>
        simp only [hlk] at h
        cases hf : FetchPage t child with
        | none => simp [hf] at h
        | some t1 =>
          simp only [hf] at h
          obtain ⟨t2, hlatch, h⟩ := bind_ok _ _ _ h
          have hs2 : sameData t0 t2 :=
            sameData_LatchPage t0 t1 t2 (sameData_FetchPage t0 t t1 hs child hf) child op hlatch
          have hop2 := OnlyPages_trans _ _ _ (OnlyPages_FetchPage _ _ _ hf)
            (OnlyPages_LatchPage _ _ _ _ hlatch)
          have hb2 : Balanced r0 op t2 := Balanced_same r0 op t t2 (OnlyPages_latch _ _ hop2) hb
          obtain ⟨cn, hcn, h⟩ := bind_ok _ _ _ h
          obtain ⟨pc0, hpc0, hcd0⟩ := sameData_data t0 t2 hs2 child cn hcn
          have hsafe0 : safeAt t0 op child = IsNodeSafe cn op := by
            unfold safeAt
            rw [hpc0, ← hcd0]
          have hpath : ∀ rest', descentPath t0 key fuel child = some (child :: rest') →
              descentPath t0 key (fuel + 1) page = some (page :: child :: rest') := by
            intro rest' hr
            unfold descentPath
            simp only [hpg0, hd0, hl, Bool.false_eq_true, if_false, hlk, hpc0, hr,
              Option.map_some']
          rw [if_neg hop] at h
          by_cases hsafe : IsNodeSafe cn op = true
          · rw [if_pos hsafe] at h
            obtain ⟨t3, hrel, h⟩ := bind_ok _ _ _ h
            obtain ⟨hs3, hps3⟩ := sameData_ReleaseAllPages t0 _ t3
              (sameData_TryUnlatchRoot t0 t2 hs2 op) hrel
            have hu := Balanced_TryUnlatchRoot r0 op t2 hb2
            have hr3 := RootLatchSame_ReleaseAllPages _ _ hrel
            have hb3 : Balanced r0 op (AddIntoPageSet t3 child) :=
              Or.inl ⟨hr3.2.trans hu.1, hr3.1.trans hu.2⟩
            obtain ⟨rest', p1, p2, p3, p4, p5⟩ := ih (AddIntoPageSet t3 child) t' child leaf
              (sameData_of_pages t0 t3 _ hs3 rfl rfl) hb3 h
            have hlss : lastSafeSuffix (safeAt t0 op) (child :: rest') =
                some (match lastSafeSuffix (safeAt t0 op) rest' with
                  | some s => s
                  | none => child :: rest') := by
              rw [lastSafeSuffix]
              cases lastSafeSuffix (safeAt t0 op) rest' with
              | some s => rfl
              | none => simp only [hsafe0, hsafe, if_true]
            refine ⟨child :: rest', hpath rest' p1, ?_, ?_, ?_, ?_⟩
            · rw [List.getLast?_cons_cons]; exact p2
            · rw [hlss, p3]
              show _ = (match lastSafeSuffix (safeAt t0 op) rest' with
                | some s => s
                | none => child :: rest')
              cases lastSafeSuffix (safeAt t0 op) rest' with
              | some s => rfl
              | none =>
                show (t3.page_set ++ [child]) ++ rest' = child :: rest'
                rw [hps3]; rfl
            · intro hn
              rw [hlss] at hn
              cases hn
            · intro _
              by_cases hr' : lastSafeSuffix (safeAt t0 op) rest' = none
              · have := p4 hr'
                exact ⟨this.2.trans (hr3.2.trans hu.1), this.1.trans (hr3.1.trans hu.2)⟩
              · exact p5 hr'
          · rw [if_neg hsafe] at h
            have hb3 : Balanced r0 op (AddIntoPageSet t2 child) :=
              Balanced_same r0 op t2 _ ⟨rfl, rfl⟩ hb2
            obtain ⟨rest', p1, p2, p3, p4, p5⟩ := ih (AddIntoPageSet t2 child) t' child leaf
              (sameData_of_pages t0 t2 _ hs2 rfl rfl) hb3 h
            have hlss : lastSafeSuffix (safeAt t0 op) (child :: rest') =
                lastSafeSuffix (safeAt t0 op) rest' := by
              rw [lastSafeSuffix]
              cases lastSafeSuffix (safeAt t0 op) rest' with
              | some s => rfl
              | none => simp only [hsafe0, hsafe, Bool.false_eq_true, if_false]
            refine ⟨child :: rest', hpath rest' p1, ?_, ?_, ?_, ?_⟩
            · rw [List.getLast?_cons_cons]; exact p2
            · rw [hlss, p3]
              cases lastSafeSuffix (safeAt t0 op) rest' with
              | some s => rfl
              | none =>
                show (t2.page_set ++ [child]) ++ rest' = t.page_set ++ child :: rest'
                rw [OnlyPages_held _ _ hop2]
                simp
            · intro hn
              rw [hlss] at hn
              exact RootLatchSame_trans _ _ _ (OnlyPages_latch _ _ hop2)
                (RootLatchSame_trans _ _ _ ⟨rfl, rfl⟩ (p4 hn))
            · intro hn
              rw [hlss] at hn
              exact p5 hn

theorem descend_of_descentPath (t : BPlusTree) (key : Int) : ∀ (fuel : Nat) (page : Int)
    (path : List Int), descentPath t key fuel page = some path →
    ∃ leaf k, descend t key fuel page = some (leaf, k) := by
  intro fuel
  induction fuel with
  | zero => intro page path h; simp [descentPath] at h
  | succ fuel ih =>
    intro page path h
    unfold descentPath at h
    unfold descend
    cases hg : getPage t page with
    | none => simp [hg] at h
    | some pg =>
      simp only [hg] at h ⊢
      by_cases hl : pg.data.IsLeafPage = true
      · simp only [hl, if_true]
        exact ⟨_, _, rfl⟩
      · simp only [hl, Bool.false_eq_true, if_false] at h ⊢
        cases hlk : pg.data.Lookup key with
        | none => simp [hlk] at h
        | some child =>
          simp only [hlk] at h ⊢
          cases hc : getPage t child with
          | none => simp [hc] at h
          | some pc =>
            simp only [hc] at h ⊢
            cases hr : descentPath t key fuel child with
            | none => simp [hr] at h
            | some r =>
              obtain ⟨leaf, k, hd⟩ := ih child r hr
              rw [hd]
              exact ⟨_, _, rfl⟩

theorem latchedPages_nodup (t : BPlusTree) : (latchedPages t).Nodup := by
  unfold latchedPages
  apply List.Nodup.filter
  apply List.Nodup.map _ (List.nodup_range _)
  intro a b h
  simpa using h

/-- When every page other than `a` and `b` is unlatched, at most two pages are latched. -/
theorem latchedPages_le_two (t : BPlusTree) (a b : Int)
    (h : ∀ id pg, id ≠ a → id ≠ b → getPage t id = some pg → pg.latch = 0) :
    (latchedPages t).length ≤ 2 := by
  have hsub : latchedPages t ⊆ [a, b] := by
    intro id hid
    unfold latchedPages at hid
    rw [List.mem_filter] at hid
    obtain ⟨_, hl⟩ := hid
    by_contra hne
    simp only [List.mem_cons, List.mem_singleton, List.not_mem_nil, or_false, not_or] at hne
    cases hg : getPage t id with
    | none => simp [hg] at hl
    | some pg =>
      have := h id pg hne.1 hne.2 hg
      simp [hg, this] at hl
  have := (List.subperm_of_subset (latchedPages_nodup t) hsub).length_le
  simpa using this

theorem lastState_cons (t : BPlusTree) (x : BPlusTree × Option Int)
    (tr : List (BPlusTree × Option Int)) : lastState t (x :: tr) = lastState x.1 tr := by
  unfold lastState
  cases tr with
  | nil => rfl
  | cons y tr =>
    rw [List.getLast?_cons_cons]
    cases hg : (y :: tr).getLast? with
    | none => simp at hg
    | some z => rfl

/-- The trace follows `FindLeafPageCrabbingLoop` in READ mode: same result, same final state. -/
theorem readTraceLoop_faithful (key : Int) : ∀ (fuel : Nat) (t : BPlusTree) (page : Int),
    (readTraceLoop key fuel t page).map (fun r => (lastState t r.1, r.2)) =
      FindLeafPageCrabbingLoop key OP_TYPE.READ fuel t page := by
  intro fuel
  induction fuel with
  | zero => intro t page; rfl
  | succ fuel ih =>
    intro t page
    rw [readTraceLoop, FindLeafPageCrabbingLoop]
    cases hn : getNode t page with
    | error e => rfl
    | ok node =>
      simp only [bind, Except.bind]
      by_cases hl : node.IsLeafPage = true
      · simp only [hl, if_true]
        rfl
      · simp only [hl, Bool.false_eq_true, if_false]
        cases hlk : node.Lookup key with
        | none => rfl
        | some child =>
          simp only
          cases hf : FetchPage t child with
          | none => rfl
          | some t1 =>
            simp only
            cases h2 : LatchPage t1 child OP_TYPE.READ with
            | error e => rfl
            | ok t2 =>
              simp only
              cases hc : getNode t2 child with
              | error e => rfl
              | ok cn =>
                simp only [if_true]
                cases h4 : UnlatchPage (TryUnlatchRoot t2 OP_TYPE.READ) page OP_TYPE.READ with
                | error e => rfl
                | ok t4 =>
                  simp only
                  rw [← ih (UnpinPage t4 page false) child]
                  cases readTraceLoop key fuel (UnpinPage t4 page false) child with
                  | error e => rfl
                  | ok r =>
                    simp only [Except.map, pure, Except.pure, Except.ok.injEq, Prod.mk.injEq,
                      and_true]
                    rw [lastState_cons, lastState_cons, lastState_cons, lastState_cons,
                      lastState_cons]

theorem readTrace_faithful (t : BPlusTree) (key : Int) :
    (readTrace t key).map (fun r => (lastState t r.1, r.2)) =
      FindLeafPageCrabbing t key OP_TYPE.READ := by
  unfold readTrace FindLeafPageCrabbing
  cases h1 : LatchRoot t OP_TYPE.READ with
  | error e => rfl
  | ok t1 =>
    simp only [bind, Except.bind]
    cases hf : FetchPage t1 t1.root_page_id with
    | none => rfl
    | some t2 =>
      simp only
      cases h3 : LatchPage t2 t2.root_page_id OP_TYPE.READ with
      | error e => rfl
      | ok t3 =>
        simp only [ne_eq, not_true_eq_false, if_false]
        rw [← readTraceLoop_faithful key t3.pages.length t3 t2.root_page_id]
        cases readTraceLoop key t3.pages.length t3 t2.root_page_id with
        | error e => rfl
        | ok r =>
          simp only [Except.map, pure, Except.pure, Except.ok.injEq, Prod.mk.injEq, and_true]
          rw [lastState_cons, lastState_cons, lastState_cons]
theorem LatchPage_read (t : BPlusTree) (id : Int) (pg : Page)
    (h : getPage t id = some pg) (hl : 0 ≤ pg.latch) :
    LatchPage t id OP_TYPE.READ = Except.ok (setPage t id { pg with latch := pg.latch + 1 }) := by
  have : ¬ pg.latch < 0 := by omega
  simp [LatchPage, h, this]
  rfl

theorem UnlatchPage_read (t : BPlusTree) (id : Int) (pg : Page)
    (h : getPage t id = some pg) (hl : 0 < pg.latch) :
    UnlatchPage t id OP_TYPE.READ =
      Except.ok (setPage t id { pg with latch := pg.latch - 1 }) := by
  have : ¬ pg.latch ≤ 0 := by omega
  simp [UnlatchPage, h, this]
  rfl

/-- A state that agrees with a quiescent state off the pages `a` and `b` has at most two latched
pages. -/
theorem latched_off_two (t0 s : BPlusTree) (hq : quiescent t0 = true) (a b : Int)
    (h : ∀ id, id ≠ a → id ≠ b → getPage s id = getPage t0 id) :
    (latchedPages s).length ≤ 2 := by
  apply latchedPages_le_two s a b
  intro id pg h1 h2 hg
  rw [h id h1 h2] at hg
  exact (quiescent_page t0 hq id pg hg).2

/-- The read descent from a quiescent state, step by step: at most two pages are latched at any
time, after each step down only the child is latched and pinned and the root latch is free, and
at the end only the leaf is latched and pinned. -/
theorem read_trace_loop (t0 : BPlusTree) (hq : quiescent t0 = true) (key : Int) :
    ∀ (fuel : Nat) (t : BPlusTree) (page leaf : Int) (k : Nat), ReadAt t0 t page →
      Balanced 0 OP_TYPE.READ t → descend t0 key fuel page = some (leaf, k) →
      ∃ tr, readTraceLoop key fuel t page = Except.ok (tr, leaf) ∧
        (∀ e ∈ tr, (latchedPages e.1).length ≤ 2 ∧ e.1.root_latch_cnt ≤ 1) ∧
        (∀ s c, (s, some c) ∈ tr →
          ReadAt t0 s c ∧ s.root_latch_cnt = 0 ∧ s.root_latch = 0) ∧
        ReadAt t0 (lastState t tr) leaf ∧
        (tr = [] → leaf = page) ∧
        (tr ≠ [] → (lastState t tr).root_latch_cnt = 0 ∧ (lastState t tr).root_latch = 0) := by
  intro fuel
  induction fuel with
  | zero => intro t page leaf k _ _ hd; simp [descend] at hd
  | succ fuel ih =>
    intro t page leaf k hr hb hd
    cases hp0 : getPage t0 page with
    | none => simp [descend, hp0] at hd
    | some pg =>
      have hqp := quiescent_page t0 hq page pg hp0
      have hpt : getPage t page = some { pg with pin_count := 1, latch := 1 } := by
        rw [hr.2.2 page, hp0]; simp
      have hnode := getNode_of_getPage t page _ hpt
      unfold readTraceLoop
      simp only [hnode, bind, Except.bind]
      by_cases hleaf : pg.data.IsLeafPage = true
      · simp only [hleaf, if_true]
        have : leaf = page := by
          simp [descend, hp0, hleaf] at hd
          exact hd.1.symm
        subst this
        exact ⟨[], rfl, fun e he => (by cases he), fun s c he => (by cases he), hr, fun _ => rfl,
          fun hne => absurd rfl hne⟩
      · have hleaf' : pg.data.IsLeafPage = false := by simpa using hleaf
        obtain ⟨c, pc, k', hl, hc0, hdc, hk⟩ :=
          descend_step t0 key fuel page leaf k pg hp0 hleaf' hd
        simp only [hleaf', Bool.false_eq_true, if_false, hl]
        have hne : c ≠ page := by
          intro e
          subst e
          have := descend_unique t0 key _ _ c _ _ _ _ hd hdc
          omega
        have hqc := quiescent_page t0 hq c pc hc0
        have htc : getPage t c = some pc := by
          rw [hr.2.2 c, hc0]; simp [hne]
        rw [FetchPage_eq t c pc htc]
        simp only
        have hg1 : getPage (setPage t c { pc with pin_count := pc.pin_count + 1 }) c
            = some { pc with pin_count := pc.pin_count + 1 } := by
          rw [getPage_setPage t c c pc _ htc]; simp
        rw [LatchPage_read _ c _ hg1 (by simp [hqc.2]), setPage_setPage]
        have hg2 : ∀ id, getPage (setPage t c
            { pc with pin_count := pc.pin_count + 1, latch := pc.latch + 1 }) id =
            if id = c then some { pc with pin_count := pc.pin_count + 1, latch := pc.latch + 1 }
            else getPage t id := fun id => getPage_setPage t c id pc _ htc
        simp only [getNode_of_getPage _ c _ ((hg2 c).trans (if_pos rfl))]
        -- the states of the step
        obtain ⟨t1, ht1⟩ : ∃ t1, t1 = setPage t c { pc with pin_count := pc.pin_count + 1 } :=
          ⟨_, rfl⟩
        obtain ⟨t2, ht2⟩ : ∃ t2, t2 = setPage t c
            { pc with pin_count := pc.pin_count + 1, latch := pc.latch + 1 } := ⟨_, rfl⟩
        rw [← ht1, ← ht2]
        rw [← ht2] at hg2
        have hg3 : ∀ id, getPage (TryUnlatchRoot t2 OP_TYPE.READ) id = getPage t2 id := by
          intro id
          apply getPage_congr
          unfold TryUnlatchRoot
          split_ifs <;> rfl
        have hp3 : getPage (TryUnlatchRoot t2 OP_TYPE.READ) page =
            some { pg with pin_count := 1, latch := 1 } := by
          rw [hg3, hg2, if_neg (Ne.symm hne), hpt]
        rw [UnlatchPage_read _ page _ hp3 (by simp)]
        simp only
        obtain ⟨t3, ht3⟩ : ∃ t3, t3 = TryUnlatchRoot t2 OP_TYPE.READ := ⟨_, rfl⟩
        rw [← ht3] at hg3 hp3 ⊢
        obtain ⟨t4, ht4⟩ : ∃ t4, t4 = setPage t3 page
            { pin_count := 1, latch := 1 - 1, data := pg.data } := ⟨_, rfl⟩
        have hg4 : ∀ id, getPage t4 id =
            if id = page then some { pin_count := 1, latch := 1 - 1, data := pg.data }
            else getPage t3 id := by
          intro id
          rw [ht4]
          exact getPage_setPage _ page id _ _ hp3
        rw [← ht4]
        have hu5 : UnpinPage t4 page false = setPage t4 page
            { pin_count := 1 - 1, latch := 1 - 1, data := pg.data } :=
          UnpinPage_pos t4 page _ false ((hg4 page).trans (if_pos rfl)) (by simp)
        obtain ⟨t5, ht5⟩ : ∃ t5, t5 = UnpinPage t4 page false := ⟨_, rfl⟩
        rw [← ht5]
        have hg5 : ∀ id, getPage t5 id =
            if id = page then some { pin_count := 1 - 1, latch := 1 - 1, data := pg.data }
            else getPage t4 id := by
          intro id
          rw [ht5, hu5]
          exact getPage_setPage _ page id _ _ ((hg4 page).trans (if_pos rfl))
        -- frames of the five states off the two pages
        have hg1' : ∀ id, getPage t1 id =
            if id = c then some { pc with pin_count := pc.pin_count + 1 } else getPage t id := by
          intro id
          rw [ht1]
          exact getPage_setPage t c id pc _ htc
        have hoff : ∀ id, id ≠ page → id ≠ c → getPage t id = getPage t0 id := by
          intro id h1 _
          rw [hr.2.2 id]
          cases getPage t0 id <;> simp [h1]
        have off1 : ∀ id, id ≠ page → id ≠ c → getPage t1 id = getPage t0 id := by
          intro id h1 h2
          rw [hg1', if_neg h2, hoff id h1 h2]
        have off2 : ∀ id, id ≠ page → id ≠ c → getPage t2 id = getPage t0 id := by
          intro id h1 h2
          rw [hg2, if_neg h2, hoff id h1 h2]
        have off3 : ∀ id, id ≠ page → id ≠ c → getPage t3 id = getPage t0 id := by
          intro id h1 h2
          rw [hg3, off2 id h1 h2]
        have off4 : ∀ id, id ≠ page → id ≠ c → getPage t4 id = getPage t0 id := by
          intro id h1 h2
          rw [hg4, if_neg h1, off3 id h1 h2]
        have off5 : ∀ id, id ≠ page → id ≠ c → getPage t5 id = getPage t0 id := by
          intro id h1 h2
          rw [hg5, if_neg h1, off4 id h1 h2]
        -- the root latch
        have hb3 := Balanced_TryUnlatchRoot 0 OP_TYPE.READ t2
          (Balanced_same 0 _ t t2 (by rw [ht2]; exact ⟨rfl, rfl⟩) hb)
        rw [← ht3] at hb3
        have hc1 : t1.root_latch_cnt ≤ 1 := by
          have : t1.root_latch_cnt = t.root_latch_cnt := by rw [ht1]; rfl
          rcases hb with ⟨c0, _⟩ | ⟨c0, _⟩ <;> omega
        have hc2 : t2.root_latch_cnt ≤ 1 := by
          have : t2.root_latch_cnt = t.root_latch_cnt := by rw [ht2]; rfl
          rcases hb with ⟨c0, _⟩ | ⟨c0, _⟩ <;> omega
        have hr4 : t4.root_latch_cnt = 0 ∧ t4.root_latch = 0 := by
          rw [ht4]; exact hb3
        have hr5 : t5.root_latch_cnt = 0 ∧ t5.root_latch = 0 := by
          rw [ht5, hu5]; exact hr4
        -- the reader is now on the child
        have hr5' : ReadAt t0 t5 c := by
          refine ⟨?_, ?_, ?_⟩
          · rw [ht5, hu5, setPage_pages_length, ht4, setPage_pages_length]
            have : t3.pages.length = t2.pages.length := by
              rw [ht3]; unfold TryUnlatchRoot; split_ifs <;> rfl
            rw [this, ht2, setPage_pages_length]
            exact hr.1
          · rw [ht5, hu5]
            show t4.root_page_id = _
            rw [ht4]
            show t3.root_page_id = _
            have : t3.root_page_id = t2.root_page_id := by
              rw [ht3]; unfold TryUnlatchRoot; split_ifs <;> rfl
            rw [this, ht2]
            exact hr.2.1
          · intro id
            by_cases e1 : id = page
            · subst e1
              rw [hg5, if_pos rfl, hp0]
              simp only [Option.map_some', hne.symm, if_false, Option.some.injEq]
              cases pg
              simp_all
            · by_cases e2 : id = c
              · subst e2
                rw [hg5, if_neg e1, hg4, if_neg e1, hg3, hg2, if_pos rfl, hc0]
                simp only [Option.map_some', if_true, Option.some.injEq]
                cases pc
                simp_all
              · rw [off5 id e1 e2]
                cases getPage t0 id <;> simp [e2]
        obtain ⟨tr, p1, p2, p3, p4, p5, p6⟩ := ih t5 c leaf k' hr5' (Or.inl hr5) hdc
        rw [p1]
        simp only [pure, Except.pure]
        refine ⟨_, rfl, ?_, ?_, ?_, fun e => (by cases e), fun _ => ?_⟩
        · intro e he
          simp only [List.mem_cons] at he
          rcases he with rfl | rfl | rfl | rfl | rfl | he
          · exact ⟨latched_off_two t0 _ hq page c off1, hc1⟩
          · exact ⟨latched_off_two t0 _ hq page c off2, hc2⟩
          · exact ⟨latched_off_two t0 _ hq page c off3, by rw [hb3.1]; omega⟩
          · exact ⟨latched_off_two t0 _ hq page c off4, by rw [hr4.1]; omega⟩
          · exact ⟨latched_off_two t0 _ hq page c off5, by rw [hr5.1]; omega⟩
          · exact p2 e he
        · intro s' c' he
          simp only [List.mem_cons, Prod.mk.injEq, reduceCtorEq, and_false, false_or] at he
          rcases he with ⟨rfl, e⟩ | he
          · cases e
            exact ⟨hr5', hr5⟩
          · exact p3 s' c' he
        · rw [lastState_cons, lastState_cons, lastState_cons, lastState_cons, lastState_cons]
          exact p4
        · rw [lastState_cons, lastState_cons, lastState_cons, lastState_cons, lastState_cons]
          by_cases htr : tr = []
          · subst htr
            exact hr5
          · exact p6 htr
/-! ## Witnesses and concrete counterexamples -/

theorem Split_sizes_witness :
    ∃ t', Split scenarioTree IndexPageType.INTERNAL_PAGE 3
        = Except.ok (t', (scenarioTree.pages.length : Int)) ∧
      sizeAt t' 3 = some (scenarioRootPage.data.size - scenarioRootPage.data.size / 2) ∧
      sizeAt t' (scenarioTree.pages.length : Int) = some (scenarioRootPage.data.size / 2) ∧
      (scenarioRootPage.data.size = scenarioRootPage.data.max_size →
        scenarioRootPage.data.size - scenarioRootPage.data.size / 2
          = scenarioRootPage.data.GetMinSize ∧
        scenarioRootPage.data.GetMinSize - 1 ≤ scenarioRootPage.data.size / 2 ∧
        (scenarioRootPage.data.size / 2 = scenarioRootPage.data.GetMinSize ↔
          scenarioRootPage.data.max_size % 2 = 0)) :=
  Split_sizes scenarioTree IndexPageType.INTERNAL_PAGE 3 scenarioRootPage (by decide!)
    (by decide!) (by decide!)

/-- An odd max size: leaf max 3, internal max 3, keys 1, 2, 3 inserted.  The split leaves
the new leaf (page 2) with one entry: it is a leaf, not the root, and its size 1 is below
`⌈3/2⌉ = 2` (the last list is size, max size, minimum size). -/
theorem split_leaves_leaf_below_min :
    ((run (BPlusTree.new 3 3) [Call.insert 1 10, Call.insert 2 20, Call.insert 3 30]).bind
      fun t => (getNode t 2).map fun n =>
        (n.IsLeafPage, n.IsRootPage, n.array, [n.size, n.max_size, n.GetMinSize]))
      = Except.ok (true, false, [(3, 30)], [1, 3, 2]) := by
  decide!

/-! ## Occupancy and leaf depth after any sequence of calls -/

/-- C11 (amended): for a leaf max size `L ≥ 2` and an internal max size `M ≥ 2`, after any
sequence of `Insert`/`Remove` calls on the empty index that runs to completion, every leaf page
of the pool holds at most `L - 1` entries and every internal page at most `M` children (the
internal `Init` stores `M + 1` as the max size of the page, and a page is split when it reaches
its stored max size). -/
theorem max_occupancy (L M : Int) (hL : 2 ≤ L) (hM : 2 ≤ M) (calls : List Call)
    (t : BPlusTree) (hrun : run (BPlusTree.new L M) calls = Except.ok t) (id : Int) (pg : Page)
    (hpg : getPage t id = some pg) :
    (pg.data.IsLeafPage = true → pg.data.size ≤ L - 1) ∧
      (pg.data.IsLeafPage = false → pg.data.size ≤ M) := by
  obtain ⟨h, hi, eL, eM⟩ := run_inv calls _ _ t (Inv_new L M) hrun
  have eL' : t.leaf_max_size = L := eL
  have eM' : t.internal_max_size = M := eM
  have hn := dataAt_of_getPage t id pg hpg
  have hlt := Inv_size_lt h t hi id pg.data hn (by rw [eL']; exact hL) (by rw [eM']; exact hM)
  have g := hi.1.2 id pg.data hn
  constructor
  · intro hl
    have := g.leaf_max hl
    omega
  · intro hl
    have := g.internal_max hl
    omega

theorem max_occupancy_witness :
    run (BPlusTree.new 4 4) ascendingCalls = Except.ok ascendingTree ∧
      getPage ascendingTree 3 = some ascendingRootPage ∧
      ascendingRootPage.data.size = 4 ∧
      ((ascendingRootPage.data.IsLeafPage = true → ascendingRootPage.data.size ≤ 4 - 1) ∧
        (ascendingRootPage.data.IsLeafPage = false → ascendingRootPage.data.size ≤ 4)) :=
  ⟨by decide!, by decide!, by decide!,
    max_occupancy 4 4 (by decide) (by decide) ascendingCalls ascendingTree (by decide!) 3
      ascendingRootPage (by decide!)⟩

/-- C12: after any sequence of `Insert`/`Remove` calls on the empty index that runs to
completion, all leaves found from the root through the child slots of the internal pages lie at
the same depth, whatever the bound on the number of levels searched (`leafDepths` lists the depth
of every leaf found; a child slot that names no page of the pool leads to no leaf). -/
theorem leaves_same_depth (L M : Int) (calls : List Call) (t : BPlusTree)
    (hrun : run (BPlusTree.new L M) calls = Except.ok t) (fuel1 fuel2 : Nat) (d1 d2 : Nat)
    (h1 : d1 ∈ leafDepths t fuel1 t.root_page_id)
    (h2 : d2 ∈ leafDepths t fuel2 t.root_page_id) : d1 = d2 := by
  obtain ⟨h, hi, _, _⟩ := run_inv calls _ _ t (Inv_new L M) hrun
  rw [leafDepths_eq h t hi.1 fuel1 _ d1 h1, leafDepths_eq h t hi.1 fuel2 _ d2 h2]

theorem leaves_same_depth_witness :
    run (BPlusTree.new 3 3) threeLevelCalls = Except.ok threeLevelTree ∧
      leafDepths threeLevelTree 3 threeLevelTree.root_page_id = [2, 2, 2] ∧
      (leafDepths threeLevelTree 3 threeLevelTree.root_page_id).headD 0 ∈
        leafDepths threeLevelTree 3 threeLevelTree.root_page_id ∧
      (leafDepths threeLevelTree 4 threeLevelTree.root_page_id).getLastD 0 ∈
        leafDepths threeLevelTree 4 threeLevelTree.root_page_id ∧
      (leafDepths threeLevelTree 3 threeLevelTree.root_page_id).headD 0 =
        (leafDepths threeLevelTree 4 threeLevelTree.root_page_id).getLastD 0 :=
  ⟨by decide!, by decide!, by decide!, by decide!,
    leaves_same_depth 3 3 threeLevelCalls threeLevelTree (by decide!) 3 4 _ _ (by decide!)
      (by decide!)⟩

/-! ## Pin counts across one operation -/

/-- C15: pin-count conservation.  Take a state between two operations in which every page
stores its own page id, no pin count is negative and the page set of the transaction is empty.
For each of `GetValue`, `Insert` and `Remove` that runs to completion, the pin count of the
header page at return is its pin count at entry, and every page that is in the pool at return
has the pin count it had at entry (`pinAt`: the count at entry, `0` for a page that the
operation allocated), whatever splits, sibling fetches and reparenting the operation went
through. -/
theorem pin_conservation (t : BPlusTree)
    (hids : ∀ id pg, getPage t id = some pg → pg.data.page_id = id)
    (hpins : ∀ id pg, getPage t id = some pg → 0 ≤ pg.pin_count)
    (hhdr : 0 ≤ t.header_pin_count) (hset : t.page_set = []) :
    (∀ key result t' found out, GetValue t key result = Except.ok (t', found, out) →
      t'.header_pin_count = t.header_pin_count ∧
        ∀ id pg, getPage t' id = some pg → pg.pin_count = pinAt t id) ∧
    (∀ key value t' inserted, Insert t key value = Except.ok (t', inserted) →
      t'.header_pin_count = t.header_pin_count ∧
        ∀ id pg, getPage t' id = some pg → pg.pin_count = pinAt t id) ∧
    (∀ key t', Remove t key = Except.ok t' →
      t'.header_pin_count = t.header_pin_count ∧
        ∀ id pg, getPage t' id = some pg → pg.pin_count = pinAt t id) := by
  have hi := IdOK_of_pages t hids
  have h0 := PinOK_of_pages t hpins hhdr hset
  refine ⟨?_, ?_, ?_⟩
  · intro key result t' found out h
    obtain ⟨a, e⟩ := GetValue_pins t t t' key result found out (Acc_refl t hi) h0 h
    refine ⟨a.header, fun id pg hg => ?_⟩
    rw [← pinAt_of_getPage t' id pg hg]
    exact Acc_pinAt t t' a hset (e.trans hset) id
  · intro key value t' inserted h
    obtain ⟨a, e⟩ := Insert_pins t t' key value inserted hi h0 hset h
    refine ⟨a.header, fun id pg hg => ?_⟩
    rw [← pinAt_of_getPage t' id pg hg]
    exact Acc_pinAt t t' a hset e id
  · intro key t' h
    exact Remove_pins t t' key hi h0 hset h

theorem pin_conservation_witness :
    (∀ id pg, getPage scenarioTree id = some pg → pg.data.page_id = id) ∧
      (∀ id pg, getPage scenarioTree id = some pg → 0 ≤ pg.pin_count) ∧
      0 ≤ scenarioTree.header_pin_count ∧ scenarioTree.page_set = [] ∧
      ((∀ key result t' found out,
          GetValue scenarioTree key result = Except.ok (t', found, out) →
          t'.header_pin_count = scenarioTree.header_pin_count ∧
            ∀ id pg, getPage t' id = some pg → pg.pin_count = pinAt scenarioTree id) ∧
        (∀ key value t' inserted,
          Insert scenarioTree key value = Except.ok (t', inserted) →
          t'.header_pin_count = scenarioTree.header_pin_count ∧
            ∀ id pg, getPage t' id = some pg → pg.pin_count = pinAt scenarioTree id) ∧
        (∀ key t', Remove scenarioTree key = Except.ok t' →
          t'.header_pin_count = scenarioTree.header_pin_count ∧
            ∀ id pg, getPage t' id = some pg → pg.pin_count = pinAt scenarioTree id)) := by
  have hrun : run (BPlusTree.new 4 4)
      [Call.insert 10 10, Call.insert 20 20, Call.insert 5 5, Call.insert 15 15,
       Call.insert 25 25] = Except.ok scenarioTree := by decide!
  have hids := run_page_id 4 4 _ scenarioTree hrun
  have hpins : ∀ id pg, getPage scenarioTree id = some pg → 0 ≤ pg.pin_count := by
    intro id pg hg
    rw [(quiescent_page scenarioTree (by decide!) id pg hg).1]
  exact ⟨hids, hpins, by decide!, by decide!,
    pin_conservation scenarioTree hids hpins (by decide!) (by decide!)⟩
/-- C22: for an internal node of size `n` that holds the child id `old` first at slot `p`
(`0 ≤ p < n`), `InsertNodeAfter old k v` returns `n + 1`, sets the size to `n + 1`, leaves slots
`0 .. p` unchanged, puts `(k, v)` in slot `p + 1` and moves the former slots `p + 1 .. n - 1` to
slots `p + 2 .. n` in order; the header fields other than the size are untouched. -/
theorem InsertNodeAfter_spec (n : Node) (old k v p : Int) (h0 : 0 ≤ p) (hp : p < n.size)
    (hat : (slotAt n.array p).2 = old)
    (hfirst : ∀ j, 0 ≤ j → j < p → (slotAt n.array j).2 ≠ old) :
    ∃ n', n.InsertNodeAfter old k v = some (n', n.size + 1) ∧
      n'.size = n.size + 1 ∧
      (∀ j, 0 ≤ j → j ≤ p → slotAt n'.array j = slotAt n.array j) ∧
      slotAt n'.array (p + 1) = (k, v) ∧
      (∀ j, p + 2 ≤ j → j ≤ n.size → slotAt n'.array j = slotAt n.array (j - 1)) ∧
      n'.page_type = n.page_type ∧ n'.max_size = n.max_size ∧
      n'.parent_page_id = n.parent_page_id ∧ n'.page_id = n.page_id ∧
      n'.next_page_id = n.next_page_id := by
  unfold Node.InsertNodeAfter
  rw [ValueIndex_first n old p h0 hp hat hfirst]
  refine ⟨_, rfl, rfl, ?_, ?_, ?_, rfl, rfl, rfl, rfl, rfl⟩
  · intro j hj0 hjp
    simp only [Node.GetSize]
    rw [slotAt_slotSet _ _ _ _ (by omega) hj0, if_neg (by omega),
      slotAt_shiftUp _ _ _ _ (by omega) hj0, if_neg (by omega)]
  · simp only
    rw [slotAt_slotSet _ _ _ _ (by omega) (by omega), if_pos rfl]
  · intro j hj1 hj2
    simp only [Node.GetSize]
    rw [slotAt_slotSet _ _ _ _ (by omega) (by omega), if_neg (by omega),
      slotAt_shiftUp _ _ _ _ (by omega) (by omega), if_pos (by omega)]

theorem InsertNodeAfter_spec_witness :
    ∃ n', exampleRoot.InsertNodeAfter 2 20 5 = some (n', exampleRoot.size + 1) ∧
      n'.size = exampleRoot.size + 1 ∧
      (∀ j, 0 ≤ j → j ≤ 1 → slotAt n'.array j = slotAt exampleRoot.array j) ∧
      slotAt n'.array (1 + 1) = (20, 5) ∧
      (∀ j, 1 + 2 ≤ j → j ≤ exampleRoot.size → slotAt n'.array j = slotAt exampleRoot.array (j - 1)) ∧
      n'.page_type = exampleRoot.page_type ∧ n'.max_size = exampleRoot.max_size ∧
      n'.parent_page_id = exampleRoot.parent_page_id ∧ n'.page_id = exampleRoot.page_id ∧
      n'.next_page_id = exampleRoot.next_page_id :=
  InsertNodeAfter_spec exampleRoot 2 20 5 1 (by decide) (by decide) (by decide)
    (by intro j h1 h2; have : j = 0 := by omega
        subst this; decide)

/-- C21: the internal `MoveHalfTo` on a donor of size `n ≥ 0` whose moved children exist
succeeds; it leaves the donor with size `n - ⌊n/2⌋` and its slots unchanged, gives the recipient
size `⌊n/2⌋` and, from slot 0 on, the donor's last `⌊n/2⌋` slots in order (donor slots followed
by recipient slots are the original slots), and sets the parent id of every moved child to the
recipient's page id.  In the branch of `InsertIntoParent` that splits the parent, the key
passed to the recursive call is the key in slot 0 of the new sibling, which is the key of the
parent's slot `n - ⌊n/2⌋` before the split. -/
theorem MoveHalfTo_spec (t : BPlusTree) (self recipient : Int) (me rec : Node)
    (hself : dataAt t self = some me) (hrec : dataAt t recipient = some rec)
    (hne : self ≠ recipient) (hsize : 0 ≤ me.size)
    (hall : ∀ item ∈ slotsFrom me.array (me.size - me.size / 2) (me.size / 2),
      (dataAt t item.2).isSome) :
    (∃ t' me' rec', MoveHalfTo t self recipient = Except.ok t' ∧
      dataAt t' self = some me' ∧ dataAt t' recipient = some rec' ∧
      me'.size = me.size - me.size / 2 ∧ me'.array = me.array ∧
      rec'.size = me.size / 2 ∧
      (∀ j, 0 ≤ j → j < me.size / 2 →
        slotAt rec'.array j = slotAt me.array (me.size - me.size / 2 + j)) ∧
      slotsFrom me'.array 0 me'.size ++ slotsFrom rec'.array 0 rec'.size =
        slotsFrom me.array 0 me.size ∧
      (∀ item ∈ slotsFrom me.array (me.size - me.size / 2) (me.size / 2),
        ∃ c, dataAt t' item.2 = some c ∧ c.parent_page_id = rec.page_id)) ∧
    (∀ (fuel : Nat) (u u1 u3 : BPlusTree) (old_node key new_node size sp : Int)
      (old pp nw pp' : Node),
      getNode u old_node = Except.ok old → old.IsRootPage = false →
      FetchPage u old.parent_page_id = some u1 →
      getNode u1 old.parent_page_id = Except.ok pp → pp.IsLeafPage = false →
      getNode u1 new_node = Except.ok nw →
      pp.InsertNodeAfter old.page_id key nw.page_id = some (pp', size) →
      size = pp'.GetMaxSize → 2 ≤ pp'.size →
      Split (UnpinPage (setNode u1 old.parent_page_id pp') nw.page_id true)
        IndexPageType.INTERNAL_PAGE old.parent_page_id = Except.ok (u3, sp) →
      ∃ split, getNode u3 sp = Except.ok split ∧
        split.KeyAt 0 = pp'.KeyAt (pp'.size - pp'.size / 2) ∧
        InsertIntoParent (fuel + 1) u old_node key new_node =
          (InsertIntoParent fuel u3 old.parent_page_id (split.KeyAt 0) sp).bind fun t =>
            (getNode t old.parent_page_id).bind fun parent_page =>
              Except.ok (UnpinPage t parent_page.page_id true)) := by
  constructor
  · obtain ⟨pg, hpg, hpd⟩ := dataAt_eq_some t self me hself
    subst hpd
    obtain ⟨t', hok, _⟩ := MoveHalfTo_sizes t self recipient pg hpg
      (sizeAt_isSome_of_dataAt t recipient (by rw [hrec]; rfl)) hne
      (fun item hitem => sizeAt_isSome_of_dataAt t item.2 (hall item hitem))
    obtain ⟨me', rec', a1, a2, a3, a4, a5, a6, a7, a8⟩ :=
      MoveHalfTo_data t t' self recipient pg.data rec hself hrec hne hsize hok
    refine ⟨t', me', rec', hok, a1, a2, a3, a4, a5, a7, ?_, a8⟩
    have hhalf : 0 ≤ pg.data.size / 2 := Int.ediv_nonneg hsize (by decide)
    have hle : pg.data.size / 2 ≤ pg.data.size := by omega
    rw [a3, a5]
    have := slotsFrom_split pg.data.array me'.array rec'.array
      (pg.data.size - pg.data.size / 2) (pg.data.size / 2) (by omega) hhalf
      (fun j _ _ => by rw [a4]) a7
    rw [this]
    congr 1
    omega
  · intro fuel u u1 u3 old_node key new_node size sp old pp nw pp' hold hroot hf hpp hpl hnw
      hins hmax h2 hsplit
    obtain ⟨f1, f2, f3, f4, f5, f6, f7⟩ := InsertNodeAfter_facts _ _ _ _ _ _ hins
    have hpp' := (getNode_ok_iff _ _ _).1 hpp
    have hd : dataAt (UnpinPage (setNode u1 old.parent_page_id pp') nw.page_id true)
        old.parent_page_id = some pp' := by
      rw [dataAt_UnpinPage, dataAt_setNode, if_pos rfl, hpp']; rfl
    have hleaf' : pp'.IsLeafPage = false := by
      unfold Node.IsLeafPage at hpl ⊢
      rw [f2]; exact hpl
    obtain ⟨_, n', s, b1, b2, b3, b4, b5, b6, b7, b8⟩ :=
      Split_internal_data _ u3 _ sp pp' hd hleaf' (by omega) hsplit
    have hs := (getNode_ok_iff _ _ _).2 b2
    refine ⟨s, hs, ?_, InsertIntoParent_split_eq fuel u u1 u3 old_node key new_node size sp
      old pp nw pp' s hold hroot hf hpp hnw hins hmax hsplit hs⟩
    unfold Node.KeyAt
    rw [b7 0 (le_refl _) (by omega), add_zero]

theorem MoveHalfTo_spec_witness :
    ∃ t' me' rec', MoveHalfTo splitTree 6 7 = Except.ok t' ∧
      dataAt t' 6 = some me' ∧ dataAt t' 7 = some rec' ∧
      me'.size = fullInternal.size - fullInternal.size / 2 ∧ me'.array = fullInternal.array ∧
      rec'.size = fullInternal.size / 2 ∧
      (∀ j, 0 ≤ j → j < fullInternal.size / 2 →
        slotAt rec'.array j =
          slotAt fullInternal.array (fullInternal.size - fullInternal.size / 2 + j)) ∧
      slotsFrom me'.array 0 me'.size ++ slotsFrom rec'.array 0 rec'.size =
        slotsFrom fullInternal.array 0 fullInternal.size ∧
      (∀ item ∈ slotsFrom fullInternal.array (fullInternal.size - fullInternal.size / 2)
          (fullInternal.size / 2),
        ∃ c, dataAt t' item.2 = some c ∧ c.parent_page_id = freshInternal.page_id) :=
  (MoveHalfTo_spec splitTree 6 7 fullInternal freshInternal (by decide!) (by decide!)
    (by decide) (by decide) (by decide!)).1

/-- C23: `AdjustRoot` on a page holding the node `n`.  When `n` is an internal node of size 1
whose only child exists, it returns true, makes that child the root, sets the child's parent id
to absent, leaves the old root with size 0, records the new root in the header and changes no
other page; `CoalesceOrRedistribute` on such a root then puts the old root in the deletion set.
When `n` is a leaf of size 0 it returns true, sets the root id to absent, records that in the
header and changes no page.  In every other case it returns false and the state is unchanged. -/
theorem AdjustRoot_spec (t : BPlusTree) (node : Int) (n : Node)
    (hn : dataAt t node = some n) :
    (n.IsLeafPage = false → n.size = 1 → (dataAt t (n.ValueAt 0)).isSome →
      ∃ t', AdjustRoot t node = Except.ok (t', true) ∧
        t'.root_page_id = n.ValueAt 0 ∧
        (∃ c, dataAt t' (n.ValueAt 0) = some c ∧ c.parent_page_id = INVALID_PAGE_ID) ∧
        (∃ r, dataAt t' node = some r ∧ r.size = 0) ∧
        (∀ id, id ≠ node → id ≠ n.ValueAt 0 → dataAt t' id = dataAt t id) ∧
        (∀ c, n.ValueAt 0 ≠ node → dataAt t (n.ValueAt 0) = some c →
          dataAt t' (n.ValueAt 0) = some { c with parent_page_id := INVALID_PAGE_ID }) ∧
        t'.header_calls = t.header_calls ++ [(false, n.ValueAt 0)] ∧
        t'.deleted_page_set = t.deleted_page_set ∧
        (n.IsRootPage = true → ∀ fuel, ∃ t'',
          CoalesceOrRedistribute (fuel + 1) t node = Except.ok (t'', false) ∧
          t'' = AddIntoDeletedPageSet t' n.page_id ∧ n.page_id ∈ t''.deleted_page_set)) ∧
    (n.IsLeafPage = true → n.size = 0 →
      ∃ t', AdjustRoot t node = Except.ok (t', true) ∧
        t'.root_page_id = INVALID_PAGE_ID ∧ t'.pages = t.pages ∧
        t'.header_calls = t.header_calls ++ [(false, INVALID_PAGE_ID)] ∧
        (n.IsRootPage = true → ∀ fuel,
          CoalesceOrRedistribute (fuel + 1) t node = Except.ok (t', true))) ∧
    (¬ (n.IsLeafPage = false ∧ n.size = 1) → ¬ (n.IsLeafPage = true ∧ n.size = 0) →
      AdjustRoot t node = Except.ok (t, false) ∧
      (n.IsRootPage = true → ∀ fuel,
        CoalesceOrRedistribute (fuel + 1) t node = Except.ok (t, false))) := by
  have hg := (getNode_ok_iff _ _ _).2 hn
  refine ⟨?_, ?_, ?_⟩
  · intro hleaf hsize hchild
    obtain ⟨c, hc⟩ := Option.isSome_iff_exists.1 hchild
    -- the state in which the child is fetched
    obtain ⟨u, hu⟩ : ∃ u, u = UpdateRootPageId
        { setNode t node (n.Remove 0) with root_page_id := n.ValueAt 0 } false := ⟨_, rfl⟩
    have hdu : ∀ id, dataAt u id = dataAt (setNode t node (n.Remove 0)) id := by
      intro id; rw [hu]; exact dataAt_congr_pages _ _ rfl id
    have hcu : ∃ c1, dataAt u (n.ValueAt 0) = some c1 ∧
        (n.ValueAt 0 ≠ node → c1 = c) := by
      rw [hdu, dataAt_setNode]
      by_cases e : n.ValueAt 0 = node
      · rw [if_pos e, hn]; exact ⟨_, rfl, fun h => absurd e h⟩
      · rw [if_neg e, hc]; exact ⟨_, rfl, fun _ => rfl⟩
    obtain ⟨c1, hc1, hc1e⟩ := hcu
    obtain ⟨pg, hpg, hpgd⟩ := dataAt_eq_some _ _ _ hc1
    have hf := FetchPage_eq u _ pg hpg
    obtain ⟨u1, hu1⟩ : ∃ u1, FetchPage u (n.ValueAt 0) = some u1 := ⟨_, hf⟩
    have hd1 : ∀ id, dataAt u1 id = dataAt u id := dataAt_FetchPage u u1 _ hu1
    have hgc : getNode u1 (n.ValueAt 0) = Except.ok c1 :=
      (getNode_ok_iff _ _ _).2 (by rw [hd1, hc1])
    have hadj : AdjustRoot t node = Except.ok
        (UnpinPage (setNode u1 (n.ValueAt 0) { c1 with parent_page_id := INVALID_PAGE_ID })
          (n.ValueAt 0) true, true) := by
      unfold AdjustRoot
      simp only [hg, bind, Except.bind, hleaf, Node.GetSize, hsize, Bool.not_false, and_self,
        if_true, Node.RemoveAndReturnOnlyChild, ← hu, hu1, hgc, pure, Except.pure]
    have hroot1 : u1.root_page_id = n.ValueAt 0 := by
      rw [FetchPage_root u u1 _ hu1, hu]; rfl
    have hfinal : ∀ id, dataAt (UnpinPage (setNode u1 (n.ValueAt 0)
        { c1 with parent_page_id := INVALID_PAGE_ID }) (n.ValueAt 0) true) id =
        if id = n.ValueAt 0 then some { c1 with parent_page_id := INVALID_PAGE_ID }
        else if id = node then some (n.Remove 0) else dataAt t id := by
      intro id
      rw [dataAt_UnpinPage, dataAt_setNode]
      by_cases e1 : id = n.ValueAt 0
      · rw [if_pos e1, if_pos e1, hd1, hc1]; rfl
      · rw [if_neg e1, if_neg e1, hd1, hdu, dataAt_setNode]
        by_cases e2 : id = node
        · rw [if_pos e2, if_pos e2, hn]; rfl
        · rw [if_neg e2, if_neg e2]
    have hop : OnlyPages u (UnpinPage (setNode u1 (n.ValueAt 0)
        { c1 with parent_page_id := INVALID_PAGE_ID }) (n.ValueAt 0) true) :=
      OnlyPages_trans _ _ _ (OnlyPages_FetchPage u u1 _ hu1)
        (OnlyPages_trans _ _ _ (OnlyPages_setNode _ _ _) (OnlyPages_UnpinPage _ _ _))
    have hop0 : OnlyPages t (setNode t node (n.Remove 0)) := OnlyPages_setNode _ _ _
    have hdel : (UnpinPage (setNode u1 (n.ValueAt 0)
        { c1 with parent_page_id := INVALID_PAGE_ID }) (n.ValueAt 0) true).deleted_page_set =
        t.deleted_page_set := by
      rw [OnlyPages_deleted _ _ hop, hu]
      show (setNode t node (n.Remove 0)).deleted_page_set = _
      exact OnlyPages_deleted _ _ hop0
    have hc1n : node = n.ValueAt 0 → c1 = n.Remove 0 := by
      intro e
      rw [hdu, ← e, dataAt_setNode, if_pos rfl, hn] at hc1
      exact (Option.some.inj hc1).symm
    refine ⟨_, hadj, ?_, ?_, ?_, ?_, ?_, ?_, hdel, ?_⟩
    · rw [OnlyPages_root _ _ hop, hu]; rfl
    · exact ⟨_, by rw [hfinal, if_pos rfl], rfl⟩
    · by_cases e : node = n.ValueAt 0
      · refine ⟨_, by rw [hfinal, if_pos e], ?_⟩
        rw [hc1n e]
        simp only [Node.Remove, hsize]
        rfl
      · refine ⟨_, by rw [hfinal, if_neg e, if_pos rfl], ?_⟩
        simp only [Node.Remove, hsize]
        rfl
    · intro id e1 e2
      rw [hfinal, if_neg e2, if_neg e1]
    · intro c' e hc'
      rw [hfinal, if_pos rfl, hc1e e]
      rw [hc] at hc'
      cases hc'
      rfl
    · rw [OnlyPages_header _ _ hop, hu]
      show (setNode t node (n.Remove 0)).header_calls ++ _ = _
      rw [OnlyPages_header _ _ hop0]
    · intro hroot fuel
      have hre : ∃ r, getNode (UnpinPage (setNode u1 (n.ValueAt 0)
          { c1 with parent_page_id := INVALID_PAGE_ID }) (n.ValueAt 0) true) node = Except.ok r ∧
          r.IsLeafPage = false ∧ r.page_id = n.page_id := by
        by_cases e : node = n.ValueAt 0
        · refine ⟨_, (getNode_ok_iff _ _ _).2 (by rw [hfinal, if_pos e]), ?_, ?_⟩
          · rw [hc1n e]; exact hleaf
          · rw [hc1n e]; rfl
        · exact ⟨n.Remove 0, (getNode_ok_iff _ _ _).2 (by rw [hfinal, if_neg e, if_pos rfl]),
            hleaf, rfl⟩
      obtain ⟨r, hr, hrl, hrp⟩ := hre
      refine ⟨_, ?_, rfl, ?_⟩
      · rw [CoalesceOrRedistribute]
        simp only [hg, bind, Except.bind, hroot, if_true, hadj, hr, hrl, Bool.not_false,
          and_self, pure, Except.pure, Bool.and_false, hrp]
      · unfold AddIntoDeletedPageSet
        split_ifs with hm
        · exact hm
        · simp
  · intro hleaf hsize
    have hadj : AdjustRoot t node = Except.ok
        (UpdateRootPageId { t with root_page_id := INVALID_PAGE_ID } false, true) := by
      unfold AdjustRoot
      simp only [hg, bind, Except.bind, hleaf, Node.GetSize, hsize, Bool.not_true,
        Bool.false_eq_true, false_and, if_false, and_self, if_true, pure, Except.pure]
    refine ⟨_, hadj, rfl, rfl, rfl, ?_⟩
    intro hroot fuel
    rw [CoalesceOrRedistribute]
    have hg' : getNode (UpdateRootPageId { t with root_page_id := INVALID_PAGE_ID } false) node =
        Except.ok n := (getNode_ok_iff _ _ _).2 ((dataAt_congr_pages t _ rfl node).trans hn)
    simp only [hg, bind, Except.bind, hroot, if_true, hadj, hg', hleaf, Bool.not_true,
      Bool.false_eq_true, and_false, if_false, pure, Except.pure, Bool.and_self]
  · intro h1 h2
    have hadj : AdjustRoot t node = Except.ok (t, false) := by
      unfold AdjustRoot
      simp only [hg, bind, Except.bind, Node.GetSize, pure, Except.pure]
      have h1' : ¬ ((!n.IsLeafPage) = true ∧ n.size = 1) := by
        intro h; apply h1; refine ⟨?_, h.2⟩; simpa using h.1
      rw [if_neg h1', if_neg h2]
    refine ⟨hadj, ?_⟩
    intro hroot fuel
    rw [CoalesceOrRedistribute]
    simp only [hg, bind, Except.bind, hroot, if_true, hadj, Bool.false_eq_true, false_and,
      if_false, Bool.false_and, pure, Except.pure]

theorem AdjustRoot_spec_witness :
    (∃ t', AdjustRoot collapseTree 3 = Except.ok (t', true) ∧
        t'.root_page_id = loneChildRoot.ValueAt 0 ∧
        (∃ c, dataAt t' (loneChildRoot.ValueAt 0) = some c ∧
          c.parent_page_id = INVALID_PAGE_ID) ∧
        (∃ r, dataAt t' 3 = some r ∧ r.size = 0) ∧
        (∀ id, id ≠ 3 → id ≠ loneChildRoot.ValueAt 0 → dataAt t' id = dataAt collapseTree id) ∧
        (∀ c, loneChildRoot.ValueAt 0 ≠ 3 → dataAt collapseTree (loneChildRoot.ValueAt 0) = some c →
          dataAt t' (loneChildRoot.ValueAt 0) = some { c with parent_page_id := INVALID_PAGE_ID }) ∧
        t'.header_calls = collapseTree.header_calls ++ [(false, loneChildRoot.ValueAt 0)] ∧
        t'.deleted_page_set = collapseTree.deleted_page_set ∧
        (loneChildRoot.IsRootPage = true → ∀ fuel, ∃ t'',
          CoalesceOrRedistribute (fuel + 1) collapseTree 3 = Except.ok (t'', false) ∧
          t'' = AddIntoDeletedPageSet t' loneChildRoot.page_id ∧
          loneChildRoot.page_id ∈ t''.deleted_page_set)) ∧
    (∃ t', AdjustRoot emptiedTree 1 = Except.ok (t', true) ∧
        t'.root_page_id = INVALID_PAGE_ID ∧ t'.pages = emptiedTree.pages ∧
        t'.header_calls = emptiedTree.header_calls ++ [(false, INVALID_PAGE_ID)] ∧
        (emptiedLeaf.IsRootPage = true → ∀ fuel,
          CoalesceOrRedistribute (fuel + 1) emptiedTree 1 = Except.ok (t', true))) ∧
    (AdjustRoot splitTree 6 = Except.ok (splitTree, false) ∧
      (fullInternal.IsRootPage = true → ∀ fuel,
        CoalesceOrRedistribute (fuel + 1) splitTree 6 = Except.ok (splitTree, false))) :=
  ⟨(AdjustRoot_spec collapseTree 3 loneChildRoot (by decide!)).1 (by decide) (by decide)
      (by decide!),
    (AdjustRoot_spec emptiedTree 1 emptiedLeaf (by decide!)).2.1 (by decide) (by decide),
    (AdjustRoot_spec splitTree 6 fullInternal (by decide!)).2.2 (by decide) (by decide)⟩
/-- C24: for a node that is not the root and has at least one sibling, once
`CoalesceOrRedistribute` has read the node and its siblings it performs exactly the action the
choice rule names: merge with the left sibling if it exists and the two sizes are below the
node's max size, otherwise merge with the right sibling on the same test, otherwise
redistribute with the left sibling if it exists, else with the right one.  The sibling of the
chosen action exists, and a redistribution is chosen only when neither merge is possible. -/
theorem CoalesceOrRedistribute_choice (fuel : Nat) (t : BPlusTree) (node : Int) (n : Node)
    (s : Siblings) (hn : getNode t node = Except.ok n) (hroot : n.IsRootPage = false)
    (hs : readSiblings t node = Except.ok s) (hsib : s.left.isSome ∨ s.right.isSome) :
    ∃ a, chooseAction s.n.GetSize s.n.GetMaxSize s.left_size s.right_size = some a ∧
      CoalesceOrRedistribute (fuel + 1) t node = performAction fuel s node a ∧
      (∃ id m, a.sibling s = some id ∧ getNode s.t id = Except.ok m ∧
        (a = Action.mergeLeft ∨ a = Action.redistributeLeft → s.left_size = some m.size) ∧
        (a = Action.mergeRight ∨ a = Action.redistributeRight →
          s.right_size = some m.size)) ∧
      (a = Action.mergeLeft → canMerge s.n.GetSize s.n.GetMaxSize s.left_size = true) ∧
      (a = Action.mergeRight → canMerge s.n.GetSize s.n.GetMaxSize s.left_size = false ∧
        canMerge s.n.GetSize s.n.GetMaxSize s.right_size = true) ∧
      (a = Action.redistributeLeft ∨ a = Action.redistributeRight →
        canMerge s.n.GetSize s.n.GetMaxSize s.left_size = false ∧
        canMerge s.n.GetSize s.n.GetMaxSize s.right_size = false) ∧
      (a = Action.redistributeRight → s.left = none) := by
  obtain ⟨_, _, hl, hr⟩ := readSiblings_facts t node s hs
  have hex : ∃ a, chooseAction s.n.GetSize s.n.GetMaxSize s.left_size s.right_size = some a := by
    unfold chooseAction
    split_ifs with h1 h2 h3 h4
    · exact ⟨_, rfl⟩
    · exact ⟨_, rfl⟩
    · exact ⟨_, rfl⟩
    · exact ⟨_, rfl⟩
    · exfalso
      rcases hsib with hsl | hsr
      · cases hleft : s.left with
        | none => rw [hleft] at hsl; cases hsl
        | some lid =>
          rw [hleft] at hl
          obtain ⟨m, _, hm⟩ := hl
          rw [hm] at h3
          exact h3 rfl
      · cases hright : s.right with
        | none => rw [hright] at hsr; cases hsr
        | some rid =>
          rw [hright] at hr
          obtain ⟨m, _, hm⟩ := hr
          rw [hm] at h4
          exact h4 rfl
  obtain ⟨a, ha⟩ := hex
  refine ⟨a, ha, ?_, ?_, ?_, ?_, ?_, ?_⟩
  · rw [CoalesceOrRedistribute_eq fuel t node n hn hroot, hs]
    exact sizeTests_eq fuel s node hl hr a ha
  · -- the sibling of the action
    have hleft : s.left_size.isSome = true → ∃ id m, s.left = some id ∧
        getNode s.t id = Except.ok m ∧ s.left_size = some m.size := by
      intro h
      cases hleft : s.left with
      | none => rw [hleft] at hl; rw [hl] at h; cases h
      | some lid =>
        rw [hleft] at hl
        obtain ⟨m, hm, hsz⟩ := hl
        exact ⟨lid, m, rfl, hm, hsz⟩
    have hright : s.right_size.isSome = true → ∃ id m, s.right = some id ∧
        getNode s.t id = Except.ok m ∧ s.right_size = some m.size := by
      intro h
      cases hright : s.right with
      | none => rw [hright] at hr; rw [hr] at h; cases h
      | some rid =>
        rw [hright] at hr
        obtain ⟨m, hm, hsz⟩ := hr
        exact ⟨rid, m, rfl, hm, hsz⟩
    unfold chooseAction at ha
    split_ifs at ha with h1 h2 h3 h4 <;> cases ha
    · have : s.left_size.isSome = true := by
        cases hx : s.left_size with
        | none => rw [hx] at h1; cases h1
        | some _ => rfl
      obtain ⟨id, m, e1, e2, e3⟩ := hleft this
      exact ⟨id, m, e1, e2, fun _ => e3, fun h => by rcases h with h | h <;> cases h⟩
    · have : s.right_size.isSome = true := by
        cases hx : s.right_size with
        | none => rw [hx] at h2; cases h2
        | some _ => rfl
      obtain ⟨id, m, e1, e2, e3⟩ := hright this
      exact ⟨id, m, e1, e2, fun h => (by rcases h with h | h <;> cases h), fun _ => e3⟩
    · obtain ⟨id, m, e1, e2, e3⟩ := hleft h3
      exact ⟨id, m, e1, e2, fun _ => e3, fun h => by rcases h with h | h <;> cases h⟩
    · obtain ⟨id, m, e1, e2, e3⟩ := hright h4
      exact ⟨id, m, e1, e2, fun h => (by rcases h with h | h <;> cases h), fun _ => e3⟩
  · intro e
    subst e
    unfold chooseAction at ha
    split_ifs at ha with h1 h2 h3 h4 <;> cases ha
    exact h1
  · intro e
    subst e
    unfold chooseAction at ha
    split_ifs at ha with h1 h2 h3 h4 <;> cases ha
    exact ⟨by simpa using h1, h2⟩
  · intro e
    unfold chooseAction at ha
    split_ifs at ha with h1 h2 h3 h4 <;> cases ha <;>
      first | (rcases e with e | e <;> cases e; done) | exact ⟨by simpa using h1, by simpa using h2⟩
  · intro e
    subst e
    unfold chooseAction at ha
    split_ifs at ha with h1 h2 h3 h4 <;> cases ha
    cases hleft : s.left with
    | none => rfl
    | some lid =>
      rw [hleft] at hl
      obtain ⟨m, _, hm⟩ := hl
      rw [hm] at h3
      exact absurd rfl h3

theorem CoalesceOrRedistribute_choice_witness :
    ∃ a, chooseAction (siblingsIn siblingTree 6).n.GetSize (siblingsIn siblingTree 6).n.GetMaxSize
        (siblingsIn siblingTree 6).left_size (siblingsIn siblingTree 6).right_size = some a ∧
      CoalesceOrRedistribute (2 + 1) siblingTree 6 =
        performAction 2 (siblingsIn siblingTree 6) 6 a ∧
      (∃ id m, a.sibling (siblingsIn siblingTree 6) = some id ∧
        getNode (siblingsIn siblingTree 6).t id = Except.ok m ∧
        (a = Action.mergeLeft ∨ a = Action.redistributeLeft →
          (siblingsIn siblingTree 6).left_size = some m.size) ∧
        (a = Action.mergeRight ∨ a = Action.redistributeRight →
          (siblingsIn siblingTree 6).right_size = some m.size)) ∧
      (a = Action.mergeLeft → canMerge (siblingsIn siblingTree 6).n.GetSize
        (siblingsIn siblingTree 6).n.GetMaxSize (siblingsIn siblingTree 6).left_size = true) ∧
      (a = Action.mergeRight → canMerge (siblingsIn siblingTree 6).n.GetSize
          (siblingsIn siblingTree 6).n.GetMaxSize (siblingsIn siblingTree 6).left_size = false ∧
        canMerge (siblingsIn siblingTree 6).n.GetSize (siblingsIn siblingTree 6).n.GetMaxSize
          (siblingsIn siblingTree 6).right_size = true) ∧
      (a = Action.redistributeLeft ∨ a = Action.redistributeRight →
        canMerge (siblingsIn siblingTree 6).n.GetSize (siblingsIn siblingTree 6).n.GetMaxSize
          (siblingsIn siblingTree 6).left_size = false ∧
        canMerge (siblingsIn siblingTree 6).n.GetSize (siblingsIn siblingTree 6).n.GetMaxSize
          (siblingsIn siblingTree 6).right_size = false) ∧
      (a = Action.redistributeRight → (siblingsIn siblingTree 6).left = none) :=
  CoalesceOrRedistribute_choice 2 siblingTree 6
    { page_type := IndexPageType.INTERNAL_PAGE, size := 2, max_size := 5, parent_page_id := 7,
      page_id := 6, next_page_id := 0, array := [(0, 3), (30, 4)] }
    (siblingsIn siblingTree 6) (by decide!) (by decide) (by decide!) (by decide!)
/-- C25 (amended): for an underflowed node that is not the root, in a pool that satisfies the
structural invariant, `CoalesceOrRedistribute` returns true exactly when the node is a leaf and
the chosen action is the merge into its left sibling.  It returns false when an internal node
is merged into its left sibling, when the right sibling is merged into the node, and when
entries are redistributed. -/
theorem CoalesceOrRedistribute_flag (h : Int → Nat) (fuel : Nat) (t t' : BPlusTree)
    (node : Int) (n : Node) (s : Siblings) (a : Action) (b : Bool)
    (hi : Inv h (-1) t) (hn : dataAt t node = some n) (hroot : n.IsRootPage = false)
    (hunder : n.size < n.GetMinSize)
    (hs : readSiblings t node = Except.ok s)
    (ha : chooseAction s.n.GetSize s.n.GetMaxSize s.left_size s.right_size = some a)
    (hok : CoalesceOrRedistribute (fuel + 1) t node = Except.ok (t', b)) :
    (b = true ↔ a = Action.mergeLeft ∧ n.IsLeafPage = true) ∧
    (a = Action.mergeLeft → n.IsLeafPage = false → b = false) ∧
    (a ≠ Action.mergeLeft → b = false) := by
  have hn0 := (getNode_ok_iff _ _ _).2 hn
  obtain ⟨hi', _⟩ := CoalesceOrRedistribute_inv (fuel + 1) h t t' node b hi
    (fun m hm => by rw [hn] at hm; cases hm; exact hunder) hok
  obtain ⟨_, _, hl, hr⟩ := readSiblings_facts t node s hs
  rw [CoalesceOrRedistribute_eq fuel t node n hn0 hroot, hs] at hok
  have hp : performAction fuel s node a = Except.ok (t', b) := by
    rw [← sizeTests_eq fuel s node hl hr a ha]; exact hok
  have key : (a = Action.mergeLeft → b = n.IsLeafPage) ∧ (a ≠ Action.mergeLeft → b = false) := by
    cases a with
    | mergeLeft =>
      refine ⟨fun _ => ?_, fun hne => absurd rfl hne⟩
      unfold performAction at hp
      cases hleft : s.left with
      | none => simp [hleft] at hp
      | some lid =>
        simp only [hleft] at hp
        obtain ⟨y, _, hp⟩ := bind_ok _ _ _ hp
        obtain ⟨t2, c⟩ := y
        dsimp only at hp
        obtain ⟨pp, _, hp⟩ := bind_ok _ _ _ hp
        obtain ⟨n', hn', hp⟩ := bind_ok _ _ _ hp
        simp only [pure, Except.pure, Except.ok.injEq, Prod.mk.injEq] at hp
        obtain ⟨rfl, rfl⟩ := hp
        have hd : dataAt (UnpinPage t2 pp.page_id true) node = some n' := by
          rw [dataAt_UnpinPage]; exact (getNode_ok_iff _ _ _).1 hn'
        have g1 := (hi'.1.2 node n' hd).leaf_iff
        have g2 := (hi.1.2 node n hn).leaf_iff
        cases hb : n'.IsLeafPage with
        | true => exact (g2.2 (g1.1 hb)).symm
        | false =>
          cases hb2 : n.IsLeafPage with
          | false => rfl
          | true => rw [g1.2 (g2.1 hb2)] at hb; cases hb
    | mergeRight =>
      refine ⟨fun e => (by cases e), fun _ => ?_⟩
      unfold performAction at hp
      cases hright : s.right with
      | none => simp [hright] at hp
      | some rid =>
        simp only [hright] at hp
        obtain ⟨y, _, hp⟩ := bind_ok _ _ _ hp
        obtain ⟨pp, _, hp⟩ := bind_ok _ _ _ hp
        simp only [pure, Except.pure, Except.ok.injEq, Prod.mk.injEq] at hp
        exact hp.2.symm
    | redistributeLeft =>
      refine ⟨fun e => (by cases e), fun _ => ?_⟩
      unfold performAction at hp
      obtain ⟨pp, _, hp⟩ := bind_ok _ _ _ hp
      obtain ⟨y, _, hp⟩ := bind_ok _ _ _ hp
      simp only [pure, Except.pure, Except.ok.injEq, Prod.mk.injEq] at hp
      exact hp.2.symm
    | redistributeRight =>
      refine ⟨fun e => (by cases e), fun _ => ?_⟩
      unfold performAction at hp
      obtain ⟨pp, _, hp⟩ := bind_ok _ _ _ hp
      obtain ⟨y, _, hp⟩ := bind_ok _ _ _ hp
      simp only [pure, Except.pure, Except.ok.injEq, Prod.mk.injEq] at hp
      exact hp.2.symm
  obtain ⟨k1, k2⟩ := key
  refine ⟨⟨fun hb => ?_, fun ⟨e, hl'⟩ => by rw [k1 e, hl']⟩, fun e hl' => by rw [k1 e, hl'], k2⟩
  by_cases e : a = Action.mergeLeft
  · exact ⟨e, by rw [← k1 e]; exact hb⟩
  · rw [k2 e] at hb; cases hb

theorem CoalesceOrRedistribute_flag_witness :
    ∃ t' b, CoalesceOrRedistribute (2 + 1) siblingTree 6 = Except.ok (t', b) ∧
      (b = true ↔ Action.mergeLeft = Action.mergeLeft ∧ siblingRight.IsLeafPage = true) ∧
      (Action.mergeLeft = Action.mergeLeft → siblingRight.IsLeafPage = false → b = false) ∧
      (Action.mergeLeft ≠ Action.mergeLeft → b = false) := by
  cases hres : CoalesceOrRedistribute (2 + 1) siblingTree 6 with
  | error e =>
    have hk : (CoalesceOrRedistribute (2 + 1) siblingTree 6).toOption.isSome = true := by decide!
    rw [hres] at hk
    cases hk
  | ok r =>
    exact ⟨r.1, r.2, rfl, CoalesceOrRedistribute_flag siblingHeights 2 siblingTree r.1 6
      siblingRight (siblingsIn siblingTree 6) Action.mergeLeft r.2 siblingTree_inv (by decide!)
      (by decide) (by decide) (by decide!) (by decide!) hres⟩

/-- C25 (counterexample): in `siblingTree` the internal page 6 is merged into its left sibling
page 5, so the page removed by the merge is the node itself (page 6 is put in the deletion set,
followed by the collapsed root page 7), and `CoalesceOrRedistribute` returns false. -/
theorem internal_merge_left_returns_false :
    ((readSiblings siblingTree 6).map fun s =>
      chooseAction s.n.GetSize s.n.GetMaxSize s.left_size s.right_size)
      = Except.ok (some Action.mergeLeft) ∧
    ((CoalesceOrRedistribute 3 siblingTree 6).map fun r => (r.2, r.1.deleted_page_set))
      = Except.ok (false, [6, 7]) := by
  refine ⟨?_, ?_⟩ <;> decide!
/-- C29 (amended): `FreeAllPages` walks the held set once.  When it reaches the page `x`, the
pages before `x` have been unlatched (or deleted), `x` is write-latched; `x` is then unlatched
and unpinned and, when it is in the deletion set, released to the pool in the same round, with
no pin left on it, while every page after `x` in the held set is still write-latched and
untouched.  A `Remove` on a non-empty index is `RemoveHeld` followed by this walk. -/
theorem FreeAllPages_order (t w : BPlusTree) (pre post : List Int) (x : Int)
    (hset : t.page_set = pre ++ x :: post) (hok : FreeAllPages t = Except.ok w) :
    (∃ u v z p, pre.foldlM freePage t = Except.ok u ∧ freePage u x = Except.ok v ∧
      post.foldlM freePage v = Except.ok z ∧ w = { z with page_set := [] } ∧
      (∀ y ∈ pre, getPage u y = none ∨ ∃ q, getPage u y = some q ∧ q.latch = 0) ∧
      getPage u x = some p ∧ p.latch = -1 ∧
      (x ∈ u.deleted_page_set → getPage v x = none ∧ p.pin_count ≤ 1) ∧
      (x ∉ u.deleted_page_set → ∃ q, getPage v x = some q ∧ q.latch = 0) ∧
      (∀ y, y ≠ x → getPage v y = getPage u y) ∧
      (∀ y ∈ post, ∃ q, getPage v y = some q ∧ q.latch = -1)) ∧
    (∀ (t0 t1 : BPlusTree) (key : Int), LatchRoot t0 OP_TYPE.DELETE = Except.ok t1 →
      IsEmpty t1 = false → Remove t0 key = (RemoveHeld t0 key).bind FreeAllPages) := by
  refine ⟨?_, Remove_eq_RemoveHeld⟩
  unfold FreeAllPages at hok
  obtain ⟨z, hz, hok⟩ := bind_ok _ _ _ hok
  simp only at hok
  split_ifs at hok with hd
  simp only [pure, Except.pure, Except.ok.injEq] at hok
  rw [hset, List.foldlM_append] at hz
  obtain ⟨u, hu, hz⟩ := bind_ok _ _ _ hz
  rw [List.foldlM_cons] at hz
  obtain ⟨v, hv, hz⟩ := bind_ok _ _ _ hz
  obtain ⟨p, hp, hpl, hfr, hdel, hnd⟩ := freePage_spec u v x hv
  exact ⟨u, v, z, p, hu, hv, hz, hok.symm, free_loop_released pre t u hu, hp, hpl,
    fun hx => ⟨(hdel hx).1, (hdel hx).2.1⟩, fun hx => (hnd hx).1, hfr,
    free_loop_latched post v z hz⟩

theorem FreeAllPages_order_witness :
    ∃ w, FreeAllPages twoLeafHeld = Except.ok w ∧
      ∃ u v z p, [].foldlM freePage twoLeafHeld = Except.ok u ∧ freePage u 3 = Except.ok v ∧
      [2, 1].foldlM freePage v = Except.ok z ∧ w = { z with page_set := [] } ∧
      (∀ y ∈ ([] : List Int), getPage u y = none ∨ ∃ q, getPage u y = some q ∧ q.latch = 0) ∧
      getPage u 3 = some p ∧ p.latch = -1 ∧
      (3 ∈ u.deleted_page_set → getPage v 3 = none ∧ p.pin_count ≤ 1) ∧
      (3 ∉ u.deleted_page_set → ∃ q, getPage v 3 = some q ∧ q.latch = 0) ∧
      (∀ y, y ≠ 3 → getPage v y = getPage u y) ∧
      (∀ y ∈ [2, 1], ∃ q, getPage v y = some q ∧ q.latch = -1) := by
  cases hres : FreeAllPages twoLeafHeld with
  | error e =>
    have hk : (FreeAllPages twoLeafHeld).toOption.isSome = true := by decide!
    rw [hres] at hk
    cases hk
  | ok w =>
    exact ⟨w, rfl, (FreeAllPages_order twoLeafHeld w [] [2, 1] 3 (by decide!) hres).1⟩

/-- C29 (counterexample): `Remove(20)` on `twoLeafTree` merges the leaf page 2 into page 1 and
collapses the root page 3.  At commit the held set is 3, 2, 1 and the deletion set 2, 3; the
first round of `FreeAllPages` releases page 3 to the pool while the pages 2 and 1 are still
write-latched and pinned. -/
theorem page_deleted_while_latches_held :
    Remove twoLeafTree 20 = (RemoveHeld twoLeafTree 20).bind FreeAllPages ∧
    ((RemoveHeld twoLeafTree 20).map fun u =>
      (u.page_set, u.deleted_page_set, latchesOf u [3, 2, 1])) =
        Except.ok ([3, 2, 1], [2, 3], [some (-1), some (-1), some (-1)]) ∧
    ((RemoveHeld twoLeafTree 20).bind fun u => (freePage u 3).map fun v =>
      ((getPage v 3).isNone, latchesOf v [2, 1], pinsOf v [2, 1])) =
        Except.ok (true, [some (-1), some (-1)], [some 1, some 1]) := by
  refine ⟨?_, ?_, ?_⟩ <;> decide!
/-- C30: for a state whose root-latch counter is 0.  `TryUnlatchRoot` changes nothing.
`LatchRoot` sets the counter to 1 and the `TryUnlatchRoot` of the same mode that follows puts
the counter back to 0 and the latch word back to what it was.  `FindLeafPageCrabbing` returns in
balance: the counter is 0 with the latch word as found, or 1 with the latch held once in the
mode of the operation.  `GetValue`, `Insert` and `Remove` return with the counter 0 and the
latch word as found.  No other function the operations call changes the latch word or the
counter. -/
theorem root_latch_balance (t : BPlusTree) (hc : t.root_latch_cnt = 0) :
    (∀ op, TryUnlatchRoot t op = t) ∧
    (∀ op t1, LatchRoot t op = Except.ok t1 →
      t1.root_latch_cnt = 1 ∧ Balanced t.root_latch op t1 ∧
      (TryUnlatchRoot t1 op).root_latch_cnt = 0 ∧
      (TryUnlatchRoot t1 op).root_latch = t.root_latch) ∧
    (∀ key op t' leaf, FindLeafPageCrabbing t key op = Except.ok (t', leaf) →
      Balanced t.root_latch op t' ∧ t'.root_latch_cnt ≤ 1) ∧
    (∀ key result t' b l, GetValue t key result = Except.ok (t', b, l) →
      t'.root_latch_cnt = 0 ∧ t'.root_latch = t.root_latch) ∧
    (∀ key value t' b, Insert t key value = Except.ok (t', b) →
      t'.root_latch_cnt = 0 ∧ t'.root_latch = t.root_latch) ∧
    (∀ key t', Remove t key = Except.ok t' →
      t'.root_latch_cnt = 0 ∧ t'.root_latch = t.root_latch) ∧
    (∀ u u' key value, StartNewTree u key value = Except.ok u' → RootLatchSame u u') ∧
    (∀ u u' N node new, Split u N node = Except.ok (u', new) → RootLatchSame u u') ∧
    (∀ fuel u u' old_node key new_node,
      InsertIntoParent fuel u old_node key new_node = Except.ok u' → RootLatchSame u u') ∧
    (∀ fuel u u' node b, CoalesceOrRedistribute fuel u node = Except.ok (u', b) →
      RootLatchSame u u') ∧
    (∀ u u', ReleaseAllPages u = Except.ok u' → RootLatchSame u u') ∧
    (∀ u u', FreeAllPages u = Except.ok u' → RootLatchSame u u') := by
  refine ⟨?_, ?_, ?_,
    fun key result t' b l h => GetValue_root_latch t t' key result b l hc h,
    fun key value t' b h => Insert_root_latch t t' key value b hc h,
    fun key t' h => Remove_root_latch t t' key hc h,
    fun u u' key value h => (NoLatch_StartNewTree u u' key value h).1,
    fun u u' N node new h => (NoLatch_Split u u' N node new h).1,
    fun fuel u u' o k n h => (NoLatch_InsertIntoParent fuel u u' o k n h).1,
    fun fuel u u' node b h => (Grab_CoalesceOrRedistribute fuel u u' node b h).1,
    RootLatchSame_ReleaseAllPages, RootLatchSame_FreeAllPages⟩
  · intro op
    unfold TryUnlatchRoot
    rw [if_neg (by omega)]
  · intro op t1 h
    obtain ⟨c1, b1⟩ := Balanced_LatchRoot t.root_latch op t t1 hc rfl h
    exact ⟨c1, b1, Balanced_TryUnlatchRoot _ _ t1 b1⟩
  · intro key op t' leaf h
    have b := Balanced_crabbing key op t t' leaf hc h
    refine ⟨b, ?_⟩
    rcases b with ⟨c, _⟩ | ⟨c, _⟩ <;> omega

theorem root_latch_balance_witness :
    (∀ op, TryUnlatchRoot twoLeafTree op = twoLeafTree) ∧
    (∀ op t1, LatchRoot twoLeafTree op = Except.ok t1 →
      t1.root_latch_cnt = 1 ∧ Balanced twoLeafTree.root_latch op t1 ∧
      (TryUnlatchRoot t1 op).root_latch_cnt = 0 ∧
      (TryUnlatchRoot t1 op).root_latch = twoLeafTree.root_latch) ∧
    (∀ key op t' leaf, FindLeafPageCrabbing twoLeafTree key op = Except.ok (t', leaf) →
      Balanced twoLeafTree.root_latch op t' ∧ t'.root_latch_cnt ≤ 1) ∧
    (∀ key result t' b l, GetValue twoLeafTree key result = Except.ok (t', b, l) →
      t'.root_latch_cnt = 0 ∧ t'.root_latch = twoLeafTree.root_latch) ∧
    (∀ key value t' b, Insert twoLeafTree key value = Except.ok (t', b) →
      t'.root_latch_cnt = 0 ∧ t'.root_latch = twoLeafTree.root_latch) ∧
    (∀ key t', Remove twoLeafTree key = Except.ok t' →
      t'.root_latch_cnt = 0 ∧ t'.root_latch = twoLeafTree.root_latch) ∧
    (∀ u u' key value, StartNewTree u key value = Except.ok u' → RootLatchSame u u') ∧
    (∀ u u' N node new, Split u N node = Except.ok (u', new) → RootLatchSame u u') ∧
    (∀ fuel u u' old_node key new_node,
      InsertIntoParent fuel u old_node key new_node = Except.ok u' → RootLatchSame u u') ∧
    (∀ fuel u u' node b, CoalesceOrRedistribute fuel u node = Except.ok (u', b) →
      RootLatchSame u u') ∧
    (∀ u u', ReleaseAllPages u = Except.ok u' → RootLatchSame u u') ∧
    (∀ u u', FreeAllPages u = Except.ok u' → RootLatchSame u u') :=
  root_latch_balance twoLeafTree (by decide!)

/-- C26: from a quiescent state with a root-to-leaf path for the key, `FindLeafPageCrabbing` in
a write mode returns the leaf at the end of that path.  The held set is then the suffix of the
path that starts at the deepest safe page below the root, or the whole path when no page below
the root is safe, in top-down order; every page in it is write-latched and pinned once, every
other page is unlatched and unpinned, and the root latch is still held exactly when no page
below the root was safe, that is, when the held set is the whole path from the root. -/
theorem crabbing_write_held (t0 : BPlusTree) (key : Int) (op : OP_TYPE)
    (hop : op ≠ OP_TYPE.READ) (hq : quiescent t0 = true) (path : List Int)
    (hpath : descentPath t0 key t0.pages.length t0.root_page_id = some path) :
    ∃ t' leaf, FindLeafPageCrabbing t0 key op = Except.ok (t', leaf) ∧
      path.head? = some t0.root_page_id ∧ path.getLast? = some leaf ∧
      t'.page_set = heldSuffix (safeAt t0 op) path ∧
      (∀ id ∈ t'.page_set, ∃ pg, getPage t' id = some pg ∧ pg.latch = -1 ∧ pg.pin_count = 1) ∧
      (∀ id pg, id ∉ t'.page_set → getPage t' id = some pg → pg.latch = 0 ∧ pg.pin_count = 0) ∧
      (lastSafeSuffix (safeAt t0 op) path.tail = none →
        t'.root_latch = -1 ∧ t'.root_latch_cnt = 1 ∧ t'.page_set = path) ∧
      (lastSafeSuffix (safeAt t0 op) path.tail ≠ none →
        t'.root_latch = 0 ∧ t'.root_latch_cnt = 0) ∧
      (∀ s, lastSafeSuffix (safeAt t0 op) path.tail = some s ↔
        ∃ pre x post, path.tail = pre ++ x :: post ∧ s = x :: post ∧
          safeAt t0 op x = true ∧ ∀ y ∈ post, safeAt t0 op y = false) := by
  obtain ⟨leaf0, k, hd⟩ := descend_of_descentPath t0 key _ _ path hpath
  obtain ⟨t', hok, hheld, _⟩ := crabbing_write t0 hq key op hop leaf0 k hd
  obtain ⟨q1, q2, q3, q4⟩ := quiescent_fields t0 hq
  -- the loop inside the descent
  have hok' := hok
  unfold FindLeafPageCrabbing at hok'
  obtain ⟨t1, h1, hok'⟩ := bind_ok _ _ _ hok'
  obtain ⟨c1, b1⟩ := Balanced_LatchRoot t0.root_latch op t0 t1 q2 rfl h1
  have hs1 := sameData_LatchRoot t0 t0 t1 (sameData_refl t0) op h1
  cases hf : FetchPage t1 t1.root_page_id with
  | none => simp [hf] at hok'
  | some t2 =>
    simp only [hf] at hok'
    obtain ⟨t3, h3, hok'⟩ := bind_ok _ _ _ hok'
    rw [if_pos hop] at hok'
    have hs3 := sameData_LatchPage t0 t2 t3 (sameData_FetchPage t0 t1 t2 hs1 _ hf) _ op h3
    have hop3 := OnlyPages_trans _ _ _ (OnlyPages_FetchPage _ _ _ hf)
      (OnlyPages_LatchPage _ _ _ _ h3)
    have hr3 := OnlyPages_latch _ _ hop3
    have hb3 : Balanced t0.root_latch op (AddIntoPageSet t3 t2.root_page_id) :=
      Balanced_same _ op t1 _ (RootLatchSame_trans _ _ _ hr3 ⟨rfl, rfl⟩) b1
    obtain ⟨rest, p1, p2, p3, p4, p5⟩ := crabbing_loop_held t0 key op hop t0.root_latch _
      (AddIntoPageSet t3 t2.root_page_id) t' t2.root_page_id leaf0
      (sameData_of_pages t0 t3 _ hs3 rfl rfl) hb3 hok'
    have hroot : t2.root_page_id = t0.root_page_id :=
      (FetchPage_root t1 t2 _ hf).trans hs1.1
    have hlen : (AddIntoPageSet t3 t2.root_page_id).pages.length = t0.pages.length := hs3.2.1
    rw [hlen, hroot, hpath] at p1
    have hp : path = t0.root_page_id :: rest := Option.some.inj p1
    have hset0 : (AddIntoPageSet t3 t2.root_page_id).page_set = [t0.root_page_id] := by
      show t3.page_set ++ [t2.root_page_id] = _
      rw [OnlyPages_held _ _ hop3, hroot]
      have : t1.page_set = t0.page_set := by
        unfold LatchRoot at h1
        split_ifs at h1 <;> cases h1 <;> rfl
      rw [this, q3]
      rfl
    have hset : t'.page_set = heldSuffix (safeAt t0 op) path := by
      rw [p3, hp, hset0]
      unfold heldSuffix
      simp only [List.tail_cons]
      cases lastSafeSuffix (safeAt t0 op) rest <;> rfl
    have hlatch1 : (AddIntoPageSet t3 t2.root_page_id).root_latch = -1 ∧
        (AddIntoPageSet t3 t2.root_page_id).root_latch_cnt = 1 := by
      rcases hb3 with ⟨c, _⟩ | ⟨c, ⟨ho, _⟩ | ⟨_, _, l⟩⟩
      · have : (AddIntoPageSet t3 t2.root_page_id).root_latch_cnt = 1 :=
          hr3.2.trans c1
        omega
      · exact absurd ho hop
      · exact ⟨l, c⟩
    refine ⟨t', leaf0, hok, by rw [hp]; rfl, by rw [hp, ← hroot]; exact p2, hset,
      ?_, ?_, ?_, ?_, lastSafeSuffix_iff _ _⟩
    · intro id hid
      obtain ⟨pg0, hpg0⟩ := hheld.valid id hid
      exact ⟨_, hheld.getPage_held t0 t' id pg0 hpg0 hid, rfl, rfl⟩
    · intro id pg hnot hg
      rw [hheld.getPage_not_mem t0 t' id hnot] at hg
      have := quiescent_page t0 hq id pg hg
      exact ⟨this.2, this.1⟩
    · intro hn
      rw [hp, List.tail_cons] at hn
      have := p4 hn
      refine ⟨this.1.trans hlatch1.1, this.2.trans hlatch1.2, ?_⟩
      rw [hset, hp]
      unfold heldSuffix
      simp only [List.tail_cons, hn]
    · intro hn
      rw [hp, List.tail_cons] at hn
      have := p5 hn
      exact ⟨this.2.trans q1, this.1⟩

theorem crabbing_write_held_witness :
    ∃ t' leaf, FindLeafPageCrabbing siblingTree 25 OP_TYPE.DELETE = Except.ok (t', leaf) ∧
      [7, 6, 3].head? = some siblingTree.root_page_id ∧ [7, 6, 3].getLast? = some leaf ∧
      t'.page_set = heldSuffix (safeAt siblingTree OP_TYPE.DELETE) [7, 6, 3] ∧
      (∀ id ∈ t'.page_set, ∃ pg, getPage t' id = some pg ∧ pg.latch = -1 ∧ pg.pin_count = 1) ∧
      (∀ id pg, id ∉ t'.page_set → getPage t' id = some pg → pg.latch = 0 ∧ pg.pin_count = 0) ∧
      (lastSafeSuffix (safeAt siblingTree OP_TYPE.DELETE) [7, 6, 3].tail = none →
        t'.root_latch = -1 ∧ t'.root_latch_cnt = 1 ∧ t'.page_set = [7, 6, 3]) ∧
      (lastSafeSuffix (safeAt siblingTree OP_TYPE.DELETE) [7, 6, 3].tail ≠ none →
        t'.root_latch = 0 ∧ t'.root_latch_cnt = 0) ∧
      (∀ s, lastSafeSuffix (safeAt siblingTree OP_TYPE.DELETE) [7, 6, 3].tail = some s ↔
        ∃ pre x post, [7, 6, 3].tail = pre ++ x :: post ∧ s = x :: post ∧
          safeAt siblingTree OP_TYPE.DELETE x = true ∧
          ∀ y ∈ post, safeAt siblingTree OP_TYPE.DELETE y = false) :=
  crabbing_write_held siblingTree 25 OP_TYPE.DELETE (by decide) (by decide!) [7, 6, 3]
    (by decide!)

/-- C27: from a quiescent state in which the pure descent for the key reaches a leaf, the read
descent returns that leaf, and in the trace of the states after each of its calls: at most two
pages are latched in every state and the root-latch counter is at most 1; in the state that ends
a step down to a child, the child alone is latched and pinned (the parent is unlatched and
unpinned like every other page) and the root latch is free; in the final state the leaf alone
is read-latched and pinned.  The trace ends in the state `FindLeafPageCrabbing` returns. -/
theorem read_crabbing (t0 : BPlusTree) (key : Int) (leaf : Int) (k : Nat)
    (hq : quiescent t0 = true)
    (hd : descend t0 key t0.pages.length t0.root_page_id = some (leaf, k)) :
    ∃ tr, readTrace t0 key = Except.ok (tr, leaf) ∧
      FindLeafPageCrabbing t0 key OP_TYPE.READ = Except.ok (lastState t0 tr, leaf) ∧
      (∀ e ∈ tr, (latchedPages e.1).length ≤ 2 ∧ e.1.root_latch_cnt ≤ 1) ∧
      (∀ s c, (s, some c) ∈ tr → s.root_latch_cnt = 0 ∧ s.root_latch = 0 ∧
        ∀ id pg, getPage s id = some pg →
          (id = c → pg.latch = 1 ∧ pg.pin_count = 1) ∧
          (id ≠ c → pg.latch = 0 ∧ pg.pin_count = 0)) ∧
      (∃ pg, getPage (lastState t0 tr) leaf = some pg) ∧
      (∀ id pg, getPage (lastState t0 tr) id = some pg →
        (id = leaf → pg.latch = 1 ∧ pg.pin_count = 1) ∧
        (id ≠ leaf → pg.latch = 0 ∧ pg.pin_count = 0)) ∧
      (k ≠ 0 → (lastState t0 tr).root_latch_cnt = 0 ∧ (lastState t0 tr).root_latch = 0) := by
  obtain ⟨q1, q2, q3, q4⟩ := quiescent_fields t0 hq
  have hframes : ∀ s c, ReadAt t0 s c → ∀ id pg, getPage s id = some pg →
      (id = c → pg.latch = 1 ∧ pg.pin_count = 1) ∧ (id ≠ c → pg.latch = 0 ∧ pg.pin_count = 0) := by
    intro s c hr id pg hg
    rw [hr.2.2 id] at hg
    cases hg0 : getPage t0 id with
    | none => simp [hg0] at hg
    | some pg0 =>
      have hq0 := quiescent_page t0 hq id pg0 hg0
      simp only [hg0, Option.map_some', Option.some.injEq] at hg
      constructor
      · intro e
        rw [if_pos e] at hg
        subst hg
        exact ⟨rfl, rfl⟩
      · intro e
        rw [if_neg e] at hg
        subst hg
        exact ⟨hq0.2, hq0.1⟩
  cases hp0 : getPage t0 t0.root_page_id with
  | none =>
    cases hfuel : t0.pages.length with
    | zero => rw [hfuel] at hd; simp [descend] at hd
    | succ n => rw [hfuel] at hd; simp [descend, hp0] at hd
  | some pg =>
    have hpg := quiescent_page t0 hq _ pg hp0
    obtain ⟨t1, ht1⟩ : ∃ t1, t1 =
        { t0 with root_latch := t0.root_latch + 1, root_latch_cnt := t0.root_latch_cnt + 1 } :=
      ⟨_, rfl⟩
    have hl1 : LatchRoot t0 OP_TYPE.READ = Except.ok t1 := by
      unfold LatchRoot
      rw [if_pos rfl, if_neg (by omega), ht1]
      rfl
    have hg1 : ∀ id, getPage t1 id = getPage t0 id := by
      intro id; rw [ht1]; exact getPage_congr t0 _ rfl id
    have hroot1 : t1.root_page_id = t0.root_page_id := by rw [ht1]
    have hb1 : Balanced 0 OP_TYPE.READ t1 := by
      rw [ht1]
      exact Or.inr ⟨by show t0.root_latch_cnt + 1 = 1; omega,
        Or.inl ⟨rfl, le_refl _, by show t0.root_latch + 1 = 0 + 1; omega⟩⟩
    have hp1 : getPage t1 t0.root_page_id = some pg := by rw [hg1, hp0]
    obtain ⟨t2, ht2⟩ : ∃ t2, t2 = setPage t1 t0.root_page_id
        { pg with pin_count := pg.pin_count + 1 } := ⟨_, rfl⟩
    have hf2 : FetchPage t1 t1.root_page_id = some t2 := by
      rw [hroot1, FetchPage_eq t1 _ pg hp1, ht2]
    have hg2 : ∀ id, getPage t2 id =
        if id = t0.root_page_id then some { pg with pin_count := pg.pin_count + 1 }
        else getPage t1 id := by
      intro id; rw [ht2]; exact getPage_setPage t1 _ id pg _ hp1
    have hroot2 : t2.root_page_id = t0.root_page_id := by rw [ht2]; exact hroot1
    obtain ⟨t3, ht3⟩ : ∃ t3, t3 = setPage t2 t0.root_page_id
        { pin_count := pg.pin_count + 1, latch := pg.latch + 1, data := pg.data } := ⟨_, rfl⟩
    have hl3 : LatchPage t2 t0.root_page_id OP_TYPE.READ = Except.ok t3 := by
      rw [LatchPage_read t2 _ _ ((hg2 _).trans (if_pos rfl)) (by simp [hpg.2]), ht3]
    have hg3 : ∀ id, getPage t3 id =
        if id = t0.root_page_id then
          some { pin_count := pg.pin_count + 1, latch := pg.latch + 1, data := pg.data }
        else getPage t2 id := by
      intro id; rw [ht3]; exact getPage_setPage t2 _ id _ _ ((hg2 _).trans (if_pos rfl))
    have hlen3 : t3.pages.length = t0.pages.length := by
      rw [ht3, setPage_pages_length, ht2, setPage_pages_length, ht1]
    have hr3 : ReadAt t0 t3 t0.root_page_id := by
      refine ⟨hlen3, by rw [ht3]; exact hroot2, ?_⟩
      intro id
      rw [hg3]
      by_cases e : id = t0.root_page_id
      · subst e
        rw [if_pos rfl, hp0]
        simp only [Option.map_some', if_true, Option.some.injEq]
        cases pg
        simp_all
      · rw [if_neg e, hg2, if_neg e, hg1]
        cases getPage t0 id <;> simp [e]
    have hb3 : Balanced 0 OP_TYPE.READ t3 :=
      Balanced_same 0 _ t1 t3 (by rw [ht3, ht2]; exact ⟨rfl, rfl⟩) hb1
    have hc : ∀ s, RootLatchSame t1 s → s.root_latch_cnt ≤ 1 := by
      intro s hs
      rw [hs.2, ht1]
      show t0.root_latch_cnt + 1 ≤ 1
      omega
    obtain ⟨tr, p1, p2, p3, p4, p5, p6⟩ := read_trace_loop t0 hq key t3.pages.length t3
      t0.root_page_id leaf k hr3 hb3 (by rw [hlen3]; exact hd)
    have htrace : readTrace t0 key =
        Except.ok ((t1, none) :: (t2, none) :: (t3, none) :: tr, leaf) := by
      unfold readTrace
      simp only [hl1, bind, Except.bind, hf2, hroot2, hl3, p1, pure, Except.pure]
    have hlast : lastState t0 ((t1, none) :: (t2, none) :: (t3, none) :: tr) = lastState t3 tr := by
      rw [lastState_cons, lastState_cons, lastState_cons]
    have hfind := readTrace_faithful t0 key
    rw [htrace] at hfind
    simp only [Except.map] at hfind
    refine ⟨_, htrace, hfind.symm, ?_, ?_, ?_, ?_, ?_⟩
    · intro e he
      simp only [List.mem_cons] at he
      rcases he with rfl | rfl | rfl | he
      · exact ⟨latched_off_two t0 _ hq t0.root_page_id t0.root_page_id
          (fun id _ _ => hg1 id), hc _ (RootLatchSame_refl _)⟩
      · exact ⟨latched_off_two t0 _ hq t0.root_page_id t0.root_page_id
          (fun id h1 _ => by rw [hg2, if_neg h1, hg1]), hc _ (by rw [ht2]; exact ⟨rfl, rfl⟩)⟩
      · exact ⟨latched_off_two t0 _ hq t0.root_page_id t0.root_page_id
          (fun id h1 _ => by rw [hg3, if_neg h1, hg2, if_neg h1, hg1]),
          hc _ (by rw [ht3, ht2]; exact ⟨rfl, rfl⟩)⟩
      · exact p2 e he
    · intro s c he
      simp only [List.mem_cons, Prod.mk.injEq, reduceCtorEq, and_false, false_or] at he
      obtain ⟨r1, r2, r3⟩ := p3 s c he
      exact ⟨r2, r3, hframes s c r1⟩
    · rw [hlast, p4.2.2 leaf]
      obtain ⟨lf, hlf⟩ : ∃ lf, getPage t0 leaf = some lf := by
        have := descend_leaf t0 key _ _ _ _ hd
        obtain ⟨lf, hlf, _⟩ := this
        exact ⟨lf, hlf⟩
      rw [hlf]
      exact ⟨_, rfl⟩
    · rw [hlast]
      exact hframes _ leaf p4
    · intro hk
      rw [hlast]
      apply p6
      intro htr
      have hlp := p5 htr
      subst htr
      -- the root is the leaf, so the depth is 0
      obtain ⟨lf, hlf, hleaf⟩ := descend_leaf t0 key _ _ _ _ hd
      rw [← hlp] at hd
      cases hfuel : t0.pages.length with
      | zero => rw [hfuel] at hd; simp [descend] at hd
      | succ n =>
        rw [hfuel] at hd
        simp [descend, hlf, hleaf] at hd
        exact hk hd.symm

theorem read_crabbing_witness :
    ∃ tr, readTrace siblingTree 25 = Except.ok (tr, 3) ∧
      FindLeafPageCrabbing siblingTree 25 OP_TYPE.READ = Except.ok (lastState siblingTree tr, 3) ∧
      (∀ e ∈ tr, (latchedPages e.1).length ≤ 2 ∧ e.1.root_latch_cnt ≤ 1) ∧
      (∀ s c, (s, some c) ∈ tr → s.root_latch_cnt = 0 ∧ s.root_latch = 0 ∧
        ∀ id pg, getPage s id = some pg →
          (id = c → pg.latch = 1 ∧ pg.pin_count = 1) ∧
          (id ≠ c → pg.latch = 0 ∧ pg.pin_count = 0)) ∧
      (∃ pg, getPage (lastState siblingTree tr) 3 = some pg) ∧
      (∀ id pg, getPage (lastState siblingTree tr) id = some pg →
        (id = 3 → pg.latch = 1 ∧ pg.pin_count = 1) ∧
        (id ≠ 3 → pg.latch = 0 ∧ pg.pin_count = 0)) ∧
      ((2 : Nat) ≠ 0 → (lastState siblingTree tr).root_latch_cnt = 0 ∧
        (lastState siblingTree tr).root_latch = 0) :=
  read_crabbing siblingTree 25 3 2 (by decide!) (by decide!)

/-! ## Lemmas for the iterator and commit claims -/

/-- A state that differs from `t0` in the page table only, frame by frame as after
`FetchPage t0 leaf`, is the state after `FetchPage t0 leaf`. -/
theorem FetchPage_of_frames (t0 t : BPlusTree) (leaf : Int) (p : Page)
    (hp : getPage t0 leaf = some p) (ho : OnlyPages t0 t)
    (hlen : t.pages.length = t0.pages.length)
    (hg : ∀ id, getPage t id =
      if id = leaf then some { p with pin_count := p.pin_count + 1 } else getPage t0 id) :
    FetchPage t0 leaf = some t := by
  rw [FetchPage_eq t0 leaf p hp]
  congr 1
  unfold OnlyPages at ho
  apply BPlusTree.ext_getPage
  · rw [ho]; rfl
  · rw [ho]; rfl
  · rw [ho]; rfl
  · rw [ho]; rfl
  · rw [ho]; rfl
  · rw [ho]; rfl
  · rw [ho]; rfl
  · rw [ho]; rfl
  · rw [ho]; rfl
  · rw [setPage_pages_length, hlen]
  · intro id
    rw [getPage_setPage t0 leaf id p _ hp, hg]

/-- The frames after `FetchPage t0 leaf`. -/
theorem FetchPage_frames (t0 t : BPlusTree) (leaf : Int) (h : FetchPage t0 leaf = some t) :
    ∃ p, getPage t0 leaf = some p ∧ OnlyPages t0 t ∧ t.pages.length = t0.pages.length ∧
      ∀ id, getPage t id =
        if id = leaf then some { p with pin_count := p.pin_count + 1 } else getPage t0 id := by
  obtain ⟨p, hp, rfl⟩ := FetchPage_eq_some t0 t leaf h
  exact ⟨p, hp, rfl, setPage_pages_length _ _ _, fun id => getPage_setPage t0 leaf id p _ hp⟩

/-- Hand-over-hand pinning: with `page` pinned on top of `t0`, fetching `child` and unpinning
`page` leaves `child` pinned on top of `t0`. -/
theorem FetchPage_handover (t0 t t2 : BPlusTree) (page child : Int)
    (hpins : ∀ id pg, getPage t0 id = some pg → 0 ≤ pg.pin_count)
    (h1 : FetchPage t0 page = some t) (h2 : FetchPage t child = some t2) :
    FetchPage t0 child = some (UnpinPage t2 page false) := by
  obtain ⟨p, hp, o1, l1, g1⟩ := FetchPage_frames t0 t page h1
  obtain ⟨c, hc, o2, l2, g2⟩ := FetchPage_frames t t2 child h2
  have hp0 := hpins page p hp
  by_cases e : child = page
  · subst e
    rw [g1, if_pos rfl] at hc
    cases hc
    have hg2 : getPage t2 child = some { p with pin_count := p.pin_count + 1 + 1 } := by
      rw [g2, if_pos rfl]
    apply FetchPage_of_frames t0 _ child p hp
      (OnlyPages_trans _ _ _ (OnlyPages_trans _ _ _ o1 o2) (OnlyPages_UnpinPage _ _ _))
      (by rw [(UnpinPage_fields _ _ _).1, l2, l1])
    intro id
    rw [UnpinPage_pos t2 child _ false hg2 (by show p.pin_count + 1 + 1 > 0; omega),
      getPage_setPage t2 child id _ _ hg2]
    by_cases e2 : id = child
    · rw [if_pos e2, if_pos e2]
      congr 2
      show p.pin_count + 1 + 1 - 1 = p.pin_count + 1
      omega
    · rw [if_neg e2, if_neg e2, g2, if_neg e2, g1, if_neg e2]
  · rw [g1, if_neg e] at hc
    have hg2 : getPage t2 page = some { p with pin_count := p.pin_count + 1 } := by
      rw [g2, if_neg (Ne.symm e), g1, if_pos rfl]
    apply FetchPage_of_frames t0 _ child c hc
      (OnlyPages_trans _ _ _ (OnlyPages_trans _ _ _ o1 o2) (OnlyPages_UnpinPage _ _ _))
      (by rw [(UnpinPage_fields _ _ _).1, l2, l1])
    intro id
    rw [UnpinPage_pos t2 page _ false hg2 (by show p.pin_count + 1 > 0; omega),
      getPage_setPage t2 page id _ _ hg2]
    by_cases e2 : id = page
    · subst e2
      rw [if_pos rfl, if_neg (Ne.symm e), hp]
      congr 1
      cases p
      simp
    · rw [if_neg e2, g2]
      by_cases e3 : id = child
      · rw [if_pos e3, if_pos e3]
      · rw [if_neg e3, if_neg e3, g1, if_neg e2]

/-- Unpinning the page pinned on top of `t0` gives `t0` back. -/
theorem UnpinPage_FetchPage (t0 t : BPlusTree) (page : Int)
    (hpins : ∀ id pg, getPage t0 id = some pg → 0 ≤ pg.pin_count)
    (h1 : FetchPage t0 page = some t) : UnpinPage t page false = t0 := by
  obtain ⟨p, hp, o1, l1, g1⟩ := FetchPage_frames t0 t page h1
  have hp0 := hpins page p hp
  have hg : getPage t page = some { p with pin_count := p.pin_count + 1 } := by
    rw [g1, if_pos rfl]
  have o2 := OnlyPages_trans _ _ _ o1 (OnlyPages_UnpinPage t page false)
  unfold OnlyPages at o2
  apply BPlusTree.ext_getPage
  · rw [o2]
  · rw [o2]
  · rw [o2]
  · rw [o2]
  · rw [o2]
  · rw [o2]
  · rw [o2]
  · rw [o2]
  · rw [o2]
  · rw [(UnpinPage_fields _ _ _).1, l1]
  · intro id
    rw [UnpinPage_pos t page _ false hg (by show p.pin_count + 1 > 0; omega),
      getPage_setPage t page id _ _ hg]
    by_cases e2 : id = page
    · subst e2
      rw [if_pos rfl, hp]
      congr 1
      cases p
      simp
    · rw [if_neg e2, g1, if_neg e2]

/-- The descent of `FindLeafPage` keeps one page pinned on top of `t0` and ends on a leaf. -/
theorem FindLeafPageLoop_pinned (t0 : BPlusTree)
    (hids : ∀ id pg, getPage t0 id = some pg → pg.data.page_id = id)
    (hpins : ∀ id pg, getPage t0 id = some pg → 0 ≤ pg.pin_count) (key : Int) ( lm : Bool) :
    ∀ (fuel : Nat) (t : BPlusTree) (page : Int) (t1 : BPlusTree) (leaf : Int),
      FetchPage t0 page = some t →
      FindLeafPageLoop key lm fuel t page = Except.ok (t1, leaf) →
      FetchPage t0 leaf = some t1 ∧ ∃ pg, getPage t0 leaf = some pg ∧ pg.data.IsLeafPage = true := by
  intro fuel
  induction fuel with
  | zero => intro t page t1 leaf _ h; simp [FindLeafPageLoop, throw, throwThe, MonadExceptOf.throw] at h
  | succ fuel ih =>
    intro t page t1 leaf hf h
    obtain ⟨p, hp, _, _, g1⟩ := FetchPage_frames t0 t page hf
    have hn : getNode t page = Except.ok p.data := by
      simp [getNode, g1 page, pure, Except.pure]
    unfold FindLeafPageLoop at h
    simp only [hn, bind, Except.bind] at h
    by_cases hleaf : p.data.IsLeafPage = true
    · simp only [hleaf, if_true, pure, Except.pure, Except.ok.injEq, Prod.mk.injEq] at h
      obtain ⟨rfl, rfl⟩ := h
      exact ⟨hf, p, hp, hleaf⟩
    · simp only [hleaf, Bool.false_eq_true, if_false] at h
      have step : ∀ child, (match FetchPage t child with
            | none => (throw Err.nullptr : Except Err (BPlusTree × Int))
            | some t => FindLeafPageLoop key lm fuel (UnpinPage t p.data.page_id false) child) =
            Except.ok (t1, leaf) →
          FetchPage t0 leaf = some t1 ∧
            ∃ pg, getPage t0 leaf = some pg ∧ pg.data.IsLeafPage = true := by
        intro child h
        cases hf2 : FetchPage t child with
        | none => simp only [hf2] at h; cases h
        | some t2 =>
          simp only [hf2] at h
          rw [hids page p hp] at h
          exact ih _ child t1 leaf (FetchPage_handover t0 t t2 page child hpins hf hf2) h
      cases lm with
      | true =>
        simp only [Bool.not_true, Bool.false_eq_true, if_false, pure, Except.pure] at h
        exact step _ h
      | false =>
        simp only [Bool.not_false, if_true] at h
        cases hc : p.data.Lookup key with
        | none => simp only [hc] at h; cases h
        | some child =>
          simp only [hc, pure, Except.pure] at h
          exact step _ h

theorem FindLeafPage_pinned (t0 : BPlusTree)
    (hids : ∀ id pg, getPage t0 id = some pg → pg.data.page_id = id)
    (hpins : ∀ id pg, getPage t0 id = some pg → 0 ≤ pg.pin_count) (key : Int) ( lm : Bool)
    (t1 : BPlusTree) (leaf : Int) (h : FindLeafPage t0 key lm = Except.ok (t1, leaf)) :
    FetchPage t0 leaf = some t1 ∧ ∃ pg, getPage t0 leaf = some pg ∧ pg.data.IsLeafPage = true := by
  unfold FindLeafPage at h
  cases hf : FetchPage t0 t0.root_page_id with
  | none => simp only [hf] at h; cases h
  | some t =>
    simp only [hf] at h
    have hr : t.root_page_id = t0.root_page_id := OnlyPages_root _ _ (OnlyPages_FetchPage _ _ _ hf)
    rw [hr] at h
    exact FindLeafPageLoop_pinned t0 hids hpins key lm _ t _ t1 leaf hf h

/-- One `operator++` of an iterator that holds its leaf pinned on top of `t0`: afterwards it
holds its (new) leaf pinned on top of `t0`. -/
theorem next_pinned (t0 : BPlusTree)
    (hids : ∀ id pg, getPage t0 id = some pg → pg.data.page_id = id)
    (hpins : ∀ id pg, getPage t0 id = some pg → 0 ≤ pg.pin_count)
    (t t' : BPlusTree) (it it' : IndexIterator) (leaf : Int)
    (hl : it.leaf_page_ = some leaf) (hf : FetchPage t0 leaf = some t)
    (hok : it.next t = Except.ok (t', it')) :
    ∃ leaf', it'.leaf_page_ = some leaf' ∧ FetchPage t0 leaf' = some t' ∧ it'.bpm_ = it.bpm_ := by
  obtain ⟨p, hp, _, _, g1⟩ := FetchPage_frames t0 t leaf hf
  have hn : getNode t leaf = Except.ok p.data := by
    simp [getNode, g1 leaf, pure, Except.pure]
  unfold IndexIterator.next at hok
  by_cases he : it.isEnd = true
  · simp only [he, if_true, pure, Except.pure, Except.ok.injEq, Prod.mk.injEq] at hok
    obtain ⟨rfl, rfl⟩ := hok
    exact ⟨leaf, hl, hf, rfl⟩
  · simp only [he, Bool.false_eq_true, if_false, hl, hn, bind, Except.bind] at hok
    by_cases h1 : it.index_ < p.data.GetSize - 1
    · simp only [h1, if_true, pure, Except.pure, Except.ok.injEq, Prod.mk.injEq] at hok
      obtain ⟨rfl, rfl⟩ := hok
      exact ⟨leaf, rfl, hf, rfl⟩
    · simp only [h1, if_false] at hok
      by_cases h2 : p.data.next_page_id = INVALID_PAGE_ID
      · simp only [h2, if_true, pure, Except.pure, Except.ok.injEq, Prod.mk.injEq] at hok
        obtain ⟨rfl, rfl⟩ := hok
        exact ⟨leaf, rfl, hf, rfl⟩
      · simp only [h2, if_false] at hok
        cases hf2 : FetchPage t p.data.next_page_id with
        | none => simp only [hf2] at hok; cases hok
        | some t2 =>
          simp only [hf2, pure, Except.pure, Except.ok.injEq, Prod.mk.injEq] at hok
          obtain ⟨rfl, rfl⟩ := hok
          rw [hids leaf p hp]
          exact ⟨_, rfl, FetchPage_handover t0 t t2 leaf _ hpins hf hf2, rfl⟩

theorem advance_pinned (t0 : BPlusTree)
    (hids : ∀ id pg, getPage t0 id = some pg → pg.data.page_id = id)
    (hpins : ∀ id pg, getPage t0 id = some pg → 0 ≤ pg.pin_count) :
    ∀ (n : Nat) (t t' : BPlusTree) (it it' : IndexIterator) (leaf : Int),
      it.leaf_page_ = some leaf → FetchPage t0 leaf = some t →
      advance n t it = Except.ok (t', it') →
      ∃ leaf', it'.leaf_page_ = some leaf' ∧ FetchPage t0 leaf' = some t' ∧
        it'.bpm_ = it.bpm_ := by
  intro n
  induction n with
  | zero =>
    intro t t' it it' leaf hl hf h
    simp only [advance, pure, Except.pure, Except.ok.injEq, Prod.mk.injEq] at h
    obtain ⟨rfl, rfl⟩ := h
    exact ⟨leaf, hl, hf, rfl⟩
  | succ n ih =>
    intro t t' it it' leaf hl hf h
    unfold advance at h
    cases hn : it.next t with
    | error e => simp only [hn, bind, Except.bind] at h; cases h
    | ok r =>
      obtain ⟨t1, it1⟩ := r
      simp only [hn, bind, Except.bind] at h
      obtain ⟨l1, a1, a2, a3⟩ := next_pinned t0 hids hpins t t1 it it1 leaf hl hf hn
      obtain ⟨l2, b1, b2, b3⟩ := ih t1 t' it1 it' l1 a1 a2 h
      exact ⟨l2, b1, b2, b3.trans a3⟩

/-- Destroying an iterator that holds its leaf pinned on top of `t0` gives `t0` back. -/
theorem drop_pinned (t0 : BPlusTree)
    (hids : ∀ id pg, getPage t0 id = some pg → pg.data.page_id = id)
    (hpins : ∀ id pg, getPage t0 id = some pg → 0 ≤ pg.pin_count)
    (t : BPlusTree) (it : IndexIterator) (leaf : Int) (hb : it.bpm_ = true)
    (hl : it.leaf_page_ = some leaf) (hf : FetchPage t0 leaf = some t) :
    it.drop t = Except.ok t0 := by
  obtain ⟨p, hp, _, _, g1⟩ := FetchPage_frames t0 t leaf hf
  have hn : getNode t leaf = Except.ok p.data := by
    simp [getNode, g1 leaf, pure, Except.pure]
  unfold IndexIterator.drop
  simp only [hb, if_true, hl, hn, bind, Except.bind, pure, Except.pure]
  rw [hids leaf p hp, UnpinPage_FetchPage t0 t leaf hpins hf]

theorem leafChainOK_spec (t : BPlusTree) (h : leafChainOK t = true) (id : Int) (pg : Page)
    (hg : getPage t id = some pg) (hl : pg.data.IsLeafPage = true) :
    pg.data.next_page_id = INVALID_PAGE_ID ∨
      ∃ q, getPage t pg.data.next_page_id = some q ∧ q.data.IsLeafPage = true := by
  unfold leafChainOK at h
  rw [List.all_eq_true] at h
  have h1 := h (some pg) (getPage_mem t id pg hg)
  simp only [hl, Bool.not_true, Bool.false_or, Bool.or_eq_true, beq_iff_eq] at h1
  rcases h1 with h1 | h1
  · exact Or.inl h1
  · right
    cases hq : getPage t pg.data.next_page_id with
    | none => simp [hq] at h1
    | some q =>
      simp only [hq] at h1
      exact ⟨q, rfl, h1⟩

/-- In a pool whose leaf chain is sound, `operator++` of an iterator that holds a leaf pinned
on top of `t0` returns, and the iterator is again bound to a leaf. -/
theorem next_total (t0 : BPlusTree) (hchain : leafChainOK t0 = true)
    (t : BPlusTree) (it : IndexIterator) (leaf : Int)
    (hl : it.leaf_page_ = some leaf) (hf : FetchPage t0 leaf = some t)
    (hleaf : ∃ pg, getPage t0 leaf = some pg ∧ pg.data.IsLeafPage = true) :
    ∃ t' it' leaf', it.next t = Except.ok (t', it') ∧ it'.leaf_page_ = some leaf' ∧
      ∃ pg, getPage t0 leaf' = some pg ∧ pg.data.IsLeafPage = true := by
  obtain ⟨p, hp, _, _, g1⟩ := FetchPage_frames t0 t leaf hf
  obtain ⟨p', hp', hlf⟩ := hleaf
  rw [hp] at hp'
  cases hp'
  have hn : getNode t leaf = Except.ok p.data := by
    simp [getNode, g1 leaf, pure, Except.pure]
  unfold IndexIterator.next
  by_cases he : it.isEnd = true
  · simp only [he, if_true, pure, Except.pure]
    exact ⟨_, _, leaf, rfl, hl, p, hp, hlf⟩
  · simp only [he, Bool.false_eq_true, if_false, hl, hn, bind, Except.bind]
    by_cases h1 : it.index_ < p.data.GetSize - 1
    · simp only [h1, if_true, pure, Except.pure]
      exact ⟨_, _, leaf, rfl, rfl, p, hp, hlf⟩
    · simp only [h1, if_false]
      by_cases h2 : p.data.next_page_id = INVALID_PAGE_ID
      · simp only [h2, if_true, pure, Except.pure]
        exact ⟨_, _, leaf, rfl, rfl, p, hp, hlf⟩
      · simp only [h2, if_false]
        rcases leafChainOK_spec t0 hchain leaf p hp hlf with h3 | ⟨q, hq, hql⟩
        · exact absurd h3 h2
        · have hq' : ∃ q', getPage t p.data.next_page_id = some q' := by
            rw [g1]
            by_cases e : p.data.next_page_id = leaf
            · rw [if_pos e]; exact ⟨_, rfl⟩
            · rw [if_neg e]; exact ⟨q, hq⟩
          obtain ⟨q', hq'⟩ := hq'
          rw [FetchPage_eq t _ q' hq']
          exact ⟨_, _, _, rfl, rfl, q, hq, hql⟩

theorem advance_total (t0 : BPlusTree)
    (hids : ∀ id pg, getPage t0 id = some pg → pg.data.page_id = id)
    (hpins : ∀ id pg, getPage t0 id = some pg → 0 ≤ pg.pin_count)
    (hchain : leafChainOK t0 = true) :
    ∀ (n : Nat) (t : BPlusTree) (it : IndexIterator) (leaf : Int),
      it.leaf_page_ = some leaf → FetchPage t0 leaf = some t →
      (∃ pg, getPage t0 leaf = some pg ∧ pg.data.IsLeafPage = true) →
      ∃ t' it', advance n t it = Except.ok (t', it') := by
  intro n
  induction n with
  | zero => intro t it leaf _ _ _; exact ⟨t, it, rfl⟩
  | succ n ih =>
    intro t it leaf hl hf hleaf
    obtain ⟨t1, it1, l1, a1, a2, a3⟩ := next_total t0 hchain t it leaf hl hf hleaf
    obtain ⟨l2, b1, b2, _⟩ := next_pinned t0 hids hpins t t1 it it1 leaf hl hf a1
    rw [a2] at b1
    cases b1
    obtain ⟨t2, it2, c⟩ := ih t1 it1 l1 a2 b2 a3
    refine ⟨t2, it2, ?_⟩
    unfold advance
    simp only [a1, bind, Except.bind]
    exact c

theorem Committable_NoLatch (t t' : BPlusTree) (hk : Committable t) (h : NoLatch t t') :
    Committable t' := by
  obtain ⟨k1, k2, k3, k4⟩ := hk
  obtain ⟨_, e1, e2, e3⟩ := h
  refine ⟨by rw [e1]; exact k1, by rw [e2]; exact k2, ?_, ?_⟩
  · intro id hid
    rw [e1] at hid
    obtain ⟨pg, hp, hl⟩ := k3 id hid
    obtain ⟨p', hp', hl'⟩ := e3 id pg hp
    exact ⟨p', hp', hl'.trans hl⟩
  · intro id hid
    rw [e2] at hid
    rw [e1]
    exact k4 id hid

theorem Committable_AddIntoDeletedPageSet (t : BPlusTree) (id : Int) (hk : Committable t)
    (hid : id ∈ t.page_set) : Committable (AddIntoDeletedPageSet t id) := by
  obtain ⟨k1, k2, k3, k4⟩ := hk
  unfold AddIntoDeletedPageSet
  by_cases hm : id ∈ t.deleted_page_set
  · rw [if_pos hm]; exact ⟨k1, k2, k3, k4⟩
  · rw [if_neg hm]
    refine ⟨k1, ?_, k3, ?_⟩
    · show (t.deleted_page_set ++ [id]).Nodup
      rw [List.nodup_append]
      refine ⟨k2, List.nodup_singleton id, ?_⟩
      intro a ha hb
      rw [List.mem_singleton] at hb
      subst hb
      exact hm ha
    · intro x hx
      have hx' : x ∈ t.deleted_page_set ++ [id] := hx
      rw [List.mem_append, List.mem_singleton] at hx'
      rcases hx' with hx' | rfl
      · exact k4 x hx'
      · exact hid

theorem dataAt_LatchPage (t t' : BPlusTree) (id : Int) (op : OP_TYPE)
    (h : LatchPage t id op = Except.ok t') (id' : Int) : dataAt t' id' = dataAt t id' := by
  unfold LatchPage at h
  cases hg : getPage t id with
  | none => simp [hg] at h
  | some pg =>
    simp only [hg] at h
    split_ifs at h <;>
      (simp only [pure, Except.pure, Except.ok.injEq] at h
       subst h
       exact dataAt_setPage_same t id id' pg _ hg rfl)

theorem dataAt_fetchSibling (t t' : BPlusTree) (id : Int) (h : fetchSibling t id = Except.ok t')
    (id' : Int) : dataAt t' id' = dataAt t id' := by
  unfold fetchSibling at h
  cases hf : FetchPage t id with
  | none => simp [hf] at h
  | some t1 =>
    simp only [hf] at h
    obtain ⟨t2, h2, h⟩ := bind_ok _ _ _ h
    simp only [pure, Except.pure, Except.ok.injEq] at h
    subst h
    show dataAt t2 id' = _
    rw [dataAt_LatchPage t1 t2 id _ h2, dataAt_FetchPage t t1 id hf]

/-- The sibling fetch keeps the two sets committable: the sibling was not latched, so it was
not in the held set. -/
theorem Committable_fetchSibling (t t' : BPlusTree) (id : Int) (hk : Committable t)
    (h : fetchSibling t id = Except.ok t') :
    Committable t' ∧ id ∈ t'.page_set ∧ (∀ x ∈ t.page_set, x ∈ t'.page_set) ∧
      t'.page_set = t.page_set ++ [id] := by
  obtain ⟨k1, k2, k3, k4⟩ := hk
  unfold fetchSibling at h
  cases hf : FetchPage t id with
  | none => simp [hf] at h
  | some t1 =>
    simp only [hf] at h
    obtain ⟨t2, h2, h⟩ := bind_ok _ _ _ h
    simp only [pure, Except.pure, Except.ok.injEq] at h
    subst h
    obtain ⟨pg, hg, o1, _, g1⟩ := FetchPage_frames t t1 id hf
    have hg1 : getPage t1 id = some { pg with pin_count := pg.pin_count + 1 } := by
      rw [g1, if_pos rfl]
    have hl : pg.latch = 0 := by
      by_contra hl
      unfold LatchPage at h2
      simp only [hg1, reduceCtorEq, if_false, ne_eq, hl, not_false_eq_true, if_true] at h2
    rw [LatchPage_write t1 id _ OP_TYPE.DELETE (by decide) hg1 hl] at h2
    simp only [Except.ok.injEq] at h2
    subst h2
    have hset1 : t1.page_set = t.page_set := OnlyPages_held _ _ o1
    have hdel1 : t1.deleted_page_set = t.deleted_page_set := by
      unfold OnlyPages at o1; rw [o1]
    have hnot : id ∉ t.page_set := by
      intro hin
      obtain ⟨q, hq, hql⟩ := k3 id hin
      rw [hg] at hq
      cases hq
      omega
    have hps : (AddIntoPageSet (setPage t1 id
        { pin_count := pg.pin_count + 1, latch := -1, data := pg.data }) id).page_set =
        t.page_set ++ [id] := by
      show t1.page_set ++ [id] = _
      rw [hset1]
    refine ⟨⟨?_, ?_, ?_, ?_⟩, ?_, ?_, hps⟩
    · rw [hps, List.nodup_append]
      refine ⟨k1, List.nodup_singleton id, ?_⟩
      intro a ha hb
      rw [List.mem_singleton] at hb
      subst hb
      exact hnot ha
    · show t1.deleted_page_set.Nodup
      rw [hdel1]; exact k2
    · intro x hx
      rw [hps, List.mem_append, List.mem_singleton] at hx
      show ∃ q, getPage (setPage t1 id _) x = some q ∧ q.latch = -1
      rw [getPage_setPage t1 id x _ _ hg1]
      by_cases e : x = id
      · rw [if_pos e]; exact ⟨_, rfl, rfl⟩
      · rw [if_neg e, g1, if_neg e]
        rcases hx with hx | hx
        · exact k3 x hx
        · exact absurd hx e
    · intro x hx
      have hx' : x ∈ t1.deleted_page_set := hx
      rw [hdel1] at hx'
      rw [hps, List.mem_append]
      exact Or.inl (k4 x hx')
    · rw [hps]; simp
    · intro x hx
      rw [hps, List.mem_append]
      exact Or.inl hx

theorem Above_refl (h : Int → Nat) (k : Nat) (t : BPlusTree) : Above h k t t :=
  fun _ _ _ hn => hn

theorem Above_trans (h : Int → Nat) (k : Nat) (t t1 t2 : BPlusTree) (h1 : Above h k t t1)
    (h2 : Above h k t1 t2) : Above h k t t2 :=
  fun id n hk hn => h2 id n hk (h1 id n hk hn)

theorem Above_mono (h : Int → Nat) (k k' : Nat) (t t' : BPlusTree) (hk : k ≤ k')
    (h1 : Above h k t t') : Above h k' t t' :=
  fun id n hlt hn => h1 id n (by omega) hn

theorem Above_of_eq (h : Int → Nat) (k : Nat) (t t' : BPlusTree)
    (he : ∀ id, dataAt t' id = dataAt t id) : Above h k t t' :=
  fun id n _ hn => by rw [he]; exact hn

theorem Above_setNode (h : Int → Nat) (k : Nat) (t : BPlusTree) (id : Int) (n : Node)
    (hid : h id ≤ k) : Above h k t (setNode t id n) := by
  intro id' n' hk hn
  rw [dataAt_setNode, if_neg (by intro e; subst e; omega)]
  exact hn

/-- The internal `MoveAllTo` changes the two pages and the children it moves, none of them
above the level of the two pages. -/
theorem Above_MoveAllTo (h : Int → Nat) (k : Nat) (t t' : BPlusTree) (self recipient key : Int)
    (hs : Str h t) (hself : h self ≤ k) (hrec : h recipient ≤ k)
    (hme : ∀ me, dataAt t self = some me → me.IsLeafPage = false)
    (hok : MoveAllTo t self recipient key = Except.ok t') : Above h k t t' := by
  unfold MoveAllTo at hok
  obtain ⟨r, hr0, hok⟩ := bind_ok _ _ _ hok
  have hr := (getNode_ok_iff _ _ _).1 hr0
  obtain ⟨me, hme0, hok⟩ := bind_ok _ _ _ hok
  have hme1 := (getNode_ok_iff _ _ _).1 hme0
  obtain ⟨t1, h1, hok⟩ := bind_ok _ _ _ hok
  split_ifs at hok
  obtain ⟨r2, _, hok⟩ := bind_ok _ _ _ hok
  obtain ⟨me2, _, hok⟩ := bind_ok _ _ _ hok
  simp only [pure, Except.pure, Except.ok.injEq] at hok
  subst hok
  have a1 : Above h k t t1 := by
    intro id n hk hn
    obtain ⟨_, hd⟩ := CopyNFrom_data t t1 recipient _ _ r hr h1
    obtain ⟨n', hn', e1, e2, e3, e4, e5, e6, e7, _⟩ := hd id n hn
    have hne : id ≠ recipient := by intro e; subst e; omega
    have hnot : id ∉ (slotsFrom me.array 0 me.GetSize).map Prod.snd := by
      intro hin
      rw [List.mem_map] at hin
      obtain ⟨item, hitem, rfl⟩ := hin
      have hso := all_slotsFrom (slotOK h t.pages.length (h self)) (slotOK_zero _ _ _)
        me.array 0 me.GetSize ((hs.2 self me hme1).slots (hme me hme1)) item hitem
      have := (slotOK_exists h t hs _ item hso n hn).2.2
      omega
    rw [if_neg hne] at e1
    rw [if_neg hnot] at e6
    have e7' := e7 hne
    rw [hn']
    congr 1
    cases n
    cases n'
    simp_all
  exact Above_trans h k _ _ _ a1
    (Above_trans h k _ _ _ (Above_setNode h k _ _ _ hrec) (Above_setNode h k _ _ _ hself))

/-- The chain of held ancestors survives a step that leaves the pages above height `k`
unchanged and drops no page from the held set, for a page above height `k`. -/
theorem HeldAbove_mono (h : Int → Nat) (k : Nat) (t t' : BPlusTree) (hs : Str h t)
    (ha : Above h k t t') (hsub : ∀ x ∈ t.page_set, x ∈ t'.page_set) :
    ∀ (ups : List Int) (z : Int), k < h z → HeldAbove t z ups → HeldAbove t' z ups := by
  intro ups
  induction ups with
  | nil =>
    intro z hz hc
    obtain ⟨n, hn, hr⟩ := hc
    exact ⟨n, ha z n hz hn, hr⟩
  | cons w rest ih =>
    intro z hz hc
    obtain ⟨n, hn, hr, hp, hrest⟩ := hc
    refine ⟨n, ha z n hz hn, hr, hp, ?_⟩
    intro hsz
    obtain ⟨hw, hcw⟩ := hrest hsz
    have hh := (GoodNode_parent_of_not_root h _ _ _ z n (hs.2 z n hn) (by simp [hr])).2.2
    rw [hp] at hh
    exact ⟨hsub w hw, ih w (by omega) hcw⟩

theorem Touch_of_data (P : Int → Prop) (t t' : BPlusTree)
    (h : ∀ id n, dataAt t id = some n → dataAt t' id = some n) : Touch P t t' :=
  fun id n hn => ⟨n, h id n hn, Or.inr rfl⟩

theorem Touch_refl (P : Int → Prop) (t : BPlusTree) : Touch P t t :=
  Touch_of_data P t t fun _ _ h => h

theorem Touch_trans (P : Int → Prop) (t t1 t2 : BPlusTree) (h1 : Touch P t t1)
    (h2 : Touch P t1 t2) : Touch P t t2 := by
  intro id n hn
  obtain ⟨n1, hn1, e1⟩ := h1 id n hn
  obtain ⟨n2, hn2, e2⟩ := h2 id n1 hn1
  refine ⟨n2, hn2, ?_⟩
  rcases e1 with e1 | e1
  · exact Or.inl e1
  · rcases e2 with e2 | e2
    · exact Or.inl e2
    · right
      rw [e2, e1]

theorem Touch_mono (P Q : Int → Prop) (t t' : BPlusTree) (hpq : ∀ x, P x → Q x)
    (h : Touch P t t') : Touch Q t t' := by
  intro id n hn
  obtain ⟨n', hn', e⟩ := h id n hn
  exact ⟨n', hn', e.imp (hpq id) fun x => x⟩

/-- A write to a page of `P`. -/
theorem Touch_setNode (P : Int → Prop) (t : BPlusTree) (a : Int) (m : Node) (ha : P a) :
    Touch P t (setNode t a m) := by
  intro id n hn
  rw [dataAt_setNode]
  by_cases e : id = a
  · subst e
    rw [if_pos rfl, hn]
    exact ⟨m, rfl, Or.inl ha⟩
  · rw [if_neg e]
    exact ⟨n, hn, Or.inr rfl⟩

/-- A write of the parent id of a page. -/
theorem Touch_setNode_parent (P : Int → Prop) (t : BPlusTree) (a p : Int) (c : Node)
    (hc : getNode t a = Except.ok c) :
    Touch P t (setNode t a { c with parent_page_id := p }) := by
  have hc' := (getNode_ok_iff _ _ _).1 hc
  intro id n hn
  rw [dataAt_setNode]
  by_cases e : id = a
  · subst e
    rw [if_pos rfl, hn]
    rw [hc'] at hn
    cases hn
    exact ⟨_, rfl, Or.inr rfl⟩
  · rw [if_neg e]
    exact ⟨n, hn, Or.inr rfl⟩

theorem Touch_FetchPage (P : Int → Prop) (t t' : BPlusTree) (a : Int)
    (h : FetchPage t a = some t') : Touch P t t' :=
  Touch_of_data P t t' fun id n hn => by rw [dataAt_FetchPage t t' a h]; exact hn

theorem Touch_UnpinPage (P : Int → Prop) (t : BPlusTree) (a : Int) (d : Bool) :
    Touch P t (UnpinPage t a d) :=
  Touch_of_data P t _ fun id n hn => by rw [dataAt_UnpinPage]; exact hn

theorem Touch_NewPage (P : Int → Prop) (t : BPlusTree) : Touch P t (NewPage t).1 :=
  Touch_of_data P t _ fun id n hn => dataAt_NewPage_of_some t id n hn

theorem Touch_of_pages (P : Int → Prop) (t t' : BPlusTree) (h : t'.pages = t.pages) :
    Touch P t t' :=
  Touch_of_data P t t' fun id n hn => by rw [dataAt_congr_pages t t' h]; exact hn

theorem Touch_CopyNFromLoop (P : Int → Prop) (self : Int) (hs : P self) :
    ∀ (items : List MappingType) (i : Int) (t t' : BPlusTree),
      CopyNFromLoop self items i t = Except.ok t' → Touch P t t' := by
  intro items
  induction items with
  | nil =>
    intro i t t' h
    cases h
    exact Touch_refl P t
  | cons item items ih =>
    intro i t t' h
    unfold CopyNFromLoop at h
    cases hf : FetchPage t item.2 with
    | none => simp [hf] at h
    | some t1 =>
      simp only [hf] at h
      obtain ⟨me, _, h⟩ := bind_ok _ _ _ h
      obtain ⟨child, hc, h⟩ := bind_ok _ _ _ h
      obtain ⟨me2, _, h⟩ := bind_ok _ _ _ h
      exact Touch_trans _ _ _ _ (Touch_FetchPage P t t1 _ hf)
        (Touch_trans _ _ _ _ (Touch_setNode_parent P _ _ _ _ hc)
          (Touch_trans _ _ _ _ (Touch_UnpinPage P _ _ _)
            (Touch_trans _ _ _ _ (Touch_setNode P _ _ _ hs) (ih _ _ _ h))))

theorem Touch_CopyNFrom (P : Int → Prop) (t t' : BPlusTree) (self : Int)
    (items : List MappingType) (size : Int) (hs : P self)
    (h : CopyNFrom t self items size = Except.ok t') : Touch P t t' := by
  unfold CopyNFrom at h
  obtain ⟨t1, h1, h⟩ := bind_ok _ _ _ h
  obtain ⟨me, _, h⟩ := bind_ok _ _ _ h
  simp only [pure, Except.pure, Except.ok.injEq] at h
  subst h
  exact Touch_trans _ _ _ _ (Touch_CopyNFromLoop P self hs items 0 t t1 h1)
    (Touch_setNode P _ _ _ hs)

theorem Touch_MoveHalfTo (P : Int → Prop) (t t' : BPlusTree) (self recipient : Int)
    (hs : P self) (hr : P recipient)
    (h : MoveHalfTo t self recipient = Except.ok t') : Touch P t t' := by
  unfold MoveHalfTo at h
  obtain ⟨me, _, h⟩ := bind_ok _ _ _ h
  obtain ⟨t1, h1, h⟩ := bind_ok _ _ _ h
  obtain ⟨me2, _, h⟩ := bind_ok _ _ _ h
  simp only [pure, Except.pure, Except.ok.injEq] at h
  subst h
  exact Touch_trans _ _ _ _ (Touch_CopyNFrom P _ _ _ _ _ hr h1) (Touch_setNode P _ _ _ hs)

theorem Touch_MoveAllTo (P : Int → Prop) (t t' : BPlusTree) (self recipient key : Int)
    (hs : P self) (hr : P recipient)
    (h : MoveAllTo t self recipient key = Except.ok t') : Touch P t t' := by
  unfold MoveAllTo at h
  obtain ⟨r, _, h⟩ := bind_ok _ _ _ h
  obtain ⟨me, _, h⟩ := bind_ok _ _ _ h
  obtain ⟨t1, h1, h⟩ := bind_ok _ _ _ h
  split_ifs at h
  obtain ⟨r2, _, h⟩ := bind_ok _ _ _ h
  obtain ⟨me2, _, h⟩ := bind_ok _ _ _ h
  simp only [pure, Except.pure, Except.ok.injEq] at h
  subst h
  exact Touch_trans _ _ _ _ (Touch_CopyNFrom P _ _ _ _ _ hr h1)
    (Touch_trans _ _ _ _ (Touch_setNode P _ _ _ hr) (Touch_setNode P _ _ _ hs))

theorem Touch_CopyLastFrom (P : Int → Prop) (t t' : BPlusTree) (self : Int)
    (item : MappingType) (hs : P self)
    (h : CopyLastFrom t self item = Except.ok t') : Touch P t t' := by
  unfold CopyLastFrom at h
  obtain ⟨me, _, h⟩ := bind_ok _ _ _ h
  split_ifs at h
  simp only at h
  cases hf : FetchPage (setNode t self
      { me with array := slotSet me.array (me.GetSize - 1) item, size := me.GetSize + 1 })
      item.2 with
  | none => simp [hf] at h
  | some t1 =>
    simp only [hf] at h
    obtain ⟨me2, _, h⟩ := bind_ok _ _ _ h
    obtain ⟨child, hc, h⟩ := bind_ok _ _ _ h
    simp only [pure, Except.pure, Except.ok.injEq] at h
    subst h
    exact Touch_trans _ _ _ _ (Touch_setNode P _ _ _ hs)
      (Touch_trans _ _ _ _ (Touch_FetchPage P _ t1 _ hf)
        (Touch_trans _ _ _ _ (Touch_setNode_parent P _ _ _ _ hc) (Touch_UnpinPage P _ _ _)))

theorem Touch_CopyFirstFrom (P : Int → Prop) (t t' : BPlusTree) (self : Int)
    (item : MappingType) (hs : P self)
    (h : CopyFirstFrom t self item = Except.ok t') : Touch P t t' := by
  unfold CopyFirstFrom at h
  obtain ⟨me, _, h⟩ := bind_ok _ _ _ h
  simp only at h
  generalize hn : ({ me with
      array := slotSet (slotSet (Node.shiftUp (me.GetSize - 1).toNat me.GetSize me.array) 0
        (item.1, (slotAt (Node.shiftUp (me.GetSize - 1).toNat me.GetSize me.array) 0).2)) 1
        ((slotAt (slotSet (Node.shiftUp (me.GetSize - 1).toNat me.GetSize me.array) 0
          (item.1, (slotAt (Node.shiftUp (me.GetSize - 1).toNat me.GetSize me.array) 0).2))
          1).1, item.2),
      size := me.GetSize + 1 } : Node) = n at h
  cases hf : FetchPage (setNode t self n) item.2 with
  | none => simp [hf] at h
  | some t1 =>
    simp only [hf] at h
    obtain ⟨me2, _, h⟩ := bind_ok _ _ _ h
    obtain ⟨child, hc, h⟩ := bind_ok _ _ _ h
    simp only [pure, Except.pure, Except.ok.injEq] at h
    subst h
    exact Touch_trans _ _ _ _ (Touch_setNode P _ _ _ hs)
      (Touch_trans _ _ _ _ (Touch_FetchPage P _ t1 _ hf)
        (Touch_trans _ _ _ _ (Touch_setNode_parent P _ _ _ _ hc) (Touch_UnpinPage P _ _ _)))

theorem Touch_MoveFirstToEndOf (P : Int → Prop) (t t' : BPlusTree) (self recipient key : Int)
    (hs : P self) (hr : P recipient)
    (h : MoveFirstToEndOf t self recipient key = Except.ok t') : Touch P t t' := by
  unfold MoveFirstToEndOf at h
  obtain ⟨me, _, h⟩ := bind_ok _ _ _ h
  exact Touch_trans _ _ _ _ (Touch_setNode P _ _ _ hs) (Touch_CopyLastFrom P _ _ _ _ hr h)

theorem Touch_MoveLastToFrontOf (P : Int → Prop) (t t' : BPlusTree) (self recipient key : Int)
    (hs : P self) (hr : P recipient)
    (h : MoveLastToFrontOf t self recipient key = Except.ok t') : Touch P t t' := by
  unfold MoveLastToFrontOf at h
  obtain ⟨me, _, h⟩ := bind_ok _ _ _ h
  exact Touch_trans _ _ _ _ (Touch_setNode P _ _ _ hs) (Touch_CopyFirstFrom P _ _ _ _ hr h)

theorem Touch_UpdateRootPageId (P : Int → Prop) (t : BPlusTree) (r : Int) (b : Bool) :
    Touch P t (UpdateRootPageId { t with root_page_id := r } b) :=
  Touch_of_pages P _ _ rfl

/-- `Split` writes the page it splits, the page it allocates, and the parent id of the children
it moves. -/
theorem Touch_Split (P : Int → Prop) (t t' : BPlusTree) (N : IndexPageType) (node new : Int)
    (hn : P node) (hq : P (t.pages.length : Int))
    (h : Split t N node = Except.ok (t', new)) : Touch P t t' := by
  have hq' : P (NewPage t).2 := hq
  unfold Split at h
  simp only at h
  obtain ⟨n, _, h⟩ := bind_ok _ _ _ h
  obtain ⟨sn, _, h⟩ := bind_ok _ _ _ h
  generalize (if N = IndexPageType.LEAF_PAGE then
      sn.InitLeaf (NewPage t).2 n.parent_page_id
        (if n.IsLeafPage = true then (NewPage t).1.leaf_max_size
          else (NewPage t).1.internal_max_size)
    else sn.InitInternal (NewPage t).2 n.parent_page_id
        (if n.IsLeafPage = true then (NewPage t).1.leaf_max_size
          else (NewPage t).1.internal_max_size)) = s at h
  have a1 : Touch P t (setNode (NewPage t).1 (NewPage t).2 s) :=
    Touch_trans _ _ _ _ (Touch_NewPage P t) (Touch_setNode P _ _ _ hq')
  split_ifs at h with hl
  · simp only [pure, Except.pure, Except.ok.injEq, Prod.mk.injEq] at h
    obtain ⟨rfl, _⟩ := h
    exact Touch_trans _ _ _ _ a1
      (Touch_trans _ _ _ _ (Touch_setNode P _ _ _ hq') (Touch_setNode P _ _ _ hn))
  · obtain ⟨t2, h2, h⟩ := bind_ok _ _ _ h
    simp only [pure, Except.pure, Except.ok.injEq, Prod.mk.injEq] at h
    obtain ⟨rfl, _⟩ := h
    exact Touch_trans _ _ _ _ a1 (Touch_MoveHalfTo P _ _ _ _ hn hq' h2)

/-- `AdjustRoot` writes the old root and the parent id of the child it promotes. -/
theorem Touch_AdjustRoot (P : Int → Prop) (t t' : BPlusTree) (node : Int) (b : Bool)
    (hn : P node) (h : AdjustRoot t node = Except.ok (t', b)) : Touch P t t' := by
  unfold AdjustRoot at h
  obtain ⟨n, _, h⟩ := bind_ok _ _ _ h
  split_ifs at h with h1 h2
  · simp only [Node.RemoveAndReturnOnlyChild] at h
    cases hf : FetchPage (UpdateRootPageId
        { setNode t node (n.Remove 0) with root_page_id := n.ValueAt 0 } false)
        (n.ValueAt 0) with
    | none => simp [hf] at h
    | some t1 =>
      simp only [hf] at h
      obtain ⟨c, hc, h⟩ := bind_ok _ _ _ h
      simp only [pure, Except.pure, Except.ok.injEq, Prod.mk.injEq] at h
      obtain ⟨rfl, _⟩ := h
      exact Touch_trans _ _ _ _ (Touch_setNode P _ _ _ hn)
        (Touch_trans _ _ _ _ (Touch_UpdateRootPageId P _ _ _)
          (Touch_trans _ _ _ _ (Touch_FetchPage P _ t1 _ hf)
            (Touch_trans _ _ _ _ (Touch_setNode_parent P _ _ _ _ hc) (Touch_UnpinPage P _ _ _))))
  · simp only [pure, Except.pure, Except.ok.injEq, Prod.mk.injEq] at h
    obtain ⟨rfl, _⟩ := h
    exact Touch_UpdateRootPageId P _ _ _
  · simp only [pure, Except.pure, Except.ok.injEq, Prod.mk.injEq] at h
    obtain ⟨rfl, _⟩ := h
    exact Touch_refl P _

/-- `Redistribute` writes the node, the sibling, their parent, and the parent id of the child
it moves. -/
theorem Touch_Redistribute (P : Int → Prop) (t t' : BPlusTree) (neighbor_node : Option Int)
    (node index : Int) (hn : P node) (hnb : ∀ nb, neighbor_node = some nb → P nb)
    (hp : ∀ n, getNode t node = Except.ok n → P n.parent_page_id)
    (h : Redistribute t neighbor_node node index = Except.ok t') : Touch P t t' := by
  unfold Redistribute at h
  obtain ⟨n, hn0, h⟩ := bind_ok _ _ _ h
  have hpar := hp n hn0
  cases hf : FetchPage t n.parent_page_id with
  | none => simp [hf] at h
  | some t1 =>
    simp only [hf] at h
    have a1 := Touch_FetchPage P t t1 _ hf
    obtain ⟨pn, _, h⟩ := bind_ok _ _ _ h
    cases hv : pn.ValueIndex n.page_id with
    | none => simp [hv] at h
    | some node_index =>
      simp only [hv] at h
      cases neighbor_node with
      | none => simp at h
      | some neighbor =>
        have hs := hnb neighbor rfl
        simp only at h
        obtain ⟨nb, _, h⟩ := bind_ok _ _ _ h
        by_cases hl : n.IsLeafPage = true
        · rw [if_pos hl] at h
          by_cases hx : index = NODE_IS_LEFT
          · rw [if_pos hx] at h
            obtain ⟨pn2, _, h⟩ := bind_ok _ _ _ h
            obtain ⟨nb2, _, h⟩ := bind_ok _ _ _ h
            simp only [pure, Except.pure, Except.ok.injEq] at h
            subst h
            exact Touch_trans _ _ _ _ a1 (Touch_trans _ _ _ _ (Touch_setNode P _ _ _ hs)
              (Touch_trans _ _ _ _ (Touch_setNode P _ _ _ hn)
                (Touch_trans _ _ _ _ (Touch_setNode P _ _ _ hpar) (Touch_UnpinPage P _ _ _))))
          · rw [if_neg hx] at h
            obtain ⟨pn2, _, h⟩ := bind_ok _ _ _ h
            obtain ⟨n2, _, h⟩ := bind_ok _ _ _ h
            simp only [pure, Except.pure, Except.ok.injEq] at h
            subst h
            exact Touch_trans _ _ _ _ a1 (Touch_trans _ _ _ _ (Touch_setNode P _ _ _ hs)
              (Touch_trans _ _ _ _ (Touch_setNode P _ _ _ hn)
                (Touch_trans _ _ _ _ (Touch_setNode P _ _ _ hpar) (Touch_UnpinPage P _ _ _))))
        · rw [if_neg hl] at h
          by_cases hx : index = NODE_IS_LEFT
          · rw [if_pos hx] at h
            obtain ⟨t3, hmv, h⟩ := bind_ok _ _ _ h
            obtain ⟨pn2, _, h⟩ := bind_ok _ _ _ h
            simp only [pure, Except.pure, Except.ok.injEq] at h
            subst h
            exact Touch_trans _ _ _ _ a1 (Touch_trans _ _ _ _ (Touch_setNode P _ _ _ hpar)
              (Touch_trans _ _ _ _ (Touch_MoveFirstToEndOf P _ _ _ _ _ hs hn hmv)
                (Touch_UnpinPage P _ _ _)))
          · rw [if_neg hx] at h
            obtain ⟨t3, hmv, h⟩ := bind_ok _ _ _ h
            obtain ⟨pn2, _, h⟩ := bind_ok _ _ _ h
            simp only [pure, Except.pure, Except.ok.injEq] at h
            subst h
            exact Touch_trans _ _ _ _ a1 (Touch_trans _ _ _ _ (Touch_setNode P _ _ _ hpar)
              (Touch_trans _ _ _ _ (Touch_MoveLastToFrontOf P _ _ _ _ _ hs hn hmv)
                (Touch_UnpinPage P _ _ _)))

theorem Touch_fetchSibling (P : Int → Prop) (t t' : BPlusTree) (id : Int)
    (h : fetchSibling t id = Except.ok t') : Touch P t t' :=
  Touch_of_data P t t' fun x n hn => by rw [dataAt_fetchSibling t t' id h]; exact hn

/-- The steps of `readSiblings`: the parent is fetched, then each existing sibling, named by the
slot of the parent beside the node's slot, is fetched by `fetchSibling`. -/
theorem readSiblings_shape (t : BPlusTree) (node : Int) (s : Siblings)
    (h : readSiblings t node = Except.ok s) :
    ∃ n t1 pp idx t2 pp2, getNode t node = Except.ok n ∧ s.parent = n.parent_page_id ∧
      FetchPage t n.parent_page_id = some t1 ∧
      getNode t1 n.parent_page_id = Except.ok pp ∧ pp.ValueIndex n.page_id = some idx ∧
      ((s.left = some (pp.ValueAt (idx - 1)) ∧ fetchSibling t1 (pp.ValueAt (idx - 1)) = Except.ok t2)
        ∨ (s.left = none ∧ t2 = t1)) ∧
      getNode t2 n.parent_page_id = Except.ok pp2 ∧
      ((s.right = some (pp2.ValueAt (idx + 1)) ∧
          fetchSibling t2 (pp2.ValueAt (idx + 1)) = Except.ok s.t)
        ∨ (s.right = none ∧ s.t = t2)) := by
  unfold readSiblings at h
  obtain ⟨n, hn, h⟩ := bind_ok _ _ _ h
  cases hf : FetchPage t n.parent_page_id with
  | none => simp [hf] at h
  | some t1 =>
    simp only [hf] at h
    obtain ⟨pp, hpp, h⟩ := bind_ok _ _ _ h
    cases hv : pp.ValueIndex n.page_id with
    | none => simp [hv] at h
    | some idx =>
      simp only [hv] at h
      by_cases hL : idx - 1 ≥ 0
      on_goal 1 =>
        rw [if_pos hL] at h
        obtain ⟨t2', hfs, h⟩ := bind_ok _ _ _ h
        obtain ⟨l, hl, h⟩ := bind_ok _ _ _ h
        obtain ⟨t2, lid⟩ := l
        simp only [pure, Except.pure, Except.ok.injEq, Prod.mk.injEq] at hl
        have a2 : (lid = some (pp.ValueAt (idx - 1)) ∧
            fetchSibling t1 (pp.ValueAt (idx - 1)) = Except.ok t2) ∨ (lid = none ∧ t2 = t1) := by
          left
          rw [← hl.1, ← hl.2]
          exact ⟨rfl, hfs⟩
      on_goal 2 =>
        rw [if_neg hL] at h
        obtain ⟨l, hl, h⟩ := bind_ok _ _ _ h
        obtain ⟨t2, lid⟩ := l
        simp only [pure, Except.pure, Except.ok.injEq, Prod.mk.injEq] at hl
        have a2 : (lid = some (pp.ValueAt (idx - 1)) ∧
            fetchSibling t1 (pp.ValueAt (idx - 1)) = Except.ok t2) ∨ (lid = none ∧ t2 = t1) := by
          right
          exact ⟨hl.2.symm, hl.1.symm⟩
      all_goals
        dsimp only at h
        obtain ⟨pp2, hpp2, h⟩ := bind_ok _ _ _ h
        by_cases hR : idx + 1 < pp2.GetSize
      on_goal 1 =>
        rw [if_pos hR] at h
        obtain ⟨t3', hfs3, h⟩ := bind_ok _ _ _ h
        obtain ⟨r, hr, h⟩ := bind_ok _ _ _ h
        obtain ⟨t3, rid⟩ := r
        simp only [pure, Except.pure, Except.ok.injEq, Prod.mk.injEq] at hr
        have a3 : (rid = some (pp2.ValueAt (idx + 1)) ∧
            fetchSibling t2 (pp2.ValueAt (idx + 1)) = Except.ok t3) ∨ (rid = none ∧ t3 = t2) := by
          left
          rw [← hr.1, ← hr.2]
          exact ⟨rfl, hfs3⟩
      on_goal 2 =>
        rw [if_neg hR] at h
        obtain ⟨r, hr, h⟩ := bind_ok _ _ _ h
        obtain ⟨t3, rid⟩ := r
        simp only [pure, Except.pure, Except.ok.injEq, Prod.mk.injEq] at hr
        have a3 : (rid = some (pp2.ValueAt (idx + 1)) ∧
            fetchSibling t2 (pp2.ValueAt (idx + 1)) = Except.ok t3) ∨ (rid = none ∧ t3 = t2) := by
          right
          exact ⟨hr.2.symm, hr.1.symm⟩
      on_goal 3 =>
        rw [if_pos hR] at h
        obtain ⟨t3', hfs3, h⟩ := bind_ok _ _ _ h
        obtain ⟨r, hr, h⟩ := bind_ok _ _ _ h
        obtain ⟨t3, rid⟩ := r
        simp only [pure, Except.pure, Except.ok.injEq, Prod.mk.injEq] at hr
        have a3 : (rid = some (pp2.ValueAt (idx + 1)) ∧
            fetchSibling t2 (pp2.ValueAt (idx + 1)) = Except.ok t3) ∨ (rid = none ∧ t3 = t2) := by
          left
          rw [← hr.1, ← hr.2]
          exact ⟨rfl, hfs3⟩
      on_goal 4 =>
        rw [if_neg hR] at h
        obtain ⟨r, hr, h⟩ := bind_ok _ _ _ h
        obtain ⟨t3, rid⟩ := r
        simp only [pure, Except.pure, Except.ok.injEq, Prod.mk.injEq] at hr
        have a3 : (rid = some (pp2.ValueAt (idx + 1)) ∧
            fetchSibling t2 (pp2.ValueAt (idx + 1)) = Except.ok t3) ∨ (rid = none ∧ t3 = t2) := by
          right
          exact ⟨hr.2.symm, hr.1.symm⟩
      all_goals
        dsimp only at h
        obtain ⟨n3, hn3, h⟩ := bind_ok _ _ _ h
        have hfin : s.t = t3 ∧ s.left = lid ∧ s.right = rid ∧ s.parent = n.parent_page_id := by
          cases lid <;> cases rid <;>
            simp only [pure, Except.pure, bind, Except.bind, Except.map] at h <;>
            (repeat' split at h) <;>
            first
              | (cases h; exact ⟨rfl, rfl, rfl, rfl⟩)
              | cases h
        obtain ⟨e1, e2, e3, e4⟩ := hfin
        rw [e1, e2, e3]
        exact ⟨n, t1, pp, idx, t2, pp2, hn, e4, hf, hpp, hv, a2, hpp2, a3⟩

/-- What `readSiblings` leaves for the commit: the two sets stay committable, no payload
changes, the held set only grows, and each sibling read is in the held set and on the level of
the node. -/
theorem readSiblings_commit (h : Int → Nat) (t : BPlusTree) (node : Int) (s : Siblings)
    (n : Node) (hs : Str h t) (hn : dataAt t node = some n) (hr : ¬ n.IsRootPage = true)
    (hk : Committable t) (hok : readSiblings t node = Except.ok s) :
    Committable s.t ∧ (∀ id, dataAt s.t id = dataAt t id) ∧
      (∀ x ∈ t.page_set, x ∈ s.t.page_set) ∧ s.parent = n.parent_page_id ∧
      (∀ lid, s.left = some lid → lid ∈ s.t.page_set ∧ h lid = h node) ∧
      (∀ rid, s.right = some rid → rid ∈ s.t.page_set ∧ h rid = h node) := by
  obtain ⟨n', t1, pp, idx, t2, pp2, a1, a2, a3, a4, _, a6, a7, a8⟩ := readSiblings_shape t node s hok
  have e : n' = n := by
    have := (getNode_ok_iff _ _ _).1 a1
    rw [hn] at this
    exact (Option.some.inj this).symm
  subst e
  have k1 : Committable t1 := Committable_NoLatch t t1 hk (NoLatch_FetchPage t t1 _ a3)
  have d1 : ∀ id, dataAt t1 id = dataAt t id := dataAt_FetchPage t t1 _ a3
  have s1 : t1.page_set = t.page_set := (NoLatch_FetchPage t t1 _ a3).2.1
  have hpp : dataAt t n'.parent_page_id = some pp := by
    rw [← d1]; exact (getNode_ok_iff _ _ _).1 a4
  -- the left sibling
  have b2 : Committable t2 ∧ (∀ id, dataAt t2 id = dataAt t id) ∧
      (∀ x ∈ t.page_set, x ∈ t2.page_set) ∧
      (∀ lid, s.left = some lid → lid ∈ t2.page_set ∧ h lid = h node) := by
    rcases a6 with ⟨e1, e2⟩ | ⟨e1, e2⟩
    · obtain ⟨c1, c2, c3, _⟩ := Committable_fetchSibling t1 t2 _ k1 e2
      refine ⟨c1, fun id => (dataAt_fetchSibling t1 t2 _ e2 id).trans (d1 id),
        fun x hx => c3 x (by rw [s1]; exact hx), ?_⟩
      intro lid hl
      rw [e1] at hl
      cases hl
      obtain ⟨m, hm⟩ := fetchSibling_exists _ _ _ e2
      rw [d1] at hm
      exact ⟨c2, sibling_height h t hs node n' pp hn hr hpp _ m hm⟩
    · subst e2
      exact ⟨k1, d1, fun x hx => by rw [s1]; exact hx, fun lid hl => by rw [e1] at hl; cases hl⟩
  obtain ⟨k2, d2, s2, l2⟩ := b2
  have hpp2 : dataAt t n'.parent_page_id = some pp2 := by
    rw [← d2]; exact (getNode_ok_iff _ _ _).1 a7
  rcases a8 with ⟨e1, e2⟩ | ⟨e1, e2⟩
  · obtain ⟨c1, c2, c3, _⟩ := Committable_fetchSibling t2 s.t _ k2 e2
    refine ⟨c1, fun id => (dataAt_fetchSibling t2 s.t _ e2 id).trans (d2 id),
      fun x hx => c3 x (s2 x hx), a2, ?_, ?_⟩
    · intro lid hl
      obtain ⟨m1, m2⟩ := l2 lid hl
      exact ⟨c3 lid m1, m2⟩
    · intro rid hl
      rw [e1] at hl
      cases hl
      obtain ⟨m, hm⟩ := fetchSibling_exists _ _ _ e2
      rw [d2] at hm
      exact ⟨c2, sibling_height h t hs node n' pp2 hn hr hpp2 _ m hm⟩
  · rw [e2]
    exact ⟨k2, d2, s2, a2, l2, fun rid hl => by rw [e1] at hl; cases hl⟩

theorem Touch_held_of_eq (t u v : BPlusTree) (h : Touch (fun x => x ∈ u.page_set) t u)
    (hs : v.page_set = u.page_set) (hd : ∀ id, dataAt v id = dataAt u id) :
    Touch (fun x => x ∈ v.page_set) t v := by
  intro id n hn
  obtain ⟨n', hn', e⟩ := h id n hn
  refine ⟨n', by rw [hd]; exact hn', ?_⟩
  rw [hs]
  exact e

theorem Touch_held_trans (t u v : BPlusTree) (h1 : Touch (fun x => x ∈ u.page_set) t u)
    (h2 : Touch (fun x => x ∈ v.page_set) u v) (hsub : ∀ x ∈ u.page_set, x ∈ v.page_set) :
    Touch (fun x => x ∈ v.page_set) t v :=
  Touch_trans _ _ _ _ (Touch_mono _ _ _ _ hsub h1) h2

theorem AddIntoDeletedPageSet_page_set (t : BPlusTree) (a : Int) :
    (AddIntoDeletedPageSet t a).page_set = t.page_set := by
  unfold AddIntoDeletedPageSet
  split_ifs <;> rfl

theorem dataAt_AddIntoDeletedPageSet (t : BPlusTree) (a id : Int) :
    dataAt (AddIntoDeletedPageSet t a) id = dataAt t id := by
  unfold AddIntoDeletedPageSet
  split_ifs
  · rfl
  · exact dataAt_congr_pages _ _ rfl id

theorem TryUnlatchRoot_page_set (t : BPlusTree) (op : OP_TYPE) :
    (TryUnlatchRoot t op).page_set = t.page_set := by
  unfold TryUnlatchRoot
  split_ifs <;> rfl

theorem dataAt_TryUnlatchRoot (t : BPlusTree) (op : OP_TYPE) (id : Int) :
    dataAt (TryUnlatchRoot t op) id = dataAt t id := by
  unfold TryUnlatchRoot
  split_ifs <;> rfl

theorem Touch_held_AddIntoDeletedPageSet (t u : BPlusTree) (a : Int)
    (h : Touch (fun x => x ∈ u.page_set) t u) :
    Touch (fun x => x ∈ (AddIntoDeletedPageSet u a).page_set) t (AddIntoDeletedPageSet u a) :=
  Touch_held_of_eq t u _ h (AddIntoDeletedPageSet_page_set u a)
    (dataAt_AddIntoDeletedPageSet u a)

theorem Touch_held_UnpinPage (t u : BPlusTree) (a : Int) (d : Bool)
    (h : Touch (fun x => x ∈ u.page_set) t u) :
    Touch (fun x => x ∈ (UnpinPage u a d).page_set) t (UnpinPage u a d) :=
  Touch_held_of_eq t u _ h (UnpinPage_page_set u a d) (dataAt_UnpinPage u a d)

theorem Touch_held_TryUnlatchRoot (t u : BPlusTree) (op : OP_TYPE)
    (h : Touch (fun x => x ∈ u.page_set) t u) :
    Touch (fun x => x ∈ (TryUnlatchRoot u op).page_set) t (TryUnlatchRoot u op) :=
  Touch_held_of_eq t u _ h (TryUnlatchRoot_page_set u op) (dataAt_TryUnlatchRoot u op)

/-- `Coalesce` with the node as the donor, for the commit: the page put in the deletion set is
the donor, which is in the held set; when the parent underflows, the recursive call finds the
parent in the held set and the pages above it held as far as the underflow can go. -/
theorem Coalesce_commit_right (h : Int → Nat)
    (recurse : BPlusTree → Int → Except Err (BPlusTree × Bool)) (t t' : BPlusTree)
    (nb nd parent index : Int) (b : Bool) (rest : List Int) (hx : ¬ index = NODE_IS_LEFT)
    (hi : Inv h (-1) t) (hh : h nb = h nd)
    (hsum : ∀ a c, dataAt t nd = some a → dataAt t nb = some c → a.size + c.size < a.max_size)
    (hk : Committable t) (hnd : nd ∈ t.page_set) (hnbm : nb ∈ t.page_set)
    (hpar : parent ∈ t.page_set)
    (hhp : h parent = h nd + 1) (hch : HeldAbove t parent rest)
    (hrec : ∀ t1 t2 b2, Inv h (-1) t1 →
      (∀ p, dataAt t1 parent = some p → p.size < p.GetMinSize) → Committable t1 →
      parent ∈ t1.page_set → HeldParent t1 parent rest →
      recurse t1 parent = Except.ok (t2, b2) →
      Committable t2 ∧ Inv h (-1) t2 ∧ (∀ x ∈ t1.page_set, x ∈ t2.page_set) ∧
        Touch (fun x => x ∈ t2.page_set) t1 t2)
    (hok : Coalesce recurse t nb nd parent index = Except.ok (t', b)) :
    Committable t' ∧ (∀ x ∈ t.page_set, x ∈ t'.page_set) ∧
      Touch (fun x => x ∈ t'.page_set) t t' := by
  unfold Coalesce at hok
  simp only [if_neg hx] at hok
  obtain ⟨n, hn0, hok⟩ := bind_ok _ _ _ hok
  have hn := (getNode_ok_iff _ _ _).1 hn0
  obtain ⟨pn, hpn0, hok⟩ := bind_ok _ _ _ hok
  have hpn := (getNode_ok_iff _ _ _).1 hpn0
  cases hv : pn.ValueIndex n.page_id with
  | none => simp [hv] at hok
  | some node_index =>
    simp only [hv] at hok
    by_cases hl : n.IsLeafPage = true
    on_goal 1 =>
      rw [if_pos hl] at hok
      obtain ⟨nbn, hnb0, hok⟩ := bind_ok _ _ _ hok
      have hnb := (getNode_ok_iff _ _ _).1 hnb0
      obtain ⟨y, hy, hok⟩ := bind_ok _ _ _ hok
      simp only [pure, Except.pure, Except.ok.injEq] at hy
      have hny : NoLatch t y ∧ Above h (h nd) t y := by
        subst hy
        exact ⟨NoLatch_trans _ _ _ (NoLatch_setNode _ _ _) (NoLatch_setNode _ _ _),
          Above_trans h _ _ _ _ (Above_setNode h _ _ _ _ (by omega))
            (Above_setNode h _ _ _ _ (le_refl _))⟩
      have hty : Touch (fun x => x ∈ t.page_set) t y := by
        subst hy
        exact Touch_trans _ _ _ _ (Touch_setNode _ _ _ _ hnbm) (Touch_setNode _ _ _ _ hnd)
      have hiy : Inv h (-1) y ∧ cfg y = cfg t := by
        subst hy
        obtain ⟨⟨e1, s1⟩, e2, s2⟩ := LeafMoveAllTo_facts n nbn
        have hsl := same_level_max h t hi.1 nd nb n nbn hn hnb hh.symm
        have hi2 : Inv h (-1) (setNode t nb (n.LeafMoveAllTo nbn).2) := by
          apply Inv_setNode h t _ _ hi
          · intro _ _
            exact GoodNode_leaf_of_SameHead _ _ _ _ _ nbn _ (hi.1.2 _ nbn hnb)
              (by rw [← hsl.2]; exact hl) e2
          · intro _ _ _ _
            have := hsum n nbn hn hnb
            rw [s2, e2.2.2.1, ← hsl.1]
            omega
        refine ⟨?_, by rw [cfg_setNode, cfg_setNode]⟩
        apply Inv_setNode h _ _ _ hi2
        · intro _ _
          rw [setNode_length, setNode_leaf_max, setNode_internal_max]
          exact GoodNode_leaf_of_SameHead _ _ _ _ _ n _ (hi.1.2 _ n hn) hl e1
        · intro _ _ hL hM
          rw [setNode_leaf_max] at hL
          rw [setNode_internal_max] at hM
          have := GoodNode_max_ge _ _ _ _ _ _ (hi.1.2 _ n hn) hL hM
          rw [s1, e1.2.2.1]
          omega
    on_goal 2 =>
      rw [if_neg hl] at hok
      obtain ⟨y, hy, hok⟩ := bind_ok _ _ _ hok
      have hme : ∀ me, dataAt t nd = some me → me.IsLeafPage = false :=
        fun me hme => by rw [hn] at hme; cases hme; simpa using hl
      have hny : NoLatch t y ∧ Above h (h nd) t y :=
        ⟨NoLatch_MoveAllTo t y nd nb _ hy,
          Above_MoveAllTo h (h nd) t y nd nb _ hi.1 (le_refl _) (by omega) hme hy⟩
      have hty : Touch (fun x => x ∈ t.page_set) t y :=
        Touch_MoveAllTo _ t y nd nb _ hnd hnbm hy
      have hiy : Inv h (-1) y ∧ cfg y = cfg t :=
        MoveAllTo_inv h nd nb _ t y hi hme hh hy
    all_goals
      obtain ⟨n2, hn2, hok⟩ := bind_ok _ _ _ hok
      have hid2 : n2.page_id = nd := (hiy.1.1.2 nd n2 ((getNode_ok_iff _ _ _).1 hn2)).page_id
      rw [hid2] at hok
      obtain ⟨pn2, hpn2, hok⟩ := bind_ok _ _ _ hok
      have hpn2' := (getNode_ok_iff _ _ _).1 hpn2
      have k3 := Keeps_AddIntoDeletedPageSet y nd
      have hi3 := Inv_of_Keeps h (-1) _ _ hiy.1 k3
      -- the parent is untouched so far
      have hd3 : ∀ id, dataAt (AddIntoDeletedPageSet y nd) id = dataAt y id := by
        intro id
        unfold AddIntoDeletedPageSet
        split_ifs
        · rfl
        · exact dataAt_congr_pages _ _ rfl id
      have hpe : pn2 = pn := by
        have h1 := hny.2 parent pn (by omega) hpn
        rw [hd3, h1] at hpn2'
        exact (Option.some.inj hpn2').symm
      rw [hpe] at hok hpn2'
      clear hpe
      have hky : Committable y := Committable_NoLatch t y hk hny.1
      have hsy : y.page_set = t.page_set := hny.1.2.1
      have hk3 : Committable (AddIntoDeletedPageSet y nd) :=
        Committable_AddIntoDeletedPageSet y nd hky (by rw [hsy]; exact hnd)
      have hs3 : (AddIntoDeletedPageSet y nd).page_set = t.page_set := by
        rw [← hsy]
        unfold AddIntoDeletedPageSet
        split_ifs <;> rfl
      have hi4 : Inv h (-1) (setNode (AddIntoDeletedPageSet y nd) parent
          (pn.Remove node_index)) := by
        apply Inv_setNode h _ _ _ hi3
        · intro _ _
          exact GoodNode_Remove _ _ _ _ _ _ _ (hi3.1.2 _ pn hpn2')
        · intro _ _ hL hM
          have := Inv_size_lt h _ hi3 parent pn hpn2' hL hM
          simp only [Node.Remove]
          omega
      have hk4 : Committable (setNode (AddIntoDeletedPageSet y nd) parent
          (pn.Remove node_index)) := Committable_NoLatch _ _ hk3 (NoLatch_setNode _ _ _)
      have hs4 : (setNode (AddIntoDeletedPageSet y nd) parent
          (pn.Remove node_index)).page_set = t.page_set :=
        ((NoLatch_setNode _ _ _).2.1).trans hs3
      have ha4 : Above h (h parent) t (setNode (AddIntoDeletedPageSet y nd) parent
          (pn.Remove node_index)) :=
        Above_trans h _ _ _ _ (Above_mono h _ _ _ _ (by omega) hny.2)
          (Above_trans h _ _ _ _ (Above_of_eq h _ _ _ hd3)
            (Above_setNode h _ _ _ _ (le_refl _)))
      have hd4 : dataAt (setNode (AddIntoDeletedPageSet y nd) parent (pn.Remove node_index))
          parent = some (pn.Remove node_index) := by
        rw [dataAt_setNode, if_pos rfl, hpn2']
        rfl
      have ht4 : Touch (fun x => x ∈ t.page_set) t
          (setNode (AddIntoDeletedPageSet y nd) parent (pn.Remove node_index)) :=
        Touch_trans _ _ _ _ hty
          (Touch_trans _ _ _ _ (Touch_of_data _ _ _ fun id n hn => by rw [hd3]; exact hn)
            (Touch_setNode _ _ _ _ hpar))
      split_ifs at hok with hlt
      · obtain ⟨d, hd, hok⟩ := bind_ok _ _ _ hok
        have hp4 : HeldParent (setNode (AddIntoDeletedPageSet y nd) parent
            (pn.Remove node_index)) parent rest := by
          cases rest with
          | nil =>
            obtain ⟨q, hq, hqr⟩ := hch
            rw [hpn] at hq
            cases hq
            exact ⟨_, hd4, hqr⟩
          | cons z r =>
            obtain ⟨q, hq, hqr, hqp, hqc⟩ := hch
            rw [hpn] at hq
            cases hq
            have hsz : pn.size ≤ pn.GetMinSize := by
              simp only [Node.Remove, Node.GetSize, Node.GetMinSize] at hlt
              simp only [Node.GetMinSize]
              omega
            obtain ⟨hz, hcz⟩ := hqc hsz
            have hhz := (GoodNode_parent_of_not_root h _ _ _ parent pn (hi.1.2 _ pn hpn)
              (by simp [hqr])).2.2
            rw [hqp] at hhz
            exact ⟨_, hd4, hqr, hqp, by rw [hs4]; exact hz,
              HeldAbove_mono h (h parent) t _ hi.1 ha4 (fun x hx => by rw [hs4]; exact hx) r z
                (by omega) hcz⟩
        obtain ⟨k5, hi5, hs5, ht5⟩ := hrec _ d.1 d.2 hi4 (by
          intro p hp
          rw [hd4] at hp
          cases hp
          exact hlt) hk4 (by rw [hs4]; exact hpar) hp4 hd
        have hsub : ∀ x ∈ t.page_set, x ∈ d.1.page_set :=
          fun x hx => hs5 x (by rw [hs4]; exact hx)
        have htd : Touch (fun x => x ∈ d.1.page_set) t d.1 :=
          Touch_trans _ _ _ _ (Touch_mono _ _ _ _ hsub ht4) ht5
        split_ifs at hok
        · obtain ⟨pn3, hpn3, hok⟩ := bind_ok _ _ _ hok
          simp only [pure, Except.pure, Except.ok.injEq, Prod.mk.injEq] at hok
          obtain ⟨rfl, _⟩ := hok
          have hid3 : pn3.page_id = parent :=
            (hi5.1.2 parent pn3 ((getNode_ok_iff _ _ _).1 hpn3)).page_id
          rw [hid3]
          refine ⟨Committable_AddIntoDeletedPageSet d.1 parent k5 (hsub parent hpar), ?_,
            Touch_held_AddIntoDeletedPageSet t d.1 parent htd⟩
          intro x hx
          unfold AddIntoDeletedPageSet
          split_ifs
          · exact hsub x hx
          · exact hsub x hx
        · simp only [pure, Except.pure, Except.ok.injEq, Prod.mk.injEq] at hok
          obtain ⟨rfl, _⟩ := hok
          exact ⟨k5, hsub, htd⟩
      · simp only [pure, Except.pure, Except.ok.injEq, Prod.mk.injEq] at hok
        obtain ⟨rfl, _⟩ := hok
        exact ⟨hk4, fun x hx => by rw [hs4]; exact hx,
          Touch_mono _ _ _ _ (fun x hx => by rw [hs4]; exact hx) ht4⟩

theorem Keeps_readSiblings (t : BPlusTree) (node : Int) (s : Siblings)
    (hok : readSiblings t node = Except.ok s) : Keeps t s.t := by
  obtain ⟨n', t1, pp, idx, t2, pp2, _, _, a3, _, _, a6, _, a8⟩ := readSiblings_shape t node s hok
  have k1 := Keeps_FetchPage t t1 _ a3
  have k2 : Keeps t t2 := by
    rcases a6 with ⟨_, e2⟩ | ⟨_, e2⟩
    · exact Keeps_trans _ _ _ k1 (Keeps_fetchSibling _ _ _ e2)
    · rw [e2]; exact k1
  rcases a8 with ⟨_, e2⟩ | ⟨_, e2⟩
  · exact Keeps_trans _ _ _ k2 (Keeps_fetchSibling _ _ _ e2)
  · rw [e2]; exact k2

/-- `CoalesceOrRedistribute` for the commit: called on an underflowed page of the held set whose
parent is held, with the pages above held as far as the underflow can go, it keeps the two sets
committable (every page it puts in the deletion set is in the held set), drops nothing from
the held set, and writes only to pages of the held set, apart from parent ids. -/
theorem CoalesceOrRedistribute_commit : ∀ (fuel : Nat) (h : Int → Nat) (t t' : BPlusTree)
    (node : Int) (b : Bool) (ups : List Int), Inv h (-1) t →
    (∀ n, dataAt t node = some n → n.size < n.GetMinSize) → Committable t →
    node ∈ t.page_set → HeldParent t node ups →
    CoalesceOrRedistribute fuel t node = Except.ok (t', b) →
    Committable t' ∧ (∀ x ∈ t.page_set, x ∈ t'.page_set) ∧
      Touch (fun x => x ∈ t'.page_set) t t' := by
  intro fuel
  induction fuel with
  | zero => intro h t t' node b ups _ _ _ _ _ hok; cases hok
  | succ fuel ih =>
    intro h t t' node b ups hi hsmall hk hmem hp hok
    cases ups with
    | nil =>
      obtain ⟨n, hn, hr⟩ := hp
      have hn0 := (getNode_ok_iff _ _ _).2 hn
      rw [CoalesceOrRedistribute] at hok
      simp only [hn0, bind, Except.bind] at hok
      rw [if_pos hr] at hok
      cases hd : AdjustRoot t node with
      | error e => simp [hd] at hok
      | ok d =>
        obtain ⟨t2, sdr⟩ := d
        simp only [hd] at hok
        have nl := NoLatch_AdjustRoot t t2 node sdr hd
        have k2 := Committable_NoLatch t t2 hk nl
        have ht2 : Touch (fun x => x ∈ t2.page_set) t t2 :=
          Touch_mono _ _ _ _ (fun x hx => by rw [nl.2.1]; exact hx)
            (Touch_AdjustRoot _ t t2 node sdr hmem hd)
        obtain ⟨hi2, _⟩ := AdjustRoot_inv h t t2 node sdr hi hd
        cases hn2 : getNode t2 node with
        | error e => simp [hn2] at hok
        | ok n2 =>
          simp only [hn2] at hok
          have hid : n2.page_id = node :=
            (hi2.1.2 node n2 ((getNode_ok_iff _ _ _).1 hn2)).page_id
          split_ifs at hok
          · simp only [pure, Except.pure, Except.ok.injEq, Prod.mk.injEq] at hok
            obtain ⟨rfl, _⟩ := hok
            rw [hid]
            refine ⟨Committable_AddIntoDeletedPageSet t2 node k2 (by rw [nl.2.1]; exact hmem), ?_,
              Touch_held_AddIntoDeletedPageSet t t2 node ht2⟩
            intro x hx
            unfold AddIntoDeletedPageSet
            split_ifs <;> (rw [nl.2.1]; exact hx)
          · simp only [pure, Except.pure, Except.ok.injEq, Prod.mk.injEq] at hok
            obtain ⟨rfl, _⟩ := hok
            exact ⟨k2, fun x hx => by rw [nl.2.1]; exact hx, ht2⟩
    | cons y rest =>
      obtain ⟨n, hn, hr, hpy, hy, hch⟩ := hp
      have hn0 := (getNode_ok_iff _ _ _).2 hn
      have hr' : ¬ n.IsRootPage = true := by simp [hr]
      rw [CoalesceOrRedistribute_eq fuel t node n hn0 hr] at hok
      obtain ⟨s, hs, hok⟩ := bind_ok _ _ _ hok
      obtain ⟨ks, ds, ss, sp, sl, sr⟩ := readSiblings_commit h t node s n hi.1 hn hr' hk hs
      obtain ⟨f1, _, f3, f4⟩ := readSiblings_facts t node s hs
      have kp := Keeps_readSiblings t node s hs
      have his : Inv h (-1) s.t := Inv_of_Keeps h (-1) t s.t hi kp
      have hhy : h y = h node + 1 := by
        have := (GoodNode_parent_of_not_root h _ _ _ node n (hi.1.2 node n hn) hr').2.2
        rw [hpy] at this
        exact this
      have hsn : dataAt s.t node = some s.n := (getNode_ok_iff _ _ _).1 f1
      have hsn' : s.n = n := by
        rw [ds, hn] at hsn
        exact (Option.some.inj hsn).symm
      have hchs : HeldAbove s.t y rest :=
        HeldAbove_mono h (h node) t s.t hi.1 (Above_of_eq h _ _ _ ds) ss rest y (by omega) hch
      have hpar : s.parent = y := sp.trans hpy
      have hrec : ∀ t1 t2 b2, Inv h (-1) t1 →
          (∀ p, dataAt t1 y = some p → p.size < p.GetMinSize) → Committable t1 →
          y ∈ t1.page_set → HeldParent t1 y rest →
          CoalesceOrRedistribute fuel t1 y = Except.ok (t2, b2) →
          Committable t2 ∧ Inv h (-1) t2 ∧ (∀ x ∈ t1.page_set, x ∈ t2.page_set) ∧
            Touch (fun x => x ∈ t2.page_set) t1 t2 := by
        intro t1 t2 b2 i1 u1 c1 m1 p1 hu
        obtain ⟨r1, r2, r3⟩ := ih h t1 t2 y b2 rest i1 u1 c1 m1 p1 hu
        exact ⟨r1, (CoalesceOrRedistribute_inv fuel h t1 t2 y b2 i1 u1 hu).1, r2, r3⟩
      have hts : Touch (fun x => x ∈ s.t.page_set) t s.t :=
        Touch_of_data _ _ _ fun id n hn => by rw [ds]; exact hn
      have hCoL : ∀ lid (d : BPlusTree × Bool), s.left = some lid →
          Option.map (fun l => decide (s.n.GetSize + l < s.n.GetMaxSize)) s.left_size =
            some true →
          Coalesce (CoalesceOrRedistribute fuel) s.t lid node s.parent NODE_IS_RIGHT =
            Except.ok d →
          Committable d.1 ∧ (∀ x ∈ s.t.page_set, x ∈ d.1.page_set) ∧
            Touch (fun x => x ∈ d.1.page_set) s.t d.1 := by
        intro lid d hl hc hd
        obtain ⟨l, hl1, hlt⟩ := map_decide_true
          (fun l => s.n.GetSize + l < s.n.GetMaxSize) s.left_size hc
        rw [hl] at f3
        obtain ⟨m, hm, hms⟩ := f3
        rw [hl1] at hms
        cases hms
        rw [hpar] at hd
        exact Coalesce_commit_right h _ s.t d.1 lid node y NODE_IS_RIGHT d.2 rest (by decide)
          his (sl lid hl).2 (by
            intro a c ha hc'
            rw [hsn] at ha
            rw [(getNode_ok_iff _ _ _).1 hm] at hc'
            cases ha
            cases hc'
            exact hlt) ks (ss node hmem) (sl lid hl).1 (ss y hy) hhy hchs hrec hd
      have hCoR : ∀ rid (d : BPlusTree × Bool), s.right = some rid →
          Option.map (fun l => decide (s.n.GetSize + l < s.n.GetMaxSize)) s.right_size =
            some true →
          Coalesce (CoalesceOrRedistribute fuel) s.t rid node s.parent NODE_IS_LEFT =
            Except.ok d →
          Committable d.1 ∧ (∀ x ∈ s.t.page_set, x ∈ d.1.page_set) ∧
            Touch (fun x => x ∈ d.1.page_set) s.t d.1 := by
        intro rid d hl hc hd
        obtain ⟨l, hl1, hlt⟩ := map_decide_true
          (fun l => s.n.GetSize + l < s.n.GetMaxSize) s.right_size hc
        rw [hl] at f4
        obtain ⟨m, hm, hms⟩ := f4
        rw [hl1] at hms
        cases hms
        rw [hpar, Coalesce_left] at hd
        have hm' := (getNode_ok_iff _ _ _).1 hm
        exact Coalesce_commit_right h _ s.t d.1 node rid y NODE_IS_RIGHT d.2 rest (by decide)
          his (sr rid hl).2.symm (by
            intro a c ha hc'
            have hsl := same_level_max h s.t his.1 rid node a c ha hc' (sr rid hl).2
            rw [hm'] at ha
            rw [hsn] at hc'
            cases ha
            cases hc'
            simp only [Node.GetSize, Node.GetMaxSize] at hlt
            omega) ks (sr rid hl).1 (ss node hmem) (ss y hy)
          (by rw [(sr rid hl).2]; exact hhy) hchs hrec hd
      have hRe : ∀ (sib : Option Int) idx pid dd u,
          (∀ nb, sib = some nb → nb ∈ s.t.page_set) →
          Redistribute (UnpinPage s.t pid dd) sib node idx = Except.ok u →
          Committable u ∧ (∀ x ∈ t.page_set, x ∈ u.page_set) ∧
            Touch (fun x => x ∈ u.page_set) t u := by
        intro sib idx pid dd u hsib hu
        have nl := NoLatch_trans _ _ _ (NoLatch_UnpinPage s.t pid dd)
          (NoLatch_Redistribute _ _ _ _ _ hu)
        have hsu : ∀ x ∈ s.t.page_set, x ∈ u.page_set := fun x hx => by rw [nl.2.1]; exact hx
        have e1 : (UnpinPage s.t pid dd).page_set = s.t.page_set := UnpinPage_page_set _ _ _
        have tr : Touch (fun x => x ∈ s.t.page_set) (UnpinPage s.t pid dd) u :=
          Touch_Redistribute _ _ u sib node idx (ss node hmem) hsib (by
            intro n' hn'
            have hn'' := (getNode_ok_iff _ _ _).1 hn'
            rw [dataAt_UnpinPage, ds, hn] at hn''
            cases hn''
            rw [hpy]
            exact ss y hy) hu
        exact ⟨Committable_NoLatch _ _ ks nl, fun x hx => by rw [nl.2.1]; exact ss x hx,
          Touch_trans _ _ _ _ (Touch_mono _ _ _ _ hsu hts)
            (Touch_trans _ _ _ _ (Touch_UnpinPage _ s.t pid dd) (Touch_mono _ _ _ _ hsu tr))⟩
      unfold sizeTests at hok
      split at hok
      · obtain ⟨d, hd, hok⟩ := bind_ok _ _ _ hok
        obtain ⟨c1, c2, c3⟩ := hCoL _ d (by assumption) (by assumption) hd
        obtain ⟨pp3, _, hok⟩ := bind_ok _ _ _ hok
        obtain ⟨n4, _, hok⟩ := bind_ok _ _ _ hok
        simp only [pure, Except.pure, Except.ok.injEq, Prod.mk.injEq] at hok
        obtain ⟨rfl, _⟩ := hok
        have nl := NoLatch_UnpinPage d.1 pp3.page_id true
        exact ⟨Committable_NoLatch _ _ c1 nl, fun x hx => by rw [nl.2.1]; exact c2 x (ss x hx),
          Touch_held_UnpinPage t d.1 _ _ (Touch_held_trans t s.t d.1 hts c3 c2)⟩
      · split at hok
        · obtain ⟨d, hd, hok⟩ := bind_ok _ _ _ hok
          obtain ⟨c1, c2, c3⟩ := hCoR _ d (by assumption) (by assumption) hd
          obtain ⟨pp3, _, hok⟩ := bind_ok _ _ _ hok
          simp only [pure, Except.pure, Except.ok.injEq, Prod.mk.injEq] at hok
          obtain ⟨rfl, _⟩ := hok
          have nl := NoLatch_UnpinPage d.1 pp3.page_id true
          exact ⟨Committable_NoLatch _ _ c1 nl, fun x hx => by rw [nl.2.1]; exact c2 x (ss x hx),
            Touch_held_UnpinPage t d.1 _ _ (Touch_held_trans t s.t d.1 hts c3 c2)⟩
        · obtain ⟨pp3, _, hok⟩ := bind_ok _ _ _ hok
          split at hok
          · obtain ⟨u, hu, hok⟩ := bind_ok _ _ _ hok
            simp only [pure, Except.pure, Except.ok.injEq, Prod.mk.injEq] at hok
            obtain ⟨rfl, _⟩ := hok
            exact hRe _ _ _ _ _ (fun nb e => (sl nb e).1) hu
          · obtain ⟨u, hu, hok⟩ := bind_ok _ _ _ hok
            simp only [pure, Except.pure, Except.ok.injEq, Prod.mk.injEq] at hok
            obtain ⟨rfl, _⟩ := hok
            exact hRe _ _ _ _ _ (fun nb e => (sr nb e).1) hu

/-- A page of the path below which no page is safe is in the held set. -/
theorem heldSuffix_mem (safe : Int → Bool) (path a b : List Int) (y : Int)
    (hp : path = a ++ y :: b) (hb : ∀ z ∈ b, safe z = false) : y ∈ heldSuffix safe path := by
  unfold heldSuffix
  cases hl : lastSafeSuffix safe path.tail with
  | none =>
    simp only
    rw [hp]
    simp
  | some s =>
    simp only
    obtain ⟨pre, x, post, h1, h2, h3, h4⟩ := (lastSafeSuffix_iff safe _ s).1 hl
    have s1 : (x :: post) <:+ path :=
      List.IsSuffix.trans ⟨pre, h1.symm⟩ (List.tail_suffix path)
    have s2 : (y :: b) <:+ path := ⟨a, hp.symm⟩
    rw [h2]
    rcases List.suffix_or_suffix_of_suffix s1 s2 with h5 | h5
    · rw [List.suffix_cons_iff] at h5
      rcases h5 with h5 | h5
      · rw [h5]; exact List.mem_cons_self _ _
      · have hx : x ∈ b := h5.subset (List.mem_cons_self _ _)
        rw [hb x hx] at h3
        cases h3
    · exact h5.subset (List.mem_cons_self _ _)

theorem descentPath_exists (t : BPlusTree) (key : Int) : ∀ (fuel : Nat) (page : Int)
    (path : List Int), descentPath t key fuel page = some path →
    ∀ x ∈ path, ∃ n, dataAt t x = some n := by
  intro fuel
  induction fuel with
  | zero => intro page path h; simp [descentPath] at h
  | succ fuel ih =>
    intro page path h x hx
    unfold descentPath at h
    cases hg : getPage t page with
    | none => simp [hg] at h
    | some pg =>
      simp only [hg] at h
      have hd : dataAt t page = some pg.data := dataAt_of_getPage t page pg hg
      by_cases hleaf : pg.data.IsLeafPage = true
      · simp only [hleaf, if_true, Option.some.injEq] at h
        subst h
        rw [List.mem_singleton] at hx
        subst hx
        exact ⟨_, hd⟩
      · simp only [hleaf, Bool.false_eq_true, if_false] at h
        cases hc : pg.data.Lookup key with
        | none => simp [hc] at h
        | some child =>
          simp only [hc] at h
          cases hg2 : getPage t child with
          | none => simp [hg2] at h
          | some pc =>
            simp only [hg2] at h
            cases hr : descentPath t key fuel child with
            | none => simp [hr] at h
            | some r =>
              simp only [hr, Option.map_some', Option.some.injEq] at h
              subst h
              rw [List.mem_cons] at hx
              rcases hx with rfl | hx
              · exact ⟨_, hd⟩
              · exact ih child r hr x hx

/-- The parent id stored in a page of a linked path is the page before it. -/
theorem parentLinked_at (t : BPlusTree) : ∀ (a : List Int) (p z y : Int) (b : List Int),
    parentLinked t p (a ++ z :: y :: b) = true → (nodeOf t y).parent_page_id = z := by
  intro a
  induction a with
  | nil =>
    intro p z y b h
    simp only [List.nil_append, parentLinked, Bool.and_eq_true, beq_iff_eq] at h
    exact h.2.1
  | cons c a ih =>
    intro p z y b h
    simp only [List.cons_append, parentLinked, Bool.and_eq_true, beq_iff_eq] at h
    exact ih c z y b h.2

theorem nodeOf_dataAt (t : BPlusTree) (id : Int) (n : Node) (h : dataAt t id = some n) :
    nodeOf t id = n := by
  obtain ⟨pg, hg, rfl⟩ := dataAt_eq_some t id n h
  simp [nodeOf, hg]

/-- After the descent of a delete the pages above a page of the path are held as far as an
underflow of that page can go. -/
theorem HeldAbove_of_path (t0 t : BPlusTree) (path : List Int)
    (hlink : parentLinked t0 INVALID_PAGE_ID path = true)
    (hex : ∀ x ∈ path, ∃ n, dataAt t0 x = some n)
    (hset : t.page_set = heldSuffix (safeAt t0 OP_TYPE.DELETE) path)
    (hdata : ∀ id, dataAt t id = dataAt t0 id) :
    ∀ (ups : List Int) (y : Int) (below : List Int), path = ups.reverse ++ y :: below →
      (∀ z ∈ below, safeAt t0 OP_TYPE.DELETE z = false) → HeldAbove t y ups := by
  intro ups
  induction ups with
  | nil =>
    intro y below hp _
    obtain ⟨n, hn⟩ := hex y (by rw [hp]; simp)
    refine ⟨n, by rw [hdata]; exact hn, ?_⟩
    rw [hp] at hlink
    simp only [List.reverse_nil, List.nil_append, parentLinked, Bool.and_eq_true,
      beq_iff_eq] at hlink
    rw [nodeOf_dataAt t0 y n hn] at hlink
    simp [Node.IsRootPage, hlink.1]
  | cons z rest ih =>
    intro y below hp hb
    have hp' : path = rest.reverse ++ z :: (y :: below) := by
      rw [hp]; simp
    obtain ⟨n, hn⟩ := hex y (by rw [hp]; simp)
    obtain ⟨nz, hnz⟩ := hex z (by rw [hp']; simp)
    have hpar : n.parent_page_id = z := by
      rw [hp'] at hlink
      have := parentLinked_at t0 _ _ z y below hlink
      rw [nodeOf_dataAt t0 y n hn] at this
      exact this
    have hz0 := (dataAt_range t0 z nz hnz).1
    refine ⟨n, by rw [hdata]; exact hn, ?_, hpar, ?_⟩
    · simp only [Node.IsRootPage, hpar, INVALID_PAGE_ID, beq_eq_false_iff_ne, ne_eq]
      omega
    · intro hsz
      have hun : ∀ w ∈ y :: below, safeAt t0 OP_TYPE.DELETE w = false := by
        intro w hw
        rw [List.mem_cons] at hw
        rcases hw with rfl | hw
        · obtain ⟨pg, hg, e⟩ := dataAt_eq_some t0 w n hn
          simp only [safeAt, hg, IsNodeSafe, e, reduceCtorEq, if_false, if_true,
            decide_eq_false_iff_not, not_lt, Node.GetSize]
          exact hsz
        · exact hb w hw
      refine ⟨?_, ih z (y :: below) hp' hun⟩
      rw [hset]
      exact heldSuffix_mem _ path _ _ z hp' hun

/-- The held set after a write descent from a quiescent state is the suffix of the path that
`heldSuffix` names; the pages in it are latched and pinned as `HeldState` says. -/
theorem crabbing_held_set (t0 : BPlusTree) (key : Int) (op : OP_TYPE)
    (hop : op ≠ OP_TYPE.READ) (hq : quiescent t0 = true) (path : List Int)
    (hpath : descentPath t0 key t0.pages.length t0.root_page_id = some path) :
    ∃ t' leaf, FindLeafPageCrabbing t0 key op = Except.ok (t', leaf) ∧
      path.getLast? = some leaf ∧ t'.page_set = heldSuffix (safeAt t0 op) path ∧
      HeldState t0 t' := by
  obtain ⟨leaf0, k, hd⟩ := descend_of_descentPath t0 key _ _ path hpath
  obtain ⟨t', hok, hheld, _⟩ := crabbing_write t0 hq key op hop leaf0 k hd
  obtain ⟨q1, q2, q3, q4⟩ := quiescent_fields t0 hq
  -- the loop inside the descent
  have hok' := hok
  unfold FindLeafPageCrabbing at hok'
  obtain ⟨t1, h1, hok'⟩ := bind_ok _ _ _ hok'
  obtain ⟨c1, b1⟩ := Balanced_LatchRoot t0.root_latch op t0 t1 q2 rfl h1
  have hs1 := sameData_LatchRoot t0 t0 t1 (sameData_refl t0) op h1
  cases hf : FetchPage t1 t1.root_page_id with
  | none => simp [hf] at hok'
  | some t2 =>
    simp only [hf] at hok'
    obtain ⟨t3, h3, hok'⟩ := bind_ok _ _ _ hok'
    rw [if_pos hop] at hok'
    have hs3 := sameData_LatchPage t0 t2 t3 (sameData_FetchPage t0 t1 t2 hs1 _ hf) _ op h3
    have hop3 := OnlyPages_trans _ _ _ (OnlyPages_FetchPage _ _ _ hf)
      (OnlyPages_LatchPage _ _ _ _ h3)
    have hr3 := OnlyPages_latch _ _ hop3
    have hb3 : Balanced t0.root_latch op (AddIntoPageSet t3 t2.root_page_id) :=
      Balanced_same _ op t1 _ (RootLatchSame_trans _ _ _ hr3 ⟨rfl, rfl⟩) b1
    obtain ⟨rest, p1, p2, p3, p4, p5⟩ := crabbing_loop_held t0 key op hop t0.root_latch _
      (AddIntoPageSet t3 t2.root_page_id) t' t2.root_page_id leaf0
      (sameData_of_pages t0 t3 _ hs3 rfl rfl) hb3 hok'
    have hroot : t2.root_page_id = t0.root_page_id :=
      (FetchPage_root t1 t2 _ hf).trans hs1.1
    have hlen : (AddIntoPageSet t3 t2.root_page_id).pages.length = t0.pages.length := hs3.2.1
    rw [hlen, hroot, hpath] at p1
    have hp : path = t0.root_page_id :: rest := Option.some.inj p1
    have hset0 : (AddIntoPageSet t3 t2.root_page_id).page_set = [t0.root_page_id] := by
      show t3.page_set ++ [t2.root_page_id] = _
      rw [OnlyPages_held _ _ hop3, hroot]
      have : t1.page_set = t0.page_set := by
        unfold LatchRoot at h1
        split_ifs at h1 <;> cases h1 <;> rfl
      rw [this, q3]
      rfl
    have hset : t'.page_set = heldSuffix (safeAt t0 op) path := by
      rw [p3, hp, hset0]
      unfold heldSuffix
      simp only [List.tail_cons]
      cases lastSafeSuffix (safeAt t0 op) rest <;> rfl
    exact ⟨t', leaf0, hok, by rw [hp, ← hroot]; exact p2, hset, hheld⟩

/-- The round of `FreeAllPages` for a page that is write-latched and pinned once returns. -/
theorem freePage_succeeds (t : BPlusTree) (a : Int) (pg : Page) (hg : getPage t a = some pg)
    (hl : pg.latch = -1) (hp : pg.pin_count = 1) : ∃ v, freePage t a = Except.ok v := by
  unfold freePage
  rw [UnlatchPage_write t a pg OP_TYPE.DELETE (by decide) hg hl]
  have h1 : getPage (setPage t a { pg with latch := 0 }) a = some { pg with latch := 0 } := by
    rw [getPage_setPage t a a pg _ hg, if_pos rfl]
  simp only [bind, Except.bind]
  rw [UnpinPage_pos _ a _ true h1 (by show pg.pin_count > 0; omega), setPage_setPage]
  have h2 : getPage (setPage t a { pin_count := pg.pin_count - 1, latch := 0, data := pg.data })
      a = some { pin_count := pg.pin_count - 1, latch := 0, data := pg.data } := by
    rw [getPage_setPage t a a pg _ hg, if_pos rfl]
  split_ifs with hm
  · simp only [h2]
    rw [if_neg (by show ¬ pg.pin_count - 1 > 0; omega)]
    exact ⟨_, rfl⟩
  · exact ⟨_, rfl⟩

/-- The loop of `FreeAllPages` over pages that are write-latched and pinned once returns, and
what is left of the deletion set are the ids that were not in the list. -/
theorem free_loop_succeeds : ∀ (l : List Int) (t : BPlusTree), l.Nodup →
    t.deleted_page_set.Nodup →
    (∀ id ∈ l, ∃ pg, getPage t id = some pg ∧ pg.latch = -1 ∧ pg.pin_count = 1) →
    ∃ t', l.foldlM freePage t = Except.ok t' ∧
      ∀ x, x ∈ t'.deleted_page_set → x ∈ t.deleted_page_set ∧ x ∉ l := by
  intro l
  induction l with
  | nil =>
    intro t _ _ _
    exact ⟨t, rfl, fun x hx => ⟨hx, by simp⟩⟩
  | cons a l ih =>
    intro t hnd hdd hall
    obtain ⟨pg, hg, hl, hp⟩ := hall a (List.mem_cons_self _ _)
    obtain ⟨v, hv⟩ := freePage_succeeds t a pg hg hl hp
    obtain ⟨p, hp1, _, hfr, hin, hout⟩ := freePage_spec t v a hv
    rw [List.nodup_cons] at hnd
    have hdv : v.deleted_page_set.Nodup ∧
        ∀ x, x ∈ v.deleted_page_set → x ∈ t.deleted_page_set ∧ x ≠ a := by
      by_cases hm : a ∈ t.deleted_page_set
      · obtain ⟨_, _, e⟩ := hin hm
        rw [e]
        exact ⟨hdd.erase a, fun x hx => ⟨List.mem_of_mem_erase hx,
          fun hxa => by rw [hxa] at hx; exact (List.Nodup.not_mem_erase hdd) hx⟩⟩
      · obtain ⟨_, e⟩ := hout hm
        rw [e]
        exact ⟨hdd, fun x hx => ⟨hx, fun hxa => hm (hxa ▸ hx)⟩⟩
    obtain ⟨t', ht', hd'⟩ := ih v hnd.2 hdv.1 (by
      intro id hid
      have hne : id ≠ a := fun e => hnd.1 (e ▸ hid)
      rw [hfr id hne]
      exact hall id (List.mem_cons_of_mem _ hid))
    refine ⟨t', ?_, ?_⟩
    · rw [List.foldlM_cons]
      simp only [hv, bind, Except.bind]
      exact ht'
    · intro x hx
      obtain ⟨h1, h2⟩ := hd' x hx
      obtain ⟨h3, h4⟩ := hdv.2 x h1
      exact ⟨h3, by
        rw [List.mem_cons]
        rintro (h5 | h5)
        · exact h4 h5
        · exact h2 h5⟩

/-- `FreeAllPages` returns on committable sets whose pages are pinned once, with both sets
empty. -/
theorem FreeAllPages_succeeds (u : BPlusTree) (hk : Committable u)
    (hpin : ∀ id ∈ u.page_set, ∀ pg, getPage u id = some pg → pg.pin_count = 1) :
    ∃ w, FreeAllPages u = Except.ok w ∧ w.deleted_page_set = [] ∧ w.page_set = [] := by
  obtain ⟨k1, k2, k3, k4⟩ := hk
  obtain ⟨t', ht', hd'⟩ := free_loop_succeeds u.page_set u k1 k2 (by
    intro id hid
    obtain ⟨pg, hg, hl⟩ := k3 id hid
    exact ⟨pg, hg, hl, hpin id hid pg hg⟩)
  have hnil : t'.deleted_page_set = [] := by
    rw [List.eq_nil_iff_forall_not_mem]
    intro x hx
    obtain ⟨h1, h2⟩ := hd' x hx
    exact h2 (k4 x h1)
  refine ⟨{ t' with page_set := [] }, ?_, hnil, rfl⟩
  unfold FreeAllPages
  simp only [ht', bind, Except.bind]
  rw [if_pos hnil]
  rfl

theorem Committable_of_eq (t t' : BPlusTree) (hk : Committable t) (hp : t'.pages = t.pages)
    (h1 : t'.page_set = t.page_set) (h2 : t'.deleted_page_set = t.deleted_page_set) :
    Committable t' := by
  obtain ⟨k1, k2, k3, k4⟩ := hk
  refine ⟨by rw [h1]; exact k1, by rw [h2]; exact k2, ?_, ?_⟩
  · intro id hid
    rw [h1] at hid
    rw [getPage_congr t t' hp]
    exact k3 id hid
  · intro id hid
    rw [h2] at hid
    rw [h1]
    exact k4 id hid

theorem Committable_TryUnlatchRoot (t : BPlusTree) (op : OP_TYPE) (hk : Committable t) :
    Committable (TryUnlatchRoot t op) := by
  unfold TryUnlatchRoot
  split_ifs <;> exact hk

theorem Committable_of_HeldState (t0 t : BPlusTree) (hs : HeldState t0 t) : Committable t := by
  refine ⟨hs.nodup, by rw [hs.deleted]; exact List.nodup_nil, ?_, ?_⟩
  · intro id hid
    obtain ⟨pg, hg⟩ := hs.valid id hid
    exact ⟨_, hs.getPage_held t0 t id pg hg hid, rfl⟩
  · intro id hid
    rw [hs.deleted] at hid
    cases hid

theorem dataAt_of_HeldState (t0 t : BPlusTree) (hs : HeldState t0 t) (id : Int) :
    dataAt t id = dataAt t0 id := by
  unfold dataAt
  rw [hs.frames id]
  cases getPage t0 id with
  | none => rfl
  | some pg =>
    simp only [Option.map_some']
    split_ifs <;> rfl

theorem RemoveAndDeleteRecord_size (n : Node) (key : Int) :
    n.size ≤ (n.RemoveAndDeleteRecord key).1.size + 1 := by
  unfold Node.RemoveAndDeleteRecord
  cases n.LeafLookup key <;> simp

theorem descentPath_start (t : BPlusTree) (key : Int) (fuel : Nat) (page : Int)
    (path : List Int) (h : descentPath t key fuel page = some path) :
    ∃ n, dataAt t page = some n := by
  cases fuel with
  | zero => simp [descentPath] at h
  | succ fuel =>
    unfold descentPath at h
    cases hg : getPage t page with
    | none => simp [hg] at h
    | some pg => exact ⟨pg.data, dataAt_of_getPage t page pg hg⟩

theorem IsRootPage_of_SameHead (n' n : Node) (h : SameHead n' n) :
    n'.IsRootPage = n.IsRootPage := by
  unfold Node.IsRootPage
  rw [h.2.2.2]

theorem GetMinSize_of_SameHead (n' n : Node) (h : SameHead n' n) :
    n'.GetMinSize = n.GetMinSize := by
  unfold Node.GetMinSize
  rw [h.2.2.1]

/-- The state in which `Remove` calls `FreeAllPages`, after a start in a quiescent state of a
well-formed tree: the held set has no duplicates and consists of write-latched pages, the
deletion set is part of it, and the pins are those of the held set. -/
theorem RemoveHeld_commit (h : Int → Nat) (t0 u : BPlusTree) (key : Int) (path : List Int)
    (hq : quiescent t0 = true) (hi : Inv h (-1) t0) (hh : 0 ≤ t0.header_pin_count)
    (hpath : descentPath t0 key t0.pages.length t0.root_page_id = some path)
    (hlink : parentLinked t0 INVALID_PAGE_ID path = true)
    (hok : RemoveHeld t0 key = Except.ok u) :
    Committable u ∧ Acc [] t0 u ∧ Touch (fun x => x ∈ u.page_set) t0 u := by
  obtain ⟨t1, h1, _, _, _, hu1⟩ := LatchRoot_quiescent t0 hq OP_TYPE.DELETE (by decide)
  obtain ⟨_, _, q3, _⟩ := quiescent_fields t0 hq
  have h0 : PinOK t0 :=
    PinOK_of_pages t0 (fun id pg hg => by rw [(quiescent_page t0 hq id pg hg).1]) hh q3
  have hid : IdOK t0 := fun id n hn => (hi.1.2 id n hn).page_id
  unfold RemoveHeld at hok
  obtain ⟨t1', h1', hok⟩ := bind_ok _ _ _ hok
  rw [h1] at h1'
  cases h1'
  rw [hu1] at hok
  obtain ⟨t2, leaf, hc, hlast, hset, hheld⟩ :=
    crabbing_held_set t0 key OP_TYPE.DELETE (by decide) hq path hpath
  obtain ⟨r, hcrab, hok⟩ := bind_ok _ _ _ hok
  rw [hc] at hcrab
  cases hcrab
  dsimp only at hok
  obtain ⟨kc, nl, hnl0, hleaf⟩ := Keeps_crabbing t0 t2 key _ leaf hc
  obtain ⟨lq, hnl, hok⟩ := bind_ok _ _ _ hok
  have elp : some lq = some nl := by rw [← (getNode_ok_iff _ _ _).1 hnl, hnl0]
  cases elp
  have hi2 := Inv_of_Keeps h (-1) t0 t2 hi kc
  obtain ⟨f1, f2, f3⟩ := RemoveAndDeleteRecord_facts nl key
  have hi3 : Inv h (-1) (setNode t2 leaf (nl.RemoveAndDeleteRecord key).1) := by
    apply Inv_setNode h t2 _ _ hi2
    · intro _ _
      exact GoodNode_leaf_of_SameHead _ _ _ _ _ nl _ (hi2.1.2 leaf nl hnl0) hleaf f1
    · intro _ _ hL hM
      have := Inv_size_lt h t2 hi2 leaf nl hnl0 hL hM
      rw [f1.2.2.1]
      omega
  have K2 := Committable_of_HeldState t0 t2 hheld
  have K3 := Committable_NoLatch _ _ K2 (NoLatch_setNode t2 leaf (nl.RemoveAndDeleteRecord key).1)
  have a2 := crabbing_write_pins key OP_TYPE.DELETE (by decide) [] t0 t0 t2 leaf
    (Acc_refl t0 hid) h0 hc
  have a3 := Acc_setNode _ t0 t2 a2 leaf (nl.RemoveAndDeleteRecord key).1
    (fun _ _ => f1.1.trans (Acc_page_id _ t0 t2 a2 leaf nl hnl))
  have hd3 : dataAt (setNode t2 leaf (nl.RemoveAndDeleteRecord key).1) leaf =
      some (nl.RemoveAndDeleteRecord key).1 := by
    rw [dataAt_setNode, if_pos rfl, hnl0]
    rfl
  obtain ⟨ys, hp⟩ := List.getLast?_eq_some_iff.1 hlast
  have hp2 : path = ys.reverse.reverse ++ leaf :: [] := by rw [List.reverse_reverse]; exact hp
  have hmem2 : leaf ∈ t2.page_set := by
    rw [hset]
    exact heldSuffix_mem _ path ys [] leaf hp (by simp)
  have hmem3 : leaf ∈ (setNode t2 leaf (nl.RemoveAndDeleteRecord key).1).page_set := by
    rw [setNode_page_set]; exact hmem2
  have ht3 : Touch (fun x => x ∈ (setNode t2 leaf (nl.RemoveAndDeleteRecord key).1).page_set)
      t0 (setNode t2 leaf (nl.RemoveAndDeleteRecord key).1) :=
    Touch_trans _ _ _ _
      (Touch_of_data _ t0 t2 fun id n hn => by rw [dataAt_of_HeldState t0 t2 hheld]; exact hn)
      (Touch_setNode _ _ _ _ hmem3)
  split_ifs at hok with hlt
  · obtain ⟨d, hd, hok⟩ := bind_ok _ _ _ hok
    obtain ⟨t5, sd⟩ := d
    dsimp only at hok
    simp only [pure, Except.pure, Except.ok.injEq] at hok
    have HA : HeldAbove t2 leaf ys.reverse :=
      HeldAbove_of_path t0 t2 path hlink (descentPath_exists t0 key _ _ path hpath) hset
        (dataAt_of_HeldState t0 t2 hheld) ys.reverse leaf [] hp2 (by simp)
    have hsz := RemoveAndDeleteRecord_size nl key
    have hmin := GetMinSize_of_SameHead _ _ f1
    have hunder : nl.size ≤ nl.GetMinSize := by
      rw [f3, hmin] at hlt
      omega
    have HP : HeldParent (setNode t2 leaf (nl.RemoveAndDeleteRecord key).1) leaf ys.reverse := by
      generalize ys.reverse = ups at HA
      cases ups with
      | nil =>
        obtain ⟨n, hn, hr⟩ := HA
        rw [hnl0] at hn
        cases hn
        exact ⟨_, hd3, by rw [IsRootPage_of_SameHead _ _ f1]; exact hr⟩
      | cons y rest =>
        obtain ⟨n, hn, hr, hpar, hup⟩ := HA
        rw [hnl0] at hn
        cases hn
        obtain ⟨hy, hrest⟩ := hup hunder
        have hg := GoodNode_parent_of_not_root h _ _ _ leaf nl (hi2.1.2 leaf nl hnl0)
          (by rw [hr]; simp)
        refine ⟨_, hd3, by rw [IsRootPage_of_SameHead _ _ f1]; exact hr, f1.2.2.2.trans hpar,
          by rw [setNode_page_set]; exact hy, ?_⟩
        refine HeldAbove_mono h (h leaf) t2 _ hi2.1 (Above_setNode h (h leaf) t2 leaf _ le_rfl)
          (fun x hx => by rw [setNode_page_set]; exact hx) rest y ?_ hrest
        rw [← hpar, hg.2.2]
        omega
    obtain ⟨K5, hsub, ht5⟩ := CoalesceOrRedistribute_commit _ h _ t5 leaf sd ys.reverse hi3 (by
      intro n' hn'
      rw [hd3] at hn'
      cases hn'
      rw [← f3]
      exact hlt) K3 hmem3 HP hd
    have a5 := CoalesceOrRedistribute_pins _ [] t0 _ t5 leaf sd a3 h0 hd
    have htt : Touch (fun x => x ∈ t5.page_set) t0 t5 := Touch_held_trans t0 _ t5 ht3 ht5 hsub
    subst hok
    refine ⟨?_, ?_, ?_⟩
    · apply Committable_TryUnlatchRoot
      split_ifs
      · exact Committable_AddIntoDeletedPageSet t5 leaf K5 (hsub leaf hmem3)
      · exact K5
    · apply Acc_same _ t0 _ _ _ (PinSame_TryUnlatchRoot _ OP_TYPE.DELETE)
      split_ifs
      · exact Acc_same _ t0 t5 _ a5 (PinSame_AddIntoDeletedPageSet t5 leaf)
      · exact a5
    · apply Touch_held_TryUnlatchRoot
      split_ifs
      · exact Touch_held_AddIntoDeletedPageSet t0 t5 leaf htt
      · exact htt
  · simp only [pure, Except.pure, Except.ok.injEq] at hok
    subst hok
    exact ⟨Committable_TryUnlatchRoot _ _ K3,
      Acc_same _ t0 _ _ a3 (PinSame_TryUnlatchRoot _ OP_TYPE.DELETE),
      Touch_held_TryUnlatchRoot t0 _ _ ht3⟩

/-- The chain of held ancestors of an insert survives a step that leaves the pages above height
`k` unchanged and drops no page from the held set, for a page above height `k`. -/
theorem HeldAboveI_mono (h : Int → Nat) (k : Nat) (t t' : BPlusTree) (hs : Str h t)
    (ha : Above h k t t') (hsub : ∀ x ∈ t.page_set, x ∈ t'.page_set) :
    ∀ (ups : List Int) (z : Int), k < h z → HeldAboveI t z ups → HeldAboveI t' z ups := by
  intro ups
  induction ups with
  | nil =>
    intro z hz hc
    obtain ⟨n, hn, hr⟩ := hc
    exact ⟨n, ha z n hz hn, hr⟩
  | cons w rest ih =>
    intro z hz hc
    obtain ⟨n, hn, hr, hp, hrest⟩ := hc
    refine ⟨n, ha z n hz hn, hr, hp, ?_⟩
    intro hsz
    obtain ⟨hw, hcw⟩ := hrest hsz
    have hh := (GoodNode_parent_of_not_root h _ _ _ z n (hs.2 z n hn) (by simp [hr])).2.2
    rw [hp] at hh
    exact ⟨hsub w hw, ih w (by omega) hcw⟩

/-- After the descent of an insert the pages above a page of the path are held as far as a
split of that page can go. -/
theorem HeldAboveI_of_path (t0 t : BPlusTree) (path : List Int)
    (hlink : parentLinked t0 INVALID_PAGE_ID path = true)
    (hex : ∀ x ∈ path, ∃ n, dataAt t0 x = some n)
    (hset : t.page_set = heldSuffix (safeAt t0 OP_TYPE.INSERT) path)
    (hdata : ∀ id, dataAt t id = dataAt t0 id) :
    ∀ (ups : List Int) (y : Int) (below : List Int), path = ups.reverse ++ y :: below →
      (∀ z ∈ below, safeAt t0 OP_TYPE.INSERT z = false) → HeldAboveI t y ups := by
  intro ups
  induction ups with
  | nil =>
    intro y below hp _
    obtain ⟨n, hn⟩ := hex y (by rw [hp]; simp)
    refine ⟨n, by rw [hdata]; exact hn, ?_⟩
    rw [hp] at hlink
    simp only [List.reverse_nil, List.nil_append, parentLinked, Bool.and_eq_true,
      beq_iff_eq] at hlink
    rw [nodeOf_dataAt t0 y n hn] at hlink
    simp [Node.IsRootPage, hlink.1]
  | cons z rest ih =>
    intro y below hp hb
    have hp' : path = rest.reverse ++ z :: (y :: below) := by
      rw [hp]; simp
    obtain ⟨n, hn⟩ := hex y (by rw [hp]; simp)
    obtain ⟨nz, hnz⟩ := hex z (by rw [hp']; simp)
    have hpar : n.parent_page_id = z := by
      rw [hp'] at hlink
      have := parentLinked_at t0 _ _ z y below hlink
      rw [nodeOf_dataAt t0 y n hn] at this
      exact this
    have hz0 := (dataAt_range t0 z nz hnz).1
    refine ⟨n, by rw [hdata]; exact hn, ?_, hpar, ?_⟩
    · simp only [Node.IsRootPage, hpar, INVALID_PAGE_ID, beq_eq_false_iff_ne, ne_eq]
      omega
    · intro hsz
      have hun : ∀ w ∈ y :: below, safeAt t0 OP_TYPE.INSERT w = false := by
        intro w hw
        rw [List.mem_cons] at hw
        rcases hw with rfl | hw
        · obtain ⟨pg, hg, e⟩ := dataAt_eq_some t0 w n hn
          simp only [safeAt, hg, IsNodeSafe, e, if_true,
            decide_eq_false_iff_not, not_lt, Node.GetSize, Node.GetMaxSize]
          exact hsz
        · exact hb w hw
      refine ⟨?_, ih z (y :: below) hp' hun⟩
      rw [hset]
      exact heldSuffix_mem _ path _ _ z hp' hun

/-- `Split` leaves the pages above the level of the page it splits unchanged, and the page it
splits keeps its parent id. -/
theorem Split_frame (h : Int → Nat) (k : Nat) (t t' : BPlusTree) (N : IndexPageType)
    (node new : Int) (n : Node) (hs : Str h t) (hn : dataAt t node = some n)
    (hk : h node ≤ k) (hok : Split t N node = Except.ok (t', new)) :
    Above h k t t' ∧ ∃ n', dataAt t' node = some n' ∧ n'.parent_page_id = n.parent_page_id := by
  have hr := Str_dataAt_ne_zero h t hs node n hn
  have hne : node ≠ (t.pages.length : Int) := by omega
  have hnp : (NewPage t).2 = (t.pages.length : Int) := rfl
  have hn1 : dataAt (NewPage t).1 node = some n := by
    rw [dataAt_NewPage, if_neg hne]; exact hn
  have hz : dataAt (NewPage t).1 (t.pages.length : Int) = some zeroNode := by
    rw [dataAt_NewPage, if_pos rfl]
  unfold Split at hok
  simp only [hnp, (getNode_ok_iff _ _ _).2 hn1, (getNode_ok_iff _ _ _).2 hz, bind,
    Except.bind] at hok
  generalize (if N = IndexPageType.LEAF_PAGE then
      zeroNode.InitLeaf ((t.pages.length : Int)) n.parent_page_id
        (if n.IsLeafPage = true then (NewPage t).1.leaf_max_size
          else (NewPage t).1.internal_max_size)
    else zeroNode.InitInternal ((t.pages.length : Int)) n.parent_page_id
        (if n.IsLeafPage = true then (NewPage t).1.leaf_max_size
          else (NewPage t).1.internal_max_size)) = init at hok
  have hq1 : dataAt (setNode (NewPage t).1 (t.pages.length : Int) init) (t.pages.length : Int) =
      some init := by
    rw [dataAt_setNode, if_pos rfl, hz]; rfl
  have hold : ∀ id m, dataAt t id = some m →
      dataAt (setNode (NewPage t).1 (t.pages.length : Int) init) id = some m := by
    intro id m hm
    have := (dataAt_range t id m hm).2
    rw [dataAt_setNode, if_neg (by omega), dataAt_NewPage, if_neg (by omega)]
    exact hm
  by_cases hl : n.IsLeafPage = true
  · simp only [hl, if_true, pure, Except.pure, Except.ok.injEq, Prod.mk.injEq] at hok
    obtain ⟨rfl, _⟩ := hok
    constructor
    · intro id m hid hm
      have h1 := (dataAt_range t id m hm).2
      rw [dataAt_setNode, if_neg (by intro e; subst e; omega), dataAt_setNode,
        if_neg (by omega)]
      exact hold id m hm
    · refine ⟨{ (n.LeafMoveHalfTo init).1 with next_page_id := (t.pages.length : Int) }, ?_,
        rfl⟩
      rw [dataAt_setNode, if_pos rfl, dataAt_setNode, if_neg hne, hold node n hn]
      rfl
  · have hl' : n.IsLeafPage = false := by simpa using hl
    simp only [hl', Bool.false_eq_true, if_false] at hok
    obtain ⟨t2, h2, hok⟩ := bind_ok _ _ _ hok
    simp only [pure, Except.pure, Except.ok.injEq, Prod.mk.injEq] at hok
    obtain ⟨rfl, _⟩ := hok
    unfold MoveHalfTo at h2
    rw [(getNode_ok_iff _ _ _).2 (hold node n hn)] at h2
    simp only [bind, Except.bind] at h2
    generalize hitems : slotsFrom n.array (n.GetSize - n.GetSize / 2) (n.GetSize / 2) = items
      at h2
    cases hc : CopyNFrom (setNode (NewPage t).1 (t.pages.length : Int) init)
        (t.pages.length : Int) items (n.GetSize / 2) with
    | error e => simp [hc] at h2
    | ok t1 =>
      simp only [hc] at h2
      obtain ⟨_, hd⟩ := CopyNFrom_data _ t1 _ items _ init hq1 hc
      have hkeep : ∀ id m, dataAt t id = some m → (∀ c, h c + 1 = h node → id ≠ c) →
          dataAt t1 id = some m := by
        intro id m hm hnc
        have hrange := (dataAt_range t id m hm).2
        obtain ⟨m', hm', e1, e2, e3, e4, e5, e6, e7, _⟩ := hd id m (hold id m hm)
        have hneq : id ≠ (t.pages.length : Int) := by omega
        have hnot : id ∉ items.map Prod.snd := by
          intro hin
          rw [List.mem_map] at hin
          obtain ⟨item, hitem, rfl⟩ := hin
          rw [← hitems] at hitem
          have hso := all_slotsFrom (slotOK h t.pages.length (h node)) (slotOK_zero _ _ _)
            n.array _ _ ((hs.2 node n hn).slots hl') item hitem
          exact hnc item.2 (slotOK_exists h t hs _ item hso m hm).2.2 rfl
        rw [if_neg hneq] at e1
        rw [if_neg hnot] at e6
        have e7' := e7 hneq
        rw [hm']
        congr 1
        cases m
        cases m'
        simp_all
      have hnode := hkeep node n hn (fun c hc e => by rw [← e] at hc; omega)
      rw [(getNode_ok_iff _ _ _).2 hnode] at h2
      simp only [pure, Except.pure, Except.ok.injEq] at h2
      subst h2
      constructor
      · intro id m hid hm
        rw [dataAt_setNode, if_neg (by intro e; subst e; omega)]
        exact hkeep id m hm (fun c hc e => by rw [← e] at hc; omega)
      · refine ⟨{ n with size := n.GetSize - n.GetSize / 2 }, ?_, rfl⟩
        rw [dataAt_setNode, if_pos rfl, hnode]
        rfl

/-- `InsertIntoParent`, called for a page whose parent is in the held set, with the pages above
held as far as the splits can go, writes only to pages of the held set and to pages allocated
since the operation began (ids from `N` on), apart from parent ids. -/
theorem InsertIntoParent_touch :
    ∀ (fuel : Nat) (h : Int → Nat) (N : Int) (t t' : BPlusTree) (old_node key new_node : Int)
      (ups : List Int),
      Inv h (-1) t → h new_node = h old_node → (dataAt t new_node).isSome = true →
      N ≤ (t.pages.length : Int) → HeldParentI t old_node ups →
      InsertIntoParent fuel t old_node key new_node = Except.ok t' →
      Touch (fun x => x ∈ t.page_set ∨ N ≤ x) t t' := by
  intro fuel
  induction fuel with
  | zero => intro h N t t' o k nw ups _ _ _ _ _ hok; simp [InsertIntoParent] at hok
  | succ fuel ih =>
    intro h N t t' old_node key new_node ups hi hh hnew hN hp hok
    rw [InsertIntoParent] at hok
    obtain ⟨old, hold, hok⟩ := bind_ok _ _ _ hok
    have hold' := (getNode_ok_iff _ _ _).1 hold
    by_cases hroot : old.IsRootPage = true
    · rw [if_pos hroot] at hok
      simp only at hok
      obtain ⟨nr, _, hok⟩ := bind_ok _ _ _ hok
      obtain ⟨old1, _, hok⟩ := bind_ok _ _ _ hok
      obtain ⟨new1, _, hok⟩ := bind_ok _ _ _ hok
      obtain ⟨old2, ho2, hok⟩ := bind_ok _ _ _ hok
      obtain ⟨new2, hn2, hok⟩ := bind_ok _ _ _ hok
      simp only [pure, Except.pure, Except.ok.injEq] at hok
      subst hok
      have hfresh : (fun x => x ∈ t.page_set ∨ N ≤ x) (NewPage t).2 := Or.inr hN
      exact Touch_trans _ _ _ _ (Touch_NewPage _ t)
        (Touch_trans _ _ _ _ (Touch_UpdateRootPageId _ _ _ _)
          (Touch_trans _ _ _ _ (Touch_setNode _ _ _ _ hfresh)
            (Touch_trans _ _ _ _ (Touch_setNode_parent _ _ _ _ _ ho2)
              (Touch_trans _ _ _ _ (Touch_setNode_parent _ _ _ _ _ hn2)
                (Touch_trans _ _ _ _ (Touch_UnpinPage _ _ _ _) (Touch_UnpinPage _ _ _ _))))))
    · rw [if_neg hroot] at hok
      -- the parent is held
      have hpar : ∃ rest, old.parent_page_id ∈ t.page_set ∧
          HeldAboveI t old.parent_page_id rest := by
        cases ups with
        | nil =>
          obtain ⟨n, hn, hr⟩ := hp
          rw [hold'] at hn
          cases hn
          exact absurd hr hroot
        | cons y rest =>
          obtain ⟨n, hn, _, hpy, hy, hch⟩ := hp
          rw [hold'] at hn
          cases hn
          rw [hpy]
          exact ⟨rest, hy, hch⟩
      obtain ⟨rest, hy, hch⟩ := hpar
      obtain ⟨hs, hb⟩ := hi
      obtain ⟨nn, hnn⟩ := Option.isSome_iff_exists.1 hnew
      have hgo := hs.2 old_node old hold'
      have hgn := hs.2 new_node nn hnn
      have hrn := Str_dataAt_ne_zero h t hs new_node nn hnn
      obtain ⟨hp1, hp2, hp3⟩ := GoodNode_parent_of_not_root _ _ _ _ _ _ hgo hroot
      cases hf : FetchPage t old.parent_page_id with
      | none => simp [hf] at hok
      | some t1 =>
        simp only [hf] at hok
        have k1 := Keeps_FetchPage t t1 _ hf
        have hd1 := dataAt_FetchPage t t1 _ hf
        have hc1 := cfg_FetchPage t t1 _ hf
        have hs1 : Str h t1 := Str_of_Keeps h t t1 hs k1
        obtain ⟨pp, hpp, hok⟩ := bind_ok _ _ _ hok
        have hpp' := (getNode_ok_iff _ _ _).1 hpp
        have hppt : dataAt t old.parent_page_id = some pp := by rw [← hd1]; exact hpp'
        obtain ⟨new1, hnew1, hok⟩ := bind_ok _ _ _ hok
        have en1 : some new1 = some nn := by
          rw [← (getNode_ok_iff _ _ _).1 hnew1, hd1, hnn]
        cases en1
        have hgp := hs1.2 _ pp hpp'
        have hpleaf : pp.IsLeafPage = false :=
          GoodNode_not_leaf _ _ _ _ _ _ hgp (by omega)
        cases hins : pp.InsertNodeAfter old.page_id key nn.page_id with
        | none => simp [hins] at hok
        | some r =>
          obtain ⟨pp', size⟩ := r
          simp only [hins] at hok
          obtain ⟨f1, f2, f3, f4, f5, f6, f7⟩ := InsertNodeAfter_facts _ _ _ _ _ _ hins
          have hgp' : GoodNode h t1.pages.length t1.leaf_max_size t1.internal_max_size
              old.parent_page_id pp' := by
            refine GoodNode_of_eq _ _ _ _ _ pp _ hgp f1 f2 f3 f4 ?_
            intro hl
            apply f7 _ (slotOK_zero _ _ _) (hgp.slots hl)
            rw [hgn.page_id]
            exact Or.inr ⟨hrn.1, by rw [cfg_length _ _ hc1]; exact hrn.2,
              by show h new_node + 1 = _; omega⟩
          set t2 := setNode t1 old.parent_page_id pp' with ht2
          have hs2 : Str h t2 := by
            apply Str_setNode h t1 _ _ hs1
            intro n0 _
            exact hgp'
          have hc2 : cfg t2 = cfg t := by rw [ht2, cfg_setNode, hc1]
          have hd2p : dataAt t2 old.parent_page_id = some pp' := by
            rw [ht2, dataAt_setNode, if_pos rfl, hpp']; rfl
          set t3 := UnpinPage t2 nn.page_id true with ht3
          have k3 : Keeps t2 t3 := Keeps_UnpinPage t2 _ _
          have hs3 : Str h t3 := Str_of_Keeps h t2 t3 hs2 k3
          have hc3 : cfg t3 = cfg t := by rw [ht3, cfg_UnpinPage, hc2]
          have hd3 : ∀ id, dataAt t3 id = dataAt t2 id := fun id => dataAt_UnpinPage t2 _ _ id
          have hb3 : 2 ≤ t3.leaf_max_size → 2 ≤ t3.internal_max_size →
              BndX old.parent_page_id t3 := by
            intro hL hM
            rw [cfg_leaf_max _ _ hc3] at hL
            rw [cfg_internal_max _ _ hc3] at hM
            have hb0 := hb hL hM
            intro id n' hn'
            rw [hd3, ht2, dataAt_setNode] at hn'
            by_cases he : id = old.parent_page_id
            · simp only [he, if_true, hpp', Option.map_some', Option.some.injEq] at hn'
              subst hn'
              right
              refine ⟨he, ?_⟩
              have := BndX_size_lt (-1) t hb0 _ pp (by rw [← hd1]; exact hpp') (by omega)
              omega
            · simp only [he, if_false, hd1] at hn'
              have := (dataAt_range t id n' hn').1
              exact Or.inl (BndX_size_lt (-1) t hb0 id n' hn' (by omega))
          -- what has been written so far
          have a3 : Touch (fun x => x ∈ t.page_set ∨ N ≤ x) t t3 :=
            Touch_trans _ _ _ _ (Touch_FetchPage _ t t1 _ hf)
              (Touch_trans _ _ _ _ (Touch_setNode _ _ _ _ (Or.inl hy))
                (Touch_UnpinPage _ _ _ _))
          have n3 : NoLatch t t3 :=
            NoLatch_trans _ _ _ (NoLatch_FetchPage t t1 _ hf)
              (NoLatch_trans _ _ _ (NoLatch_setNode _ _ _) (NoLatch_UnpinPage _ _ _))
          have ab3 : Above h (h old.parent_page_id) t t3 :=
            Above_trans h _ _ _ _ (Above_of_eq h _ _ _ hd1)
              (Above_trans h _ _ _ _ (Above_setNode h _ _ _ _ (le_refl _))
                (Above_of_eq h _ _ _ hd3))
          by_cases hfull : size = pp'.GetMaxSize
          · rw [if_pos hfull] at hok
            obtain ⟨r, hsplit, hok⟩ := bind_ok _ _ _ hok
            obtain ⟨t4, split_page⟩ := r
            simp only at hok
            obtain ⟨sp, hsp, hok⟩ := bind_ok _ _ _ hok
            obtain ⟨t5, h5, hok⟩ := bind_ok _ _ _ hok
            obtain ⟨pp5, hpp5, hok⟩ := map_ok _ _ _ hok
            subst hok
            have hd3p : dataAt t3 old.parent_page_id = some pp' := by rw [hd3]; exact hd2p
            have hp'leaf : pp'.IsLeafPage = false := by
              simp only [Node.IsLeafPage, f2]; exact hpleaf
            obtain ⟨e1, hi4, hc4, hex4⟩ := Split_inv h t3 t4 IndexPageType.INTERNAL_PAGE
              old.parent_page_id split_page pp' ⟨hs3, hb3⟩ hd3p
              (by simp [hp'leaf]) hsplit
            subst e1
            have hlt : old.parent_page_id ≠ (t3.pages.length : Int) := by
              rw [cfg_length _ _ hc3]; omega
            have hlen3 : t3.pages.length = t.pages.length := cfg_length _ _ hc3
            have n4 : NoLatch t t4 := NoLatch_trans _ _ _ n3 (NoLatch_Split _ _ _ _ _ hsplit)
            have a4 : Touch (fun x => x ∈ t.page_set ∨ N ≤ x) t3 t4 :=
              Touch_Split _ t3 t4 _ _ _ (Or.inl hy) (Or.inr (by rw [hlen3]; exact hN)) hsplit
            obtain ⟨ab4, p4, hp4, hpar4⟩ := Split_frame h (h old.parent_page_id) t3 t4 _ _ _ pp'
              hs3 hd3p (le_refl _) hsplit
            have hpar4' : p4.parent_page_id = pp.parent_page_id := hpar4.trans f4
            have hroot4 : p4.IsRootPage = pp.IsRootPage := by
              simp only [Node.IsRootPage, hpar4']
            have HP : HeldParentI t4 old.parent_page_id rest := by
              cases rest with
              | nil =>
                obtain ⟨q, hq, hqr⟩ := hch
                rw [hppt] at hq
                cases hq
                exact ⟨p4, hp4, by rw [hroot4]; exact hqr⟩
              | cons z r =>
                obtain ⟨q, hq, hqr, hqp, hqc⟩ := hch
                rw [hppt] at hq
                cases hq
                have hsz : pp.max_size - 1 ≤ pp.size := by
                  simp only [Node.GetMaxSize] at hfull
                  omega
                obtain ⟨hz, hcz⟩ := hqc hsz
                have hhz := (GoodNode_parent_of_not_root h _ _ _ _ pp (hs.2 _ pp hppt)
                  (by simp [hqr])).2.2
                rw [hqp] at hhz
                exact ⟨p4, hp4, by rw [hroot4]; exact hqr, hpar4'.trans hqp,
                  by rw [n4.2.1]; exact hz,
                  HeldAboveI_mono h (h old.parent_page_id) t t4 hs
                    (Above_trans h _ _ _ _ ab3 ab4) (fun x hx => by rw [n4.2.1]; exact hx) r z
                    (by omega) hcz⟩
            have hlen4 : N ≤ (t4.pages.length : Int) := by
              have e4 : t4.pages.length = t3.pages.length + 1 := congrArg (fun c => c.1) hc4
              rw [e4, hlen3]
              push_cast
              omega
            have a5 := ih _ N t4 t5 old.parent_page_id (sp.KeyAt 0)
              (t3.pages.length : Int) rest hi4
              (by rw [Function.update_same, Function.update_noteq hlt]) hex4 hlen4 HP h5
            exact Touch_trans _ _ _ _ a3
              (Touch_trans _ _ _ _ a4
                (Touch_trans _ _ _ _
                  (Touch_mono _ _ _ _ (fun x hx => by rw [n4.2.1] at hx; exact hx) a5)
                  (Touch_UnpinPage _ _ _ _)))
          · rw [if_neg hfull] at hok
            simp only [pure, Except.pure, Except.ok.injEq] at hok
            subst hok
            exact Touch_trans _ _ _ _ a3 (Touch_UnpinPage _ _ _ _)

/-- On a non-empty index `Insert` is `InsertHeld` followed by `ReleaseAllPages`. -/
theorem Insert_eq_InsertHeld (t t1 : BPlusTree) (key value : Int)
    (h1 : LatchRoot t OP_TYPE.INSERT = Except.ok t1) (he : IsEmpty t1 = false) :
    Insert t key value =
      (InsertHeld t key value).bind fun r => (ReleaseAllPages r.1).map fun u => (u, r.2) := by
  unfold Insert InsertHeld InsertIntoLeaf
  simp only [h1, bind, Except.bind, he, Bool.false_eq_true, if_false]
  cases hc : FindLeafPageCrabbing (TryUnlatchRoot t1 OP_TYPE.INSERT) key OP_TYPE.INSERT with
  | error e => rfl
  | ok r =>
    simp only
    cases hg : getNode r.1 r.2 with
    | error e => rfl
    | ok leaf =>
      simp only
      split_ifs with hfull
      · cases hsp : Split (setNode r.1 r.2 (leaf.LeafInsert key value).1)
            IndexPageType.LEAF_PAGE r.2 with
        | error e => rfl
        | ok c =>
          simp only
          cases hsn : getNode c.1 c.2 with
          | error e => rfl
          | ok sn =>
            simp only
            cases hip : InsertIntoParent c.1.pages.length c.1 r.2 (sn.KeyAt 0) c.2 with
            | error e => rfl
            | ok t5 =>
              simp only [pure, Except.pure]
              cases ReleaseAllPages (TryUnlatchRoot t5 OP_TYPE.INSERT) <;> rfl
      · simp only [pure, Except.pure]
        cases ReleaseAllPages (TryUnlatchRoot (setNode r.1 r.2 (leaf.LeafInsert key value).1)
          OP_TYPE.INSERT) <;> rfl

/-- A page that existed when the operation began is not a page allocated since. -/
theorem Touch_fresh (S : List Int) (N : Int) (t u : BPlusTree) (hN : (t.pages.length : Int) ≤ N)
    (h : Touch (fun x => x ∈ S ∨ N ≤ x) t u) : Touch (fun x => x ∈ S) t u := by
  intro id n hn
  obtain ⟨n', hn', e⟩ := h id n hn
  refine ⟨n', hn', ?_⟩
  rcases e with (e | e) | e
  · exact Or.inl e
  · have := (dataAt_range t id n hn).2
    omega
  · exact Or.inr e

/-- The state in which `Insert` calls `ReleaseAllPages`, after a start in a quiescent state of a
well-formed tree: the held set consists of write-latched pages, and every page of the start
state outside it has kept its contents, except possibly its parent id. -/
theorem InsertHeld_touch (h : Int → Nat) (t0 u : BPlusTree) (key value : Int) (b : Bool)
    (path : List Int) (hq : quiescent t0 = true) (hi : Inv h (-1) t0)
    (hpath : descentPath t0 key t0.pages.length t0.root_page_id = some path)
    (hlink : parentLinked t0 INVALID_PAGE_ID path = true)
    (hok : InsertHeld t0 key value = Except.ok (u, b)) :
    Committable u ∧ Touch (fun x => x ∈ u.page_set) t0 u := by
  obtain ⟨t1, h1, _, _, _, hu1⟩ := LatchRoot_quiescent t0 hq OP_TYPE.INSERT (by decide)
  unfold InsertHeld at hok
  obtain ⟨t1', h1', hok⟩ := bind_ok _ _ _ hok
  rw [h1] at h1'
  cases h1'
  rw [hu1] at hok
  obtain ⟨t2, leaf, hc, hlast, hset, hheld⟩ :=
    crabbing_held_set t0 key OP_TYPE.INSERT (by decide) hq path hpath
  obtain ⟨r, hcrab, hok⟩ := bind_ok _ _ _ hok
  rw [hc] at hcrab
  cases hcrab
  dsimp only at hok
  obtain ⟨kc, nl, hnl, hleaf⟩ := Keeps_crabbing t0 t2 key _ leaf hc
  obtain ⟨lq, hlp, hok⟩ := bind_ok _ _ _ hok
  have elp : some lq = some nl := by rw [← (getNode_ok_iff _ _ _).1 hlp, hnl]
  cases elp
  obtain ⟨hs2, hb2⟩ := Inv_of_Keeps h (-1) t0 t2 hi kc
  have hg := hs2.2 leaf nl hnl
  obtain ⟨f1, f2, f3, f4, f5, f6⟩ := LeafInsert_facts nl key value
  have hlf' : (nl.LeafInsert key value).1.IsLeafPage = true := by
    simp only [Node.IsLeafPage, f2]; exact hleaf
  set t3 := setNode t2 leaf (nl.LeafInsert key value).1 with ht3
  have hs3 : Str h t3 := by
    apply Str_setNode h t2 _ _ hs2
    intro n0 _
    refine GoodNode_of_eq _ _ _ _ _ nl _ hg f1 f2 f3 f4 ?_
    intro hc'; rw [hleaf] at hc'; cases hc'
  have hc3 : cfg t3 = cfg t2 := by rw [ht3, cfg_setNode]
  have hd3 : dataAt t3 leaf = some (nl.LeafInsert key value).1 := by
    rw [ht3, dataAt_setNode, if_pos rfl, hnl]; rfl
  have hb3 : 2 ≤ t3.leaf_max_size → 2 ≤ t3.internal_max_size → BndX leaf t3 := by
    intro hL hM
    rw [cfg_leaf_max _ _ hc3] at hL
    rw [cfg_internal_max _ _ hc3] at hM
    have hb0 := hb2 hL hM
    intro id n' hn'
    rw [ht3, dataAt_setNode] at hn'
    by_cases he : id = leaf
    · simp only [he, if_true, hnl, Option.map_some', Option.some.injEq] at hn'
      subst hn'
      right
      refine ⟨he, ?_⟩
      have := (dataAt_range t2 leaf nl hnl).1
      have := BndX_size_lt (-1) t2 hb0 leaf nl hnl (by omega)
      omega
    · simp only [he, if_false] at hn'
      have := (dataAt_range t2 id n' hn').1
      exact Or.inl (BndX_size_lt (-1) t2 hb0 id n' hn' (by omega))
  -- the held set
  obtain ⟨ys, hp⟩ := List.getLast?_eq_some_iff.1 hlast
  have hp2 : path = ys.reverse.reverse ++ leaf :: [] := by rw [List.reverse_reverse]; exact hp
  have hmem2 : leaf ∈ t2.page_set := by
    rw [hset]
    exact heldSuffix_mem _ path ys [] leaf hp (by simp)
  have K2 := Committable_of_HeldState t0 t2 hheld
  have n3 : NoLatch t2 t3 := NoLatch_setNode t2 leaf _
  have hlen2 : t2.pages.length = t0.pages.length := kc.2.2.1
  have hlen3 : t3.pages.length = t0.pages.length := (cfg_length _ _ hc3).trans hlen2
  have a3 : Touch (fun x => x ∈ t2.page_set ∨ (t0.pages.length : Int) ≤ x) t0 t3 :=
    Touch_trans _ _ _ _
      (Touch_of_data _ t0 t2 fun id n hn => by rw [dataAt_of_HeldState t0 t2 hheld]; exact hn)
      (Touch_setNode _ _ _ _ (Or.inl hmem2))
  have hfin : ∀ v, NoLatch t2 v →
      Touch (fun x => x ∈ t2.page_set ∨ (t0.pages.length : Int) ≤ x) t0 v →
      Committable (TryUnlatchRoot v OP_TYPE.INSERT) ∧
        Touch (fun x => x ∈ (TryUnlatchRoot v OP_TYPE.INSERT).page_set) t0
          (TryUnlatchRoot v OP_TYPE.INSERT) := by
    intro v nv tv
    refine ⟨Committable_TryUnlatchRoot _ _ (Committable_NoLatch t2 v K2 nv), ?_⟩
    apply Touch_held_TryUnlatchRoot
    have := Touch_fresh t2.page_set _ t0 v (le_refl _) tv
    exact Touch_mono _ _ _ _ (fun x hx => by rw [nv.2.1]; exact hx) this
  by_cases hfull : (nl.LeafInsert key value).2 = (nl.LeafInsert key value).1.GetMaxSize
  · rw [if_pos hfull] at hok
    obtain ⟨r, hsplit, hok⟩ := bind_ok _ _ _ hok
    obtain ⟨t4, split_page⟩ := r
    simp only at hok
    obtain ⟨sp, hsp, hok⟩ := bind_ok _ _ _ hok
    obtain ⟨t5, h5, hok⟩ := bind_ok _ _ _ hok
    simp only [pure, Except.pure, Except.ok.injEq, Prod.mk.injEq] at hok
    obtain ⟨rfl, _⟩ := hok
    obtain ⟨e1, hi4, hc4, hex4⟩ := Split_inv h t3 t4 IndexPageType.LEAF_PAGE leaf split_page _
      ⟨hs3, hb3⟩ hd3 (by simp [hlf']) hsplit
    subst e1
    have hlt : leaf ≠ (t3.pages.length : Int) := by
      have := (dataAt_range t3 leaf _ hd3).2
      omega
    have n4 : NoLatch t2 t4 := NoLatch_trans _ _ _ n3 (NoLatch_Split _ _ _ _ _ hsplit)
    have a4 : Touch (fun x => x ∈ t2.page_set ∨ (t0.pages.length : Int) ≤ x) t3 t4 :=
      Touch_Split _ t3 t4 _ _ _ (Or.inl hmem2) (Or.inr (by rw [hlen3])) hsplit
    obtain ⟨ab4, p4, hp4, hpar4⟩ := Split_frame h (h leaf) t3 t4 _ _ _ _ hs3 hd3 (le_refl _)
      hsplit
    have hpar4' : p4.parent_page_id = nl.parent_page_id := hpar4.trans f4
    have hroot4 : p4.IsRootPage = nl.IsRootPage := by
      simp only [Node.IsRootPage, hpar4']
    have ab3 : Above h (h leaf) t2 t3 := Above_setNode h _ _ _ _ (le_refl _)
    have HA : HeldAboveI t2 leaf ys.reverse :=
      HeldAboveI_of_path t0 t2 path hlink (descentPath_exists t0 key _ _ path hpath) hset
        (dataAt_of_HeldState t0 t2 hheld) ys.reverse leaf [] hp2 (by simp)
    have hsz : nl.max_size - 1 ≤ nl.size := by
      simp only [Node.GetMaxSize] at hfull
      omega
    have HP : HeldParentI t4 leaf ys.reverse := by
      generalize ys.reverse = ups at HA
      cases ups with
      | nil =>
        obtain ⟨q, hq, hqr⟩ := HA
        rw [hnl] at hq
        cases hq
        exact ⟨p4, hp4, by rw [hroot4]; exact hqr⟩
      | cons z r =>
        obtain ⟨q, hq, hqr, hqp, hqc⟩ := HA
        rw [hnl] at hq
        cases hq
        obtain ⟨hz, hcz⟩ := hqc hsz
        have hhz := (GoodNode_parent_of_not_root h _ _ _ _ nl hg (by simp [hqr])).2.2
        rw [hqp] at hhz
        exact ⟨p4, hp4, by rw [hroot4]; exact hqr, hpar4'.trans hqp,
          by rw [n4.2.1]; exact hz,
          HeldAboveI_mono h (h leaf) t2 t4 hs2 (Above_trans h _ _ _ _ ab3 ab4)
            (fun x hx => by rw [n4.2.1]; exact hx) r z (by omega) hcz⟩
    have hlen4 : (t0.pages.length : Int) ≤ (t4.pages.length : Int) := by
      have e4 : t4.pages.length = t3.pages.length + 1 := congrArg (fun c => c.1) hc4
      rw [e4, hlen3]
      push_cast
      omega
    have a5 := InsertIntoParent_touch _ _ (t0.pages.length : Int) t4 t5 leaf (sp.KeyAt 0)
      (t3.pages.length : Int) ys.reverse hi4
      (by rw [Function.update_same, Function.update_noteq hlt]) hex4 hlen4 HP h5
    have n5 : NoLatch t2 t5 := NoLatch_trans _ _ _ n4 (NoLatch_InsertIntoParent _ _ _ _ _ _ h5)
    exact hfin t5 n5 (Touch_trans _ _ _ _ a3 (Touch_trans _ _ _ _ a4
      (Touch_mono _ _ _ _ (fun x hx => by rw [n4.2.1] at hx; exact hx) a5)))
  · rw [if_neg hfull] at hok
    simp only [pure, Except.pure, Except.ok.injEq, Prod.mk.injEq] at hok
    obtain ⟨rfl, _⟩ := hok
    exact hfin t3 n3 a3

/-- What the commit state of an operation says about its writes: a page outside the held set
has changed at most in its parent id, and a page of the held set is write-latched. -/
theorem WritesHeld_of (t0 u : BPlusTree) (hk : Committable u)
    (ht : Touch (fun x => x ∈ u.page_set) t0 u) : WritesHeld t0 u := by
  intro id n hn
  obtain ⟨n', hn', e⟩ := ht id n hn
  obtain ⟨pg, hg, rfl⟩ := dataAt_eq_some u id n' hn'
  refine ⟨pg, hg, ?_⟩
  rcases e with e | e
  · obtain ⟨pg', hg', hl⟩ := hk.2.2.1 id e
    rw [hg] at hg'
    cases hg'
    exact Or.inl ⟨e, hl⟩
  · exact Or.inr e

/-! ## Claims on iterators and commit -/

/-- C32: `operator++` on positions.  On an End iterator it returns the iterator and the state
unchanged.  On an iterator bound to the leaf `n` at a slot below `n.size - 1` it moves to the
next slot of the same leaf.  At the last slot (or beyond) of a leaf with no next leaf it becomes
End, and the result compares equal to `end()`.  At the last slot (or beyond) of a leaf whose
next leaf can be fetched it moves to slot 0 of the next leaf. -/
theorem next_position (t : BPlusTree) (it : IndexIterator) :
    (it.isEnd = true → it.next t = Except.ok (t, it)) ∧
    (∀ leaf n, it.isEnd = false → it.leaf_page_ = some leaf → getNode t leaf = Except.ok n →
      (it.index_ < n.size - 1 →
        it.next t = Except.ok (t, { it with index_ := it.index_ + 1 })) ∧
      (n.size - 1 ≤ it.index_ → n.next_page_id = INVALID_PAGE_ID →
        it.next t = Except.ok (t, { it with is_end_ := true }) ∧
        IndexIterator.isEnd { it with is_end_ := true } = true ∧
        IndexIterator.eq { it with is_end_ := true } endIterator = true ∧
        endIterator.eq { it with is_end_ := true } = true) ∧
      (n.size - 1 ≤ it.index_ → n.next_page_id ≠ INVALID_PAGE_ID →
        ∀ t1, FetchPage t n.next_page_id = some t1 →
          it.next t = Except.ok (UnpinPage t1 n.page_id false,
            { it with leaf_page_ := some n.next_page_id, index_ := 0 }) ∧
          IndexIterator.isEnd { it with leaf_page_ := some n.next_page_id, index_ := 0 } =
            false)) := by
  refine ⟨?_, ?_⟩
  · intro h
    simp only [IndexIterator.next, h, if_true]
    rfl
  · intro leaf n he hl hn
    have he' : it.is_end_ = false := he
    refine ⟨?_, ?_, ?_⟩
    · intro hlt
      simp only [IndexIterator.next, he, hl, hn, bind, Except.bind, Node.GetSize, if_pos hlt]
      rfl
    · intro hge hnx
      refine ⟨?_, rfl, ?_, ?_⟩
      · simp only [IndexIterator.next, he, hl, hn, bind, Except.bind, Node.GetSize,
          if_neg (not_lt.mpr hge), hnx, if_true]
        rfl
      · simp [IndexIterator.eq, IndexIterator.isEnd, endIterator]
      · simp [IndexIterator.eq, IndexIterator.isEnd, endIterator]
    · intro hge hnx t1 hf
      refine ⟨?_, he⟩
      simp only [IndexIterator.next, he, hl, hn, bind, Except.bind, Node.GetSize,
        if_neg (not_lt.mpr hge), if_neg hnx, hf]
      rfl

theorem next_position_witness :
    ∃ t1, FetchPage twoLeafTree (nodeOf twoLeafTree 1).next_page_id = some t1 ∧
      IndexIterator.next twoLeafTree
          { leaf_page_ := some 1, index_ := 1, bpm_ := true, is_end_ := false } =
        Except.ok (UnpinPage t1 (nodeOf twoLeafTree 1).page_id false,
          { leaf_page_ := some (nodeOf twoLeafTree 1).next_page_id, index_ := 0, bpm_ := true,
            is_end_ := false }) := by
  obtain ⟨t1, h1⟩ := Option.isSome_iff_exists.mp
    (show (FetchPage twoLeafTree (nodeOf twoLeafTree 1).next_page_id).isSome = true by decide!)
  exact ⟨t1, h1, (((next_position twoLeafTree
    { leaf_page_ := some 1, index_ := 1, bpm_ := true, is_end_ := false }).2 1
      (nodeOf twoLeafTree 1) rfl rfl (by decide!)).2.2 (by decide!) (by decide!) t1 h1).1⟩

/-- C33 (amended): the pins of one `operator++` that returns.  On an End iterator, on a slot
below the last one, and on the last slot (or beyond) of a leaf with no next leaf the state is
unchanged, so no pin count changes; in the last case the iterator becomes End and the leaf stays
pinned.  On the last slot (or beyond) of a leaf with another page as next leaf, the next leaf
gets one pin more, the current leaf one pin less, and no other frame changes. -/
theorem next_pin_effects (t t' : BPlusTree) (it it' : IndexIterator)
    (hok : it.next t = Except.ok (t', it')) :
    (it.isEnd = true → t' = t) ∧
    (∀ leaf n, it.isEnd = false → it.leaf_page_ = some leaf → getNode t leaf = Except.ok n →
      (it.index_ < n.size - 1 → t' = t) ∧
      (n.size - 1 ≤ it.index_ → n.next_page_id = INVALID_PAGE_ID →
        t' = t ∧ it'.isEnd = true ∧ it'.leaf_page_ = some leaf) ∧
      (n.size - 1 ≤ it.index_ → n.next_page_id ≠ INVALID_PAGE_ID → n.page_id = leaf →
        n.next_page_id ≠ leaf → ∀ p, getPage t leaf = some p → 0 < p.pin_count →
          getPage t' leaf = some { p with pin_count := p.pin_count - 1 } ∧
          (∃ q, getPage t n.next_page_id = some q ∧
            getPage t' n.next_page_id = some { q with pin_count := q.pin_count + 1 }) ∧
          (∀ id, id ≠ leaf → id ≠ n.next_page_id → getPage t' id = getPage t id))) := by
  refine ⟨?_, ?_⟩
  · intro h
    simp only [IndexIterator.next, h, if_true] at hok
    cases hok
    rfl
  · intro leaf n he hl hn
    refine ⟨?_, ?_, ?_⟩
    · intro hlt
      simp only [IndexIterator.next, he, hl, hn, bind, Except.bind, Node.GetSize,
        if_pos hlt] at hok
      cases hok
      rfl
    · intro hge hnx
      simp only [IndexIterator.next, he, hl, hn, bind, Except.bind, Node.GetSize,
        if_neg (not_lt.mpr hge), hnx, if_true] at hok
      cases hok
      exact ⟨rfl, rfl, rfl⟩
    · intro hge hnx hid hne p hp hpos
      cases hf : FetchPage t n.next_page_id with
      | none =>
        simp only [IndexIterator.next, he, hl, hn, bind, Except.bind, Node.GetSize,
          if_neg (not_lt.mpr hge), if_neg hnx, hf] at hok
        cases hok
      | some t1 =>
        simp only [IndexIterator.next, he, hl, hn, bind, Except.bind, Node.GetSize,
          if_neg (not_lt.mpr hge), if_neg hnx, hf] at hok
        cases hok
        obtain ⟨q, hq, rfl⟩ := FetchPage_eq_some t _ _ hf
        have h1 : getPage (setPage t n.next_page_id { q with pin_count := q.pin_count + 1 })
            leaf = some p := by
          rw [getPage_setPage t _ _ q _ hq, if_neg (Ne.symm hne), hp]
        rw [hid, UnpinPage_pos _ leaf p false h1 hpos]
        refine ⟨?_, ⟨q, hq, ?_⟩, ?_⟩
        · rw [getPage_setPage _ _ _ p _ h1, if_pos rfl]
        · rw [getPage_setPage _ _ _ p _ h1, if_neg hne, getPage_setPage t _ _ q _ hq, if_pos rfl]
        · intro id h2 h3
          rw [getPage_setPage _ _ _ p _ h1, if_neg h2, getPage_setPage t _ _ q _ hq, if_neg h3]

theorem next_pin_effects_witness :
    ∃ p, getPage (iterState twoLeafTree 1).1 1 = some p ∧ 0 < p.pin_count ∧
      getPage (iterState twoLeafTree 2).1 1 = some { p with pin_count := p.pin_count - 1 } ∧
      (∃ q, getPage (iterState twoLeafTree 1).1
            (nodeOf (iterState twoLeafTree 1).1 1).next_page_id = some q ∧
        getPage (iterState twoLeafTree 2).1
            (nodeOf (iterState twoLeafTree 1).1 1).next_page_id =
          some { q with pin_count := q.pin_count + 1 }) ∧
      (∀ id, id ≠ 1 → id ≠ (nodeOf (iterState twoLeafTree 1).1 1).next_page_id →
        getPage (iterState twoLeafTree 2).1 id = getPage (iterState twoLeafTree 1).1 id) := by
  obtain ⟨p, hp⟩ := Option.isSome_iff_exists.mp
    (show (getPage (iterState twoLeafTree 1).1 1).isSome = true by decide!)
  have hpos : 0 < p.pin_count := by
    have h1 : (getPage (iterState twoLeafTree 1).1 1).map Page.pin_count = some 1 := by decide!
    rw [hp] at h1
    simp only [Option.map_some', Option.some.injEq] at h1
    omega
  exact ⟨p, hp, hpos, ((next_pin_effects (iterState twoLeafTree 1).1 (iterState twoLeafTree 2).1
    (iterState twoLeafTree 1).2 (iterState twoLeafTree 2).2 (by decide!)).2 1
      (nodeOf (iterState twoLeafTree 1).1 1) (by decide!) (by decide!) (by decide!)).2.2
        (by decide!) (by decide!) (by decide!) (by decide!) p hp hpos⟩

/-- C33 (counterexample): the iterator from `begin()` on `twoLeafTree`, advanced three times,
stands on the last slot of the last leaf (page 2), which it holds pinned once.  The next
`operator++` makes it End and the pin count of page 2 is still 1. -/
theorem next_to_end_keeps_pin :
    (((begin twoLeafTree).bind fun r => advance 3 r.1 r.2).map fun r =>
        (r.2, pinsOf r.1 [1, 2, 3])) =
      Except.ok ({ leaf_page_ := some 2, index_ := 1, bpm_ := true, is_end_ := false },
        [some 0, some 1, some 0]) ∧
    (((begin twoLeafTree).bind fun r => advance 4 r.1 r.2).map fun r =>
        (r.2, pinsOf r.1 [1, 2, 3])) =
      Except.ok ({ leaf_page_ := some 2, index_ := 1, bpm_ := true, is_end_ := true },
        [some 0, some 1, some 0]) := by
  refine ⟨?_, ?_⟩ <;> decide!

/-- C34: iterator pin balance.  In a pool where every page stores its own id and no pin count
is negative, take an iterator returned by `begin()` or `Begin(key)` and advance it any number of
times.  The state is then the state before `begin` with exactly one more pin, on the page the
iterator is bound to (`FetchPage t0 leaf = some t2`: every other frame and every pin count is as
before), also at End and after further `operator++`; destroying the iterator returns and gives
the state before `begin` back, so every pin the iterator took has been given back once.  When the
leaf chain is sound, every `operator++` returns.  Destroying an `end()` iterator changes
nothing. -/
theorem iterator_pin_balance (t0 : BPlusTree)
    (hids : ∀ id pg, getPage t0 id = some pg → pg.data.page_id = id)
    (hpins : ∀ id pg, getPage t0 id = some pg → 0 ≤ pg.pin_count) :
    (∀ t1 it1, (begin t0 = Except.ok (t1, it1) ∨ ∃ key, Begin t0 key = Except.ok (t1, it1)) →
      (∀ n t2 it2, advance n t1 it1 = Except.ok (t2, it2) →
        ∃ leaf, it2.leaf_page_ = some leaf ∧ FetchPage t0 leaf = some t2 ∧
          (∀ id, pinAt t2 id = pinAt t0 id + if id = leaf then 1 else 0) ∧
          it2.drop t2 = Except.ok t0) ∧
      (leafChainOK t0 = true → ∀ n, ∃ t2 it2, advance n t1 it1 = Except.ok (t2, it2))) ∧
    (∀ t, endIterator.drop t = Except.ok t) := by
  have start : ∀ t1 it1,
      (begin t0 = Except.ok (t1, it1) ∨ ∃ key, Begin t0 key = Except.ok (t1, it1)) →
      ∃ leaf, it1.leaf_page_ = some leaf ∧ it1.bpm_ = true ∧ FetchPage t0 leaf = some t1 ∧
        ∃ pg, getPage t0 leaf = some pg ∧ pg.data.IsLeafPage = true := by
    intro t1 it1 h
    rcases h with h | ⟨key, h⟩
    · unfold begin at h
      cases hf : FindLeafPage t0 0 true with
      | error e => simp only [hf, bind, Except.bind] at h; cases h
      | ok r =>
        obtain ⟨u, page⟩ := r
        simp only [hf, bind, Except.bind, pure, Except.pure, Except.ok.injEq,
          Prod.mk.injEq] at h
        obtain ⟨rfl, rfl⟩ := h
        obtain ⟨a, b⟩ := FindLeafPage_pinned t0 hids hpins 0 true u page hf
        exact ⟨page, rfl, rfl, a, b⟩
    · unfold Begin at h
      cases hf : FindLeafPage t0 key false with
      | error e => simp only [hf, bind, Except.bind] at h; cases h
      | ok r =>
        obtain ⟨u, page⟩ := r
        simp only [hf, bind, Except.bind] at h
        cases hn : getNode u page with
        | error e => simp only [hn] at h; cases h
        | ok n =>
          simp only [hn, pure, Except.pure, Except.ok.injEq, Prod.mk.injEq] at h
          obtain ⟨rfl, rfl⟩ := h
          obtain ⟨a, b⟩ := FindLeafPage_pinned t0 hids hpins key false u page hf
          exact ⟨page, rfl, rfl, a, b⟩
  refine ⟨?_, ?_⟩
  · intro t1 it1 h
    obtain ⟨leaf, hl, hb, hf, hleaf⟩ := start t1 it1 h
    refine ⟨?_, ?_⟩
    · intro n t2 it2 ha
      obtain ⟨leaf', a1, a2, a3⟩ := advance_pinned t0 hids hpins n t1 t2 it1 it2 leaf hl hf ha
      refine ⟨leaf', a1, a2, ?_, drop_pinned t0 hids hpins t2 it2 leaf' (a3.trans hb) a1 a2⟩
      intro id
      obtain ⟨p, hp, _, _, g⟩ := FetchPage_frames t0 t2 leaf' a2
      unfold pinAt
      rw [g id]
      by_cases e : id = leaf'
      · subst e
        rw [if_pos rfl, if_pos rfl, hp]
      · rw [if_neg e, if_neg e]
        simp
    · intro hchain n
      exact advance_total t0 hids hpins hchain n t1 it1 leaf hl hf hleaf
  · intro t
    rfl

theorem iterator_pin_balance_witness :
    (∀ n t2 it2, advance n (iterState twoLeafTree 0).1 (iterState twoLeafTree 0).2 =
        Except.ok (t2, it2) →
        ∃ leaf, it2.leaf_page_ = some leaf ∧ FetchPage twoLeafTree leaf = some t2 ∧
          (∀ id, pinAt t2 id = pinAt twoLeafTree id + if id = leaf then 1 else 0) ∧
          it2.drop t2 = Except.ok twoLeafTree) ∧
      (∀ n, ∃ t2 it2,
        advance n (iterState twoLeafTree 0).1 (iterState twoLeafTree 0).2 =
          Except.ok (t2, it2)) := by
  have hrun : run (BPlusTree.new 4 4)
      [Call.insert 5 5, Call.insert 10 10, Call.insert 15 15, Call.insert 20 20] =
        Except.ok twoLeafTree := by decide!
  have hids := run_page_id 4 4 _ twoLeafTree hrun
  have hpins : ∀ id pg, getPage twoLeafTree id = some pg → 0 ≤ pg.pin_count := by
    intro id pg hg
    rw [(quiescent_page twoLeafTree (by decide!) id pg hg).1]
  have h := (iterator_pin_balance twoLeafTree hids hpins).1 (iterState twoLeafTree 0).1
    (iterState twoLeafTree 0).2 (Or.inl (by decide!))
  exact ⟨h.1, h.2 (by decide!)⟩

/-- C35: a single-threaded `Remove` that starts in a quiescent state `t0` of a tree with the
structural invariant, whose pages on the descent path store the id of the page above them as
parent id, reaches `FreeAllPages` in a state `u` in which every page id of the deletion set is
in the held set, names a write-latched page and has pin count 1, the one pin that
`FreeAllPages` gives back before it deletes the page; `FreeAllPages` then returns without the
pin-count exception and without failing its final assertion, with the deletion set and the held
set empty, and its result is the result of `Remove`. -/
theorem FreeAllPages_safe (h : Int → Nat) (t0 u : BPlusTree) (key : Int) (path : List Int)
    (hq : quiescent t0 = true) (hi : Inv h (-1) t0) (hh : 0 ≤ t0.header_pin_count)
    (hpath : descentPath t0 key t0.pages.length t0.root_page_id = some path)
    (hlink : parentLinked t0 INVALID_PAGE_ID path = true)
    (hok : RemoveHeld t0 key = Except.ok u) :
    (∀ id ∈ u.deleted_page_set, id ∈ u.page_set ∧
        ∃ pg, getPage u id = some pg ∧ pg.latch = -1 ∧ pg.pin_count = 1) ∧
      ∃ w, FreeAllPages u = Except.ok w ∧ w.deleted_page_set = [] ∧ w.page_set = [] ∧
        Remove t0 key = Except.ok w := by
  obtain ⟨K, a, _⟩ := RemoveHeld_commit h t0 u key path hq hi hh hpath hlink hok
  obtain ⟨_, _, q3, _⟩ := quiescent_fields t0 hq
  have hpin : ∀ id ∈ u.page_set, ∀ pg, getPage u id = some pg → pg.pin_count = 1 := by
    intro id hid pg hg
    have e := a.pins id
    rw [freePin_of_page_set t0 q3] at e
    unfold freePin at e
    rw [pinAt_of_getPage u id pg hg, List.count_eq_one_of_mem K.1 hid] at e
    have z : pinAt t0 id = 0 := by
      cases hg0 : getPage t0 id with
      | none => exact pinAt_none t0 id hg0
      | some p0 =>
        rw [pinAt_of_getPage t0 id p0 hg0]
        exact (quiescent_page t0 hq id p0 hg0).1
    rw [z] at e
    simp only [List.count_nil, Nat.cast_zero, Nat.cast_one] at e
    omega
  obtain ⟨w, hw, hw1, hw2⟩ := FreeAllPages_succeeds u K hpin
  refine ⟨?_, w, hw, hw1, hw2, ?_⟩
  · intro id hid
    have hm := K.2.2.2 id hid
    obtain ⟨pg, hg, hl⟩ := K.2.2.1 id hm
    exact ⟨hm, pg, hg, hl, hpin id hm pg hg⟩
  · obtain ⟨t1, h1, _, _, hr1, _⟩ := LatchRoot_quiescent t0 hq OP_TYPE.DELETE (by decide)
    obtain ⟨n, hn⟩ := descentPath_start t0 key _ _ path hpath
    have hr := (dataAt_range t0 _ n hn).1
    have he : IsEmpty t1 = false := by
      unfold IsEmpty
      rw [hr1]
      simp only [INVALID_PAGE_ID, beq_eq_false_iff_ne, ne_eq]
      omega
    rw [Remove_eq_RemoveHeld t0 t1 key h1 he, hok]
    exact hw

theorem FreeAllPages_safe_witness :
    ∃ u, RemoveHeld siblingTree 20 = Except.ok u ∧
      (∀ id ∈ u.deleted_page_set, id ∈ u.page_set ∧
        ∃ pg, getPage u id = some pg ∧ pg.latch = -1 ∧ pg.pin_count = 1) ∧
      ∃ w, FreeAllPages u = Except.ok w ∧ w.deleted_page_set = [] ∧ w.page_set = [] ∧
        Remove siblingTree 20 = Except.ok w := by
  cases hres : RemoveHeld siblingTree 20 with
  | error e =>
    have hk : (RemoveHeld siblingTree 20).toOption.isSome = true := by decide!
    rw [hres] at hk
    cases hk
  | ok u =>
    exact ⟨u, rfl, FreeAllPages_safe siblingHeights siblingTree u 20 [7, 6, 3] (by decide!)
      siblingTree_inv (by decide) (by decide!) (by decide!) hres⟩

/-- Removing key 20 from `siblingTree` merges the leaves 3 and 4, then the internal pages 5 and
6, and collapses the root: at the call of `FreeAllPages` the held set is `[7, 6, 3, 4, 5]`, all
write-latched with one pin, the deletion set is `[4, 6, 7]`, and `Remove` ends in a quiescent
state with root page 5. -/
theorem remove_siblingTree_commit :
    (RemoveHeld siblingTree 20).toOption.map (fun u =>
        (u.page_set, u.deleted_page_set, latchesOf u u.page_set, pinsOf u u.page_set)) =
      some ([7, 6, 3, 4, 5], [4, 6, 7], [some (-1), some (-1), some (-1), some (-1), some (-1)],
        [some 1, some 1, some 1, some 1, some 1]) ∧
    (Remove siblingTree 20).toOption.map (fun w =>
        (w.page_set, w.deleted_page_set, w.root_page_id, quiescent w)) =
      some ([], [], 5, true) := by
  decide!

/-- C28 (amended): in a single-threaded `Insert` or `Remove` that starts in a quiescent state
`t0` of a non-empty tree with the structural invariant, whose pages on the descent path store
the id of the page above them as parent id, every page of `t0` is, when the operation reaches
its release of the held pages (state `u`), either in the held set and write-latched, or as it
was in `t0` except possibly for its parent id: apart from parent ids, the operation has written
only to pages of its held set and to pages it allocated.  `Insert` and `Remove` are these runs
followed by `ReleaseAllPages` and `FreeAllPages`. -/
theorem write_containment (h : Int → Nat) (t0 : BPlusTree) (key : Int) (path : List Int)
    (hq : quiescent t0 = true) (hi : Inv h (-1) t0) (hh : 0 ≤ t0.header_pin_count)
    (hpath : descentPath t0 key t0.pages.length t0.root_page_id = some path)
    (hlink : parentLinked t0 INVALID_PAGE_ID path = true) :
    (∀ value u b, InsertHeld t0 key value = Except.ok (u, b) → WritesHeld t0 u) ∧
    (∀ u, RemoveHeld t0 key = Except.ok u → WritesHeld t0 u) ∧
    (∀ value, Insert t0 key value =
      (InsertHeld t0 key value).bind fun r => (ReleaseAllPages r.1).map fun u => (u, r.2)) ∧
    Remove t0 key = (RemoveHeld t0 key).bind FreeAllPages := by
  obtain ⟨n, hn⟩ := descentPath_start t0 key _ _ path hpath
  have hr := (dataAt_range t0 _ n hn).1
  have hne : ∀ t1, t1.root_page_id = t0.root_page_id → IsEmpty t1 = false := by
    intro t1 e
    unfold IsEmpty
    rw [e]
    simp only [INVALID_PAGE_ID, beq_eq_false_iff_ne, ne_eq]
    omega
  refine ⟨?_, ?_, ?_, ?_⟩
  · intro value u b hok
    obtain ⟨K, T⟩ := InsertHeld_touch h t0 u key value b path hq hi hpath hlink hok
    exact WritesHeld_of t0 u K T
  · intro u hok
    obtain ⟨K, _, T⟩ := RemoveHeld_commit h t0 u key path hq hi hh hpath hlink hok
    exact WritesHeld_of t0 u K T
  · intro value
    obtain ⟨t1, h1, _, _, hr1, _⟩ := LatchRoot_quiescent t0 hq OP_TYPE.INSERT (by decide)
    exact Insert_eq_InsertHeld t0 t1 key value h1 (hne t1 hr1)
  · obtain ⟨t1, h1, _, _, hr1, _⟩ := LatchRoot_quiescent t0 hq OP_TYPE.DELETE (by decide)
    exact Remove_eq_RemoveHeld t0 t1 key h1 (hne t1 hr1)

theorem write_containment_witness :
    (∃ u b, InsertHeld sixKeyTree 5 5 = Except.ok (u, b) ∧ WritesHeld sixKeyTree u) ∧
    (∃ u, RemoveHeld siblingTree 5 = Except.ok u ∧ WritesHeld siblingTree u) := by
  constructor
  · have hrun : run (BPlusTree.new 3 3) sixKeyCalls = Except.ok sixKeyTree := by decide!
    obtain ⟨h, hi, _, _⟩ := run_inv sixKeyCalls _ _ sixKeyTree (Inv_new 3 3) hrun
    cases hres : InsertHeld sixKeyTree 5 5 with
    | error e =>
      have hk : (InsertHeld sixKeyTree 5 5).toOption.isSome = true := by decide!
      rw [hres] at hk
      cases hk
    | ok r =>
      exact ⟨r.1, r.2, rfl, (write_containment h sixKeyTree 5 [3, 1] (by decide!) hi (by decide!)
        (by decide!) (by decide!)).1 5 r.1 r.2 hres⟩
  · cases hres : RemoveHeld siblingTree 5 with
    | error e =>
      have hk : (RemoveHeld siblingTree 5).toOption.isSome = true := by decide!
      rw [hres] at hk
      cases hk
    | ok u =>
      exact ⟨u, rfl, (write_containment siblingHeights siblingTree 5 [7, 5, 1] (by decide!)
        siblingTree_inv (by decide) (by decide!) (by decide!)).2.1 u hres⟩

/-- C28 (counterexample): `Insert(5)` on `sixKeyTree` splits the leaf page 1 and then the root
page 3; the leaves 2 and 4 move to the new internal page 6 and their parent id is rewritten from
3 to 6, while they are not latched and not in the held set `[3, 1]`.  `Remove(5)` on
`siblingTree` merges the internal page 6 into page 5; the leaves 3 and 4 get the parent id 5
instead of 6, while they are not latched and not in the held set `[7, 5, 1, 2, 6]`. -/
theorem children_reparented_outside_held_set :
    parentIds sixKeyTree [2, 4] = [some 3, some 3] ∧
    (InsertHeld sixKeyTree 5 5).toOption.map (fun r =>
        (r.1.page_set, latchesOf r.1 [2, 4], parentIds r.1 [2, 4])) =
      some ([3, 1], [some 0, some 0], [some 6, some 6]) ∧
    parentIds siblingTree [3, 4] = [some 6, some 6] ∧
    (RemoveHeld siblingTree 5).toOption.map (fun u =>
        (u.page_set, latchesOf u [3, 4], parentIds u [3, 4])) =
      some ([7, 5, 1, 2, 6], [some 0, some 0], [some 5, some 5]) := by
  decide!
/-! ## Evaluations of the engine on concrete call sequences -/

/-- C1 (evaluation at the failing input): leaf max 2, internal max 3.  After inserting 0, 5, 3,
6, 1 and removing 6, key 6 is not present (`GetValue` reports false), `Insert(6, 60)` returns
true, and the immediately following `GetValue(6)` still reports false. -/
theorem insert_then_GetValue_misses_key :
    ((run (BPlusTree.new 2 3)
        [Call.insert 0 0, Call.insert 5 5, Call.insert 3 3, Call.insert 6 6, Call.insert 1 1,
         Call.remove 6]).bind fun t =>
      (getResult t 6).bind fun before =>
      (Insert t 6 60).bind fun r =>
      (getResult r.1 6).map fun after => (before, r.2, after))
      = Except.ok ((false, []), true, (false, [])) := by
  decide!

/-- C2 (evaluation at the failing input): leaf max 2, internal max 3.  After the calls below the
call `Remove(5)` completes and the immediately following `GetValue(5)` returns true with the
value 50 of the first insert of key 5. -/
theorem remove_then_GetValue_finds_key :
    ((run (BPlusTree.new 2 3)
        [Call.insert 4 40, Call.insert 5 50, Call.insert 3 30, Call.insert 2 20, Call.insert 0 0,
         Call.remove 4, Call.remove 2, Call.insert 5 51, Call.insert 0 1, Call.insert 1 10]).bind
      fun t => (Remove t 5).bind fun t => getResult t 5)
      = Except.ok (true, [50]) := by
  decide!

/-- C5 (evaluation at the failing input): leaf max 2, internal max 3.  The two call sequences
leave the same live pairs `(0,0), (1,10), (4,40)`, yet `GetValue(0)` reports false after the first
and true after the second, and the scans from `begin()` differ. -/
theorem same_live_pairs_different_results :
    liveAfter [Call.insert 2 20, Call.insert 0 0, Call.insert 4 40, Call.insert 1 10,
        Call.remove 2]
      = liveAfter [Call.insert 0 0, Call.insert 1 10, Call.insert 4 40] ∧
    ((run (BPlusTree.new 2 3)
        [Call.insert 2 20, Call.insert 0 0, Call.insert 4 40, Call.insert 1 10,
         Call.remove 2]).bind fun t => (getResult t 0).bind fun g => (scan 8 t).map fun s => (g, s))
      = Except.ok ((false, []), [(4, 40)]) ∧
    ((run (BPlusTree.new 2 3)
        [Call.insert 0 0, Call.insert 1 10, Call.insert 4 40]).bind
      fun t => (getResult t 0).bind fun g => (scan 8 t).map fun s => (g, s))
      = Except.ok ((true, [0]), [(0, 0), (1, 10), (4, 40)]) := by
  decide!

/-- C6 (evaluation at the failing input): leaf max 2, internal max 3.  After inserting 2, 0, 4,
1 and removing 2 the index is not empty and the live pairs are `(0,0), (1,10), (4,40)`, but the
scan from `begin()` to `end()` yields only `(4,40)`. -/
theorem scan_misses_live_pairs :
    liveAfter [Call.insert 2 20, Call.insert 0 0, Call.insert 4 40, Call.insert 1 10,
        Call.remove 2] = [(0, 0), (1, 10), (4, 40)] ∧
    ((run (BPlusTree.new 2 3)
        [Call.insert 2 20, Call.insert 0 0, Call.insert 4 40, Call.insert 1 10,
         Call.remove 2]).bind fun t => (scan 8 t).map fun s => (IsEmpty t, s))
      = Except.ok (false, [(4, 40)]) := by
  decide!

/-- C7 (evaluation at the failing input): leaf max 4, internal max 4, keys 10, 20, 5, 15, 25
inserted (leaves `[5,10]` and `[15,20,25]`).  `Begin(12)` descends to the leaf `[5,10]` (page 1,
size 2) and returns an iterator at slot 2 of that leaf: not a valid slot, and not equal to
`end()` although the live keys 15, 20, 25 are `≥ 12`; the scan from it reads the unused slot
before reaching 15. -/
theorem Begin_past_last_slot :
    ((run (BPlusTree.new 4 4)
        [Call.insert 10 10, Call.insert 20 20, Call.insert 5 5, Call.insert 15 15,
         Call.insert 25 25]).bind fun t =>
      (Begin t 12).bind fun r =>
      (getNode r.1 1).map fun leaf => (r.2, leaf.array, leaf.size))
      = Except.ok
          ({ leaf_page_ := some 1, index_ := 2, bpm_ := true, is_end_ := false },
           [(5, 5), (10, 10)], 2) ∧
    ((run (BPlusTree.new 4 4)
        [Call.insert 10 10, Call.insert 20 20, Call.insert 5 5, Call.insert 15 15,
         Call.insert 25 25]).bind fun t =>
      (Begin t 12).bind fun r =>
      (scanFrom 8 r.1 r.2 []).map fun s => (r.2.eq endIterator, s.2))
      = Except.ok (false, [(0, 0), (15, 15), (20, 20), (25, 25)]) := by
  decide!

/-- C9: `IsNodeSafe` is true for Insert exactly when `size < max - 1`, for Delete exactly when
`size > min` where `min = ⌈max/2⌉` (`max ≤ 2·min ≤ max + 1`), and always for Read; a node safe
for Insert stays below its max size after one insertion and a node safe for Delete stays at or
above its minimum size after one removal. -/
theorem IsNodeSafe_spec (node : Node) :
    (IsNodeSafe node OP_TYPE.INSERT = true ↔ node.size < node.max_size - 1) ∧
    (IsNodeSafe node OP_TYPE.DELETE = true ↔ node.size > node.GetMinSize) ∧
    (node.max_size ≤ 2 * node.GetMinSize ∧ 2 * node.GetMinSize ≤ node.max_size + 1) ∧
    IsNodeSafe node OP_TYPE.READ = true ∧
    (IsNodeSafe node OP_TYPE.INSERT = true → node.size + 1 < node.max_size) ∧
    (IsNodeSafe node OP_TYPE.DELETE = true → node.GetMinSize ≤ node.size - 1) := by
  have hmin : node.GetMinSize = (node.max_size + 1) / 2 := rfl
  refine ⟨?_, ?_, ?_, ?_, ?_, ?_⟩
  · simp [IsNodeSafe, Node.GetSize, Node.GetMaxSize]
  · simp [IsNodeSafe, Node.GetSize]
  · omega
  · simp [IsNodeSafe]
  · simp only [IsNodeSafe, Node.GetSize, Node.GetMaxSize, if_true, decide_eq_true_eq]
    omega
  · simp only [IsNodeSafe, Node.GetSize, if_true, decide_eq_true_eq]
    simp
    omega

/-! ## Structure after concrete call sequences -/

/-- C13 (evaluation at the failing input): leaf max 2, internal max 3.  After inserting 0, 5, 3,
6, 1 and removing 6, the internal page 6 is `[(5, page 2), (6, page 4)]` while page 4 is the leaf
`[3]`: the key 3 lies in the subtree of child 1 and is below the key 6 of slot 1.  The live key 3
is then out of reach of `GetValue`. -/
theorem separator_above_subtree_key :
    ((run (BPlusTree.new 2 3)
        [Call.insert 0 0, Call.insert 5 5, Call.insert 3 3, Call.insert 6 6, Call.insert 1 1,
         Call.remove 6]).bind fun t =>
      (nodeView t 6).bind fun p =>
      (nodeView t 2).bind fun a =>
      (nodeView t 4).bind fun b =>
      (getResult t 3).map fun g => ([p, a, b], g))
      = Except.ok ([(false, [(5, 2), (6, 4)]), (true, [(5, 5)]), (true, [(3, 3)])],
          (false, [])) := by
  decide!

/-- C14 (evaluation at the failing input): leaf max 2, internal max 3.  After inserting 0, 8, 1,
7, 9 and removing 1, the internal page 3 is `[(7, page 5), (1, page 4)]`: its child in slot 1,
page 4, was deleted by that `Remove` and stores nothing, while the live leaf page 1 still
stores parent id 3 and is the child of no node (the ids listed are 5, 4, 1). -/
theorem child_slot_names_deleted_page :
    ((run (BPlusTree.new 2 3)
        [Call.insert 0 0, Call.insert 8 80, Call.insert 1 10, Call.insert 7 70,
         Call.insert 9 90, Call.remove 1]).bind fun t =>
      (nodeView t 3).bind fun p =>
      (nodeView t 1).map fun a => ([p, a], parentIds t [5, 4, 1]))
      = Except.ok ([(false, [(7, 5), (1, 4)]), (true, [(0, 0)])], [some 3, none, some 3]) := by
  decide!

/-- C16: leaf max 4, internal max 4.  Inserting 10, 20, 5, 15, 25 gives the internal root
`[ ,15]` (page 3) over the leaves `[5,10]` (page 1) and `[15,20,25]` (page 2); inserting 30 next
splits the right leaf into `[15,20]` and `[25,30]` (page 4), the root becomes `[ ,15,25]`, and
the scan from `begin()` yields 5, 10, 15, 20, 25, 30. -/
theorem insert_scenario :
    ((run (BPlusTree.new 4 4)
        [Call.insert 10 10, Call.insert 20 20, Call.insert 5 5, Call.insert 15 15,
         Call.insert 25 25]).bind fun t =>
      (nodeView t t.root_page_id).bind fun r =>
      (nodeView t 1).bind fun a =>
      (nodeView t 2).map fun b => ([r, a, b], t.root_page_id))
      = Except.ok ([(false, [(0, 1), (15, 2)]), (true, [(5, 5), (10, 10)]),
          (true, [(15, 15), (20, 20), (25, 25)])], 3) ∧
    ((run (BPlusTree.new 4 4)
        [Call.insert 10 10, Call.insert 20 20, Call.insert 5 5, Call.insert 15 15,
         Call.insert 25 25, Call.insert 30 30]).bind fun t =>
      (nodeView t t.root_page_id).bind fun r =>
      (nodeView t 1).bind fun a =>
      (nodeView t 2).bind fun b =>
      (nodeView t 4).bind fun c =>
      (scan 8 t).map fun s => ([r, a, b, c], (t.root_page_id, s)))
      = Except.ok ([(false, [(0, 1), (15, 2), (25, 4)]), (true, [(5, 5), (10, 10)]),
          (true, [(15, 15), (20, 20)]), (true, [(25, 25), (30, 30)])],
          (3, [(5, 5), (10, 10), (15, 15), (20, 20), (25, 25), (30, 30)])) := by
  refine ⟨?_, ?_⟩ <;> decide!

/-- C17: leaf max 4, internal max 4, starting from the root `[ ,15,25]` over the leaves
`[5,10]`, `[15,20]`, `[25,30]` (pages 1, 2, 4).  `Remove(10)` merges the right sibling into the
underflowed left leaf, which becomes `[5,15,20]`, page 2 is deleted and the root becomes
`[ ,25]`; then `Remove(25)` leaves `[30]`, the left sibling donates 20, the leaves are `[5,15]`
and `[20,30]` and the separator in the root is 20. -/
theorem delete_scenario :
    ((run (BPlusTree.new 4 4)
        [Call.insert 10 10, Call.insert 20 20, Call.insert 5 5, Call.insert 15 15,
         Call.insert 25 25, Call.insert 30 30, Call.remove 10]).bind fun t =>
      (nodeView t t.root_page_id).bind fun r =>
      (nodeView t 1).bind fun a =>
      (nodeView t 4).map fun c => ([r, a, c], (t.root_page_id, (getPage t 2).isSome)))
      = Except.ok ([(false, [(0, 1), (25, 4)]), (true, [(5, 5), (15, 15), (20, 20)]),
          (true, [(25, 25), (30, 30)])], (3, false)) ∧
    ((run (BPlusTree.new 4 4)
        [Call.insert 10 10, Call.insert 20 20, Call.insert 5 5, Call.insert 15 15,
         Call.insert 25 25, Call.insert 30 30, Call.remove 10, Call.remove 25]).bind fun t =>
      (nodeView t t.root_page_id).bind fun r =>
      (nodeView t 1).bind fun a =>
      (nodeView t 4).map fun c => ([r, a, c], t.root_page_id))
      = Except.ok ([(false, [(0, 1), (20, 4)]), (true, [(5, 5), (15, 15)]),
          (true, [(20, 20), (30, 30)])], 3) := by
  refine ⟨?_, ?_⟩ <;> decide!

/-! ## The internal page movers on two siblings -/

/-- C18 (evaluation at the failing input): in `siblingTree` the donor page 6 `[ ,30]` (children
3, 4) is merged into the recipient page 5 `[ ,10]` (children 1, 2) with middle key 20.  The
recipient ends with size 2 and slots `[(0, 3), (20, 4)]`: its own children 1 and 2 are gone and
the middle key sits beside child 4. -/
theorem MoveAllTo_overwrites_recipient :
    ((MoveAllTo siblingTree 6 5 20).bind fun t =>
      (getNode t 5).bind fun r =>
      (getNode t 6).map fun d => ([r.size, d.size], r.array, parentIds t [3, 4]))
      = Except.ok ([2, 0], [(0, 3), (20, 4)], [some 5, some 5]) := by
  decide!

/-- C19 (evaluation at the failing input): in `siblingTree` the donor page 6 `[ ,30]` gives its
first child to the recipient page 5 `[ ,10]` with middle key 20.  The recipient ends with size 3
but its slot 1 `(10, 2)` was overwritten by `(20, 3)` and slot 2 was never written (the children
read from slots 0, 1, 2 are 1, 3, 0). -/
theorem CopyLastFrom_overwrites_last_slot :
    ((MoveFirstToEndOf siblingTree 6 5 20).bind fun t =>
      (getNode t 5).bind fun r =>
      (getNode t 6).map fun d =>
        ([r.size, d.size], r.array, [r.ValueAt 0, r.ValueAt 1, r.ValueAt 2],
          parentIds t [3]))
      = Except.ok ([3, 1], [(0, 1), (20, 3)], [1, 3, 0], [some 5]) := by
  decide!

/-- C20 (evaluation at the failing input): in `siblingTree` the donor page 5 `[ ,10]` gives its
last child (page 2) to the recipient page 6 `[ ,30]` (children 3, 4) with middle key 20.  The
recipient ends as `[(20, 3), (30, 2), (30, 4)]`: slot 0 still holds child 3, the donated child is
in slot 1 under the key 30, and the middle key is in slot 0. -/
theorem CopyFirstFrom_misplaces_child :
    ((MoveLastToFrontOf siblingTree 5 6 20).bind fun t =>
      (getNode t 6).bind fun r =>
      (getNode t 5).map fun d => ([r.size, d.size], r.array, parentIds t [2]))
      = Except.ok ([3, 1], [(20, 3), (30, 2), (30, 4)], [some 6]) := by
  decide!

/-- C11 (counterexample): leaf max 4, internal max 4.  After inserting 1 to 8 in ascending
order the root (page 3) is an internal page with 4 children. -/
theorem internal_node_holds_max_children :
    ((run (BPlusTree.new 4 4)
        [Call.insert 1 1, Call.insert 2 2, Call.insert 3 3, Call.insert 4 4, Call.insert 5 5,
         Call.insert 6 6, Call.insert 7 7, Call.insert 8 8]).bind fun t =>
      (getNode t t.root_page_id).map fun r => (r.IsLeafPage, [r.size, t.internal_max_size]))
      = Except.ok (false, [4, 4]) := by
  decide!

/-! ## Evaluations for the split, underflow and latching claims -/

/-- The split of the internal page 6 of `splitTree`: the donor keeps its first three entries, the
fresh page 7 receives the last two from slot 0, and the moved leaves 4 and 5 name page 7 as
their parent. -/
theorem MoveHalfTo_splitTree :
    ((MoveHalfTo splitTree 6 7).bind fun t =>
      (nodeView t 6).bind fun a =>
      (nodeView t 7).map fun b => ([a, b], parentIds t [1, 2, 3, 4, 5]))
      = Except.ok ([(false, [(0, 1), (10, 2), (20, 3)]), (false, [(30, 4), (40, 5)])],
          [some 6, some 6, some 6, some 7, some 7]) := by
  decide!

/-- The parent split of `pushUpTree`: inserting the separator 40 fills the root page 6, which is
split into page 7, and the key 30 in slot 0 of page 7 becomes the separator in the new root
page 8. -/
theorem InsertIntoParent_pushUpTree :
    ((InsertIntoParent 3 pushUpTree 4 40 5).bind fun t =>
      (nodeView t 8).bind fun r =>
      (nodeView t 6).bind fun a =>
      (nodeView t 7).map fun b => ([r, a, b], t.root_page_id))
      = Except.ok ([(false, [(0, 6), (30, 7)]), (false, [(0, 1), (10, 2), (20, 3)]),
          (false, [(30, 4), (40, 5)])], 8) := by
  decide!
/-- The root collapse of `collapseTree`: page 1 becomes the root with no parent, the header is
told, and the old root page 3, emptied, is put in the deletion set. -/
theorem AdjustRoot_collapseTree :
    ((CoalesceOrRedistribute 2 collapseTree 3).bind fun r =>
      (nodeView r.1 3).map fun a => (r.2, a, r.1.root_page_id))
      = Except.ok (false, (false, []), 1) ∧
    ((CoalesceOrRedistribute 2 collapseTree 3).map fun r =>
      (parentIds r.1 [1], r.1.header_calls, r.1.deleted_page_set))
      = Except.ok ([some (-1)], [(false, 1)], [3]) := by
  refine ⟨?_, ?_⟩ <;> decide!
/-- The choice rule on `siblingTree`: the leaves 1 and 2 (two entries each, leaf max 4) cannot
merge and redistribute with their only sibling; the internal page 5 merges with its right
sibling and the internal page 6 with its left one. -/
theorem chooseAction_siblingTree :
    ([1, 2, 5, 6].map fun node =>
      (readSiblings siblingTree node).map fun s =>
        (chooseAction s.n.GetSize s.n.GetMaxSize s.left_size s.right_size, s.left, s.right))
      = [Except.ok (some Action.redistributeRight, none, some 2),
         Except.ok (some Action.redistributeLeft, some 1, none),
         Except.ok (some Action.mergeRight, none, some 6),
         Except.ok (some Action.mergeLeft, some 5, none)] := by
  decide!
/-- The leaf case of the merge into the left sibling: in `underflowTree` the leaf page 2 is
merged into page 1, `CoalesceOrRedistribute` returns true, and page 2 is in the deletion set
together with the collapsed root page 3. -/
theorem leaf_merge_left_returns_true :
    ((readSiblings underflowTree 2).map fun s =>
      chooseAction s.n.GetSize s.n.GetMaxSize s.left_size s.right_size)
      = Except.ok (some Action.mergeLeft) ∧
    ((CoalesceOrRedistribute 3 underflowTree 2).bind fun r =>
      (nodeView r.1 1).map fun a => (r.2, r.1.deleted_page_set, a))
      = Except.ok (true, [2, 3], (true, [(5, 5), (10, 10), (15, 15)])) := by
  refine ⟨?_, ?_⟩ <;> decide!

/-- The write descent for key 25 in `siblingTree` (path 7, 6, 3).  For `Remove` no page on the
path is safe: the held set is the whole path and the root latch is held.  For `Insert` the leaf
page 3 is safe: the held set is the leaf alone and the root latch is released. -/
theorem crabbing_write_siblingTree :
    ((FindLeafPageCrabbing siblingTree 25 OP_TYPE.DELETE).map fun r =>
      (r.2, r.1.page_set, (r.1.root_latch, r.1.root_latch_cnt), latchesOf r.1 [7, 6, 3])) =
      Except.ok (3, [7, 6, 3], (-1, 1), [some (-1), some (-1), some (-1)]) ∧
    ((FindLeafPageCrabbing siblingTree 25 OP_TYPE.INSERT).map fun r =>
      (r.2, r.1.page_set, (r.1.root_latch, r.1.root_latch_cnt), latchesOf r.1 [7, 6, 3])) =
      Except.ok (3, [3], (0, 0), [some 0, some 0, some (-1)]) ∧
    heldSuffix (safeAt siblingTree OP_TYPE.DELETE) [7, 6, 3] = [7, 6, 3] ∧
    heldSuffix (safeAt siblingTree OP_TYPE.INSERT) [7, 6, 3] = [3] := by
  refine ⟨?_, ?_, ?_, ?_⟩ <;> decide!

/-- The read descent for key 25 in `siblingTree`: the latched pages, the root latch word and the
page stepped down to, after each call of the descent. -/
theorem readTrace_siblingTree :
    ((readTrace siblingTree 25).map fun r =>
      (r.1.map fun e => (latchedPages e.1, e.1.root_latch, e.2), r.2)) =
      Except.ok ([([], 1, none), ([], 1, none), ([7], 1, none), ([7], 1, none),
        ([6, 7], 1, none), ([6, 7], 0, none), ([6], 0, none), ([6], 0, some 6),
        ([6], 0, none), ([3, 6], 0, none), ([3, 6], 0, none), ([3], 0, none),
        ([3], 0, some 3)], 3) := by
  decide!

/-! ## Evaluations for the header and iterator claims -/

/-- C31: with leaf max 3 and internal max 3, the calls Insert 1, 2, 3, Remove 3, 2, 1, Insert 7
make the header calls `InsertRecord(1)` for the first root, `UpdateRecord(3)` for the new root
of the split, `UpdateRecord(1)` for the root collapse, `UpdateRecord(INVALID_PAGE_ID)` for the
tree becoming empty, and again `InsertRecord`, with the root id 4, for the root created after the
tree had become empty. -/
theorem insert_record_again_after_empty :
    ((run (BPlusTree.new 3 3)
        [Call.insert 1 10, Call.insert 2 10, Call.insert 3 10, Call.remove 3, Call.remove 2,
          Call.remove 1, Call.insert 7 7]).map fun t => (t.header_calls, t.root_page_id)) =
      Except.ok ([(true, 1), (false, 3), (false, 1), (false, -1), (true, 4)], 4) := by
  decide!

/-- The four transitions of `operator++` on `twoLeafTree` (leaf 1 `[5,10]`, next leaf 2
`[15,20]`, no leaf after it): slot 0 to slot 1 of leaf 1, last slot of leaf 1 to slot 0 of
leaf 2, last slot of leaf 2 to End, and End to End. -/
theorem next_twoLeafTree :
    ((IndexIterator.next twoLeafTree
        { leaf_page_ := some 1, index_ := 0, bpm_ := true, is_end_ := false }).map Prod.snd =
      Except.ok { leaf_page_ := some 1, index_ := 1, bpm_ := true, is_end_ := false }) ∧
    ((IndexIterator.next twoLeafTree
        { leaf_page_ := some 1, index_ := 1, bpm_ := true, is_end_ := false }).map Prod.snd =
      Except.ok { leaf_page_ := some 2, index_ := 0, bpm_ := true, is_end_ := false }) ∧
    ((IndexIterator.next twoLeafTree
        { leaf_page_ := some 2, index_ := 1, bpm_ := true, is_end_ := false }).map Prod.snd =
      Except.ok { leaf_page_ := some 2, index_ := 1, bpm_ := true, is_end_ := true }) ∧
    ((IndexIterator.next twoLeafTree
        { leaf_page_ := some 2, index_ := 1, bpm_ := true, is_end_ := true }).map Prod.snd =
      Except.ok { leaf_page_ := some 2, index_ := 1, bpm_ := true, is_end_ := true }) ∧
    IndexIterator.eq { leaf_page_ := some 2, index_ := 1, bpm_ := true, is_end_ := true }
      endIterator = true := by
  refine ⟨?_, ?_, ?_, ?_, ?_⟩ <;> decide!

/-- The iterator from `begin()` on `twoLeafTree`, advanced `n` times for `n = 0 .. 5` and then
destroyed: the page it is bound to, whether it is End, the pin counts of the pages 1, 2, 3
before the destruction, and that the destruction gives `twoLeafTree` back. -/
theorem iterState_twoLeafTree :
    ((List.range 6).map fun n =>
      ((iterState twoLeafTree n).2.leaf_page_, (iterState twoLeafTree n).2.isEnd,
        pinsOf (iterState twoLeafTree n).1 [1, 2, 3],
        decide ((iterState twoLeafTree n).2.drop (iterState twoLeafTree n).1 =
          Except.ok twoLeafTree))) =
      [(some 1, false, [some 1, some 0, some 0], true),
       (some 1, false, [some 1, some 0, some 0], true),
       (some 2, false, [some 0, some 1, some 0], true),
       (some 2, false, [some 0, some 1, some 0], true),
       (some 2, true, [some 0, some 1, some 0], true),
       (some 2, true, [some 0, some 1, some 0], true)] ∧
    leafChainOK twoLeafTree = true := by
  refine ⟨?_, ?_⟩ <;> decide!

/-- C10 (evaluation at the failing input): leaf max 4, internal max 4, keys 1 to 16 inserted in
ascending order, then key 16 removed.  Before the `Remove` the internal page 7 holds three
children and its right sibling page 12 two.  `Remove(16)` merges the last two leaves, page 12
underflows and is merged into page 7 by `MoveAllTo`, which writes the one moved slot over slot 0
of page 7 and sets the size of page 7 to the number moved: page 7, an internal page that is not
the root (the root is page 8), is left with a single child, below `⌈4/2⌉ = 2`.  The entries are
root id, internal max size, then for page 7: leaf, root, parent id, size, stored max size,
`GetMinSize`. -/
theorem merge_leaves_internal_page_below_min :
    ((run (BPlusTree.new 4 4) sixteenCalls).bind fun t =>
      (getNode t 7).bind fun n =>
      (getNode t 12).map fun m =>
        (t.root_page_id, n.IsRootPage, [n.size, m.size], parentIds t [5, 6, 9, 10, 11]))
      = Except.ok (8, false, [3, 2], [some 7, some 7, some 7, some 12, some 12]) ∧
    ((run (BPlusTree.new 4 4) (sixteenCalls ++ [Call.remove 16])).bind fun t =>
      (getNode t 7).map fun n =>
        (t.root_page_id, t.internal_max_size, n.IsLeafPage, n.IsRootPage,
          [n.parent_page_id, n.size, n.max_size, n.GetMinSize]))
      = Except.ok (8, 4, false, false, [8, 1, 5, 3]) := by
  refine ⟨?_, ?_⟩ <;> decide!
end bustub

